import Mathlib

/-!
# AppleUSBOHCI UIM: transfer management

A shallow embedding of `AppleUSBOHCI_UIM.cpp` (the OHCI transfer builder, the isochronous
scheduler, the endpoint directory and the endpoint lifecycle code), followed by theorems about it.

Conventions of the embedding.

* A pointer is a `Nat` handle, `0` is `NULL`.  Descriptor memory is a total map from handles to
  records (`eds`, `tds`, `itds`), one map per descriptor kind.
* A hardware word is kept by its value: `USBToHostLong`, `HostToUSBLong` and
  `OSWriteLittleInt32` are byte swaps that cancel in pairs and commute with the bitwise
  operations the code applies to stored words, so they are the identity here.
* `UInt32` arithmetic that can wrap is written with `add32` and `sub32`.
* Everything the driver can change lives in one record, `AppleUSBOHCI`.
-/

namespace OHCI

/-! ## Machine words -/

/-- Two to the power 32. -/
def W32 : Nat := 4294967296

/-- Two to the power 64. -/
def W64 : Nat := 18446744073709551616

/-- `UInt32` addition. -/
def add32 (a b : Nat) : Nat := (a + b) % W32

/-- `UInt32` subtraction. -/
def sub32 (a b : Nat) : Nat := (a % W32 + W32 - b % W32) % W32

/-- `UInt64` addition. -/
def add64 (a b : Nat) : Nat := (a + b) % W64

/-- `UInt64` subtraction. -/
def sub64 (a b : Nat) : Nat := (a % W64 + W64 - b % W64) % W64

/-- The C expression `x & ~m` on 32-bit words. -/
def andNot32 (x m : Nat) : Nat := x &&& (4294967295 ^^^ m)

/-! ## Return codes -/

/-- The `IOReturn` values the UIM returns; `minusOne` is the literal `-1` of
`UIMCreateInterruptEndpoint`. -/
inductive IOReturn where
  | kIOReturnSuccess
  | kIOReturnNoMemory
  | kIOReturnBadArgument
  | kIOReturnInternalError
  | kIOReturnIPCError
  | kIOReturnNoBandwidth
  | kIOReturnIsoTooOld
  | kIOReturnIsoTooNew
  | kIOUSBPipeStalled
  | kIOUSBEndpointNotFound
  | kIOUSBTransactionTimeout
  | minusOne
  deriving DecidableEq, Repr

/-- What running a piece of the driver gives: it returns a value, it runs into undefined
behaviour (an integer division by zero, a store through `NULL`, a read past the end of an array),
or the model ran out of loop fuel. -/
inductive Outcome (α : Type) where
  | ret (a : α)
  | divideByZero
  | nullDereference
  | outOfBounds
  | outOfFuel

/-- Sequencing: carry on with the returned value, pass every other outcome on. -/
def Outcome.bind {α β : Type} (o : Outcome α) (f : α → Outcome β) : Outcome β :=
  match o with
  | .ret a => f a
  | .divideByZero => .divideByZero
  | .nullDereference => .nullDereference
  | .outOfBounds => .outOfBounds
  | .outOfFuel => .outOfFuel

/-! ## Constants

`AppleUSBOHCI.h` and the IOKit USB headers are not among the sources.  The descriptor layout
constants are those of OHCI 1.0a, to which section 6 of the specification binds the layout; the
USB constants are those of the IOKit USB interface.  Constants private to the driver whose
values the sources do not show are fields of `Header`. -/

/-- Modelled from the spec: `kOHCIHeadPointer_H`, the halted bit of an ED head pointer
(bit 0 in OHCI 1.0a). -/
def kOHCIHeadPointer_H : Nat := 1

/-- Modelled from the spec: `kOHCIHeadPointer_C`, the toggle-carry bit of an ED head pointer
(bit 1 in OHCI 1.0a). -/
def kOHCIHeadPointer_C : Nat := 2

/-- Modelled from the spec: `kOHCIHeadPMask`, the address part of a head pointer (bits 4..31). -/
def kOHCIHeadPMask : Nat := 0xFFFFFFF0

/-- Modelled from the spec: `kOHCIEDControl_FA`, function address, bits 0..6 of ED word 0. -/
def kOHCIEDControl_FA : Nat := 0x7F
/-- Modelled from the spec: phase of `kOHCIEDControl_FA`. -/
def kOHCIEDControl_FAPhase : Nat := 0
/-- Modelled from the spec: `kOHCIEDControl_EN`, endpoint number, bits 7..10 of ED word 0. -/
def kOHCIEDControl_EN : Nat := 0x780
/-- Modelled from the spec: phase of `kOHCIEDControl_EN`. -/
def kOHCIEDControl_ENPhase : Nat := 7
/-- Modelled from the spec: `kOHCIEDControl_D`, direction, bits 11..12 of ED word 0. -/
def kOHCIEDControl_D : Nat := 0x1800
/-- Modelled from the spec: phase of `kOHCIEDControl_D`. -/
def kOHCIEDControl_DPhase : Nat := 11
/-- Modelled from the spec: `kOHCIEDControl_S`, speed, bit 13 of ED word 0. -/
def kOHCIEDControl_S : Nat := 0x2000
/-- Modelled from the spec: phase of `kOHCIEDControl_S`. -/
def kOHCIEDControl_SPhase : Nat := 13
/-- Modelled from the spec: `kOHCIEDControl_K`, the skip bit, bit 14 of ED word 0. -/
def kOHCIEDControl_K : Nat := 0x4000
/-- Modelled from the spec: `kOHCIEDControl_F`, format, bit 15 of ED word 0. -/
def kOHCIEDControl_F : Nat := 0x8000
/-- Modelled from the spec: phase of `kOHCIEDControl_F`. -/
def kOHCIEDControl_FPhase : Nat := 15
/-- Modelled from the spec: `kOHCIEDControl_MPS`, max packet size, bits 16..26 of ED word 0. -/
def kOHCIEDControl_MPS : Nat := 0x07FF0000
/-- Modelled from the spec: phase of `kOHCIEDControl_MPS`. -/
def kOHCIEDControl_MPSPhase : Nat := 16

/-- Modelled from the spec: `kOHCIEDDirectionTD` (direction taken from the TD). -/
def kOHCIEDDirectionTD : Nat := 0
/-- Modelled from the spec: `kOHCIEDDirectionOut`. -/
def kOHCIEDDirectionOut : Nat := 1
/-- Modelled from the spec: `kOHCIEDDirectionIn`. -/
def kOHCIEDDirectionIn : Nat := 2
/-- Modelled from the spec: `kOHCIEDSpeedFull`. -/
def kOHCIEDSpeedFull : Nat := 0
/-- Modelled from the spec: `kOHCIEDSpeedLow`. -/
def kOHCIEDSpeedLow : Nat := 1
/-- Modelled from the spec: `kOHCIEDFormatGeneralTD`. -/
def kOHCIEDFormatGeneralTD : Nat := 0
/-- Modelled from the spec: `kOHCIEDFormatIsochronousTD`. -/
def kOHCIEDFormatIsochronousTD : Nat := 1

/-- Modelled from the spec: `kOHCIEndpointNumberOffset`, the position of the endpoint number in
the lookup key (that of `kOHCIEDControl_EN`). -/
def kOHCIEndpointNumberOffset : Nat := 7
/-- Modelled from the spec: `kOHCIEndpointDirectionOffset`, the position of the direction in
the lookup key (that of `kOHCIEDControl_D`). -/
def kOHCIEndpointDirectionOffset : Nat := 11
/-- Modelled from the spec: `kUniqueNumMask`, address, endpoint number and direction
(bits 0..12). -/
def kUniqueNumMask : Nat := 0x1FFF
/-- Modelled from the spec: `kUniqueNumNoDirMask`, address and endpoint number (bits 0..10). -/
def kUniqueNumNoDirMask : Nat := 0x7FF

/-- Modelled from the spec: `kOHCIGTDControl_R`, buffer rounding, bit 18 of TD word 0. -/
def kOHCIGTDControl_R : Nat := 0x40000
/-- Modelled from the spec: `kOHCIGTDControl_DI`, delay interrupt, bits 21..23 of TD word 0. -/
def kOHCIGTDControl_DI : Nat := 0xE00000
/-- Modelled from the spec: phase of `kOHCIGTDControl_DI`. -/
def kOHCIGTDControl_DIPhase : Nat := 21
/-- Modelled from the spec: `kOHCIGTDControl_CC`, condition code, bits 28..31 of TD word 0. -/
def kOHCIGTDControl_CC : Nat := 0xF0000000
/-- Modelled from the spec: phase of `kOHCIGTDControl_CC`. -/
def kOHCIGTDControl_CCPhase : Nat := 28
/-- Modelled from the spec: `kOHCIGTDConditionNotAccessed`, condition code 1111b. -/
def kOHCIGTDConditionNotAccessed : Nat := 15
/-- Modelled from the spec: `kOHCIDirectionOffset`, the position of the PID field (bits 19..20)
of TD word 0. -/
def kOHCIDirectionOffset : Nat := 19
/-- Modelled from the spec: `kOHCIGTDPIDSetup`. -/
def kOHCIGTDPIDSetup : Nat := 0
/-- Modelled from the spec: `kOHCIGTDPIDOut`. -/
def kOHCIGTDPIDOut : Nat := 1
/-- Modelled from the spec: `kOHCIGTDPIDIn`. -/
def kOHCIGTDPIDIn : Nat := 2
/-- Modelled from the spec: `kOHCIBit24`. -/
def kOHCIBit24 : Nat := 0x1000000
/-- Modelled from the spec: `kOHCIBit25`. -/
def kOHCIBit25 : Nat := 0x2000000

/-- Modelled from the spec: `kOHCIITDControl_FCPhase`, the position of the frame count field
(bits 24..26) of iTD word 0. -/
def kOHCIITDControl_FCPhase : Nat := 24
/-- Modelled from the spec: `kOHCIITDOffset_CCPhase`, the position of the condition code
(bits 13..15) of an iTD offset word. -/
def kOHCIITDOffset_CCPhase : Nat := 13
/-- Modelled from the spec: `kOHCIITDOffsetConditionNotAccessed`, condition code 111b of an
offset word. -/
def kOHCIITDOffsetConditionNotAccessed : Nat := 7
/-- Modelled from the spec: `kOHCIPageSize`, the 4 KiB page of the OHCI buffer pointers. -/
def kOHCIPageSize : Nat := 4096
/-- Modelled from the spec: `kOHCIPageOffsetMask`, `kOHCIPageSize - 1`. -/
def kOHCIPageOffsetMask : Nat := 0xFFF
/-- Modelled from the spec: `kOHCIPageMask`, `~kOHCIPageOffsetMask`. -/
def kOHCIPageMask : Nat := 0xFFFFF000

/-- Modelled from the spec: `kOHCIHcCommandStatus_CLF`, control list filled (bit 1). -/
def kOHCIHcCommandStatus_CLF : Nat := 2
/-- Modelled from the spec: `kOHCIHcCommandStatus_BLF`, bulk list filled (bit 2). -/
def kOHCIHcCommandStatus_BLF : Nat := 4
/-- Modelled from the spec: `kOHCIHcControl_CLE`, control list enable (bit 4). -/
def kOHCIHcControl_CLE : Nat := 0x10
/-- Modelled from the spec: `kOHCIHcControl_BLE`, bulk list enable (bit 5). -/
def kOHCIHcControl_BLE : Nat := 0x20
/-- Modelled from the spec: `kOHCIHcInterrupt_SF`, start of frame (bit 2). -/
def kOHCIHcInterrupt_SF : Nat := 4
/-- Modelled from the spec: `kOHCIInterruptSOFMask`, the start-of-frame status bit. -/
def kOHCIInterruptSOFMask : Nat := 4

/-- Modelled from the spec: `kUSBOut` of the IOKit USB interface. -/
def kUSBOut : Nat := 0
/-- Modelled from the spec: `kUSBIn` of the IOKit USB interface. -/
def kUSBIn : Nat := 1
/-- Modelled from the spec: `kUSBDeviceSpeedLow` of the IOKit USB interface. -/
def kUSBDeviceSpeedLow : Nat := 0
/-- Modelled from the spec: `kUSBDeviceSpeedFull` of the IOKit USB interface. -/
def kUSBDeviceSpeedFull : Nat := 1
/-- Modelled from the spec: `kUSBMaxIsocFrameReqCount`, the protocol's maximum isochronous
payload of one frame. -/
def kUSBMaxIsocFrameReqCount : Nat := 1023

/-- Modelled from the spec: the constants private to the driver (`AppleUSBOHCI.h`,
`IOUSBController.h`) that the sources name without showing their values. -/
structure Header where
  kUIMFlagsLastTD : Nat
  kErrataOnlySinglePageTransfers : Nat
  kOHCIControlSetupType : Nat
  kOHCIBulkTransferOutType : Nat
  kOHCIInterruptInType : Nat
  kOHCIIsochronousInType : Nat
  kOHCIIsochronousOutType : Nat
  kOHCIIsochronousInLowLatencyType : Nat
  kOHCIIsochronousOutLowLatencyType : Nat
  kUSBLowLatencyIsochTransferKey : Nat

/-! ## Integer conversions of the parameters

A `short` is kept as its 16-bit two's-complement pattern, a `UInt8` or `UInt16` as its value. -/

/-- The conversion `(UInt32) x` of a `short`: sign extension of the 16-bit pattern. -/
def UInt32ofShort (x : Nat) : Nat :=
  if x % 65536 < 32768 then x % 65536 else x % 65536 + 4294901760

/-- The conversion of an integer to `UInt8`. -/
def toUInt8 (x : Nat) : Nat := x % 256

/-- The conversion of an integer to `UInt16` (and to the pattern of a `short`). -/
def toUInt16 (x : Nat) : Nat := x % 65536

/-- The `UInt32` left shift. -/
def shl32 (x n : Nat) : Nat := (x <<< n) % W32

/-! ## Data model -/

/-- One physical run of a buffer, as `IOMemoryCursor` reports it. -/
structure IOPhysicalSegment where
  location : Nat
  length : Nat
  deriving DecidableEq, Repr

/-- Modelled from the spec: buffer-to-physical-segment resolution (`getPhysicalSegments` of the
memory cursors is not among the sources).  Given an offset into the buffer, a maximum segment
count and a maximum transfer size (`0` is no limit) it gives the contiguous physical runs that
start at the offset.  A memory descriptor is kept as the way the cursors resolve it. -/
structure IOMemoryDescriptor where
  resolve : (offset : Nat) → (maxSegments : Nat) → (maxTransferSize : Nat) → List IOPhysicalSegment

/-- The two-slot segment array on the stack of the transfer builders. -/
structure SegmentArray where
  seg0 : IOPhysicalSegment
  seg1 : IOPhysicalSegment
  deriving DecidableEq, Repr

/-- The slot `segs[i]` for `i` 0 or 1. -/
def SegmentArray.get (a : SegmentArray) (i : Nat) : IOPhysicalSegment :=
  if i = 0 then a.seg0 else a.seg1

/-- Modelled from the spec: the call `cursor->getPhysicalSegments(buffer, offset, segs, max, size)`.
The cursor writes the runs it found into the leading slots of the caller's array, leaves the
others as they were, and returns how many it wrote (at most `max`, here at most two). -/
def getPhysicalSegments (buffer : IOMemoryDescriptor) (offset : Nat) (segs : SegmentArray)
    (maxSegments maxTransferSize : Nat) : Nat × SegmentArray :=
  match (buffer.resolve offset maxSegments maxTransferSize).take (min maxSegments 2) with
  | [] => (0, segs)
  | [s0] => (1, { segs with seg0 := s0 })
  | s0 :: s1 :: _ => (2, { seg0 := s0, seg1 := s1 })

/-- The completion a client attaches to a transfer. -/
structure IOUSBCompletion where
  target : Nat
  action : Nat
  parameter : Nat
  deriving DecidableEq, Repr

/-- The part of an `IOUSBCommand` the UIM reads and writes. -/
structure IOUSBCommand where
  address : Nat
  endpoint : Nat
  direction : Nat
  buffer : IOMemoryDescriptor
  reqCount : Nat
  bufferRounding : Bool
  completion : IOUSBCompletion
  noDataTimeout : Nat
  completionTimeout : Nat
  uimScratch : Nat

/-- The general transfer descriptor, hardware words first, then the driver's fields. -/
structure OHCIGeneralTransferDescriptor where
  ohciFlags : Nat
  currentBufferPtr : Nat
  nextTD : Nat
  bufferEnd : Nat
  pType : Nat
  command : Nat
  pPhysical : Nat
  pLogicalNext : Nat
  pEndpoint : Nat
  uimFlags : Nat
  lastFrame : Nat
  lastRemaining : Nat
  deriving DecidableEq, Repr

/-- The isochronous transfer descriptor, hardware words first, then the driver's fields.
The offset words are indexed by `Nat` so that a write past slot 7 would show. -/
structure OHCIIsochTransferDescriptor where
  flags : Nat
  bufferPage0 : Nat
  nextTD : Nat
  bufferEnd : Nat
  offset : Nat → Nat
  pType : Nat
  pIsocFrame : Nat
  frameNum : Nat
  completion : IOUSBCompletion
  pPhysical : Nat
  pLogicalNext : Nat

/-- The endpoint descriptor, hardware words first, then the driver's fields. -/
structure OHCIEndpointDescriptor where
  flags : Nat
  tdQueueTailPtr : Nat
  tdQueueHeadPtr : Nat
  nextED : Nat
  pPhysical : Nat
  pLogicalNext : Nat
  pLogicalTailP : Nat
  pLogicalHeadP : Nat
  deriving DecidableEq, Repr

/-- One slot of `_pInterruptHead`. -/
structure OHCIIntHead where
  pHead : Nat
  pTail : Nat
  nodeBandwidth : Nat
  deriving DecidableEq, Repr

/-- One entry of a client's isochronous frame list (both the plain and the low latency kind;
the time stamp of the latter is not touched by the UIM). -/
structure IOUSBIsocFrame where
  frStatus : Nat
  frReqCount : Nat
  frActCount : Nat
  deriving DecidableEq, Repr

/-- The registers of the controller that the UIM touches. -/
inductive OHCIRegister where
  | hcControl
  | hcCommandStatus
  | hcInterruptStatus
  | hcInterruptEnable
  | hcHCCA
  | hcControlHeadED
  | hcBulkHeadED
  | hcFmInterval
  | hcFmNumber
  | hcPeriodicStart
  deriving DecidableEq, Repr

/-- The driver instance together with the memory it works on: the descriptor arenas, the
descriptor pools, the clients' commands and frame lists, and the controller's registers with
the sequence of writes made to them (most recent first). -/
structure AppleUSBOHCI where
  pageSize : Nat
  errataBits : Nat
  OptiOn : Bool
  rootHubFuncAddress : Nat
  isochBandwidthAvail : Nat
  pControlHead : Nat
  pControlTail : Nat
  pBulkHead : Nat
  pBulkTail : Nat
  pIsochHead : Nat
  pIsochTail : Nat
  pInterruptHead : Nat → OHCIIntHead
  eds : Nat → OHCIEndpointDescriptor
  tds : Nat → OHCIGeneralTransferDescriptor
  itds : Nat → OHCIIsochTransferDescriptor
  pFreeED : List Nat
  pFreeTD : List Nat
  pFreeITD : List Nat
  commands : Nat → IOUSBCommand
  isocFrames : Nat → Nat → IOUSBIsocFrame
  frameNumber : Nat
  pOHCIRegisters : OHCIRegister → Nat
  registerWrites : List (OHCIRegister × Nat)

/-- A store to a controller register. -/
def writeRegister (st : AppleUSBOHCI) (r : OHCIRegister) (v : Nat) : AppleUSBOHCI :=
  { st with pOHCIRegisters := Function.update st.pOHCIRegisters r v,
            registerWrites := (r, v) :: st.registerWrites }

/-- A store to the fields of the general transfer descriptor `p`. -/
def setTD (st : AppleUSBOHCI) (p : Nat)
    (f : OHCIGeneralTransferDescriptor → OHCIGeneralTransferDescriptor) : AppleUSBOHCI :=
  { st with tds := Function.update st.tds p (f (st.tds p)) }

/-- A store to the fields of the isochronous transfer descriptor `p`. -/
def setITD (st : AppleUSBOHCI) (p : Nat)
    (f : OHCIIsochTransferDescriptor → OHCIIsochTransferDescriptor) : AppleUSBOHCI :=
  { st with itds := Function.update st.itds p (f (st.itds p)) }

/-- A store to the fields of the endpoint descriptor `p`. -/
def setED (st : AppleUSBOHCI) (p : Nat)
    (f : OHCIEndpointDescriptor → OHCIEndpointDescriptor) : AppleUSBOHCI :=
  { st with eds := Function.update st.eds p (f (st.eds p)) }

/-! ## The descriptor pool -/

/-- Modelled from the spec: `AllocateTD` of the descriptor pool, which is not among the
sources.  It hands out an unused general transfer descriptor, or `NULL` (`none`) when the pool
is exhausted; the descriptor keeps its physical address, and its `uimFlags` are zero (the
comment in `CreateGeneralTransfer` says that `AllocateTD` zeroes them). -/
def AllocateTD (st : AppleUSBOHCI) : Option Nat × AppleUSBOHCI :=
  match st.pFreeTD with
  | [] => (none, st)
  | p :: rest =>
    (some p, { st with pFreeTD := rest,
                       tds := Function.update st.tds p { st.tds p with uimFlags := 0 } })

/-- Modelled from the spec: `AllocateITD` of the descriptor pool, which is not among the
sources.  It hands out an unused isochronous transfer descriptor, or `NULL` (`none`) when the
pool is exhausted; the descriptor keeps its physical address. -/
def AllocateITD (st : AppleUSBOHCI) : Option Nat × AppleUSBOHCI :=
  match st.pFreeITD with
  | [] => (none, st)
  | p :: rest => (some p, { st with pFreeITD := rest })

/-- Modelled from the spec: `DeallocateITD` of the descriptor pool, which is not among the
sources.  It returns the descriptor to the pool. -/
def DeallocateITD (st : AppleUSBOHCI) (p : Nat) : AppleUSBOHCI :=
  { st with pFreeITD := st.pFreeITD ++ [p] }

/-- Modelled from the spec: `AllocateED` of the descriptor pool, which is not among the
sources.  It hands out an unused endpoint descriptor, or `NULL` (`none`) when the pool is
exhausted; the descriptor keeps its physical address. -/
def AllocateED (st : AppleUSBOHCI) : Option Nat × AppleUSBOHCI :=
  match st.pFreeED with
  | [] => (none, st)
  | p :: rest => (some p, { st with pFreeED := rest })

/-! ## CreateGeneralTransfer -/

/-- The `flags` word of `CreateGeneralTransfer` after line 69: the caller's flags with the
condition code set to not accessed. -/
def generalTransferFlags (flags : Nat) : Nat :=
  flags ||| shl32 kOHCIGTDConditionNotAccessed kOHCIGTDControl_CCPhase

/-- The `altFlags` word of `CreateGeneralTransfer` (lines 72 and 77), used for all but the
final TD: buffer rounding cleared, delay interrupt 111b. -/
def generalTransferAltFlags (flags : Nat) : Nat :=
  andNot32 (generalTransferFlags flags) kOHCIGTDControl_R ||| shl32 7 kOHCIGTDControl_DIPhase

/-- The state of the `while` loop of `CreateGeneralTransfer`: the driver, the stack array
`physicalAddresses`, and `transferOffset`. -/
structure GeneralTransferLoop where
  st : AppleUSBOHCI
  physicalAddresses : SegmentArray
  transferOffset : Nat

/-- The variables with which `CreateGeneralTransfer` enters its loop (line 95; the array
`physicalAddresses` is not initialised, its first reading follows the first call of the cursor
unless the cursor finds no segment). -/
def GeneralTransferLoop.init (st : AppleUSBOHCI) : GeneralTransferLoop :=
  { st := st, physicalAddresses := { seg0 := ⟨0, 0⟩, seg1 := ⟨0, 0⟩ }, transferOffset := 0 }

/-- Lines 98 to 101: the cursor is asked for one segment when the controller has the
single-page erratum, for two otherwise.  The result is `pageCount` and the array. -/
def CreateGeneralTransfer.segments (H : Header) (CBP : IOMemoryDescriptor)
    (l : GeneralTransferLoop) : Nat × SegmentArray :=
  if l.st.errataBits &&& H.kErrataOnlySinglePageTransfers ≠ 0 then
    getPhysicalSegments CBP l.transferOffset l.physicalAddresses 1 0
  else
    getPhysicalSegments CBP l.transferOffset l.physicalAddresses 2 0

/-- The condition of lines 109 and 110: two segments were resolved, and the first does not end
on a page boundary or the second does not start on one. -/
def CreateGeneralTransfer.mustSplit (pageSize pageCount : Nat)
    (physicalAddresses : SegmentArray) : Bool :=
  pageCount = 2 ∧
    ((add32 physicalAddresses.seg0.location physicalAddresses.seg0.length
        &&& sub32 pageSize 1) ≠ 0
      ∨ (physicalAddresses.seg1.location &&& sub32 pageSize 1) ≠ 0)

/-- The value of `pageCount` after line 112: one when the transfer is split. -/
def CreateGeneralTransfer.pagesUsed (split : Bool) (pageCount : Nat) : Nat :=
  if split then 1 else pageCount

/-- The value of `transferOffset` after lines 127 and 136. -/
def CreateGeneralTransfer.nextOffset (transferOffset pageCount : Nat)
    (physicalAddresses : SegmentArray) : Nat :=
  add32
    (if pageCount = 2 then add32 transferOffset physicalAddresses.seg1.length
     else transferOffset)
    physicalAddresses.seg0.length

/-- Lines 121 to 152: fill in the placeholder at the tail of the queue, link the new descriptor
behind it, make the new descriptor the tail and write the kick bits.  `final` is the test
`transferOffset >= bufferSize` of line 140. -/
def CreateGeneralTransfer.append (H : Header) (st : AppleUSBOHCI)
    (queue command flags type kickBits newOHCIGeneralTransferDescriptor pageCount : Nat)
    (physicalAddresses : SegmentArray) (final : Bool) : AppleUSBOHCI :=
  let pOHCIGeneralTransferDescriptor := (st.eds queue).pLogicalTailP
  let bufferEnd :=
    if pageCount = 2 then
      sub32 (add32 physicalAddresses.seg1.location physicalAddresses.seg1.length) 1
    else
      sub32 (add32 physicalAddresses.seg0.location physicalAddresses.seg0.length) 1
  let st := setTD st pOHCIGeneralTransferDescriptor fun td =>
    { td with currentBufferPtr := physicalAddresses.seg0.location,
              nextTD := (st.tds newOHCIGeneralTransferDescriptor).pPhysical,
              bufferEnd := bufferEnd,
              pLogicalNext := newOHCIGeneralTransferDescriptor,
              pEndpoint := queue, pType := type, command := command,
              ohciFlags :=
                if final then generalTransferFlags flags else generalTransferAltFlags flags,
              uimFlags :=
                if final then td.uimFlags ||| H.kUIMFlagsLastTD
                else andNot32 td.uimFlags H.kUIMFlagsLastTD }
  let st := setED st queue fun ed =>
    { ed with tdQueueTailPtr := (st.tds pOHCIGeneralTransferDescriptor).nextTD,
              pLogicalTailP := newOHCIGeneralTransferDescriptor }
  writeRegister st .hcCommandStatus kickBits

/-- One pass through the body of the `while` loop of `CreateGeneralTransfer` (lines 98 to 152),
entered with `transferOffset < bufferSize`.  The result is either the status of a `break`
with the state at the break, or the state with which the loop test is evaluated again. -/
def CreateGeneralTransfer.body (H : Header) (queue command : Nat) (CBP : IOMemoryDescriptor)
    (bufferSize flags type kickBits : Nat) (l : GeneralTransferLoop) :
    Outcome (Sum (IOReturn × AppleUSBOHCI) GeneralTransferLoop) :=
  let pageCount := (CreateGeneralTransfer.segments H CBP l).1
  let physicalAddresses := (CreateGeneralTransfer.segments H CBP l).2
  match AllocateTD l.st with
  | (none, st) => .ret (.inl (.kIOReturnNoMemory, st))
  | (some newOHCIGeneralTransferDescriptor, st) =>
    let split := CreateGeneralTransfer.mustSplit l.st.pageSize pageCount physicalAddresses
    let maxPacketSize :=
      ((st.eds queue).flags &&& kOHCIEDControl_MPS) >>> kOHCIEDControl_MPSPhase
    if split ∧ maxPacketSize = 0 then .divideByZero
    else if split ∧ physicalAddresses.seg0.length % maxPacketSize ≠ 0 then
      .ret (.inl (.kIOReturnNoMemory, st))
    else
      let pageCount := CreateGeneralTransfer.pagesUsed split pageCount
      let transferOffset :=
        CreateGeneralTransfer.nextOffset l.transferOffset pageCount physicalAddresses
      .ret (.inr
        { st := CreateGeneralTransfer.append H st queue command flags type kickBits
                  newOHCIGeneralTransferDescriptor pageCount physicalAddresses
                  (transferOffset ≥ bufferSize),
          physicalAddresses := physicalAddresses,
          transferOffset := transferOffset })

/-- The `while (transferOffset < bufferSize)` loop of `CreateGeneralTransfer`, with the number
of passes bounded by `fuel`. -/
def CreateGeneralTransfer.loop (H : Header) (queue command : Nat) (CBP : IOMemoryDescriptor)
    (bufferSize flags type kickBits : Nat) :
    Nat → GeneralTransferLoop → Outcome (IOReturn × AppleUSBOHCI)
  | 0, _ => .outOfFuel
  | fuel + 1, l =>
    if l.transferOffset < bufferSize then
      (CreateGeneralTransfer.body H queue command CBP bufferSize flags type kickBits l).bind
        fun r => match r with
        | .inl r => .ret r
        | .inr l =>
          CreateGeneralTransfer.loop H queue command CBP bufferSize flags type kickBits fuel l
    else .ret (.kIOReturnSuccess, l.st)

/-- The function `AppleUSBOHCI::CreateGeneralTransfer` (lines 46 to 193).  Every pass of its loop
takes a descriptor from the pool or leaves the loop, so the size of the pool plus two bounds
the number of evaluations of the loop test. -/
def CreateGeneralTransfer (H : Header) (st : AppleUSBOHCI) (queue command : Nat)
    (CBP : IOMemoryDescriptor) (bufferSize flags type kickBits : Nat) :
    Outcome (IOReturn × AppleUSBOHCI) :=
  if (st.eds queue).tdQueueHeadPtr &&& kOHCIHeadPointer_H ≠ 0 then
    .ret (.kIOUSBPipeStalled, st)
  else if bufferSize ≠ 0 then
    CreateGeneralTransfer.loop H queue command CBP bufferSize flags type kickBits
      (st.pFreeTD.length + 2) (GeneralTransferLoop.init st)
  else
    match AllocateTD st with
    | (none, st) => .ret (.kIOReturnNoMemory, st)
    | (some newOHCIGeneralTransferDescriptor, st) =>
      let pOHCIGeneralTransferDescriptor := (st.eds queue).pLogicalTailP
      let st := setTD st pOHCIGeneralTransferDescriptor fun td =>
        { td with ohciFlags := generalTransferFlags flags,
                  nextTD := (st.tds newOHCIGeneralTransferDescriptor).pPhysical,
                  pLogicalNext := newOHCIGeneralTransferDescriptor,
                  pEndpoint := queue, pType := type }
      let st := setTD st pOHCIGeneralTransferDescriptor fun td =>
        { td with currentBufferPtr := 0, bufferEnd := 0, command := command,
                  uimFlags := td.uimFlags ||| H.kUIMFlagsLastTD }
      let st := setED st queue fun ed =>
        { ed with tdQueueTailPtr := (st.tds pOHCIGeneralTransferDescriptor).nextTD,
                  pLogicalTailP := newOHCIGeneralTransferDescriptor }
      .ret (.kIOReturnSuccess, writeRegister st .hcCommandStatus kickBits)

/-! ## Collaborators outside the UIM -/

/-- Modelled from the spec: the collaborators of the UIM that are not among the sources, each
an arbitrary effect on the driver and its memory: the root hub simulation, the retirement
routines of the completion path, the physical to logical translation, and `IOSleep`, during
which the controller runs. -/
structure Collaborators where
  SimulateControlEDCreate : (maxPacketSize : Nat) → AppleUSBOHCI → IOReturn × AppleUSBOHCI
  SimulateInterruptEDCreate : (maxPacketSize pollingRate : Nat) → AppleUSBOHCI →
    IOReturn × AppleUSBOHCI
  SimulateRootHubInt : (endpoint : Nat) → IOMemoryDescriptor → (reqCount : Nat) →
    IOUSBCompletion → AppleUSBOHCI → AppleUSBOHCI
  SimulateEDAbort : (endpointNumber direction : Nat) → AppleUSBOHCI → IOReturn × AppleUSBOHCI
  SimulateEDDelete : (endpointNumber direction : Nat) → AppleUSBOHCI → IOReturn × AppleUSBOHCI
  SimulateEDClearStall : (endpointNumber direction : Nat) → AppleUSBOHCI →
    IOReturn × AppleUSBOHCI
  RemoveTDs : (pED : Nat) → AppleUSBOHCI → AppleUSBOHCI
  RemoveAllTDs : (pED : Nat) → AppleUSBOHCI → AppleUSBOHCI
  DeallocateED : (pED : Nat) → AppleUSBOHCI → AppleUSBOHCI
  ReturnTransactions : (transaction tail : Nat) → AppleUSBOHCI → AppleUSBOHCI
  GetLogicalAddress : AppleUSBOHCI → (pPhysical : Nat) → Nat
  IOSleep : (ms : Nat) → AppleUSBOHCI → AppleUSBOHCI

/-- Modelled from the spec: `GetFrameNumber`, the 64-bit frame counter derived from the
hardware, which is not among the sources; the state carries its current value. -/
def GetFrameNumber (st : AppleUSBOHCI) : Nat := st.frameNumber % W64

/-! ## The endpoint directory -/

/-- The static function `GetEDType` (lines 38 to 42). -/
def GetEDType (st : AppleUSBOHCI) (pED : Nat) : Nat :=
  ((st.eds pED).flags &&& kOHCIEDControl_F) >>> kOHCIEDControl_FPhase

/-- The function `AppleUSBOHCI::AddEmptyEndPoint` (lines 1190 to 1264).  The result of
`AllocateED` is used without a test, so an exhausted endpoint descriptor pool is a store through
`NULL`. -/
def AddEmptyEndPoint (st : AppleUSBOHCI)
    (functionAddress endpointNumber maxPacketSize speed direction pED format : Nat) :
    Outcome (Option Nat × AppleUSBOHCI) :=
  let functionAddress := toUInt8 functionAddress
  let endpointNumber := toUInt8 endpointNumber
  let maxPacketSize := toUInt16 maxPacketSize
  let speed := toUInt8 speed
  let direction := toUInt8 direction
  match AllocateED st with
  | (none, _) => .nullDereference
  | (some pOHCIEndpointDescriptor, st) =>
    let myFunctionAddress := shl32 functionAddress kOHCIEDControl_FAPhase
    let myEndpointNumber := shl32 endpointNumber kOHCIEDControl_ENPhase
    let myEndpointDirection := shl32 direction kOHCIEDControl_DPhase
    let mySpeed :=
      if speed = kUSBDeviceSpeedFull then shl32 kOHCIEDSpeedFull kOHCIEDControl_SPhase
      else shl32 kOHCIEDSpeedLow kOHCIEDControl_SPhase
    let myMaxPacketSize := shl32 maxPacketSize kOHCIEDControl_MPSPhase
    let myFormat := shl32 format kOHCIEDControl_FPhase
    let st := setED st pOHCIEndpointDescriptor fun ed =>
      { ed with flags := myFunctionAddress ||| myEndpointNumber ||| myEndpointDirection
                           ||| myMaxPacketSize ||| mySpeed ||| myFormat }
    let linkIn (st : AppleUSBOHCI) : Outcome (Option Nat × AppleUSBOHCI) :=
      let st := setED st pOHCIEndpointDescriptor fun ed =>
        { ed with nextED := (st.eds pED).nextED, pLogicalNext := (st.eds pED).pLogicalNext }
      let st := setED st pED fun ed =>
        { ed with pLogicalNext := pOHCIEndpointDescriptor,
                  nextED := (st.eds pOHCIEndpointDescriptor).pPhysical }
      .ret (some pOHCIEndpointDescriptor, st)
    if format = kOHCIEDFormatGeneralTD then
      match AllocateTD st with
      | (none, st) => .ret (none, st)
      | (some pOHCIGeneralTransferDescriptor, st) =>
        linkIn (setED st pOHCIEndpointDescriptor fun ed =>
          { ed with tdQueueTailPtr := (st.tds pOHCIGeneralTransferDescriptor).pPhysical,
                    tdQueueHeadPtr := (st.tds pOHCIGeneralTransferDescriptor).pPhysical,
                    pLogicalTailP := pOHCIGeneralTransferDescriptor,
                    pLogicalHeadP := pOHCIGeneralTransferDescriptor })
    else
      match AllocateITD st with
      | (none, st) => .ret (none, st)
      | (some pITD, st) =>
        linkIn (setED st pOHCIEndpointDescriptor fun ed =>
          { ed with tdQueueTailPtr := (st.itds pITD).pPhysical,
                    tdQueueHeadPtr := (st.itds pITD).pPhysical,
                    pLogicalTailP := pITD,
                    pLogicalHeadP := pITD })

/-- The search loop shared by the four `Find...Endpoint` functions: starting at `pEDQueue` with
predecessor `pEDQueueBack`, follow `pLogicalNext` until `tail`, and stop at the first endpoint
descriptor whose flags under `mask` equal `unique`.  The result is the descriptor found and its
predecessor, or `none` for `NULL`. -/
def searchEDList (st : AppleUSBOHCI) (mask unique tail : Nat) :
    Nat → (pEDQueueBack pEDQueue : Nat) → Outcome (Option (Nat × Nat))
  | 0, _, _ => .outOfFuel
  | fuel + 1, pEDQueueBack, pEDQueue =>
    if pEDQueue ≠ tail then
      if pEDQueue = 0 then .nullDereference
      else if (st.eds pEDQueue).flags &&& mask = unique then .ret (some (pEDQueue, pEDQueueBack))
      else searchEDList st mask unique tail fuel pEDQueue (st.eds pEDQueue).pLogicalNext
    else .ret none

/-- The function `AppleUSBOHCI::FindBulkEndpoint` (lines 1308 to 1343). -/
def FindBulkEndpoint (st : AppleUSBOHCI) (fuel : Nat)
    (functionNumber endpointNumber direction : Nat) : Outcome (Option (Nat × Nat)) :=
  let myEndpointDirection := shl32 (UInt32ofShort direction) kOHCIEndpointDirectionOffset
  let unique := shl32 (UInt32ofShort endpointNumber) kOHCIEndpointNumberOffset
    ||| UInt32ofShort functionNumber ||| myEndpointDirection
  searchEDList st kUniqueNumMask unique st.pBulkTail fuel st.pBulkHead
    (st.eds st.pBulkHead).pLogicalNext

/-- The function `AppleUSBOHCI::FindControlEndpoint` (lines 1268 to 1304). -/
def FindControlEndpoint (st : AppleUSBOHCI) (fuel : Nat)
    (functionNumber endpointNumber : Nat) : Outcome (Option (Nat × Nat)) :=
  let unique := shl32 (UInt32ofShort endpointNumber) kOHCIEndpointNumberOffset
    ||| UInt32ofShort functionNumber
  (searchEDList st kUniqueNumNoDirMask unique st.pControlTail fuel st.pControlHead
    (st.eds st.pControlHead).pLogicalNext).bind fun r =>
    match r with
    | some found => .ret (some found)
    | none =>
      if st.OptiOn then FindBulkEndpoint st fuel functionNumber endpointNumber kOHCIEDDirectionTD
      else .ret none

/-- The function `AppleUSBOHCI::FindIsochronousEndpoint` (lines 1394 to 1427). -/
def FindIsochronousEndpoint (st : AppleUSBOHCI) (fuel : Nat)
    (functionNumber endpointNumber direction : Nat) : Outcome (Option (Nat × Nat)) :=
  let myEndpointDirection := shl32 (UInt32ofShort direction) kOHCIEndpointDirectionOffset
  let unique := shl32 (UInt32ofShort endpointNumber) kOHCIEndpointNumberOffset
    ||| UInt32ofShort functionNumber ||| myEndpointDirection
  searchEDList st kUniqueNumMask unique st.pIsochTail fuel st.pIsochHead
    (st.eds st.pIsochHead).pLogicalNext

/-- The `for` loop of `FindInterruptEndpoint` from slot `i` on, `n` slots to go. -/
def FindInterruptEndpoint.slots (st : AppleUSBOHCI) (fuel unique : Nat) :
    (n i : Nat) → Outcome (Option (Nat × Nat))
  | 0, _ => .ret none
  | n + 1, i =>
    (searchEDList st kUniqueNumMask unique (st.pInterruptHead i).pTail fuel
      (st.pInterruptHead i).pHead (st.eds (st.pInterruptHead i).pHead).pLogicalNext).bind fun r =>
      match r with
      | some found => .ret (some found)
      | none => FindInterruptEndpoint.slots st fuel unique n (i + 1)

/-- The function `AppleUSBOHCI::FindInterruptEndpoint` (lines 1430 to 1470). -/
def FindInterruptEndpoint (st : AppleUSBOHCI) (fuel : Nat)
    (functionNumber endpointNumber direction : Nat) : Outcome (Option (Nat × Nat)) :=
  let myEndpointDirection := shl32 (UInt32ofShort direction) kOHCIEndpointDirectionOffset
  let unique := shl32 (UInt32ofShort endpointNumber) kOHCIEDControl_ENPhase
    ||| shl32 (UInt32ofShort functionNumber) kOHCIEDControl_FAPhase ||| myEndpointDirection
  FindInterruptEndpoint.slots st fuel unique 63 0

/-- The function `AppleUSBOHCI::FindEndpoint` (lines 1347 to 1391): the endpoint descriptor
found, its predecessor and the control mask of its list, or `none` for `NULL`. -/
def FindEndpoint (st : AppleUSBOHCI) (fuel : Nat)
    (functionNumber endpointNumber direction : Nat) : Outcome (Option (Nat × Nat × Nat)) :=
  (FindControlEndpoint st fuel functionNumber endpointNumber).bind fun r =>
    match r with
    | some (pED, pEDBack) => .ret (some (pED, pEDBack, kOHCIHcControl_CLE))
    | none =>
      (FindBulkEndpoint st fuel functionNumber endpointNumber direction).bind fun r =>
        match r with
        | some (pED, pEDBack) =>
          .ret (some (pED, pEDBack, if st.OptiOn then kOHCIHcControl_CLE else kOHCIHcControl_BLE))
        | none =>
          (FindInterruptEndpoint st fuel functionNumber endpointNumber direction).bind fun r =>
            match r with
            | some (pED, pEDBack) => .ret (some (pED, pEDBack, 0))
            | none =>
              (FindIsochronousEndpoint st fuel functionNumber endpointNumber direction).bind
                fun r =>
                match r with
                | some (pED, pEDBack) => .ret (some (pED, pEDBack, 0))
                | none => .ret none

/-- The direction conversion that opens the endpoint and transfer entry points:
`kUSBOut` to `kOHCIEDDirectionOut`, `kUSBIn` to `kOHCIEDDirectionIn`, anything else to
`kOHCIEDDirectionTD`. -/
def edDirection (direction : Nat) : Nat :=
  if direction = kUSBOut then kOHCIEDDirectionOut
  else if direction = kUSBIn then kOHCIEDDirectionIn
  else kOHCIEDDirectionTD

/-! ## Endpoint creation -/

/-- Modelled from the spec: `kOHCIFmNumberMask`, the 16 bits of the frame number register. -/
def kOHCIFmNumberMask : Nat := 0xFFFF

/-- The function `AppleUSBOHCI::DetermineInterruptOffset` (lines 1472 to 1496): `none` is the
result `false`, `some offset` the result `true` with `*offset` set. -/
def DetermineInterruptOffset (st : AppleUSBOHCI) (pollingRate : Nat) : Option Nat :=
  let num := st.pOHCIRegisters .hcFmNumber &&& kOHCIFmNumberMask
  if pollingRate < 1 then none
  else if pollingRate < 2 then some 62
  else if pollingRate < 4 then some (num % 2 + 60)
  else if pollingRate < 8 then some (num % 4 + 56)
  else if pollingRate < 16 then some (num % 8 + 48)
  else if pollingRate < 32 then some (num % 16 + 32)
  else some (num % 32 + 0)

/-- The function `AppleUSBOHCI::UIMCreateControlEndpoint` (lines 197 to 239). -/
def UIMCreateControlEndpoint (X : Collaborators) (st : AppleUSBOHCI)
    (functionAddress endpointNumber maxPacketSize speed : Nat) : Outcome (IOReturn × AppleUSBOHCI) :=
  if st.rootHubFuncAddress = functionAddress then
    if endpointNumber ≠ 0 ∧ speed = kUSBDeviceSpeedLow then .ret (.kIOReturnBadArgument, st)
    else .ret (X.SimulateControlEDCreate maxPacketSize st)
  else
    let pED := if speed = kUSBDeviceSpeedFull ∧ st.OptiOn then st.pBulkHead else st.pControlHead
    (AddEmptyEndPoint st functionAddress endpointNumber maxPacketSize speed kOHCIEDDirectionTD
      pED kOHCIEDFormatGeneralTD).bind fun r =>
      match r with
      | (none, st) => .ret (.kIOReturnNoMemory, st)
      | (some _, st) => .ret (.kIOReturnSuccess, st)

/-- The function `AppleUSBOHCI::UIMCreateBulkEndpoint` (lines 389 to 421); `maxPacketSize` is a
`UInt8` parameter. -/
def UIMCreateBulkEndpoint (st : AppleUSBOHCI)
    (functionAddress endpointNumber direction speed maxPacketSize : Nat) :
    Outcome (IOReturn × AppleUSBOHCI) :=
  let maxPacketSize := toUInt8 maxPacketSize
  let direction := edDirection direction
  let pED := st.pBulkHead
  (AddEmptyEndPoint st functionAddress endpointNumber maxPacketSize speed direction pED
    kOHCIEDFormatGeneralTD).bind fun r =>
    match r with
    | (none, st) => .ret (.kIOReturnNoMemory, st)
    | (some _, st) => .ret (.kIOReturnSuccess, st)

/-- The function `AppleUSBOHCI::UIMCreateInterruptEndpoint` (lines 489 to 550); `speed` and
`pollingRate` are `short` parameters, compared as signed values. -/
def UIMCreateInterruptEndpoint (X : Collaborators) (st : AppleUSBOHCI)
    (functionAddress endpointNumber direction speed maxPacketSize pollingRate : Nat) :
    Outcome (IOReturn × AppleUSBOHCI) :=
  if st.rootHubFuncAddress = functionAddress then
    if endpointNumber ≠ 1 ∨ speed ≠ kUSBDeviceSpeedFull ∨ direction ≠ kUSBIn then
      .ret (.kIOReturnBadArgument, st)
    else .ret (X.SimulateInterruptEDCreate maxPacketSize pollingRate st)
  else
    let direction := edDirection direction
    let pollingRate :=
      if st.OptiOn ∧ speed = kUSBDeviceSpeedFull ∧ (8 ≤ pollingRate ∧ pollingRate < 32768) then 7
      else pollingRate
    match DetermineInterruptOffset st (UInt32ofShort pollingRate) with
    | none => .ret (.kIOReturnNoBandwidth, st)
    | some offset =>
      let pED := (st.pInterruptHead offset).pHead
      (AddEmptyEndPoint st functionAddress endpointNumber maxPacketSize speed direction pED
        kOHCIEDFormatGeneralTD).bind fun r =>
        match r with
        | (none, st) => .ret (.minusOne, st)
        | (some _, st) =>
          let node := st.pInterruptHead offset
          let node := { node with nodeBandwidth := add32 node.nodeBandwidth (toUInt16 maxPacketSize) }
          .ret (.kIOReturnSuccess,
            { st with pInterruptHead := Function.update st.pInterruptHead offset node })

/-- The function `AppleUSBOHCI::UIMCreateIsochEndpoint` (lines 626 to 703); `maxPacketSize` is a
`UInt32` parameter. -/
def UIMCreateIsochEndpoint (st : AppleUSBOHCI) (fuel : Nat)
    (functionAddress endpointNumber maxPacketSize direction : Nat) :
    Outcome (IOReturn × AppleUSBOHCI) :=
  let direction := edDirection direction
  (FindIsochronousEndpoint st fuel functionAddress endpointNumber direction).bind fun r =>
    match r with
    | some (pED, _) =>
      let edFlags := (st.eds pED).flags
      let curMaxPacketSize := (edFlags &&& kOHCIEDControl_MPS) >>> kOHCIEDControl_MPSPhase
      if maxPacketSize = curMaxPacketSize then .ret (.kIOReturnSuccess, st)
      else if maxPacketSize > curMaxPacketSize ∧
          sub32 maxPacketSize curMaxPacketSize > st.isochBandwidthAvail then
        .ret (.kIOReturnNoBandwidth, st)
      else
        let isochBandwidthAvail :=
          if maxPacketSize > curMaxPacketSize then
            sub32 st.isochBandwidthAvail (sub32 maxPacketSize curMaxPacketSize)
          else
            add32 st.isochBandwidthAvail (sub32 curMaxPacketSize maxPacketSize)
        let st := { st with isochBandwidthAvail := isochBandwidthAvail }
        let edFlags := andNot32 edFlags kOHCIEDControl_MPS
        let edFlags := edFlags ||| shl32 maxPacketSize kOHCIEDControl_MPSPhase
        .ret (.kIOReturnSuccess, setED st pED fun ed => { ed with flags := edFlags })
    | none =>
      if maxPacketSize > st.isochBandwidthAvail then .ret (.kIOReturnNoBandwidth, st)
      else
        let st := { st with isochBandwidthAvail := sub32 st.isochBandwidthAvail maxPacketSize }
        let pED := st.pIsochHead
        (AddEmptyEndPoint st functionAddress endpointNumber maxPacketSize kUSBDeviceSpeedFull
          direction pED kOHCIEDFormatIsochronousTD).bind fun r =>
          match r with
          | (none, st) =>
            .ret (.kIOReturnNoMemory,
              { st with isochBandwidthAvail := add32 st.isochBandwidthAvail maxPacketSize })
          | (some _, st) => .ret (.kIOReturnSuccess, st)

/-! ## Control, bulk and interrupt transfers -/

/-- The function `AppleUSBOHCI::UIMCreateControlTransfer` on a command and a memory descriptor
(lines 260 to 315). -/
def UIMCreateControlTransfer (H : Header) (st : AppleUSBOHCI) (fuel : Nat)
    (functionAddress endpointNumber command : Nat) (CBP : IOMemoryDescriptor)
    (bufferRounding : Bool) (bufferSize direction : Nat) : Outcome (IOReturn × AppleUSBOHCI) :=
  let direction :=
    if direction = kUSBOut then kOHCIGTDPIDOut
    else if direction = kUSBIn then kOHCIGTDPIDIn
    else kOHCIGTDPIDSetup
  (FindControlEndpoint st fuel functionAddress endpointNumber).bind fun r =>
    match r with
    | none => .ret (.kIOUSBEndpointNotFound, st)
    | some (pEDQueue, _) =>
      let myBufferRounding := if bufferRounding then kOHCIGTDControl_R else 0
      let myDirection := shl32 (UInt32ofShort direction) kOHCIDirectionOffset
      let myToggle := if direction ≠ 0 then kOHCIBit25 ||| kOHCIBit24 else kOHCIBit25
      CreateGeneralTransfer H st pEDQueue command CBP bufferSize
        (myBufferRounding ||| myDirection ||| myToggle) H.kOHCIControlSetupType
        kOHCIHcCommandStatus_CLF

/-- The function `AppleUSBOHCI::UIMCreateBulkTransfer` on a command (lines 442 to 484). -/
def UIMCreateBulkTransfer (H : Header) (st : AppleUSBOHCI) (fuel : Nat) (command : Nat) :
    Outcome (IOReturn × AppleUSBOHCI) :=
  let cmd := st.commands command
  let direction := edDirection cmd.direction
  let buffer := cmd.buffer
  (FindBulkEndpoint st fuel cmd.address cmd.endpoint direction).bind fun r =>
    match r with
    | none => .ret (.kIOUSBEndpointNotFound, st)
    | some (pEDQueue, _) =>
      let myBufferRounding := if cmd.bufferRounding then kOHCIGTDControl_R else 0
      let TDDirection := shl32 (UInt32ofShort direction) kOHCIDirectionOffset
      let kickBits :=
        if st.OptiOn then kOHCIHcCommandStatus_BLF ||| kOHCIHcCommandStatus_CLF
        else kOHCIHcCommandStatus_BLF
      CreateGeneralTransfer H st pEDQueue command buffer cmd.reqCount
        (myBufferRounding ||| TDDirection) H.kOHCIBulkTransferOutType kickBits

/-- The function `AppleUSBOHCI::UIMCreateInterruptTransfer` on a command (lines 571 to 621). -/
def UIMCreateInterruptTransfer (H : Header) (X : Collaborators) (st : AppleUSBOHCI) (fuel : Nat)
    (command : Nat) : Outcome (IOReturn × AppleUSBOHCI) :=
  let cmd := st.commands command
  let buffer := cmd.buffer
  if st.rootHubFuncAddress = cmd.address then
    .ret (.kIOReturnSuccess,
      X.SimulateRootHubInt cmd.endpoint buffer cmd.reqCount cmd.completion st)
  else
    let direction := edDirection cmd.direction
    (FindInterruptEndpoint st fuel cmd.address cmd.endpoint direction).bind fun r =>
      match r with
      | some (pEDQueue, _) =>
        let myBufferRounding := if cmd.bufferRounding then kOHCIGTDControl_R else 0
        let myToggle := 0
        let myDirection := shl32 (UInt32ofShort direction) kOHCIDirectionOffset
        CreateGeneralTransfer H st pEDQueue command buffer cmd.reqCount
          (myBufferRounding ||| myDirection ||| myToggle) H.kOHCIInterruptInType 0
      | none => .ret (.kIOUSBEndpointNotFound, st)

/-! ## Endpoint lifecycle -/

/-- The wait for a frame boundary shared by `UIMAbortEndpoint` and `UIMDeleteEndpoint`: clear
the start-of-frame status, sleep a millisecond, and sleep another one if the status bit is
still clear. -/
def waitForSOF (X : Collaborators) (st : AppleUSBOHCI) : AppleUSBOHCI :=
  let st := writeRegister st .hcInterruptStatus kOHCIHcInterrupt_SF
  let st := X.IOSleep 1 st
  let something := st.pOHCIRegisters .hcInterruptStatus &&& kOHCIInterruptSOFMask
  if something = 0 then X.IOSleep 1 st else st

/-- The function `AppleUSBOHCI::UIMAbortEndpoint` (lines 964 to 1024). -/
def UIMAbortEndpoint (X : Collaborators) (st : AppleUSBOHCI) (fuel : Nat)
    (functionAddress endpointNumber direction : Nat) : Outcome (IOReturn × AppleUSBOHCI) :=
  if functionAddress = st.rootHubFuncAddress then
    if endpointNumber ≠ 1 ∧ endpointNumber ≠ 0 then .ret (.kIOReturnBadArgument, st)
    else .ret (X.SimulateEDAbort endpointNumber direction st)
  else
    let direction := edDirection direction
    (FindEndpoint st fuel functionAddress endpointNumber direction).bind fun r =>
      match r with
      | none => .ret (.kIOUSBEndpointNotFound, st)
      | some (pED, _, _) =>
        let st := setED st pED fun ed => { ed with flags := ed.flags ||| kOHCIEDControl_K }
        let st := waitForSOF X st
        let st := X.RemoveTDs pED st
        let st := setED st pED fun ed =>
          { ed with flags := andNot32 ed.flags kOHCIEDControl_K }
        .ret (.kIOReturnSuccess, st)

/-- The function `AppleUSBOHCI::UIMDeleteEndpoint` (lines 1028 to 1123). -/
def UIMDeleteEndpoint (X : Collaborators) (st : AppleUSBOHCI) (fuel : Nat)
    (functionAddress endpointNumber direction : Nat) : Outcome (IOReturn × AppleUSBOHCI) :=
  if functionAddress = st.rootHubFuncAddress then
    if endpointNumber ≠ 1 ∧ endpointNumber ≠ 0 then .ret (.kIOReturnBadArgument, st)
    else .ret (X.SimulateEDDelete endpointNumber direction st)
  else
    let direction := edDirection direction
    (FindEndpoint st fuel functionAddress endpointNumber direction).bind fun r =>
      match r with
      | none => .ret (.kIOUSBEndpointNotFound, st)
      | some (pED, pEDQueueBack, controlMask) =>
        let st := setED st pED fun ed => { ed with flags := ed.flags ||| kOHCIEDControl_K }
        let st := setED st pEDQueueBack fun ed => { ed with nextED := (st.eds pED).nextED }
        let st := setED st pEDQueueBack fun ed =>
          { ed with pLogicalNext := (st.eds pED).pLogicalNext }
        let hcControl := st.pOHCIRegisters .hcControl
        let hcControl := andNot32 hcControl controlMask
        let hcControl := hcControl &&& 0x7FF
        let st := writeRegister st .hcControl hcControl
        let st := waitForSOF X st
        let hcControl := hcControl ||| controlMask
        let st := writeRegister st .hcControl hcControl
        let st :=
          if GetEDType st pED = kOHCIEDFormatIsochronousTD then
            let maxPacketSize :=
              ((st.eds pED).flags &&& kOHCIEDControl_MPS) >>> kOHCIEDControl_MPSPhase
            { st with isochBandwidthAvail := add32 st.isochBandwidthAvail maxPacketSize }
          else st
        let st := X.RemoveAllTDs pED st
        let st := setED st pED fun ed => { ed with nextED := 0 }
        .ret (.kIOReturnSuccess, X.DeallocateED pED st)

/-- The function `AppleUSBOHCI::UIMClearEndpointStall` (lines 1127 to 1186). -/
def UIMClearEndpointStall (X : Collaborators) (st : AppleUSBOHCI) (fuel : Nat)
    (functionAddress endpointNumber direction : Nat) : Outcome (IOReturn × AppleUSBOHCI) :=
  if st.rootHubFuncAddress = functionAddress then
    if endpointNumber ≠ 1 ∧ endpointNumber ≠ 0 then .ret (.kIOReturnBadArgument, st)
    else .ret (X.SimulateEDClearStall endpointNumber direction st)
  else
    let direction := edDirection direction
    (FindEndpoint st fuel functionAddress endpointNumber direction).bind fun r =>
      match r with
      | none => .ret (.kIOUSBEndpointNotFound, st)
      | some (pED, _, _) =>
        let tail := (st.eds pED).tdQueueTailPtr
        let transaction :=
          X.GetLogicalAddress st ((st.eds pED).tdQueueHeadPtr &&& kOHCIHeadPMask)
        let st := setED st pED fun ed => { ed with tdQueueHeadPtr := ed.tdQueueTailPtr }
        let st := setED st pED fun ed => { ed with pLogicalHeadP := ed.pLogicalTailP }
        let st := if transaction ≠ 0 then X.ReturnTransactions transaction tail st else st
        .ret (.kIOReturnSuccess, st)

/-! ## Isochronous transfers -/

/-- The element `segs[numSegs-1]`; with `numSegs` zero the index is past the end of the
array. -/
def SegmentArray.last (a : SegmentArray) (numSegs : Nat) : Outcome IOPhysicalSegment :=
  if numSegs = 1 then .ret a.seg0 else if numSegs = 2 then .ret a.seg1 else .outOfBounds

/-- The start frame test of both `UIMCreateIsochTransfer` variants (lines 770 to 791 and 2002 to
2027), in `UInt64` arithmetic with `maxOffset = 0x7FF0`: the error to return, or `none` to go on. -/
def isochFrameWindow (frameNumberStart curFrameNumber : Nat) : Option IOReturn :=
  let maxOffset := 0x00007FF0
  if frameNumberStart ≤ curFrameNumber then
    if frameNumberStart < sub64 curFrameNumber maxOffset then some .kIOReturnIsoTooOld
    else none
  else
    if frameNumberStart > add64 curFrameNumber maxOffset then some .kIOReturnIsoTooNew
    else none

/-- The `for` loop of lines 796 to 804 from frame `i` on, `n` frames to go: the total size of
the buffer, or `none` when a frame asks for more than `kUSBMaxIsocFrameReqCount`. -/
def UIMCreateIsochTransfer.bufferSize (st : AppleUSBOHCI) (pFrames : Nat) :
    (n i bufferSize : Nat) → Option Nat
  | 0, _, bufferSize => some bufferSize
  | n + 1, i, bufferSize =>
    if (st.isocFrames pFrames i).frReqCount > kUSBMaxIsocFrameReqCount then none
    else UIMCreateIsochTransfer.bufferSize st pFrames n (i + 1)
      (add32 bufferSize (st.isocFrames pFrames i).frReqCount)

/-- The variables of the frame packing loop of `UIMCreateIsochTransfer`. -/
structure IsochTransferLoop where
  st : AppleUSBOHCI
  pTailITD : Nat
  pNewITD : Nat
  curFrameInRequest : Nat
  curFrameInTD : Nat
  pageOffset : Nat
  lastPhysical : Nat
  itdFlags : Nat
  numSegs : Nat
  physPageStart : Nat
  physPageEnd : Nat
  pageSelectMask : Nat
  needNewITD : Bool
  segs : SegmentArray
  transferOffset : Nat

/-- Lines 833 to 841 (and 2075 to 2083): get the physical segments of the next frame. -/
def IsochTransferLoop.getSegments (l : IsochTransferLoop) (pBuffer : IOMemoryDescriptor)
    (pFrames bufferSize : Nat) : IsochTransferLoop :=
  if ¬ l.needNewITD ∧ bufferSize ≠ 0 then
    let resolved := getPhysicalSegments pBuffer l.transferOffset l.segs 2
      (l.st.isocFrames pFrames l.curFrameInRequest).frReqCount
    let numSegs := resolved.1
    let segs := resolved.2
    let transferOffset := add32 l.transferOffset segs.seg0.length
    let transferOffset :=
      if numSegs = 2 then add32 transferOffset segs.seg1.length else transferOffset
    { l with numSegs := numSegs, segs := segs,
             pageOffset := segs.seg0.location &&& kOHCIPageOffsetMask,
             transferOffset := transferOffset }
  else l

/-- Lines 843 to 871 (and 2085 to 2113): open the iTD with its first frame, or account for a
frame that starts on another page than the first one. -/
def IsochTransferLoop.placeOnPage (l : IsochTransferLoop) (pFrames frameNumber tdType : Nat) :
    Outcome IsochTransferLoop :=
  if l.curFrameInTD = 0 then
    let physPageStart := l.segs.seg0.location &&& kOHCIPageMask
    let itdFlags := toUInt16 (add32 l.curFrameInRequest frameNumber)
    let st := setITD l.st l.pTailITD fun itd =>
      { itd with pIsocFrame := pFrames, frameNum := l.curFrameInRequest, pType := tdType,
                 bufferPage0 := physPageStart }
    .ret { l with physPageStart := physPageStart, pageSelectMask := 0, needNewITD := false,
                  itdFlags := itdFlags, st := st }
  else if l.segs.seg0.location &&& kOHCIPageMask ≠ l.physPageStart then
    if l.pageSelectMask ≠ 0 ∧
        (l.segs.seg0.location &&& kOHCIPageMask ≠ l.physPageEnd ∨ l.numSegs = 2) then
      .ret { l with needNewITD := true }
    else
      (l.segs.last l.numSegs).bind fun seg =>
        .ret { l with pageSelectMask := kOHCIPageSize,
                      physPageEnd := seg.location &&& kOHCIPageMask }
  else .ret l

/-- Lines 902 to 914 (and 2154 to 2167): put the frame into the current iTD. -/
def IsochTransferLoop.addFrame (l : IsochTransferLoop) : Outcome IsochTransferLoop :=
  let word := toUInt16 (l.pageOffset ||| l.pageSelectMask |||
    shl32 kOHCIITDOffsetConditionNotAccessed kOHCIITDOffset_CCPhase)
  let st := setITD l.st l.pTailITD fun itd =>
    { itd with offset := Function.update itd.offset l.curFrameInTD word }
  (l.segs.last l.numSegs).bind fun seg =>
    .ret { l with st := st, curFrameInRequest := add32 l.curFrameInRequest 1,
                  curFrameInTD := add32 l.curFrameInTD 1,
                  lastPhysical := sub32 (add32 seg.location seg.length) 1 }

/-- One pass through the `while` loop of the standard `UIMCreateIsochTransfer` (lines 833 to
914): `inl` is the `break` on an exhausted pool, `inr` the state at the next loop test. -/
def UIMCreateIsochTransfer.body (pBuffer : IOMemoryDescriptor)
    (pFrames frameNumber tdType bufferSize : Nat) (l : IsochTransferLoop) :
    Outcome (Sum IsochTransferLoop IsochTransferLoop) :=
  ((l.getSegments pBuffer pFrames bufferSize).placeOnPage pFrames frameNumber tdType).bind
    fun l =>
    if l.curFrameInTD > 7 ∨ l.needNewITD then
      let itdFlags := l.itdFlags ||| shl32 (sub32 l.curFrameInTD 1) kOHCIITDControl_FCPhase
      let st := setITD l.st l.pTailITD fun itd => { itd with bufferEnd := l.lastPhysical }
      let l := { l with needNewITD := true, itdFlags := itdFlags, curFrameInTD := 0 }
      match AllocateITD st with
      | (none, st) => .ret (.inl { l with st := st, pNewITD := 0 })
      | (some pNewITD, st) =>
        let itdFlags :=
          itdFlags ||| shl32 kOHCIGTDConditionNotAccessed kOHCIGTDControl_CCPhase
        let itdFlags := itdFlags ||| shl32 0x7 kOHCIGTDControl_DIPhase
        let st := setITD st l.pTailITD fun itd =>
          { itd with flags := itdFlags, completion := { itd.completion with action := 0 } }
        let pTailITD := (st.itds l.pTailITD).pLogicalNext
        let st := setITD st pTailITD fun itd =>
          { itd with nextTD := (st.itds pNewITD).pPhysical, pLogicalNext := pNewITD }
        .ret (.inr { l with st := st, pNewITD := pNewITD, itdFlags := itdFlags,
                            pTailITD := pTailITD })
    else l.addFrame.bind fun l => .ret (.inr l)

/-- The `while (curFrameInRequest < frameCount)` loop of the standard `UIMCreateIsochTransfer`,
with the number of passes bounded by `fuel`: the status and the variables at the exit. -/
def UIMCreateIsochTransfer.loop (pBuffer : IOMemoryDescriptor)
    (frameCount pFrames frameNumber tdType bufferSize : Nat) :
    Nat → IsochTransferLoop → Outcome (IOReturn × IsochTransferLoop)
  | 0, _ => .outOfFuel
  | fuel + 1, l =>
    if l.curFrameInRequest < frameCount then
      (UIMCreateIsochTransfer.body pBuffer pFrames frameNumber tdType bufferSize l).bind
        fun r => match r with
        | .inl l => .ret (.kIOReturnNoMemory, l)
        | .inr l =>
          UIMCreateIsochTransfer.loop pBuffer frameCount pFrames frameNumber tdType bufferSize
            fuel l
    else .ret (.kIOReturnSuccess, l)

/-- The `while (pTailITD != pNewITD)` loop of the failure path (lines 925 to 930 and 2178 to
2183), with the number of passes bounded by `fuel`. -/
def unlinkITDs (pNewITD : Nat) : Nat → AppleUSBOHCI → (pTailITD : Nat) → Outcome AppleUSBOHCI
  | 0, _, _ => .outOfFuel
  | fuel + 1, st, pTailITD =>
    if pTailITD ≠ pNewITD then
      if pTailITD = 0 then .nullDereference
      else unlinkITDs pNewITD fuel (DeallocateITD st pTailITD) (st.itds pTailITD).pLogicalNext
    else .ret st

/-- The end of both `UIMCreateIsochTransfer` variants (lines 917 to 958 and 2170 to 2200): on
a failure the new iTDs are unlinked and given back, on success the last iTD is completed and
the new tail is published in the endpoint descriptor. -/
def UIMCreateIsochTransfer.finish (fuel pED : Nat) (completion : IOUSBCompletion)
    (status : IOReturn) (l : IsochTransferLoop) : Outcome (IOReturn × AppleUSBOHCI) :=
  let st := l.st
  if status ≠ .kIOReturnSuccess then
    let pNewITD := (st.itds l.pTailITD).pLogicalNext
    let pTempITD := (st.eds pED).pLogicalTailP
    let pTailITD := (st.itds pTempITD).pLogicalNext
    let st := setITD st pTempITD fun itd => { itd with pLogicalNext := 0, nextTD := 0 }
    (unlinkITDs pNewITD fuel st pTailITD).bind fun st => .ret (status, st)
  else
    let itdFlags := l.itdFlags ||| shl32 (sub32 l.curFrameInTD 1) kOHCIITDControl_FCPhase
    let st := setITD st l.pTailITD fun itd =>
      { itd with flags := itdFlags, bufferEnd := l.lastPhysical, completion := completion }
    let st := setED st pED fun ed =>
      { ed with pLogicalTailP := l.pNewITD, tdQueueTailPtr := (st.itds l.pNewITD).pPhysical }
    .ret (status, st)

/-- The variables with which the frame packing loop is entered (lines 819 to 830). -/
def IsochTransferLoop.init (st : AppleUSBOHCI) (pED pNewITD bufferSize : Nat) :
    IsochTransferLoop :=
  let pTailITD := (st.eds pED).pLogicalTailP
  let st := setITD st pTailITD fun itd =>
    { itd with nextTD := (st.itds pNewITD).pPhysical, pLogicalNext := pNewITD }
  { st := st, pTailITD := pTailITD, pNewITD := pNewITD, curFrameInRequest := 0,
    curFrameInTD := 0, pageOffset := 0, lastPhysical := 0, itdFlags := 0,
    numSegs := if bufferSize = 0 then 1 else 0,
    physPageStart := 0, physPageEnd := 0, pageSelectMask := 0, needNewITD := false,
    segs := { seg0 := ⟨0, 0⟩, seg1 := ⟨0, 0⟩ }, transferOffset := 0 }

/-- The standard `UIMCreateIsochTransfer` from the point where the endpoint descriptor `pED`
has been found (lines 770 to 958).  Two passes of the loop per frame are enough, as every pass
that closes an iTD is followed by one that places a frame. -/
def UIMCreateIsochTransfer.queue (st : AppleUSBOHCI) (fuel pED : Nat)
    (completion : IOUSBCompletion) (frameNumberStart : Nat) (pBuffer : IOMemoryDescriptor)
    (frameCount pFrames tdType : Nat) : Outcome (IOReturn × AppleUSBOHCI) :=
  match isochFrameWindow (frameNumberStart % W64) (GetFrameNumber st) with
  | some error => .ret (error, st)
  | none =>
    match UIMCreateIsochTransfer.bufferSize st pFrames frameCount 0 0 with
    | none => .ret (.kIOReturnBadArgument, st)
    | some bufferSize =>
      match AllocateITD st with
      | (none, st) => .ret (.kIOReturnNoMemory, st)
      | (some pNewITD, st) =>
        (UIMCreateIsochTransfer.loop pBuffer frameCount pFrames (toUInt16 frameNumberStart)
          tdType bufferSize (2 * frameCount + 2)
          (IsochTransferLoop.init st pED pNewITD bufferSize)).bind fun r =>
          UIMCreateIsochTransfer.finish fuel pED completion r.1 r.2

/-- The standard function `AppleUSBOHCI::UIMCreateIsochTransfer` (lines 707 to 960). -/
def UIMCreateIsochTransfer (H : Header) (st : AppleUSBOHCI) (fuel : Nat)
    (functionAddress endpointNumber : Nat) (completion : IOUSBCompletion)
    (direction frameNumberStart : Nat) (pBuffer : IOMemoryDescriptor)
    (frameCount pFrames : Nat) : Outcome (IOReturn × AppleUSBOHCI) :=
  if frameCount = 0 ∨ frameCount > 1000 then .ret (.kIOReturnBadArgument, st)
  else if direction ≠ kUSBOut ∧ direction ≠ kUSBIn then .ret (.kIOReturnInternalError, st)
  else
    let tdType :=
      if direction = kUSBOut then H.kOHCIIsochronousOutType else H.kOHCIIsochronousInType
    let direction := if direction = kUSBOut then kOHCIEDDirectionOut else kOHCIEDDirectionIn
    (FindIsochronousEndpoint st fuel functionAddress endpointNumber direction).bind fun r =>
      match r with
      | none => .ret (.kIOUSBEndpointNotFound, st)
      | some (pED, _) =>
        UIMCreateIsochTransfer.queue st fuel pED completion frameNumberStart pBuffer frameCount
          pFrames tdType

/-- The `for` loop of lines 2032 to 2044 of the low latency variant from frame `i` on, `n`
frames to go: as in the standard variant, and the status of every frame that passed the test
is set to `kUSBLowLatencyIsochTransferKey`. -/
def UIMCreateIsochTransferLL.bufferSize (H : Header) (pFrames : Nat) :
    (n i bufferSize : Nat) → AppleUSBOHCI → Option Nat × AppleUSBOHCI
  | 0, _, bufferSize, st => (some bufferSize, st)
  | n + 1, i, bufferSize, st =>
    if (st.isocFrames pFrames i).frReqCount > kUSBMaxIsocFrameReqCount then (none, st)
    else
      let bufferSize := add32 bufferSize (st.isocFrames pFrames i).frReqCount
      let frames := st.isocFrames pFrames
      let frame := { frames i with frStatus := H.kUSBLowLatencyIsochTransferKey }
      UIMCreateIsochTransferLL.bufferSize H pFrames n (i + 1) bufferSize
        { st with isocFrames := Function.update st.isocFrames pFrames
                    (Function.update frames i frame) }

/-- One pass through the `while` loop of the low latency `UIMCreateIsochTransfer` (lines 2075
to 2167): `inl` is the `break` on an exhausted pool, `inr` the state at the next loop test. -/
def UIMCreateIsochTransferLL.body (pBuffer : IOMemoryDescriptor)
    (pFrames frameNumber tdType bufferSize updateFrequency : Nat) (l : IsochTransferLoop) :
    Outcome (Sum IsochTransferLoop IsochTransferLoop) :=
  let useUpdateFrequency : Bool := updateFrequency ≠ 0
  ((l.getSegments pBuffer pFrames bufferSize).placeOnPage pFrames frameNumber tdType).bind
    fun l =>
    if l.curFrameInTD > 7 ∨ l.needNewITD ∨
        (useUpdateFrequency ∧ l.curFrameInTD ≥ updateFrequency) then
      let itdFlags := l.itdFlags ||| shl32 (sub32 l.curFrameInTD 1) kOHCIITDControl_FCPhase
      let st := setITD l.st l.pTailITD fun itd => { itd with bufferEnd := l.lastPhysical }
      match AllocateITD st with
      | (none, st) =>
        .ret (.inl { l with st := st, pNewITD := 0, itdFlags := itdFlags, curFrameInTD := 0,
                            needNewITD := true })
      | (some pNewITD, st) =>
        let itdFlags :=
          itdFlags ||| shl32 kOHCIGTDConditionNotAccessed kOHCIGTDControl_CCPhase
        let itdFlags :=
          if ¬ (useUpdateFrequency ∧ l.curFrameInTD ≥ updateFrequency) then
            itdFlags ||| shl32 0x7 kOHCIGTDControl_DIPhase
          else itdFlags
        let st := setITD st l.pTailITD fun itd =>
          { itd with flags := itdFlags, completion := { itd.completion with action := 0 } }
        let pTailITD := (st.itds l.pTailITD).pLogicalNext
        let st := setITD st pTailITD fun itd =>
          { itd with nextTD := (st.itds pNewITD).pPhysical, pLogicalNext := pNewITD }
        .ret (.inr { l with st := st, pNewITD := pNewITD, itdFlags := itdFlags,
                            curFrameInTD := 0, needNewITD := true, pTailITD := pTailITD })
    else l.addFrame.bind fun l => .ret (.inr l)

/-- The `while (curFrameInRequest < frameCount)` loop of the low latency
`UIMCreateIsochTransfer`, with the number of passes bounded by `fuel`. -/
def UIMCreateIsochTransferLL.loop (pBuffer : IOMemoryDescriptor)
    (frameCount pFrames frameNumber tdType bufferSize updateFrequency : Nat) :
    Nat → IsochTransferLoop → Outcome (IOReturn × IsochTransferLoop)
  | 0, _ => .outOfFuel
  | fuel + 1, l =>
    if l.curFrameInRequest < frameCount then
      (UIMCreateIsochTransferLL.body pBuffer pFrames frameNumber tdType bufferSize
        updateFrequency l).bind
        fun r => match r with
        | .inl l => .ret (.kIOReturnNoMemory, l)
        | .inr l =>
          UIMCreateIsochTransferLL.loop pBuffer frameCount pFrames frameNumber tdType bufferSize
            updateFrequency fuel l
    else .ret (.kIOReturnSuccess, l)

/-- The low latency `UIMCreateIsochTransfer` from the point where the endpoint descriptor `pED`
has been found (lines 1999 to 2200). -/
def UIMCreateIsochTransferLL.queue (H : Header) (st : AppleUSBOHCI) (fuel pED : Nat)
    (completion : IOUSBCompletion) (frameNumberStart : Nat) (pBuffer : IOMemoryDescriptor)
    (frameCount pFrames updateFrequency tdType : Nat) : Outcome (IOReturn × AppleUSBOHCI) :=
  match isochFrameWindow (frameNumberStart % W64) (GetFrameNumber st) with
  | some error => .ret (error, st)
  | none =>
    match UIMCreateIsochTransferLL.bufferSize H pFrames frameCount 0 0 st with
    | (none, st) => .ret (.kIOReturnBadArgument, st)
    | (some bufferSize, st) =>
      match AllocateITD st with
      | (none, st) => .ret (.kIOReturnNoMemory, st)
      | (some pNewITD, st) =>
        (UIMCreateIsochTransferLL.loop pBuffer frameCount pFrames (toUInt16 frameNumberStart)
          tdType bufferSize updateFrequency (2 * frameCount + 2)
          (IsochTransferLoop.init st pED pNewITD bufferSize)).bind fun r =>
          UIMCreateIsochTransfer.finish fuel pED completion r.1 r.2

/-- The low latency function `AppleUSBOHCI::UIMCreateIsochTransfer` (lines 1934 to 2202). -/
def UIMCreateIsochTransferLL (H : Header) (st : AppleUSBOHCI) (fuel : Nat)
    (functionAddress endpointNumber : Nat) (completion : IOUSBCompletion)
    (direction frameNumberStart : Nat) (pBuffer : IOMemoryDescriptor)
    (frameCount pFrames updateFrequency : Nat) : Outcome (IOReturn × AppleUSBOHCI) :=
  if frameCount = 0 ∨ frameCount > 1000 then .ret (.kIOReturnBadArgument, st)
  else if direction ≠ kUSBOut ∧ direction ≠ kUSBIn then .ret (.kIOReturnInternalError, st)
  else
    let tdType :=
      if direction = kUSBOut then H.kOHCIIsochronousOutLowLatencyType
      else H.kOHCIIsochronousInLowLatencyType
    let direction := if direction = kUSBOut then kOHCIEDDirectionOut else kOHCIEDDirectionIn
    (FindIsochronousEndpoint st fuel functionAddress endpointNumber direction).bind fun r =>
      match r with
      | none => .ret (.kIOUSBEndpointNotFound, st)
      | some (pED, _) =>
        UIMCreateIsochTransferLL.queue H st fuel pED completion frameNumberStart pBuffer
          frameCount pFrames updateFrequency tdType

/-! ## Vocabulary of the statements -/

/-- The state of the loop of `CreateGeneralTransfer` after `k` passes, each entered with
`transferOffset < bufferSize` and each appending a descriptor; `none` when fewer than `k` passes
are made that way. -/
def CreateGeneralTransfer.passes (H : Header) (queue command : Nat) (CBP : IOMemoryDescriptor)
    (bufferSize flags type kickBits : Nat) : Nat → GeneralTransferLoop → Option GeneralTransferLoop
  | 0, l => some l
  | k + 1, l =>
    if l.transferOffset < bufferSize then
      match CreateGeneralTransfer.body H queue command CBP bufferSize flags type kickBits l with
      | .ret (.inr l') =>
        CreateGeneralTransfer.passes H queue command CBP bufferSize flags type kickBits k l'
      | _ => none
    else none

/-- Following `pLogicalNext` from the general transfer descriptor `a` visits exactly the
descriptors of the list, in order, and then arrives at `b`. -/
def TDChain (tds : Nat → OHCIGeneralTransferDescriptor) : Nat → List Nat → Nat → Prop
  | a, [], b => a = b
  | a, x :: xs, b => a = x ∧ TDChain tds (tds x).pLogicalNext xs b

/-- The descriptor is the final one of a transfer: it has the `flags` word of the call and the
last-TD marker. -/
def IsFinalTD (H : Header) (flags : Nat) (td : OHCIGeneralTransferDescriptor) : Prop :=
  td.ohciFlags = generalTransferFlags flags ∧
    td.uimFlags &&& H.kUIMFlagsLastTD = H.kUIMFlagsLastTD

/-- The descriptor is an inner one of a transfer: it has the `altFlags` word of the call and no
last-TD marker. -/
def IsInnerTD (H : Header) (flags : Nat) (td : OHCIGeneralTransferDescriptor) : Prop :=
  td.ohciFlags = generalTransferAltFlags flags ∧ td.uimFlags &&& H.kUIMFlagsLastTD = 0

/-- The descriptors of the list, but for the last one, have been filled in for `command`: each
is linked, logically and physically, to the next one of the list, and each is an inner
descriptor, except that the one before the last is the final descriptor when `lastFinal`. -/
def GeneralTransferFilled (H : Header) (command flags : Nat)
    (tds : Nat → OHCIGeneralTransferDescriptor) (lastFinal : Bool) : List Nat → Prop
  | a :: b :: rest =>
    ((tds a).pLogicalNext = b ∧ (tds a).nextTD = (tds b).pPhysical ∧ (tds a).command = command
      ∧ (if rest = [] ∧ lastFinal = true then IsFinalTD H flags (tds a)
         else IsInnerTD H flags (tds a)))
    ∧ GeneralTransferFilled H command flags tds lastFinal (b :: rest)
  | _ => True

/-- Modelled from the spec: a page aligned buffer of `size` bytes whose page `i` lies at the
physical address `phys i`, as the cursor resolves it when it keeps the pages apart: from an
offset it gives the rest of the page the offset is in, cut at the end of the buffer, and, when
asked for two segments, the following page as well. -/
def pagedBuffer (pageSize size : Nat) (phys : Nat → Nat) : IOMemoryDescriptor where
  resolve offset maxSegments _ :=
    let room := pageSize - offset % pageSize
    if size ≤ offset ∨ maxSegments = 0 then []
    else if size - offset ≤ room ∨ maxSegments = 1 then
      [⟨phys (offset / pageSize) + offset % pageSize, min room (size - offset)⟩]
    else
      [⟨phys (offset / pageSize) + offset % pageSize, room⟩,
       ⟨phys (offset / pageSize + 1), min pageSize (size - offset - room)⟩]

/-- The physical address of byte `x` of a paged buffer. -/
def pagedAddress (pageSize : Nat) (phys : Nat → Nat) (x : Nat) : Nat :=
  phys (x / pageSize) + x % pageSize

/-- The largest number of bytes one descriptor of `CreateGeneralTransfer` takes from a paged
buffer: one page under the single-page erratum, two pages otherwise. -/
def maxSegmentBytes (H : Header) (st : AppleUSBOHCI) : Nat :=
  if st.errataBits &&& H.kErrataOnlySinglePageTransfers ≠ 0 then st.pageSize
  else 2 * st.pageSize

/-! ## Example states

A small driver state on which the theorems are exercised: the sentinels of the four directory
lists, descriptors with aligned physical addresses, and the pools. -/

/-- Values for the constants of `Header`. -/
def exampleHeader : Header where
  kUIMFlagsLastTD := 4
  kErrataOnlySinglePageTransfers := 2
  kOHCIControlSetupType := 3
  kOHCIBulkTransferOutType := 1
  kOHCIInterruptInType := 6
  kOHCIIsochronousInType := 9
  kOHCIIsochronousOutType := 10
  kOHCIIsochronousInLowLatencyType := 11
  kOHCIIsochronousOutLowLatencyType := 12
  kUSBLowLatencyIsochTransferKey := 0x6C6C6974

/-- A buffer of 200 bytes at the physical address `0x10000`, inside one page. -/
def exampleBuffer : IOMemoryDescriptor where
  resolve offset maxSegments _ :=
    if 200 ≤ offset ∨ maxSegments = 0 then [] else [⟨0x10000 + offset, 200 - offset⟩]

/-- A bulk command for 200 bytes out to endpoint 2 of the device with address 5. -/
def exampleCommand : IOUSBCommand where
  address := 5
  endpoint := 2
  direction := kUSBOut
  buffer := exampleBuffer
  reqCount := 200
  bufferRounding := false
  completion := ⟨1, 2, 3⟩
  noDataTimeout := 0
  completionTimeout := 0
  uimScratch := 0

/-- A driver with empty directory lists (control 1 to 2, bulk 3 to 4, isochronous 5 to 6,
interrupt 7 to 8), the single-page erratum, pages of 4096 bytes, and pools of two endpoint
descriptors, four general and three isochronous transfer descriptors. -/
def exampleState : AppleUSBOHCI where
  pageSize := 4096
  errataBits := 2
  OptiOn := false
  rootHubFuncAddress := 1
  isochBandwidthAvail := 1000
  pControlHead := 1
  pControlTail := 2
  pBulkHead := 3
  pBulkTail := 4
  pIsochHead := 5
  pIsochTail := 6
  pInterruptHead := fun _ => ⟨7, 8, 0⟩
  eds := fun p =>
    { flags := 0, tdQueueTailPtr := 0, tdQueueHeadPtr := 0, nextED := (p + 1) * 64,
      pPhysical := p * 64, pLogicalNext := if p % 2 = 1 ∧ p < 8 then p + 1 else 0,
      pLogicalTailP := 0, pLogicalHeadP := 0 }
  tds := fun p =>
    { ohciFlags := 0, currentBufferPtr := 0, nextTD := 0, bufferEnd := 0, pType := 0,
      command := 0, pPhysical := p * 16, pLogicalNext := 0, pEndpoint := 0, uimFlags := 0,
      lastFrame := 0, lastRemaining := 0 }
  itds := fun p =>
    { flags := 0, bufferPage0 := 0, nextTD := 0, bufferEnd := 0, offset := fun _ => 0,
      pType := 0, pIsocFrame := 0, frameNum := 0, completion := ⟨0, 0, 0⟩, pPhysical := p * 32,
      pLogicalNext := 0 }
  pFreeED := [20, 21]
  pFreeTD := [100, 101, 102, 103]
  pFreeITD := [200, 201, 202]
  commands := fun _ => exampleCommand
  isocFrames := fun _ _ => ⟨0, 1000, 0⟩
  frameNumber := 100000
  pOHCIRegisters := fun _ => 0
  registerWrites := []

/-- The state of a call that returned, or the given state when it did not return. -/
def Outcome.stateOr (o : Outcome (IOReturn × AppleUSBOHCI)) (st : AppleUSBOHCI) : AppleUSBOHCI :=
  match o with
  | .ret (_, st') => st'
  | _ => st

/-- The status of a call that returned. -/
def Outcome.status (o : Outcome (IOReturn × AppleUSBOHCI)) : Option IOReturn :=
  match o with
  | .ret (r, _) => some r
  | _ => none

/-- The example driver with the bulk endpoint 5:2 out, max packet size 64, created: the
endpoint descriptor is 20, its placeholder is the transfer descriptor 100. -/
def exampleBulkState : AppleUSBOHCI :=
  (UIMCreateBulkEndpoint exampleState 5 2 kUSBOut kUSBDeviceSpeedFull 64).stateOr exampleState

/-- The example driver with the bulk endpoint, whose head pointer has the halted bit. -/
def exampleHaltedState : AppleUSBOHCI :=
  setED exampleBulkState 20 fun ed => { ed with tdQueueHeadPtr := ed.tdQueueHeadPtr ||| 1 }

/-- Physical pages for the example buffers: page `i` at `0x100000 + (i mod 16) * 4096`. -/
def examplePhys (i : Nat) : Nat := 0x100000 + (i % 16) * 4096

/-- A page aligned example buffer of 5000 bytes, resolved page by page. -/
def examplePagedBuffer : IOMemoryDescriptor := pagedBuffer (2 ^ 12) 5000 examplePhys

/-- The example driver with the bulk endpoint and a single descriptor left in the pool. -/
def exampleShortPoolState : AppleUSBOHCI := { exampleBulkState with pFreeTD := [101] }

/-- The general transfer descriptors queued on the endpoint `pED` from `p` on: the descriptors
reached from `p` by `pLogicalNext` before the tail placeholder, with the walk bounded by the
fuel. -/
def queuedTDs (st : AppleUSBOHCI) (pED : Nat) : Nat → Nat → Option (List Nat)
  | 0, _ => none
  | fuel + 1, p =>
    if p = (st.eds pED).pLogicalTailP then some []
    else (queuedTDs st pED fuel (st.tds p).pLogicalNext).map (p :: ·)

/-- The endpoint descriptors of the list, in order, are what following `pLogicalNext` from `p`
meets before the sentinel `tail`; none of them is `NULL`. -/
def EDPath (eds : Nat → OHCIEndpointDescriptor) (tail : Nat) : Nat → List Nat → Prop
  | p, [] => p = tail
  | p, x :: xs => p = x ∧ x ≠ tail ∧ x ≠ 0 ∧ EDPath eds tail (eds x).pLogicalNext xs

/-- No endpoint descriptor of the directory list from `head` to `tail` has the key `unique`
under `mask`: the list is well formed, shorter than `fuel`, and none of its members matches. -/
def NoMatch (st : AppleUSBOHCI) (fuel head tail mask unique : Nat) : Prop :=
  ∃ l, EDPath st.eds tail (st.eds head).pLogicalNext l ∧ l.length < fuel
    ∧ ∀ x ∈ l, (st.eds x).flags &&& mask ≠ unique

/-- The lookup key of `FindBulkEndpoint`, `FindIsochronousEndpoint` and
`FindInterruptEndpoint`: address, endpoint number and direction. -/
def uniqueKey (functionNumber endpointNumber direction : Nat) : Nat :=
  shl32 (UInt32ofShort endpointNumber) kOHCIEndpointNumberOffset
    ||| UInt32ofShort functionNumber
    ||| shl32 (UInt32ofShort direction) kOHCIEndpointDirectionOffset

/-- The lookup key of `FindControlEndpoint`: address and endpoint number. -/
def uniqueKeyNoDir (functionNumber endpointNumber : Nat) : Nat :=
  shl32 (UInt32ofShort endpointNumber) kOHCIEndpointNumberOffset
    ||| UInt32ofShort functionNumber

/-- No endpoint descriptor of the lists that `FindEndpoint` searches matches the key: the
control list without the direction (and, with the Opti workaround, the bulk list with the
direction of a control endpoint), the bulk list, the 63 interrupt lists and the isochronous
list with the direction. -/
def NoMatchAnywhere (st : AppleUSBOHCI) (fuel functionNumber endpointNumber direction : Nat) :
    Prop :=
  NoMatch st fuel st.pControlHead st.pControlTail kUniqueNumNoDirMask
      (uniqueKeyNoDir functionNumber endpointNumber)
  ∧ (st.OptiOn = true → NoMatch st fuel st.pBulkHead st.pBulkTail kUniqueNumMask
      (uniqueKey functionNumber endpointNumber kOHCIEDDirectionTD))
  ∧ NoMatch st fuel st.pBulkHead st.pBulkTail kUniqueNumMask
      (uniqueKey functionNumber endpointNumber direction)
  ∧ (∀ i, i < 63 → NoMatch st fuel (st.pInterruptHead i).pHead (st.pInterruptHead i).pTail
      kUniqueNumMask (uniqueKey functionNumber endpointNumber direction))
  ∧ NoMatch st fuel st.pIsochHead st.pIsochTail kUniqueNumMask
      (uniqueKey functionNumber endpointNumber direction)

/-- Collaborators that do nothing: the root-hub simulations succeed without touching the state,
and the list maintenance routines leave the state as it is. -/
def exampleCollaborators : Collaborators where
  SimulateControlEDCreate _ st := (.kIOReturnSuccess, st)
  SimulateInterruptEDCreate _ _ st := (.kIOReturnSuccess, st)
  SimulateRootHubInt _ _ _ _ st := st
  SimulateEDAbort _ _ st := (.kIOReturnSuccess, st)
  SimulateEDDelete _ _ st := (.kIOReturnSuccess, st)
  SimulateEDClearStall _ _ st := (.kIOReturnSuccess, st)
  RemoveTDs _ st := st
  RemoveAllTDs _ st := st
  DeallocateED _ st := st
  ReturnTransactions _ _ st := st
  GetLogicalAddress _ p := p / 16
  IOSleep _ st := st

/-- The example driver with the bulk endpoint (5, 2, out), whose commands address endpoint 3 of
the same device, for which no endpoint descriptor exists. -/
def exampleStrayState : AppleUSBOHCI :=
  { exampleBulkState with commands := fun _ => { exampleCommand with endpoint := 3 } }

/-- The example driver after `UIMCreateIsochEndpoint(5, 1, 64, out)`: one isochronous
endpoint, whose placeholder is the isochronous descriptor 200. -/
def exampleIsochState : AppleUSBOHCI :=
  (UIMCreateIsochEndpoint exampleState 5 5 1 64 kUSBOut).stateOr exampleState

/-- Following `pLogicalNext` from the isochronous transfer descriptor `a` visits exactly the
descriptors of the list, in order, and then arrives at `b`. -/
def ITDChain (itds : Nat → OHCIIsochTransferDescriptor) : Nat → List Nat → Nat → Prop
  | a, [], b => a = b
  | a, x :: xs, b => a = x ∧ ITDChain itds (itds x).pLogicalNext xs b

/-- The pools are well formed: no descriptor is twice in a pool, and the free transfer
descriptors carry nothing of a client, a general one no command and an isochronous one no
completion action. -/
structure PoolsClean (st : AppleUSBOHCI) : Prop where
  nodupTD : st.pFreeTD.Nodup
  nodupITD : st.pFreeITD.Nodup
  nodupED : st.pFreeED.Nodup
  cleanTD : ∀ p ∈ st.pFreeTD, (st.tds p).command = 0
  cleanITD : ∀ p ∈ st.pFreeITD, (st.itds p).completion.action = 0

/-- The tail of the general endpoint `q` is a placeholder: the physical tail pointer is the
physical address of the descriptor at the logical tail pointer, and that descriptor is
allocated (not in the pool) and carries no command. -/
structure GeneralPlaceholder (st : AppleUSBOHCI) (q : Nat) : Prop where
  tailPtr : (st.eds q).tdQueueTailPtr = (st.tds (st.eds q).pLogicalTailP).pPhysical
  allocated : (st.eds q).pLogicalTailP ∉ st.pFreeTD
  blank : (st.tds (st.eds q).pLogicalTailP).command = 0

/-- The tail of the isochronous endpoint `e` is a placeholder: the physical tail pointer is the
physical address of the descriptor at the logical tail pointer, and that descriptor is
allocated (not in the pool) and carries no completion action. -/
structure IsochPlaceholder (st : AppleUSBOHCI) (e : Nat) : Prop where
  tailPtr : (st.eds e).tdQueueTailPtr = (st.itds (st.eds e).pLogicalTailP).pPhysical
  allocated : (st.eds e).pLogicalTailP ∉ st.pFreeITD
  blank : (st.itds (st.eds e).pLogicalTailP).completion.action = 0

/-- The tail placeholder invariant for the general endpoints `G` and the isochronous endpoints
`I`: the pools are well formed, the endpoint descriptors are distinct and allocated, every
endpoint has a placeholder at its tail, and no two endpoints share one. -/
structure TailPlaceholders (st : AppleUSBOHCI) (G I : List Nat) : Prop where
  pools : PoolsClean st
  distinct : (G ++ I).Nodup
  allocatedED : ∀ q ∈ G ++ I, q ∉ st.pFreeED
  general : ∀ q ∈ G, GeneralPlaceholder st q
  isoch : ∀ e ∈ I, IsochPlaceholder st e
  generalApart : ∀ q ∈ G, ∀ r ∈ G, (st.eds q).pLogicalTailP = (st.eds r).pLogicalTailP → q = r
  isochApart : ∀ e ∈ I, ∀ r ∈ I, (st.eds e).pLogicalTailP = (st.eds r).pLogicalTailP → e = r

/-- The endpoints after a call of `AddEmptyEndPoint` that returned `r` for the format
`format`: a new endpoint descriptor joins the general endpoints `G` or the isochronous ones
`I`. -/
def endpointsAfter (format : Nat) (r : Option Nat) (G I : List Nat) : List Nat × List Nat :=
  match r with
  | none => (G, I)
  | some e => if format = kOHCIEDFormatGeneralTD then (e :: G, I) else (G, e :: I)

/-- The states reachable from a driver with well formed pools and no endpoints by calls of
`AddEmptyEndPoint`, which creates endpoints, of `CreateGeneralTransfer` on the general endpoints
created, and of `UIMCreateIsochTransfer` whose lookup finds nothing or one of the isochronous
endpoints created; every call may return any status. -/
inductive TailReachable (H : Header) : AppleUSBOHCI → List Nat → List Nat → Prop
  | start (st : AppleUSBOHCI) : PoolsClean st → TailReachable H st [] []
  | create (st st' : AppleUSBOHCI) (G I : List Nat)
      (functionAddress endpointNumber maxPacketSize speed direction pED format : Nat)
      (r : Option Nat) :
      TailReachable H st G I →
      AddEmptyEndPoint st functionAddress endpointNumber maxPacketSize speed direction pED
        format = .ret (r, st') →
      TailReachable H st' (endpointsAfter format r G I).1 (endpointsAfter format r G I).2
  | general (st st' : AppleUSBOHCI) (G I : List Nat) (queue command : Nat)
      (CBP : IOMemoryDescriptor) (bufferSize flags type kickBits : Nat) (status : IOReturn) :
      TailReachable H st G I → queue ∈ G →
      CreateGeneralTransfer H st queue command CBP bufferSize flags type kickBits
        = .ret (status, st') →
      TailReachable H st' G I
  | isoch (st st' : AppleUSBOHCI) (G I : List Nat) (fuel functionAddress endpointNumber : Nat)
      (completion : IOUSBCompletion) (direction frameNumberStart : Nat)
      (pBuffer : IOMemoryDescriptor) (frameCount pFrames : Nat) (status : IOReturn) :
      TailReachable H st G I →
      (∀ e back, FindIsochronousEndpoint st fuel functionAddress endpointNumber
        (if direction = kUSBOut then kOHCIEDDirectionOut else kOHCIEDDirectionIn)
          = .ret (some (e, back)) → e ∈ I) →
      UIMCreateIsochTransfer H st fuel functionAddress endpointNumber completion direction
        frameNumberStart pBuffer frameCount pFrames = .ret (status, st') →
      TailReachable H st' G I

/-- A successful `CreateGeneralTransfer` on `queue` appended: the former placeholder heads the
descriptors `queued`, which are linked up to the new tail and carry `command`, and the new
tail was taken from the pool by the call. -/
def GeneralAppended (st st' : AppleUSBOHCI) (queue command : Nat) : Prop :=
  ∃ queued, TDChain st'.tds (st.eds queue).pLogicalTailP
      ((st.eds queue).pLogicalTailP :: queued) (st'.eds queue).pLogicalTailP
    ∧ (∀ d ∈ (st.eds queue).pLogicalTailP :: queued, (st'.tds d).command = command)
    ∧ (st'.eds queue).pLogicalTailP ∈ st.pFreeTD
    ∧ (st'.eds queue).pLogicalTailP ∉ st'.pFreeTD

/-- A successful `UIMCreateIsochTransfer` on the endpoint `e` appended: the former placeholder
heads the descriptors `queued`, which are linked up to the new tail, the last of them carries
`completion` and the others no completion action, and the new tail was taken from the pool by
the call. -/
def IsochAppended (st st' : AppleUSBOHCI) (e : Nat) (completion : IOUSBCompletion) : Prop :=
  ∃ queued last, ITDChain st'.itds (st.eds e).pLogicalTailP
      (queued ++ [last]) (st'.eds e).pLogicalTailP
    ∧ (queued ++ [last]).head? = some (st.eds e).pLogicalTailP
    ∧ (st'.itds last).completion = completion
    ∧ (∀ d ∈ queued, (st'.itds d).completion.action = 0)
    ∧ (st'.eds e).pLogicalTailP ∈ st.pFreeITD
    ∧ (st'.eds e).pLogicalTailP ∉ st'.pFreeITD

/-- The state of a call of `AddEmptyEndPoint` that returned, or the given state when it did
not return. -/
def Outcome.endpointStateOr (o : Outcome (Option Nat × AppleUSBOHCI)) (st : AppleUSBOHCI) :
    AppleUSBOHCI :=
  match o with
  | .ret (_, st') => st'
  | _ => st

/-- A buffer whose bytes lie on pages of their own: byte `i` at the start of page `i + 1`. -/
def exampleScatteredBuffer : IOMemoryDescriptor where
  resolve offset maxSegments _ :=
    if maxSegments = 0 then [] else [⟨0x1000 * (offset + 1), 1⟩]

/-- The example driver with frame lists whose frames all ask for one byte. -/
def exampleOneByteFramesState : AppleUSBOHCI :=
  { exampleState with isocFrames := fun _ _ => ⟨0, 1, 0⟩ }

/-- The example driver with one-byte frames after `AddEmptyEndPoint` created the bulk endpoint
(5, 2, out): the endpoint descriptor 20 with the placeholder 100. -/
def exampleOneEndpointState : AppleUSBOHCI :=
  (AddEmptyEndPoint exampleOneByteFramesState 5 2 64 kUSBDeviceSpeedFull
    kOHCIEDDirectionOut 3 kOHCIEDFormatGeneralTD).endpointStateOr exampleOneByteFramesState

/-- The example driver with the bulk endpoint after `AddEmptyEndPoint` created the isochronous
endpoint (5, 1, out) as well: the endpoint descriptor 21 with the placeholder 200. -/
def exampleTwoEndpointsState : AppleUSBOHCI :=
  (AddEmptyEndPoint exampleOneEndpointState 5 1 64 kUSBDeviceSpeedFull kOHCIEDDirectionOut 5
    kOHCIEDFormatIsochronousTD).endpointStateOr exampleOneEndpointState

/-- The example driver with the two endpoints after a `CreateGeneralTransfer` of 200 bytes on
the bulk endpoint. -/
def exampleBulkQueuedState : AppleUSBOHCI :=
  (CreateGeneralTransfer exampleHeader exampleTwoEndpointsState 20 77 exampleBuffer
    200 0 1 4).stateOr exampleTwoEndpointsState

/-- The example driver with the two endpoints after the transfer on the bulk endpoint and a
`UIMCreateIsochTransfer` of 3 frames, one byte each on a page of its own, on the isochronous
endpoint. -/
def exampleTwoTransfersState : AppleUSBOHCI :=
  (UIMCreateIsochTransfer exampleHeader exampleBulkQueuedState 5 5 1 ⟨1, 2, 3⟩ kUSBOut 100010
    exampleScatteredBuffer 3 7).stateOr exampleBulkQueuedState

/-- The example driver with one-byte frames and only two isochronous transfer descriptors,
200 and 201, in the pool. -/
def exampleScarcePoolState : AppleUSBOHCI :=
  { exampleOneByteFramesState with pFreeITD := [200, 201] }

/-- The driver with the scarce pool after `AddEmptyEndPoint` created the isochronous endpoint
(5, 1, out): the endpoint descriptor 20 with the placeholder 200; one descriptor, 201, is left
in the pool. -/
def exampleScarceState : AppleUSBOHCI :=
  (AddEmptyEndPoint exampleScarcePoolState 5 1 64 kUSBDeviceSpeedFull kOHCIEDDirectionOut 5
    kOHCIEDFormatIsochronousTD).endpointStateOr exampleScarcePoolState

/-- The state after a `UIMCreateIsochTransfer` of 3 frames, with the frame list 7 and one byte
each on a page of its own, on the isochronous endpoint of `exampleScarceState`. -/
def exampleFailedIsochState : AppleUSBOHCI :=
  (UIMCreateIsochTransfer exampleHeader exampleScarceState 5 5 1 ⟨1, 2, 3⟩ kUSBOut 100010
    exampleScatteredBuffer 3 7).stateOr exampleScarceState

/-- The example driver with the isochronous endpoint (5, 1, out), one hundred frames after the
controller started. -/
def exampleEarlyState : AppleUSBOHCI :=
  { exampleIsochState with frameNumber := 100 }

/-- The example driver with the isochronous endpoint (5, 1, out), in which frame 1 of the frame
list 9 asks for 1024 bytes. -/
def exampleBigFrameState : AppleUSBOHCI :=
  { exampleIsochState with
    isocFrames := fun p i => if p = 9 ∧ i = 1 then ⟨0, 1024, 0⟩ else ⟨0, 1000, 0⟩ }

/-- The example driver with the isochronous endpoint (5, 1, out) of 64 bytes and a ledger of
5000 bytes. -/
def exampleWideLedgerState : AppleUSBOHCI :=
  { exampleIsochState with isochBandwidthAvail := 5000 }

/-- The example driver with the isochronous endpoint (5, 1, out) of 64 bytes and a ledger at the
largest 32-bit value. -/
def exampleFullLedgerState : AppleUSBOHCI :=
  { exampleIsochState with isochBandwidthAvail := 4294967295 }

/-- The states of the loop variables at the loop test of a frame packing loop with the given
body, from the entry state `l0` on: each pass is entered with `curFrameInRequest < frameCount`
and arrives at the next loop test. -/
inductive IsochLoopReachable
    (body : IsochTransferLoop → Outcome (Sum IsochTransferLoop IsochTransferLoop))
    (frameCount : Nat) (l0 : IsochTransferLoop) : IsochTransferLoop → Prop
  | entry : IsochLoopReachable body frameCount l0 l0
  | pass (l l' : IsochTransferLoop) : IsochLoopReachable body frameCount l0 l →
      l.curFrameInRequest < frameCount → body l = .ret (.inr l') →
      IsochLoopReachable body frameCount l0 l'

/-- The frame counter of the current iTD at the loop test: at most 8, zero when a new iTD has
been asked for, and zero only while frames remain. -/
structure IsochCounting (frameCount : Nat) (l : IsochTransferLoop) : Prop where
  le : l.curFrameInTD ≤ 8
  fresh : l.needNewITD = true → l.curFrameInTD = 0
  more : l.curFrameInTD = 0 → l.curFrameInRequest < frameCount

/-- What a pass of a frame packing loop did, seen from the loop variables before and after:
it either closed the current iTD, which then held between 1 and 8 frames, and wrote no offset
slot; or it put a frame into the slot `curFrameInTD`, at most 7, of the current iTD and wrote no
other offset slot. -/
def IsochPass (l l' : IsochTransferLoop) : Prop :=
  (l'.curFrameInRequest = l.curFrameInRequest ∧ l'.curFrameInTD = 0
      ∧ 1 ≤ l.curFrameInTD ∧ l.curFrameInTD ≤ 8
      ∧ sub32 l.curFrameInTD 1 = l.curFrameInTD - 1
      ∧ ∀ x k, (l'.st.itds x).offset k = (l.st.itds x).offset k)
    ∨ (l'.curFrameInRequest = add32 l.curFrameInRequest 1
      ∧ l'.curFrameInTD = l.curFrameInTD + 1 ∧ l.curFrameInTD ≤ 7
      ∧ ∀ x k, (x ≠ l.pTailITD ∨ k ≠ l.curFrameInTD) →
        (l'.st.itds x).offset k = (l.st.itds x).offset k)

/-- Modelled from the spec: `kOHCIITDControl_SF`, the starting frame, bits 0..15 of iTD
word 0. -/
def kOHCIITDControl_SF : Nat := 0xFFFF
/-- Modelled from the spec: `kOHCIITDControl_FC`, the frame count, bits 24..26 of iTD word 0. -/
def kOHCIITDControl_FC : Nat := 0x07000000

/-- A run of frames of an isochronous request in one iTD: the descriptor, the index of its
first frame in the request and the number of its frames. -/
structure IsochRun where
  itd : Nat
  first : Nat
  count : Nat

/-- The iTD of the run records it, for a request with start frame `s`: `frameNum` is the index
of the first frame, the starting frame field is `(s + frameNum) mod 2^16` and the frame count
field is the number of frames less one. -/
def IsochRun.recorded (itds : Nat → OHCIIsochTransferDescriptor) (s : Nat) (r : IsochRun) :
    Prop :=
  (itds r.itd).frameNum = r.first
    ∧ (itds r.itd).flags &&& kOHCIITDControl_SF = (s + (itds r.itd).frameNum) % 65536
    ∧ ((itds r.itd).flags &&& kOHCIITDControl_FC) >>> kOHCIITDControl_FCPhase = r.count - 1

/-- The runs cover the frames from index `i` up to `n`, excluded: each run starts where the
one before it ends, and none is empty. -/
def IsochRunsCover : List IsochRun → Nat → Nat → Prop
  | [], i, n => i = n
  | r :: rs, i, n => r.first = i ∧ 1 ≤ r.count ∧ IsochRunsCover rs (i + r.count) n

/-- The frames placed so far by the frame packing loop, for a request with start frame `s`:
the closed iTDs record the runs `rs`, which cover the frames before `f0`; the current iTD
holds the `curFrameInTD` frames from `f0` on, and once it holds a frame its `frameNum` and the
starting frame in `itdFlags` are set. -/
structure IsochFilling (s : Nat) (l : IsochTransferLoop) (rs : List IsochRun) (f0 : Nat) :
    Prop where
  cover : IsochRunsCover rs 0 f0
  recorded : ∀ r ∈ rs, r.recorded l.st.itds s ∧ r.count ≤ 8
  request : l.curFrameInRequest = f0 + l.curFrameInTD
  current : 0 < l.curFrameInTD →
    (l.st.itds l.pTailITD).frameNum = f0 ∧ l.itdFlags = (s + f0) % 65536

/-- The max packet size field of the endpoint descriptor `e`, as `UIMCreateIsochEndpoint` and
`UIMDeleteEndpoint` read it. -/
def maxPacketSizeOf (st : AppleUSBOHCI) (e : Nat) : Nat :=
  ((st.eds e).flags &&& kOHCIEDControl_MPS) >>> kOHCIEDControl_MPSPhase

/-- The sum of the max packet size fields of the endpoint descriptors of the list. -/
def reservedBandwidth (st : AppleUSBOHCI) (l : List Nat) : Nat :=
  (l.map (maxPacketSizeOf st)).sum

/-- The isochronous directory of the driver holds exactly the endpoint descriptors of `l`, in
order, and the ledger balances against the configured maximum `M`: the list from
`pIsochHead` to `pIsochTail` is `l`, without repetition; the pool of endpoint descriptors has
no repetition and holds neither a member of the directory nor its head, its tail or `NULL`; the
members have the isochronous format; and `_isochBandwidthAvail` plus the max packet size fields
of the members is `M`. -/
structure IsochLedger (M : Nat) (st : AppleUSBOHCI) (l : List Nat) : Prop where
  path : EDPath st.eds st.pIsochTail (st.eds st.pIsochHead).pLogicalNext l
  nodup : (st.pIsochHead :: l).Nodup
  pool : st.pFreeED.Nodup
  apart : ∀ x ∈ st.pFreeED, x ≠ st.pIsochHead ∧ x ∉ l ∧ x ≠ st.pIsochTail ∧ x ≠ 0
  format : ∀ e ∈ l, GetEDType st e = kOHCIEDFormatIsochronousTD
  ledger : st.isochBandwidthAvail + reservedBandwidth st l = M

/-- From `st` to `st'` nothing of the endpoint directory changed: the ledger, the ends of the
isochronous list, the root hub address, the pool of endpoint descriptors, and the flags and
logical links of the endpoint descriptors. -/
structure DirectoryKept (st st' : AppleUSBOHCI) : Prop where
  ledger : st'.isochBandwidthAvail = st.isochBandwidthAvail
  head : st'.pIsochHead = st.pIsochHead
  tail : st'.pIsochTail = st.pIsochTail
  pool : st'.pFreeED = st.pFreeED
  flags : ∀ e, (st'.eds e).flags = (st.eds e).flags
  next : ∀ e, (st'.eds e).pLogicalNext = (st.eds e).pLogicalNext

/-- Modelled from the spec: what `UIMDeleteEndpoint` relies on in its collaborators, which are
not among the sources.  `IOSleep` (the controller runs) and `RemoveAllTDs` leave the endpoint
directory alone, and `DeallocateED` gives the endpoint descriptor back to the pool and leaves
the rest of the directory alone. -/
structure Collaborators.keepDirectory (X : Collaborators) : Prop where
  sleep : ∀ ms st, DirectoryKept st (X.IOSleep ms st)
  removeAllTDs : ∀ p st, DirectoryKept st (X.RemoveAllTDs p st)
  deallocateED : ∀ p st,
    DirectoryKept { st with pFreeED := st.pFreeED ++ [p] } (X.DeallocateED p st)

/-- The states of the driver after a sequence of isochronous endpoint operations, from a
state with an empty isochronous directory and `M` in the ledger: calls of
`UIMCreateIsochEndpoint` with a 32-bit max packet size, which create or resize, and calls of
`UIMDeleteEndpoint` for a device other than the root hub whose lookup, when it finds an
endpoint, finds it in the isochronous directory; whatever the calls return. -/
inductive LedgerReachable (X : Collaborators) (M : Nat) : AppleUSBOHCI → Prop
  | start (st : AppleUSBOHCI) : IsochLedger M st [] → LedgerReachable X M st
  | create (st st' : AppleUSBOHCI)
      (fuel functionAddress endpointNumber maxPacketSize direction : Nat) (status : IOReturn) :
      LedgerReachable X M st → maxPacketSize < W32 →
      UIMCreateIsochEndpoint st fuel functionAddress endpointNumber maxPacketSize direction
        = .ret (status, st') →
      LedgerReachable X M st'
  | delete (st st' : AppleUSBOHCI) (fuel functionAddress endpointNumber direction : Nat)
      (status : IOReturn) :
      LedgerReachable X M st → functionAddress ≠ st.rootHubFuncAddress →
      (∀ pED back mask, FindEndpoint st fuel functionAddress endpointNumber
          (edDirection direction) = .ret (some (pED, back, mask)) →
        FindIsochronousEndpoint st fuel functionAddress endpointNumber (edDirection direction)
          = .ret (some (pED, back))) →
      UIMDeleteEndpoint X st fuel functionAddress endpointNumber direction
        = .ret (status, st') →
      LedgerReachable X M st'

/-- Collaborators that keep the directory: they do nothing, but that `DeallocateED` gives the
endpoint descriptor back to the pool. -/
def exampleLedgerCollaborators : Collaborators :=
  { exampleCollaborators with
    DeallocateED := fun p st => { st with pFreeED := st.pFreeED ++ [p] } }

/-- The example driver after the isochronous endpoint (5, 1, out) of `exampleIsochState` has
been deleted again. -/
def exampleDeletedState : AppleUSBOHCI :=
  (UIMDeleteEndpoint exampleLedgerCollaborators exampleIsochState 5 5 1 kUSBOut).stateOr
    exampleIsochState

/-- The example driver with 5000 bytes in the ledger and an empty isochronous directory. -/
def exampleLargeLedgerState : AppleUSBOHCI :=
  { exampleState with isochBandwidthAvail := 5000 }

/-- The driver with the large ledger after `UIMCreateIsochEndpoint(5, 1, 3000, out)`. -/
def exampleOversizedState : AppleUSBOHCI :=
  (UIMCreateIsochEndpoint exampleLargeLedgerState 5 5 1 3000 kUSBOut).stateOr
    exampleLargeLedgerState

/-- The driver with the large ledger after the endpoint of 3000 bytes has been deleted
again. -/
def exampleOversizedDeletedState : AppleUSBOHCI :=
  (UIMDeleteEndpoint exampleLedgerCollaborators exampleOversizedState 5 5 1 kUSBOut).stateOr
    exampleOversizedState

/-- Modelled from the spec: a buffer on pages of 4096 bytes that starts `base` bytes into its
first page and whose page `v` lies at the physical address `phys v`, as the isochronous cursor
resolves it: the bytes from `offset` on, `maxTransferSize` of them (as many as the segments
take when it is 0, which is no limit), in runs that stay within a page. -/
def isochBuffer (base : Nat) (phys : Nat → Nat) : IOMemoryDescriptor where
  resolve offset maxSegments maxTransferSize :=
    let x := base + offset
    let room := 4096 - x % 4096
    let limit := if maxTransferSize = 0 then room + 4096 else maxTransferSize
    if maxSegments = 0 then []
    else if limit ≤ room ∨ maxSegments = 1 then
      [⟨phys (x / 4096) + x % 4096, min room limit⟩]
    else
      [⟨phys (x / 4096) + x % 4096, room⟩,
       ⟨phys (x / 4096 + 1), min 4096 (limit - room)⟩]

/-- The position, counted from the start of the first page of the buffer, at which frame `k`
of a request starts when the frames lie one behind the other from `base` on and frame `j` has
`len j` bytes. -/
def frameStart (base : Nat) (len : Nat → Nat) : Nat → Nat
  | 0 => base
  | k + 1 => frameStart base len k + len k

/-- The `n` pages of a buffer: their physical addresses are page aligned 32-bit addresses, and
different pages of the buffer are different physical pages. -/
structure PhysicalPages (phys : Nat → Nat) (n : Nat) : Prop where
  aligned : ∀ v, v < n → phys v % 4096 = 0
  small : ∀ v, v < n → phys v + 4096 ≤ W32
  apart : ∀ v w, v < n → w < n → phys v = phys w → v = w

/-- Every byte of every frame of the run lies on the page in `bufferPage0` of the iTD of the
run or on the page of its `bufferEnd`. -/
def IsochRun.onTwoPages (itds : Nat → OHCIIsochTransferDescriptor) (base : Nat)
    (phys : Nat → Nat) (len : Nat → Nat) (r : IsochRun) : Prop :=
  ∀ k, r.first ≤ k → k < r.first + r.count →
    ∀ x, frameStart base len k ≤ x → x < frameStart base len (k + 1) →
      pagedAddress 4096 phys x &&& kOHCIPageMask = (itds r.itd).bufferPage0
        ∨ pagedAddress 4096 phys x &&& kOHCIPageMask
          = (itds r.itd).bufferEnd &&& kOHCIPageMask

/-- The loop variables hold the physical segments of frame `k`, and `transferOffset` is past
that frame. -/
structure IsochFetched (base : Nat) (phys : Nat → Nat) (len : Nat → Nat)
    (l : IsochTransferLoop) (k : Nat) : Prop where
  offset : base + l.transferOffset = frameStart base len (k + 1)
  seg0 : l.segs.seg0.location = pagedAddress 4096 phys (frameStart base len k)
  one : frameStart base len k % 4096 + len k ≤ 4096 →
    l.numSegs = 1 ∧ l.segs.seg0.length = len k
  two : ¬ frameStart base len k % 4096 + len k ≤ 4096 →
    l.numSegs = 2 ∧ l.segs.seg0.length = 4096 - frameStart base len k % 4096
      ∧ l.segs.seg1 = ⟨phys (frameStart base len k / 4096 + 1),
          len k - (4096 - frameStart base len k % 4096)⟩

/-- The account of the pages at the loop test of the frame packing loop: the closed iTDs hold
the runs `rs`, which cover the frames before `f0`, each on two pages; the current iTD holds
the `curFrameInTD` frames from `f0` on; the next frame is fetched exactly when a new iTD has
been asked for; and once the current iTD holds a frame, its `bufferPage0` is the page on which
frame `f0` starts, its frames end at most two pages from there at `lastPhysical`, and
`pageSelectMask` is set exactly when a frame started on the second page, `physPageEnd`. -/
structure IsochPaged (base : Nat) (phys : Nat → Nat) (len : Nat → Nat) (pFrames : Nat)
    (l : IsochTransferLoop) (rs : List IsochRun) (f0 : Nat) : Prop where
  cover : IsochRunsCover rs 0 f0
  request : l.curFrameInRequest = f0 + l.curFrameInTD
  closed : ∀ r ∈ rs, r.onTwoPages l.st.itds base phys len
  frames : ∀ k, (l.st.isocFrames pFrames k).frReqCount = len k
  offset : l.needNewITD = false →
    base + l.transferOffset = frameStart base len l.curFrameInRequest
  fetched : l.needNewITD = true → IsochFetched base phys len l l.curFrameInRequest
  page0 : 0 < l.curFrameInTD →
    (l.st.itds l.pTailITD).bufferPage0 = phys (frameStart base len f0 / 4096)
      ∧ l.physPageStart = phys (frameStart base len f0 / 4096)
  reach : 0 < l.curFrameInTD →
    frameStart base len l.curFrameInRequest ≤ (frameStart base len f0 / 4096 + 2) * 4096
      ∧ l.lastPhysical = pagedAddress 4096 phys (frameStart base len l.curFrameInRequest - 1)
  first : 0 < l.curFrameInTD → l.pageSelectMask = 0 →
    frameStart base len l.curFrameInRequest ≤ (frameStart base len f0 / 4096 + 1) * 4096 + 1022
  second : 0 < l.curFrameInTD → l.pageSelectMask ≠ 0 →
    l.physPageEnd = phys (frameStart base len f0 / 4096 + 1)
      ∧ (frameStart base len f0 / 4096 + 1) * 4096 ≤ frameStart base len l.curFrameInRequest

/-- A pass of a frame packing loop that closes the current iTD, seen from the variables `l1`
after the frame has been fetched and compared with the pages of the iTD: the frame stays
fetched for the next pass, and of the page fields of the iTDs only `bufferEnd` of the current
one is written, with `lastPhysical`. -/
structure IsochClosing (l1 l' : IsochTransferLoop) : Prop where
  request : l'.curFrameInRequest = l1.curFrameInRequest
  count : l'.curFrameInTD = 0
  asked : l'.needNewITD = true
  segs : l'.segs = l1.segs
  numSegs : l'.numSegs = l1.numSegs
  offset : l'.transferOffset = l1.transferOffset
  frames : l'.st.isocFrames = l1.st.isocFrames
  bufferEnd : (l'.st.itds l1.pTailITD).bufferEnd = l1.lastPhysical
  bufferEndOther : ∀ x, x ≠ l1.pTailITD → (l'.st.itds x).bufferEnd = (l1.st.itds x).bufferEnd
  bufferPage0 : ∀ x, (l'.st.itds x).bufferPage0 = (l1.st.itds x).bufferPage0

/-- The example driver with the two endpoints after the transfer on the bulk endpoint and a
`UIMCreateIsochTransfer` of 3 frames of one byte each, which lie one behind the other from
the last byte of the first page of the buffer on, on the isochronous endpoint. -/
def examplePagedTransferState : AppleUSBOHCI :=
  (UIMCreateIsochTransfer exampleHeader exampleBulkQueuedState 5 5 1 ⟨1, 2, 3⟩ kUSBOut 100010
    (isochBuffer 4095 examplePhys) 3 7).stateOr exampleBulkQueuedState

/-- The example driver with the bulk endpoint 5:2 out of 64 bytes, without the single-page
erratum. -/
def exampleTwoPageState : AppleUSBOHCI := { exampleBulkState with errataBits := 0 }

/-- A buffer that the cursor resolves as two physical runs of 64 bytes: the first ends in the
middle of a page, at `0x10840`, the second starts on a page boundary, at `0x20000`. -/
def exampleSplitBuffer : IOMemoryDescriptor where
  resolve _ maxSegments _ :=
    if maxSegments < 2 then [⟨0x10800, 64⟩] else [⟨0x10800, 64⟩, ⟨0x20000, 64⟩]

/-- The loop variables after a pass of the loop of `CreateGeneralTransfer`, or the given ones
when the pass did not go on. -/
def Outcome.loopOr (o : Outcome (Sum (IOReturn × AppleUSBOHCI) GeneralTransferLoop))
    (l : GeneralTransferLoop) : GeneralTransferLoop :=
  match o with
  | .ret (.inr l') => l'
  | _ => l

/-- The loop variables after the first pass of `CreateGeneralTransfer` for 128 bytes of the
split buffer on the bulk endpoint 20. -/
def exampleSplitPass : GeneralTransferLoop :=
  (CreateGeneralTransfer.body exampleHeader 20 77 exampleSplitBuffer 128 0 1 4
    (GeneralTransferLoop.init exampleTwoPageState)).loopOr
    (GeneralTransferLoop.init exampleTwoPageState)

/-- The flags word that `AddEmptyEndPoint` gives the new endpoint descriptor (lines 1213 to
1226). -/
def endpointFlagsWord (functionAddress endpointNumber maxPacketSize speed direction
    format : Nat) : Nat :=
  shl32 (toUInt8 functionAddress) kOHCIEDControl_FAPhase
    ||| shl32 (toUInt8 endpointNumber) kOHCIEDControl_ENPhase
    ||| shl32 (toUInt8 direction) kOHCIEDControl_DPhase
    ||| shl32 (toUInt16 maxPacketSize) kOHCIEDControl_MPSPhase
    ||| (if toUInt8 speed = kUSBDeviceSpeedFull then
          shl32 kOHCIEDSpeedFull kOHCIEDControl_SPhase
        else shl32 kOHCIEDSpeedLow kOHCIEDControl_SPhase)
    ||| shl32 format kOHCIEDControl_FPhase

/-- What a call of `AddEmptyEndPoint` that returned the endpoint descriptor `p` did to the
directory: `p` left the pool and stands right behind `pED`, logically and physically, and
before what stood there; of `pED` only the two links changed, no other endpoint descriptor
changed, and outside the descriptors and their pools the driver is as it was. -/
structure EndpointLinked (st st1 : AppleUSBOHCI) (p pED : Nat) : Prop where
  pool : st.pFreeED = p :: st1.pFreeED
  next : (st1.eds pED).pLogicalNext = p
  nextED : (st1.eds pED).nextED = (st1.eds p).pPhysical
  newNext : (st1.eds p).pLogicalNext = (st.eds pED).pLogicalNext
  newNextED : (st1.eds p).nextED = (st.eds pED).nextED
  physical : ∀ x, (st1.eds x).pPhysical = (st.eds x).pPhysical
  behind : st1.eds pED
    = { st.eds pED with pLogicalNext := p, nextED := (st.eds p).pPhysical }
  other : ∀ x, x ≠ p → x ≠ pED → st1.eds x = st.eds x
  frame : st1 = { st with eds := st1.eds, tds := st1.tds, pFreeED := st1.pFreeED,
                          pFreeTD := st1.pFreeTD, pFreeITD := st1.pFreeITD }

/-- The queue of the endpoint descriptor `p` that `AddEmptyEndPoint` returned: head and tail
pointer, logical and physical, designate one descriptor `t` that was the first of its pool, a
general transfer descriptor for the general format and an isochronous one otherwise. -/
structure EndpointPlaceholder (st st1 : AppleUSBOHCI) (p format t : Nat) : Prop where
  tail : (st1.eds p).pLogicalTailP = t
  head : (st1.eds p).pLogicalHeadP = t
  general : format = kOHCIEDFormatGeneralTD →
    st.pFreeTD = t :: st1.pFreeTD ∧ st1.pFreeITD = st.pFreeITD
      ∧ (st1.eds p).tdQueueTailPtr = (st.tds t).pPhysical
      ∧ (st1.eds p).tdQueueHeadPtr = (st.tds t).pPhysical
  isoch : format ≠ kOHCIEDFormatGeneralTD →
    st.pFreeITD = t :: st1.pFreeITD ∧ st1.pFreeTD = st.pFreeTD
      ∧ (st1.eds p).tdQueueTailPtr = (st.itds t).pPhysical
      ∧ (st1.eds p).tdQueueHeadPtr = (st.itds t).pPhysical

/-- The example driver with the bulk endpoint 5:2 out, the endpoint descriptor 20, after
`AddEmptyEndPoint` created a second bulk endpoint, 5:3 out: the endpoint descriptor 21. -/
def exampleTwoBulkState : AppleUSBOHCI :=
  (AddEmptyEndPoint exampleBulkState 5 3 64 kUSBDeviceSpeedFull kOHCIEDDirectionOut 3
    kOHCIEDFormatGeneralTD).endpointStateOr exampleBulkState

/-- The state in which `AddEmptyEndPoint` returns `NULL` for want of a transfer descriptor:
the endpoint descriptor `p` it had taken from the pool, now `rest`, carries the flags word and
is not given back. -/
def AddEmptyEndPoint.abandoned (st : AppleUSBOHCI) (p : Nat) (rest : List Nat) (word : Nat) :
    AppleUSBOHCI :=
  { st with pFreeED := rest,
            eds := Function.update st.eds p { st.eds p with flags := word } }

/-- The polling rate with which `UIMCreateInterruptEndpoint` asks for a slot (lines 523 to
526): 7 instead of a rate of 8 or more for a full speed endpoint under the Opti workaround. -/
def interruptPollingRate (st : AppleUSBOHCI) (speed pollingRate : Nat) : Nat :=
  if st.OptiOn ∧ speed = kUSBDeviceSpeedFull ∧ (8 ≤ pollingRate ∧ pollingRate < 32768) then 7
  else pollingRate

/-- The example driver with empty pools of transfer descriptors. -/
def exampleNoDescriptorState : AppleUSBOHCI :=
  { exampleState with pFreeTD := [], pFreeITD := [] }

/-- The state of `UIMClearEndpointStall` after lines 1174 and 1175: the head pointer of the
endpoint descriptor `pED` is its tail pointer, physically and logically. -/
def UIMClearEndpointStall.collapsed (st : AppleUSBOHCI) (pED : Nat) : AppleUSBOHCI :=
  setED (setED st pED fun ed => { ed with tdQueueHeadPtr := ed.tdQueueTailPtr }) pED
    fun ed => { ed with pLogicalHeadP := ed.pLogicalTailP }

/-- From `st` to `st'` nothing of the endpoint directory changed: the sentinels of the lists,
the Opti workaround, the address of the root hub, and the flags and the links, logical and
physical, of the endpoint descriptors. -/
structure ListsKept (st st' : AppleUSBOHCI) : Prop where
  flags : ∀ e, (st'.eds e).flags = (st.eds e).flags
  next : ∀ e, (st'.eds e).pLogicalNext = (st.eds e).pLogicalNext
  nextED : ∀ e, (st'.eds e).nextED = (st.eds e).nextED
  pControlHead : st'.pControlHead = st.pControlHead
  pControlTail : st'.pControlTail = st.pControlTail
  pBulkHead : st'.pBulkHead = st.pBulkHead
  pBulkTail : st'.pBulkTail = st.pBulkTail
  pIsochHead : st'.pIsochHead = st.pIsochHead
  pIsochTail : st'.pIsochTail = st.pIsochTail
  pInterruptHead : st'.pInterruptHead = st.pInterruptHead
  OptiOn : st'.OptiOn = st.OptiOn
  rootHubFuncAddress : st'.rootHubFuncAddress = st.rootHubFuncAddress

/-- Modelled from the spec: what the endpoint lifecycle relies on in its collaborators, which
are not among the sources: `IOSleep` (the controller runs), the retirement routines `RemoveTDs`
and `RemoveAllTDs`, and `DeallocateED` leave the endpoint directory alone. -/
structure Collaborators.keepLists (X : Collaborators) : Prop where
  sleep : ∀ ms st, ListsKept st (X.IOSleep ms st)
  removeTDs : ∀ p st, ListsKept st (X.RemoveTDs p st)
  removeAllTDs : ∀ p st, ListsKept st (X.RemoveAllTDs p st)
  deallocateED : ∀ p st, ListsKept st (X.DeallocateED p st)

/-! ## The watchdog -/

/-- Modelled from the spec: the collaborators of the watchdog that are not among the sources:
`findBufferRemaining`, the number of bytes a transfer descriptor has yet to move, read from the
memory the controller writes, and `ReturnOneTransaction` of the completion path, an arbitrary
effect on the driver and its memory. -/
structure WatchdogCollaborators where
  findBufferRemaining : AppleUSBOHCI → (pTD : Nat) → Nat
  ReturnOneTransaction : (transaction pED : Nat) → IOReturn → AppleUSBOHCI → AppleUSBOHCI

/-- Modelled from the spec: `GetFrameNumber32`, the low 32 bits of the frame counter, which is
not among the sources. -/
def GetFrameNumber32 (st : AppleUSBOHCI) : Nat := st.frameNumber % W32

/-- Lines 1766 to 1788 of `CheckEDListForTimeouts`: the no-data policy for the transfer
descriptor `pTD` at the head of the endpoint `pED`, whose command has the no-data timeout
`noDataTimeout`. -/
def CheckEDListForTimeouts.noData (W : WatchdogCollaborators) (curFrame : Nat)
    (st : AppleUSBOHCI) (pED pTD noDataTimeout : Nat) : AppleUSBOHCI :=
  if noDataTimeout = 0 then st
  else if (st.tds pTD).lastFrame = 0 ∨ (st.tds pTD).lastFrame > curFrame then
    let st := setTD st pTD fun td => { td with lastFrame := curFrame }
    setTD st pTD fun td => { td with lastRemaining := W.findBufferRemaining st pTD }
  else
    let rem := W.findBufferRemaining st pTD
    if (st.tds pTD).lastRemaining ≠ rem then
      setTD st pTD fun td => { td with lastRemaining := rem }
    else if sub32 curFrame (st.tds pTD).lastFrame ≥ noDataTimeout then
      W.ReturnOneTransaction pTD pED .kIOUSBTransactionTimeout st
    else st

/-- One pass through the body of the `for` loop of `CheckEDListForTimeouts` (lines 1736 to
1788), for the endpoint descriptor `pED`. -/
def CheckEDListForTimeouts.visit (X : Collaborators) (W : WatchdogCollaborators)
    (curFrame : Nat) (st : AppleUSBOHCI) (pED : Nat) : AppleUSBOHCI :=
  let pTD := (st.eds pED).tdQueueHeadPtr &&& kOHCIHeadPMask
  let pTD := X.GetLogicalAddress st pTD
  if pTD = 0 then st
  else if pTD = (st.eds pED).pLogicalTailP then st
  else if (st.tds pTD).command = 0 then st
  else
    let command := (st.tds pTD).command
    let noDataTimeout := (st.commands command).noDataTimeout
    let completionTimeout := (st.commands command).completionTimeout
    if completionTimeout ≠ 0 then
      let firstActiveFrame := (st.commands command).uimScratch
      if firstActiveFrame = 0 then
        { st with commands := Function.update st.commands command
                    { st.commands command with uimScratch := curFrame } }
      else if sub32 curFrame firstActiveFrame ≥ completionTimeout then
        W.ReturnOneTransaction pTD pED .kIOUSBTransactionTimeout st
      else CheckEDListForTimeouts.noData W curFrame st pED pTD noDataTimeout
    else CheckEDListForTimeouts.noData W curFrame st pED pTD noDataTimeout

/-- The `for` loop of `CheckEDListForTimeouts` (line 1734) from `pED` on, with the number of
passes bounded by `fuel`. -/
def CheckEDListForTimeouts.loop (X : Collaborators) (W : WatchdogCollaborators)
    (curFrame tail : Nat) : Nat → AppleUSBOHCI → (pED : Nat) → Outcome AppleUSBOHCI
  | 0, _, _ => .outOfFuel
  | fuel + 1, st, pED =>
    if pED ≠ tail then
      if pED = 0 then .nullDereference
      else
        let st := CheckEDListForTimeouts.visit X W curFrame st pED
        CheckEDListForTimeouts.loop X W curFrame tail fuel st (st.eds pED).pLogicalNext
    else .ret st

/-- The function `AppleUSBOHCI::CheckEDListForTimeouts` (lines 1723 to 1790). -/
def CheckEDListForTimeouts (X : Collaborators) (W : WatchdogCollaborators)
    (st : AppleUSBOHCI) (fuel head tail : Nat) : Outcome AppleUSBOHCI :=
  let curFrame := GetFrameNumber32 st
  if head = 0 then .nullDereference
  else CheckEDListForTimeouts.loop X W curFrame tail fuel st (st.eds head).pLogicalNext

/-- Collaborators of the watchdog for the examples: the bytes a descriptor has yet to move are
those from its current buffer pointer to the end of its buffer, and a descriptor is retired by
taking its command off. -/
def exampleWatchdog : WatchdogCollaborators where
  findBufferRemaining st pTD :=
    if (st.tds pTD).currentBufferPtr = 0 then 0
    else (st.tds pTD).bufferEnd + 1 - (st.tds pTD).currentBufferPtr
  ReturnOneTransaction transaction _ _ st :=
    setTD st transaction fun td => { td with command := 0 }

/-- The example driver with the transfer of 200 bytes queued on the bulk endpoint 20, the
transfer descriptor 100 before the placeholder 101, at the frame `frame`: the command has the
given timeouts and first active frame, and the descriptor the given baseline. -/
def exampleWatchedState (frame noDataTimeout completionTimeout firstActiveFrame lastFrame
    lastRemaining : Nat) : AppleUSBOHCI :=
  setTD { exampleBulkQueuedState with
          frameNumber := frame,
          commands := fun _ =>
            { exampleCommand with noDataTimeout := noDataTimeout,
                                  completionTimeout := completionTimeout,
                                  uimScratch := firstActiveFrame } }
    100 fun td => { td with lastFrame := lastFrame, lastRemaining := lastRemaining }

/-- The example driver of `exampleWatchedState` after the scan of frame 5000 that saw the
remaining count of the descriptor 100 change from 500 to 200, at the later frame `frame`. -/
def exampleMovedState (frame : Nat) : AppleUSBOHCI :=
  { setTD (exampleWatchedState 5000 5000 0 0 100 500) 100
      (fun td => { td with lastRemaining := 200 }) with frameNumber := frame }

/-! ## The directory around a creation or a deletion -/

/-- The endpoint descriptor `x` is no member of the directory list from `head` to `tail`. -/
def Absent (st : AppleUSBOHCI) (head tail x : Nat) : Prop :=
  ∀ l, EDPath st.eds tail (st.eds head).pLogicalNext l → x ∉ l

/-- The endpoint descriptor `x` is no member of a list of the directory: the control list, the
bulk list, the 63 interrupt lists and the isochronous list. -/
structure NoMember (st : AppleUSBOHCI) (x : Nat) : Prop where
  control : Absent st st.pControlHead st.pControlTail x
  bulk : Absent st st.pBulkHead st.pBulkTail x
  interrupt : ∀ i, i < 63 →
    Absent st (st.pInterruptHead i).pHead (st.pInterruptHead i).pTail x
  isoch : Absent st st.pIsochHead st.pIsochTail x

/-- The endpoint descriptor `x` takes no part in the directory, as a descriptor of the pool
does: it is not `NULL`, no sentinel of a list and no member of one. -/
structure FreeDescriptor (st : AppleUSBOHCI) (x : Nat) : Prop where
  notNull : x ≠ 0
  control : x ≠ st.pControlHead ∧ x ≠ st.pControlTail
  bulk : x ≠ st.pBulkHead ∧ x ≠ st.pBulkTail
  interrupt : ∀ i, i < 63 → x ≠ (st.pInterruptHead i).pHead ∧ x ≠ (st.pInterruptHead i).pTail
  isoch : x ≠ st.pIsochHead ∧ x ≠ st.pIsochTail
  member : NoMember st x

/-- The head sentinels of the directory: none of them is a member of a list, and the heads of
lists of different kinds are different descriptors. -/
structure HeadSentinels (st : AppleUSBOHCI) : Prop where
  control : NoMember st st.pControlHead
  bulk : NoMember st st.pBulkHead
  interrupt : ∀ i, i < 63 → NoMember st (st.pInterruptHead i).pHead
  isoch : NoMember st st.pIsochHead
  bulkControl : st.pBulkHead ≠ st.pControlHead
  interruptControl : ∀ i, i < 63 → (st.pInterruptHead i).pHead ≠ st.pControlHead
  interruptBulk : ∀ i, i < 63 → (st.pInterruptHead i).pHead ≠ st.pBulkHead
  isochControl : st.pIsochHead ≠ st.pControlHead
  isochBulk : st.pIsochHead ≠ st.pBulkHead
  isochInterrupt : ∀ i, i < 63 → st.pIsochHead ≠ (st.pInterruptHead i).pHead

/-- From `st` to `st'` the sentinels of the directory lists and the Opti workaround are the
same. -/
structure SentinelsKept (st st' : AppleUSBOHCI) : Prop where
  pControlHead : st'.pControlHead = st.pControlHead
  pControlTail : st'.pControlTail = st.pControlTail
  pBulkHead : st'.pBulkHead = st.pBulkHead
  pBulkTail : st'.pBulkTail = st.pBulkTail
  pIsochHead : st'.pIsochHead = st.pIsochHead
  pIsochTail : st'.pIsochTail = st.pIsochTail
  pInterruptHead : ∀ i, (st'.pInterruptHead i).pHead = (st.pInterruptHead i).pHead
    ∧ (st'.pInterruptHead i).pTail = (st.pInterruptHead i).pTail
  OptiOn : st'.OptiOn = st.OptiOn

/-- What the lookup finds after a creation: the fields of the flags word of the endpoint
descriptor `p` are the address `a`, the endpoint number `e`, the direction `dir` and the max
packet size `m`, the speed bit is that of `speed` and the format is `format`; the skip bit is
clear; head and tail pointer are the same word without the halted bit, and designate, logically
and physically, the one descriptor `t` that the creation took from the front of the pool of
its format. -/
structure EndpointCreated (st st1 : AppleUSBOHCI) (p a e dir speed m format : Nat) :
    Prop where
  address : ((st1.eds p).flags &&& kOHCIEDControl_FA) >>> kOHCIEDControl_FAPhase = a
  endpoint : ((st1.eds p).flags &&& kOHCIEDControl_EN) >>> kOHCIEDControl_ENPhase = e
  direction : ((st1.eds p).flags &&& kOHCIEDControl_D) >>> kOHCIEDControl_DPhase = dir
  speedBit : ((st1.eds p).flags &&& kOHCIEDControl_S) >>> kOHCIEDControl_SPhase
    = if speed = kUSBDeviceSpeedFull then kOHCIEDSpeedFull else kOHCIEDSpeedLow
  maxPacketSize : ((st1.eds p).flags &&& kOHCIEDControl_MPS) >>> kOHCIEDControl_MPSPhase = m
  edType : GetEDType st1 p = format
  skip : (st1.eds p).flags &&& kOHCIEDControl_K = 0
  headTail : (st1.eds p).tdQueueHeadPtr = (st1.eds p).tdQueueTailPtr
  halted : (st1.eds p).tdQueueHeadPtr &&& kOHCIHeadPointer_H = 0
  placeholder : ∃ t, EndpointPlaceholder st st1 p format t

/-- The example driver with the bulk endpoint 5:2 out after `UIMCreateBulkEndpoint` for the
endpoint 5:3 out with the max packet size 512. -/
def exampleTruncatedState : AppleUSBOHCI :=
  (UIMCreateBulkEndpoint exampleBulkState 5 3 kUSBOut kUSBDeviceSpeedFull 512).stateOr
    exampleBulkState

/-- The directory list from `head` to `tail` around the endpoint descriptor `pED` and the
descriptor `back`: the list is a path without repetition, shorter than `fuel`; no member other
than `pED` has the key `unique` under `mask`; and either neither `pED` nor `back` takes part in
the list, or `pED` is a member and `back` is the member right before it (the head when `pED`
is the first member). -/
def OnlyMatch (st : AppleUSBOHCI) (fuel head tail mask unique pED back : Nat) : Prop :=
  ∃ l, EDPath st.eds tail (st.eds head).pLogicalNext l ∧ l.length < fuel ∧ (head :: l).Nodup
    ∧ (∀ x ∈ l, x ≠ pED → (st.eds x).flags &&& mask ≠ unique)
    ∧ ((pED ∉ l ∧ back ∉ l ∧ back ≠ head)
        ∨ ∃ pre post, l = pre ++ pED :: post ∧ back = pre.getLastD head)

/-- The endpoint descriptor `pED`, behind `back`, is the only one in the lists that
`FindEndpoint` searches that matches the key: `OnlyMatch` for the control list without the
direction (and, with the Opti workaround, the bulk list with the direction of a control
endpoint), the bulk list, the 63 interrupt lists and the isochronous list with the
direction. -/
def OnlyMatchAnywhere (st : AppleUSBOHCI)
    (fuel functionNumber endpointNumber direction pED back : Nat) : Prop :=
  OnlyMatch st fuel st.pControlHead st.pControlTail kUniqueNumNoDirMask
      (uniqueKeyNoDir functionNumber endpointNumber) pED back
  ∧ (st.OptiOn = true → OnlyMatch st fuel st.pBulkHead st.pBulkTail kUniqueNumMask
      (uniqueKey functionNumber endpointNumber kOHCIEDDirectionTD) pED back)
  ∧ OnlyMatch st fuel st.pBulkHead st.pBulkTail kUniqueNumMask
      (uniqueKey functionNumber endpointNumber direction) pED back
  ∧ (∀ i, i < 63 → OnlyMatch st fuel (st.pInterruptHead i).pHead (st.pInterruptHead i).pTail
      kUniqueNumMask (uniqueKey functionNumber endpointNumber direction) pED back)
  ∧ OnlyMatch st fuel st.pIsochHead st.pIsochTail kUniqueNumMask
      (uniqueKey functionNumber endpointNumber direction) pED back

/-- From `st` to `st'` the endpoint descriptor `pED` left the directory list from `head` to
`tail`: the members of the list are those of before without `pED`, in the same order. -/
def SameOrder (st st' : AppleUSBOHCI) (head tail pED : Nat) : Prop :=
  ∀ l, EDPath st.eds tail (st.eds head).pLogicalNext l →
    EDPath st'.eds tail (st'.eds head).pLogicalNext (l.erase pED)

/-- A buffer that the cursor resolves as two physical runs, the first of 60 bytes ending in
the middle of a page, at `0x1083C`, the second of 68 bytes starting on a page boundary. -/
def exampleOddBuffer : IOMemoryDescriptor where
  resolve _ maxSegments _ :=
    if maxSegments < 2 then [⟨0x10800, 60⟩] else [⟨0x10800, 60⟩, ⟨0x20000, 68⟩]

/-- The example driver after `CreateGeneralTransfer` for 128 bytes of the buffer whose first
run of 60 bytes is no multiple of the max packet size 64 of the bulk endpoint 20. -/
def exampleLeakedState : AppleUSBOHCI :=
  (CreateGeneralTransfer exampleHeader exampleTwoPageState 20 77 exampleOddBuffer 128 0 1
    4).stateOr exampleTwoPageState

/-- The example driver without the single-page erratum, whose commands ask for 128 bytes of
the split buffer on the endpoint 3 of the device 5, after `UIMCreateBulkEndpoint` created that
endpoint with the max packet size 0. -/
def exampleZeroPacketState : AppleUSBOHCI :=
  (UIMCreateBulkEndpoint
    { exampleTwoPageState with
      commands := fun _ =>
        { exampleCommand with endpoint := 3, buffer := exampleSplitBuffer, reqCount := 128 } }
    5 3 kUSBOut kUSBDeviceSpeedFull 0).stateOr exampleTwoPageState

/-! ## The watchdog entry point -/

/-- Modelled from the spec: `kOHCIHcCommandStatus_HCR`, the host controller reset bit of
`HcCommandStatus`. -/
def kOHCIHcCommandStatus_HCR : Nat := 0x1
/-- Modelled from the spec: the phase of the functional state field of `HcControl`. -/
def kOHCIHcControl_HCFSPhase : Nat := 6
/-- Modelled from the spec: the functional state `UsbResume`. -/
def kOHCIFunctionalState_Resume : Nat := 1
/-- Modelled from the spec: the functional state `UsbOperational`. -/
def kOHCIFunctionalState_Operational : Nat := 2
/-- Modelled from the spec: the periodic list enable bit of `HcControl`. -/
def kOHCIHcControl_PLE : Nat := 0x4
/-- Modelled from the spec: the isochronous enable bit of `HcControl`. -/
def kOHCIHcControl_IE : Nat := 0x8
/-- Modelled from the spec: `kOHCIHcControl_Zero`, no bit. -/
def kOHCIHcControl_Zero : Nat := 0

/-- Modelled from the spec: what `UIMCheckForTimeouts` uses that is not among the sources: the
errata bits `kErrataNeedsWatchdogTimer` and `kErrataLucentSuspendResume`, and the check for an
inactive root hub of lines 1818 to 1858 (clock, root hub status and power management), an
arbitrary effect on the driver. -/
structure WatchdogHeader where
  kErrataNeedsWatchdogTimer : Nat
  kErrataLucentSuspendResume : Nat
  checkRootHubInactivity : AppleUSBOHCI → AppleUSBOHCI

/-- Lines 1877 to 1929 of `UIMCheckForTimeouts`: the registers are saved, the controller is
reset, the registers are restored and the controller is taken through resume to the
operational state with its lists enabled. -/
def UIMCheckForTimeouts.recover (W : WatchdogHeader) (X : Collaborators) (st : AppleUSBOHCI) :
    AppleUSBOHCI :=
  let fmInterval := st.pOHCIRegisters .hcFmInterval
  let hcca := st.pOHCIRegisters .hcHCCA
  let bulkHead := st.pOHCIRegisters .hcBulkHeadED
  let controlHead := st.pOHCIRegisters .hcControlHeadED
  let periodicStart := st.pOHCIRegisters .hcPeriodicStart
  let intEnable := st.pOHCIRegisters .hcInterruptEnable
  let fmNumber := st.pOHCIRegisters .hcFmNumber
  let st := writeRegister st .hcCommandStatus kOHCIHcCommandStatus_HCR
  let st := X.IOSleep 3 st
  let st := writeRegister st .hcFmNumber fmNumber
  let st := writeRegister st .hcInterruptEnable intEnable
  let st := writeRegister st .hcPeriodicStart periodicStart
  let st := writeRegister st .hcBulkHeadED bulkHead
  let st := writeRegister st .hcControlHeadED controlHead
  let st := writeRegister st .hcHCCA hcca
  let st := writeRegister st .hcFmInterval fmInterval
  let st := writeRegister st .hcControl
    (shl32 kOHCIFunctionalState_Resume kOHCIHcControl_HCFSPhase)
  let st :=
    if st.errataBits &&& W.kErrataLucentSuspendResume ≠ 0 then X.IOSleep 35 st
    else X.IOSleep 20 st
  let st := writeRegister st .hcControl
    (shl32 kOHCIFunctionalState_Operational kOHCIHcControl_HCFSPhase)
  let st := X.IOSleep 3 st
  writeRegister st .hcControl
    (shl32 kOHCIFunctionalState_Operational kOHCIHcControl_HCFSPhase
      ||| kOHCIHcControl_CLE
      ||| (if st.OptiOn then kOHCIHcControl_Zero else kOHCIHcControl_BLE)
      ||| kOHCIHcControl_PLE ||| kOHCIHcControl_IE)

/-- Lines 1867 to 1930 of `UIMCheckForTimeouts`, the check for a dead controller.  `hccaWord`
is the word at offset `0x80` of the HCCA, memory that the controller writes. -/
def UIMCheckForTimeouts.wedgeCheck (W : WatchdogHeader) (X : Collaborators) (hccaWord : Nat)
    (st : AppleUSBOHCI) : AppleUSBOHCI :=
  if st.errataBits &&& W.kErrataNeedsWatchdogTimer ≠ 0 then
    let hcFrameNumber := toUInt16 (st.pOHCIRegisters .hcFmNumber)
    let hccaFrameNumber := toUInt16 hccaWord
    if hcFrameNumber > 5 ∧ hcFrameNumber > hccaFrameNumber + 5 then
      UIMCheckForTimeouts.recover W X st
    else st
  else st

/-- The function `AppleUSBOHCI::UIMCheckForTimeouts` (lines 1803 to 1932): the scans of the
control and the bulk list, the check for an inactive root hub, and the check for a dead
controller. -/
def UIMCheckForTimeouts (W : WatchdogHeader) (X : Collaborators) (T : WatchdogCollaborators)
    (hccaWord fuel : Nat) (st : AppleUSBOHCI) : Outcome AppleUSBOHCI :=
  (CheckEDListForTimeouts X T st fuel st.pControlHead st.pControlTail).bind fun st =>
    (CheckEDListForTimeouts X T st fuel st.pBulkHead st.pBulkTail).bind fun st =>
      .ret (UIMCheckForTimeouts.wedgeCheck W X hccaWord (W.checkRootHubInactivity st))

/-- The example driver with the errata bit 4, which the example watchdog header takes for
`kErrataNeedsWatchdogTimer`, and the frame number register at `live`. -/
def exampleWedgeState (live : Nat) : AppleUSBOHCI :=
  { exampleState with
    errataBits := 4, pOHCIRegisters := fun r => if r = .hcFmNumber then live else 0 }

/-- Constants for the examples of the watchdog; the root hub check does nothing. -/
def exampleWatchdogHeader : WatchdogHeader where
  kErrataNeedsWatchdogTimer := 4
  kErrataLucentSuspendResume := 8
  checkRootHubInactivity st := st

/-- The states at the loop test of a frame packing loop with the given body, from the entry
state `l0` on, together with the number of passes made to get there and the number of iTDs
those passes took from the pool. -/
inductive IsochLoopCount
    (body : IsochTransferLoop → Outcome (Sum IsochTransferLoop IsochTransferLoop))
    (frameCount : Nat) (l0 : IsochTransferLoop) : Nat → Nat → IsochTransferLoop → Prop
  | entry : IsochLoopCount body frameCount l0 0 0 l0
  | pass (n a : Nat) (l l' : IsochTransferLoop) : IsochLoopCount body frameCount l0 n a l →
      l.curFrameInRequest < frameCount → body l = .ret (.inr l') →
      IsochLoopCount body frameCount l0 (n + 1)
        (a + (l.st.pFreeITD.length - l'.st.pFreeITD.length)) l'

/-- The value returned is replaced by its image, every other outcome is kept. -/
def Outcome.map {α β : Type} (f : α → β) (o : Outcome α) : Outcome β :=
  match o with
  | .ret a => .ret (f a)
  | .divideByZero => .divideByZero
  | .nullDereference => .nullDereference
  | .outOfBounds => .outOfBounds
  | .outOfFuel => .outOfFuel

/-- The isochronous transfer descriptor without its `pType` tag. -/
def OHCIIsochTransferDescriptor.eraseTag (d : OHCIIsochTransferDescriptor) :
    OHCIIsochTransferDescriptor :=
  { d with pType := 0 }

/-- The entry of a frame list without its `frStatus`. -/
def IOUSBIsocFrame.eraseStatus (f : IOUSBIsocFrame) : IOUSBIsocFrame :=
  { f with frStatus := 0 }

/-- The state of the driver without the `pType` tags of the isochronous transfer descriptors
and without the `frStatus` of the entries of the clients' frame lists: two states with the same
image differ in nothing else. -/
def AppleUSBOHCI.eraseTags (st : AppleUSBOHCI) : AppleUSBOHCI :=
  { st with itds := fun x => (st.itds x).eraseTag,
            isocFrames := fun p i => (st.isocFrames p i).eraseStatus }

/-- The variables of the frame packing loop, with the tags of the state erased. -/
def IsochTransferLoop.eraseTags (l : IsochTransferLoop) : IsochTransferLoop :=
  { l with st := l.st.eraseTags }

/-- The result of a call, with the tags of the state erased. -/
def eraseResult (r : IOReturn × AppleUSBOHCI) : IOReturn × AppleUSBOHCI :=
  (r.1, r.2.eraseTags)

/-- The result of a frame packing loop, with the tags of the state erased. -/
def eraseLoopResult (r : IOReturn × IsochTransferLoop) : IOReturn × IsochTransferLoop :=
  (r.1, r.2.eraseTags)

/-- The delay interrupt field (bits 21..23) of the flags word of a transfer descriptor. -/
def delayInterruptOf (flags : Nat) : Nat :=
  (flags &&& kOHCIGTDControl_DI) >>> kOHCIGTDControl_DIPhase

/-- The test of lines 860 to 862 and 2100 to 2102 that asks for a new iTD: the iTD holds a
frame, the frame fetched starts on another page than the first frame of the iTD, the iTD has
used its one page crossing, and the frame starts on yet another page or spans two
segments. -/
def IsochTransferLoop.crossesPages (l : IsochTransferLoop) : Prop :=
  l.curFrameInTD ≠ 0 ∧ l.segs.seg0.location &&& kOHCIPageMask ≠ l.physPageStart
    ∧ l.pageSelectMask ≠ 0
    ∧ (l.segs.seg0.location &&& kOHCIPageMask ≠ l.physPageEnd ∨ l.numSegs = 2)

/-- The iTD of the run was closed by the page crossing rule: a pass of the loop with the given
body, entered from `l0`, found it as the current iTD with the frames of the run in it, fetched
the next frame and found that it asks for a new iTD. -/
def IsochRun.closedByPages
    (body : IsochTransferLoop → Outcome (Sum IsochTransferLoop IsochTransferLoop))
    (frameCount : Nat) (l0 : IsochTransferLoop) (pBuffer : IOMemoryDescriptor)
    (pFrames bufferSize : Nat) (r : IsochRun) : Prop :=
  ∃ l, IsochLoopReachable body frameCount l0 l ∧ l.curFrameInRequest < frameCount
    ∧ l.pTailITD = r.itd ∧ l.curFrameInTD = r.count
    ∧ l.curFrameInRequest = r.first + r.count
    ∧ (l.getSegments pBuffer pFrames bufferSize).crossesPages

/-- The marks of the closed iTDs of a chain under construction by the frame packing loop with
the update frequency `u` (0 for the standard loop): the delay interrupt field is 0 in an iTD
closed with `u` frames or more for a `u` other than 0, and 111b in every other; no closed iTD
has more than `u` frames for a `u` other than 0, nor does the current one; and each was closed
with 8 frames, with `u` frames, or by the page crossing rule (`crossed`). -/
structure IsochMarked (u : Nat) (crossed : IsochRun → Prop) (l : IsochTransferLoop)
    (rs : List IsochRun) : Prop where
  interrupt : ∀ r ∈ rs,
    delayInterruptOf (l.st.itds r.itd).flags = if u ≠ 0 ∧ u ≤ r.count then 0 else 7
  limit : ∀ r ∈ rs, u ≠ 0 → r.count ≤ u
  full : ∀ r ∈ rs, r.count = 8 ∨ (u ≠ 0 ∧ r.count = u) ∨ crossed r
  current : u ≠ 0 → l.curFrameInTD ≤ u

/-- The example driver with the two endpoints after the transfer on the bulk endpoint and a
low latency `UIMCreateIsochTransfer` of 3 frames, one byte each on a page of its own, with an
update frequency of 2, on the isochronous endpoint. -/
def exampleLowLatencyState : AppleUSBOHCI :=
  (UIMCreateIsochTransferLL exampleHeader exampleBulkQueuedState 5 5 1 ⟨1, 2, 3⟩ kUSBOut 100010
    exampleScatteredBuffer 3 7 2).stateOr exampleBulkQueuedState

/-- Modelled from the spec: what the recovery of the controller relies on in `IOSleep`, which
is not among the sources: while the driver sleeps it writes no register, and its `_OptiOn`
flag stays as it is. -/
structure Collaborators.sleepQuiet (X : Collaborators) : Prop where
  writes : ∀ ms st, (X.IOSleep ms st).registerWrites = st.registerWrites
  optiOn : ∀ ms st, (X.IOSleep ms st).OptiOn = st.OptiOn

/-- The example driver with the bulk endpoint 5:2 out after an isochronous endpoint with the
same key, 5:2 out, of 64 bytes has been created: the endpoint descriptor 21 in the isochronous
list. -/
def exampleShadowedState : AppleUSBOHCI :=
  (UIMCreateIsochEndpoint exampleBulkState 5 5 2 64 kUSBOut).stateOr exampleBulkState

/-- The example driver after a second bulk endpoint with the key of the first, 5:2 out, has
been created: the endpoint descriptor 21 stands before the descriptor 20 in the bulk list. -/
def exampleDuplicateBulkState : AppleUSBOHCI :=
  (UIMCreateBulkEndpoint exampleBulkState 5 2 kUSBOut kUSBDeviceSpeedFull 64).stateOr
    exampleBulkState

/-- The example driver with the two bulk endpoints of the key 5:2 out after one
`UIMDeleteEndpoint` for that key. -/
def exampleDuplicateDeletedState : AppleUSBOHCI :=
  (UIMDeleteEndpoint exampleCollaborators exampleDuplicateBulkState 5 5 2 kUSBOut).stateOr
    exampleDuplicateBulkState

/-- The example driver with the two endpoints after the transfer on the bulk endpoint, with a
frame list in which the frames 0 and 1 ask for no byte and frame 2 asks for one. -/
def exampleEmptyFramesState : AppleUSBOHCI :=
  { exampleBulkQueuedState with
    isocFrames := fun _ i => if i = 2 then ⟨0, 1, 0⟩ else ⟨0, 0, 0⟩ }

/-- The driver with the empty frames after a `UIMCreateIsochTransfer` of the 3 frames, which
lie one behind the other from the start of the first page of the buffer on, on the
isochronous endpoint. -/
def exampleEmptyFramesTransferState : AppleUSBOHCI :=
  (UIMCreateIsochTransfer exampleHeader exampleEmptyFramesState 5 5 1 ⟨1, 2, 3⟩ kUSBOut 100010
    (isochBuffer 0 examplePhys) 3 7).stateOr exampleEmptyFramesState

/-- The driver with the empty frames after the low latency `UIMCreateIsochTransfer` of the 3
frames over the same buffer. -/
def exampleEmptyFramesLowLatencyState : AppleUSBOHCI :=
  (UIMCreateIsochTransferLL exampleHeader exampleEmptyFramesState 5 5 1 ⟨1, 2, 3⟩ kUSBOut
    100010 (isochBuffer 0 examplePhys) 3 7 0).stateOr exampleEmptyFramesState

/-- A store of the isochronous transfer functions, as one entry of the record of a call: into
fields of an isochronous transfer descriptor, into fields of an endpoint descriptor, into the
status of a frame of the request, or a call of the pool of isochronous transfer descriptors. -/
inductive IsochStore where
  | transferDescriptor (p : Nat)
      (f : OHCIIsochTransferDescriptor → OHCIIsochTransferDescriptor)
  | endpointDescriptor (p : Nat) (f : OHCIEndpointDescriptor → OHCIEndpointDescriptor)
  | frameStatus (pFrames i status : Nat)
  | allocate
  | deallocate (p : Nat)

/-- The store is one into an endpoint descriptor. -/
def IsochStore.isEndpoint : IsochStore → Bool
  | .endpointDescriptor _ _ => true
  | _ => false

/-- The state after the store. -/
def IsochStore.apply : IsochStore → AppleUSBOHCI → AppleUSBOHCI
  | .transferDescriptor p f, st => setITD st p f
  | .endpointDescriptor p f, st => setED st p f
  | .frameStatus pFrames i status, st =>
    { st with isocFrames := Function.update st.isocFrames pFrames
                (Function.update (st.isocFrames pFrames) i
                  { st.isocFrames pFrames i with frStatus := status }) }
  | .allocate, st => (AllocateITD st).2
  | .deallocate p, st => DeallocateITD st p

/-- The state after the stores of the list, made one after the other. -/
def IsochStore.replay (log : List IsochStore) (st : AppleUSBOHCI) : AppleUSBOHCI :=
  log.foldl (fun s e => e.apply s) st

/-- The stores of lines 843 to 871 (and 2085 to 2113), in program order: the header of the iTD
when it takes its first frame. -/
def IsochTransferLoop.placeOnPageStores (l : IsochTransferLoop) (pFrames tdType : Nat) :
    List IsochStore :=
  if l.curFrameInTD = 0 then
    [.transferDescriptor l.pTailITD fun itd =>
      { itd with pIsocFrame := pFrames, frameNum := l.curFrameInRequest, pType := tdType,
                 bufferPage0 := l.segs.seg0.location &&& kOHCIPageMask }]
  else []

/-- The stores of one pass through the `while` loop of the standard `UIMCreateIsochTransfer`
(lines 833 to 914), in program order. -/
def UIMCreateIsochTransfer.bodyStores (pBuffer : IOMemoryDescriptor)
    (pFrames frameNumber tdType bufferSize : Nat) (l : IsochTransferLoop) : List IsochStore :=
  (l.getSegments pBuffer pFrames bufferSize).placeOnPageStores pFrames tdType ++
  match (l.getSegments pBuffer pFrames bufferSize).placeOnPage pFrames frameNumber tdType with
  | .ret l =>
    if l.curFrameInTD > 7 ∨ l.needNewITD then
      let itdFlags := l.itdFlags ||| shl32 (sub32 l.curFrameInTD 1) kOHCIITDControl_FCPhase
      let st := setITD l.st l.pTailITD fun itd => { itd with bufferEnd := l.lastPhysical }
      [.transferDescriptor l.pTailITD fun itd => { itd with bufferEnd := l.lastPhysical },
        .allocate] ++
      match AllocateITD st with
      | (none, _) => []
      | (some pNewITD, st) =>
        let itdFlags :=
          itdFlags ||| shl32 kOHCIGTDConditionNotAccessed kOHCIGTDControl_CCPhase
        let itdFlags := itdFlags ||| shl32 0x7 kOHCIGTDControl_DIPhase
        let st := setITD st l.pTailITD fun itd =>
          { itd with flags := itdFlags, completion := { itd.completion with action := 0 } }
        [.transferDescriptor l.pTailITD fun itd =>
            { itd with flags := itdFlags, completion := { itd.completion with action := 0 } },
          .transferDescriptor (st.itds l.pTailITD).pLogicalNext fun itd =>
            { itd with nextTD := (st.itds pNewITD).pPhysical, pLogicalNext := pNewITD }]
    else
      let word := toUInt16 (l.pageOffset ||| l.pageSelectMask |||
        shl32 kOHCIITDOffsetConditionNotAccessed kOHCIITDOffset_CCPhase)
      [.transferDescriptor l.pTailITD fun itd =>
        { itd with offset := Function.update itd.offset l.curFrameInTD word }]
  | _ => []

/-- The stores of one pass through the `while` loop of the low latency
`UIMCreateIsochTransfer` (lines 2075 to 2167), in program order. -/
def UIMCreateIsochTransferLL.bodyStores (pBuffer : IOMemoryDescriptor)
    (pFrames frameNumber tdType bufferSize updateFrequency : Nat) (l : IsochTransferLoop) :
    List IsochStore :=
  let useUpdateFrequency : Bool := updateFrequency ≠ 0
  (l.getSegments pBuffer pFrames bufferSize).placeOnPageStores pFrames tdType ++
  match (l.getSegments pBuffer pFrames bufferSize).placeOnPage pFrames frameNumber tdType with
  | .ret l =>
    if l.curFrameInTD > 7 ∨ l.needNewITD ∨
        (useUpdateFrequency ∧ l.curFrameInTD ≥ updateFrequency) then
      let itdFlags := l.itdFlags ||| shl32 (sub32 l.curFrameInTD 1) kOHCIITDControl_FCPhase
      let st := setITD l.st l.pTailITD fun itd => { itd with bufferEnd := l.lastPhysical }
      [.transferDescriptor l.pTailITD fun itd => { itd with bufferEnd := l.lastPhysical },
        .allocate] ++
      match AllocateITD st with
      | (none, _) => []
      | (some pNewITD, st) =>
        let itdFlags :=
          itdFlags ||| shl32 kOHCIGTDConditionNotAccessed kOHCIGTDControl_CCPhase
        let itdFlags :=
          if ¬ (useUpdateFrequency ∧ l.curFrameInTD ≥ updateFrequency) then
            itdFlags ||| shl32 0x7 kOHCIGTDControl_DIPhase
          else itdFlags
        let st := setITD st l.pTailITD fun itd =>
          { itd with flags := itdFlags, completion := { itd.completion with action := 0 } }
        [.transferDescriptor l.pTailITD fun itd =>
            { itd with flags := itdFlags, completion := { itd.completion with action := 0 } },
          .transferDescriptor (st.itds l.pTailITD).pLogicalNext fun itd =>
            { itd with nextTD := (st.itds pNewITD).pPhysical, pLogicalNext := pNewITD }]
    else
      let word := toUInt16 (l.pageOffset ||| l.pageSelectMask |||
        shl32 kOHCIITDOffsetConditionNotAccessed kOHCIITDOffset_CCPhase)
      [.transferDescriptor l.pTailITD fun itd =>
        { itd with offset := Function.update itd.offset l.curFrameInTD word }]
  | _ => []

/-- The stores of a frame packing loop with the given pass, whose stores are `stores`, in
program order. -/
def IsochTransferLoop.loopStores
    (body : IsochTransferLoop → Outcome (Sum IsochTransferLoop IsochTransferLoop))
    (stores : IsochTransferLoop → List IsochStore) (frameCount : Nat) :
    Nat → IsochTransferLoop → List IsochStore
  | 0, _ => []
  | fuel + 1, l =>
    if l.curFrameInRequest < frameCount then
      stores l ++
      match body l with
      | .ret (.inr l) => IsochTransferLoop.loopStores body stores frameCount fuel l
      | _ => []
    else []

/-- The calls of `DeallocateITD` of the `while (pTailITD != pNewITD)` loop of the failure path
(lines 925 to 930 and 2178 to 2183), in program order. -/
def unlinkITDsStores (pNewITD : Nat) : Nat → AppleUSBOHCI → (pTailITD : Nat) → List IsochStore
  | 0, _, _ => []
  | fuel + 1, st, pTailITD =>
    if pTailITD ≠ pNewITD then
      if pTailITD = 0 then []
      else .deallocate pTailITD ::
        unlinkITDsStores pNewITD fuel (DeallocateITD st pTailITD) (st.itds pTailITD).pLogicalNext
    else []

/-- The stores of the end of both `UIMCreateIsochTransfer` variants (lines 917 to 944 and 2170
to 2197), in program order: on a failure the placeholder is cut off and the new iTDs are given
back; on success the last iTD is completed (lines 937 to 939 and 2190 to 2192) and then the
tail pointers of the endpoint descriptor are stored (lines 942 and 943, 2195 and 2196). -/
def UIMCreateIsochTransfer.finishStores (fuel pED : Nat) (completion : IOUSBCompletion)
    (status : IOReturn) (l : IsochTransferLoop) : List IsochStore :=
  let st := l.st
  if status ≠ .kIOReturnSuccess then
    let pNewITD := (st.itds l.pTailITD).pLogicalNext
    let pTempITD := (st.eds pED).pLogicalTailP
    let pTailITD := (st.itds pTempITD).pLogicalNext
    .transferDescriptor pTempITD (fun itd => { itd with pLogicalNext := 0, nextTD := 0 }) ::
      unlinkITDsStores pNewITD fuel
        (setITD st pTempITD fun itd => { itd with pLogicalNext := 0, nextTD := 0 }) pTailITD
  else
    let itdFlags := l.itdFlags ||| shl32 (sub32 l.curFrameInTD 1) kOHCIITDControl_FCPhase
    let st := setITD st l.pTailITD fun itd =>
      { itd with flags := itdFlags, bufferEnd := l.lastPhysical, completion := completion }
    [.transferDescriptor l.pTailITD fun itd =>
        { itd with flags := itdFlags, bufferEnd := l.lastPhysical, completion := completion },
      .endpointDescriptor pED fun ed =>
        { ed with pLogicalTailP := l.pNewITD,
                  tdQueueTailPtr := (st.itds l.pNewITD).pPhysical }]

/-- The store with which the frame packing loop is entered (lines 826 and 827, 2068 and 2069):
the link from the placeholder to the new iTD. -/
def IsochTransferLoop.initStores (st : AppleUSBOHCI) (pED pNewITD : Nat) : List IsochStore :=
  [.transferDescriptor (st.eds pED).pLogicalTailP fun itd =>
    { itd with nextTD := (st.itds pNewITD).pPhysical, pLogicalNext := pNewITD }]

/-- The stores of the standard `UIMCreateIsochTransfer` from the point where the endpoint
descriptor `pED` has been found (lines 770 to 958), in program order. -/
def UIMCreateIsochTransfer.queueStores (st : AppleUSBOHCI) (fuel pED : Nat)
    (completion : IOUSBCompletion) (frameNumberStart : Nat) (pBuffer : IOMemoryDescriptor)
    (frameCount pFrames tdType : Nat) : List IsochStore :=
  match isochFrameWindow (frameNumberStart % W64) (GetFrameNumber st) with
  | some _ => []
  | none =>
    match UIMCreateIsochTransfer.bufferSize st pFrames frameCount 0 0 with
    | none => []
    | some bufferSize =>
      .allocate ::
      match AllocateITD st with
      | (none, _) => []
      | (some pNewITD, st) =>
        IsochTransferLoop.initStores st pED pNewITD ++
        IsochTransferLoop.loopStores
          (UIMCreateIsochTransfer.body pBuffer pFrames (toUInt16 frameNumberStart) tdType
            bufferSize)
          (UIMCreateIsochTransfer.bodyStores pBuffer pFrames (toUInt16 frameNumberStart) tdType
            bufferSize)
          frameCount (2 * frameCount + 2) (IsochTransferLoop.init st pED pNewITD bufferSize) ++
        match UIMCreateIsochTransfer.loop pBuffer frameCount pFrames
            (toUInt16 frameNumberStart) tdType bufferSize (2 * frameCount + 2)
            (IsochTransferLoop.init st pED pNewITD bufferSize) with
        | .ret r => UIMCreateIsochTransfer.finishStores fuel pED completion r.1 r.2
        | _ => []

/-- The stores of the standard function `AppleUSBOHCI::UIMCreateIsochTransfer` (lines 707 to
960), in program order. -/
def UIMCreateIsochTransferStores (H : Header) (st : AppleUSBOHCI) (fuel : Nat)
    (functionAddress endpointNumber : Nat) (completion : IOUSBCompletion)
    (direction frameNumberStart : Nat) (pBuffer : IOMemoryDescriptor)
    (frameCount pFrames : Nat) : List IsochStore :=
  if frameCount = 0 ∨ frameCount > 1000 then []
  else if direction ≠ kUSBOut ∧ direction ≠ kUSBIn then []
  else
    let tdType :=
      if direction = kUSBOut then H.kOHCIIsochronousOutType else H.kOHCIIsochronousInType
    let direction := if direction = kUSBOut then kOHCIEDDirectionOut else kOHCIEDDirectionIn
    match FindIsochronousEndpoint st fuel functionAddress endpointNumber direction with
    | .ret (some (pED, _)) =>
      UIMCreateIsochTransfer.queueStores st fuel pED completion frameNumberStart pBuffer
        frameCount pFrames tdType
    | _ => []

/-- The stores of the `for` loop of lines 2032 to 2044 of the low latency variant from frame
`i` on, `n` frames to go, in program order: the status of every frame that passed the test. -/
def UIMCreateIsochTransferLL.bufferSizeStores (H : Header) (pFrames : Nat) :
    (n i : Nat) → AppleUSBOHCI → List IsochStore
  | 0, _, _ => []
  | n + 1, i, st =>
    if (st.isocFrames pFrames i).frReqCount > kUSBMaxIsocFrameReqCount then []
    else
      .frameStatus pFrames i H.kUSBLowLatencyIsochTransferKey ::
        UIMCreateIsochTransferLL.bufferSizeStores H pFrames n (i + 1)
          ((IsochStore.frameStatus pFrames i H.kUSBLowLatencyIsochTransferKey).apply st)

/-- The stores of the low latency `UIMCreateIsochTransfer` from the point where the endpoint
descriptor `pED` has been found (lines 1999 to 2200), in program order. -/
def UIMCreateIsochTransferLL.queueStores (H : Header) (st : AppleUSBOHCI) (fuel pED : Nat)
    (completion : IOUSBCompletion) (frameNumberStart : Nat) (pBuffer : IOMemoryDescriptor)
    (frameCount pFrames updateFrequency tdType : Nat) : List IsochStore :=
  match isochFrameWindow (frameNumberStart % W64) (GetFrameNumber st) with
  | some _ => []
  | none =>
    UIMCreateIsochTransferLL.bufferSizeStores H pFrames frameCount 0 st ++
    match UIMCreateIsochTransferLL.bufferSize H pFrames frameCount 0 0 st with
    | (none, _) => []
    | (some bufferSize, st) =>
      .allocate ::
      match AllocateITD st with
      | (none, _) => []
      | (some pNewITD, st) =>
        IsochTransferLoop.initStores st pED pNewITD ++
        IsochTransferLoop.loopStores
          (UIMCreateIsochTransferLL.body pBuffer pFrames (toUInt16 frameNumberStart) tdType
            bufferSize updateFrequency)
          (UIMCreateIsochTransferLL.bodyStores pBuffer pFrames (toUInt16 frameNumberStart)
            tdType bufferSize updateFrequency)
          frameCount (2 * frameCount + 2) (IsochTransferLoop.init st pED pNewITD bufferSize) ++
        match UIMCreateIsochTransferLL.loop pBuffer frameCount pFrames
            (toUInt16 frameNumberStart) tdType bufferSize updateFrequency (2 * frameCount + 2)
            (IsochTransferLoop.init st pED pNewITD bufferSize) with
        | .ret r => UIMCreateIsochTransfer.finishStores fuel pED completion r.1 r.2
        | _ => []

/-- The stores of the low latency function `AppleUSBOHCI::UIMCreateIsochTransfer` (lines 1934
to 2202), in program order. -/
def UIMCreateIsochTransferLLStores (H : Header) (st : AppleUSBOHCI) (fuel : Nat)
    (functionAddress endpointNumber : Nat) (completion : IOUSBCompletion)
    (direction frameNumberStart : Nat) (pBuffer : IOMemoryDescriptor)
    (frameCount pFrames updateFrequency : Nat) : List IsochStore :=
  if frameCount = 0 ∨ frameCount > 1000 then []
  else if direction ≠ kUSBOut ∧ direction ≠ kUSBIn then []
  else
    let tdType :=
      if direction = kUSBOut then H.kOHCIIsochronousOutLowLatencyType
      else H.kOHCIIsochronousInLowLatencyType
    let direction := if direction = kUSBOut then kOHCIEDDirectionOut else kOHCIEDDirectionIn
    match FindIsochronousEndpoint st fuel functionAddress endpointNumber direction with
    | .ret (some (pED, _)) =>
      UIMCreateIsochTransferLL.queueStores H st fuel pED completion frameNumberStart pBuffer
        frameCount pFrames updateFrequency tdType
    | _ => []

/-- What the record `log` of the stores of a call of `UIMCreateIsochTransfer` that returned
`status` and the state `st'` says of the endpoint descriptors.  The stores of the record, made
one after the other on the state `st` before the call, give `st'`.  When the status is not
success, no store of the record is one into an endpoint descriptor, and the endpoint
descriptors are those before the call.  On success the record is `pre` followed by one store
into the endpoint descriptor found, which sets `pLogicalTailP` and `tdQueueTailPtr` to the new
tail and its physical address; no store of `pre` is one into an endpoint descriptor, so before
every store of the call the endpoint descriptors are those before the call; and the stores of
`pre` give the state `sF`, on which the tail is stored and whose isochronous transfer
descriptors are already those of `st'`. -/
def TailPublished (st st' : AppleUSBOHCI) (status : IOReturn)
    (found : Outcome (Option (Nat × Nat))) (log : List IsochStore) : Prop :=
  IsochStore.replay log st = st'
    ∧ (status ≠ .kIOReturnSuccess → (∀ e ∈ log, e.isEndpoint = false) ∧ st'.eds = st.eds)
    ∧ (status = .kIOReturnSuccess → ∃ pED back pre newTail sF,
      found = .ret (some (pED, back))
      ∧ log = pre ++ [.endpointDescriptor pED fun ed =>
          { ed with pLogicalTailP := newTail, tdQueueTailPtr := (sF.itds newTail).pPhysical }]
      ∧ (∀ e ∈ pre, e.isEndpoint = false)
      ∧ (∀ k, (IsochStore.replay (pre.take k) st).eds = st.eds)
      ∧ IsochStore.replay pre st = sF
      ∧ sF.itds = st'.itds
      ∧ st' = setED sF pED fun ed =>
          { ed with pLogicalTailP := newTail, tdQueueTailPtr := (sF.itds newTail).pPhysical })

/-! # Theorems -/

/-! ## Basic facts -/

@[simp] theorem Outcome.bind_ret {α β : Type} (a : α) (f : α → Outcome β) :
    (Outcome.ret a).bind f = f a := rfl

theorem Outcome.bind_eq_ret {α β : Type} {o : Outcome α} {f : α → Outcome β} {b : β}
    (h : o.bind f = .ret b) : ∃ a, o = .ret a ∧ f a = .ret b := by
  cases o <;> simp [Outcome.bind] at h
  exact ⟨_, rfl, h⟩

theorem or_and_self_right (x m : Nat) : (x ||| m) &&& m = m := by
  apply Nat.eq_of_testBit_eq
  intro i
  simp only [Nat.testBit_and, Nat.testBit_or]
  cases x.testBit i <;> cases m.testBit i <;> rfl

theorem and_or_distrib (a b c : Nat) : (a ||| b) &&& c = (a &&& c) ||| (b &&& c) := by
  apply Nat.eq_of_testBit_eq
  intro i
  simp only [Nat.testBit_and, Nat.testBit_or]
  cases a.testBit i <;> cases b.testBit i <;> cases c.testBit i <;> rfl

theorem generalTransferFlags_eq (flags : Nat) :
    generalTransferFlags flags = flags ||| 0xF0000000 := by
  simp [generalTransferFlags, shl32, W32, kOHCIGTDConditionNotAccessed, kOHCIGTDControl_CCPhase]

theorem generalTransferAltFlags_eq (flags : Nat) :
    generalTransferAltFlags flags = ((flags ||| 0xF0000000) &&& 0xFFFBFFFF) ||| 0xE00000 := by
  simp [generalTransferAltFlags, generalTransferFlags_eq, andNot32, shl32, W32,
    kOHCIGTDControl_R, kOHCIGTDControl_DIPhase]

/-- The buffer rounding bit of `altFlags` is clear. -/
theorem generalTransferAltFlags_R (flags : Nat) :
    generalTransferAltFlags flags &&& kOHCIGTDControl_R = 0 := by
  have h1 : (0xFFFBFFFF &&& 0x40000 : Nat) = 0 := by decide
  have h2 : (0xE00000 &&& 0x40000 : Nat) = 0 := by decide
  rw [generalTransferAltFlags_eq, kOHCIGTDControl_R, and_or_distrib, Nat.and_assoc, h1, h2]
  simp

/-- The delay interrupt field of `altFlags` is 111b. -/
theorem generalTransferAltFlags_DI (flags : Nat) :
    (generalTransferAltFlags flags &&& kOHCIGTDControl_DI) >>> kOHCIGTDControl_DIPhase = 7 := by
  rw [generalTransferAltFlags_eq]
  simp [kOHCIGTDControl_DI, or_and_self_right, kOHCIGTDControl_DIPhase]

/-- The buffer rounding bit of `flags` is the caller's. -/
theorem generalTransferFlags_R (flags : Nat) :
    generalTransferFlags flags &&& kOHCIGTDControl_R = flags &&& kOHCIGTDControl_R := by
  have h1 : (0xF0000000 &&& 0x40000 : Nat) = 0 := by decide
  rw [generalTransferFlags_eq, kOHCIGTDControl_R, and_or_distrib, h1]
  simp

/-- The delay interrupt field of `flags` is the caller's. -/
theorem generalTransferFlags_DI (flags : Nat) :
    generalTransferFlags flags &&& kOHCIGTDControl_DI = flags &&& kOHCIGTDControl_DI := by
  have h1 : (0xF0000000 &&& 0xE00000 : Nat) = 0 := by decide
  rw [generalTransferFlags_eq, kOHCIGTDControl_DI, and_or_distrib, h1]
  simp

theorem andNot32_and_self (x m : Nat) (hm : m < W32) : andNot32 x m &&& m = 0 := by
  unfold andNot32
  rw [Nat.and_assoc]
  have : (4294967295 ^^^ m) &&& m = 0 := by
    apply Nat.eq_of_testBit_eq
    intro i
    simp only [Nat.testBit_and, Nat.testBit_xor, Nat.zero_testBit]
    by_cases hi : i < 32
    · have : Nat.testBit 4294967295 i = true := by
        have := Nat.testBit_two_pow_sub_one 32 i
        simpa [hi] using this
      rw [this]
      cases m.testBit i <;> rfl
    · have : m.testBit i = false := by
        apply Nat.testBit_lt_two_pow
        calc m < W32 := hm
          _ = 2 ^ 32 := rfl
          _ ≤ 2 ^ i := Nat.pow_le_pow_right (by decide) (by omega)
      rw [this]
      simp
  rw [this]
  simp

theorem cons_eq_dropLast_append :
    ∀ (xs : List Nat) (a : Nat), a :: xs = (a :: xs).dropLast ++ [(a :: xs).getLastD a]
  | [], a => by simp
  | x :: xs, a => by
    rw [List.dropLast_cons₂, List.getLastD_cons, List.cons_append]
    congr 1
    have := cons_eq_dropLast_append xs x
    rw [List.getLastD_cons] at this ⊢
    exact this

/-! ## The descriptor pool and the append step of `CreateGeneralTransfer` -/

theorem AllocateTD_nil (st : AppleUSBOHCI) (h : st.pFreeTD = []) :
    AllocateTD st = (none, st) := by
  simp [AllocateTD, h]

theorem AllocateTD_cons (st : AppleUSBOHCI) (p : Nat) (rest : List Nat)
    (h : st.pFreeTD = p :: rest) :
    AllocateTD st =
      (some p,
        { st with
          pFreeTD := rest,
          tds := Function.update st.tds p { st.tds p with uimFlags := 0 } }) := by
  simp [AllocateTD, h]

/-- What one successful pass of the loop of `CreateGeneralTransfer` does: it takes `p` from the
pool, fills in the placeholder `t` at the tail, links `p` behind it and makes `p` the tail. -/
structure GeneralTransferStep (H : Header) (queue command : Nat) (CBP : IOMemoryDescriptor)
    (bufferSize flags type kickBits : Nat) (l l' : GeneralTransferLoop) (p : Nat) : Prop where
  pool : l.st.pFreeTD = p :: l'.st.pFreeTD
  offset : l'.transferOffset = CreateGeneralTransfer.nextOffset l.transferOffset
    (CreateGeneralTransfer.pagesUsed
      (CreateGeneralTransfer.mustSplit l.st.pageSize (CreateGeneralTransfer.segments H CBP l).1
        (CreateGeneralTransfer.segments H CBP l).2)
      (CreateGeneralTransfer.segments H CBP l).1)
    (CreateGeneralTransfer.segments H CBP l).2
  bufferPtr : (l'.st.tds (l.st.eds queue).pLogicalTailP).currentBufferPtr
    = (CreateGeneralTransfer.segments H CBP l).2.seg0.location
  bufferEnd : (l'.st.tds (l.st.eds queue).pLogicalTailP).bufferEnd
    = if CreateGeneralTransfer.pagesUsed
          (CreateGeneralTransfer.mustSplit l.st.pageSize (CreateGeneralTransfer.segments H CBP l).1
            (CreateGeneralTransfer.segments H CBP l).2)
          (CreateGeneralTransfer.segments H CBP l).1 = 2 then
        sub32 (add32 (CreateGeneralTransfer.segments H CBP l).2.seg1.location
          (CreateGeneralTransfer.segments H CBP l).2.seg1.length) 1
      else
        sub32 (add32 (CreateGeneralTransfer.segments H CBP l).2.seg0.location
          (CreateGeneralTransfer.segments H CBP l).2.seg0.length) 1
  pageSize : l'.st.pageSize = l.st.pageSize
  errataBits : l'.st.errataBits = l.st.errataBits
  tail : (l'.st.eds queue).pLogicalTailP = p
  tailPtr : (l'.st.eds queue).tdQueueTailPtr = (l.st.tds p).pPhysical
  headPtr : (l'.st.eds queue).tdQueueHeadPtr = (l.st.eds queue).tdQueueHeadPtr
  logicalHead : (l'.st.eds queue).pLogicalHeadP = (l.st.eds queue).pLogicalHeadP
  edFlags : (l'.st.eds queue).flags = (l.st.eds queue).flags
  edsOther : ∀ x, x ≠ queue → l'.st.eds x = l.st.eds x
  next : (l'.st.tds (l.st.eds queue).pLogicalTailP).pLogicalNext = p
  nextTD : (l'.st.tds (l.st.eds queue).pLogicalTailP).nextTD = (l.st.tds p).pPhysical
  command : (l'.st.tds (l.st.eds queue).pLogicalTailP).command = command
  flagsFinal : bufferSize ≤ l'.transferOffset →
    (l'.st.tds (l.st.eds queue).pLogicalTailP).ohciFlags = generalTransferFlags flags
    ∧ (l'.st.tds (l.st.eds queue).pLogicalTailP).uimFlags &&& H.kUIMFlagsLastTD
        = H.kUIMFlagsLastTD
  flagsAlt : l'.transferOffset < bufferSize →
    (l'.st.tds (l.st.eds queue).pLogicalTailP).ohciFlags = generalTransferAltFlags flags
    ∧ (H.kUIMFlagsLastTD < W32 →
        (l'.st.tds (l.st.eds queue).pLogicalTailP).uimFlags &&& H.kUIMFlagsLastTD = 0)
  tdsOther : ∀ x, x ≠ (l.st.eds queue).pLogicalTailP → x ≠ p → l'.st.tds x = l.st.tds x
  tdsNew : p ≠ (l.st.eds queue).pLogicalTailP →
    l'.st.tds p = { l.st.tds p with uimFlags := 0 }
  physical : ∀ x, (l'.st.tds x).pPhysical = (l.st.tds x).pPhysical
  writes : l'.st.registerWrites = (OHCIRegister.hcCommandStatus, kickBits) :: l.st.registerWrites
  itds : l'.st.itds = l.st.itds
  pFreeITD : l'.st.pFreeITD = l.st.pFreeITD
  pFreeED : l'.st.pFreeED = l.st.pFreeED

theorem CreateGeneralTransfer.body_inr (H : Header) (queue command : Nat)
    (CBP : IOMemoryDescriptor) (bufferSize flags type kickBits : Nat)
    (l l' : GeneralTransferLoop)
    (h : CreateGeneralTransfer.body H queue command CBP bufferSize flags type kickBits l
      = .ret (.inr l')) :
    ∃ p, GeneralTransferStep H queue command CBP bufferSize flags type kickBits l l' p := by
  unfold CreateGeneralTransfer.body at h
  rcases hp : l.st.pFreeTD with _ | ⟨p, rest⟩
  · simp [AllocateTD_nil _ hp] at h
  · refine ⟨p, ?_⟩
    simp only [AllocateTD_cons _ p rest hp] at h
    split_ifs at h with h1 h2
    · simp at h
    simp only [Outcome.ret.injEq, Sum.inr.injEq] at h
    subst h
    constructor
    · simp [CreateGeneralTransfer.append, setTD, setED, writeRegister, hp]
    · rfl
    · simp [CreateGeneralTransfer.append, setTD, setED, writeRegister]
    · simp [CreateGeneralTransfer.append, setTD, setED, writeRegister]
    · simp [CreateGeneralTransfer.append, setTD, setED, writeRegister]
    · simp [CreateGeneralTransfer.append, setTD, setED, writeRegister]
    · simp [CreateGeneralTransfer.append, setTD, setED, writeRegister]
    · simp [CreateGeneralTransfer.append, setTD, setED, writeRegister]
    · simp [CreateGeneralTransfer.append, setTD, setED, writeRegister]
    · simp [CreateGeneralTransfer.append, setTD, setED, writeRegister]
    · simp [CreateGeneralTransfer.append, setTD, setED, writeRegister]
    · intro x hx
      simp [CreateGeneralTransfer.append, setTD, setED, writeRegister, Function.update_noteq hx]
    · simp [CreateGeneralTransfer.append, setTD, setED, writeRegister]
    · simp [CreateGeneralTransfer.append, setTD, setED, writeRegister]
    · simp [CreateGeneralTransfer.append, setTD, setED, writeRegister]
    · intro hfin
      simp [CreateGeneralTransfer.append, setTD, setED, writeRegister, hfin, or_and_self_right]
    · intro hlt
      have hnot : ¬ bufferSize ≤ CreateGeneralTransfer.nextOffset l.transferOffset
          (CreateGeneralTransfer.pagesUsed (CreateGeneralTransfer.mustSplit l.st.pageSize
              (CreateGeneralTransfer.segments H CBP l).1
              (CreateGeneralTransfer.segments H CBP l).2)
            (CreateGeneralTransfer.segments H CBP l).1)
          (CreateGeneralTransfer.segments H CBP l).2 := by
        simpa using hlt
      simp only [CreateGeneralTransfer.append, setTD, setED, writeRegister,
        Function.update_same, ge_iff_le, hnot, decide_False, Bool.false_eq_true, ↓reduceIte]
      exact ⟨trivial, fun hk => andNot32_and_self _ _ hk⟩
    · intro x hx hxp
      simp [CreateGeneralTransfer.append, setTD, setED, writeRegister,
        Function.update_noteq hx, Function.update_noteq hxp]
    · intro hpt
      simp [CreateGeneralTransfer.append, setTD, setED, writeRegister,
        Function.update_noteq hpt]
    · intro x
      simp only [CreateGeneralTransfer.append, setTD, setED, writeRegister]
      by_cases hx : x = (l.st.eds queue).pLogicalTailP
      · subst hx
        simp only [Function.update_same]
        by_cases hxp : (l.st.eds queue).pLogicalTailP = p
        · rw [hxp, Function.update_same]
        · simp [Function.update_noteq hxp]
      · simp only [Function.update_noteq hx]
        by_cases hxp : x = p
        · rw [hxp, Function.update_same]
        · simp [Function.update_noteq hxp]
    · simp [CreateGeneralTransfer.append, setTD, setED, writeRegister]
    · simp [CreateGeneralTransfer.append, setTD, setED, writeRegister]
    · simp [CreateGeneralTransfer.append, setTD, setED, writeRegister]
    · simp [CreateGeneralTransfer.append, setTD, setED, writeRegister]

/-! ## The loop of `CreateGeneralTransfer` as a sequence of passes -/

section GeneralTransferPasses

variable (H : Header) (queue command : Nat) (CBP : IOMemoryDescriptor)
  (bufferSize flags type kickBits : Nat)

theorem CreateGeneralTransfer.passes_succ {k : Nat} {l lk : GeneralTransferLoop}
    (h : CreateGeneralTransfer.passes H queue command CBP bufferSize flags type kickBits (k + 1) l
      = some lk) :
    l.transferOffset < bufferSize ∧ ∃ l1,
      CreateGeneralTransfer.body H queue command CBP bufferSize flags type kickBits l
        = .ret (.inr l1)
      ∧ CreateGeneralTransfer.passes H queue command CBP bufferSize flags type kickBits k l1
        = some lk := by
  rw [CreateGeneralTransfer.passes] at h
  split_ifs at h with hlt
  refine ⟨hlt, ?_⟩
  split at h
  · exact ⟨_, by assumption, h⟩
  · simp at h

theorem CreateGeneralTransfer.loop_of_passes :
    ∀ (k : Nat) (l lk : GeneralTransferLoop),
      CreateGeneralTransfer.passes H queue command CBP bufferSize flags type kickBits k l
        = some lk →
      ∀ fuel, CreateGeneralTransfer.loop H queue command CBP bufferSize flags type kickBits
          (fuel + k) l
        = CreateGeneralTransfer.loop H queue command CBP bufferSize flags type kickBits fuel lk
  | 0, l, lk, h, fuel => by
    simp [CreateGeneralTransfer.passes] at h
    subst h
    rfl
  | k + 1, l, lk, h, fuel => by
    obtain ⟨hlt, l1, hbody, hrest⟩ :=
      CreateGeneralTransfer.passes_succ H queue command CBP bufferSize flags type kickBits h
    have ih := CreateGeneralTransfer.loop_of_passes k l1 lk hrest fuel
    rw [← ih, ← Nat.add_assoc]
    conv_lhs => rw [CreateGeneralTransfer.loop]
    simp [hlt, hbody]

/-- Every return of the loop comes after some number of appending passes, either by the loop
test or by a `break` in the next pass. -/
theorem CreateGeneralTransfer.loop_ret :
    ∀ (fuel : Nat) (l : GeneralTransferLoop) (r : IOReturn) (st' : AppleUSBOHCI),
      CreateGeneralTransfer.loop H queue command CBP bufferSize flags type kickBits fuel l
        = .ret (r, st') →
      ∃ k lk, CreateGeneralTransfer.passes H queue command CBP bufferSize flags type kickBits k l
          = some lk
        ∧ ((¬ lk.transferOffset < bufferSize ∧ r = .kIOReturnSuccess ∧ st' = lk.st)
          ∨ (lk.transferOffset < bufferSize
            ∧ CreateGeneralTransfer.body H queue command CBP bufferSize flags type kickBits lk
              = .ret (.inl (r, st'))))
  | 0, l, r, st', h => by simp [CreateGeneralTransfer.loop] at h
  | fuel + 1, l, r, st', h => by
    rw [CreateGeneralTransfer.loop] at h
    split_ifs at h with hlt
    · obtain ⟨b, hb, hrest⟩ := Outcome.bind_eq_ret h
      cases b with
      | inl res =>
        simp only [Outcome.ret.injEq] at hrest
        subst hrest
        exact ⟨0, l, rfl, Or.inr ⟨hlt, hb⟩⟩
      | inr l1 =>
        obtain ⟨k, lk, hk, hcase⟩ := CreateGeneralTransfer.loop_ret fuel l1 r st' hrest
        refine ⟨k + 1, lk, ?_, hcase⟩
        rw [CreateGeneralTransfer.passes]
        simp [hlt, hb, hk]
    · simp only [Outcome.ret.injEq, Prod.mk.injEq] at h
      exact ⟨0, l, rfl, Or.inl ⟨hlt, h.1.symm, h.2.symm⟩⟩

/-- What `k` appending passes do to the queue: the descriptors `taken` have left the pool,
the old placeholder and all of them but the last have been filled in and linked, and the last
one is the new tail. -/
structure GeneralTransferAppended (l lk : GeneralTransferLoop) (taken : List Nat) : Prop where
  pool : l.st.pFreeTD = taken ++ lk.st.pFreeTD
  tail : (lk.st.eds queue).pLogicalTailP = taken.getLastD (l.st.eds queue).pLogicalTailP
  filled : GeneralTransferFilled H command flags lk.st.tds (decide (bufferSize ≤ lk.transferOffset))
    ((l.st.eds queue).pLogicalTailP :: taken)
  tdsOther : ∀ x, x ≠ (l.st.eds queue).pLogicalTailP → x ∉ taken → lk.st.tds x = l.st.tds x
  tdsNew : ∀ p, taken.getLast? = some p → lk.st.tds p = { l.st.tds p with uimFlags := 0 }
  physical : ∀ x, (lk.st.tds x).pPhysical = (l.st.tds x).pPhysical
  tailPtr : ∀ p, taken.getLast? = some p → (lk.st.eds queue).tdQueueTailPtr = (l.st.tds p).pPhysical
  tailPtr0 : taken = [] → (lk.st.eds queue).tdQueueTailPtr = (l.st.eds queue).tdQueueTailPtr
  headPtr : (lk.st.eds queue).tdQueueHeadPtr = (l.st.eds queue).tdQueueHeadPtr
  logicalHead : (lk.st.eds queue).pLogicalHeadP = (l.st.eds queue).pLogicalHeadP
  edFlags : (lk.st.eds queue).flags = (l.st.eds queue).flags
  edsOther : ∀ x, x ≠ queue → lk.st.eds x = l.st.eds x
  writes : lk.st.registerWrites
    = List.replicate taken.length (OHCIRegister.hcCommandStatus, kickBits) ++ l.st.registerWrites
  itds : lk.st.itds = l.st.itds
  pFreeITD : lk.st.pFreeITD = l.st.pFreeITD
  pFreeED : lk.st.pFreeED = l.st.pFreeED

theorem CreateGeneralTransfer.passes_spec (hMarker : H.kUIMFlagsLastTD < W32) :
    ∀ (k : Nat) (l lk : GeneralTransferLoop),
      l.st.pFreeTD.Nodup → (l.st.eds queue).pLogicalTailP ∉ l.st.pFreeTD →
      CreateGeneralTransfer.passes H queue command CBP bufferSize flags type kickBits k l
        = some lk →
      ∃ taken, taken.length = k ∧
        GeneralTransferAppended H queue command bufferSize flags kickBits l lk taken
  | 0, l, lk, _, _, h => by
    simp [CreateGeneralTransfer.passes] at h
    subst h
    refine ⟨[], rfl, ?_⟩
    constructor <;> simp [GeneralTransferFilled]
  | k + 1, l, lk, hnd, ht, h => by
    obtain ⟨hlt, l1, hbody, hrest⟩ :=
      CreateGeneralTransfer.passes_succ H queue command CBP bufferSize flags type kickBits h
    obtain ⟨p, step⟩ :=
      CreateGeneralTransfer.body_inr H queue command CBP bufferSize flags type kickBits l l1 hbody
    have hpool := step.pool
    rw [hpool] at hnd ht
    have hp_notin : p ∉ l1.st.pFreeTD := (List.nodup_cons.mp hnd).1
    have hnd1 : l1.st.pFreeTD.Nodup := (List.nodup_cons.mp hnd).2
    have htp : (l.st.eds queue).pLogicalTailP ≠ p := fun e => ht (by simp [e])
    have ht1 : (l.st.eds queue).pLogicalTailP ∉ l1.st.pFreeTD := fun e => ht (by simp [e])
    obtain ⟨taken1, hlen, app⟩ :=
      CreateGeneralTransfer.passes_spec hMarker k l1 lk hnd1 (by rw [step.tail]; exact hp_notin)
        hrest
    have hsub : ∀ x, x ∈ taken1 → x ∈ l1.st.pFreeTD := by
      intro x hx
      rw [app.pool]
      exact List.mem_append_left _ hx
    have ht_taken1 : (l.st.eds queue).pLogicalTailP ∉ taken1 := fun e => ht1 (hsub _ e)
    have hp_taken1 : p ∉ taken1 := fun e => hp_notin (hsub _ e)
    have htds_t : lk.st.tds (l.st.eds queue).pLogicalTailP
        = l1.st.tds (l.st.eds queue).pLogicalTailP := by
      apply app.tdsOther
      · rw [step.tail]; exact htp
      · exact ht_taken1
    have hk0 : k = 0 → taken1 = [] ∧ lk = l1 := by
      intro hk
      subst hk
      simp [CreateGeneralTransfer.passes] at hrest
      exact ⟨List.length_eq_zero.mp hlen, hrest.symm⟩
    have hk1 : k ≠ 0 → l1.transferOffset < bufferSize := by
      intro hk
      obtain ⟨k', rfl⟩ := Nat.exists_eq_succ_of_ne_zero hk
      exact (CreateGeneralTransfer.passes_succ H queue command CBP bufferSize flags
        type kickBits hrest).1
    refine ⟨p :: taken1, by simp [hlen], ?_⟩
    constructor
    · rw [hpool, app.pool]; simp
    · rw [List.getLastD_cons, app.tail, step.tail]
    · rw [GeneralTransferFilled]
      refine ⟨⟨?_, ?_, ?_, ?_⟩, ?_⟩
      · rw [htds_t, step.next]
      · rw [htds_t, step.nextTD, app.physical]
        exact (step.physical p).symm
      · rw [htds_t, step.command]
      · by_cases hk : k = 0
        · obtain ⟨hnil, hlk⟩ := hk0 hk
          subst hnil hlk
          by_cases hfin : bufferSize ≤ lk.transferOffset
          · simp only [hfin, decide_True, and_self, ↓reduceIte]
            exact step.flagsFinal hfin
          · simp only [hfin, decide_False, Bool.false_eq_true, and_false, ↓reduceIte]
            have := step.flagsAlt (by omega)
            exact ⟨this.1, this.2 hMarker⟩
        · have hne : taken1 ≠ [] := by
            intro e
            rw [e] at hlen
            exact hk hlen.symm
          simp only [hne, false_and, ↓reduceIte]
          rw [htds_t]
          have := step.flagsAlt (hk1 hk)
          exact ⟨this.1, this.2 hMarker⟩
      · rw [← step.tail]
        exact app.filled
    · intro x hx hxt
      simp only [List.mem_cons, not_or] at hxt
      rw [app.tdsOther x (by rw [step.tail]; exact hxt.1) hxt.2]
      exact step.tdsOther x hx hxt.1
    · intro q hq
      rcases taken1 with _ | ⟨a, rest1⟩
      · obtain ⟨-, hlk⟩ := hk0 hlen.symm
        subst hlk
        simp at hq
        subst hq
        exact step.tdsNew (Ne.symm htp)
      · rw [List.getLast?_cons_cons] at hq
        rw [app.tdsNew q hq]
        have hq_mem : q ∈ a :: rest1 := List.mem_of_getLast?_eq_some hq
        rw [step.tdsOther q (fun e => ht_taken1 (e ▸ hq_mem)) (fun e => hp_taken1 (e ▸ hq_mem))]
    · intro x
      rw [app.physical, step.physical]
    · intro q hq
      rcases taken1 with _ | ⟨a, rest1⟩
      · obtain ⟨-, hlk⟩ := hk0 hlen.symm
        subst hlk
        simp at hq
        subst hq
        exact step.tailPtr
      · rw [List.getLast?_cons_cons] at hq
        rw [app.tailPtr q hq]
        exact step.physical q
    · intro e
      simp at e
    · rw [app.headPtr, step.headPtr]
    · rw [app.logicalHead, step.logicalHead]
    · rw [app.edFlags, step.edFlags]
    · intro x hx
      rw [app.edsOther x hx, step.edsOther x hx]
    · rw [app.writes, step.writes]
      simp [List.replicate_succ']
    · rw [app.itds, step.itds]
    · rw [app.pFreeITD, step.pFreeITD]
    · rw [app.pFreeED, step.pFreeED]

theorem CreateGeneralTransfer.body_inl {l : GeneralTransferLoop} {r : IOReturn}
    {st' : AppleUSBOHCI}
    (h : CreateGeneralTransfer.body H queue command CBP bufferSize flags type kickBits l
      = .ret (.inl (r, st'))) :
    r = .kIOReturnNoMemory ∧
      ((l.st.pFreeTD = [] ∧ st' = l.st)
        ∨ (∃ p rest, l.st.pFreeTD = p :: rest ∧ st' = (AllocateTD l.st).2)) := by
  unfold CreateGeneralTransfer.body at h
  rcases hp : l.st.pFreeTD with _ | ⟨p, rest⟩
  · simp only [AllocateTD_nil _ hp, Outcome.ret.injEq, Sum.inl.injEq, Prod.mk.injEq] at h
    exact ⟨h.1.symm, Or.inl ⟨rfl, h.2.symm⟩⟩
  · simp only [AllocateTD_cons _ p rest hp] at h
    split_ifs at h with h1 h2
    · simp only [Outcome.ret.injEq, Sum.inl.injEq, Prod.mk.injEq] at h
      refine ⟨h.1.symm, Or.inr ⟨p, rest, rfl, ?_⟩⟩
      rw [AllocateTD_cons _ p rest hp]
      exact h.2.symm
    · simp at h

theorem CreateGeneralTransfer.body_pool_empty {l : GeneralTransferLoop}
    (h : l.st.pFreeTD = []) :
    CreateGeneralTransfer.body H queue command CBP bufferSize flags type kickBits l
      = .ret (.inl (.kIOReturnNoMemory, l.st)) := by
  unfold CreateGeneralTransfer.body
  simp [AllocateTD_nil _ h]

/-- A filled list read as a chain: the descriptors before the new tail `b` are linked up to
`b`, all but the last of them are inner descriptors, and the last is final or inner as
`lastFinal` says. -/
theorem GeneralTransferFilled.chain {tds : Nat → OHCIGeneralTransferDescriptor}
    {lastFinal : Bool} :
    ∀ (xs : List Nat) (a b : Nat),
      GeneralTransferFilled H command flags tds lastFinal (a :: (xs ++ [b])) →
      TDChain tds a (a :: xs) b
      ∧ (∀ d ∈ (a :: xs).dropLast, IsInnerTD H flags (tds d))
      ∧ (if lastFinal = true then IsFinalTD H flags (tds ((a :: xs).getLastD a))
         else IsInnerTD H flags (tds ((a :: xs).getLastD a)))
  | [], a, b, h => by
    simp only [List.nil_append, GeneralTransferFilled, true_and, and_true] at h
    refine ⟨⟨rfl, h.1⟩, by simp, ?_⟩
    simpa using h.2.2.2
  | x :: xs, a, b, h => by
    rw [List.cons_append, GeneralTransferFilled] at h
    obtain ⟨⟨hnext, -, -, hflag⟩, hrest⟩ := h
    obtain ⟨hchain, hinner, hlast⟩ := GeneralTransferFilled.chain xs x b hrest
    have hne : xs ++ [b] ≠ [] := by simp
    simp only [hne, false_and, ↓reduceIte] at hflag
    refine ⟨⟨rfl, ?_⟩, ?_, ?_⟩
    · rw [hnext]; exact hchain
    · intro d hd
      rw [List.dropLast_cons₂, List.mem_cons] at hd
      rcases hd with rfl | hd
      · exact hflag
      · exact hinner d hd
    · simpa [List.getLastD_cons] using hlast

end GeneralTransferPasses

/-! ## Claims on `CreateGeneralTransfer` -/

/-- C3: a successful `CreateGeneralTransfer` of a non-empty buffer appends `n >= 1` descriptors
(the old placeholder and the first `n - 1` descriptors taken from the pool, linked up to the new
tail).  The last of them, and only it, has the last-TD marker, and it has the caller's flags word
with the condition code set: buffer rounding and delay interrupt are the caller's.  Each of the
others has the buffer rounding bit clear, the delay interrupt field 111b and no marker. -/
theorem CreateGeneralTransfer_flags_of_appended (H : Header) (st st' : AppleUSBOHCI)
    (queue command : Nat) (CBP : IOMemoryDescriptor) (bufferSize flags type kickBits : Nat)
    (hPool : st.pFreeTD.Nodup) (hTail : (st.eds queue).pLogicalTailP ∉ st.pFreeTD)
    (hMarker : H.kUIMFlagsLastTD ≠ 0 ∧ H.kUIMFlagsLastTD < W32)
    (hSize : bufferSize ≠ 0)
    (hCall : CreateGeneralTransfer H st queue command CBP bufferSize flags type kickBits
      = .ret (.kIOReturnSuccess, st')) :
    ∃ (inner : List Nat) (last : Nat),
      TDChain st'.tds (st.eds queue).pLogicalTailP (inner ++ [last])
        (st'.eds queue).pLogicalTailP
      ∧ (inner ++ [last]).length + st'.pFreeTD.length = st.pFreeTD.length
      ∧ IsFinalTD H flags (st'.tds last)
      ∧ (st'.tds last).ohciFlags &&& kOHCIGTDControl_R = flags &&& kOHCIGTDControl_R
      ∧ (st'.tds last).ohciFlags &&& kOHCIGTDControl_DI = flags &&& kOHCIGTDControl_DI
      ∧ ∀ d ∈ inner,
          (st'.tds d).ohciFlags &&& kOHCIGTDControl_R = 0
          ∧ ((st'.tds d).ohciFlags &&& kOHCIGTDControl_DI) >>> kOHCIGTDControl_DIPhase = 7
          ∧ (st'.tds d).uimFlags &&& H.kUIMFlagsLastTD = 0
          ∧ ¬ IsFinalTD H flags (st'.tds d) := by
  have hHalt : ¬ ((st.eds queue).tdQueueHeadPtr &&& kOHCIHeadPointer_H ≠ 0) := by
    intro hh
    simp [CreateGeneralTransfer, hh] at hCall
  simp only [CreateGeneralTransfer, hHalt, hSize, ne_eq, not_false_eq_true, ↓reduceIte] at hCall
  obtain ⟨k, lk, hpasses, hcase⟩ :=
    CreateGeneralTransfer.loop_ret H queue command CBP bufferSize flags type kickBits _ _ _ _ hCall
  rcases hcase with ⟨hexit, -, hst⟩ | ⟨-, hbreak⟩
  swap
  · have := (CreateGeneralTransfer.body_inl H queue command CBP bufferSize flags type kickBits
      hbreak).1
    cases this
  subst hst
  obtain ⟨taken, hlen, app⟩ :=
    CreateGeneralTransfer.passes_spec H queue command CBP bufferSize flags type kickBits hMarker.2
      k _ lk hPool hTail hpasses
  have hk : taken ≠ [] := by
    intro e
    subst e
    simp only [List.length_nil] at hlen
    subst hlen
    simp only [CreateGeneralTransfer.passes, Option.some.injEq] at hpasses
    subst hpasses
    simp only [GeneralTransferLoop.init] at hexit
    omega
  obtain ⟨xs, b, rfl⟩ : ∃ xs b, taken = xs ++ [b] :=
    ⟨taken.dropLast, taken.getLast hk, (List.dropLast_append_getLast hk).symm⟩
  have hfilled := app.filled
  have hfin : decide (bufferSize ≤ lk.transferOffset) = true := by
    simp only [decide_eq_true_eq]; omega
  rw [hfin] at hfilled
  obtain ⟨hchain, hinner, hlast⟩ :=
    GeneralTransferFilled.chain H command flags xs _ b hfilled
  simp only [↓reduceIte] at hlast
  have htail : (lk.st.eds queue).pLogicalTailP = b := by
    rw [app.tail]; simp [GeneralTransferLoop.init]
  simp only [GeneralTransferLoop.init] at hchain hinner hlast app
  have hsplit : (st.eds queue).pLogicalTailP :: xs
      = ((st.eds queue).pLogicalTailP :: xs).dropLast
        ++ [((st.eds queue).pLogicalTailP :: xs).getLastD (st.eds queue).pLogicalTailP] := by
    exact cons_eq_dropLast_append xs _
  refine ⟨((st.eds queue).pLogicalTailP :: xs).dropLast,
    ((st.eds queue).pLogicalTailP :: xs).getLastD (st.eds queue).pLogicalTailP, ?_, ?_, hlast, ?_, ?_,
    ?_⟩
  · rw [← hsplit, htail]; exact hchain
  · rw [← hsplit]
    have := congrArg List.length app.pool
    simp at this
    simp
    omega
  · rw [hlast.1, generalTransferFlags_R]
  · rw [hlast.1, generalTransferFlags_DI]
  · intro d hd
    have hd' := hinner d hd
    refine ⟨?_, ?_, hd'.2, ?_⟩
    · rw [hd'.1, generalTransferAltFlags_R]
    · rw [hd'.1, generalTransferAltFlags_DI]
    · intro hf
      have := hf.2
      rw [hd'.2] at this
      exact hMarker.1 this.symm

/-- C1: on an endpoint whose head pointer has the halted bit set, `CreateGeneralTransfer`
returns `kIOUSBPipeStalled` and leaves the whole state as it was: no descriptor is taken from
the pool, no register is written, the tail pointers and every descriptor are unchanged. -/
theorem CreateGeneralTransfer_halted (H : Header) (st : AppleUSBOHCI) (queue command : Nat)
    (CBP : IOMemoryDescriptor) (bufferSize flags type kickBits : Nat)
    (hHalted : (st.eds queue).tdQueueHeadPtr &&& kOHCIHeadPointer_H ≠ 0) :
    CreateGeneralTransfer H st queue command CBP bufferSize flags type kickBits
      = .ret (.kIOUSBPipeStalled, st) := by
  simp [CreateGeneralTransfer, hHalted]

/-- C2: on an endpoint that is not halted, a zero length `CreateGeneralTransfer` that finds a
descriptor `p` in the pool returns success having taken exactly `p`: the former placeholder has
null buffer pointers, the command, the last-TD marker, the caller's flags with the condition
code set to not accessed and nothing else added, and it links physically and logically to `p`,
which is the new tail of the endpoint; the kick bits are written once. -/
theorem CreateGeneralTransfer_zero_length (H : Header) (st : AppleUSBOHCI) (queue command : Nat)
    (CBP : IOMemoryDescriptor) (flags type kickBits : Nat) (p : Nat) (rest : List Nat)
    (hNotHalted : (st.eds queue).tdQueueHeadPtr &&& kOHCIHeadPointer_H = 0)
    (hPool : st.pFreeTD = p :: rest) :
    ∃ st', CreateGeneralTransfer H st queue command CBP 0 flags type kickBits
        = .ret (.kIOReturnSuccess, st')
      ∧ st'.pFreeTD = rest
      ∧ (st'.tds (st.eds queue).pLogicalTailP).currentBufferPtr = 0
      ∧ (st'.tds (st.eds queue).pLogicalTailP).bufferEnd = 0
      ∧ (st'.tds (st.eds queue).pLogicalTailP).command = command
      ∧ (st'.tds (st.eds queue).pLogicalTailP).uimFlags &&& H.kUIMFlagsLastTD
          = H.kUIMFlagsLastTD
      ∧ (st'.tds (st.eds queue).pLogicalTailP).ohciFlags = flags ||| 0xF0000000
      ∧ (st'.tds (st.eds queue).pLogicalTailP).ohciFlags &&& kOHCIGTDControl_DI
          = flags &&& kOHCIGTDControl_DI
      ∧ (st'.tds (st.eds queue).pLogicalTailP).nextTD = (st.tds p).pPhysical
      ∧ (st'.tds (st.eds queue).pLogicalTailP).pLogicalNext = p
      ∧ (st'.eds queue).pLogicalTailP = p
      ∧ (st'.eds queue).tdQueueTailPtr = (st.tds p).pPhysical
      ∧ (st'.tds p).pPhysical = (st.tds p).pPhysical
      ∧ st'.registerWrites = (OHCIRegister.hcCommandStatus, kickBits) :: st.registerWrites := by
  have hex : ∃ st', CreateGeneralTransfer H st queue command CBP 0 flags type kickBits
      = .ret (.kIOReturnSuccess, st') := by
    simp [CreateGeneralTransfer, hNotHalted, AllocateTD, hPool]
  obtain ⟨st', hcall⟩ := hex
  refine ⟨st', hcall, ?_⟩
  simp [CreateGeneralTransfer, hNotHalted, AllocateTD, hPool] at hcall
  subst hcall
  have hDI := generalTransferFlags_DI flags
  rw [generalTransferFlags_eq] at hDI
  simp [setTD, setED, writeRegister, or_and_self_right, generalTransferFlags_eq, hDI]
  by_cases h : p = (st.eds queue).pLogicalTailP
  · subst h
    simp
  · simp [Function.update_noteq h]

theorem GeneralTransferFilled.chain_inner (H : Header) (command flags : Nat)
    {tds : Nat → OHCIGeneralTransferDescriptor} (xs : List Nat) (a b : Nat)
    (h : GeneralTransferFilled H command flags tds false (a :: (xs ++ [b]))) :
    TDChain tds a (a :: xs) b ∧ ∀ d ∈ a :: xs, IsInnerTD H flags (tds d) := by
  obtain ⟨hchain, hinner, hlast⟩ := GeneralTransferFilled.chain H command flags xs a b h
  refine ⟨hchain, ?_⟩
  intro d hd
  rw [cons_eq_dropLast_append xs a, List.mem_append, List.mem_singleton] at hd
  rcases hd with hd | rfl
  · exact hinner d hd
  · simpa using hlast

/-- C6: when the pool holds exactly `k` descriptors and the loop of `CreateGeneralTransfer`
makes `k` appending passes and then enters another one, so that `AllocateTD` fails for the
first time in pass `k + 1`, the call returns `kIOReturnNoMemory` with the state reached after
the `k` appends: the `k` descriptors (the old placeholder and the first `k - 1` of the pool)
are linked from the old tail up to the tail of the endpoint, which is the `k`-th descriptor of
the pool (the old placeholder when `k = 0`), the pool is empty, nothing having been given back,
and each of the `k` descriptors is an inner one, without the last-TD marker. -/
theorem CreateGeneralTransfer_pool_exhausted (H : Header) (st : AppleUSBOHCI)
    (queue command : Nat) (CBP : IOMemoryDescriptor) (bufferSize flags type kickBits k : Nat)
    (lk : GeneralTransferLoop)
    (hPool : st.pFreeTD.Nodup) (hTail : (st.eds queue).pLogicalTailP ∉ st.pFreeTD)
    (hMarker : H.kUIMFlagsLastTD < W32)
    (hNotHalted : (st.eds queue).tdQueueHeadPtr &&& kOHCIHeadPointer_H = 0)
    (hCount : st.pFreeTD.length = k)
    (hPasses : CreateGeneralTransfer.passes H queue command CBP bufferSize flags type kickBits k
      (GeneralTransferLoop.init st) = some lk)
    (hMore : lk.transferOffset < bufferSize) :
    CreateGeneralTransfer H st queue command CBP bufferSize flags type kickBits
        = .ret (.kIOReturnNoMemory, lk.st)
      ∧ lk.st.pFreeTD = []
      ∧ (lk.st.eds queue).pLogicalTailP = st.pFreeTD.getLastD (st.eds queue).pLogicalTailP
      ∧ (∀ p, st.pFreeTD.getLast? = some p →
          (lk.st.eds queue).tdQueueTailPtr = (lk.st.tds p).pPhysical)
      ∧ (k = 0 → (lk.st.eds queue).tdQueueTailPtr = (st.eds queue).tdQueueTailPtr)
      ∧ TDChain lk.st.tds (st.eds queue).pLogicalTailP
          (((st.eds queue).pLogicalTailP :: st.pFreeTD).dropLast) (lk.st.eds queue).pLogicalTailP
      ∧ ∀ d ∈ ((st.eds queue).pLogicalTailP :: st.pFreeTD).dropLast,
          IsInnerTD H flags (lk.st.tds d) := by
  obtain ⟨taken, hlen, app⟩ :=
    CreateGeneralTransfer.passes_spec H queue command CBP bufferSize flags type kickBits hMarker
      k _ lk hPool hTail hPasses
  simp only [GeneralTransferLoop.init] at app
  have happ := app.pool
  simp only at happ
  have hempty : lk.st.pFreeTD = [] := by
    have := congrArg List.length happ
    rw [List.length_append, hCount, hlen] at this
    exact List.length_eq_zero.mp (by omega)
  have htaken : taken = st.pFreeTD := by
    rw [happ, hempty, List.append_nil]
  subst htaken
  have hSize : bufferSize ≠ 0 := by omega
  have hcall : CreateGeneralTransfer H st queue command CBP bufferSize flags type kickBits
      = .ret (.kIOReturnNoMemory, lk.st) := by
    simp only [CreateGeneralTransfer, hNotHalted, hSize, ne_eq, not_true_eq_false,
      not_false_eq_true, ↓reduceIte]
    rw [hlen, show k + 2 = 2 + k by omega,
      CreateGeneralTransfer.loop_of_passes H queue command CBP bufferSize flags type kickBits
        k _ lk hPasses 2]
    rw [CreateGeneralTransfer.loop]
    simp [hMore, CreateGeneralTransfer.body_pool_empty, hempty]
  refine ⟨hcall, hempty, app.tail, ?_, ?_, ?_⟩
  · intro p hp
    rw [app.tailPtr p hp, app.physical]
  · intro hk
    apply app.tailPtr0
    exact List.length_eq_zero.mp (hlen.trans hk)
  · have hfilled := app.filled
    have hfin : decide (bufferSize ≤ lk.transferOffset) = false := by
      simp only [decide_eq_false_iff_not]; omega
    rw [hfin] at hfilled
    rcases List.eq_nil_or_concat st.pFreeTD with hnil | ⟨xs, b, hcat⟩
    · rw [hnil] at app hfilled ⊢
      have := app.tail
      simp only [List.getLastD_nil] at this
      simp [TDChain, this]
    · rw [hcat] at app hfilled ⊢
      rw [List.concat_eq_append] at app hfilled ⊢
      obtain ⟨hchain, hinner⟩ :=
        GeneralTransferFilled.chain_inner H command flags xs _ b hfilled
      have htail := app.tail
      simp only [List.getLastD_concat] at htail
      have hdrop : ((st.eds queue).pLogicalTailP :: (xs ++ [b])).dropLast
          = (st.eds queue).pLogicalTailP :: xs := by
        rw [← List.cons_append, List.dropLast_concat]
      rw [hdrop, htail]
      exact ⟨hchain, fun d hd => hinner d hd⟩

/-! ## `CreateGeneralTransfer` on a paged buffer -/

theorem sub32_one (a : Nat) (h1 : 1 ≤ a) (h2 : a ≤ W32) : sub32 (a % W32) 1 = a - 1 := by
  unfold sub32 W32 at *
  omega

theorem paged_mask (s x : Nat) (hs : s < 32) : x &&& sub32 (2 ^ s) 1 = x % 2 ^ s := by
  have h1 : 1 ≤ 2 ^ s := Nat.one_le_two_pow
  have h2 : 2 ^ s < 2 ^ 32 := Nat.pow_lt_pow_right (by decide) hs
  have : sub32 (2 ^ s) 1 = 2 ^ s - 1 := by
    unfold sub32 W32
    omega
  rw [this, Nat.and_pow_two_sub_one_eq_mod]

/-- One pass of the loop on a paged buffer, entered at a page aligned offset. -/
theorem CreateGeneralTransfer.step_paged (H : Header) (queue command : Nat)
    (size flags type kickBits : Nat) (phys : Nat → Nat) (s : Nat)
    (l l' : GeneralTransferLoop) (p : Nat)
    (hs : s < 32) (hps : l.st.pageSize = 2 ^ s)
    (hphys : ∀ i, phys i % 2 ^ s = 0 ∧ phys i + 2 ^ s ≤ W32)
    (hsize : size < W32)
    (hoff : l.transferOffset % 2 ^ s = 0) (hlt : l.transferOffset < size)
    (step : GeneralTransferStep H queue command (pagedBuffer (2 ^ s) size phys) size flags type
      kickBits l l' p) :
    l'.transferOffset = min (l.transferOffset + maxSegmentBytes H l.st) size
    ∧ (l'.st.tds (l.st.eds queue).pLogicalTailP).currentBufferPtr
        = pagedAddress (2 ^ s) phys l.transferOffset
    ∧ (l'.st.tds (l.st.eds queue).pLogicalTailP).bufferEnd
        = pagedAddress (2 ^ s) phys (min (l.transferOffset + maxSegmentBytes H l.st) size - 1) := by
  have hpos : 0 < 2 ^ s := Nat.two_pow_pos s
  obtain ⟨j, hj⟩ : ∃ j, l.transferOffset = 2 ^ s * j :=
    ⟨l.transferOffset / 2 ^ s, (Nat.eq_mul_of_div_eq_right (Nat.dvd_of_mod_eq_zero hoff) rfl)⟩
  have hdiv : l.transferOffset / 2 ^ s = j := by
    rw [hj]; exact Nat.mul_div_cancel_left j hpos
  have hpj := hphys j
  have hpj1 := hphys (j + 1)
  have hpa : ∀ r, r < 2 ^ s → pagedAddress (2 ^ s) phys (l.transferOffset + r) = phys j + r := by
    intro r hr
    unfold pagedAddress
    rw [hj, Nat.mul_add_div hpos, Nat.mul_add_mod, Nat.div_eq_of_lt hr, Nat.mod_eq_of_lt hr]
    simp
  have hpa1 : ∀ r, r < 2 ^ s →
      pagedAddress (2 ^ s) phys (l.transferOffset + 2 ^ s + r) = phys (j + 1) + r := by
    intro r hr
    unfold pagedAddress
    have : l.transferOffset + 2 ^ s + r = 2 ^ s * (j + 1) + r := by rw [hj]; ring
    rw [this, Nat.mul_add_div hpos, Nat.mul_add_mod, Nat.div_eq_of_lt hr, Nat.mod_eq_of_lt hr]
  by_cases hone : l.st.errataBits &&& H.kErrataOnlySinglePageTransfers ≠ 0 ∨
      size - l.transferOffset ≤ 2 ^ s
  · -- one segment
    have hseg : CreateGeneralTransfer.segments H (pagedBuffer (2 ^ s) size phys) l
        = (1, { l.physicalAddresses with
                seg0 := ⟨phys j, min (2 ^ s) (size - l.transferOffset)⟩ }) := by
      unfold CreateGeneralTransfer.segments getPhysicalSegments pagedBuffer
      have hnle : ¬ size ≤ l.transferOffset := by omega
      by_cases he : l.st.errataBits &&& H.kErrataOnlySinglePageTransfers ≠ 0
      · simp [he, hnle, hoff, hdiv]
      · have hshort : size - l.transferOffset ≤ 2 ^ s := by
          rcases hone with h | h
          · exact absurd h he
          · exact h
        simp [he, hnle, hoff, hdiv, hshort]
    have hsplit : CreateGeneralTransfer.mustSplit l.st.pageSize 1
        { l.physicalAddresses with seg0 := ⟨phys j, min (2 ^ s) (size - l.transferOffset)⟩ }
        = false := by
      simp [CreateGeneralTransfer.mustSplit]
    have hoffset := step.offset
    have hptr := step.bufferPtr
    have hend := step.bufferEnd
    rw [hseg] at hoffset hptr hend
    simp only [hsplit, CreateGeneralTransfer.pagesUsed, Bool.false_eq_true, ↓reduceIte,
      CreateGeneralTransfer.nextOffset, OfNat.one_ne_ofNat] at hoffset hptr hend
    have hmin : min (l.transferOffset + maxSegmentBytes H l.st) size
        = l.transferOffset + min (2 ^ s) (size - l.transferOffset) := by
      unfold maxSegmentBytes
      rw [hps]
      split_ifs with he
      · omega
      · have : size - l.transferOffset ≤ 2 ^ s := by
          rcases hone with h | h
          · exact absurd h he
          · exact h
        omega
    refine ⟨?_, ?_, ?_⟩
    · rw [hoffset, hmin]
      unfold add32 W32 at *
      omega
    · rw [hptr]
      have := hpa 0 hpos
      simpa using this.symm
    · rw [hend, hmin]
      have hlen : 1 ≤ min (2 ^ s) (size - l.transferOffset) := by omega
      have := hpa (min (2 ^ s) (size - l.transferOffset) - 1) (by omega)
      rw [show l.transferOffset + min (2 ^ s) (size - l.transferOffset) - 1
          = l.transferOffset + (min (2 ^ s) (size - l.transferOffset) - 1) by omega, this]
      unfold add32
      rw [sub32_one _ (by omega) (by omega)]
      omega
  · -- two segments
    have he : ¬ (l.st.errataBits &&& H.kErrataOnlySinglePageTransfers ≠ 0) :=
      fun h => hone (Or.inl h)
    have hlong : ¬ size - l.transferOffset ≤ 2 ^ s := fun h => hone (Or.inr h)
    have hseg : CreateGeneralTransfer.segments H (pagedBuffer (2 ^ s) size phys) l
        = (2, { seg0 := ⟨phys j, 2 ^ s⟩,
                seg1 := ⟨phys (j + 1), min (2 ^ s) (size - l.transferOffset - 2 ^ s)⟩ }) := by
      unfold CreateGeneralTransfer.segments getPhysicalSegments pagedBuffer
      have hnle : ¬ size ≤ l.transferOffset := by omega
      simp [he, hnle, hoff, hdiv, hlong]
    have hsplit : CreateGeneralTransfer.mustSplit l.st.pageSize 2
        { seg0 := ⟨phys j, 2 ^ s⟩,
          seg1 := ⟨phys (j + 1), min (2 ^ s) (size - l.transferOffset - 2 ^ s)⟩ }
        = false := by
      have h0 : add32 (phys j) (2 ^ s) % 2 ^ s = 0 := by
        unfold add32
        rcases Nat.lt_or_ge (phys j + 2 ^ s) W32 with hlt' | hge
        · rw [Nat.mod_eq_of_lt hlt', Nat.add_mod, hpj.1]
          simp
        · have : phys j + 2 ^ s = W32 := by omega
          rw [this]
          simp
      simp [CreateGeneralTransfer.mustSplit, hps, paged_mask s _ hs, h0, hpj1.1]
    have hoffset := step.offset
    have hptr := step.bufferPtr
    have hend := step.bufferEnd
    rw [hseg] at hoffset hptr hend
    simp only [hsplit, CreateGeneralTransfer.pagesUsed, Bool.false_eq_true, ↓reduceIte,
      CreateGeneralTransfer.nextOffset] at hoffset hptr hend
    have hmin : min (l.transferOffset + maxSegmentBytes H l.st) size
        = l.transferOffset + 2 ^ s + min (2 ^ s) (size - l.transferOffset - 2 ^ s) := by
      unfold maxSegmentBytes
      rw [hps]
      simp only [he, ↓reduceIte]
      omega
    refine ⟨?_, ?_, ?_⟩
    · rw [hoffset, hmin]
      unfold add32 W32 at *
      omega
    · rw [hptr]
      have := hpa 0 hpos
      simpa using this.symm
    · rw [hend, hmin]
      have hlen : 1 ≤ min (2 ^ s) (size - l.transferOffset - 2 ^ s) := by omega
      have := hpa1 (min (2 ^ s) (size - l.transferOffset - 2 ^ s) - 1) (by omega)
      rw [show l.transferOffset + 2 ^ s + min (2 ^ s) (size - l.transferOffset - 2 ^ s) - 1
          = l.transferOffset + 2 ^ s + (min (2 ^ s) (size - l.transferOffset - 2 ^ s) - 1)
          by omega, this]
      unfold add32
      rw [sub32_one _ (by omega) (by omega)]
      omega

theorem CreateGeneralTransfer.passes_spec_take (H : Header) (queue command : Nat)
    (CBP : IOMemoryDescriptor) (bufferSize flags type kickBits : Nat)
    (hMarker : H.kUIMFlagsLastTD < W32) (k : Nat) (l lk : GeneralTransferLoop)
    (hnd : l.st.pFreeTD.Nodup) (ht : (l.st.eds queue).pLogicalTailP ∉ l.st.pFreeTD)
    (h : CreateGeneralTransfer.passes H queue command CBP bufferSize flags type kickBits k l
      = some lk) :
    k ≤ l.st.pFreeTD.length ∧
      GeneralTransferAppended H queue command bufferSize flags kickBits l lk
        (l.st.pFreeTD.take k) := by
  obtain ⟨taken, hlen, app⟩ :=
    CreateGeneralTransfer.passes_spec H queue command CBP bufferSize flags type kickBits hMarker
      k l lk hnd ht h
  have hpool := app.pool
  have htake : l.st.pFreeTD.take k = taken := by
    rw [hpool, ← hlen, List.take_left']
    rfl
  rw [htake]
  refine ⟨?_, app⟩
  rw [hpool, List.length_append, hlen]
  omega

theorem maxSegmentBytes_step (H : Header) (queue command : Nat) (CBP : IOMemoryDescriptor)
    (bufferSize flags type kickBits : Nat) (l l' : GeneralTransferLoop) (p : Nat)
    (step : GeneralTransferStep H queue command CBP bufferSize flags type kickBits l l' p) :
    maxSegmentBytes H l'.st = maxSegmentBytes H l.st := by
  unfold maxSegmentBytes
  rw [step.pageSize, step.errataBits]

/-- The passes of the loop on a paged buffer: pass `i` covers the bytes from `i * M` up to
`(i + 1) * M`, or the end of the buffer, `M` being `maxSegmentBytes`. -/
theorem CreateGeneralTransfer.passes_paged (H : Header) (queue command : Nat)
    (size flags type kickBits : Nat) (phys : Nat → Nat) (s : Nat)
    (hs : s < 32) (hphys : ∀ i, phys i % 2 ^ s = 0 ∧ phys i + 2 ^ s ≤ W32)
    (hsize : size < W32) (hMarker : H.kUIMFlagsLastTD < W32) :
    ∀ (k j : Nat) (l lk : GeneralTransferLoop),
      l.st.pageSize = 2 ^ s →
      l.st.pFreeTD.Nodup → (l.st.eds queue).pLogicalTailP ∉ l.st.pFreeTD →
      l.transferOffset = min (j * maxSegmentBytes H l.st) size →
      CreateGeneralTransfer.passes H queue command (pagedBuffer (2 ^ s) size phys) size flags type
        kickBits k l = some lk →
      lk.transferOffset = min ((j + k) * maxSegmentBytes H l.st) size
      ∧ (1 ≤ k → (j + k - 1) * maxSegmentBytes H l.st < size)
      ∧ ∀ i d, i < k → ((l.st.eds queue).pLogicalTailP :: l.st.pFreeTD.take k)[i]? = some d →
          (lk.st.tds d).currentBufferPtr
            = pagedAddress (2 ^ s) phys ((j + i) * maxSegmentBytes H l.st)
          ∧ (lk.st.tds d).bufferEnd
            = pagedAddress (2 ^ s) phys
                (min ((j + i + 1) * maxSegmentBytes H l.st) size - 1)
  | 0, j, l, lk, _, _, _, hoff, h => by
    simp only [CreateGeneralTransfer.passes, Option.some.injEq] at h
    subst h
    refine ⟨by simpa using hoff, by omega, ?_⟩
    intro i d hi
    omega
  | k + 1, j, l, lk, hps, hnd, ht, hoff, h => by
    obtain ⟨hlt, l1, hbody, hrest⟩ :=
      CreateGeneralTransfer.passes_succ H queue command _ size flags type kickBits h
    obtain ⟨p, step⟩ :=
      CreateGeneralTransfer.body_inr H queue command _ size flags type kickBits l l1 hbody
    have hM1 := maxSegmentBytes_step H queue command _ size flags type kickBits l l1 p step
    have hpool := step.pool
    have hnd' := hnd
    have ht' := ht
    rw [hpool] at hnd' ht'
    have hp_notin : p ∉ l1.st.pFreeTD := (List.nodup_cons.mp hnd').1
    have hnd1 : l1.st.pFreeTD.Nodup := (List.nodup_cons.mp hnd').2
    have htp : (l.st.eds queue).pLogicalTailP ≠ p := fun e => ht' (by simp [e])
    have ht1 : (l1.st.eds queue).pLogicalTailP ∉ l1.st.pFreeTD := by
      rw [step.tail]; exact hp_notin
    -- the offset at which this pass starts
    have hjM : l.transferOffset = j * maxSegmentBytes H l.st := by
      rw [hoff] at hlt ⊢
      omega
    have hMdvd : maxSegmentBytes H l.st % 2 ^ s = 0 := by
      unfold maxSegmentBytes
      rw [hps]
      split_ifs <;> simp
    have hoffmod : l.transferOffset % 2 ^ s = 0 := by
      rw [hjM, Nat.mul_mod, hMdvd]
      simp
    obtain ⟨hoff1, hptr, hend⟩ :=
      CreateGeneralTransfer.step_paged H queue command size flags type kickBits phys s l l1 p hs
        hps hphys hsize hoffmod hlt step
    have hoff1' : l1.transferOffset = min ((j + 1) * maxSegmentBytes H l1.st) size := by
      rw [hoff1, hM1, hjM, Nat.add_mul, Nat.one_mul]
    obtain ⟨ihoff, ihguard, ihdesc⟩ :=
      CreateGeneralTransfer.passes_paged H queue command size flags type kickBits phys s hs hphys
        hsize hMarker k (j + 1) l1 lk (by rw [step.pageSize, hps]) hnd1 ht1 hoff1' hrest
    rw [hM1] at ihoff ihguard ihdesc
    obtain ⟨-, app⟩ :=
      CreateGeneralTransfer.passes_spec_take H queue command _ size flags type kickBits hMarker
        k l1 lk hnd1 ht1 hrest
    have htds_t : lk.st.tds (l.st.eds queue).pLogicalTailP
        = l1.st.tds (l.st.eds queue).pLogicalTailP := by
      apply app.tdsOther
      · rw [step.tail]; exact htp
      · intro hmem
        exact ht' (List.mem_cons_of_mem _ (List.mem_of_mem_take hmem))
    refine ⟨?_, ?_, ?_⟩
    · rw [ihoff]
      congr 2
      omega
    · intro _
      rcases Nat.eq_zero_or_pos k with hk | hk
      · subst hk
        rw [hjM] at hlt
        simpa using hlt
      · have := ihguard hk
        rw [show j + (k + 1) - 1 = j + 1 + k - 1 by omega]
        exact this
    · intro i d hi hd
      rw [hpool, List.take_succ_cons] at hd
      rcases i with _ | i
      · simp only [List.getElem?_cons_zero, Option.some.injEq] at hd
        subst hd
        rw [htds_t, hptr, hend, hjM]
        simp [Nat.add_mul]
      · rw [List.getElem?_cons_succ] at hd
        have := ihdesc i d (by omega) (by rw [step.tail]; exact hd)
        rw [show j + (i + 1) = j + 1 + i by omega]
        exact this

/-- C4: a successful `CreateGeneralTransfer` on a page aligned buffer of `size > 0` bytes that
the cursor resolves page by page appends `ceil (size / M)` descriptors, `M` being the page size
under the single-page erratum and twice the page size otherwise; descriptor `i` covers the bytes
of the buffer from `i * M` up to `(i + 1) * M`, or the end of the buffer, so the descriptors
cover consecutive ranges without overlap whose lengths sum to `size`. -/
theorem CreateGeneralTransfer_descriptor_count (H : Header) (st st' : AppleUSBOHCI)
    (queue command size flags type kickBits : Nat) (phys : Nat → Nat) (s : Nat)
    (hs : s < 32) (hPage : st.pageSize = 2 ^ s)
    (hPhys : ∀ i, phys i % 2 ^ s = 0 ∧ phys i + 2 ^ s ≤ W32)
    (hSize : size ≠ 0 ∧ size < W32)
    (hPool : st.pFreeTD.Nodup) (hTail : (st.eds queue).pLogicalTailP ∉ st.pFreeTD)
    (hMarker : H.kUIMFlagsLastTD < W32)
    (hCall : CreateGeneralTransfer H st queue command (pagedBuffer (2 ^ s) size phys) size flags
      type kickBits = .ret (.kIOReturnSuccess, st')) :
    ∃ appended : List Nat,
      TDChain st'.tds (st.eds queue).pLogicalTailP appended (st'.eds queue).pLogicalTailP
      ∧ appended.length = (size + maxSegmentBytes H st - 1) / maxSegmentBytes H st
      ∧ appended.length + st'.pFreeTD.length = st.pFreeTD.length
      ∧ ∀ i d, appended[i]? = some d →
          (st'.tds d).currentBufferPtr
            = pagedAddress (2 ^ s) phys (i * maxSegmentBytes H st)
          ∧ (st'.tds d).bufferEnd
            = pagedAddress (2 ^ s) phys (min ((i + 1) * maxSegmentBytes H st) size - 1) := by
  have hHalt : ¬ ((st.eds queue).tdQueueHeadPtr &&& kOHCIHeadPointer_H ≠ 0) := by
    intro hh
    simp [CreateGeneralTransfer, hh] at hCall
  simp only [CreateGeneralTransfer, hHalt, hSize.1, ne_eq, not_false_eq_true, ↓reduceIte]
    at hCall
  obtain ⟨k, lk, hpasses, hcase⟩ :=
    CreateGeneralTransfer.loop_ret H queue command _ size flags type kickBits _ _ _ _ hCall
  rcases hcase with ⟨hexit, -, hst⟩ | ⟨-, hbreak⟩
  swap
  · have := (CreateGeneralTransfer.body_inl H queue command _ size flags type kickBits
      hbreak).1
    cases this
  subst hst
  obtain ⟨hkle, app⟩ :=
    CreateGeneralTransfer.passes_spec_take H queue command _ size flags type kickBits hMarker
      k _ lk hPool hTail hpasses
  obtain ⟨hoff, hguard, hdesc⟩ :=
    CreateGeneralTransfer.passes_paged H queue command size flags type kickBits phys s hs hPhys
      hSize.2 hMarker k 0 (GeneralTransferLoop.init st) lk hPage hPool hTail
      (by simp [GeneralTransferLoop.init]) hpasses
  simp only [GeneralTransferLoop.init, Nat.zero_add] at app hoff hguard hdesc hkle
  have hk : 1 ≤ k := by
    rcases Nat.eq_zero_or_pos k with hk | hk
    · subst hk
      simp at hoff
      omega
    · exact hk
  have hMpos : 0 < maxSegmentBytes H st := by
    unfold maxSegmentBytes
    rw [hPage]
    have := Nat.two_pow_pos s
    split_ifs <;> omega
  -- the list of the descriptors taken, split at its last element
  have hlen : (st.pFreeTD.take k).length = k := by
    rw [List.length_take]; omega
  have hne : st.pFreeTD.take k ≠ [] := by
    intro e
    rw [e] at hlen
    simp at hlen
    omega
  obtain ⟨xs, b, hxs⟩ : ∃ xs b, st.pFreeTD.take k = xs ++ [b] :=
    ⟨_, _, (List.dropLast_append_getLast hne).symm⟩
  have hxlen : xs.length + 1 = k := by
    have := congrArg List.length hxs
    simp [hlen] at this
    omega
  rw [hxs] at app hdesc
  have hfilled := app.filled
  have hfin : decide (size ≤ lk.transferOffset) = true := by
    simp only [decide_eq_true_eq]; omega
  rw [hfin] at hfilled
  obtain ⟨hchain, -, -⟩ := GeneralTransferFilled.chain H command flags xs _ b hfilled
  have htail : (lk.st.eds queue).pLogicalTailP = b := by
    rw [app.tail]; simp
  refine ⟨(st.eds queue).pLogicalTailP :: xs, ?_, ?_, ?_, ?_⟩
  · rw [htail]; exact hchain
  · rw [List.length_cons, hxlen]
    have hlo := hguard hk
    have hhi : size ≤ k * maxSegmentBytes H st := by
      rw [hoff] at hexit
      omega
    symm
    apply Nat.div_eq_of_lt_le
    · have : (k - 1) * maxSegmentBytes H st = k * maxSegmentBytes H st - maxSegmentBytes H st := by
        rw [Nat.sub_mul, Nat.one_mul]
      omega
    · rw [Nat.add_mul, Nat.one_mul]
      omega
  · have := congrArg List.length app.pool
    simp only [List.length_append, List.length_cons, List.length_nil] at this
    simp only [List.length_cons]
    omega
  · intro i d hd
    have hi : i < xs.length + 1 := by
      have := List.getElem?_eq_some_iff.mp hd
      obtain ⟨h, -⟩ := this
      simpa using h
    apply hdesc i d (by omega)
    rw [← List.cons_append, List.getElem?_append_left (by simpa using hi)]
    exact hd

/-! ## Witnesses for the claims on `CreateGeneralTransfer` -/

/-- Witness of C1 on the example endpoint with the halted bit set. -/
theorem CreateGeneralTransfer_halted_witness :
    ((exampleHaltedState.eds 20).tdQueueHeadPtr &&& kOHCIHeadPointer_H ≠ 0)
    ∧ CreateGeneralTransfer exampleHeader exampleHaltedState 20 77 exampleBuffer 200 0 1 4
        = .ret (.kIOUSBPipeStalled, exampleHaltedState) :=
  ⟨by decide,
    CreateGeneralTransfer_halted exampleHeader exampleHaltedState 20 77 exampleBuffer 200 0 1 4
      (by decide)⟩

/-- Witness of C2 on the example bulk endpoint: the placeholder 100 is filled in and 101
becomes the tail. -/
theorem CreateGeneralTransfer_zero_length_witness :
    ((exampleBulkState.eds 20).tdQueueHeadPtr &&& kOHCIHeadPointer_H = 0)
    ∧ exampleBulkState.pFreeTD = 101 :: [102, 103]
    ∧ ∃ st', CreateGeneralTransfer exampleHeader exampleBulkState 20 77 exampleBuffer 0 0 1 4
        = .ret (.kIOReturnSuccess, st')
      ∧ st'.pFreeTD = [102, 103]
      ∧ (st'.tds 100).currentBufferPtr = 0
      ∧ (st'.tds 100).bufferEnd = 0
      ∧ (st'.tds 100).command = 77
      ∧ (st'.eds 20).pLogicalTailP = 101 := by
  refine ⟨by decide, by decide, ?_⟩
  obtain ⟨st', h1, h2, h3, h4, h5, -, -, -, -, -, h6, -⟩ :=
    CreateGeneralTransfer_zero_length exampleHeader exampleBulkState 20 77 exampleBuffer 0 1 4
      101 [102, 103] (by decide) (by decide)
  exact ⟨st', h1, h2, h3, h4, h5, h6⟩

/-- Witness of C3: 5000 bytes in pages of 4096 bytes under the single-page erratum are two
descriptors. -/
theorem CreateGeneralTransfer_flags_of_appended_witness :
    ∃ (inner : List Nat) (last : Nat),
      TDChain
        ((CreateGeneralTransfer exampleHeader exampleBulkState 20 77 examplePagedBuffer 5000
          0 1 4).stateOr exampleBulkState).tds
        (exampleBulkState.eds 20).pLogicalTailP (inner ++ [last])
        (((CreateGeneralTransfer exampleHeader exampleBulkState 20 77 examplePagedBuffer 5000
          0 1 4).stateOr exampleBulkState).eds 20).pLogicalTailP
      ∧ (inner ++ [last]).length
          + ((CreateGeneralTransfer exampleHeader exampleBulkState 20 77 examplePagedBuffer 5000
              0 1 4).stateOr exampleBulkState).pFreeTD.length
        = exampleBulkState.pFreeTD.length := by
  obtain ⟨inner, last, h1, h2, -⟩ :=
    CreateGeneralTransfer_flags_of_appended exampleHeader exampleBulkState
      ((CreateGeneralTransfer exampleHeader exampleBulkState 20 77 examplePagedBuffer 5000
        0 1 4).stateOr exampleBulkState)
      20 77 examplePagedBuffer 5000 0 1 4 (by decide) (by decide) (by decide) (by decide)
      (by rfl)
  exact ⟨inner, last, h1, h2⟩

/-- Witness of C4: 5000 bytes in pages of 4096 bytes under the single-page erratum are
`ceil (5000 / 4096) = 2` descriptors. -/
theorem CreateGeneralTransfer_descriptor_count_witness :
    ∃ appended : List Nat,
      appended.length = (5000 + maxSegmentBytes exampleHeader exampleBulkState - 1)
        / maxSegmentBytes exampleHeader exampleBulkState
      ∧ appended.length = 2 := by
  obtain ⟨appended, -, h2, -⟩ :=
    CreateGeneralTransfer_descriptor_count exampleHeader exampleBulkState
      ((CreateGeneralTransfer exampleHeader exampleBulkState 20 77 examplePagedBuffer 5000
        0 1 4).stateOr exampleBulkState)
      20 77 5000 0 1 4 examplePhys 12 (by decide) (by decide)
      (by intro i; unfold examplePhys W32; omega) (by decide) (by decide) (by decide)
      (by decide) (by rfl)
  refine ⟨appended, h2, ?_⟩
  rw [h2]
  decide

/-- Witness of C6: with one descriptor in the pool and 5000 bytes to transfer, the second
pass finds the pool empty. -/
theorem CreateGeneralTransfer_pool_exhausted_witness :
    (CreateGeneralTransfer exampleHeader exampleShortPoolState 20 77 examplePagedBuffer 5000
        0 1 4).status = some .kIOReturnNoMemory := by
  have h := (CreateGeneralTransfer_pool_exhausted exampleHeader exampleShortPoolState 20 77
    examplePagedBuffer 5000 0 1 4 1
    ((CreateGeneralTransfer.passes exampleHeader 20 77 examplePagedBuffer 5000 0 1 4 1
      (GeneralTransferLoop.init exampleShortPoolState)).getD
      (GeneralTransferLoop.init exampleShortPoolState))
    (by decide) (by decide) (by decide) (by decide) (by decide) (by rfl) (by decide)).1
  rw [h]
  rfl

/-! ## Endpoint creation -/

/-- What a successful `AddEmptyEndPoint` for the general format does: the endpoint descriptor
`e` and the transfer descriptor `t` leave their pools, `e` gets its flags word and `t` as head
and tail, and `e` is linked in right behind `pED`. -/
structure GeneralEndpointAdded (st st1 : AppleUSBOHCI) (e t pED word : Nat) : Prop where
  pFreeED : st.pFreeED = e :: st1.pFreeED
  pFreeTD : st.pFreeTD = t :: st1.pFreeTD
  flags : (st1.eds e).flags = word
  tail : (st1.eds e).pLogicalTailP = t
  head : (st1.eds e).pLogicalHeadP = t
  tailPtr : (st1.eds e).tdQueueTailPtr = (st.tds t).pPhysical
  headPtr : (st1.eds e).tdQueueHeadPtr = (st.tds t).pPhysical
  linked : pED ≠ e → (st1.eds pED).pLogicalNext = e
  edsOther : ∀ x, x ≠ e → x ≠ pED → st1.eds x = st.eds x
  edsTails : ∀ x, x ≠ e → (st1.eds x).pLogicalTailP = (st.eds x).pLogicalTailP
    ∧ (st1.eds x).tdQueueTailPtr = (st.eds x).tdQueueTailPtr
    ∧ (st1.eds x).flags = (st.eds x).flags
  tdsNew : st1.tds t = { st.tds t with uimFlags := 0 }
  tdsOther : ∀ x, x ≠ t → st1.tds x = st.tds x
  itds : st1.itds = st.itds
  pFreeITD : st1.pFreeITD = st.pFreeITD
  commands : st1.commands = st.commands
  errataBits : st1.errataBits = st.errataBits
  pageSize : st1.pageSize = st.pageSize
  pBulkHead : st1.pBulkHead = st.pBulkHead
  pBulkTail : st1.pBulkTail = st.pBulkTail
  OptiOn : st1.OptiOn = st.OptiOn
  registerWrites : st1.registerWrites = st.registerWrites

/-- The flags word `AddEmptyEndPoint` gives an endpoint descriptor. -/
theorem AddEmptyEndPoint_general (st : AppleUSBOHCI)
    (functionAddress endpointNumber maxPacketSize speed direction pED e t : Nat)
    (restE restT : List Nat) (hED : st.pFreeED = e :: restE) (hTD : st.pFreeTD = t :: restT) :
    ∃ st1, AddEmptyEndPoint st functionAddress endpointNumber maxPacketSize speed direction pED
        kOHCIEDFormatGeneralTD = .ret (some e, st1)
      ∧ GeneralEndpointAdded st st1 e t pED
          (shl32 (toUInt8 functionAddress) kOHCIEDControl_FAPhase
            ||| shl32 (toUInt8 endpointNumber) kOHCIEDControl_ENPhase
            ||| shl32 (toUInt8 direction) kOHCIEDControl_DPhase
            ||| shl32 (toUInt16 maxPacketSize) kOHCIEDControl_MPSPhase
            ||| (if toUInt8 speed = kUSBDeviceSpeedFull then
                  shl32 kOHCIEDSpeedFull kOHCIEDControl_SPhase
                else shl32 kOHCIEDSpeedLow kOHCIEDControl_SPhase)
            ||| shl32 kOHCIEDFormatGeneralTD kOHCIEDControl_FPhase) := by
  have hex : ∃ st1, AddEmptyEndPoint st functionAddress endpointNumber maxPacketSize speed
      direction pED kOHCIEDFormatGeneralTD = .ret (some e, st1) := by
    simp [AddEmptyEndPoint, AllocateED, hED, AllocateTD, hTD, setED]
  obtain ⟨st1, hst1⟩ := hex
  refine ⟨st1, hst1, ?_⟩
  simp only [AddEmptyEndPoint, AllocateED, hED, AllocateTD, hTD, setED, ↓reduceIte,
    Outcome.ret.injEq, Prod.mk.injEq, true_and] at hst1
  subst hst1
  constructor
  · simp [hED]
  · simp [hTD]
  · by_cases h : e = pED
    · subst h; simp
    · simp [Function.update_noteq h]
  · by_cases h : e = pED
    · subst h; simp
    · simp [Function.update_noteq h]
  · by_cases h : e = pED
    · subst h; simp
    · simp [Function.update_noteq h]
  · by_cases h : e = pED
    · subst h; simp
    · simp [Function.update_noteq h]
  · by_cases h : e = pED
    · subst h; simp
    · simp [Function.update_noteq h]
  · intro h
    simp
  · intro x hx hxp
    simp [Function.update_noteq hx, Function.update_noteq hxp]
  · intro x hx
    by_cases h : x = pED
    · subst h; simp [Function.update_noteq hx]
    · simp [Function.update_noteq hx, Function.update_noteq h]
  · simp
  · intro x hx
    simp [Function.update_noteq hx]
  all_goals simp

/-- The search stops at the first descriptor when that one matches. -/
theorem searchEDList_first (st : AppleUSBOHCI) (mask unique tail fuel back q : Nat)
    (hq : q ≠ tail) (h0 : q ≠ 0) (hmatch : (st.eds q).flags &&& mask = unique) :
    searchEDList st mask unique tail (fuel + 1) back q = .ret (some (q, back)) := by
  simp [searchEDList, hq, h0, hmatch]

/-- The key of address 5, endpoint 2, direction out in a flags word built by
`AddEmptyEndPoint` with max packet size 64. -/
theorem bulk_5_2_out_key (speed : Nat) :
    (shl32 (toUInt8 5) kOHCIEDControl_FAPhase
      ||| shl32 (toUInt8 2) kOHCIEDControl_ENPhase
      ||| shl32 (toUInt8 (edDirection kUSBOut)) kOHCIEDControl_DPhase
      ||| shl32 (toUInt16 (toUInt8 64)) kOHCIEDControl_MPSPhase
      ||| (if toUInt8 speed = kUSBDeviceSpeedFull then
            shl32 kOHCIEDSpeedFull kOHCIEDControl_SPhase
          else shl32 kOHCIEDSpeedLow kOHCIEDControl_SPhase)
      ||| shl32 kOHCIEDFormatGeneralTD kOHCIEDControl_FPhase) &&& kUniqueNumMask
    = shl32 (UInt32ofShort 2) kOHCIEndpointNumberOffset ||| UInt32ofShort 5
      ||| shl32 (UInt32ofShort (edDirection kUSBOut)) kOHCIEndpointDirectionOffset := by
  split_ifs <;> decide

/-- C5, as the code has it: with the single-page erratum, after `UIMCreateBulkEndpoint` for
address 5, endpoint 2, direction out and max packet size 64, a `UIMCreateBulkTransfer` of 200
bytes that the cursor resolves as one physical segment appends exactly one transfer descriptor,
the former placeholder, which carries the command and the last-TD marker: the number of
descriptors follows the physical segments of the buffer, not the max packet size. -/
theorem UIMCreateBulkTransfer_200_bytes (H : Header) (st : AppleUSBOHCI)
    (fuel c e t0 t1 a speed : Nat) (restE restT : List Nat)
    (hErrata : st.errataBits &&& H.kErrataOnlySinglePageTransfers ≠ 0)
    (hED : st.pFreeED = e :: restE) (he : e ≠ 0 ∧ e ≠ st.pBulkTail ∧ e ≠ st.pBulkHead)
    (hTD : st.pFreeTD = t0 :: t1 :: restT) (ht : t0 ≠ t1)
    (hAligned : (st.tds t0).pPhysical &&& kOHCIHeadPointer_H = 0)
    (hCmd : (st.commands c).address = 5 ∧ (st.commands c).endpoint = 2
      ∧ (st.commands c).direction = kUSBOut ∧ (st.commands c).reqCount = 200)
    (hBuffer : (st.commands c).buffer.resolve 0 1 0 = [⟨a, 200⟩])
    (hFuel : 1 ≤ fuel) :
    ∃ st1 st2,
      UIMCreateBulkEndpoint st 5 2 kUSBOut speed 64 = .ret (.kIOReturnSuccess, st1)
      ∧ UIMCreateBulkTransfer H st1 fuel c = .ret (.kIOReturnSuccess, st2)
      ∧ (st2.eds e).pLogicalHeadP = t0
      ∧ (st2.eds e).pLogicalTailP = t1
      ∧ queuedTDs st2 e 2 t0 = some [t0]
      ∧ (st2.tds t0).command = c
      ∧ (st2.tds t0).uimFlags &&& H.kUIMFlagsLastTD = H.kUIMFlagsLastTD
      ∧ st2.pFreeTD = restT := by
  obtain ⟨fuel, rfl⟩ : ∃ n, fuel = n + 1 := ⟨fuel - 1, by omega⟩
  obtain ⟨hadr, hep, hdir, hreq⟩ := hCmd
  obtain ⟨he0, heT, heH⟩ := he
  obtain ⟨st1, hadd, added⟩ :=
    AddEmptyEndPoint_general st 5 2 (toUInt8 64) speed (edDirection kUSBOut) st.pBulkHead e t0
      restE (t1 :: restT) hED hTD
  have hpool1 : st1.pFreeTD = t1 :: restT := by
    have := added.pFreeTD
    rw [hTD] at this
    exact (List.cons.inj this).2.symm
  have hcreate : UIMCreateBulkEndpoint st 5 2 kUSBOut speed 64
      = .ret (.kIOReturnSuccess, st1) := by
    simp [UIMCreateBulkEndpoint, hadd]
  -- the lookup finds the new endpoint descriptor at once
  have hfind : FindBulkEndpoint st1 (fuel + 1) 5 2 (edDirection kUSBOut)
      = .ret (some (e, st1.pBulkHead)) := by
    unfold FindBulkEndpoint
    rw [added.pBulkHead, added.linked (Ne.symm heH)]
    apply searchEDList_first
    · rw [added.pBulkTail]; exact heT
    · exact he0
    · rw [added.flags]
      exact bulk_5_2_out_key speed
  -- the transfer is one pass of the loop
  have hhead : (st1.eds e).tdQueueHeadPtr &&& kOHCIHeadPointer_H = 0 := by
    rw [added.headPtr]; exact hAligned
  have hbuf : (st1.commands c).buffer.resolve 0 1 0 = [⟨a, 200⟩] := by
    rw [added.commands]; exact hBuffer
  have hseg : CreateGeneralTransfer.segments H (st1.commands c).buffer
      (GeneralTransferLoop.init st1)
      = (1, { seg0 := ⟨a, 200⟩, seg1 := ⟨0, 0⟩ }) := by
    simp [CreateGeneralTransfer.segments, GeneralTransferLoop.init, added.errataBits, hErrata,
      getPhysicalSegments, hbuf]
  obtain ⟨l1, hbody, hoff1⟩ : ∃ l1,
      CreateGeneralTransfer.body H e c (st1.commands c).buffer 200
        ((if (st1.commands c).bufferRounding = true then kOHCIGTDControl_R else 0)
          ||| shl32 (UInt32ofShort (edDirection kUSBOut)) kOHCIDirectionOffset)
        H.kOHCIBulkTransferOutType
        (if st1.OptiOn = true then kOHCIHcCommandStatus_BLF ||| kOHCIHcCommandStatus_CLF
          else kOHCIHcCommandStatus_BLF)
        (GeneralTransferLoop.init st1) = .ret (.inr l1) ∧ l1.transferOffset = 200 := by
    unfold CreateGeneralTransfer.body
    rw [hseg, AllocateTD_cons _ t1 restT (by simpa [GeneralTransferLoop.init] using hpool1)]
    simp [CreateGeneralTransfer.mustSplit, CreateGeneralTransfer.pagesUsed,
      CreateGeneralTransfer.nextOffset, add32, W32, GeneralTransferLoop.init]
  obtain ⟨p, step⟩ := CreateGeneralTransfer.body_inr H e c _ 200 _ _ _ _ l1 hbody
  simp only [GeneralTransferLoop.init] at step
  have hp : p = t1 := by
    have := step.pool
    rw [hpool1] at this
    exact (List.cons.inj this).1.symm
  subst hp
  have htransfer : UIMCreateBulkTransfer H st1 (fuel + 1) c
      = .ret (.kIOReturnSuccess, l1.st) := by
    unfold UIMCreateBulkTransfer
    simp only [added.commands, hadr, hep, hdir, hreq]
    rw [hfind]
    simp only [Outcome.bind_ret, CreateGeneralTransfer, hhead, ne_eq, not_true_eq_false,
      ↓reduceIte, OfNat.ofNat_ne_zero, not_false_eq_true, hpool1, List.length_cons]
    rw [CreateGeneralTransfer.loop]
    simp only [GeneralTransferLoop.init, Nat.ofNat_pos, ↓reduceIte]
    rw [← added.commands]
    simp only [GeneralTransferLoop.init] at hbody
    rw [hbody]
    simp only [Outcome.bind_ret]
    rw [CreateGeneralTransfer.loop]
    simp [hoff1]
  have htail0 : (st1.eds e).pLogicalTailP = t0 := added.tail
  have hfinal := step.flagsFinal (by omega)
  have hnext := step.next
  have hcommand := step.command
  rw [htail0] at hfinal hnext hcommand
  refine ⟨st1, l1.st, hcreate, htransfer, ?_, step.tail, ?_, hcommand, hfinal.2, ?_⟩
  · rw [step.logicalHead]; exact added.head
  · simp [queuedTDs, step.tail, ht, hnext]
  · have := step.pool
    rw [hpool1] at this
    exact (List.cons.inj this).2.symm

/-- Witness of the amended C5 on the example driver. -/
theorem UIMCreateBulkTransfer_200_bytes_witness :
    ∃ st1 st2,
      UIMCreateBulkEndpoint exampleState 5 2 kUSBOut kUSBDeviceSpeedFull 64
        = .ret (.kIOReturnSuccess, st1)
      ∧ UIMCreateBulkTransfer exampleHeader st1 4 77 = .ret (.kIOReturnSuccess, st2)
      ∧ (st2.eds 20).pLogicalHeadP = 100
      ∧ (st2.eds 20).pLogicalTailP = 101
      ∧ queuedTDs st2 20 2 100 = some [100]
      ∧ (st2.tds 100).command = 77
      ∧ (st2.tds 100).uimFlags &&& exampleHeader.kUIMFlagsLastTD
          = exampleHeader.kUIMFlagsLastTD
      ∧ st2.pFreeTD = [102, 103] :=
  UIMCreateBulkTransfer_200_bytes exampleHeader exampleState 4 77 20 100 101 0x10000
    kUSBDeviceSpeedFull [21] [102, 103] (by decide) (by decide) (by decide) (by decide)
    (by decide) (by decide) (by decide) (by decide) (by decide)

/-- Counterexample to C5 as stated: on the example driver, with the single-page erratum, the
bulk endpoint 5:2 out with max packet size 64 is created and a bulk transfer of 200 bytes is
queued with success; the queue of the endpoint then holds one transfer descriptor, not four. -/
theorem UIMCreateBulkTransfer_200_bytes_counterexample :
    (exampleState.errataBits &&& exampleHeader.kErrataOnlySinglePageTransfers ≠ 0)
    ∧ (UIMCreateBulkEndpoint exampleState 5 2 kUSBOut kUSBDeviceSpeedFull 64).status
        = some .kIOReturnSuccess
    ∧ (exampleBulkState.commands 77).reqCount = 200
    ∧ (UIMCreateBulkTransfer exampleHeader exampleBulkState 4 77).status
        = some .kIOReturnSuccess
    ∧ queuedTDs ((UIMCreateBulkTransfer exampleHeader exampleBulkState 4 77).stateOr
          exampleBulkState) 20 8 100 = some [100]
    ∧ (queuedTDs ((UIMCreateBulkTransfer exampleHeader exampleBulkState 4 77).stateOr
          exampleBulkState) 20 8 100).map List.length ≠ some 4 := by
  decide

/-! ## Lookups that find nothing -/

theorem searchEDList_none (st : AppleUSBOHCI) (mask unique tail : Nat) :
    ∀ (l : List Nat) (fuel back q : Nat),
      EDPath st.eds tail q l → l.length < fuel →
      (∀ x ∈ l, (st.eds x).flags &&& mask ≠ unique) →
      searchEDList st mask unique tail fuel back q = .ret none
  | [], fuel, back, q, hpath, hfuel, _ => by
    obtain ⟨fuel, rfl⟩ : ∃ n, fuel = n + 1 := ⟨fuel - 1, by simp at hfuel; omega⟩
    simp only [EDPath] at hpath
    simp [searchEDList, hpath]
  | x :: xs, fuel, back, q, hpath, hfuel, hno => by
    obtain ⟨fuel, rfl⟩ : ∃ n, fuel = n + 1 := ⟨fuel - 1, by simp at hfuel; omega⟩
    obtain ⟨rfl, hqt, hq0, hrest⟩ := hpath
    have hmis := hno q (by simp)
    rw [searchEDList]
    simp only [ne_eq, hqt, not_false_eq_true, ↓reduceIte, hq0, hmis]
    exact searchEDList_none st mask unique tail xs fuel q _ hrest
      (by simp at hfuel; omega) (fun y hy => hno y (by simp [hy]))

theorem NoMatch.search {st : AppleUSBOHCI} {fuel head tail mask unique : Nat}
    (h : NoMatch st fuel head tail mask unique) :
    searchEDList st mask unique tail fuel head (st.eds head).pLogicalNext = .ret none := by
  obtain ⟨l, hpath, hlen, hno⟩ := h
  exact searchEDList_none st mask unique tail l fuel head _ hpath hlen hno

theorem FindBulkEndpoint_none {st : AppleUSBOHCI} {fuel fn en dir : Nat}
    (h : NoMatch st fuel st.pBulkHead st.pBulkTail kUniqueNumMask (uniqueKey fn en dir)) :
    FindBulkEndpoint st fuel fn en dir = .ret none :=
  h.search

theorem FindIsochronousEndpoint_none {st : AppleUSBOHCI} {fuel fn en dir : Nat}
    (h : NoMatch st fuel st.pIsochHead st.pIsochTail kUniqueNumMask (uniqueKey fn en dir)) :
    FindIsochronousEndpoint st fuel fn en dir = .ret none :=
  h.search

theorem FindControlEndpoint_none {st : AppleUSBOHCI} {fuel fn en : Nat}
    (h : NoMatch st fuel st.pControlHead st.pControlTail kUniqueNumNoDirMask
      (uniqueKeyNoDir fn en))
    (hOpti : st.OptiOn = true → NoMatch st fuel st.pBulkHead st.pBulkTail kUniqueNumMask
      (uniqueKey fn en kOHCIEDDirectionTD)) :
    FindControlEndpoint st fuel fn en = .ret none := by
  unfold FindControlEndpoint
  have := h.search
  unfold uniqueKeyNoDir at this
  simp only [this, Outcome.bind_ret]
  split_ifs with ho
  · exact FindBulkEndpoint_none (hOpti ho)
  · rfl

theorem FindInterruptEndpoint.slots_none {st : AppleUSBOHCI} {fuel unique : Nat} :
    ∀ (n i : Nat),
      (∀ k, i ≤ k → k < i + n → NoMatch st fuel (st.pInterruptHead k).pHead
        (st.pInterruptHead k).pTail kUniqueNumMask unique) →
      FindInterruptEndpoint.slots st fuel unique n i = .ret none
  | 0, _, _ => rfl
  | n + 1, i, h => by
    rw [FindInterruptEndpoint.slots, (h i (Nat.le_refl i) (by omega)).search]
    simp only [Outcome.bind_ret]
    exact FindInterruptEndpoint.slots_none n (i + 1) (fun k hk hk' => h k (by omega) (by omega))

theorem FindInterruptEndpoint_none {st : AppleUSBOHCI} {fuel fn en dir : Nat}
    (h : ∀ i, i < 63 → NoMatch st fuel (st.pInterruptHead i).pHead (st.pInterruptHead i).pTail
      kUniqueNumMask (uniqueKey fn en dir)) :
    FindInterruptEndpoint st fuel fn en dir = .ret none := by
  unfold FindInterruptEndpoint
  have hkey : shl32 (UInt32ofShort en) kOHCIEDControl_ENPhase
      ||| shl32 (UInt32ofShort fn) kOHCIEDControl_FAPhase
      ||| shl32 (UInt32ofShort dir) kOHCIEndpointDirectionOffset = uniqueKey fn en dir := by
    have h32 : UInt32ofShort fn < W32 := by
      unfold UInt32ofShort W32
      split_ifs <;> omega
    simp only [uniqueKey, shl32, kOHCIEDControl_FAPhase, kOHCIEDControl_ENPhase,
      kOHCIEndpointNumberOffset, Nat.shiftLeft_zero, Nat.mod_eq_of_lt h32]
  simp only [hkey]
  exact FindInterruptEndpoint.slots_none 63 0 (fun k _ hk => h k (by omega))

theorem FindEndpoint_none {st : AppleUSBOHCI} {fuel fn en dir : Nat}
    (h : NoMatchAnywhere st fuel fn en dir) :
    FindEndpoint st fuel fn en dir = .ret none := by
  obtain ⟨hc, ho, hb, hi, hs⟩ := h
  simp [FindEndpoint, FindControlEndpoint_none hc ho, FindBulkEndpoint_none hb,
    FindInterruptEndpoint_none hi, FindIsochronousEndpoint_none hs]

/-- C8: each transfer and lifecycle entry point, addressed to a device other than the root
hub, returns `kIOUSBEndpointNotFound` and leaves the whole state as it was (directory lists,
descriptors, bandwidth ledger, registers) when no endpoint descriptor of the directory lists it
searches matches the key of address, endpoint number and direction. -/
theorem endpoint_not_found (H : Header) (X : Collaborators) (st : AppleUSBOHCI)
    (fuel functionAddress endpointNumber direction command : Nat) (CBP pBuffer : IOMemoryDescriptor)
    (bufferRounding : Bool) (bufferSize : Nat) (completion : IOUSBCompletion)
    (frameNumberStart frameCount pFrames updateFrequency : Nat)
    (hRoot : functionAddress ≠ st.rootHubFuncAddress)
    (hCommand : (st.commands command).address = functionAddress
      ∧ (st.commands command).endpoint = endpointNumber
      ∧ (st.commands command).direction = direction) :
    ((NoMatch st fuel st.pControlHead st.pControlTail kUniqueNumNoDirMask
          (uniqueKeyNoDir functionAddress endpointNumber)
        ∧ (st.OptiOn = true → NoMatch st fuel st.pBulkHead st.pBulkTail kUniqueNumMask
          (uniqueKey functionAddress endpointNumber kOHCIEDDirectionTD))) →
      UIMCreateControlTransfer H st fuel functionAddress endpointNumber command CBP
        bufferRounding bufferSize direction = .ret (.kIOUSBEndpointNotFound, st))
    ∧ (NoMatch st fuel st.pBulkHead st.pBulkTail kUniqueNumMask
          (uniqueKey functionAddress endpointNumber (edDirection direction)) →
      UIMCreateBulkTransfer H st fuel command = .ret (.kIOUSBEndpointNotFound, st))
    ∧ ((∀ i, i < 63 → NoMatch st fuel (st.pInterruptHead i).pHead (st.pInterruptHead i).pTail
          kUniqueNumMask (uniqueKey functionAddress endpointNumber (edDirection direction))) →
      UIMCreateInterruptTransfer H X st fuel command = .ret (.kIOUSBEndpointNotFound, st))
    ∧ ((1 ≤ frameCount ∧ frameCount ≤ 1000) → (direction = kUSBOut ∨ direction = kUSBIn) →
      NoMatch st fuel st.pIsochHead st.pIsochTail kUniqueNumMask
          (uniqueKey functionAddress endpointNumber (edDirection direction)) →
      UIMCreateIsochTransfer H st fuel functionAddress endpointNumber completion direction
          frameNumberStart pBuffer frameCount pFrames = .ret (.kIOUSBEndpointNotFound, st)
        ∧ UIMCreateIsochTransferLL H st fuel functionAddress endpointNumber completion direction
          frameNumberStart pBuffer frameCount pFrames updateFrequency
          = .ret (.kIOUSBEndpointNotFound, st))
    ∧ (NoMatchAnywhere st fuel functionAddress endpointNumber (edDirection direction) →
      UIMAbortEndpoint X st fuel functionAddress endpointNumber direction
          = .ret (.kIOUSBEndpointNotFound, st)
        ∧ UIMDeleteEndpoint X st fuel functionAddress endpointNumber direction
          = .ret (.kIOUSBEndpointNotFound, st)
        ∧ UIMClearEndpointStall X st fuel functionAddress endpointNumber direction
          = .ret (.kIOUSBEndpointNotFound, st)) := by
  obtain ⟨hadr, hep, hdir⟩ := hCommand
  refine ⟨?_, ?_, ?_, ?_, ?_⟩
  · rintro ⟨hc, ho⟩
    simp [UIMCreateControlTransfer, FindControlEndpoint_none hc ho]
  · intro hb
    simp [UIMCreateBulkTransfer, hadr, hep, hdir, FindBulkEndpoint_none hb]
  · intro hi
    have hroot : ¬ st.rootHubFuncAddress = functionAddress := fun e => hRoot e.symm
    simp [UIMCreateInterruptTransfer, hadr, hep, hdir, hroot, FindInterruptEndpoint_none hi]
  · intro hcount hd hs
    have hcnt : ¬ (frameCount = 0 ∨ frameCount > 1000) := by omega
    have hdir' : ¬ (direction ≠ kUSBOut ∧ direction ≠ kUSBIn) := by
      rintro ⟨h1, h2⟩
      rcases hd with h | h
      · exact h1 h
      · exact h2 h
    have hed : (if direction = kUSBOut then kOHCIEDDirectionOut else kOHCIEDDirectionIn)
        = edDirection direction := by
      unfold edDirection
      rcases hd with h | h
      · simp [h]
      · simp [h, kUSBIn, kUSBOut]
    constructor
    · simp only [UIMCreateIsochTransfer, hcnt, hdir', ↓reduceIte, hed]
      rw [FindIsochronousEndpoint_none hs]
      rfl
    · simp only [UIMCreateIsochTransferLL, hcnt, hdir', ↓reduceIte, hed]
      rw [FindIsochronousEndpoint_none hs]
      rfl
  · intro hall
    have hroot : ¬ st.rootHubFuncAddress = functionAddress := fun e => hRoot e.symm
    refine ⟨?_, ?_, ?_⟩
    · simp [UIMAbortEndpoint, hRoot, FindEndpoint_none hall]
    · simp [UIMDeleteEndpoint, hRoot, FindEndpoint_none hall]
    · simp [UIMClearEndpointStall, hroot, FindEndpoint_none hall]

theorem exampleStrayState_empty_lists :
    (exampleStrayState.eds exampleStrayState.pControlHead).pLogicalNext
        = exampleStrayState.pControlTail
      ∧ (exampleStrayState.eds exampleStrayState.pIsochHead).pLogicalNext
        = exampleStrayState.pIsochTail
      ∧ (∀ i, (exampleStrayState.eds (exampleStrayState.pInterruptHead i).pHead).pLogicalNext
        = (exampleStrayState.pInterruptHead i).pTail) := by
  have hI : exampleStrayState.pInterruptHead = fun _ => ⟨7, 8, 0⟩ := by rfl
  refine ⟨by decide, by decide, fun i => ?_⟩
  rw [hI]
  show (exampleStrayState.eds 7).pLogicalNext = 8
  decide

theorem exampleStrayState_bulk_list (unique : Nat) (h : unique ≠ 0x905) :
    NoMatch exampleStrayState 5 exampleStrayState.pBulkHead exampleStrayState.pBulkTail
      kUniqueNumMask unique := by
  refine ⟨[20], ?_, by decide, ?_⟩
  · unfold EDPath EDPath
    decide
  intro x hx
  simp only [List.mem_singleton] at hx
  subst hx
  have h20 : (exampleStrayState.eds 20).flags &&& kUniqueNumMask = 0x905 := by decide
  rw [h20]
  exact fun e => h e.symm

/-- Witness for C8: the example driver has one endpoint, bulk (5, 2, out); every entry point
asked for endpoint 3 of device 5 reports that the endpoint is not found and returns the state
as it was. -/
theorem endpoint_not_found_witness :
    UIMCreateControlTransfer exampleHeader exampleStrayState 5 5 3 0 exampleBuffer false 200
        kUSBOut = .ret (.kIOUSBEndpointNotFound, exampleStrayState)
      ∧ UIMCreateBulkTransfer exampleHeader exampleStrayState 5 0
        = .ret (.kIOUSBEndpointNotFound, exampleStrayState)
      ∧ UIMCreateInterruptTransfer exampleHeader exampleCollaborators exampleStrayState 5 0
        = .ret (.kIOUSBEndpointNotFound, exampleStrayState)
      ∧ UIMCreateIsochTransfer exampleHeader exampleStrayState 5 5 3 ⟨1, 2, 3⟩ kUSBOut 100000
        exampleBuffer 8 0 = .ret (.kIOUSBEndpointNotFound, exampleStrayState)
      ∧ UIMCreateIsochTransferLL exampleHeader exampleStrayState 5 5 3 ⟨1, 2, 3⟩ kUSBOut 100000
        exampleBuffer 8 0 0 = .ret (.kIOUSBEndpointNotFound, exampleStrayState)
      ∧ UIMAbortEndpoint exampleCollaborators exampleStrayState 5 5 3 kUSBOut
        = .ret (.kIOUSBEndpointNotFound, exampleStrayState)
      ∧ UIMDeleteEndpoint exampleCollaborators exampleStrayState 5 5 3 kUSBOut
        = .ret (.kIOUSBEndpointNotFound, exampleStrayState)
      ∧ UIMClearEndpointStall exampleCollaborators exampleStrayState 5 5 3 kUSBOut
        = .ret (.kIOUSBEndpointNotFound, exampleStrayState) := by
  have hempty := exampleStrayState_empty_lists
  have hcontrol : NoMatch exampleStrayState 5 exampleStrayState.pControlHead
      exampleStrayState.pControlTail kUniqueNumNoDirMask (uniqueKeyNoDir 5 3) :=
    ⟨[], hempty.1, by decide, by simp⟩
  have hbulk : NoMatch exampleStrayState 5 exampleStrayState.pBulkHead
      exampleStrayState.pBulkTail kUniqueNumMask (uniqueKey 5 3 (edDirection kUSBOut)) :=
    exampleStrayState_bulk_list _ (by decide)
  have hint : ∀ i, i < 63 → NoMatch exampleStrayState 5
      (exampleStrayState.pInterruptHead i).pHead (exampleStrayState.pInterruptHead i).pTail
      kUniqueNumMask (uniqueKey 5 3 (edDirection kUSBOut)) :=
    fun i _ => ⟨[], hempty.2.2 i, by decide, by simp⟩
  have hisoch : NoMatch exampleStrayState 5 exampleStrayState.pIsochHead
      exampleStrayState.pIsochTail kUniqueNumMask (uniqueKey 5 3 (edDirection kUSBOut)) :=
    ⟨[], hempty.2.1, by decide, by simp⟩
  have hopti : exampleStrayState.OptiOn = true → NoMatch exampleStrayState 5
      exampleStrayState.pBulkHead exampleStrayState.pBulkTail kUniqueNumMask
      (uniqueKey 5 3 kOHCIEDDirectionTD) :=
    fun _ => exampleStrayState_bulk_list _ (by decide)
  have h := endpoint_not_found exampleHeader exampleCollaborators exampleStrayState 5 5 3
    kUSBOut 0 exampleBuffer exampleBuffer false 200 ⟨1, 2, 3⟩ 100000 8 0 0 (by decide)
    ⟨rfl, rfl, rfl⟩
  obtain ⟨h1, h2, h3, h4, h5⟩ := h
  have h4' := h4 (by decide) (Or.inl rfl) hisoch
  have h5' := h5 ⟨hcontrol, hopti, hbulk, hint, hisoch⟩
  exact ⟨h1 ⟨hcontrol, hopti⟩, h2 hbulk, h3 hint, h4'.1, h4'.2, h5'.1, h5'.2.1, h5'.2.2⟩

/-! ## Argument checks of the isochronous transfers -/

theorem edDirection_of_in_out {direction : Nat}
    (h : direction = kUSBOut ∨ direction = kUSBIn) :
    (if direction = kUSBOut then kOHCIEDDirectionOut else kOHCIEDDirectionIn)
      = edDirection direction := by
  unfold edDirection
  rcases h with h | h
  · simp [h]
  · simp [h, kUSBIn, kUSBOut]

theorem isochFrameWindow_too_old {frameNumberStart curFrameNumber : Nat}
    (h : frameNumberStart + 0x7FF0 < curFrameNumber) (hcur : curFrameNumber < W64) :
    isochFrameWindow frameNumberStart curFrameNumber = some .kIOReturnIsoTooOld := by
  have hle : frameNumberStart ≤ curFrameNumber := by omega
  have hsub : sub64 curFrameNumber 0x00007FF0 = curFrameNumber - 0x7FF0 := by
    unfold sub64 W64 at *
    omega
  have hlt : frameNumberStart < curFrameNumber - 0x7FF0 := by omega
  simp [isochFrameWindow, hle, hsub, hlt]

theorem isochFrameWindow_too_new {frameNumberStart curFrameNumber : Nat}
    (h : curFrameNumber + 0x7FF0 < frameNumberStart) (hstart : frameNumberStart < W64) :
    isochFrameWindow frameNumberStart curFrameNumber = some .kIOReturnIsoTooNew := by
  have hle : ¬ frameNumberStart ≤ curFrameNumber := by omega
  have hadd : add64 curFrameNumber 0x00007FF0 = curFrameNumber + 0x7FF0 := by
    unfold add64 W64 at *
    omega
  simp [isochFrameWindow, hle, hadd, h]

/-- C9: both variants of `UIMCreateIsochTransfer`, called with a frame count of 0 or of more
than 1000, return `kIOReturnBadArgument` with the state they were given: no isochronous
descriptor is allocated, and the bandwidth ledger, the pools, the endpoint queues and the
frame array of the caller are as before. -/
theorem UIMCreateIsochTransfer_bad_frame_count (H : Header) (st : AppleUSBOHCI)
    (fuel functionAddress endpointNumber : Nat) (completion : IOUSBCompletion)
    (direction frameNumberStart : Nat) (pBuffer : IOMemoryDescriptor)
    (frameCount pFrames updateFrequency : Nat)
    (hCount : frameCount = 0 ∨ 1000 < frameCount) :
    UIMCreateIsochTransfer H st fuel functionAddress endpointNumber completion direction
        frameNumberStart pBuffer frameCount pFrames = .ret (.kIOReturnBadArgument, st)
      ∧ UIMCreateIsochTransferLL H st fuel functionAddress endpointNumber completion direction
        frameNumberStart pBuffer frameCount pFrames updateFrequency
        = .ret (.kIOReturnBadArgument, st) := by
  have h : frameCount = 0 ∨ frameCount > 1000 := hCount
  constructor
  · simp only [UIMCreateIsochTransfer, h, ↓reduceIte]
  · simp only [UIMCreateIsochTransferLL, h, ↓reduceIte]

/-- Witness for C9: on the example driver with its isochronous endpoint (5, 1, out), a request
of 1001 frames is refused by both variants, and the state is returned as it was. -/
theorem UIMCreateIsochTransfer_bad_frame_count_witness :
    (1001 = 0 ∨ 1000 < 1001)
      ∧ UIMCreateIsochTransfer exampleHeader exampleIsochState 5 5 1 ⟨1, 2, 3⟩ kUSBOut 100010
        exampleBuffer 1001 0 = .ret (.kIOReturnBadArgument, exampleIsochState)
      ∧ UIMCreateIsochTransferLL exampleHeader exampleIsochState 5 5 1 ⟨1, 2, 3⟩ kUSBOut 100010
        exampleBuffer 1001 0 1 = .ret (.kIOReturnBadArgument, exampleIsochState) :=
  ⟨by decide, UIMCreateIsochTransfer_bad_frame_count exampleHeader exampleIsochState 5 5 1
    ⟨1, 2, 3⟩ kUSBOut 100010 exampleBuffer 1001 0 1 (by decide)⟩

/-- C10: for an isochronous endpoint that the lookup finds, a direction of in or out and a
frame count between 1 and 1000, both variants of `UIMCreateIsochTransfer` return
`kIOReturnIsoTooOld` when the start frame is more than `0x7FF0` frames behind the current frame
number, and `kIOReturnIsoTooNew` when it is more than `0x7FF0` frames ahead of it; in both
cases the state is returned as it was. -/
theorem UIMCreateIsochTransfer_frame_window (H : Header) (st : AppleUSBOHCI)
    (fuel functionAddress endpointNumber : Nat) (completion : IOUSBCompletion)
    (direction frameNumberStart : Nat) (pBuffer : IOMemoryDescriptor)
    (frameCount pFrames updateFrequency pED back : Nat)
    (hFound : FindIsochronousEndpoint st fuel functionAddress endpointNumber
      (edDirection direction) = .ret (some (pED, back)))
    (hDirection : direction = kUSBOut ∨ direction = kUSBIn)
    (hCount : 1 ≤ frameCount ∧ frameCount ≤ 1000)
    (hStart : frameNumberStart < W64) :
    (frameNumberStart + 0x7FF0 < GetFrameNumber st →
      UIMCreateIsochTransfer H st fuel functionAddress endpointNumber completion direction
          frameNumberStart pBuffer frameCount pFrames = .ret (.kIOReturnIsoTooOld, st)
        ∧ UIMCreateIsochTransferLL H st fuel functionAddress endpointNumber completion
          direction frameNumberStart pBuffer frameCount pFrames updateFrequency
          = .ret (.kIOReturnIsoTooOld, st))
    ∧ (GetFrameNumber st + 0x7FF0 < frameNumberStart →
      UIMCreateIsochTransfer H st fuel functionAddress endpointNumber completion direction
          frameNumberStart pBuffer frameCount pFrames = .ret (.kIOReturnIsoTooNew, st)
        ∧ UIMCreateIsochTransferLL H st fuel functionAddress endpointNumber completion
          direction frameNumberStart pBuffer frameCount pFrames updateFrequency
          = .ret (.kIOReturnIsoTooNew, st)) := by
  have hcnt : ¬ (frameCount = 0 ∨ frameCount > 1000) := by omega
  have hdir : ¬ (direction ≠ kUSBOut ∧ direction ≠ kUSBIn) := by
    rintro ⟨h1, h2⟩
    rcases hDirection with h | h
    · exact h1 h
    · exact h2 h
  have hed := edDirection_of_in_out hDirection
  have hcur : GetFrameNumber st < W64 := Nat.mod_lt _ (by decide)
  have hmod : frameNumberStart % W64 = frameNumberStart := Nat.mod_eq_of_lt hStart
  constructor
  · intro h
    have hw := isochFrameWindow_too_old h hcur
    constructor
    · simp only [UIMCreateIsochTransfer, hcnt, hdir, ↓reduceIte, hed, hFound, Outcome.bind_ret,
        UIMCreateIsochTransfer.queue, hmod, hw]
    · simp only [UIMCreateIsochTransferLL, hcnt, hdir, ↓reduceIte, hed, hFound,
        Outcome.bind_ret, UIMCreateIsochTransferLL.queue, hmod, hw]
  · intro h
    have hw := isochFrameWindow_too_new h hStart
    constructor
    · simp only [UIMCreateIsochTransfer, hcnt, hdir, ↓reduceIte, hed, hFound, Outcome.bind_ret,
        UIMCreateIsochTransfer.queue, hmod, hw]
    · simp only [UIMCreateIsochTransferLL, hcnt, hdir, ↓reduceIte, hed, hFound,
        Outcome.bind_ret, UIMCreateIsochTransferLL.queue, hmod, hw]

/-- Witness for C10: the example driver is at frame 100000 and has the isochronous endpoint
(5, 1, out), found as descriptor 20 behind the list head 5. A request of 8 frames starting at
frame 50000 is too old, one starting at frame 200000 is too new, and both leave the state as it
was. -/
theorem UIMCreateIsochTransfer_frame_window_witness :
    FindIsochronousEndpoint exampleIsochState 5 5 1 (edDirection kUSBOut) = .ret (some (20, 5))
      ∧ GetFrameNumber exampleIsochState = 100000
      ∧ UIMCreateIsochTransfer exampleHeader exampleIsochState 5 5 1 ⟨1, 2, 3⟩ kUSBOut 50000
        exampleBuffer 8 0 = .ret (.kIOReturnIsoTooOld, exampleIsochState)
      ∧ UIMCreateIsochTransferLL exampleHeader exampleIsochState 5 5 1 ⟨1, 2, 3⟩ kUSBOut 50000
        exampleBuffer 8 0 1 = .ret (.kIOReturnIsoTooOld, exampleIsochState)
      ∧ UIMCreateIsochTransfer exampleHeader exampleIsochState 5 5 1 ⟨1, 2, 3⟩ kUSBOut 200000
        exampleBuffer 8 0 = .ret (.kIOReturnIsoTooNew, exampleIsochState)
      ∧ UIMCreateIsochTransferLL exampleHeader exampleIsochState 5 5 1 ⟨1, 2, 3⟩ kUSBOut 200000
        exampleBuffer 8 0 1 = .ret (.kIOReturnIsoTooNew, exampleIsochState) := by
  have hfound : FindIsochronousEndpoint exampleIsochState 5 5 1 (edDirection kUSBOut)
      = .ret (some (20, 5)) := by rfl
  have hcur : GetFrameNumber exampleIsochState = 100000 := by decide
  have hold := (UIMCreateIsochTransfer_frame_window exampleHeader exampleIsochState 5 5 1
    ⟨1, 2, 3⟩ kUSBOut 50000 exampleBuffer 8 0 1 20 5 hfound (Or.inl rfl) (by decide)
    (by decide)).1 (by rw [hcur]; decide)
  have hnew := (UIMCreateIsochTransfer_frame_window exampleHeader exampleIsochState 5 5 1
    ⟨1, 2, 3⟩ kUSBOut 200000 exampleBuffer 8 0 1 20 5 hfound (Or.inl rfl) (by decide)
    (by decide)).2 (by rw [hcur]; decide)
  exact ⟨hfound, hcur, hold.1, hold.2, hnew.1, hnew.2⟩

/-! ## The tail placeholder -/

theorem TDChain.td_snoc {tds : Nat → OHCIGeneralTransferDescriptor} :
    ∀ (l : List Nat) (a x b : Nat),
      TDChain tds a (l ++ [x]) b ↔ TDChain tds a l x ∧ (tds x).pLogicalNext = b
  | [], a, x, b => by
    simp only [List.nil_append, TDChain]
  | y :: l, a, x, b => by
    rw [List.cons_append, TDChain, TDChain, TDChain.td_snoc l, and_assoc]

theorem TDChain.td_congr {tds tds' : Nat → OHCIGeneralTransferDescriptor} :
    ∀ (l : List Nat) (a b : Nat),
      (∀ x ∈ l, (tds' x).pLogicalNext = (tds x).pLogicalNext) →
      TDChain tds a l b → TDChain tds' a l b
  | [], _, _, _, h => h
  | y :: l, a, b, hl, h => by
    obtain ⟨rfl, h⟩ := h
    refine ⟨rfl, ?_⟩
    rw [hl a (by simp)]
    exact TDChain.td_congr l _ b (fun x hx => hl x (by simp [hx])) h

theorem ITDChain.itd_snoc {itds : Nat → OHCIIsochTransferDescriptor} :
    ∀ (l : List Nat) (a x b : Nat),
      ITDChain itds a (l ++ [x]) b ↔ ITDChain itds a l x ∧ (itds x).pLogicalNext = b
  | [], a, x, b => by
    simp only [List.nil_append, ITDChain]
  | y :: l, a, x, b => by
    rw [List.cons_append, ITDChain, ITDChain, ITDChain.itd_snoc l, and_assoc]

theorem ITDChain.itd_congr {itds itds' : Nat → OHCIIsochTransferDescriptor} :
    ∀ (l : List Nat) (a b : Nat),
      (∀ x ∈ l, (itds' x).pLogicalNext = (itds x).pLogicalNext) →
      ITDChain itds a l b → ITDChain itds' a l b
  | [], _, _, _, h => h
  | y :: l, a, b, hl, h => by
    obtain ⟨rfl, h⟩ := h
    refine ⟨rfl, ?_⟩
    rw [hl a (by simp)]
    exact ITDChain.itd_congr l _ b (fun x hx => hl x (by simp [hx])) h

/-- The state of a general endpoint while `CreateGeneralTransfer` appends to it, seen from the
state `st0` at the call: the descriptors `taken` have left the pool, the former placeholder
and the descriptors taken, but for the last, are `filled` and linked up to the tail. -/
structure GeneralBuilding (st0 : AppleUSBOHCI) (queue command : Nat) (st : AppleUSBOHCI)
    (taken filled : List Nat) : Prop where
  pool : st0.pFreeTD = taken ++ st.pFreeTD
  split : (st0.eds queue).pLogicalTailP :: taken = filled ++ [(st.eds queue).pLogicalTailP]
  chain : TDChain st.tds (st0.eds queue).pLogicalTailP filled (st.eds queue).pLogicalTailP
  commands : ∀ d ∈ filled, (st.tds d).command = command
  tailPtr : taken ≠ [] →
    (st.eds queue).tdQueueTailPtr = (st.tds (st.eds queue).pLogicalTailP).pPhysical
  tailPtr0 : taken = [] → (st.eds queue).tdQueueTailPtr = (st0.eds queue).tdQueueTailPtr
  tailCommand : (st.tds (st.eds queue).pLogicalTailP).command
    = (st0.tds (st.eds queue).pLogicalTailP).command
  tdsOther : ∀ x, x ≠ (st0.eds queue).pLogicalTailP → x ∉ taken → st.tds x = st0.tds x
  physical : ∀ x, (st.tds x).pPhysical = (st0.tds x).pPhysical
  edsOther : ∀ x, x ≠ queue → st.eds x = st0.eds x
  itds : st.itds = st0.itds
  pFreeITD : st.pFreeITD = st0.pFreeITD
  pFreeED : st.pFreeED = st0.pFreeED

theorem GeneralBuilding.general_init (st0 : AppleUSBOHCI) (queue command : Nat) :
    GeneralBuilding st0 queue command st0 [] [] := by
  constructor <;> simp [TDChain]

theorem GeneralBuilding.step {H : Header} {st0 : AppleUSBOHCI} {queue command : Nat}
    {CBP : IOMemoryDescriptor} {bufferSize flags type kickBits : Nat}
    {l l1 : GeneralTransferLoop} {p : Nat} {taken filled : List Nat}
    (hnd : st0.pFreeTD.Nodup) (ht : (st0.eds queue).pLogicalTailP ∉ st0.pFreeTD)
    (inv : GeneralBuilding st0 queue command l.st taken filled)
    (step : GeneralTransferStep H queue command CBP bufferSize flags type kickBits l l1 p) :
    GeneralBuilding st0 queue command l1.st (taken ++ [p])
      (filled ++ [(l.st.eds queue).pLogicalTailP]) := by
  have hpool : st0.pFreeTD = taken ++ p :: l1.st.pFreeTD := by rw [inv.pool, step.pool]
  rw [hpool] at hnd ht
  have hnd' := List.nodup_append.mp hnd
  have hp_taken : p ∉ taken := fun h => hnd'.2.2 h (by simp)
  have hp_T0 : p ≠ (st0.eds queue).pLogicalTailP := fun h => ht (by simp [← h])
  have hmem : ∀ x, x ∈ filled ++ [(l.st.eds queue).pLogicalTailP] →
      x = (st0.eds queue).pLogicalTailP ∨ x ∈ taken := by
    intro x hx
    rw [← inv.split] at hx
    simpa using hx
  have hp_t : p ≠ (l.st.eds queue).pLogicalTailP := by
    intro h
    rcases hmem p (by simp [h]) with h' | h'
    · exact hp_T0 h'
    · exact hp_taken h'
  have hnd_cons : ((st0.eds queue).pLogicalTailP :: taken).Nodup := by
    refine List.nodup_cons.mpr ⟨fun h => ht (by simp [h]), hnd'.1⟩
  rw [inv.split] at hnd_cons
  have ht_filled : (l.st.eds queue).pLogicalTailP ∉ filled := by
    intro h
    exact (List.nodup_append.mp hnd_cons).2.2 h (by simp)
  have hfilled : ∀ x ∈ filled, l1.st.tds x = l.st.tds x := by
    intro x hx
    apply step.tdsOther
    · exact fun h => ht_filled (h ▸ hx)
    · intro h
      rcases hmem x (by simp [hx]) with h' | h'
      · exact hp_T0 (h ▸ h')
      · exact hp_taken (h ▸ h')
  constructor
  · rw [hpool]; simp
  · rw [step.tail, ← List.cons_append, inv.split]
  · rw [step.tail, TDChain.td_snoc]
    refine ⟨?_, step.next⟩
    exact TDChain.td_congr filled _ _ (fun x hx => by rw [hfilled x hx]) inv.chain
  · intro d hd
    rw [List.mem_append, List.mem_singleton] at hd
    rcases hd with hd | rfl
    · rw [hfilled d hd]; exact inv.commands d hd
    · exact step.command
  · intro _
    rw [step.tailPtr, step.tail, step.physical]
  · intro h
    simp at h
  · rw [step.tail, step.tdsNew hp_t]
    show (l.st.tds p).command = _
    rw [inv.tdsOther p hp_T0 hp_taken]
  · intro x hx hxt
    simp only [List.mem_append, List.mem_singleton, not_or] at hxt
    rw [step.tdsOther x ?_ hxt.2]
    · exact inv.tdsOther x hx hxt.1
    · intro h
      rcases hmem x (by simp [h]) with h' | h'
      · exact hx h'
      · exact hxt.1 h'
  · intro x
    rw [step.physical, inv.physical]
  · intro x hx
    rw [step.edsOther x hx, inv.edsOther x hx]
  · rw [step.itds, inv.itds]
  · rw [step.pFreeITD, inv.pFreeITD]
  · rw [step.pFreeED, inv.pFreeED]

theorem GeneralBuilding.passes {H : Header} {st0 : AppleUSBOHCI} {queue command : Nat}
    {CBP : IOMemoryDescriptor} {bufferSize flags type kickBits : Nat}
    (hnd : st0.pFreeTD.Nodup) (ht : (st0.eds queue).pLogicalTailP ∉ st0.pFreeTD) :
    ∀ (k : Nat) (l lk : GeneralTransferLoop) (taken filled : List Nat),
      GeneralBuilding st0 queue command l.st taken filled →
      CreateGeneralTransfer.passes H queue command CBP bufferSize flags type kickBits k l
        = some lk →
      ∃ taken' filled', GeneralBuilding st0 queue command lk.st taken' filled'
        ∧ taken'.length = taken.length + k
  | 0, l, lk, taken, filled, inv, h => by
    simp [CreateGeneralTransfer.passes] at h
    subst h
    exact ⟨taken, filled, inv, rfl⟩
  | k + 1, l, lk, taken, filled, inv, h => by
    obtain ⟨-, l1, hbody, hrest⟩ :=
      CreateGeneralTransfer.passes_succ H queue command CBP bufferSize flags type kickBits h
    obtain ⟨p, step⟩ :=
      CreateGeneralTransfer.body_inr H queue command CBP bufferSize flags type kickBits l l1 hbody
    obtain ⟨taken', filled', inv', hlen⟩ :=
      GeneralBuilding.passes hnd ht k l1 lk _ _ (GeneralBuilding.step hnd ht inv step) hrest
    exact ⟨taken', filled', inv', by rw [hlen]; simp; omega⟩

theorem GeneralBuilding.tail_cases {st0 st : AppleUSBOHCI} {queue command : Nat}
    {taken filled : List Nat} (inv : GeneralBuilding st0 queue command st taken filled) :
    (taken = [] ∧ filled = [] ∧ (st.eds queue).pLogicalTailP = (st0.eds queue).pLogicalTailP)
      ∨ (taken ≠ [] ∧ (st.eds queue).pLogicalTailP ∈ taken
        ∧ filled.head? = some (st0.eds queue).pLogicalTailP) := by
  have h := inv.split
  rcases filled with _ | ⟨a, filled⟩
  · simp only [List.nil_append, List.cons.injEq] at h
    exact Or.inl ⟨h.2, rfl, h.1.symm⟩
  · rw [List.cons_append, List.cons.injEq] at h
    refine Or.inr ⟨?_, ?_, by simp [h.1]⟩
    · rw [h.2]; simp
    · rw [h.2]; simp

theorem TailPlaceholders.of_general_building {st st' : AppleUSBOHCI} {G I : List Nat}
    {queue command : Nat} {taken filled : List Nat}
    (inv : TailPlaceholders st G I) (hq : queue ∈ G)
    (b : GeneralBuilding st queue command st' taken filled) :
    TailPlaceholders st' G I := by
  have hnd := inv.pools.nodupTD
  rw [b.pool] at hnd
  have hnd' := List.nodup_append.mp hnd
  have hT0 := (inv.general queue hq).allocated
  have hsub : ∀ x, x ∈ st'.pFreeTD → x ∈ st.pFreeTD := by
    intro x hx
    rw [b.pool]
    exact List.mem_append_right _ hx
  have htaken : ∀ x, x ∈ taken → x ∈ st.pFreeTD := by
    intro x hx
    rw [b.pool]
    exact List.mem_append_left _ hx
  have hqI : ∀ e ∈ I, e ≠ queue := by
    intro e he h
    subst h
    exact (List.nodup_append.mp inv.distinct).2.2 hq he
  have htailq : GeneralPlaceholder st' queue := by
    rcases b.tail_cases with ⟨h0, -, htail⟩ | ⟨hne, hmem, -⟩
    · constructor
      · rw [b.tailPtr0 h0, htail, b.physical]
        exact (inv.general queue hq).tailPtr
      · rw [htail]
        exact fun h => hT0 (hsub _ h)
      · rw [b.tailCommand, htail]
        exact (inv.general queue hq).blank
    · constructor
      · exact b.tailPtr hne
      · exact fun h => hnd'.2.2 hmem h
      · rw [b.tailCommand]
        exact inv.pools.cleanTD _ (htaken _ hmem)
  have hother : ∀ r ∈ G, r ≠ queue →
      st'.eds r = st.eds r
        ∧ st'.tds (st.eds r).pLogicalTailP = st.tds (st.eds r).pLogicalTailP := by
    intro r hr hrq
    refine ⟨b.edsOther r hrq, b.tdsOther _ ?_ ?_⟩
    · exact fun h => hrq (inv.generalApart r hr queue hq h)
    · exact fun h => (inv.general r hr).allocated (htaken _ h)
  constructor
  · constructor
    · exact hnd'.2.1
    · rw [b.pFreeITD]; exact inv.pools.nodupITD
    · rw [b.pFreeED]; exact inv.pools.nodupED
    · intro p hp
      rw [b.tdsOther p (fun h => hT0 (h ▸ hsub p hp)) (fun h => hnd'.2.2 h hp)]
      exact inv.pools.cleanTD p (hsub p hp)
    · rw [b.pFreeITD, b.itds]; exact inv.pools.cleanITD
  · exact inv.distinct
  · rw [b.pFreeED]; exact inv.allocatedED
  · intro r hr
    by_cases hrq : r = queue
    · subst hrq; exact htailq
    · obtain ⟨he, ht⟩ := hother r hr hrq
      have old := inv.general r hr
      constructor
      · rw [he, ht]; exact old.tailPtr
      · rw [he]; exact fun h => old.allocated (hsub _ h)
      · rw [he, ht]; exact old.blank
  · intro e he
    have old := inv.isoch e he
    have hee := b.edsOther e (hqI e he)
    constructor
    · rw [hee, b.itds]; exact old.tailPtr
    · rw [hee, b.pFreeITD]; exact old.allocated
    · rw [hee, b.itds]; exact old.blank
  · have key : ∀ r ∈ G, r ≠ queue →
        (st'.eds queue).pLogicalTailP ≠ (st'.eds r).pLogicalTailP := by
      intro r hr hrq h
      rw [(hother r hr hrq).1] at h
      rcases b.tail_cases with ⟨-, -, htail⟩ | ⟨-, hmem, -⟩
      · rw [htail] at h
        exact hrq (inv.generalApart queue hq r hr h).symm
      · exact (inv.general r hr).allocated (h ▸ htaken _ hmem)
    intro q1 hq1 q2 hq2 h
    by_cases h1 : q1 = queue
    · by_cases h2 : q2 = queue
      · rw [h1, h2]
      · subst h1
        exact absurd h (key q2 hq2 h2)
    · by_cases h2 : q2 = queue
      · subst h2
        exact absurd h.symm (key q1 hq1 h1)
      · rw [(hother q1 hq1 h1).1, (hother q2 hq2 h2).1] at h
        exact inv.generalApart q1 hq1 q2 hq2 h
  · intro e1 he1 e2 he2 h
    rw [b.edsOther e1 (hqI e1 he1), b.edsOther e2 (hqI e2 he2)] at h
    exact inv.isochApart e1 he1 e2 he2 h

theorem TailPlaceholders.allocateTD {st : AppleUSBOHCI} {G I : List Nat}
    (inv : TailPlaceholders st G I) : TailPlaceholders (AllocateTD st).2 G I := by
  rcases hp : st.pFreeTD with _ | ⟨p, rest⟩
  · rw [AllocateTD_nil _ hp]; exact inv
  · rw [AllocateTD_cons _ p rest hp]
    have hnd := inv.pools.nodupTD
    rw [hp] at hnd
    have hcmd : ∀ x, ((Function.update st.tds p { st.tds p with uimFlags := 0 }) x).command
        = (st.tds x).command := by
      intro x
      by_cases h : x = p
      · subst h; simp
      · simp [Function.update_noteq h]
    have hphys : ∀ x, ((Function.update st.tds p { st.tds p with uimFlags := 0 }) x).pPhysical
        = (st.tds x).pPhysical := by
      intro x
      by_cases h : x = p
      · subst h; simp
      · simp [Function.update_noteq h]
    constructor
    · constructor
      · exact (List.nodup_cons.mp hnd).2
      · exact inv.pools.nodupITD
      · exact inv.pools.nodupED
      · intro x hx
        show ((Function.update st.tds p { st.tds p with uimFlags := 0 }) x).command = 0
        rw [hcmd]
        exact inv.pools.cleanTD x (by rw [hp]; simp [hx])
      · exact inv.pools.cleanITD
    · exact inv.distinct
    · exact inv.allocatedED
    · intro q hq
      have old := inv.general q hq
      constructor
      · show _ = ((Function.update st.tds p { st.tds p with uimFlags := 0 }) _).pPhysical
        rw [hphys]; exact old.tailPtr
      · show (st.eds q).pLogicalTailP ∉ rest
        exact fun h => old.allocated (by rw [hp]; simp [h])
      · show ((Function.update st.tds p { st.tds p with uimFlags := 0 }) _).command = 0
        rw [hcmd]; exact old.blank
    · intro e he
      have old := inv.isoch e he
      exact ⟨old.tailPtr, old.allocated, old.blank⟩
    · exact inv.generalApart
    · exact inv.isochApart

/-- Every return of `CreateGeneralTransfer` comes after some appends, with nothing else done
or, when the call gives up on a split, with one more descriptor taken from the pool. -/
theorem CreateGeneralTransfer.building (H : Header) (st st' : AppleUSBOHCI)
    (queue command : Nat) (CBP : IOMemoryDescriptor) (bufferSize flags type kickBits : Nat)
    (status : IOReturn)
    (hnd : st.pFreeTD.Nodup) (ht : (st.eds queue).pLogicalTailP ∉ st.pFreeTD)
    (h : CreateGeneralTransfer H st queue command CBP bufferSize flags type kickBits
      = .ret (status, st')) :
    ∃ stk taken filled, GeneralBuilding st queue command stk taken filled
      ∧ ((st' = stk ∧ (status = .kIOReturnSuccess → taken ≠ []))
        ∨ (st' = (AllocateTD stk).2 ∧ status ≠ .kIOReturnSuccess)) := by
  unfold CreateGeneralTransfer at h
  split_ifs at h with hhalt hsize
  · simp only [Outcome.ret.injEq, Prod.mk.injEq] at h
    refine ⟨st, [], [], GeneralBuilding.general_init st queue command, Or.inl ⟨h.2.symm, ?_⟩⟩
    intro hs
    rw [← h.1] at hs
    cases hs
  · obtain ⟨k, lk, hk, hcase⟩ := CreateGeneralTransfer.loop_ret H queue command CBP bufferSize
      flags type kickBits _ _ _ _ h
    obtain ⟨taken, filled, inv, hlen⟩ := GeneralBuilding.passes hnd ht k
      (GeneralTransferLoop.init st) lk [] [] (GeneralBuilding.general_init st queue command) hk
    refine ⟨lk.st, taken, filled, inv, ?_⟩
    rcases hcase with ⟨hdone, -, hst⟩ | ⟨-, hbody⟩
    · refine Or.inl ⟨hst, fun _ htaken => ?_⟩
      rw [htaken] at hlen
      simp only [List.length_nil, Nat.zero_add] at hlen
      subst hlen
      simp only [CreateGeneralTransfer.passes, Option.some.injEq] at hk
      subst hk
      apply hdone
      show 0 < bufferSize
      omega
    · obtain ⟨hr, hcase⟩ := CreateGeneralTransfer.body_inl H queue command CBP bufferSize flags
        type kickBits hbody
      rcases hcase with ⟨-, hst⟩ | ⟨p, rest, -, hst⟩
      · refine Or.inl ⟨hst, fun hs => ?_⟩
        rw [hr] at hs
        cases hs
      · refine Or.inr ⟨hst, ?_⟩
        rw [hr]
        exact fun hs => by cases hs
  · rcases hp : st.pFreeTD with _ | ⟨p, rest⟩
    · simp only [AllocateTD_nil _ hp, Outcome.ret.injEq, Prod.mk.injEq] at h
      refine ⟨st, [], [], GeneralBuilding.general_init st queue command, Or.inl ⟨h.2.symm, ?_⟩⟩
      intro hs
      rw [← h.1] at hs
      cases hs
    · simp only [AllocateTD_cons _ p rest hp, Outcome.ret.injEq, Prod.mk.injEq] at h
      obtain ⟨-, hst⟩ := h
      have hpt : p ≠ (st.eds queue).pLogicalTailP := fun e => ht (by rw [hp]; simp [e])
      refine ⟨st', [p], [(st.eds queue).pLogicalTailP], ?_, Or.inl ⟨rfl, fun _ => by simp⟩⟩
      subst hst
      constructor
      · simp [writeRegister, setED, setTD, hp]
      · simp [writeRegister, setED, setTD]
      · simp [writeRegister, setED, setTD, TDChain]
      · simp [writeRegister, setED, setTD]
      · intro _
        simp [writeRegister, setED, setTD, Function.update_noteq hpt]
      · simp
      · simp [writeRegister, setED, setTD, Function.update_noteq hpt]
      · intro x hx hxp
        simp only [List.mem_singleton] at hxp
        simp [writeRegister, setED, setTD, Function.update_noteq hx, Function.update_noteq hxp]
      · intro x
        by_cases hx : x = (st.eds queue).pLogicalTailP
        · subst hx
          simp [writeRegister, setED, setTD, Function.update_noteq (Ne.symm hpt)]
        · by_cases hxp : x = p
          · subst hxp
            simp [writeRegister, setED, setTD, Function.update_noteq hx]
          · simp [writeRegister, setED, setTD, Function.update_noteq hx,
              Function.update_noteq hxp]
      · intro x hx
        simp [writeRegister, setED, setTD, Function.update_noteq hx]
      · simp [writeRegister, setED, setTD]
      · simp [writeRegister, setED, setTD]
      · simp [writeRegister, setED, setTD]

theorem CreateGeneralTransfer.general_tail_placeholders (H : Header) (st st' : AppleUSBOHCI)
    (G I : List Nat) (queue command : Nat) (CBP : IOMemoryDescriptor)
    (bufferSize flags type kickBits : Nat) (status : IOReturn)
    (inv : TailPlaceholders st G I) (hq : queue ∈ G)
    (h : CreateGeneralTransfer H st queue command CBP bufferSize flags type kickBits
      = .ret (status, st')) :
    TailPlaceholders st' G I
      ∧ (status = .kIOReturnSuccess → GeneralAppended st st' queue command) := by
  obtain ⟨stk, taken, filled, b, hcase⟩ := CreateGeneralTransfer.building H st st' queue command
    CBP bufferSize flags type kickBits status inv.pools.nodupTD (inv.general queue hq).allocated h
  have invk := inv.of_general_building hq b
  rcases hcase with ⟨rfl, hs⟩ | ⟨rfl, hs⟩
  · refine ⟨invk, fun hst => ?_⟩
    rcases b.tail_cases with ⟨h0, -, -⟩ | ⟨-, hmem, hhead⟩
    · exact absurd h0 (hs hst)
    · rcases filled with _ | ⟨a, filled⟩
      · simp at hhead
      · simp only [List.head?_cons, Option.some.injEq] at hhead
        subst hhead
        refine ⟨filled, b.chain, b.commands, ?_, (invk.general queue hq).allocated⟩
        rw [b.pool]
        exact List.mem_append_left _ hmem
  · exact ⟨invk.allocateTD, fun hst => absurd hst hs⟩

/-- The invariant moves to a state whose pools are well formed and have not grown, and in
which the tail pointers of the endpoints and what their placeholders carry are as before. -/
theorem TailPlaceholders.transport {st st' : AppleUSBOHCI} {G I : List Nat}
    (inv : TailPlaceholders st G I) (pools : PoolsClean st')
    (hED : ∀ x, x ∈ st'.pFreeED → x ∈ st.pFreeED)
    (hTD : ∀ x, x ∈ st'.pFreeTD → x ∈ st.pFreeTD)
    (hITD : ∀ x, x ∈ st'.pFreeITD → x ∈ st.pFreeITD)
    (heds : ∀ x ∈ G ++ I, (st'.eds x).pLogicalTailP = (st.eds x).pLogicalTailP
      ∧ (st'.eds x).tdQueueTailPtr = (st.eds x).tdQueueTailPtr)
    (htds : ∀ q ∈ G, (st'.tds (st.eds q).pLogicalTailP).command
        = (st.tds (st.eds q).pLogicalTailP).command
      ∧ (st'.tds (st.eds q).pLogicalTailP).pPhysical
        = (st.tds (st.eds q).pLogicalTailP).pPhysical)
    (hitds : ∀ e ∈ I, ((st.itds (st.eds e).pLogicalTailP).completion.action = 0 →
        (st'.itds (st.eds e).pLogicalTailP).completion.action = 0)
      ∧ (st'.itds (st.eds e).pLogicalTailP).pPhysical
        = (st.itds (st.eds e).pLogicalTailP).pPhysical) :
    TailPlaceholders st' G I := by
  constructor
  · exact pools
  · exact inv.distinct
  · exact fun q hq h => inv.allocatedED q hq (hED q h)
  · intro q hq
    have old := inv.general q hq
    obtain ⟨h1, h2⟩ := heds q (List.mem_append_left _ hq)
    obtain ⟨h3, h4⟩ := htds q hq
    constructor
    · rw [h1, h2, h4]; exact old.tailPtr
    · rw [h1]; exact fun h => old.allocated (hTD _ h)
    · rw [h1, h3]; exact old.blank
  · intro e he
    have old := inv.isoch e he
    obtain ⟨h1, h2⟩ := heds e (List.mem_append_right _ he)
    obtain ⟨h3, h4⟩ := hitds e he
    constructor
    · rw [h1, h2, h4]; exact old.tailPtr
    · rw [h1]; exact fun h => old.allocated (hITD _ h)
    · rw [h1]; exact h3 old.blank
  · intro q hq r hr hqr
    rw [(heds q (List.mem_append_left _ hq)).1, (heds r (List.mem_append_left _ hr)).1] at hqr
    exact inv.generalApart q hq r hr hqr
  · intro q hq r hr hqr
    rw [(heds q (List.mem_append_right _ hq)).1, (heds r (List.mem_append_right _ hr)).1] at hqr
    exact inv.isochApart q hq r hr hqr

/-- A new general endpoint `e` with a placeholder of its own joins the invariant. -/
theorem TailPlaceholders.add_general {st : AppleUSBOHCI} {G I : List Nat} {e : Nat}
    (inv : TailPlaceholders st G I) (he : e ∉ G ++ I) (hpool : e ∉ st.pFreeED)
    (hnew : GeneralPlaceholder st e)
    (hfresh : ∀ q ∈ G, (st.eds q).pLogicalTailP ≠ (st.eds e).pLogicalTailP) :
    TailPlaceholders st (e :: G) I := by
  constructor
  · exact inv.pools
  · rw [List.cons_append]
    exact List.nodup_cons.mpr ⟨he, inv.distinct⟩
  · intro q hq
    rw [List.cons_append, List.mem_cons] at hq
    rcases hq with rfl | hq
    · exact hpool
    · exact inv.allocatedED q hq
  · intro q hq
    rw [List.mem_cons] at hq
    rcases hq with rfl | hq
    · exact hnew
    · exact inv.general q hq
  · exact inv.isoch
  · intro q hq r hr hqr
    rw [List.mem_cons] at hq hr
    rcases hq with rfl | hq
    · rcases hr with rfl | hr
      · rfl
      · exact absurd hqr.symm (hfresh r hr)
    · rcases hr with rfl | hr
      · exact absurd hqr (hfresh q hq)
      · exact inv.generalApart q hq r hr hqr
  · exact inv.isochApart

/-- A new isochronous endpoint `e` with a placeholder of its own joins the invariant. -/
theorem TailPlaceholders.add_isoch {st : AppleUSBOHCI} {G I : List Nat} {e : Nat}
    (inv : TailPlaceholders st G I) (he : e ∉ G ++ I) (hpool : e ∉ st.pFreeED)
    (hnew : IsochPlaceholder st e)
    (hfresh : ∀ q ∈ I, (st.eds q).pLogicalTailP ≠ (st.eds e).pLogicalTailP) :
    TailPlaceholders st G (e :: I) := by
  constructor
  · exact inv.pools
  · have hd := inv.distinct
    rw [List.nodup_append] at hd ⊢
    refine ⟨hd.1, List.nodup_cons.mpr ⟨fun h => he (List.mem_append_right _ h), hd.2.1⟩, ?_⟩
    intro x hx hx'
    rw [List.mem_cons] at hx'
    rcases hx' with rfl | hx'
    · exact he (List.mem_append_left _ hx)
    · exact hd.2.2 hx hx'
  · intro q hq
    rw [List.mem_append, List.mem_cons] at hq
    rcases hq with hq | rfl | hq
    · exact inv.allocatedED q (List.mem_append_left _ hq)
    · exact hpool
    · exact inv.allocatedED q (List.mem_append_right _ hq)
  · exact inv.general
  · intro q hq
    rw [List.mem_cons] at hq
    rcases hq with rfl | hq
    · exact hnew
    · exact inv.isoch q hq
  · exact inv.generalApart
  · intro q hq r hr hqr
    rw [List.mem_cons] at hq hr
    rcases hq with rfl | hq
    · rcases hr with rfl | hr
      · rfl
      · exact absurd hqr.symm (hfresh r hr)
    · rcases hr with rfl | hr
      · exact absurd hqr (hfresh q hq)
      · exact inv.isochApart q hq r hr hqr

/-- What a successful `AddEmptyEndPoint` for the isochronous format does to the pools and the
tails: the endpoint descriptor `e` and the isochronous descriptor `t` leave their pools, and `e`
gets `t` as tail. -/
structure IsochEndpointAdded (st st1 : AppleUSBOHCI) (e t : Nat) : Prop where
  pFreeED : st.pFreeED = e :: st1.pFreeED
  pFreeITD : st.pFreeITD = t :: st1.pFreeITD
  tail : (st1.eds e).pLogicalTailP = t
  tailPtr : (st1.eds e).tdQueueTailPtr = (st.itds t).pPhysical
  edsTails : ∀ x, x ≠ e → (st1.eds x).pLogicalTailP = (st.eds x).pLogicalTailP
    ∧ (st1.eds x).tdQueueTailPtr = (st.eds x).tdQueueTailPtr
  tds : st1.tds = st.tds
  itds : st1.itds = st.itds
  pFreeTD : st1.pFreeTD = st.pFreeTD

theorem AddEmptyEndPoint_isoch (st : AppleUSBOHCI)
    (functionAddress endpointNumber maxPacketSize speed direction pED format e t : Nat)
    (restE restT : List Nat) (hfmt : format ≠ kOHCIEDFormatGeneralTD)
    (hED : st.pFreeED = e :: restE) (hTD : st.pFreeITD = t :: restT) :
    ∃ st1, AddEmptyEndPoint st functionAddress endpointNumber maxPacketSize speed direction pED
        format = .ret (some e, st1)
      ∧ IsochEndpointAdded st st1 e t := by
  have hex : ∃ st1, AddEmptyEndPoint st functionAddress endpointNumber maxPacketSize speed
      direction pED format = .ret (some e, st1) := by
    simp [AddEmptyEndPoint, AllocateED, hED, AllocateITD, hTD, setED, hfmt]
  obtain ⟨st1, hst1⟩ := hex
  refine ⟨st1, hst1, ?_⟩
  simp only [AddEmptyEndPoint, AllocateED, hED, AllocateITD, hTD, setED, hfmt, ↓reduceIte,
    Outcome.ret.injEq, Prod.mk.injEq, true_and] at hst1
  subst hst1
  constructor
  · simp [hED]
  · simp [hTD]
  · by_cases h : e = pED
    · subst h; simp
    · simp [Function.update_noteq h]
  · by_cases h : e = pED
    · subst h; simp
    · simp [Function.update_noteq h]
  · intro x hx
    by_cases h : x = pED
    · subst h; simp [Function.update_noteq hx]
    · simp [Function.update_noteq hx, Function.update_noteq h]
  all_goals simp

/-- What `AddEmptyEndPoint` does when it finds no transfer descriptor for the new endpoint
descriptor `e`: `e` has left its pool, and nothing else that the tails depend on changed. -/
theorem AddEmptyEndPoint_no_descriptor (st st' : AppleUSBOHCI)
    (functionAddress endpointNumber maxPacketSize speed direction pED format e : Nat)
    (restE : List Nat) (r : Option Nat) (hED : st.pFreeED = e :: restE)
    (hTD : if format = kOHCIEDFormatGeneralTD then st.pFreeTD = [] else st.pFreeITD = [])
    (h : AddEmptyEndPoint st functionAddress endpointNumber maxPacketSize speed direction pED
        format = .ret (r, st')) :
    r = none ∧ st.pFreeED = e :: st'.pFreeED
      ∧ (∀ x, x ≠ e → st'.eds x = st.eds x)
      ∧ st'.tds = st.tds ∧ st'.itds = st.itds ∧ st'.pFreeTD = st.pFreeTD
      ∧ st'.pFreeITD = st.pFreeITD := by
  by_cases hfmt : format = kOHCIEDFormatGeneralTD
  · rw [if_pos hfmt] at hTD
    simp only [AddEmptyEndPoint, AllocateED, hED, AllocateTD, hTD, setED, hfmt, ↓reduceIte,
      Outcome.ret.injEq, Prod.mk.injEq] at h
    obtain ⟨rfl, rfl⟩ := h
    refine ⟨rfl, by simp [hED], ?_, rfl, rfl, by simp [hTD], rfl⟩
    intro x hx
    simp [Function.update_noteq hx]
  · rw [if_neg hfmt] at hTD
    simp only [AddEmptyEndPoint, AllocateED, hED, AllocateITD, hTD, setED, hfmt, ↓reduceIte,
      Outcome.ret.injEq, Prod.mk.injEq] at h
    obtain ⟨rfl, rfl⟩ := h
    refine ⟨rfl, by simp [hED], ?_, rfl, rfl, rfl, by simp [hTD]⟩
    intro x hx
    simp [Function.update_noteq hx]

theorem AddEmptyEndPoint.created_tail_placeholders (st st' : AppleUSBOHCI) (G I : List Nat)
    (functionAddress endpointNumber maxPacketSize speed direction pED format : Nat)
    (r : Option Nat) (inv : TailPlaceholders st G I)
    (h : AddEmptyEndPoint st functionAddress endpointNumber maxPacketSize speed direction pED
      format = .ret (r, st')) :
    TailPlaceholders st' (endpointsAfter format r G I).1 (endpointsAfter format r G I).2 := by
  rcases hE : st.pFreeED with _ | ⟨e, restE⟩
  · simp [AddEmptyEndPoint, AllocateED, hE] at h
  have hndE := inv.pools.nodupED
  rw [hE] at hndE
  have he : e ∉ G ++ I := fun hmem => inv.allocatedED e hmem (by rw [hE]; simp)
  have hne : ∀ x ∈ G ++ I, x ≠ e := fun x hx h => he (h ▸ hx)
  have hfail : (if format = kOHCIEDFormatGeneralTD then st.pFreeTD = [] else st.pFreeITD = []) →
      TailPlaceholders st' (endpointsAfter format r G I).1 (endpointsAfter format r G I).2 := by
    intro hTD
    obtain ⟨rfl, hpool, heds, htds, hitds, hptd, hpitd⟩ := AddEmptyEndPoint_no_descriptor st st'
      functionAddress endpointNumber maxPacketSize speed direction pED format e restE r hE hTD h
    rw [hE, List.cons.injEq] at hpool
    refine inv.transport ⟨?_, ?_, ?_, ?_, ?_⟩ ?_ ?_ ?_ ?_ ?_ ?_
    · rw [hptd]; exact inv.pools.nodupTD
    · rw [hpitd]; exact inv.pools.nodupITD
    · rw [← hpool.2]; exact (List.nodup_cons.mp hndE).2
    · rw [hptd, htds]; exact inv.pools.cleanTD
    · rw [hpitd, hitds]; exact inv.pools.cleanITD
    · intro x hx
      rw [hE, hpool.2]
      exact List.mem_cons_of_mem _ hx
    · rw [hptd]; exact fun _ hx => hx
    · rw [hpitd]; exact fun _ hx => hx
    · intro x hx
      rw [heds x (hne x hx)]
      exact ⟨rfl, rfl⟩
    · intro q _
      rw [htds]
      exact ⟨rfl, rfl⟩
    · intro q _
      rw [hitds]
      exact ⟨fun hx => hx, rfl⟩
  by_cases hfmt : format = kOHCIEDFormatGeneralTD
  · rcases hT : st.pFreeTD with _ | ⟨t, restT⟩
    · exact hfail (by rw [if_pos hfmt]; exact hT)
    · subst hfmt
      obtain ⟨st1, hst1, added⟩ := AddEmptyEndPoint_general st functionAddress endpointNumber
        maxPacketSize speed direction pED e t restE restT hE hT
      rw [hst1] at h
      simp only [Outcome.ret.injEq, Prod.mk.injEq] at h
      obtain ⟨rfl, rfl⟩ := h
      simp only [endpointsAfter, ↓reduceIte]
      have hndT := inv.pools.nodupTD
      rw [added.pFreeTD] at hndT
      have hpE := added.pFreeED
      rw [hE, List.cons.injEq] at hpE
      have hcmd : ∀ x, (st1.tds x).command = (st.tds x).command
          ∧ (st1.tds x).pPhysical = (st.tds x).pPhysical := by
        intro x
        by_cases hx : x = t
        · subst hx; rw [added.tdsNew]; exact ⟨rfl, rfl⟩
        · rw [added.tdsOther x hx]; exact ⟨rfl, rfl⟩
      have hsubT : ∀ x, x ∈ st1.pFreeTD → x ∈ st.pFreeTD := by
        intro x hx
        rw [added.pFreeTD]
        exact List.mem_cons_of_mem _ hx
      refine TailPlaceholders.add_general (inv.transport ⟨?_, ?_, ?_, ?_, ?_⟩ ?_ hsubT ?_ ?_ ?_ ?_)
        he ?_ ⟨?_, ?_, ?_⟩ ?_
      · exact (List.nodup_cons.mp hndT).2
      · rw [added.pFreeITD]; exact inv.pools.nodupITD
      · rw [← hpE.2]; exact (List.nodup_cons.mp hndE).2
      · intro x hx
        rw [(hcmd x).1]
        exact inv.pools.cleanTD x (hsubT x hx)
      · rw [added.pFreeITD, added.itds]; exact inv.pools.cleanITD
      · intro x hx
        rw [added.pFreeED]
        exact List.mem_cons_of_mem _ hx
      · rw [added.pFreeITD]; exact fun _ hx => hx
      · intro x hx
        have := added.edsTails x (hne x hx)
        exact ⟨this.1, this.2.1⟩
      · intro q _
        exact hcmd _
      · intro q _
        rw [added.itds]
        exact ⟨fun hx => hx, rfl⟩
      · rw [← hpE.2]; exact (List.nodup_cons.mp hndE).1
      · rw [added.tailPtr, added.tail, (hcmd t).2]
      · rw [added.tail]; exact (List.nodup_cons.mp hndT).1
      · rw [added.tail, (hcmd t).1]
        exact inv.pools.cleanTD t (by rw [added.pFreeTD]; simp)
      · intro q hq hqt
        rw [added.tail, (added.edsTails q (hne q (List.mem_append_left _ hq))).1] at hqt
        apply (inv.general q hq).allocated
        rw [added.pFreeTD, hqt]
        simp
  · rcases hT : st.pFreeITD with _ | ⟨t, restT⟩
    · exact hfail (by rw [if_neg hfmt]; exact hT)
    · obtain ⟨st1, hst1, added⟩ := AddEmptyEndPoint_isoch st functionAddress endpointNumber
        maxPacketSize speed direction pED format e t restE restT hfmt hE hT
      rw [hst1] at h
      simp only [Outcome.ret.injEq, Prod.mk.injEq] at h
      obtain ⟨rfl, rfl⟩ := h
      simp only [endpointsAfter, if_neg hfmt]
      have hndT := inv.pools.nodupITD
      rw [added.pFreeITD] at hndT
      have hpE := added.pFreeED
      rw [hE, List.cons.injEq] at hpE
      have hsubT : ∀ x, x ∈ st1.pFreeITD → x ∈ st.pFreeITD := by
        intro x hx
        rw [added.pFreeITD]
        exact List.mem_cons_of_mem _ hx
      refine TailPlaceholders.add_isoch (inv.transport ⟨?_, ?_, ?_, ?_, ?_⟩ ?_ ?_ hsubT ?_ ?_ ?_)
        he ?_ ⟨?_, ?_, ?_⟩ ?_
      · rw [added.pFreeTD]; exact inv.pools.nodupTD
      · exact (List.nodup_cons.mp hndT).2
      · rw [← hpE.2]; exact (List.nodup_cons.mp hndE).2
      · rw [added.pFreeTD, added.tds]; exact inv.pools.cleanTD
      · intro x hx
        rw [added.itds]
        exact inv.pools.cleanITD x (hsubT x hx)
      · intro x hx
        rw [added.pFreeED]
        exact List.mem_cons_of_mem _ hx
      · rw [added.pFreeTD]; exact fun _ hx => hx
      · intro x hx
        exact added.edsTails x (hne x hx)
      · intro q _
        rw [added.tds]
        exact ⟨rfl, rfl⟩
      · intro q _
        rw [added.itds]
        exact ⟨fun hx => hx, rfl⟩
      · rw [← hpE.2]; exact (List.nodup_cons.mp hndE).1
      · rw [added.tailPtr, added.tail, added.itds]
      · rw [added.tail]; exact (List.nodup_cons.mp hndT).1
      · rw [added.tail, added.itds]
        exact inv.pools.cleanITD t (by rw [added.pFreeITD]; simp)
      · intro q hq hqt
        rw [added.tail, (added.edsTails q (hne q (List.mem_append_right _ hq))).1] at hqt
        apply (inv.isoch q hq).allocated
        rw [added.pFreeITD, hqt]
        simp

/-! ### The frame packing loop of `UIMCreateIsochTransfer` -/

/-- From `st` to `st'` only fields of isochronous transfer descriptors changed that are
neither links nor physical addresses nor completions. -/
structure IsochKept (st st' : AppleUSBOHCI) : Prop where
  eds : st'.eds = st.eds
  tds : st'.tds = st.tds
  pFreeTD : st'.pFreeTD = st.pFreeTD
  pFreeED : st'.pFreeED = st.pFreeED
  pFreeITD : st'.pFreeITD = st.pFreeITD
  next : ∀ x, (st'.itds x).pLogicalNext = (st.itds x).pLogicalNext
  physical : ∀ x, (st'.itds x).pPhysical = (st.itds x).pPhysical
  completion : ∀ x, (st'.itds x).completion = (st.itds x).completion

theorem IsochKept.refl (st : AppleUSBOHCI) : IsochKept st st := by
  constructor <;> simp

theorem IsochKept.trans {a b c : AppleUSBOHCI} (h1 : IsochKept a b) (h2 : IsochKept b c) :
    IsochKept a c := by
  constructor
  · rw [h2.eds, h1.eds]
  · rw [h2.tds, h1.tds]
  · rw [h2.pFreeTD, h1.pFreeTD]
  · rw [h2.pFreeED, h1.pFreeED]
  · rw [h2.pFreeITD, h1.pFreeITD]
  · intro x; rw [h2.next, h1.next]
  · intro x; rw [h2.physical, h1.physical]
  · intro x; rw [h2.completion, h1.completion]

theorem IsochKept.store (st : AppleUSBOHCI) (p : Nat)
    (f : OHCIIsochTransferDescriptor → OHCIIsochTransferDescriptor)
    (hf : ∀ d, (f d).pLogicalNext = d.pLogicalNext ∧ (f d).pPhysical = d.pPhysical
      ∧ (f d).completion = d.completion) :
    IsochKept st (setITD st p f) := by
  have key : ∀ x, ((setITD st p f).itds x).pLogicalNext = (st.itds x).pLogicalNext
      ∧ ((setITD st p f).itds x).pPhysical = (st.itds x).pPhysical
      ∧ ((setITD st p f).itds x).completion = (st.itds x).completion := by
    intro x
    by_cases hx : x = p
    · subst hx
      simpa [setITD] using hf (st.itds x)
    · simp [setITD, Function.update_noteq hx]
  constructor
  · rfl
  · rfl
  · rfl
  · rfl
  · rfl
  · exact fun x => (key x).1
  · exact fun x => (key x).2.1
  · exact fun x => (key x).2.2

theorem AllocateITD_nil (st : AppleUSBOHCI) (h : st.pFreeITD = []) :
    AllocateITD st = (none, st) := by
  simp [AllocateITD, h]

theorem AllocateITD_cons (st : AppleUSBOHCI) (p : Nat) (rest : List Nat)
    (h : st.pFreeITD = p :: rest) :
    AllocateITD st = (some p, { st with pFreeITD := rest }) := by
  simp [AllocateITD, h]

theorem setITD_itds (st : AppleUSBOHCI) (p : Nat)
    (f : OHCIIsochTransferDescriptor → OHCIIsochTransferDescriptor) (x : Nat) :
    (setITD st p f).itds x = if x = p then f (st.itds p) else st.itds x := by
  by_cases h : x = p
  · subst h; simp [setITD]
  · simp [setITD, Function.update_noteq h, h]

theorem IsochTransferLoop.getSegments_kept (l : IsochTransferLoop) (pBuffer : IOMemoryDescriptor)
    (pFrames bufferSize : Nat) :
    (l.getSegments pBuffer pFrames bufferSize).st = l.st
      ∧ (l.getSegments pBuffer pFrames bufferSize).pTailITD = l.pTailITD
      ∧ (l.getSegments pBuffer pFrames bufferSize).pNewITD = l.pNewITD := by
  unfold IsochTransferLoop.getSegments
  split_ifs <;> exact ⟨rfl, rfl, rfl⟩

theorem IsochTransferLoop.placeOnPage_kept {l l' : IsochTransferLoop}
    {pFrames frameNumber tdType : Nat}
    (h : l.placeOnPage pFrames frameNumber tdType = .ret l') :
    IsochKept l.st l'.st ∧ l'.pTailITD = l.pTailITD ∧ l'.pNewITD = l.pNewITD := by
  unfold IsochTransferLoop.placeOnPage at h
  split_ifs at h
  · simp only [Outcome.ret.injEq] at h
    subst h
    refine ⟨?_, rfl, rfl⟩
    dsimp only
    exact IsochKept.store _ _ _ (fun _ => ⟨rfl, rfl, rfl⟩)
  · simp only [Outcome.ret.injEq] at h
    subst h
    exact ⟨IsochKept.refl _, rfl, rfl⟩
  · obtain ⟨seg, -, hret⟩ := Outcome.bind_eq_ret h
    simp only [Outcome.ret.injEq] at hret
    subst hret
    exact ⟨IsochKept.refl _, rfl, rfl⟩
  · simp only [Outcome.ret.injEq] at h
    subst h
    exact ⟨IsochKept.refl _, rfl, rfl⟩

theorem IsochTransferLoop.addFrame_kept {l l' : IsochTransferLoop}
    (h : l.addFrame = .ret l') :
    IsochKept l.st l'.st ∧ l'.pTailITD = l.pTailITD ∧ l'.pNewITD = l.pNewITD := by
  unfold IsochTransferLoop.addFrame at h
  obtain ⟨seg, -, hret⟩ := Outcome.bind_eq_ret h
  simp only [Outcome.ret.injEq] at hret
  subst hret
  refine ⟨?_, rfl, rfl⟩
  dsimp only
  exact IsochKept.store _ _ _ (fun _ => ⟨rfl, rfl, rfl⟩)

/-- The two stores with which a pass closes the iTD `T` and links the next one to the new
iTD `n`. -/
theorem closeAndLink_itds (s : AppleUSBOHCI) (T n F : Nat) :
    ((setITD s T fun itd =>
        { itd with flags := F, completion := { itd.completion with action := 0 } }).itds
          T).pLogicalNext = (s.itds T).pLogicalNext
    ∧ ((setITD (setITD s T fun itd =>
        { itd with flags := F, completion := { itd.completion with action := 0 } })
        (s.itds T).pLogicalNext fun itd => { itd with nextTD := (s.itds n).pPhysical,
                                                       pLogicalNext := n }).itds
          (s.itds T).pLogicalNext).pLogicalNext = n
    ∧ (∀ x, x ≠ (s.itds T).pLogicalNext →
      ((setITD (setITD s T fun itd =>
        { itd with flags := F, completion := { itd.completion with action := 0 } })
        (s.itds T).pLogicalNext fun itd => { itd with nextTD := (s.itds n).pPhysical,
                                                       pLogicalNext := n }).itds
          x).pLogicalNext = (s.itds x).pLogicalNext)
    ∧ (∀ x, ((setITD (setITD s T fun itd =>
        { itd with flags := F, completion := { itd.completion with action := 0 } })
        (s.itds T).pLogicalNext fun itd => { itd with nextTD := (s.itds n).pPhysical,
                                                       pLogicalNext := n }).itds
          x).pPhysical = (s.itds x).pPhysical)
    ∧ (∀ x, ((setITD (setITD s T fun itd =>
        { itd with flags := F, completion := { itd.completion with action := 0 } })
        (s.itds T).pLogicalNext fun itd => { itd with nextTD := (s.itds n).pPhysical,
                                                       pLogicalNext := n }).itds
          x).completion = (s.itds x).completion
      ∨ ((setITD (setITD s T fun itd =>
        { itd with flags := F, completion := { itd.completion with action := 0 } })
        (s.itds T).pLogicalNext fun itd => { itd with nextTD := (s.itds n).pPhysical,
                                                       pLogicalNext := n }).itds
          x).completion.action = 0)
    ∧ ((setITD (setITD s T fun itd =>
        { itd with flags := F, completion := { itd.completion with action := 0 } })
        (s.itds T).pLogicalNext fun itd => { itd with nextTD := (s.itds n).pPhysical,
                                                       pLogicalNext := n }).itds
          T).completion.action = 0
    ∧ ((setITD s T fun itd =>
        { itd with flags := F, completion := { itd.completion with action := 0 } }).itds
          n).pPhysical = (s.itds n).pPhysical := by
  refine ⟨?_, ?_, ?_, ?_, ?_, ?_, ?_⟩
  · simp [setITD_itds]
  · simp [setITD_itds]
  · intro x hx
    by_cases hxT : x = T
    · subst hxT; simp [setITD_itds, hx]
    · simp [setITD_itds, hx, hxT]
  · intro x
    by_cases hx : x = (s.itds T).pLogicalNext
    · by_cases hxT : x = T
      · subst hxT; simp [setITD_itds, ← hx]
      · rw [← hx]; simp [setITD_itds, hxT]
    · by_cases hxT : x = T
      · subst hxT; simp [setITD_itds, hx]
      · simp [setITD_itds, hx, hxT]
  · intro x
    by_cases hx : x = (s.itds T).pLogicalNext
    · by_cases hxT : x = T
      · subst hxT; simp [setITD_itds, ← hx]
      · rw [← hx]; simp [setITD_itds, hxT]
    · by_cases hxT : x = T
      · subst hxT; simp [setITD_itds, hx]
      · simp [setITD_itds, hx, hxT]
  · by_cases hx : T = (s.itds T).pLogicalNext
    · simp [setITD_itds, ← hx]
    · simp [setITD_itds, hx]
  · by_cases hx : n = T
    · subst hx; simp [setITD_itds]
    · simp [setITD_itds, hx]

/-- A pass of the loop that closes the current iTD and moves on to the next one, for which it
takes a new iTD from the pool. -/
structure IsochAdvance (l l' : IsochTransferLoop) : Prop where
  pool : l.st.pFreeITD = l'.pNewITD :: l'.st.pFreeITD
  tail : l'.pTailITD = (l.st.itds l.pTailITD).pLogicalNext
  eds : l'.st.eds = l.st.eds
  tds : l'.st.tds = l.st.tds
  pFreeTD : l'.st.pFreeTD = l.st.pFreeTD
  pFreeED : l'.st.pFreeED = l.st.pFreeED
  next : (l'.st.itds l'.pTailITD).pLogicalNext = l'.pNewITD
  nextOther : ∀ x, x ≠ l'.pTailITD → (l'.st.itds x).pLogicalNext = (l.st.itds x).pLogicalNext
  physical : ∀ x, (l'.st.itds x).pPhysical = (l.st.itds x).pPhysical
  completion : ∀ x, (l'.st.itds x).completion = (l.st.itds x).completion
    ∨ (l'.st.itds x).completion.action = 0
  closed : (l'.st.itds l.pTailITD).completion.action = 0

theorem UIMCreateIsochTransfer.body_spec (pBuffer : IOMemoryDescriptor)
    (pFrames frameNumber tdType bufferSize : Nat) (l : IsochTransferLoop)
    (r : Sum IsochTransferLoop IsochTransferLoop)
    (h : UIMCreateIsochTransfer.body pBuffer pFrames frameNumber tdType bufferSize l = .ret r) :
    (∃ l', r = .inl l' ∧ IsochKept l.st l'.st ∧ l'.pTailITD = l.pTailITD)
      ∨ (∃ l', r = .inr l' ∧ IsochKept l.st l'.st ∧ l'.pTailITD = l.pTailITD
        ∧ l'.pNewITD = l.pNewITD)
      ∨ (∃ l', r = .inr l' ∧ IsochAdvance l l') := by
  unfold UIMCreateIsochTransfer.body at h
  obtain ⟨l1, hplace, hrest⟩ := Outcome.bind_eq_ret h
  obtain ⟨hk1, ht1, hn1⟩ := IsochTransferLoop.placeOnPage_kept hplace
  obtain ⟨hs0, ht0, hn0⟩ := l.getSegments_kept pBuffer pFrames bufferSize
  rw [hs0] at hk1
  rw [ht0] at ht1
  rw [hn0] at hn1
  split_ifs at hrest with hnew
  · have hk2 : IsochKept l.st
        (setITD l1.st l1.pTailITD fun itd => { itd with bufferEnd := l1.lastPhysical }) :=
      hk1.trans (IsochKept.store _ _ _ (fun _ => ⟨rfl, rfl, rfl⟩))
    dsimp only at hrest
    rcases hp : l1.st.pFreeITD with _ | ⟨n, rest⟩
    · have hp2 : ∀ f, (setITD l1.st l1.pTailITD f).pFreeITD = [] := fun _ => hp
      rw [AllocateITD_nil _ (hp2 _)] at hrest
      simp only [Outcome.ret.injEq] at hrest
      subst hrest
      exact Or.inl ⟨_, rfl, hk2, ht1⟩
    · have hp2 : ∀ f, (setITD l1.st l1.pTailITD f).pFreeITD = n :: rest := fun _ => hp
      rw [AllocateITD_cons _ n rest (hp2 _)] at hrest
      have hpool : l.st.pFreeITD = n :: rest := by rw [← hk1.pFreeITD, hp]
      obtain ⟨c1, c2, c3, c4, c5, c6, c7⟩ := closeAndLink_itds
        { (setITD l1.st l1.pTailITD fun itd => { itd with bufferEnd := l1.lastPhysical }) with
          pFreeITD := rest } l1.pTailITD n
        (l1.itdFlags ||| shl32 (sub32 l1.curFrameInTD 1) kOHCIITDControl_FCPhase
          ||| shl32 kOHCIGTDConditionNotAccessed kOHCIGTDControl_CCPhase
          ||| shl32 0x7 kOHCIGTDControl_DIPhase)
      dsimp only at hrest
      rw [c1, c7] at hrest
      simp only [Outcome.ret.injEq] at hrest
      subst hrest
      refine Or.inr (Or.inr ⟨_, rfl, ?_⟩)
      constructor
      · exact hpool
      · show _ = (l.st.itds l.pTailITD).pLogicalNext
        rw [← ht1, ← hk2.next]
      · exact hk1.eds
      · exact hk1.tds
      · exact hk1.pFreeTD
      · exact hk1.pFreeED
      · exact c2
      · intro x hx
        exact (c3 x hx).trans (hk2.next x)
      · intro x
        exact (c4 x).trans (hk2.physical x)
      · intro x
        rcases c5 x with h | h
        · exact Or.inl (h.trans (hk2.completion x))
        · exact Or.inr h
      · rw [← ht1]
        exact c6
  · obtain ⟨l2, hadd, hret⟩ := Outcome.bind_eq_ret hrest
    simp only [Outcome.ret.injEq] at hret
    subst hret
    obtain ⟨hk2, ht2, hn2⟩ := IsochTransferLoop.addFrame_kept hadd
    exact Or.inr (Or.inl ⟨_, rfl, hk1.trans hk2, by rw [ht2, ht1], by rw [hn2, hn1]⟩)

/-- The state of an isochronous endpoint while `UIMCreateIsochTransfer` builds a chain behind
its placeholder `T0`, seen from the state `st0` at the call: the iTDs `pre` and `last` have
left the pool, `T0` and `pre` are linked up to `last`, the one being filled is `pTail`, and
those before it, `done`, are closed. -/
structure IsochBuilding (st0 : AppleUSBOHCI) (T0 : Nat) (st : AppleUSBOHCI) (pTail : Nat)
    (done pre : List Nat) (last : Nat) : Prop where
  eds : st.eds = st0.eds
  tds : st.tds = st0.tds
  pFreeTD : st.pFreeTD = st0.pFreeTD
  pFreeED : st.pFreeED = st0.pFreeED
  pool : st0.pFreeITD = pre ++ last :: st.pFreeITD
  split : T0 :: pre = done ++ [pTail]
  links : ITDChain st.itds T0 (T0 :: pre) last
  physical : ∀ x, (st.itds x).pPhysical = (st0.itds x).pPhysical
  clean : ∀ x, (st0.itds x).completion.action = 0 → (st.itds x).completion.action = 0
  inner : ∀ d ∈ done, (st.itds d).completion.action = 0

theorem IsochBuilding.kept {st0 st st' : AppleUSBOHCI} {T0 pTail last : Nat}
    {done pre : List Nat} (b : IsochBuilding st0 T0 st pTail done pre last)
    (k : IsochKept st st') : IsochBuilding st0 T0 st' pTail done pre last := by
  constructor
  · rw [k.eds, b.eds]
  · rw [k.tds, b.tds]
  · rw [k.pFreeTD, b.pFreeTD]
  · rw [k.pFreeED, b.pFreeED]
  · rw [k.pFreeITD]; exact b.pool
  · exact b.split
  · exact ITDChain.itd_congr _ _ _ (fun x _ => k.next x) b.links
  · intro x; rw [k.physical, b.physical]
  · intro x hx; rw [k.completion]; exact b.clean x hx
  · intro d hd; rw [k.completion]; exact b.inner d hd

theorem IsochBuilding.tail_next {st0 st : AppleUSBOHCI} {T0 pTail last : Nat}
    {done pre : List Nat} (b : IsochBuilding st0 T0 st pTail done pre last) :
    ITDChain st.itds T0 done pTail ∧ (st.itds pTail).pLogicalNext = last := by
  have h := b.links
  rw [b.split, ITDChain.itd_snoc] at h
  exact h

theorem IsochBuilding.advance {st0 : AppleUSBOHCI} {T0 : Nat} {l l' : IsochTransferLoop}
    {done pre : List Nat} (hnd : st0.pFreeITD.Nodup) (hT0 : T0 ∉ st0.pFreeITD)
    (b : IsochBuilding st0 T0 l.st l.pTailITD done pre l.pNewITD) (a : IsochAdvance l l') :
    IsochBuilding st0 T0 l'.st l'.pTailITD (done ++ [l.pTailITD]) (pre ++ [l.pNewITD])
      l'.pNewITD := by
  have htail : l'.pTailITD = l.pNewITD := by rw [a.tail, b.tail_next.2]
  have hpool : st0.pFreeITD = pre ++ l.pNewITD :: l'.pNewITD :: l'.st.pFreeITD := by
    rw [b.pool, a.pool]
  rw [hpool] at hnd hT0
  have hnd' := List.nodup_append.mp hnd
  have hlast_pre : l.pNewITD ∉ pre := fun h => hnd'.2.2 h (by simp)
  have hlast_T0 : l.pNewITD ≠ T0 := fun h => hT0 (by simp [← h])
  have hmem : ∀ x, x ∈ T0 :: pre → x ≠ l'.pTailITD := by
    intro x hx h
    rw [htail] at h
    subst h
    rw [List.mem_cons] at hx
    rcases hx with hx | hx
    · exact hlast_T0 hx
    · exact hlast_pre hx
  constructor
  · rw [a.eds, b.eds]
  · rw [a.tds, b.tds]
  · rw [a.pFreeTD, b.pFreeTD]
  · rw [a.pFreeED, b.pFreeED]
  · rw [hpool]; simp
  · rw [← List.cons_append, b.split, htail]
  · rw [← List.cons_append, ITDChain.itd_snoc]
    refine ⟨ITDChain.itd_congr _ _ _ (fun x hx => a.nextOther x (hmem x hx)) b.links, ?_⟩
    rw [← htail]
    exact a.next
  · intro x; rw [a.physical, b.physical]
  · intro x hx
    rcases a.completion x with h | h
    · rw [h]; exact b.clean x hx
    · exact h
  · intro d hd
    rw [List.mem_append, List.mem_singleton] at hd
    rcases hd with hd | rfl
    · rcases a.completion d with h | h
      · rw [h]; exact b.inner d hd
      · exact h
    · exact a.closed

theorem UIMCreateIsochTransfer.loop_building {st0 : AppleUSBOHCI} {T0 : Nat}
    (pBuffer : IOMemoryDescriptor) (frameCount pFrames frameNumber tdType bufferSize : Nat)
    (hnd : st0.pFreeITD.Nodup) (hT0 : T0 ∉ st0.pFreeITD) :
    ∀ (fuel : Nat) (l l' : IsochTransferLoop) (status : IOReturn) (done pre : List Nat),
      UIMCreateIsochTransfer.loop pBuffer frameCount pFrames frameNumber tdType bufferSize fuel l
        = .ret (status, l') →
      IsochBuilding st0 T0 l.st l.pTailITD done pre l.pNewITD →
      ∃ done' pre' last', IsochBuilding st0 T0 l'.st l'.pTailITD done' pre' last'
        ∧ ((status = .kIOReturnSuccess ∧ l'.pNewITD = last')
          ∨ status = .kIOReturnNoMemory)
  | 0, l, l', status, done, pre, h, _ => by simp [UIMCreateIsochTransfer.loop] at h
  | fuel + 1, l, l', status, done, pre, h, b => by
    rw [UIMCreateIsochTransfer.loop] at h
    split_ifs at h with hlt
    · obtain ⟨r, hbody, hrest⟩ := Outcome.bind_eq_ret h
      rcases UIMCreateIsochTransfer.body_spec pBuffer pFrames frameNumber tdType bufferSize l r
        hbody with ⟨l1, rfl, hk, ht⟩ | ⟨l1, rfl, hk, ht, hn⟩ | ⟨l1, rfl, ha⟩
      · simp only [Outcome.ret.injEq, Prod.mk.injEq] at hrest
        obtain ⟨rfl, rfl⟩ := hrest
        refine ⟨done, pre, l.pNewITD, ?_, Or.inr rfl⟩
        rw [ht]
        exact b.kept hk
      · apply UIMCreateIsochTransfer.loop_building pBuffer frameCount pFrames frameNumber tdType
          bufferSize hnd hT0 fuel l1 l' status done pre hrest
        rw [ht, hn]
        exact b.kept hk
      · exact UIMCreateIsochTransfer.loop_building pBuffer frameCount pFrames frameNumber tdType
          bufferSize hnd hT0 fuel l1 l' status _ _ hrest (b.advance hnd hT0 ha)
    · simp only [Outcome.ret.injEq, Prod.mk.injEq] at h
      obtain ⟨rfl, rfl⟩ := h
      exact ⟨done, pre, l.pNewITD, b, Or.inl ⟨rfl, rfl⟩⟩

theorem unlinkITDs_chain (stop : Nat) :
    ∀ (pre : List Nat) (fuel : Nat) (st st' : AppleUSBOHCI) (p : Nat),
      ITDChain st.itds p pre stop → stop ∉ pre → unlinkITDs stop fuel st p = .ret st' →
      st'.itds = st.itds ∧ st'.eds = st.eds ∧ st'.tds = st.tds ∧ st'.pFreeTD = st.pFreeTD
        ∧ st'.pFreeED = st.pFreeED ∧ st'.pFreeITD = st.pFreeITD ++ pre
  | _, 0, _, _, _, _, _, h => by simp [unlinkITDs] at h
  | [], fuel + 1, st, st', p, hchain, _, h => by
    simp only [ITDChain] at hchain
    simp only [unlinkITDs, hchain, ne_eq, not_true_eq_false, ↓reduceIte, Outcome.ret.injEq] at h
    subst h
    simp
  | x :: xs, fuel + 1, st, st', p, hchain, hstop, h => by
    obtain ⟨rfl, hrest⟩ := hchain
    have hne : p ≠ stop := fun e => hstop (by simp [e])
    rw [unlinkITDs] at h
    simp only [hne, ne_eq, not_false_eq_true, ↓reduceIte] at h
    split_ifs at h
    obtain ⟨h1, h2, h3, h4, h5, h6⟩ := unlinkITDs_chain stop xs fuel (DeallocateITD st p) st'
      (st.itds p).pLogicalNext hrest (fun e => hstop (by simp [e])) h
    refine ⟨h1, h2, h3, h4, h5, ?_⟩
    rw [h6]
    simp [DeallocateITD]

/-- The invariant moves to a state in which the isochronous endpoint `e` has a new placeholder,
taken from the pool of the old state, and nothing else that the tails depend on changed. -/
theorem TailPlaceholders.retail_isoch {st st' : AppleUSBOHCI} {G I : List Nat} {e : Nat}
    (inv : TailPlaceholders st G I) (he : e ∈ I) (pools : PoolsClean st')
    (hED : ∀ x, x ∈ st'.pFreeED → x ∈ st.pFreeED)
    (hTD : ∀ x, x ∈ st'.pFreeTD → x ∈ st.pFreeTD)
    (hITD : ∀ x, x ∈ st'.pFreeITD → x ∈ st.pFreeITD)
    (heds : ∀ x ∈ G ++ I, x ≠ e → st'.eds x = st.eds x)
    (htds : st'.tds = st.tds)
    (hitds : ∀ r ∈ I, r ≠ e →
      ((st.itds (st.eds r).pLogicalTailP).completion.action = 0 →
        (st'.itds (st.eds r).pLogicalTailP).completion.action = 0)
      ∧ (st'.itds (st.eds r).pLogicalTailP).pPhysical
        = (st.itds (st.eds r).pLogicalTailP).pPhysical)
    (hnew : IsochPlaceholder st' e) (hfresh : (st'.eds e).pLogicalTailP ∈ st.pFreeITD) :
    TailPlaceholders st' G I := by
  have hGe : ∀ q ∈ G, q ≠ e := by
    intro q hq h
    subst h
    exact (List.nodup_append.mp inv.distinct).2.2 hq he
  constructor
  · exact pools
  · exact inv.distinct
  · exact fun q hq h => inv.allocatedED q hq (hED q h)
  · intro q hq
    have old := inv.general q hq
    have h1 := heds q (List.mem_append_left _ hq) (hGe q hq)
    constructor
    · rw [h1, htds]; exact old.tailPtr
    · rw [h1]; exact fun h => old.allocated (hTD _ h)
    · rw [h1, htds]; exact old.blank
  · intro r hr
    by_cases hre : r = e
    · subst hre; exact hnew
    · have old := inv.isoch r hr
      have h1 := heds r (List.mem_append_right _ hr) hre
      obtain ⟨h3, h4⟩ := hitds r hr hre
      constructor
      · rw [h1, h4]; exact old.tailPtr
      · rw [h1]; exact fun h => old.allocated (hITD _ h)
      · rw [h1]; exact h3 old.blank
  · intro q hq r hr hqr
    rw [heds q (List.mem_append_left _ hq) (hGe q hq),
      heds r (List.mem_append_left _ hr) (hGe r hr)] at hqr
    exact inv.generalApart q hq r hr hqr
  · have key : ∀ r ∈ I, r ≠ e → (st'.eds e).pLogicalTailP ≠ (st'.eds r).pLogicalTailP := by
      intro r hr hre h
      rw [heds r (List.mem_append_right _ hr) hre] at h
      exact (inv.isoch r hr).allocated (h ▸ hfresh)
    intro q hq r hr hqr
    by_cases h1 : q = e
    · by_cases h2 : r = e
      · rw [h1, h2]
      · subst h1
        exact absurd hqr (key r hr h2)
    · by_cases h2 : r = e
      · subst h2
        exact absurd hqr.symm (key q hq h1)
      · rw [heds q (List.mem_append_right _ hq) h1,
          heds r (List.mem_append_right _ hr) h2] at hqr
        exact inv.isochApart q hq r hr hqr

theorem IsochBuilding.members {st0 st : AppleUSBOHCI} {T0 pTail last : Nat}
    {done pre : List Nat} (b : IsochBuilding st0 T0 st pTail done pre last)
    (hnd : st0.pFreeITD.Nodup) (hT0 : T0 ∉ st0.pFreeITD) :
    (∀ x, x ∈ pre → x ∈ st0.pFreeITD) ∧ last ∈ st0.pFreeITD
      ∧ (∀ x, x ∈ st.pFreeITD → x ∈ st0.pFreeITD)
      ∧ (pTail = T0 ∨ pTail ∈ pre) ∧ last ∉ pre ∧ last ≠ T0 ∧ last ≠ pTail
      ∧ last ∉ st.pFreeITD ∧ (∀ x, x ∈ st.pFreeITD → x ≠ pTail ∧ x ∉ pre ∧ x ≠ T0)
      ∧ pTail ∉ done ∧ T0 ∉ pre ∧ (st.pFreeITD ++ pre).Nodup := by
  have hpool := b.pool
  rw [hpool] at hnd hT0
  have hnd' := List.nodup_append.mp hnd
  have hnd2 := List.nodup_cons.mp hnd'.2.1
  have hpre : ∀ x, x ∈ pre → x ∈ st0.pFreeITD := fun x hx => by
    rw [hpool]; exact List.mem_append_left _ hx
  have hrest : ∀ x, x ∈ st.pFreeITD → x ∈ st0.pFreeITD := fun x hx => by
    rw [hpool]; exact List.mem_append_right _ (List.mem_cons_of_mem _ hx)
  have hT0pre : T0 ∉ pre := fun h => hT0 (List.mem_append_left _ h)
  have hlast_pre : last ∉ pre := fun h => hnd'.2.2 h (by simp)
  have hlast_T0 : last ≠ T0 := fun h => hT0 (by simp [← h])
  have htail : pTail = T0 ∨ pTail ∈ pre := by
    have : pTail ∈ T0 :: pre := by rw [b.split]; simp
    simpa using this
  have hcons : (T0 :: pre).Nodup := List.nodup_cons.mpr ⟨hT0pre, hnd'.1⟩
  rw [b.split] at hcons
  refine ⟨hpre, by rw [hpool]; simp, hrest, htail, hlast_pre, hlast_T0, ?_, hnd2.1, ?_, ?_,
    hT0pre, ?_⟩
  · rintro rfl
    rcases htail with h | h
    · exact hlast_T0 h
    · exact hlast_pre h
  · intro x hx
    have hxpre : x ∉ pre := fun h => hnd'.2.2 h (List.mem_cons_of_mem _ hx)
    have hxT0 : x ≠ T0 := fun h => hT0 (by rw [← h]; simp [hx])
    refine ⟨?_, hxpre, hxT0⟩
    rintro rfl
    rcases htail with h | h
    · exact hxT0 h
    · exact hxpre h
  · intro h
    exact (List.nodup_append.mp hcons).2.2 h (by simp)
  · rw [List.nodup_append]
    refine ⟨hnd2.2, hnd'.1, ?_⟩
    intro x hx hx'
    exact hnd'.2.2 hx' (List.mem_cons_of_mem _ hx)

theorem IsochBuilding.isoch_init (st : AppleUSBOHCI) (e n bufferSize : Nat) (rest : List Nat)
    (hp : st.pFreeITD = n :: rest) :
    IsochBuilding st (st.eds e).pLogicalTailP
      (IsochTransferLoop.init { st with pFreeITD := rest } e n bufferSize).st
      (IsochTransferLoop.init { st with pFreeITD := rest } e n bufferSize).pTailITD [] []
      (IsochTransferLoop.init { st with pFreeITD := rest } e n bufferSize).pNewITD := by
  have hk : ∀ x, ((IsochTransferLoop.init { st with pFreeITD := rest } e n bufferSize).st.itds
        x).pPhysical = (st.itds x).pPhysical
      ∧ ((IsochTransferLoop.init { st with pFreeITD := rest } e n bufferSize).st.itds
        x).completion = (st.itds x).completion := by
    intro x
    simp only [IsochTransferLoop.init, setITD_itds]
    split_ifs with hx
    · subst hx; exact ⟨rfl, rfl⟩
    · exact ⟨rfl, rfl⟩
  constructor
  · rfl
  · rfl
  · rfl
  · rfl
  · simpa [IsochTransferLoop.init, setITD] using hp
  · rfl
  · simp [ITDChain, IsochTransferLoop.init, setITD_itds]
  · exact fun x => (hk x).1
  · intro x hx
    rw [(hk x).2]
    exact hx
  · simp

theorem isochFrameWindow_error {frameNumberStart curFrameNumber : Nat} {r : IOReturn}
    (h : isochFrameWindow frameNumberStart curFrameNumber = some r) : r ≠ .kIOReturnSuccess := by
  intro hr
  subst hr
  unfold isochFrameWindow at h
  dsimp only at h
  split_ifs at h <;> cases h

theorem UIMCreateIsochTransfer.finish_tail_placeholders {st0 : AppleUSBOHCI} {G I : List Nat}
    {e : Nat} {l : IsochTransferLoop} {done pre : List Nat} {last : Nat}
    (fuel : Nat) (completion : IOUSBCompletion) (s status : IOReturn) (st' : AppleUSBOHCI)
    (inv : TailPlaceholders st0 G I) (he : e ∈ I)
    (b : IsochBuilding st0 (st0.eds e).pLogicalTailP l.st l.pTailITD done pre last)
    (hs : (s = .kIOReturnSuccess ∧ l.pNewITD = last) ∨ s = .kIOReturnNoMemory)
    (h : UIMCreateIsochTransfer.finish fuel e completion s l = .ret (status, st')) :
    status = s ∧ TailPlaceholders st' G I
      ∧ (status = .kIOReturnSuccess → IsochAppended st0 st' e completion) := by
  have hnd := inv.pools.nodupITD
  have hT0 := (inv.isoch e he).allocated
  obtain ⟨hpre, hlast, hrest, htail, hlast_pre, hlast_T0, hlast_tail, hlast_pool, hpool, htail_done,
    hT0pre, hnd'⟩ := b.members hnd hT0
  unfold UIMCreateIsochTransfer.finish at h
  rcases hs with ⟨rfl, hnew⟩ | rfl
  · simp only [ne_eq, not_true_eq_false, ↓reduceIte] at h
    obtain ⟨sF, hsF⟩ : ∃ sF, sF = setITD l.st l.pTailITD fun itd =>
        { itd with flags := l.itdFlags ||| shl32 (sub32 l.curFrameInTD 1) kOHCIITDControl_FCPhase,
                   bufferEnd := l.lastPhysical, completion := completion } := ⟨_, rfl⟩
    rw [← hsF] at h
    simp only [Outcome.ret.injEq, Prod.mk.injEq] at h
    obtain ⟨rfl, rfl⟩ := h
    have hitds : ∀ x, x ≠ l.pTailITD → sF.itds x = l.st.itds x := by
      intro x hx
      rw [hsF, setITD_itds, if_neg hx]
    have hnext : ∀ x, (sF.itds x).pLogicalNext = (l.st.itds x).pLogicalNext := by
      intro x
      rw [hsF, setITD_itds]
      split_ifs with hx
      · subst hx; rfl
      · rfl
    have hcompl : (sF.itds l.pTailITD).completion = completion := by
      rw [hsF, setITD_itds, if_pos rfl]
    have hF : sF.eds = l.st.eds ∧ sF.tds = l.st.tds ∧ sF.pFreeTD = l.st.pFreeTD
        ∧ sF.pFreeED = l.st.pFreeED ∧ sF.pFreeITD = l.st.pFreeITD := by
      rw [hsF]
      exact ⟨rfl, rfl, rfl, rfl, rfl⟩
    obtain ⟨hFeds, hFtds, hFptd, hFped, hFpitd⟩ := hF
    clear hsF
    have hEtail : ∀ f, ((setED sF e f).eds e) = f (sF.eds e) := by
      intro f
      simp [setED]
    have hEother : ∀ f x, x ≠ e → ((setED sF e f).eds x) = sF.eds x := by
      intro f x hx
      simp [setED, Function.update_noteq hx]
    have hplace : IsochPlaceholder
        (setED sF e fun ed =>
          { ed with pLogicalTailP := l.pNewITD,
                    tdQueueTailPtr := (sF.itds l.pNewITD).pPhysical }) e := by
      constructor
      · rw [hEtail]
        rfl
      · rw [hEtail]
        show l.pNewITD ∉ sF.pFreeITD
        rw [hnew, hFpitd]
        exact hlast_pool
      · rw [hEtail]
        show (sF.itds l.pNewITD).completion.action = 0
        rw [hitds _ (by rw [hnew]; exact hlast_tail), hnew]
        exact b.clean last (inv.pools.cleanITD last hlast)
    refine ⟨rfl, ?_, fun _ => ?_⟩
    · refine inv.retail_isoch he ⟨?_, ?_, ?_, ?_, ?_⟩ ?_ ?_ ?_ ?_ ?_ ?_ hplace ?_
      · show sF.pFreeTD.Nodup
        rw [hFptd, b.pFreeTD]; exact inv.pools.nodupTD
      · show sF.pFreeITD.Nodup
        rw [hFpitd]
        exact (List.nodup_append.mp hnd').1
      · show sF.pFreeED.Nodup
        rw [hFped, b.pFreeED]; exact inv.pools.nodupED
      · show ∀ p ∈ sF.pFreeTD, (sF.tds p).command = 0
        rw [hFptd, hFtds, b.pFreeTD, b.tds]; exact inv.pools.cleanTD
      · intro x hx
        have hx' : x ∈ l.st.pFreeITD := by rw [← hFpitd]; exact hx
        show (sF.itds x).completion.action = 0
        rw [hitds x (hpool x hx').1]
        exact b.clean x (inv.pools.cleanITD x (hrest x hx'))
      · show ∀ x, x ∈ sF.pFreeED → x ∈ st0.pFreeED
        rw [hFped, b.pFreeED]; exact fun _ hx => hx
      · show ∀ x, x ∈ sF.pFreeTD → x ∈ st0.pFreeTD
        rw [hFptd, b.pFreeTD]; exact fun _ hx => hx
      · show ∀ x, x ∈ sF.pFreeITD → x ∈ st0.pFreeITD
        rw [hFpitd]
        exact hrest
      · intro x _ hx
        rw [hEother _ x hx, hFeds, b.eds]
      · show sF.tds = st0.tds
        rw [hFtds, b.tds]
      · intro r hr hre
        have hne : (st0.eds r).pLogicalTailP ≠ l.pTailITD := by
          intro h
          rcases htail with h' | h'
          · exact hre (inv.isochApart r hr e he (h.trans h'))
          · exact (inv.isoch r hr).allocated (hpre _ (h ▸ h'))
        show (_ → (sF.itds _).completion.action = 0) ∧ (sF.itds _).pPhysical = _
        rw [hitds _ hne]
        exact ⟨b.clean _, b.physical _⟩
      · rw [hEtail]
        show l.pNewITD ∈ st0.pFreeITD
        rw [hnew]
        exact hlast
    · refine ⟨done, l.pTailITD, ?_, ?_, ?_, ?_, ?_, hplace.allocated⟩
      · rw [hEtail, ← b.split]
        show ITDChain sF.itds _ _ l.pNewITD
        rw [hnew]
        exact ITDChain.itd_congr _ _ _ (fun x _ => hnext x) b.links
      · rw [← b.split]
        rfl
      · exact hcompl
      · intro d hd
        show (sF.itds d).completion.action = 0
        rw [hitds d (fun h => htail_done (h ▸ hd))]
        exact b.inner d hd
      · rw [hEtail]
        show l.pNewITD ∈ st0.pFreeITD
        rw [hnew]
        exact hlast
  · simp only [ne_eq, reduceCtorEq, not_false_eq_true, ↓reduceIte] at h
    obtain ⟨st1, hunlink, hret⟩ := Outcome.bind_eq_ret h
    simp only [Outcome.ret.injEq, Prod.mk.injEq] at hret
    obtain ⟨rfl, rfl⟩ := hret
    have hE : (l.st.eds e).pLogicalTailP = (st0.eds e).pLogicalTailP := by rw [b.eds]
    rw [b.tail_next.2, hE] at hunlink
    have hlinks := b.links
    simp only [ITDChain, true_and] at hlinks
    have hA : ∀ x, x ≠ (st0.eds e).pLogicalTailP →
        (setITD l.st (st0.eds e).pLogicalTailP fun itd =>
          { itd with pLogicalNext := 0, nextTD := 0 }).itds x = l.st.itds x := by
      intro x hx
      rw [setITD_itds, if_neg hx]
    have hB : ∀ x,
        ((setITD l.st (st0.eds e).pLogicalTailP fun itd =>
          { itd with pLogicalNext := 0, nextTD := 0 }).itds x).pPhysical
          = (l.st.itds x).pPhysical
        ∧ ((setITD l.st (st0.eds e).pLogicalTailP fun itd =>
          { itd with pLogicalNext := 0, nextTD := 0 }).itds x).completion
          = (l.st.itds x).completion := by
      intro x
      rw [setITD_itds]
      split_ifs with hx
      · subst hx; exact ⟨rfl, rfl⟩
      · exact ⟨rfl, rfl⟩
    obtain ⟨h1, h2, h3, h4, h5, h6⟩ := unlinkITDs_chain last pre fuel _ st1 _
      (ITDChain.itd_congr pre _ _ (fun x hx => by rw [hA x (fun h => hT0pre (h ▸ hx))]) hlinks)
      hlast_pre hunlink
    refine ⟨rfl, ?_, fun hs => by cases hs⟩
    have hclean : ∀ x, (st0.itds x).completion.action = 0 →
        (st1.itds x).completion.action = 0 := by
      intro x hx
      rw [h1, (hB x).2]
      exact b.clean x hx
    have hphys : ∀ x, (st1.itds x).pPhysical = (st0.itds x).pPhysical := by
      intro x
      rw [h1, (hB x).1]
      exact b.physical x
    have hsub : ∀ x, x ∈ st1.pFreeITD → x ∈ st0.pFreeITD := by
      intro x hx
      rw [h6] at hx
      rcases List.mem_append.mp hx with hx | hx
      · exact hrest x hx
      · exact hpre x hx
    refine inv.transport ⟨?_, ?_, ?_, ?_, ?_⟩ ?_ ?_ hsub ?_ ?_ ?_
    · rw [h4]; show l.st.pFreeTD.Nodup
      rw [b.pFreeTD]; exact inv.pools.nodupTD
    · rw [h6]; exact hnd'
    · rw [h5]; show l.st.pFreeED.Nodup
      rw [b.pFreeED]; exact inv.pools.nodupED
    · rw [h4, h3]
      show ∀ p ∈ l.st.pFreeTD, (l.st.tds p).command = 0
      rw [b.pFreeTD, b.tds]; exact inv.pools.cleanTD
    · intro x hx
      exact hclean x (inv.pools.cleanITD x (hsub x hx))
    · rw [h5]; show ∀ x, x ∈ l.st.pFreeED → x ∈ st0.pFreeED
      rw [b.pFreeED]; exact fun _ hx => hx
    · rw [h4]; show ∀ x, x ∈ l.st.pFreeTD → x ∈ st0.pFreeTD
      rw [b.pFreeTD]; exact fun _ hx => hx
    · intro x _
      rw [h2]
      show (l.st.eds x).pLogicalTailP = _ ∧ (l.st.eds x).tdQueueTailPtr = _
      rw [b.eds]
      exact ⟨rfl, rfl⟩
    · intro q _
      rw [h3]
      show (l.st.tds _).command = _ ∧ (l.st.tds _).pPhysical = _
      rw [b.tds]
      exact ⟨rfl, rfl⟩
    · intro r _
      exact ⟨hclean _, hphys _⟩

theorem UIMCreateIsochTransfer.queue_tail_placeholders (st st' : AppleUSBOHCI) (G I : List Nat)
    (fuel e : Nat) (completion : IOUSBCompletion) (frameNumberStart : Nat)
    (pBuffer : IOMemoryDescriptor) (frameCount pFrames tdType : Nat) (status : IOReturn)
    (inv : TailPlaceholders st G I) (he : e ∈ I)
    (h : UIMCreateIsochTransfer.queue st fuel e completion frameNumberStart pBuffer frameCount
      pFrames tdType = .ret (status, st')) :
    TailPlaceholders st' G I
      ∧ (status = .kIOReturnSuccess → IsochAppended st st' e completion) := by
  unfold UIMCreateIsochTransfer.queue at h
  rcases hw : isochFrameWindow (frameNumberStart % W64) (GetFrameNumber st) with _ | error
  · rw [hw] at h
    dsimp only at h
    rcases hb : UIMCreateIsochTransfer.bufferSize st pFrames frameCount 0 0 with _ | bufferSize
    · rw [hb] at h
      simp only [Outcome.ret.injEq, Prod.mk.injEq] at h
      obtain ⟨rfl, rfl⟩ := h
      exact ⟨inv, fun hs => by cases hs⟩
    · rw [hb] at h
      dsimp only at h
      rcases hp : st.pFreeITD with _ | ⟨n, rest⟩
      · rw [AllocateITD_nil _ hp] at h
        simp only [Outcome.ret.injEq, Prod.mk.injEq] at h
        obtain ⟨rfl, rfl⟩ := h
        exact ⟨inv, fun hs => by cases hs⟩
      · rw [AllocateITD_cons _ n rest hp] at h
        dsimp only at h
        obtain ⟨⟨s, l⟩, hloop, hfin⟩ := Outcome.bind_eq_ret h
        obtain ⟨done, pre, last, b, hs⟩ := UIMCreateIsochTransfer.loop_building pBuffer
          frameCount pFrames (toUInt16 frameNumberStart) tdType bufferSize
          inv.pools.nodupITD (inv.isoch e he).allocated _ _ l s [] []
          hloop (IsochBuilding.isoch_init st e n bufferSize rest hp)
        obtain ⟨hst, hinv, happ⟩ := UIMCreateIsochTransfer.finish_tail_placeholders fuel
          completion s status st' inv he b hs hfin
        exact ⟨hinv, happ⟩
  · rw [hw] at h
    simp only [Outcome.ret.injEq, Prod.mk.injEq] at h
    obtain ⟨rfl, rfl⟩ := h
    exact ⟨inv, fun hs => absurd hs (isochFrameWindow_error hw)⟩

/-- A call of `UIMCreateIsochTransfer` either returns an error with the state it was given, or
finds an endpoint and goes on to queue the request on it. -/
theorem UIMCreateIsochTransfer.cases (H : Header) (st st' : AppleUSBOHCI)
    (fuel functionAddress endpointNumber : Nat) (completion : IOUSBCompletion)
    (direction frameNumberStart : Nat) (pBuffer : IOMemoryDescriptor)
    (frameCount pFrames : Nat) (status : IOReturn)
    (h : UIMCreateIsochTransfer H st fuel functionAddress endpointNumber completion direction
      frameNumberStart pBuffer frameCount pFrames = .ret (status, st')) :
    (st' = st ∧ status ≠ .kIOReturnSuccess)
      ∨ ∃ e back tdType, FindIsochronousEndpoint st fuel functionAddress endpointNumber
          (if direction = kUSBOut then kOHCIEDDirectionOut else kOHCIEDDirectionIn)
          = .ret (some (e, back))
        ∧ UIMCreateIsochTransfer.queue st fuel e completion frameNumberStart pBuffer frameCount
          pFrames tdType = .ret (status, st') := by
  unfold UIMCreateIsochTransfer at h
  by_cases hcount : frameCount = 0 ∨ frameCount > 1000
  · rw [if_pos hcount] at h
    simp only [Outcome.ret.injEq, Prod.mk.injEq] at h
    obtain ⟨rfl, rfl⟩ := h
    exact Or.inl ⟨rfl, fun hs => by cases hs⟩
  rw [if_neg hcount] at h
  by_cases hdir : direction ≠ kUSBOut ∧ direction ≠ kUSBIn
  · rw [if_pos hdir] at h
    simp only [Outcome.ret.injEq, Prod.mk.injEq] at h
    obtain ⟨rfl, rfl⟩ := h
    exact Or.inl ⟨rfl, fun hs => by cases hs⟩
  rw [if_neg hdir] at h
  dsimp only at h
  obtain ⟨r, hfind, hrest⟩ := Outcome.bind_eq_ret h
  rcases r with _ | ⟨e, back⟩
  · simp only [Outcome.ret.injEq, Prod.mk.injEq] at hrest
    obtain ⟨rfl, rfl⟩ := hrest
    exact Or.inl ⟨rfl, fun hs => by cases hs⟩
  · exact Or.inr ⟨e, back,
      if direction = kUSBOut then H.kOHCIIsochronousOutType else H.kOHCIIsochronousInType,
      hfind, hrest⟩

/-- C7: in every state reachable from a driver with well formed pools by endpoint creations
and by calls of `CreateGeneralTransfer` and `UIMCreateIsochTransfer` on the endpoints created,
whatever the calls return, every endpoint has a placeholder at its tail: its physical tail
pointer is the physical address of the descriptor at its logical tail pointer, and that
descriptor is allocated (not in the pool), belongs to no other endpoint and carries no command
(general) or completion action (isochronous).  Every successful call fills the former
placeholder as the first descriptor of the chain it appends, which is linked up to the new
tail, and the new tail is a descriptor that the call took from the pool. -/
theorem tail_placeholder_invariant (H : Header) (st : AppleUSBOHCI) (G I : List Nat)
    (hReach : TailReachable H st G I) :
    TailPlaceholders st G I
      ∧ (∀ queue ∈ G, ∀ (command : Nat) (CBP : IOMemoryDescriptor)
          (bufferSize flags type kickBits : Nat) (st' : AppleUSBOHCI),
          CreateGeneralTransfer H st queue command CBP bufferSize flags type kickBits
            = .ret (.kIOReturnSuccess, st') →
          GeneralAppended st st' queue command)
      ∧ (∀ (fuel functionAddress endpointNumber : Nat) (completion : IOUSBCompletion)
          (direction frameNumberStart : Nat) (pBuffer : IOMemoryDescriptor)
          (frameCount pFrames e back : Nat) (st' : AppleUSBOHCI),
          FindIsochronousEndpoint st fuel functionAddress endpointNumber
            (if direction = kUSBOut then kOHCIEDDirectionOut else kOHCIEDDirectionIn)
            = .ret (some (e, back)) →
          e ∈ I →
          UIMCreateIsochTransfer H st fuel functionAddress endpointNumber completion direction
            frameNumberStart pBuffer frameCount pFrames = .ret (.kIOReturnSuccess, st') →
          IsochAppended st st' e completion) := by
  have hinv : TailPlaceholders st G I := by
    induction hReach with
    | start st hpools =>
      exact ⟨hpools, by simp, by simp, by simp, by simp, by simp, by simp⟩
    | create st st' G I functionAddress endpointNumber maxPacketSize speed direction pED format r
        _ hcall ih =>
      exact AddEmptyEndPoint.created_tail_placeholders st st' G I functionAddress endpointNumber
        maxPacketSize speed direction pED format r ih hcall
    | general st st' G I queue command CBP bufferSize flags type kickBits status _ hq hcall ih =>
      exact (CreateGeneralTransfer.general_tail_placeholders H st st' G I queue command CBP bufferSize
        flags type kickBits status ih hq hcall).1
    | isoch st st' G I fuel functionAddress endpointNumber completion direction frameNumberStart
        pBuffer frameCount pFrames status _ hfound hcall ih =>
      rcases UIMCreateIsochTransfer.cases H st st' fuel functionAddress endpointNumber completion
        direction frameNumberStart pBuffer frameCount pFrames status hcall with
        ⟨rfl, -⟩ | ⟨e, back, tdType, hfind, hqueue⟩
      · exact ih
      · exact (UIMCreateIsochTransfer.queue_tail_placeholders st st' G I fuel e completion
          frameNumberStart pBuffer frameCount pFrames tdType status ih (hfound e back hfind)
          hqueue).1
  refine ⟨hinv, ?_, ?_⟩
  · intro queue hq command CBP bufferSize flags type kickBits st' hcall
    exact (CreateGeneralTransfer.general_tail_placeholders H st st' G I queue command CBP bufferSize
      flags type kickBits _ hinv hq hcall).2 rfl
  · intro fuel functionAddress endpointNumber completion direction frameNumberStart pBuffer
      frameCount pFrames e back st' hfind he hcall
    rcases UIMCreateIsochTransfer.cases H st st' fuel functionAddress endpointNumber completion
      direction frameNumberStart pBuffer frameCount pFrames _ hcall with
      ⟨-, hne⟩ | ⟨e', back', tdType, hfind', hqueue⟩
    · exact absurd rfl hne
    · rw [hfind] at hfind'
      simp only [Outcome.ret.injEq, Option.some.injEq, Prod.mk.injEq] at hfind'
      obtain ⟨rfl, rfl⟩ := hfind'
      exact (UIMCreateIsochTransfer.queue_tail_placeholders st st' G I fuel e completion
        frameNumberStart pBuffer frameCount pFrames tdType _ hinv he hqueue).2 rfl

/-! ### The tail placeholder on the example driver -/

theorem Outcome.ret_stateOr {o : Outcome (IOReturn × AppleUSBOHCI)} {s : IOReturn}
    (st : AppleUSBOHCI) (h : ∃ st', o = .ret (s, st')) : o = .ret (s, o.stateOr st) := by
  obtain ⟨st', rfl⟩ := h
  rfl

theorem Outcome.ret_endpointStateOr {o : Outcome (Option Nat × AppleUSBOHCI)} {r : Option Nat}
    (st : AppleUSBOHCI) (h : ∃ st', o = .ret (r, st')) :
    o = .ret (r, o.endpointStateOr st) := by
  obtain ⟨st', rfl⟩ := h
  rfl

theorem exampleOneByteFramesState_pools : PoolsClean exampleOneByteFramesState :=
  ⟨by decide, by decide, by decide, fun _ _ => rfl, fun _ _ => rfl⟩

theorem exampleScarcePoolState_pools : PoolsClean exampleScarcePoolState :=
  ⟨by decide, by decide, by decide, fun _ _ => rfl, fun _ _ => rfl⟩

theorem exampleTwoEndpointsState_reachable :
    TailReachable exampleHeader exampleTwoEndpointsState [20] [21] := by
  have h0 : TailReachable exampleHeader exampleOneByteFramesState [] [] :=
    TailReachable.start _ exampleOneByteFramesState_pools
  have h1 : TailReachable exampleHeader exampleOneEndpointState [20] [] :=
    TailReachable.create exampleOneByteFramesState exampleOneEndpointState [] [] 5 2 64
      kUSBDeviceSpeedFull kOHCIEDDirectionOut 3 kOHCIEDFormatGeneralTD (some 20) h0
      (Outcome.ret_endpointStateOr _ ⟨_, rfl⟩)
  exact TailReachable.create exampleOneEndpointState exampleTwoEndpointsState [20] [] 5 1 64
    kUSBDeviceSpeedFull kOHCIEDDirectionOut 5 kOHCIEDFormatIsochronousTD (some 21) h1
    (Outcome.ret_endpointStateOr _ ⟨_, rfl⟩)

theorem exampleBulkQueuedState_call :
    CreateGeneralTransfer exampleHeader exampleTwoEndpointsState 20 77 exampleBuffer 200 0 1 4
      = .ret (.kIOReturnSuccess, exampleBulkQueuedState) :=
  Outcome.ret_stateOr _ ⟨_, rfl⟩

theorem exampleBulkQueuedState_reachable :
    TailReachable exampleHeader exampleBulkQueuedState [20] [21] :=
  TailReachable.general exampleTwoEndpointsState exampleBulkQueuedState [20] [21] 20 77
    exampleBuffer 200 0 1 4 .kIOReturnSuccess exampleTwoEndpointsState_reachable (by simp)
    exampleBulkQueuedState_call

theorem exampleBulkQueuedState_lookup :
    FindIsochronousEndpoint exampleBulkQueuedState 5 5 1
      (if kUSBOut = kUSBOut then kOHCIEDDirectionOut else kOHCIEDDirectionIn)
      = .ret (some (21, 5)) := rfl

theorem exampleTwoTransfersState_call :
    UIMCreateIsochTransfer exampleHeader exampleBulkQueuedState 5 5 1 ⟨1, 2, 3⟩ kUSBOut 100010
      exampleScatteredBuffer 3 7 = .ret (.kIOReturnSuccess, exampleTwoTransfersState) :=
  Outcome.ret_stateOr _ ⟨_, rfl⟩

theorem exampleTwoTransfersState_reachable :
    TailReachable exampleHeader exampleTwoTransfersState [20] [21] := by
  refine TailReachable.isoch exampleBulkQueuedState exampleTwoTransfersState [20] [21] 5 5 1
    ⟨1, 2, 3⟩ kUSBOut 100010 exampleScatteredBuffer 3 7 .kIOReturnSuccess
    exampleBulkQueuedState_reachable ?_ exampleTwoTransfersState_call
  intro e back h
  rw [exampleBulkQueuedState_lookup] at h
  simp only [Outcome.ret.injEq, Option.some.injEq, Prod.mk.injEq] at h
  simp [← h.1]

theorem exampleFailedIsochState_reachable :
    TailReachable exampleHeader exampleFailedIsochState [] [20] := by
  have h0 : TailReachable exampleHeader exampleScarcePoolState [] [] :=
    TailReachable.start _ exampleScarcePoolState_pools
  have h1 : TailReachable exampleHeader exampleScarceState [] [20] :=
    TailReachable.create exampleScarcePoolState exampleScarceState [] [] 5 1 64
      kUSBDeviceSpeedFull kOHCIEDDirectionOut 5 kOHCIEDFormatIsochronousTD (some 20) h0
      (Outcome.ret_endpointStateOr _ ⟨_, rfl⟩)
  have hfind : FindIsochronousEndpoint exampleScarceState 5 5 1
      (if kUSBOut = kUSBOut then kOHCIEDDirectionOut else kOHCIEDDirectionIn)
      = .ret (some (20, 5)) := rfl
  refine TailReachable.isoch exampleScarceState exampleFailedIsochState [] [20] 5 5 1
    ⟨1, 2, 3⟩ kUSBOut 100010 exampleScatteredBuffer 3 7 .kIOReturnNoMemory h1 ?_
    (Outcome.ret_stateOr _ ⟨_, rfl⟩)
  intro e back h
  rw [hfind] at h
  simp only [Outcome.ret.injEq, Option.some.injEq, Prod.mk.injEq] at h
  simp [← h.1]

/-- Witness for the amended C7: the example driver with a bulk endpoint (descriptor 20) and an
isochronous endpoint (descriptor 21), after a successful `CreateGeneralTransfer` of 200 bytes
and a successful `UIMCreateIsochTransfer` of 3 frames, is reachable; the invariant holds in it,
and both calls appended behind the former placeholder and took the new tail from the pool. -/
theorem tail_placeholder_invariant_witness :
    TailReachable exampleHeader exampleTwoTransfersState [20] [21]
      ∧ TailPlaceholders exampleTwoTransfersState [20] [21]
      ∧ GeneralAppended exampleTwoEndpointsState exampleBulkQueuedState 20 77
      ∧ IsochAppended exampleBulkQueuedState exampleTwoTransfersState 21 ⟨1, 2, 3⟩ :=
  ⟨exampleTwoTransfersState_reachable,
    (tail_placeholder_invariant exampleHeader exampleTwoTransfersState [20] [21]
      exampleTwoTransfersState_reachable).1,
    (tail_placeholder_invariant exampleHeader exampleTwoEndpointsState [20] [21]
      exampleTwoEndpointsState_reachable).2.1 20 (by simp) 77 exampleBuffer 200 0 1 4
      exampleBulkQueuedState exampleBulkQueuedState_call,
    (tail_placeholder_invariant exampleHeader exampleBulkQueuedState [20] [21]
      exampleBulkQueuedState_reachable).2.2 5 5 1 ⟨1, 2, 3⟩ kUSBOut 100010
      exampleScatteredBuffer 3 7 21 5 exampleTwoTransfersState exampleBulkQueuedState_lookup
      (by simp) exampleTwoTransfersState_call⟩

/-- Counterexample to C7 as stated: the driver whose pool holds two isochronous transfer
descriptors creates the isochronous endpoint (5, 1, out), descriptor 20, with the blank
placeholder 200.  A `UIMCreateIsochTransfer` of 3 frames on three pages, with the frame list 7,
needs a second descriptor, finds the pool empty and returns `kIOReturnNoMemory`.  In the state
it leaves, which is reachable, the tail of the endpoint is still the descriptor 200, and that
descriptor carries the frame list, the type tag, the buffer page and the frame offset of the
request that failed. -/
theorem tail_placeholder_counterexample :
    TailReachable exampleHeader exampleFailedIsochState [] [20]
      ∧ (UIMCreateIsochTransfer exampleHeader exampleScarceState 5 5 1 ⟨1, 2, 3⟩ kUSBOut 100010
          exampleScatteredBuffer 3 7).status = some .kIOReturnNoMemory
      ∧ (exampleScarceState.eds 20).pLogicalTailP = 200
      ∧ (exampleScarceState.itds 200).pIsocFrame = 0
      ∧ (exampleScarceState.itds 200).pType = 0
      ∧ (exampleFailedIsochState.eds 20).pLogicalTailP = 200
      ∧ (exampleFailedIsochState.eds 20).tdQueueTailPtr
          = (exampleFailedIsochState.itds 200).pPhysical
      ∧ (exampleFailedIsochState.itds 200).pIsocFrame = 7
      ∧ (exampleFailedIsochState.itds 200).pType = exampleHeader.kOHCIIsochronousOutType
      ∧ (exampleFailedIsochState.itds 200).bufferPage0 = 0x1000
      ∧ (exampleFailedIsochState.itds 200).offset 1 ≠ 0 :=
  ⟨exampleFailedIsochState_reachable, by decide⟩

/-! ## The start frame window of the isochronous transfers -/

/-- The start frame test lets a request pass whose start frame is at most `0x7FF0` frames
behind a current frame number of at least `0x7FF0`. -/
theorem isochFrameWindow_recent {frameNumberStart curFrameNumber : Nat}
    (hle : frameNumberStart ≤ curFrameNumber) (hcur : curFrameNumber < W64)
    (hlate : 0x7FF0 ≤ curFrameNumber) (hnear : curFrameNumber - frameNumberStart ≤ 0x7FF0) :
    isochFrameWindow frameNumberStart curFrameNumber = none := by
  have hsub : sub64 curFrameNumber 0x00007FF0 = curFrameNumber - 0x7FF0 := by
    unfold sub64 W64 at *
    omega
  have hlt : ¬ frameNumberStart < curFrameNumber - 0x7FF0 := by omega
  simp [isochFrameWindow, hle, hsub, hlt]

/-- In the first `0x7FF0` frames the subtraction `curFrameNumber - maxOffset` of the start frame
test wraps around, and every start frame at or before the current frame is refused. -/
theorem isochFrameWindow_early {frameNumberStart curFrameNumber : Nat}
    (hle : frameNumberStart ≤ curFrameNumber) (hearly : curFrameNumber < 0x7FF0) :
    isochFrameWindow frameNumberStart curFrameNumber = some .kIOReturnIsoTooOld := by
  have hsub : sub64 curFrameNumber 0x00007FF0 = curFrameNumber + W64 - 0x7FF0 := by
    unfold sub64 W64 at *
    omega
  have hlt : frameNumberStart < curFrameNumber + W64 - 0x7FF0 := by
    unfold W64
    omega
  simp [isochFrameWindow, hle, hsub, hlt]

/-- Both variants of `UIMCreateIsochTransfer`, called within the first `0x7FF0` frames for an
endpoint that the lookup finds, with a start frame at or before the current frame, return
`kIOReturnIsoTooOld` with the state they were given. -/
theorem UIMCreateIsochTransfer_early_frames (H : Header) (st : AppleUSBOHCI)
    (fuel functionAddress endpointNumber : Nat) (completion : IOUSBCompletion)
    (direction frameNumberStart : Nat) (pBuffer : IOMemoryDescriptor)
    (frameCount pFrames updateFrequency pED back : Nat)
    (hFound : FindIsochronousEndpoint st fuel functionAddress endpointNumber
      (edDirection direction) = .ret (some (pED, back)))
    (hDirection : direction = kUSBOut ∨ direction = kUSBIn)
    (hCount : 1 ≤ frameCount ∧ frameCount ≤ 1000)
    (hStart : frameNumberStart ≤ GetFrameNumber st) (hEarly : GetFrameNumber st < 0x7FF0) :
    UIMCreateIsochTransfer H st fuel functionAddress endpointNumber completion direction
        frameNumberStart pBuffer frameCount pFrames = .ret (.kIOReturnIsoTooOld, st)
      ∧ UIMCreateIsochTransferLL H st fuel functionAddress endpointNumber completion
        direction frameNumberStart pBuffer frameCount pFrames updateFrequency
        = .ret (.kIOReturnIsoTooOld, st) := by
  have hcnt : ¬ (frameCount = 0 ∨ frameCount > 1000) := by omega
  have hdir : ¬ (direction ≠ kUSBOut ∧ direction ≠ kUSBIn) := by
    rintro ⟨h1, h2⟩
    rcases hDirection with h | h
    · exact h1 h
    · exact h2 h
  have hed := edDirection_of_in_out hDirection
  have hmod : frameNumberStart % W64 = frameNumberStart :=
    Nat.mod_eq_of_lt (by unfold W64; omega)
  have hw := isochFrameWindow_early hStart hEarly
  constructor
  · simp only [UIMCreateIsochTransfer, hcnt, hdir, ↓reduceIte, hed, hFound, Outcome.bind_ret,
      UIMCreateIsochTransfer.queue, hmod, hw]
  · simp only [UIMCreateIsochTransferLL, hcnt, hdir, ↓reduceIte, hed, hFound,
      Outcome.bind_ret, UIMCreateIsochTransferLL.queue, hmod, hw]

/-- C11, the code at a failing input: one hundred frames after the controller started, a
request of one frame for the current frame, on the existing isochronous endpoint (5, 1, out),
is returned with `kIOReturnIsoTooOld` by both variants, although the start frame is not behind
the current frame at all. -/
theorem UIMCreateIsochTransfer_current_frame_too_old :
    GetFrameNumber exampleEarlyState = 100
      ∧ FindIsochronousEndpoint exampleEarlyState 5 5 1 (edDirection kUSBOut)
        = .ret (some (20, 5))
      ∧ UIMCreateIsochTransfer exampleHeader exampleEarlyState 5 5 1 ⟨1, 2, 3⟩ kUSBOut 100
        exampleBuffer 1 0 = .ret (.kIOReturnIsoTooOld, exampleEarlyState)
      ∧ UIMCreateIsochTransferLL exampleHeader exampleEarlyState 5 5 1 ⟨1, 2, 3⟩ kUSBOut 100
        exampleBuffer 1 0 0 = .ret (.kIOReturnIsoTooOld, exampleEarlyState) := by
  have hcur : GetFrameNumber exampleEarlyState = 100 := by decide
  have hfound : FindIsochronousEndpoint exampleEarlyState 5 5 1 (edDirection kUSBOut)
      = .ret (some (20, 5)) := by rfl
  exact ⟨hcur, hfound, UIMCreateIsochTransfer_early_frames exampleHeader exampleEarlyState 5 5 1
    ⟨1, 2, 3⟩ kUSBOut 100 exampleBuffer 1 0 0 20 5 hfound (Or.inl rfl) (by decide)
    (by rw [hcur]) (by rw [hcur]; decide)⟩

/-! ## The frame size check of the isochronous transfers -/

theorem UIMCreateIsochTransfer.bufferSize_none (st : AppleUSBOHCI) (pFrames : Nat) :
    ∀ (n i bufferSize j : Nat), j < n →
      (st.isocFrames pFrames (i + j)).frReqCount > kUSBMaxIsocFrameReqCount →
      UIMCreateIsochTransfer.bufferSize st pFrames n i bufferSize = none
  | 0, _, _, _, hj, _ => by omega
  | n + 1, i, bufferSize, j, hj, hbig => by
    rw [UIMCreateIsochTransfer.bufferSize]
    split_ifs with h
    · rfl
    · rcases j with _ | j
      · exact absurd hbig h
      · apply UIMCreateIsochTransfer.bufferSize_none st pFrames n (i + 1) _ j (by omega)
        rw [show i + 1 + j = i + (j + 1) by omega]
        exact hbig

/-- The frame size check of the low latency variant touches nothing but the status words of
the frame list. -/
theorem UIMCreateIsochTransferLL.bufferSize_frame (H : Header) (pFrames : Nat) :
    ∀ (n i bufferSize : Nat) (st : AppleUSBOHCI),
      (UIMCreateIsochTransferLL.bufferSize H pFrames n i bufferSize st).2
          = { st with isocFrames :=
                (UIMCreateIsochTransferLL.bufferSize H pFrames n i bufferSize st).2.isocFrames }
        ∧ ∀ p k, (((UIMCreateIsochTransferLL.bufferSize H pFrames n i bufferSize st).2.isocFrames
            p k).frReqCount = (st.isocFrames p k).frReqCount
          ∧ ((UIMCreateIsochTransferLL.bufferSize H pFrames n i bufferSize st).2.isocFrames
            p k).frActCount = (st.isocFrames p k).frActCount)
  | 0, _, _, _ => ⟨rfl, fun _ _ => ⟨rfl, rfl⟩⟩
  | n + 1, i, bufferSize, st => by
    rw [UIMCreateIsochTransferLL.bufferSize]
    split_ifs with h
    · exact ⟨rfl, fun _ _ => ⟨rfl, rfl⟩⟩
    · dsimp only
      have ih := UIMCreateIsochTransferLL.bufferSize_frame H pFrames n (i + 1)
      refine ⟨(ih _ _).1, ?_⟩
      intro p k
      rw [((ih _ _).2 p k).1, ((ih _ _).2 p k).2]
      by_cases hp : p = pFrames
      · subst hp
        by_cases hk : k = i
        · subst hk; simp
        · simp [Function.update_noteq hk]
      · simp [Function.update_noteq hp]

theorem UIMCreateIsochTransferLL.bufferSize_none_ll (H : Header) (pFrames : Nat) :
    ∀ (n i bufferSize j : Nat) (st : AppleUSBOHCI), j < n →
      (st.isocFrames pFrames (i + j)).frReqCount > kUSBMaxIsocFrameReqCount →
      (UIMCreateIsochTransferLL.bufferSize H pFrames n i bufferSize st).1 = none
  | 0, _, _, _, _, hj, _ => by omega
  | n + 1, i, bufferSize, j, st, hj, hbig => by
    rw [UIMCreateIsochTransferLL.bufferSize]
    split_ifs with h
    · rfl
    · rcases j with _ | j
      · exact absurd hbig h
      · dsimp only
        apply UIMCreateIsochTransferLL.bufferSize_none_ll H pFrames n (i + 1) _ j _ (by omega)
        rw [show i + 1 + j = i + (j + 1) by omega]
        have hne : i + (j + 1) ≠ i := by omega
        simpa [Function.update_noteq hne] using hbig

/-- C12: for either variant of `UIMCreateIsochTransfer`, on an endpoint that the lookup finds,
with a direction of in or out, a frame count between 1 and 1000 and a start frame that passes
the window test: when some frame `i` of the request asks for more than
`kUSBMaxIsocFrameReqCount` bytes, the call returns `kIOReturnBadArgument`.  The standard
variant returns the state it was given; the low latency variant returns a state that differs
from it in nothing but the status words of the frame list.  So no isochronous descriptor has
left the pool, and the endpoint descriptors with their queues and tail pointers are as before. -/
theorem UIMCreateIsochTransfer_frame_too_big (H : Header) (st : AppleUSBOHCI)
    (fuel functionAddress endpointNumber : Nat) (completion : IOUSBCompletion)
    (direction frameNumberStart : Nat) (pBuffer : IOMemoryDescriptor)
    (frameCount pFrames updateFrequency pED back i : Nat)
    (hFound : FindIsochronousEndpoint st fuel functionAddress endpointNumber
      (edDirection direction) = .ret (some (pED, back)))
    (hDirection : direction = kUSBOut ∨ direction = kUSBIn)
    (hCount : 1 ≤ frameCount ∧ frameCount ≤ 1000)
    (hWindow : isochFrameWindow (frameNumberStart % W64) (GetFrameNumber st) = none)
    (hFrame : i < frameCount)
    (hBig : (st.isocFrames pFrames i).frReqCount > kUSBMaxIsocFrameReqCount) :
    UIMCreateIsochTransfer H st fuel functionAddress endpointNumber completion direction
        frameNumberStart pBuffer frameCount pFrames = .ret (.kIOReturnBadArgument, st)
      ∧ ∃ st', UIMCreateIsochTransferLL H st fuel functionAddress endpointNumber completion
          direction frameNumberStart pBuffer frameCount pFrames updateFrequency
          = .ret (.kIOReturnBadArgument, st')
        ∧ st' = { st with isocFrames := st'.isocFrames }
        ∧ st'.pFreeITD = st.pFreeITD ∧ st'.eds = st.eds ∧ st'.itds = st.itds
        ∧ ∀ p k, (st'.isocFrames p k).frReqCount = (st.isocFrames p k).frReqCount
          ∧ (st'.isocFrames p k).frActCount = (st.isocFrames p k).frActCount := by
  have hcnt : ¬ (frameCount = 0 ∨ frameCount > 1000) := by omega
  have hdir : ¬ (direction ≠ kUSBOut ∧ direction ≠ kUSBIn) := by
    rintro ⟨h1, h2⟩
    rcases hDirection with h | h
    · exact h1 h
    · exact h2 h
  have hed := edDirection_of_in_out hDirection
  have hstd := UIMCreateIsochTransfer.bufferSize_none st pFrames frameCount 0 0 i hFrame
    (by rw [Nat.zero_add]; exact hBig)
  have hll := UIMCreateIsochTransferLL.bufferSize_none_ll H pFrames frameCount 0 0 i st hFrame
    (by rw [Nat.zero_add]; exact hBig)
  obtain ⟨hframe, hcounts⟩ := UIMCreateIsochTransferLL.bufferSize_frame H pFrames frameCount 0 0 st
  constructor
  · simp only [UIMCreateIsochTransfer, hcnt, hdir, ↓reduceIte, hed, hFound, Outcome.bind_ret,
      UIMCreateIsochTransfer.queue, hWindow, hstd]
  · refine ⟨(UIMCreateIsochTransferLL.bufferSize H pFrames frameCount 0 0 st).2, ?_, hframe,
      ?_, ?_, ?_, hcounts⟩
    · simp only [UIMCreateIsochTransferLL, hcnt, hdir, ↓reduceIte, hed, hFound,
        Outcome.bind_ret, UIMCreateIsochTransferLL.queue, hWindow]
      rcases hb : UIMCreateIsochTransferLL.bufferSize H pFrames frameCount 0 0 st with ⟨r, s⟩
      rw [hb] at hll
      simp only at hll
      subst hll
      rfl
    · rw [hframe]
    · rw [hframe]
    · rw [hframe]

/-- Witness for C12: on the example driver with its isochronous endpoint (5, 1, out), whose
frames all ask for 1000 bytes, the frame list 9 is given a second frame of 1024 bytes; a request
of 8 frames for frame 100010 is refused by both variants, and the pool of isochronous
descriptors and the tail of the endpoint are as before. -/
theorem UIMCreateIsochTransfer_frame_too_big_witness :
    (exampleBigFrameState.isocFrames 9 1).frReqCount > kUSBMaxIsocFrameReqCount
      ∧ UIMCreateIsochTransfer exampleHeader exampleBigFrameState 5 5 1 ⟨1, 2, 3⟩ kUSBOut 100010
        exampleBuffer 8 9 = .ret (.kIOReturnBadArgument, exampleBigFrameState)
      ∧ ∃ st', UIMCreateIsochTransferLL exampleHeader exampleBigFrameState 5 5 1 ⟨1, 2, 3⟩
          kUSBOut 100010 exampleBuffer 8 9 0 = .ret (.kIOReturnBadArgument, st')
        ∧ st'.pFreeITD = exampleBigFrameState.pFreeITD
        ∧ st'.eds = exampleBigFrameState.eds := by
  have hbig : (exampleBigFrameState.isocFrames 9 1).frReqCount > kUSBMaxIsocFrameReqCount := by
    decide
  obtain ⟨h1, st', h2, -, h3, h4, -⟩ := UIMCreateIsochTransfer_frame_too_big exampleHeader
    exampleBigFrameState 5 5 1 ⟨1, 2, 3⟩ kUSBOut 100010 exampleBuffer 8 9 0 20 5 1 (by rfl)
    (Or.inl rfl) (by decide) (by decide) (by decide) hbig
  exact ⟨hbig, h1, st', h2, h3, h4⟩

/-! ## The bandwidth ledger of the isochronous endpoints -/

/-- The `UInt32` difference of two words in order is their difference. -/
theorem sub32_of_le {a b : Nat} (ha : a < W32) (hb : b ≤ a) : sub32 a b = a - b := by
  unfold sub32 W32 at *
  omega

/-- The max packet size field of a 32-bit flags word is below 2048. -/
theorem maxPacketSize_field_lt (flags : Nat) :
    (flags &&& kOHCIEDControl_MPS) >>> kOHCIEDControl_MPSPhase < 2048 := by
  have h : flags &&& kOHCIEDControl_MPS ≤ kOHCIEDControl_MPS := Nat.and_le_right
  rw [Nat.shiftRight_eq_div_pow]
  unfold kOHCIEDControl_MPS kOHCIEDControl_MPSPhase at *
  omega

/-- C19: `UIMCreateIsochEndpoint` with a 32-bit `maxPacketSize`.  For a new endpoint (the lookup
finds none) a `maxPacketSize` above `_isochBandwidthAvail` returns `kIOReturnNoBandwidth` with
the state it was given, and a `maxPacketSize` that does not exceed it is never answered by
`kIOReturnNoBandwidth`.  For an existing endpoint a requested increase (`maxPacketSize` minus
the current max packet size) above `_isochBandwidthAvail` returns `kIOReturnNoBandwidth` with
the state it was given, and every other request returns `kIOReturnSuccess`. -/
theorem UIMCreateIsochEndpoint_no_bandwidth (st : AppleUSBOHCI)
    (fuel functionAddress endpointNumber maxPacketSize direction : Nat)
    (hSize : maxPacketSize < W32) :
    (FindIsochronousEndpoint st fuel functionAddress endpointNumber (edDirection direction)
        = .ret none →
      (maxPacketSize > st.isochBandwidthAvail →
        UIMCreateIsochEndpoint st fuel functionAddress endpointNumber maxPacketSize direction
          = .ret (.kIOReturnNoBandwidth, st))
      ∧ (maxPacketSize ≤ st.isochBandwidthAvail → ∀ st',
        UIMCreateIsochEndpoint st fuel functionAddress endpointNumber maxPacketSize direction
          ≠ .ret (.kIOReturnNoBandwidth, st')))
    ∧ ∀ pED back, FindIsochronousEndpoint st fuel functionAddress endpointNumber
        (edDirection direction) = .ret (some (pED, back)) →
      (maxPacketSize > ((st.eds pED).flags &&& kOHCIEDControl_MPS) >>> kOHCIEDControl_MPSPhase
          ∧ maxPacketSize - ((st.eds pED).flags &&& kOHCIEDControl_MPS) >>> kOHCIEDControl_MPSPhase
            > st.isochBandwidthAvail →
        UIMCreateIsochEndpoint st fuel functionAddress endpointNumber maxPacketSize direction
          = .ret (.kIOReturnNoBandwidth, st))
      ∧ (¬ (maxPacketSize > ((st.eds pED).flags &&& kOHCIEDControl_MPS) >>> kOHCIEDControl_MPSPhase
          ∧ maxPacketSize - ((st.eds pED).flags &&& kOHCIEDControl_MPS) >>> kOHCIEDControl_MPSPhase
            > st.isochBandwidthAvail) → ∃ st',
        UIMCreateIsochEndpoint st fuel functionAddress endpointNumber maxPacketSize direction
          = .ret (.kIOReturnSuccess, st')) := by
  refine ⟨fun hNew => ⟨fun hBig => ?_, fun hFit st' => ?_⟩, fun pED back hOld => ⟨?_, ?_⟩⟩
  · simp only [UIMCreateIsochEndpoint, hNew, Outcome.bind_ret, if_pos hBig]
  · have hnot : ¬ maxPacketSize > st.isochBandwidthAvail := by omega
    simp only [UIMCreateIsochEndpoint, hNew, Outcome.bind_ret, if_neg hnot]
    rcases AddEmptyEndPoint _ functionAddress endpointNumber maxPacketSize kUSBDeviceSpeedFull
      (edDirection direction) _ kOHCIEDFormatIsochronousTD with ⟨r, s⟩ | _ | _ | _ | _
    · cases r <;> simp [Outcome.bind]
    all_goals simp [Outcome.bind]
  · rintro ⟨hgt, hbig⟩
    have hne : maxPacketSize ≠
        ((st.eds pED).flags &&& kOHCIEDControl_MPS) >>> kOHCIEDControl_MPSPhase := by omega
    have hsub := sub32_of_le hSize (le_of_lt hgt)
    simp only [UIMCreateIsochEndpoint, hOld, Outcome.bind_ret, if_neg hne]
    rw [if_pos ⟨hgt, by rw [hsub]; exact hbig⟩]
  · intro hfit
    by_cases heq : maxPacketSize =
        ((st.eds pED).flags &&& kOHCIEDControl_MPS) >>> kOHCIEDControl_MPSPhase
    · exact ⟨st, by simp only [UIMCreateIsochEndpoint, hOld, Outcome.bind_ret, if_pos heq]⟩
    · have hno : ¬ (maxPacketSize >
            ((st.eds pED).flags &&& kOHCIEDControl_MPS) >>> kOHCIEDControl_MPSPhase
          ∧ sub32 maxPacketSize
              (((st.eds pED).flags &&& kOHCIEDControl_MPS) >>> kOHCIEDControl_MPSPhase)
            > st.isochBandwidthAvail) := by
        rintro ⟨hgt, hbig⟩
        rw [sub32_of_le hSize (le_of_lt hgt)] at hbig
        exact hfit ⟨hgt, hbig⟩
      simp only [UIMCreateIsochEndpoint, hOld, Outcome.bind_ret, if_neg heq]
      rw [if_neg hno]
      exact ⟨_, rfl⟩

/-- Witness for C19: on the example driver with its isochronous endpoint (5, 1, out) of 64
bytes and 936 bytes left, a request to grow the endpoint to 2000 bytes and a request for a new
endpoint (6, 1, out) of 937 bytes return `kIOReturnNoBandwidth` with the state unchanged, and
a request to grow the endpoint to 1000 bytes succeeds. -/
theorem UIMCreateIsochEndpoint_no_bandwidth_witness :
    exampleIsochState.isochBandwidthAvail = 936
      ∧ UIMCreateIsochEndpoint exampleIsochState 5 5 1 2000 kUSBOut
        = .ret (.kIOReturnNoBandwidth, exampleIsochState)
      ∧ UIMCreateIsochEndpoint exampleIsochState 5 6 1 937 kUSBOut
        = .ret (.kIOReturnNoBandwidth, exampleIsochState)
      ∧ ∃ st', UIMCreateIsochEndpoint exampleIsochState 5 5 1 1000 kUSBOut
        = .ret (.kIOReturnSuccess, st') := by
  refine ⟨by decide, ?_, ?_, ?_⟩
  · exact ((UIMCreateIsochEndpoint_no_bandwidth exampleIsochState 5 5 1 2000 kUSBOut
      (by decide)).2 20 5 (by rfl)).1 ⟨by decide, by decide⟩
  · exact ((UIMCreateIsochEndpoint_no_bandwidth exampleIsochState 5 6 1 937 kUSBOut
      (by decide)).1 (by rfl)).1 (by decide)
  · exact ((UIMCreateIsochEndpoint_no_bandwidth exampleIsochState 5 5 1 1000 kUSBOut
      (by decide)).2 20 5 (by rfl)).2 (by decide)

/-- A max packet size below 2048 shifted to its place lies within the field. -/
theorem shl32_maxPacketSize {n : Nat} (hn : n ≤ 2047) :
    shl32 n kOHCIEDControl_MPSPhase = n <<< 16
      ∧ (n <<< 16) &&& kOHCIEDControl_MPS = n <<< 16 := by
  constructor
  · unfold shl32 kOHCIEDControl_MPSPhase W32
    rw [Nat.shiftLeft_eq]
    omega
  · have h1 : kOHCIEDControl_MPS = 2047 <<< 16 := by decide
    have h2 : n &&& 2047 = n := by
      have := Nat.and_pow_two_sub_one_eq_mod n 11
      simp only [Nat.reducePow, Nat.add_one_sub_one] at this
      rw [this]
      omega
    rw [h1]
    apply Nat.eq_of_testBit_eq
    intro i
    have h3 : (n &&& 2047).testBit (i - 16) = n.testBit (i - 16) := by rw [h2]
    rw [Nat.testBit_and] at h3
    simp only [Nat.testBit_and, Nat.testBit_shiftLeft]
    cases hd : decide (i ≥ 16)
    · rfl
    · simp only [Bool.true_and]
      exact h3

/-- The flags word after the resize: the max packet size field holds the new value and the
bits outside the field are those of the old word. -/
theorem resized_flags (flags n : Nat) (hn : n ≤ 2047) :
    ((andNot32 flags kOHCIEDControl_MPS ||| shl32 n kOHCIEDControl_MPSPhase)
        &&& kOHCIEDControl_MPS) >>> kOHCIEDControl_MPSPhase = n
      ∧ andNot32 (andNot32 flags kOHCIEDControl_MPS ||| shl32 n kOHCIEDControl_MPSPhase)
          kOHCIEDControl_MPS = andNot32 flags kOHCIEDControl_MPS := by
  obtain ⟨h1, h2⟩ := shl32_maxPacketSize hn
  rw [h1]
  constructor
  · rw [and_or_distrib, andNot32_and_self _ _ (by decide), h2, Nat.zero_or,
      kOHCIEDControl_MPSPhase, Nat.shiftLeft_shiftRight]
  · have h3 : (n <<< 16) &&& (4294967295 ^^^ kOHCIEDControl_MPS) = 0 := by
      rw [← h2, Nat.and_assoc]
      have : kOHCIEDControl_MPS &&& (4294967295 ^^^ kOHCIEDControl_MPS) = 0 := by decide
      rw [this, Nat.and_zero]
    unfold andNot32 at *
    rw [and_or_distrib, h3, Nat.or_zero, Nat.and_assoc, Nat.and_self]

/-- A field of the flags word that lies outside the max packet size field is read from the bits
outside that field. -/
theorem field_of_andNot32 (x m : Nat)
    (hm : (4294967295 ^^^ kOHCIEDControl_MPS) &&& m = m) :
    x &&& m = andNot32 x kOHCIEDControl_MPS &&& m := by
  unfold andNot32
  rw [Nat.and_assoc, hm]

/-- C20, as amended: `UIMCreateIsochEndpoint` for an isochronous endpoint that exists already,
with an admitted `maxPacketSize` (the requested increase does not exceed the ledger) of at most
2047, on a 32-bit ledger.  The call returns `kIOReturnSuccess`; the state differs from the one
given in the ledger and the flags word of that endpoint descriptor only (so no endpoint
descriptor is added); the max packet size field of the flags holds the new value and address,
endpoint number, direction, speed, skip and format are as before; when growing the ledger goes
down by the increase, when shrinking it goes up by the difference in 32-bit arithmetic, and with
an equal size the state is unchanged. -/
theorem UIMCreateIsochEndpoint_resize (st : AppleUSBOHCI)
    (fuel functionAddress endpointNumber maxPacketSize direction pED back : Nat)
    (hFound : FindIsochronousEndpoint st fuel functionAddress endpointNumber
      (edDirection direction) = .ret (some (pED, back)))
    (hSize : maxPacketSize ≤ 2047)
    (hLedger : st.isochBandwidthAvail < W32)
    (hAdmitted : ¬ (maxPacketSize >
        ((st.eds pED).flags &&& kOHCIEDControl_MPS) >>> kOHCIEDControl_MPSPhase
      ∧ maxPacketSize - ((st.eds pED).flags &&& kOHCIEDControl_MPS) >>> kOHCIEDControl_MPSPhase
        > st.isochBandwidthAvail)) :
    ∃ st', UIMCreateIsochEndpoint st fuel functionAddress endpointNumber maxPacketSize direction
        = .ret (.kIOReturnSuccess, st')
      ∧ (maxPacketSize ≠ ((st.eds pED).flags &&& kOHCIEDControl_MPS) >>> kOHCIEDControl_MPSPhase →
        st' = setED { st with isochBandwidthAvail := st'.isochBandwidthAvail } pED
          fun ed => { ed with flags := (st'.eds pED).flags })
      ∧ (maxPacketSize = ((st.eds pED).flags &&& kOHCIEDControl_MPS) >>> kOHCIEDControl_MPSPhase →
        st' = st)
      ∧ ((st'.eds pED).flags &&& kOHCIEDControl_MPS) >>> kOHCIEDControl_MPSPhase = maxPacketSize
      ∧ andNot32 (st'.eds pED).flags kOHCIEDControl_MPS
        = andNot32 (st.eds pED).flags kOHCIEDControl_MPS
      ∧ (st'.eds pED).flags &&& kOHCIEDControl_FA = (st.eds pED).flags &&& kOHCIEDControl_FA
      ∧ (st'.eds pED).flags &&& kOHCIEDControl_EN = (st.eds pED).flags &&& kOHCIEDControl_EN
      ∧ (st'.eds pED).flags &&& kOHCIEDControl_D = (st.eds pED).flags &&& kOHCIEDControl_D
      ∧ (st'.eds pED).flags &&& kOHCIEDControl_S = (st.eds pED).flags &&& kOHCIEDControl_S
      ∧ (st'.eds pED).flags &&& kOHCIEDControl_K = (st.eds pED).flags &&& kOHCIEDControl_K
      ∧ (st'.eds pED).flags &&& kOHCIEDControl_F = (st.eds pED).flags &&& kOHCIEDControl_F
      ∧ (maxPacketSize ≥ ((st.eds pED).flags &&& kOHCIEDControl_MPS) >>> kOHCIEDControl_MPSPhase →
        st'.isochBandwidthAvail + (maxPacketSize -
          ((st.eds pED).flags &&& kOHCIEDControl_MPS) >>> kOHCIEDControl_MPSPhase)
          = st.isochBandwidthAvail)
      ∧ (maxPacketSize ≤ ((st.eds pED).flags &&& kOHCIEDControl_MPS) >>> kOHCIEDControl_MPSPhase →
        st'.isochBandwidthAvail = (st.isochBandwidthAvail +
          (((st.eds pED).flags &&& kOHCIEDControl_MPS) >>> kOHCIEDControl_MPSPhase
            - maxPacketSize)) % W32) := by
  have hcur := maxPacketSize_field_lt (st.eds pED).flags
  generalize hc : ((st.eds pED).flags &&& kOHCIEDControl_MPS) >>> kOHCIEDControl_MPSPhase = cur
    at hcur hAdmitted ⊢
  have hfields : ∀ flags', andNot32 flags' kOHCIEDControl_MPS
        = andNot32 (st.eds pED).flags kOHCIEDControl_MPS →
      flags' &&& kOHCIEDControl_FA = (st.eds pED).flags &&& kOHCIEDControl_FA
      ∧ flags' &&& kOHCIEDControl_EN = (st.eds pED).flags &&& kOHCIEDControl_EN
      ∧ flags' &&& kOHCIEDControl_D = (st.eds pED).flags &&& kOHCIEDControl_D
      ∧ flags' &&& kOHCIEDControl_S = (st.eds pED).flags &&& kOHCIEDControl_S
      ∧ flags' &&& kOHCIEDControl_K = (st.eds pED).flags &&& kOHCIEDControl_K
      ∧ flags' &&& kOHCIEDControl_F = (st.eds pED).flags &&& kOHCIEDControl_F := by
    intro flags' h
    refine ⟨?_, ?_, ?_, ?_, ?_, ?_⟩ <;>
      rw [field_of_andNot32 flags' _ (by decide), field_of_andNot32 (st.eds pED).flags _
        (by decide), h]
  by_cases heq : maxPacketSize = cur
  · refine ⟨st, ?_, fun h => absurd heq h, fun _ => rfl, ?_, rfl, (hfields _ rfl).1,
      (hfields _ rfl).2.1, (hfields _ rfl).2.2.1, (hfields _ rfl).2.2.2.1,
      (hfields _ rfl).2.2.2.2.1, (hfields _ rfl).2.2.2.2.2, ?_, ?_⟩
    · simp only [UIMCreateIsochEndpoint, hFound, Outcome.bind_ret, hc, if_pos heq]
    · rw [hc, heq]
    · intro _
      rw [heq, Nat.sub_self, Nat.add_zero]
    · intro _
      rw [heq, Nat.sub_self, Nat.add_zero, Nat.mod_eq_of_lt hLedger]
  · have hno : ¬ (maxPacketSize > cur ∧ sub32 maxPacketSize cur > st.isochBandwidthAvail) := by
      rintro ⟨hgt, hbig⟩
      rw [sub32_of_le (by unfold W32; omega) (le_of_lt hgt)] at hbig
      exact hAdmitted ⟨hgt, hbig⟩
    obtain ⟨L, hL⟩ : ∃ L, L = if maxPacketSize > cur then
        sub32 st.isochBandwidthAvail (sub32 maxPacketSize cur)
      else add32 st.isochBandwidthAvail (sub32 cur maxPacketSize) := ⟨_, rfl⟩
    obtain ⟨F, hF⟩ : ∃ F, F = andNot32 (st.eds pED).flags kOHCIEDControl_MPS
        ||| shl32 maxPacketSize kOHCIEDControl_MPSPhase := ⟨_, rfl⟩
    have hcall : ∃ st', UIMCreateIsochEndpoint st fuel functionAddress endpointNumber
        maxPacketSize direction = .ret (.kIOReturnSuccess, st')
        ∧ st' = setED { st with isochBandwidthAvail := L } pED
          fun ed => { ed with flags := F } := by
      rw [hL, hF]
      simp only [UIMCreateIsochEndpoint, hFound, Outcome.bind_ret, hc, if_neg heq]
      rw [if_neg hno]
      exact ⟨_, rfl, rfl⟩
    obtain ⟨st', hret, hst⟩ := hcall
    have hflags : (st'.eds pED).flags = F := by
      rw [hst]
      simp [setED]
    have hled : st'.isochBandwidthAvail = L := by
      rw [hst]
      rfl
    have hshape : st' = setED { st with isochBandwidthAvail := st'.isochBandwidthAvail } pED
        fun ed => { ed with flags := (st'.eds pED).flags } := by
      rw [hflags, hled]
      exact hst
    rw [hF] at hflags
    rw [hL] at hled
    clear hL hF hst
    obtain ⟨hf1, hf2⟩ := resized_flags (st.eds pED).flags maxPacketSize hSize
    rw [← hflags] at hf1 hf2
    refine ⟨st', hret, fun _ => hshape, fun h => absurd h heq, hf1, hf2, (hfields _ hf2).1,
      (hfields _ hf2).2.1, (hfields _ hf2).2.2.1, (hfields _ hf2).2.2.2.1,
      (hfields _ hf2).2.2.2.2.1, (hfields _ hf2).2.2.2.2.2, ?_, ?_⟩
    · intro hge
      have hgt : maxPacketSize > cur := by omega
      rw [hled, if_pos hgt, sub32_of_le (by unfold W32; omega) (le_of_lt hgt),
        sub32_of_le hLedger (by omega)]
      omega
    · intro hle
      have hgt : ¬ maxPacketSize > cur := by omega
      rw [hled, if_neg hgt, sub32_of_le (by unfold W32; omega) hle]
      rfl

/-- Witness for C20 as amended: on the example driver with its isochronous endpoint (5, 1, out)
of 64 bytes and 936 bytes left, the endpoint is resized to 100 bytes. -/
theorem UIMCreateIsochEndpoint_resize_witness :
    exampleIsochState.isochBandwidthAvail = 936
      ∧ ((exampleIsochState.eds 20).flags &&& kOHCIEDControl_MPS) >>> kOHCIEDControl_MPSPhase
        = 64
      ∧ ∃ st', UIMCreateIsochEndpoint exampleIsochState 5 5 1 100 kUSBOut
          = .ret (.kIOReturnSuccess, st')
        ∧ ((st'.eds 20).flags &&& kOHCIEDControl_MPS) >>> kOHCIEDControl_MPSPhase = 100
        ∧ st'.isochBandwidthAvail + (100 -
          ((exampleIsochState.eds 20).flags &&& kOHCIEDControl_MPS) >>> kOHCIEDControl_MPSPhase)
          = exampleIsochState.isochBandwidthAvail := by
  obtain ⟨st', h1, -, -, h4, -, -, -, -, -, -, -, h12, -⟩ :=
    UIMCreateIsochEndpoint_resize exampleIsochState 5 5 1 100 kUSBOut 20 5 (by rfl) (by decide)
      (by decide) (by decide)
  exact ⟨by decide, by decide, st', h1, h4, h12 (by decide)⟩

/-- Counterexample to C20 as stated.  On the example driver with the isochronous endpoint
(5, 1, out) of 64 bytes and a ledger of 5000 bytes, the request to resize the endpoint to 3000
bytes is admitted and returns `kIOReturnSuccess`, and the max packet size field of the endpoint
then holds 952, not 3000.  With the ledger at 4294967295 the request to shrink the endpoint from
64 bytes to 0 returns `kIOReturnSuccess` and leaves 63 in the ledger, not 64 more than before. -/
theorem UIMCreateIsochEndpoint_resize_counterexample :
    FindIsochronousEndpoint exampleWideLedgerState 5 5 1 (edDirection kUSBOut)
        = .ret (some (20, 5))
      ∧ ((exampleWideLedgerState.eds 20).flags &&& kOHCIEDControl_MPS)
        >>> kOHCIEDControl_MPSPhase = 64
      ∧ exampleWideLedgerState.isochBandwidthAvail = 5000
      ∧ (UIMCreateIsochEndpoint exampleWideLedgerState 5 5 1 3000 kUSBOut).status
        = some .kIOReturnSuccess
      ∧ ((((UIMCreateIsochEndpoint exampleWideLedgerState 5 5 1 3000 kUSBOut).stateOr
          exampleWideLedgerState).eds 20).flags &&& kOHCIEDControl_MPS)
        >>> kOHCIEDControl_MPSPhase = 952
      ∧ FindIsochronousEndpoint exampleFullLedgerState 5 5 1 (edDirection kUSBOut)
        = .ret (some (20, 5))
      ∧ (UIMCreateIsochEndpoint exampleFullLedgerState 5 5 1 0 kUSBOut).status
        = some .kIOReturnSuccess
      ∧ ((UIMCreateIsochEndpoint exampleFullLedgerState 5 5 1 0 kUSBOut).stateOr
          exampleFullLedgerState).isochBandwidthAvail = 63
      ∧ exampleFullLedgerState.isochBandwidthAvail + 64 ≠ 63 := by
  refine ⟨by rfl, by decide, by decide, by decide, by decide, by rfl, by decide, by decide,
    by decide⟩

/-! ## The failure path of the isochronous transfers -/

/-- C16, the code at a failing input: the driver whose pool holds the isochronous transfer
descriptor 201 only, with the isochronous endpoint (5, 1, out) whose placeholder is 200.  A
transfer of 3 frames, each on a page of its own, takes 201 from the pool, fills the placeholder
with frame 0, and finds the pool empty when frame 1 asks for the next descriptor.  Both variants
return `kIOReturnNoMemory`, and the pool is empty afterwards: the descriptor 201 obtained during
the call, which hangs behind the placeholder, was not given back. -/
theorem UIMCreateIsochTransfer_leaked_descriptor :
    exampleScarceState.pFreeITD = [201]
      ∧ (exampleScarceState.eds 20).pLogicalTailP = 200
      ∧ (UIMCreateIsochTransfer exampleHeader exampleScarceState 5 5 1 ⟨1, 2, 3⟩ kUSBOut 100010
        exampleScatteredBuffer 3 7).status = some .kIOReturnNoMemory
      ∧ ((UIMCreateIsochTransfer exampleHeader exampleScarceState 5 5 1 ⟨1, 2, 3⟩ kUSBOut 100010
        exampleScatteredBuffer 3 7).stateOr exampleScarceState).pFreeITD = []
      ∧ (UIMCreateIsochTransferLL exampleHeader exampleScarceState 5 5 1 ⟨1, 2, 3⟩ kUSBOut
        100010 exampleScatteredBuffer 3 7 0).status = some .kIOReturnNoMemory
      ∧ ((UIMCreateIsochTransferLL exampleHeader exampleScarceState 5 5 1 ⟨1, 2, 3⟩ kUSBOut
        100010 exampleScatteredBuffer 3 7 0).stateOr exampleScarceState).pFreeITD = [] := by
  refine ⟨by decide, by decide, by decide, by decide, by decide, by decide⟩

/-! ## The tail pointers of the endpoint in the isochronous transfers -/

theorem AllocateITD_eds (st : AppleUSBOHCI) : (AllocateITD st).2.eds = st.eds := by
  unfold AllocateITD
  split <;> rfl

/-- A pass of the frame packing loop of the standard variant writes no endpoint descriptor. -/
theorem UIMCreateIsochTransfer.body_eds {pBuffer : IOMemoryDescriptor}
    {pFrames frameNumber tdType bufferSize : Nat} {l : IsochTransferLoop}
    {r : Sum IsochTransferLoop IsochTransferLoop}
    (h : UIMCreateIsochTransfer.body pBuffer pFrames frameNumber tdType bufferSize l = .ret r) :
    (r.elim (fun l' => l'.st.eds) fun l' => l'.st.eds) = l.st.eds := by
  unfold UIMCreateIsochTransfer.body at h
  obtain ⟨l1, h1, h2⟩ := Outcome.bind_eq_ret h
  have k1 := (IsochTransferLoop.placeOnPage_kept h1).1.eds
  rw [(l.getSegments_kept pBuffer pFrames bufferSize).1] at k1
  split_ifs at h2
  · dsimp only at h2
    have ha := AllocateITD_eds (setITD l1.st l1.pTailITD fun itd =>
      { itd with bufferEnd := l1.lastPhysical })
    split at h2
    · rename_i s heq
      rw [heq] at ha
      simp only [Outcome.ret.injEq] at h2
      subst h2
      exact ha.trans k1
    · rename_i p s heq
      rw [heq] at ha
      simp only [Outcome.ret.injEq] at h2
      subst h2
      exact ha.trans k1
  · obtain ⟨l2, h3, h4⟩ := Outcome.bind_eq_ret h2
    simp only [Outcome.ret.injEq] at h4
    subst h4
    exact (IsochTransferLoop.addFrame_kept h3).1.eds.trans k1

/-- A pass of the frame packing loop of the low latency variant writes no endpoint
descriptor. -/
theorem UIMCreateIsochTransferLL.body_eds_ll {pBuffer : IOMemoryDescriptor}
    {pFrames frameNumber tdType bufferSize updateFrequency : Nat} {l : IsochTransferLoop}
    {r : Sum IsochTransferLoop IsochTransferLoop}
    (h : UIMCreateIsochTransferLL.body pBuffer pFrames frameNumber tdType bufferSize
      updateFrequency l = .ret r) :
    (r.elim (fun l' => l'.st.eds) fun l' => l'.st.eds) = l.st.eds := by
  unfold UIMCreateIsochTransferLL.body at h
  obtain ⟨l1, h1, h2⟩ := Outcome.bind_eq_ret h
  have k1 := (IsochTransferLoop.placeOnPage_kept h1).1.eds
  rw [(l.getSegments_kept pBuffer pFrames bufferSize).1] at k1
  split at h2
  · dsimp only at h2
    have ha := AllocateITD_eds (setITD l1.st l1.pTailITD fun itd =>
      { itd with bufferEnd := l1.lastPhysical })
    split at h2
    · rename_i s heq
      rw [heq] at ha
      simp only [Outcome.ret.injEq] at h2
      subst h2
      exact ha.trans k1
    · rename_i p s heq
      rw [heq] at ha
      simp only [Outcome.ret.injEq] at h2
      subst h2
      exact ha.trans k1
  · obtain ⟨l2, h3, h4⟩ := Outcome.bind_eq_ret h2
    simp only [Outcome.ret.injEq] at h4
    subst h4
    exact (IsochTransferLoop.addFrame_kept h3).1.eds.trans k1

theorem UIMCreateIsochTransfer.loop_eds {pBuffer : IOMemoryDescriptor}
    {frameCount pFrames frameNumber tdType bufferSize : Nat} :
    ∀ (fuel : Nat) (l l' : IsochTransferLoop) (s : IOReturn),
      UIMCreateIsochTransfer.loop pBuffer frameCount pFrames frameNumber tdType bufferSize fuel l
        = .ret (s, l') → l'.st.eds = l.st.eds
  | 0, _, _, _, h => by simp [UIMCreateIsochTransfer.loop] at h
  | fuel + 1, l, l', s, h => by
    rw [UIMCreateIsochTransfer.loop] at h
    split_ifs at h
    · obtain ⟨r, h1, h2⟩ := Outcome.bind_eq_ret h
      have k := UIMCreateIsochTransfer.body_eds h1
      rcases r with l1 | l1
      · simp only [Outcome.ret.injEq, Prod.mk.injEq] at h2
        obtain ⟨-, rfl⟩ := h2
        exact k
      · exact (UIMCreateIsochTransfer.loop_eds fuel l1 l' s h2).trans k
    · simp only [Outcome.ret.injEq, Prod.mk.injEq] at h
      obtain ⟨-, rfl⟩ := h
      rfl

theorem UIMCreateIsochTransferLL.loop_eds_ll {pBuffer : IOMemoryDescriptor}
    {frameCount pFrames frameNumber tdType bufferSize updateFrequency : Nat} :
    ∀ (fuel : Nat) (l l' : IsochTransferLoop) (s : IOReturn),
      UIMCreateIsochTransferLL.loop pBuffer frameCount pFrames frameNumber tdType bufferSize
        updateFrequency fuel l = .ret (s, l') → l'.st.eds = l.st.eds
  | 0, _, _, _, h => by simp [UIMCreateIsochTransferLL.loop] at h
  | fuel + 1, l, l', s, h => by
    rw [UIMCreateIsochTransferLL.loop] at h
    split_ifs at h
    · obtain ⟨r, h1, h2⟩ := Outcome.bind_eq_ret h
      have k := UIMCreateIsochTransferLL.body_eds_ll h1
      rcases r with l1 | l1
      · simp only [Outcome.ret.injEq, Prod.mk.injEq] at h2
        obtain ⟨-, rfl⟩ := h2
        exact k
      · exact (UIMCreateIsochTransferLL.loop_eds_ll fuel l1 l' s h2).trans k
    · simp only [Outcome.ret.injEq, Prod.mk.injEq] at h
      obtain ⟨-, rfl⟩ := h
      rfl

theorem unlinkITDs_eds (stop : Nat) :
    ∀ (fuel : Nat) (st st' : AppleUSBOHCI) (p : Nat),
      unlinkITDs stop fuel st p = .ret st' → st'.eds = st.eds
  | 0, _, _, _, h => by simp [unlinkITDs] at h
  | fuel + 1, st, st', p, h => by
    rw [unlinkITDs] at h
    split_ifs at h
    · exact unlinkITDs_eds stop fuel (DeallocateITD st p) st' _ h
    · simp only [Outcome.ret.injEq] at h
      subst h
      rfl

/-- The end of both variants: on a failure no endpoint descriptor is written; on success the
endpoint descriptor `pED` gets its two tail pointers in the last store of the call, after the
last iTD has been completed. -/
theorem UIMCreateIsochTransfer.finish_eds {fuel pED : Nat} {completion : IOUSBCompletion}
    {status s : IOReturn} {l : IsochTransferLoop} {st' : AppleUSBOHCI}
    (h : UIMCreateIsochTransfer.finish fuel pED completion status l = .ret (s, st')) :
    s = status
      ∧ (status ≠ .kIOReturnSuccess → st'.eds = l.st.eds)
      ∧ (status = .kIOReturnSuccess → ∃ sF, sF.eds = l.st.eds
        ∧ st' = setED sF pED fun ed =>
          { ed with pLogicalTailP := l.pNewITD,
                    tdQueueTailPtr := (sF.itds l.pNewITD).pPhysical }) := by
  unfold UIMCreateIsochTransfer.finish at h
  dsimp only at h
  split_ifs at h with hs
  · obtain ⟨s1, h1, h2⟩ := Outcome.bind_eq_ret h
    simp only [Outcome.ret.injEq, Prod.mk.injEq] at h2
    obtain ⟨rfl, rfl⟩ := h2
    refine ⟨rfl, fun _ => ?_, fun hsucc => absurd hsucc hs⟩
    have hu := unlinkITDs_eds _ _ _ _ _ h1
    exact hu
  · simp only [Outcome.ret.injEq, Prod.mk.injEq] at h
    obtain ⟨rfl, rfl⟩ := h
    exact ⟨rfl, fun hne => absurd (not_not.mp hs) hne,
      fun _ => ⟨setITD l.st l.pTailITD _, rfl, rfl⟩⟩

theorem IsochStore.replay_append (a b : List IsochStore) (st : AppleUSBOHCI) :
    IsochStore.replay (a ++ b) st = IsochStore.replay b (IsochStore.replay a st) :=
  List.foldl_append _ _ _ _

theorem IsochStore.replay_nil (st : AppleUSBOHCI) : IsochStore.replay [] st = st :=
  rfl

theorem IsochStore.replay_cons (e : IsochStore) (a : List IsochStore) (st : AppleUSBOHCI) :
    IsochStore.replay (e :: a) st = IsochStore.replay a (e.apply st) :=
  rfl

/-- A store that is not one into an endpoint descriptor leaves the endpoint descriptors as
they are. -/
theorem IsochStore.apply_eds (e : IsochStore) (st : AppleUSBOHCI) (h : e.isEndpoint = false) :
    (e.apply st).eds = st.eds := by
  cases e with
  | transferDescriptor p f => rfl
  | endpointDescriptor p f => cases h
  | frameStatus pFrames i status => rfl
  | allocate => exact AllocateITD_eds st
  | deallocate p => rfl

/-- Stores none of which is one into an endpoint descriptor leave the endpoint descriptors as
they are. -/
theorem IsochStore.replay_eds :
    ∀ (log : List IsochStore) (st : AppleUSBOHCI), (∀ e ∈ log, e.isEndpoint = false) →
      (IsochStore.replay log st).eds = st.eds
  | [], _, _ => rfl
  | e :: log, st, h => by
    rw [IsochStore.replay_cons, IsochStore.replay_eds log _ fun x hx =>
      h x (List.mem_cons_of_mem _ hx)]
    exact IsochStore.apply_eds e st (h e (List.mem_cons_self _ _))

/-- The stores of `placeOnPageStores` are those of `placeOnPage`. -/
theorem IsochTransferLoop.placeOnPage_stores {l l1 : IsochTransferLoop}
    {pFrames frameNumber tdType : Nat}
    (h : l.placeOnPage pFrames frameNumber tdType = .ret l1) :
    IsochStore.replay (l.placeOnPageStores pFrames tdType) l.st = l1.st
      ∧ ∀ e ∈ l.placeOnPageStores pFrames tdType, e.isEndpoint = false := by
  unfold IsochTransferLoop.placeOnPage at h
  unfold IsochTransferLoop.placeOnPageStores
  split_ifs at h with h0 h1 h2
  · rw [if_pos h0]
    simp only [Outcome.ret.injEq] at h
    subst h
    refine ⟨rfl, fun e he => ?_⟩
    simp only [List.mem_singleton] at he
    subst he
    rfl
  · rw [if_neg h0]
    simp only [Outcome.ret.injEq] at h
    subst h
    exact ⟨rfl, fun e he => absurd he (List.not_mem_nil e)⟩
  · rw [if_neg h0]
    obtain ⟨seg, _, h4⟩ := Outcome.bind_eq_ret h
    simp only [Outcome.ret.injEq] at h4
    subst h4
    exact ⟨rfl, fun e he => absurd he (List.not_mem_nil e)⟩
  · rw [if_neg h0]
    simp only [Outcome.ret.injEq] at h
    subst h
    exact ⟨rfl, fun e he => absurd he (List.not_mem_nil e)⟩

/-- The stores of `bodyStores` are those of a pass of the standard loop, and none of them is
one into an endpoint descriptor. -/
theorem UIMCreateIsochTransfer.body_stores {pBuffer : IOMemoryDescriptor}
    {pFrames frameNumber tdType bufferSize : Nat} {l : IsochTransferLoop}
    {r : Sum IsochTransferLoop IsochTransferLoop}
    (h : UIMCreateIsochTransfer.body pBuffer pFrames frameNumber tdType bufferSize l = .ret r) :
    IsochStore.replay
        (UIMCreateIsochTransfer.bodyStores pBuffer pFrames frameNumber tdType bufferSize l) l.st
        = (r.elim (fun l' => l'.st) fun l' => l'.st)
      ∧ ∀ e ∈ UIMCreateIsochTransfer.bodyStores pBuffer pFrames frameNumber tdType bufferSize l,
          e.isEndpoint = false := by
  unfold UIMCreateIsochTransfer.body at h
  obtain ⟨l1, h1, h2⟩ := Outcome.bind_eq_ret h
  obtain ⟨p1, p2⟩ := IsochTransferLoop.placeOnPage_stores h1
  rw [(l.getSegments_kept pBuffer pFrames bufferSize).1] at p1
  unfold UIMCreateIsochTransfer.bodyStores
  rw [h1]
  try dsimp only
  split_ifs at h2 with hc
  · rw [if_pos hc]
    dsimp only at h2
    split at h2
    · rename_i s heq
      simp only [Outcome.ret.injEq] at h2
      subst h2
      have e2 := congrArg Prod.snd heq
      dsimp only at e2
      try rw [heq]
      try dsimp only
      refine ⟨?_, fun e he => ?_⟩
      · rw [IsochStore.replay_append, p1]
        simp only [List.cons_append, List.nil_append, List.append_nil, IsochStore.replay_cons,
          IsochStore.replay_nil, IsochStore.apply, e2, Sum.elim_inl]
      · simp only [List.mem_append, List.mem_cons, List.mem_singleton, List.not_mem_nil,
          or_false] at he
        rcases he with he | he | he
        · exact p2 e he
        · subst he; rfl
        · subst he; rfl
    · rename_i p s heq
      simp only [Outcome.ret.injEq] at h2
      subst h2
      have e2 := congrArg Prod.snd heq
      dsimp only at e2
      try rw [heq]
      try dsimp only
      refine ⟨?_, fun e he => ?_⟩
      · rw [IsochStore.replay_append, p1]
        simp only [List.cons_append, List.nil_append, List.append_nil, IsochStore.replay_cons,
          IsochStore.replay_nil, IsochStore.apply, e2, Sum.elim_inr]
      · simp only [List.mem_append, List.mem_cons, List.mem_singleton, List.not_mem_nil,
          or_false] at he
        rcases he with he | (he | he) | he | he
        · exact p2 e he
        · subst he; rfl
        · subst he; rfl
        · subst he; rfl
        · subst he; rfl
  · rw [if_neg hc]
    obtain ⟨l2, h3, h4⟩ := Outcome.bind_eq_ret h2
    simp only [Outcome.ret.injEq] at h4
    subst h4
    unfold IsochTransferLoop.addFrame at h3
    obtain ⟨seg, _, h5⟩ := Outcome.bind_eq_ret h3
    simp only [Outcome.ret.injEq] at h5
    subst h5
    refine ⟨?_, fun e he => ?_⟩
    · rw [IsochStore.replay_append, p1]
      rfl
    · simp only [List.mem_append, List.mem_singleton] at he
      rcases he with he | he
      · exact p2 e he
      · subst he; rfl

/-- The stores of `bodyStores` are those of a pass of the low latency loop, and none of them is
one into an endpoint descriptor. -/
theorem UIMCreateIsochTransferLL.body_stores_ll {pBuffer : IOMemoryDescriptor}
    {pFrames frameNumber tdType bufferSize updateFrequency : Nat} {l : IsochTransferLoop}
    {r : Sum IsochTransferLoop IsochTransferLoop}
    (h : UIMCreateIsochTransferLL.body pBuffer pFrames frameNumber tdType bufferSize
      updateFrequency l = .ret r) :
    IsochStore.replay
        (UIMCreateIsochTransferLL.bodyStores pBuffer pFrames frameNumber tdType bufferSize
          updateFrequency l) l.st
        = (r.elim (fun l' => l'.st) fun l' => l'.st)
      ∧ ∀ e ∈ UIMCreateIsochTransferLL.bodyStores pBuffer pFrames frameNumber tdType bufferSize
          updateFrequency l, e.isEndpoint = false := by
  unfold UIMCreateIsochTransferLL.body at h
  obtain ⟨l1, h1, h2⟩ := Outcome.bind_eq_ret h
  obtain ⟨p1, p2⟩ := IsochTransferLoop.placeOnPage_stores h1
  rw [(l.getSegments_kept pBuffer pFrames bufferSize).1] at p1
  unfold UIMCreateIsochTransferLL.bodyStores
  try dsimp only
  rw [h1]
  try dsimp only
  split at h2
  · rename_i hc
    rw [if_pos hc]
    dsimp only at h2
    split at h2
    · rename_i s heq
      simp only [Outcome.ret.injEq] at h2
      subst h2
      have e2 := congrArg Prod.snd heq
      dsimp only at e2
      try rw [heq]
      try dsimp only
      refine ⟨?_, fun e he => ?_⟩
      · rw [IsochStore.replay_append, p1]
        simp only [List.cons_append, List.nil_append, List.append_nil, IsochStore.replay_cons,
          IsochStore.replay_nil, IsochStore.apply, e2, Sum.elim_inl]
      · simp only [List.mem_append, List.mem_cons, List.mem_singleton, List.not_mem_nil,
          or_false] at he
        rcases he with he | he | he
        · exact p2 e he
        · subst he; rfl
        · subst he; rfl
    · rename_i p s heq
      simp only [Outcome.ret.injEq] at h2
      subst h2
      have e2 := congrArg Prod.snd heq
      dsimp only at e2
      try rw [heq]
      try dsimp only
      refine ⟨?_, fun e he => ?_⟩
      · rw [IsochStore.replay_append, p1]
        simp only [List.cons_append, List.nil_append, List.append_nil, IsochStore.replay_cons,
          IsochStore.replay_nil, IsochStore.apply, e2, Sum.elim_inr]
      · simp only [List.mem_append, List.mem_cons, List.mem_singleton, List.not_mem_nil,
          or_false] at he
        rcases he with he | (he | he) | he | he
        · exact p2 e he
        · subst he; rfl
        · subst he; rfl
        · subst he; rfl
        · subst he; rfl
  · rename_i hc
    rw [if_neg hc]
    obtain ⟨l2, h3, h4⟩ := Outcome.bind_eq_ret h2
    simp only [Outcome.ret.injEq] at h4
    subst h4
    unfold IsochTransferLoop.addFrame at h3
    obtain ⟨seg, _, h5⟩ := Outcome.bind_eq_ret h3
    simp only [Outcome.ret.injEq] at h5
    subst h5
    refine ⟨?_, fun e he => ?_⟩
    · rw [IsochStore.replay_append, p1]
      rfl
    · simp only [List.mem_append, List.mem_singleton] at he
      rcases he with he | he
      · exact p2 e he
      · subst he; rfl

/-- The stores of `loopStores` are those of the standard loop, and none of them is one into an
endpoint descriptor. -/
theorem UIMCreateIsochTransfer.loop_stores {pBuffer : IOMemoryDescriptor}
    {frameCount pFrames frameNumber tdType bufferSize : Nat} :
    ∀ (fuel : Nat) (l l' : IsochTransferLoop) (s : IOReturn),
      UIMCreateIsochTransfer.loop pBuffer frameCount pFrames frameNumber tdType bufferSize fuel l
        = .ret (s, l') →
      IsochStore.replay
          (IsochTransferLoop.loopStores
            (UIMCreateIsochTransfer.body pBuffer pFrames frameNumber tdType bufferSize)
            (UIMCreateIsochTransfer.bodyStores pBuffer pFrames frameNumber tdType bufferSize)
            frameCount fuel l) l.st = l'.st
        ∧ ∀ e ∈ IsochTransferLoop.loopStores
            (UIMCreateIsochTransfer.body pBuffer pFrames frameNumber tdType bufferSize)
            (UIMCreateIsochTransfer.bodyStores pBuffer pFrames frameNumber tdType bufferSize)
            frameCount fuel l, e.isEndpoint = false
  | 0, _, _, _, h => by simp [UIMCreateIsochTransfer.loop] at h
  | fuel + 1, l, l', s, h => by
    rw [UIMCreateIsochTransfer.loop] at h
    rw [IsochTransferLoop.loopStores]
    split_ifs at h with hlt
    · rw [if_pos hlt]
      obtain ⟨r, h1, h2⟩ := Outcome.bind_eq_ret h
      obtain ⟨b1, b2⟩ := UIMCreateIsochTransfer.body_stores h1
      rw [h1]
      rcases r with l1 | l1
      · simp only [Outcome.ret.injEq, Prod.mk.injEq] at h2
        obtain ⟨-, rfl⟩ := h2
        try dsimp only
        try rw [List.append_nil]
        exact ⟨b1, b2⟩
      · dsimp only at h2 ⊢
        obtain ⟨c1, c2⟩ := UIMCreateIsochTransfer.loop_stores fuel l1 l' s h2
        refine ⟨?_, fun e he => ?_⟩
        · rw [IsochStore.replay_append, b1]
          exact c1
        · rcases List.mem_append.1 he with he | he
          · exact b2 e he
          · exact c2 e he
    · rw [if_neg hlt]
      simp only [Outcome.ret.injEq, Prod.mk.injEq] at h
      obtain ⟨-, rfl⟩ := h
      exact ⟨rfl, fun e he => absurd he (List.not_mem_nil e)⟩

/-- The stores of `loopStores` are those of the low latency loop, and none of them is one into
an endpoint descriptor. -/
theorem UIMCreateIsochTransferLL.loop_stores_ll {pBuffer : IOMemoryDescriptor}
    {frameCount pFrames frameNumber tdType bufferSize updateFrequency : Nat} :
    ∀ (fuel : Nat) (l l' : IsochTransferLoop) (s : IOReturn),
      UIMCreateIsochTransferLL.loop pBuffer frameCount pFrames frameNumber tdType bufferSize
        updateFrequency fuel l = .ret (s, l') →
      IsochStore.replay
          (IsochTransferLoop.loopStores
            (UIMCreateIsochTransferLL.body pBuffer pFrames frameNumber tdType bufferSize
              updateFrequency)
            (UIMCreateIsochTransferLL.bodyStores pBuffer pFrames frameNumber tdType bufferSize
              updateFrequency)
            frameCount fuel l) l.st = l'.st
        ∧ ∀ e ∈ IsochTransferLoop.loopStores
            (UIMCreateIsochTransferLL.body pBuffer pFrames frameNumber tdType bufferSize
              updateFrequency)
            (UIMCreateIsochTransferLL.bodyStores pBuffer pFrames frameNumber tdType bufferSize
              updateFrequency)
            frameCount fuel l, e.isEndpoint = false
  | 0, _, _, _, h => by simp [UIMCreateIsochTransferLL.loop] at h
  | fuel + 1, l, l', s, h => by
    rw [UIMCreateIsochTransferLL.loop] at h
    rw [IsochTransferLoop.loopStores]
    split_ifs at h with hlt
    · rw [if_pos hlt]
      obtain ⟨r, h1, h2⟩ := Outcome.bind_eq_ret h
      obtain ⟨b1, b2⟩ := UIMCreateIsochTransferLL.body_stores_ll h1
      rw [h1]
      rcases r with l1 | l1
      · simp only [Outcome.ret.injEq, Prod.mk.injEq] at h2
        obtain ⟨-, rfl⟩ := h2
        try dsimp only
        try rw [List.append_nil]
        exact ⟨b1, b2⟩
      · dsimp only at h2 ⊢
        obtain ⟨c1, c2⟩ := UIMCreateIsochTransferLL.loop_stores_ll fuel l1 l' s h2
        refine ⟨?_, fun e he => ?_⟩
        · rw [IsochStore.replay_append, b1]
          exact c1
        · rcases List.mem_append.1 he with he | he
          · exact b2 e he
          · exact c2 e he
    · rw [if_neg hlt]
      simp only [Outcome.ret.injEq, Prod.mk.injEq] at h
      obtain ⟨-, rfl⟩ := h
      exact ⟨rfl, fun e he => absurd he (List.not_mem_nil e)⟩

/-- The stores of `unlinkITDsStores` are those of the loop of the failure path, and none of
them is one into an endpoint descriptor. -/
theorem unlinkITDs_stores (stop : Nat) :
    ∀ (fuel : Nat) (st st' : AppleUSBOHCI) (p : Nat),
      unlinkITDs stop fuel st p = .ret st' →
      IsochStore.replay (unlinkITDsStores stop fuel st p) st = st'
        ∧ ∀ e ∈ unlinkITDsStores stop fuel st p, e.isEndpoint = false
  | 0, _, _, _, h => by simp [unlinkITDs] at h
  | fuel + 1, st, st', p, h => by
    rw [unlinkITDs] at h
    rw [unlinkITDsStores]
    split_ifs at h with h1 h2
    · rw [if_pos h1, if_neg h2]
      obtain ⟨c1, c2⟩ := unlinkITDs_stores stop fuel (DeallocateITD st p) st' _ h
      refine ⟨c1, fun e he => ?_⟩
      rcases List.mem_cons.1 he with he | he
      · subst he; rfl
      · exact c2 e he
    · rw [if_neg h1]
      simp only [Outcome.ret.injEq] at h
      subst h
      exact ⟨rfl, fun e he => absurd he (List.not_mem_nil e)⟩

/-- The stores of `finishStores` are those of the end of both variants: on a failure none is
one into an endpoint descriptor, on success they are the completion of the last iTD and then
the store of the tail pointers. -/
theorem UIMCreateIsochTransfer.finish_stores {fuel pED : Nat} {completion : IOUSBCompletion}
    {status s : IOReturn} {l : IsochTransferLoop} {st' : AppleUSBOHCI}
    (h : UIMCreateIsochTransfer.finish fuel pED completion status l = .ret (s, st')) :
    s = status
      ∧ IsochStore.replay (UIMCreateIsochTransfer.finishStores fuel pED completion status l) l.st
        = st'
      ∧ (status ≠ .kIOReturnSuccess →
        ∀ e ∈ UIMCreateIsochTransfer.finishStores fuel pED completion status l,
          e.isEndpoint = false)
      ∧ (status = .kIOReturnSuccess → ∃ f sF,
        UIMCreateIsochTransfer.finishStores fuel pED completion status l
          = [.transferDescriptor l.pTailITD f, .endpointDescriptor pED fun ed =>
              { ed with pLogicalTailP := l.pNewITD,
                        tdQueueTailPtr := (sF.itds l.pNewITD).pPhysical }]
          ∧ setITD l.st l.pTailITD f = sF) := by
  unfold UIMCreateIsochTransfer.finish at h
  unfold UIMCreateIsochTransfer.finishStores
  dsimp only at h ⊢
  split_ifs at h with hs
  · rw [if_pos hs]
    obtain ⟨s1, h1, h2⟩ := Outcome.bind_eq_ret h
    simp only [Outcome.ret.injEq, Prod.mk.injEq] at h2
    obtain ⟨rfl, rfl⟩ := h2
    obtain ⟨c1, c2⟩ := unlinkITDs_stores _ _ _ _ _ h1
    refine ⟨rfl, ?_, fun _ e he => ?_, fun hc => absurd hc hs⟩
    · rw [IsochStore.replay_cons]
      exact c1
    · rcases List.mem_cons.1 he with he | he
      · subst he; rfl
      · exact c2 e he
  · rw [if_neg hs]
    simp only [Outcome.ret.injEq, Prod.mk.injEq] at h
    obtain ⟨rfl, rfl⟩ := h
    exact ⟨rfl, rfl, fun hc => absurd (not_not.1 hs) hc, fun _ => ⟨_, _, rfl, rfl⟩⟩

/-- The stores of `bufferSizeStores` are those of the loop over the frames of the low latency
variant, and none of them is one into an endpoint descriptor. -/
theorem UIMCreateIsochTransferLL.bufferSize_stores (H : Header) (pFrames : Nat) :
    ∀ (n i b : Nat) (st : AppleUSBOHCI),
      IsochStore.replay (UIMCreateIsochTransferLL.bufferSizeStores H pFrames n i st) st
          = (UIMCreateIsochTransferLL.bufferSize H pFrames n i b st).2
        ∧ ∀ e ∈ UIMCreateIsochTransferLL.bufferSizeStores H pFrames n i st,
            e.isEndpoint = false
  | 0, _, _, _ => ⟨rfl, fun e he => absurd he (List.not_mem_nil e)⟩
  | n + 1, i, b, st => by
    rw [UIMCreateIsochTransferLL.bufferSizeStores, UIMCreateIsochTransferLL.bufferSize]
    split_ifs with hbig
    · exact ⟨rfl, fun e he => absurd he (List.not_mem_nil e)⟩
    · obtain ⟨c1, c2⟩ := UIMCreateIsochTransferLL.bufferSize_stores H pFrames n (i + 1)
        (add32 b (st.isocFrames pFrames i).frReqCount)
        ((IsochStore.frameStatus pFrames i H.kUSBLowLatencyIsochTransferKey).apply st)
      refine ⟨?_, fun e he => ?_⟩
      · rw [IsochStore.replay_cons, c1]
        rfl
      · rcases List.mem_cons.1 he with he | he
        · subst he; rfl
        · exact c2 e he

/-- The record of a successful call, put together from its parts: the stores `pre` up to the
loop exit, none into an endpoint descriptor, which give the state of the loop variables `l`,
then the stores of the end. -/
theorem TailPublished.of_parts (st : AppleUSBOHCI) (pre : List IsochStore)
    {st' : AppleUSBOHCI} {status s : IOReturn}
    {fuel pED back : Nat} {completion : IOUSBCompletion} {l : IsochTransferLoop}
    {found : Outcome (Option (Nat × Nat))}
    (hfound : found = .ret (some (pED, back)))
    (hpre : IsochStore.replay pre st = l.st) (hno : ∀ e ∈ pre, e.isEndpoint = false)
    (h : UIMCreateIsochTransfer.finish fuel pED completion s l = .ret (status, st')) :
    TailPublished st st' status found
      (pre ++ UIMCreateIsochTransfer.finishStores fuel pED completion s l) := by
  obtain ⟨rfl, f1, f2, f3⟩ := UIMCreateIsochTransfer.finish_stores h
  have hall : IsochStore.replay
      (pre ++ UIMCreateIsochTransfer.finishStores fuel pED completion status l) st = st' := by
    rw [IsochStore.replay_append, hpre]
    exact f1
  refine ⟨hall, fun hs => ?_, fun hs => ?_⟩
  · have hnone : ∀ e ∈ pre ++ UIMCreateIsochTransfer.finishStores fuel pED completion status l,
        e.isEndpoint = false := by
      intro e he
      rcases List.mem_append.1 he with he | he
      · exact hno e he
      · exact f2 hs e he
    exact ⟨hnone, by rw [← hall]; exact IsochStore.replay_eds _ _ hnone⟩
  · obtain ⟨f, sF, e1, e2⟩ := f3 hs
    have hno2 : ∀ e ∈ pre ++ [IsochStore.transferDescriptor l.pTailITD f],
        e.isEndpoint = false := by
      intro e he
      rcases List.mem_append.1 he with he | he
      · exact hno e he
      · rw [List.mem_singleton] at he
        subst he
        rfl
    have hsF : IsochStore.replay (pre ++ [IsochStore.transferDescriptor l.pTailITD f]) st
        = sF := by
      rw [IsochStore.replay_append, hpre]
      exact e2
    have hst : st' = setED sF pED fun ed =>
        { ed with pLogicalTailP := l.pNewITD,
                  tdQueueTailPtr := (sF.itds l.pNewITD).pPhysical } := by
      rw [← hall, e1, IsochStore.replay_append, hpre, IsochStore.replay_cons,
        IsochStore.replay_cons, IsochStore.replay_nil]
      subst e2
      rfl
    refine ⟨pED, back, pre ++ [IsochStore.transferDescriptor l.pTailITD f], l.pNewITD, sF,
      hfound, ?_, hno2, fun k => ?_, hsF, ?_, hst⟩
    · rw [e1]
      simp
    · exact IsochStore.replay_eds _ _ fun e he => hno2 e (List.mem_of_mem_take he)
    · rw [hst]
      rfl

/-- The record of a call that returned before its last part, with the state `st'` that the
stores `log`, none into an endpoint descriptor, give. -/
theorem TailPublished.of_failure {st st' : AppleUSBOHCI} {status : IOReturn}
    {found : Outcome (Option (Nat × Nat))} {log : List IsochStore}
    (hs : status ≠ .kIOReturnSuccess)
    (hlog : IsochStore.replay log st = st') (hno : ∀ e ∈ log, e.isEndpoint = false) :
    TailPublished st st' status found log :=
  ⟨hlog, fun _ => ⟨hno, by rw [← hlog]; exact IsochStore.replay_eds _ _ hno⟩,
    fun h => absurd h hs⟩

/-- The record of the standard variant from the point where the endpoint descriptor has been
found. -/
theorem UIMCreateIsochTransfer.queue_stores {st st' : AppleUSBOHCI} {fuel pED back : Nat}
    {completion : IOUSBCompletion} {frameNumberStart : Nat} {pBuffer : IOMemoryDescriptor}
    {frameCount pFrames tdType : Nat} {status : IOReturn}
    {found : Outcome (Option (Nat × Nat))} (hfound : found = .ret (some (pED, back)))
    (h : UIMCreateIsochTransfer.queue st fuel pED completion frameNumberStart pBuffer frameCount
      pFrames tdType = .ret (status, st')) :
    TailPublished st st' status found
      (UIMCreateIsochTransfer.queueStores st fuel pED completion frameNumberStart pBuffer
        frameCount pFrames tdType) := by
  unfold UIMCreateIsochTransfer.queue at h
  unfold UIMCreateIsochTransfer.queueStores
  split at h
  · rename_i error hw
    try rw [hw]
    simp only [Outcome.ret.injEq, Prod.mk.injEq] at h
    obtain ⟨rfl, rfl⟩ := h
    refine TailPublished.of_failure ?_ rfl fun e he => absurd he (List.not_mem_nil e)
    unfold isochFrameWindow at hw
    dsimp only at hw
    split_ifs at hw <;> simp only [Option.some.injEq, reduceCtorEq] at hw <;> subst hw <;>
      decide
  · rename_i hw
    try rw [hw]
    try dsimp only
    split at h
    · rename_i hb
      try rw [hb]
      simp only [Outcome.ret.injEq, Prod.mk.injEq] at h
      obtain ⟨rfl, rfl⟩ := h
      exact TailPublished.of_failure (by decide) rfl
        fun e he => absurd he (List.not_mem_nil e)
    · rename_i bufferSize hb
      try rw [hb]
      try dsimp only
      split at h
      · rename_i s heq
        try rw [heq]
        simp only [Outcome.ret.injEq, Prod.mk.injEq] at h
        obtain ⟨rfl, rfl⟩ := h
        refine TailPublished.of_failure (by decide) ?_ fun e he => ?_
        · exact congrArg Prod.snd heq
        · rw [List.mem_singleton] at he
          subst he
          rfl
      · rename_i p s heq
        try rw [heq]
        try dsimp only
        obtain ⟨r, h1, h2⟩ := Outcome.bind_eq_ret h
        rw [h1]
        try dsimp only
        obtain ⟨c1, c2⟩ := UIMCreateIsochTransfer.loop_stores _ _ r.2 r.1 h1
        have hpre := TailPublished.of_parts st
          (IsochStore.allocate :: (IsochTransferLoop.initStores s pED p ++
            IsochTransferLoop.loopStores
              (UIMCreateIsochTransfer.body pBuffer pFrames (toUInt16 frameNumberStart) tdType
                bufferSize)
              (UIMCreateIsochTransfer.bodyStores pBuffer pFrames (toUInt16 frameNumberStart)
                tdType bufferSize)
              frameCount (2 * frameCount + 2) (IsochTransferLoop.init s pED p bufferSize)))
          hfound ?_ ?_ h2
        · simpa using hpre
        · rw [IsochStore.replay_cons, IsochStore.replay_append]
          rw [show IsochStore.replay (IsochTransferLoop.initStores s pED p)
              (IsochStore.allocate.apply st) = (IsochTransferLoop.init s pED p bufferSize).st by
            show IsochStore.replay _ (AllocateITD st).2 = _
            rw [heq]
            rfl]
          exact c1
        · intro e he
          rcases List.mem_cons.1 he with he | he
          · subst he; rfl
          · rcases List.mem_append.1 he with he | he
            · unfold IsochTransferLoop.initStores at he
              rw [List.mem_singleton] at he
              subst he
              rfl
            · exact c2 e he

/-- The record of the low latency variant from the point where the endpoint descriptor has been
found. -/
theorem UIMCreateIsochTransferLL.queue_stores_ll {H : Header} {st st' : AppleUSBOHCI}
    {fuel pED back : Nat} {completion : IOUSBCompletion} {frameNumberStart : Nat}
    {pBuffer : IOMemoryDescriptor} {frameCount pFrames updateFrequency tdType : Nat}
    {status : IOReturn} {found : Outcome (Option (Nat × Nat))}
    (hfound : found = .ret (some (pED, back)))
    (h : UIMCreateIsochTransferLL.queue H st fuel pED completion frameNumberStart pBuffer
      frameCount pFrames updateFrequency tdType = .ret (status, st')) :
    TailPublished st st' status found
      (UIMCreateIsochTransferLL.queueStores H st fuel pED completion frameNumberStart pBuffer
        frameCount pFrames updateFrequency tdType) := by
  unfold UIMCreateIsochTransferLL.queue at h
  unfold UIMCreateIsochTransferLL.queueStores
  split at h
  · rename_i error hw
    try rw [hw]
    simp only [Outcome.ret.injEq, Prod.mk.injEq] at h
    obtain ⟨rfl, rfl⟩ := h
    refine TailPublished.of_failure ?_ rfl fun e he => absurd he (List.not_mem_nil e)
    unfold isochFrameWindow at hw
    dsimp only at hw
    split_ifs at hw <;> simp only [Option.some.injEq, reduceCtorEq] at hw <;> subst hw <;>
      decide
  · rename_i hw
    try rw [hw]
    try dsimp only
    obtain ⟨z1, z2⟩ := UIMCreateIsochTransferLL.bufferSize_stores H pFrames frameCount 0 0 st
    split at h
    · rename_i sB hb
      try rw [hb] at z1
      try rw [hb]
      simp only [Outcome.ret.injEq, Prod.mk.injEq] at h
      obtain ⟨rfl, rfl⟩ := h
      try dsimp only
      try rw [List.append_nil]
      exact TailPublished.of_failure (by decide) z1 z2
    · rename_i bufferSize sB hb
      try rw [hb] at z1
      try rw [hb]
      try dsimp only at z1
      try dsimp only
      split at h
      · rename_i s heq
        try rw [heq]
        simp only [Outcome.ret.injEq, Prod.mk.injEq] at h
        obtain ⟨rfl, rfl⟩ := h
        refine TailPublished.of_failure (by decide) ?_ fun e he => ?_
        · rw [IsochStore.replay_append, z1]
          exact congrArg Prod.snd heq
        · rcases List.mem_append.1 he with he | he
          · exact z2 e he
          · rw [List.mem_singleton] at he
            subst he
            rfl
      · rename_i p s heq
        try rw [heq]
        try dsimp only
        obtain ⟨r, h1, h2⟩ := Outcome.bind_eq_ret h
        rw [h1]
        try dsimp only
        obtain ⟨c1, c2⟩ := UIMCreateIsochTransferLL.loop_stores_ll _ _ r.2 r.1 h1
        have hpre := TailPublished.of_parts st
          (UIMCreateIsochTransferLL.bufferSizeStores H pFrames frameCount 0 st ++
            IsochStore.allocate :: (IsochTransferLoop.initStores s pED p ++
            IsochTransferLoop.loopStores
              (UIMCreateIsochTransferLL.body pBuffer pFrames (toUInt16 frameNumberStart) tdType
                bufferSize updateFrequency)
              (UIMCreateIsochTransferLL.bodyStores pBuffer pFrames (toUInt16 frameNumberStart)
                tdType bufferSize updateFrequency)
              frameCount (2 * frameCount + 2) (IsochTransferLoop.init s pED p bufferSize)))
          hfound ?_ ?_ h2
        · simpa using hpre
        · rw [IsochStore.replay_append, z1, IsochStore.replay_cons, IsochStore.replay_append]
          rw [show IsochStore.replay (IsochTransferLoop.initStores s pED p)
              (IsochStore.allocate.apply sB) = (IsochTransferLoop.init s pED p bufferSize).st by
            show IsochStore.replay _ (AllocateITD sB).2 = _
            rw [heq]
            rfl]
          exact c1
        · intro e he
          rcases List.mem_append.1 he with he | he
          · exact z2 e he
          rcases List.mem_cons.1 he with he | he
          · subst he; rfl
          · rcases List.mem_append.1 he with he | he
            · unfold IsochTransferLoop.initStores at he
              rw [List.mem_singleton] at he
              subst he
              rfl
            · exact c2 e he

/-- C17: the record of the stores of a call of either variant of `UIMCreateIsochTransfer` that
returns, in program order, made one after the other on the state before the call gives the
state that the call returns.  When the call returns a status other than success, no store of
the call is one into an endpoint descriptor, so the head and tail pointers of every endpoint,
logical and physical, are those before the call.  When the call returns success, exactly one
store of the call is one into an endpoint descriptor, and it is the last store of the call: it
sets `pLogicalTailP` and `tdQueueTailPtr` of the endpoint found to the new tail and its
physical address.  Before every store of the call the endpoint descriptors are those before
the call, and in the state on which the tail is stored every isochronous transfer descriptor,
with all its fields and links, is already as the call leaves it. -/
theorem UIMCreateIsochTransfer_tail_published (H : Header) (st st' : AppleUSBOHCI)
    (fuel functionAddress endpointNumber : Nat) (completion : IOUSBCompletion)
    (direction frameNumberStart : Nat) (pBuffer : IOMemoryDescriptor)
    (frameCount pFrames updateFrequency : Nat) (status : IOReturn) :
    (UIMCreateIsochTransfer H st fuel functionAddress endpointNumber completion direction
        frameNumberStart pBuffer frameCount pFrames = .ret (status, st') →
      TailPublished st st' status
          (FindIsochronousEndpoint st fuel functionAddress endpointNumber
            (edDirection direction))
          (UIMCreateIsochTransferStores H st fuel functionAddress endpointNumber completion
            direction frameNumberStart pBuffer frameCount pFrames)
        ∧ (status ≠ .kIOReturnSuccess → ∀ e,
          (st'.eds e).pLogicalTailP = (st.eds e).pLogicalTailP
          ∧ (st'.eds e).tdQueueTailPtr = (st.eds e).tdQueueTailPtr
          ∧ (st'.eds e).pLogicalHeadP = (st.eds e).pLogicalHeadP
          ∧ (st'.eds e).tdQueueHeadPtr = (st.eds e).tdQueueHeadPtr))
      ∧ (UIMCreateIsochTransferLL H st fuel functionAddress endpointNumber completion direction
        frameNumberStart pBuffer frameCount pFrames updateFrequency = .ret (status, st') →
      TailPublished st st' status
          (FindIsochronousEndpoint st fuel functionAddress endpointNumber
            (edDirection direction))
          (UIMCreateIsochTransferLLStores H st fuel functionAddress endpointNumber completion
            direction frameNumberStart pBuffer frameCount pFrames updateFrequency)
        ∧ (status ≠ .kIOReturnSuccess → ∀ e,
          (st'.eds e).pLogicalTailP = (st.eds e).pLogicalTailP
          ∧ (st'.eds e).tdQueueTailPtr = (st.eds e).tdQueueTailPtr
          ∧ (st'.eds e).pLogicalHeadP = (st.eds e).pLogicalHeadP
          ∧ (st'.eds e).tdQueueHeadPtr = (st.eds e).tdQueueHeadPtr)) := by
  have hptr : ∀ log, TailPublished st st' status
      (FindIsochronousEndpoint st fuel functionAddress endpointNumber (edDirection direction))
      log →
      status ≠ .kIOReturnSuccess → ∀ e,
        (st'.eds e).pLogicalTailP = (st.eds e).pLogicalTailP
        ∧ (st'.eds e).tdQueueTailPtr = (st.eds e).tdQueueTailPtr
        ∧ (st'.eds e).pLogicalHeadP = (st.eds e).pLogicalHeadP
        ∧ (st'.eds e).tdQueueHeadPtr = (st.eds e).tdQueueHeadPtr := by
    intro log key hs e
    rw [(key.2.1 hs).2]
    exact ⟨rfl, rfl, rfl, rfl⟩
  have hunchanged : ∀ (found : Outcome (Option (Nat × Nat))) (s : IOReturn),
      s ≠ .kIOReturnSuccess → s = status → st = st' →
      TailPublished st st' status found [] := by
    rintro found s hs rfl rfl
    exact TailPublished.of_failure hs rfl fun e he => absurd he (List.not_mem_nil e)
  refine ⟨fun h => ?_, fun h => ?_⟩
  · suffices key : TailPublished st st' status
        (FindIsochronousEndpoint st fuel functionAddress endpointNumber (edDirection direction))
        (UIMCreateIsochTransferStores H st fuel functionAddress endpointNumber completion
          direction frameNumberStart pBuffer frameCount pFrames) from ⟨key, hptr _ key⟩
    unfold UIMCreateIsochTransfer at h
    unfold UIMCreateIsochTransferStores
    by_cases hcount : frameCount = 0 ∨ frameCount > 1000
    · rw [if_pos hcount] at h ⊢
      simp only [Outcome.ret.injEq, Prod.mk.injEq] at h
      exact hunchanged _ _ (by decide) h.1 h.2
    rw [if_neg hcount] at h ⊢
    by_cases hdir : direction ≠ kUSBOut ∧ direction ≠ kUSBIn
    · rw [if_pos hdir] at h ⊢
      simp only [Outcome.ret.injEq, Prod.mk.injEq] at h
      exact hunchanged _ _ (by decide) h.1 h.2
    rw [if_neg hdir] at h ⊢
    have hed := edDirection_of_in_out (show direction = kUSBOut ∨ direction = kUSBIn by tauto)
    dsimp only at h ⊢
    rw [hed] at h ⊢
    obtain ⟨r, hfind, hrest⟩ := Outcome.bind_eq_ret h
    rw [hfind]
    rcases r with _ | ⟨e, back⟩
    · simp only [Outcome.ret.injEq, Prod.mk.injEq] at hrest
      exact hunchanged _ _ (by decide) hrest.1 hrest.2
    · exact UIMCreateIsochTransfer.queue_stores rfl hrest
  · suffices key : TailPublished st st' status
        (FindIsochronousEndpoint st fuel functionAddress endpointNumber (edDirection direction))
        (UIMCreateIsochTransferLLStores H st fuel functionAddress endpointNumber completion
          direction frameNumberStart pBuffer frameCount pFrames updateFrequency) from
      ⟨key, hptr _ key⟩
    unfold UIMCreateIsochTransferLL at h
    unfold UIMCreateIsochTransferLLStores
    by_cases hcount : frameCount = 0 ∨ frameCount > 1000
    · rw [if_pos hcount] at h ⊢
      simp only [Outcome.ret.injEq, Prod.mk.injEq] at h
      exact hunchanged _ _ (by decide) h.1 h.2
    rw [if_neg hcount] at h ⊢
    by_cases hdir : direction ≠ kUSBOut ∧ direction ≠ kUSBIn
    · rw [if_pos hdir] at h ⊢
      simp only [Outcome.ret.injEq, Prod.mk.injEq] at h
      exact hunchanged _ _ (by decide) h.1 h.2
    rw [if_neg hdir] at h ⊢
    have hed := edDirection_of_in_out (show direction = kUSBOut ∨ direction = kUSBIn by tauto)
    dsimp only at h ⊢
    rw [hed] at h ⊢
    obtain ⟨r, hfind, hrest⟩ := Outcome.bind_eq_ret h
    rw [hfind]
    rcases r with _ | ⟨e, back⟩
    · simp only [Outcome.ret.injEq, Prod.mk.injEq] at hrest
      exact hunchanged _ _ (by decide) hrest.1 hrest.2
    · exact UIMCreateIsochTransferLL.queue_stores_ll rfl hrest

/-- Witness for C17: on the example driver the successful `UIMCreateIsochTransfer` of 3 frames
on the isochronous endpoint 21 made 13 stores, of which the last and no other is one into an
endpoint descriptor, the store of the tail pointers; and on the driver with the scarce pool the
call that returned `kIOReturnNoMemory` made 8 stores, none into an endpoint descriptor, and
left the head and tail pointers of every endpoint descriptor as they were. -/
theorem UIMCreateIsochTransfer_tail_published_witness :
    UIMCreateIsochTransfer exampleHeader exampleBulkQueuedState 5 5 1 ⟨1, 2, 3⟩ kUSBOut 100010
        exampleScatteredBuffer 3 7 = .ret (.kIOReturnSuccess, exampleTwoTransfersState)
      ∧ (UIMCreateIsochTransferStores exampleHeader exampleBulkQueuedState 5 5 1 ⟨1, 2, 3⟩
          kUSBOut 100010 exampleScatteredBuffer 3 7).map IsochStore.isEndpoint
        = [false, false, false, false, false, false, false, false, false, false, false, false,
            true]
      ∧ TailPublished exampleBulkQueuedState exampleTwoTransfersState .kIOReturnSuccess
        (FindIsochronousEndpoint exampleBulkQueuedState 5 5 1 (edDirection kUSBOut))
        (UIMCreateIsochTransferStores exampleHeader exampleBulkQueuedState 5 5 1 ⟨1, 2, 3⟩
          kUSBOut 100010 exampleScatteredBuffer 3 7)
      ∧ UIMCreateIsochTransfer exampleHeader exampleScarceState 5 5 1 ⟨1, 2, 3⟩ kUSBOut 100010
        exampleScatteredBuffer 3 7 = .ret (.kIOReturnNoMemory, exampleFailedIsochState)
      ∧ (UIMCreateIsochTransferStores exampleHeader exampleScarceState 5 5 1 ⟨1, 2, 3⟩
          kUSBOut 100010 exampleScatteredBuffer 3 7).map IsochStore.isEndpoint
        = [false, false, false, false, false, false, false, false]
      ∧ TailPublished exampleScarceState exampleFailedIsochState .kIOReturnNoMemory
        (FindIsochronousEndpoint exampleScarceState 5 5 1 (edDirection kUSBOut))
        (UIMCreateIsochTransferStores exampleHeader exampleScarceState 5 5 1 ⟨1, 2, 3⟩
          kUSBOut 100010 exampleScatteredBuffer 3 7)
      ∧ ∀ e, (exampleFailedIsochState.eds e).pLogicalTailP
          = (exampleScarceState.eds e).pLogicalTailP
        ∧ (exampleFailedIsochState.eds e).tdQueueTailPtr
          = (exampleScarceState.eds e).tdQueueTailPtr
        ∧ (exampleFailedIsochState.eds e).pLogicalHeadP
          = (exampleScarceState.eds e).pLogicalHeadP
        ∧ (exampleFailedIsochState.eds e).tdQueueHeadPtr
          = (exampleScarceState.eds e).tdQueueHeadPtr := by
  have hfail : UIMCreateIsochTransfer exampleHeader exampleScarceState 5 5 1 ⟨1, 2, 3⟩ kUSBOut
      100010 exampleScatteredBuffer 3 7 = .ret (.kIOReturnNoMemory, exampleFailedIsochState) :=
    Outcome.ret_stateOr _ ⟨_, rfl⟩
  have hgood := (UIMCreateIsochTransfer_tail_published exampleHeader exampleBulkQueuedState
    exampleTwoTransfersState 5 5 1 ⟨1, 2, 3⟩ kUSBOut 100010 exampleScatteredBuffer 3 7 0
    .kIOReturnSuccess).1 exampleTwoTransfersState_call
  have hbad := (UIMCreateIsochTransfer_tail_published exampleHeader exampleScarceState
    exampleFailedIsochState 5 5 1 ⟨1, 2, 3⟩ kUSBOut 100010 exampleScatteredBuffer 3 7 0
    .kIOReturnNoMemory).1 hfail
  exact ⟨exampleTwoTransfersState_call, by decide!, hgood.1, hfail, by decide!, hbad.1,
    hbad.2 (by decide)⟩

/-! ## The number of frames in an isochronous transfer descriptor -/

theorem AllocateITD_itds (st : AppleUSBOHCI) : (AllocateITD st).2.itds = st.itds := by
  unfold AllocateITD
  split <;> rfl

theorem setITD_offset (st : AppleUSBOHCI) (p : Nat)
    (f : OHCIIsochTransferDescriptor → OHCIIsochTransferDescriptor)
    (hf : ∀ d, (f d).offset = d.offset) (x : Nat) :
    ((setITD st p f).itds x).offset = (st.itds x).offset := by
  rw [setITD_itds]
  split_ifs with h
  · rw [hf, h]
  · rfl

/-- Up to the test that closes the iTD a pass changes neither counter nor any offset slot, and
when it opens an iTD (`curFrameInTD` zero) it clears `needNewITD`. -/
theorem IsochTransferLoop.placeOnPage_counting {l l1 : IsochTransferLoop}
    {pBuffer : IOMemoryDescriptor} {pFrames bufferSize frameNumber tdType : Nat}
    (h : (l.getSegments pBuffer pFrames bufferSize).placeOnPage pFrames frameNumber tdType
      = .ret l1) :
    l1.curFrameInTD = l.curFrameInTD ∧ l1.curFrameInRequest = l.curFrameInRequest
      ∧ l1.pTailITD = l.pTailITD ∧ (l.curFrameInTD = 0 → l1.needNewITD = false)
      ∧ (l.curFrameInTD ≠ 0 → l.needNewITD = true → l1.needNewITD = true)
      ∧ ∀ x, (l1.st.itds x).offset = (l.st.itds x).offset := by
  have hg : (l.getSegments pBuffer pFrames bufferSize).curFrameInTD = l.curFrameInTD
      ∧ (l.getSegments pBuffer pFrames bufferSize).curFrameInRequest = l.curFrameInRequest
      ∧ (l.getSegments pBuffer pFrames bufferSize).pTailITD = l.pTailITD
      ∧ (l.getSegments pBuffer pFrames bufferSize).needNewITD = l.needNewITD
      ∧ (l.getSegments pBuffer pFrames bufferSize).st = l.st := by
    unfold IsochTransferLoop.getSegments
    split_ifs <;> exact ⟨rfl, rfl, rfl, rfl, rfl⟩
  obtain ⟨g1, g2, g3, g4, g5⟩ := hg
  generalize l.getSegments pBuffer pFrames bufferSize = lg at h g1 g2 g3 g4 g5
  unfold IsochTransferLoop.placeOnPage at h
  split_ifs at h with h0
  · simp only [Outcome.ret.injEq] at h
    subst h
    refine ⟨g1, g2, g3, fun _ => rfl, fun hne => absurd (g1 ▸ h0) hne, fun x => ?_⟩
    dsimp only
    have hx := setITD_offset lg.st lg.pTailITD (fun itd =>
      { itd with pIsocFrame := pFrames, frameNum := lg.curFrameInRequest, pType := tdType,
                 bufferPage0 := lg.segs.seg0.location &&& kOHCIPageMask }) (fun _ => rfl) x
    rw [g5] at hx
    rw [← hx, g5]
  · simp only [Outcome.ret.injEq] at h
    subst h
    exact ⟨g1, g2, g3, fun hz => absurd (g1.trans hz) h0, fun _ _ => rfl,
      fun x => by rw [g5]⟩
  · obtain ⟨seg, -, hret⟩ := Outcome.bind_eq_ret h
    simp only [Outcome.ret.injEq] at hret
    subst hret
    exact ⟨g1, g2, g3, fun hz => absurd (g1.trans hz) h0, fun _ hn => g4.trans hn,
      fun x => by rw [g5]⟩
  · simp only [Outcome.ret.injEq] at h
    subst h
    exact ⟨g1, g2, g3, fun hz => absurd (g1.trans hz) h0, fun _ hn => g4.trans hn,
      fun x => by rw [g5]⟩

/-- The frame is put into the slot `curFrameInTD` of the current iTD. -/
theorem IsochTransferLoop.addFrame_counting {l l' : IsochTransferLoop}
    (h : l.addFrame = .ret l') :
    l'.curFrameInTD = add32 l.curFrameInTD 1
      ∧ l'.curFrameInRequest = add32 l.curFrameInRequest 1
      ∧ l'.needNewITD = l.needNewITD
      ∧ ∀ x k, (x ≠ l.pTailITD ∨ k ≠ l.curFrameInTD) →
        (l'.st.itds x).offset k = (l.st.itds x).offset k := by
  unfold IsochTransferLoop.addFrame at h
  obtain ⟨seg, -, hret⟩ := Outcome.bind_eq_ret h
  simp only [Outcome.ret.injEq] at hret
  subst hret
  refine ⟨rfl, rfl, rfl, fun x k hxk => ?_⟩
  dsimp only
  rw [setITD_itds]
  split_ifs with hx
  · subst hx
    rcases hxk with hxk | hxk
    · exact absurd rfl hxk
    · dsimp only
      rw [Function.update_noteq hxk]
  · rfl

/-- A pass of the standard loop from a state with a sound frame counter. -/
theorem UIMCreateIsochTransfer.body_counting {pBuffer : IOMemoryDescriptor}
    {pFrames frameNumber tdType bufferSize frameCount : Nat} {l : IsochTransferLoop}
    {r : Sum IsochTransferLoop IsochTransferLoop}
    (hI : IsochCounting frameCount l) (hlt : l.curFrameInRequest < frameCount)
    (h : UIMCreateIsochTransfer.body pBuffer pFrames frameNumber tdType bufferSize l = .ret r) :
    (∀ l', r = .inl l' → 1 ≤ l.curFrameInTD ∧ l.curFrameInTD ≤ 8
        ∧ sub32 l.curFrameInTD 1 = l.curFrameInTD - 1
        ∧ ∀ x k, (l'.st.itds x).offset k = (l.st.itds x).offset k)
      ∧ ∀ l', r = .inr l' → IsochCounting frameCount l' ∧ IsochPass l l' := by
  unfold UIMCreateIsochTransfer.body at h
  obtain ⟨l1, h1, h2⟩ := Outcome.bind_eq_ret h
  obtain ⟨p1, p2, p3, p4, -, p6⟩ := IsochTransferLoop.placeOnPage_counting h1
  have hle := hI.le
  split at h2
  · rename_i hc
    have hpos : 1 ≤ l.curFrameInTD := by
      rcases Nat.eq_zero_or_pos l.curFrameInTD with hz | hp
      · exfalso
        have hn := p4 hz
        rw [p1, hz, hn] at hc
        simp at hc
      · exact hp
    have hsub : sub32 l.curFrameInTD 1 = l.curFrameInTD - 1 :=
      sub32_of_le (by unfold W32; omega) hpos
    dsimp only at h2
    have ha := AllocateITD_itds (setITD l1.st l1.pTailITD fun itd =>
      { itd with bufferEnd := l1.lastPhysical })
    have hb : ∀ x, ((setITD l1.st l1.pTailITD fun itd =>
        { itd with bufferEnd := l1.lastPhysical }).itds x).offset = (l.st.itds x).offset :=
      fun x => by
        refine (setITD_offset _ _ _ ?_ x).trans (p6 x)
        intro d
        rfl
    split at h2
    · rename_i s heq
      rw [heq] at ha
      dsimp only at ha
      simp only [Outcome.ret.injEq] at h2
      subst h2
      refine ⟨fun l' hl' => ?_, fun l' hl' => (by cases hl')⟩
      simp only [Sum.inl.injEq] at hl'
      subst hl'
      refine ⟨hpos, hle, hsub, fun x k => ?_⟩
      dsimp only
      rw [ha, hb]
    · rename_i p s heq
      rw [heq] at ha
      dsimp only at ha
      simp only [Outcome.ret.injEq] at h2
      subst h2
      refine ⟨fun l' hl' => (by cases hl'), fun l' hl' => ?_⟩
      simp only [Sum.inr.injEq] at hl'
      subst hl'
      refine ⟨⟨by dsimp only; omega, fun _ => rfl, fun _ => by dsimp only; rw [p2]; exact hlt⟩,
        Or.inl ⟨p2, rfl, hpos, hle, hsub, fun x k => ?_⟩⟩
      dsimp only
      refine (congrFun ((setITD_offset _ _ _ ?_ x).trans ((setITD_offset _ _ _ ?_ x).trans ?_))
        k)
      · intro d
        rfl
      · intro d
        rfl
      · rw [ha, hb]
  · rename_i hc
    obtain ⟨l2, h3, h4⟩ := Outcome.bind_eq_ret h2
    simp only [Outcome.ret.injEq] at h4
    subst h4
    obtain ⟨a1, a2, a3, a4⟩ := IsochTransferLoop.addFrame_counting h3
    have hc1 : l.curFrameInTD ≤ 7 := by
      rw [p1] at hc
      omega
    have hc2 : l1.needNewITD = false := by
      cases hn : l1.needNewITD
      · rfl
      · exact absurd (Or.inr hn) hc
    have hadd : add32 l.curFrameInTD 1 = l.curFrameInTD + 1 := by
      unfold add32 W32
      omega
    rw [p1, hadd] at a1
    rw [p2] at a2
    rw [hc2] at a3
    refine ⟨fun l' hl' => (by cases hl'), fun l' hl' => ?_⟩
    simp only [Sum.inr.injEq] at hl'
    subst hl'
    refine ⟨⟨by omega, fun hn => (by rw [a3] at hn; cases hn), fun hz => (by omega)⟩,
      Or.inr ⟨a2, a1, hc1, fun x k hxk => ?_⟩⟩
    rw [a4 x k (by rw [p3, p1]; exact hxk), p6]

/-- A pass of the low latency loop from a state with a sound frame counter. -/
theorem UIMCreateIsochTransferLL.body_counting_ll {pBuffer : IOMemoryDescriptor}
    {pFrames frameNumber tdType bufferSize updateFrequency frameCount : Nat}
    {l : IsochTransferLoop} {r : Sum IsochTransferLoop IsochTransferLoop}
    (hI : IsochCounting frameCount l) (hlt : l.curFrameInRequest < frameCount)
    (h : UIMCreateIsochTransferLL.body pBuffer pFrames frameNumber tdType bufferSize
      updateFrequency l = .ret r) :
    (∀ l', r = .inl l' → 1 ≤ l.curFrameInTD ∧ l.curFrameInTD ≤ 8
        ∧ sub32 l.curFrameInTD 1 = l.curFrameInTD - 1
        ∧ ∀ x k, (l'.st.itds x).offset k = (l.st.itds x).offset k)
      ∧ ∀ l', r = .inr l' → IsochCounting frameCount l' ∧ IsochPass l l' := by
  unfold UIMCreateIsochTransferLL.body at h
  obtain ⟨l1, h1, h2⟩ := Outcome.bind_eq_ret h
  obtain ⟨p1, p2, p3, p4, -, p6⟩ := IsochTransferLoop.placeOnPage_counting h1
  have hle := hI.le
  split at h2
  · rename_i hc
    have hpos : 1 ≤ l.curFrameInTD := by
      rcases Nat.eq_zero_or_pos l.curFrameInTD with hz | hp
      · exfalso
        have hn := p4 hz
        rw [p1, hz, hn] at hc
        simp at hc
      · exact hp
    have hsub : sub32 l.curFrameInTD 1 = l.curFrameInTD - 1 :=
      sub32_of_le (by unfold W32; omega) hpos
    dsimp only at h2
    have ha := AllocateITD_itds (setITD l1.st l1.pTailITD fun itd =>
      { itd with bufferEnd := l1.lastPhysical })
    have hb : ∀ x, ((setITD l1.st l1.pTailITD fun itd =>
        { itd with bufferEnd := l1.lastPhysical }).itds x).offset = (l.st.itds x).offset :=
      fun x => by
        refine (setITD_offset _ _ _ ?_ x).trans (p6 x)
        intro d
        rfl
    split at h2
    · rename_i s heq
      rw [heq] at ha
      dsimp only at ha
      simp only [Outcome.ret.injEq] at h2
      subst h2
      refine ⟨fun l' hl' => ?_, fun l' hl' => (by cases hl')⟩
      simp only [Sum.inl.injEq] at hl'
      subst hl'
      refine ⟨hpos, hle, hsub, fun x k => ?_⟩
      dsimp only
      rw [ha, hb]
    · rename_i p s heq
      rw [heq] at ha
      dsimp only at ha
      simp only [Outcome.ret.injEq] at h2
      subst h2
      refine ⟨fun l' hl' => (by cases hl'), fun l' hl' => ?_⟩
      simp only [Sum.inr.injEq] at hl'
      subst hl'
      refine ⟨⟨by dsimp only; omega, fun _ => rfl, fun _ => by dsimp only; rw [p2]; exact hlt⟩,
        Or.inl ⟨p2, rfl, hpos, hle, hsub, fun x k => ?_⟩⟩
      dsimp only
      refine (congrFun ((setITD_offset _ _ _ ?_ x).trans ((setITD_offset _ _ _ ?_ x).trans ?_))
        k)
      · intro d
        rfl
      · intro d
        rfl
      · rw [ha, hb]
  · rename_i hc
    obtain ⟨l2, h3, h4⟩ := Outcome.bind_eq_ret h2
    simp only [Outcome.ret.injEq] at h4
    subst h4
    obtain ⟨a1, a2, a3, a4⟩ := IsochTransferLoop.addFrame_counting h3
    have hc1 : l.curFrameInTD ≤ 7 := by
      rw [p1] at hc
      omega
    have hc2 : l1.needNewITD = false := by
      cases hn : l1.needNewITD
      · rfl
      · exact absurd (Or.inr (Or.inl hn)) hc
    have hadd : add32 l.curFrameInTD 1 = l.curFrameInTD + 1 := by
      unfold add32 W32
      omega
    rw [p1, hadd] at a1
    rw [p2] at a2
    rw [hc2] at a3
    refine ⟨fun l' hl' => (by cases hl'), fun l' hl' => ?_⟩
    simp only [Sum.inr.injEq] at hl'
    subst hl'
    refine ⟨⟨by omega, fun hn => (by rw [a3] at hn; cases hn), fun hz => (by omega)⟩,
      Or.inr ⟨a2, a1, hc1, fun x k hxk => ?_⟩⟩
    rw [a4 x k (by rw [p3, p1]; exact hxk), p6]

theorem IsochPass.high_offsets {l l' : IsochTransferLoop} (h : IsochPass l l') :
    ∀ x k, 8 ≤ k → (l'.st.itds x).offset k = (l.st.itds x).offset k := by
  intro x k hk
  rcases h with ⟨-, -, -, -, -, h⟩ | ⟨-, -, hle, h⟩
  · exact h x k
  · exact h x k (Or.inr (by omega))

theorem IsochCounting.entry (st : AppleUSBOHCI) (pED pNewITD bufferSize : Nat)
    {frameCount : Nat} (hCount : 1 ≤ frameCount) :
    IsochCounting frameCount (IsochTransferLoop.init st pED pNewITD bufferSize) :=
  ⟨Nat.zero_le 8, fun h => (by cases h), fun _ => hCount⟩

/-- Every state at the loop test of either variant has a sound frame counter. -/
theorem IsochLoopReachable.counting {pBuffer : IOMemoryDescriptor}
    {pFrames frameNumber tdType bufferSize updateFrequency frameCount : Nat}
    {body : IsochTransferLoop → Outcome (Sum IsochTransferLoop IsochTransferLoop)}
    (hBody : body = UIMCreateIsochTransfer.body pBuffer pFrames frameNumber tdType bufferSize
      ∨ body = UIMCreateIsochTransferLL.body pBuffer pFrames frameNumber tdType bufferSize
        updateFrequency)
    {l0 l : IsochTransferLoop} (h0 : IsochCounting frameCount l0)
    (h : IsochLoopReachable body frameCount l0 l) : IsochCounting frameCount l := by
  induction h with
  | entry => exact h0
  | pass l l' _ hlt hbody ih =>
    rcases hBody with hB | hB
    · rw [hB] at hbody
      exact ((UIMCreateIsochTransfer.body_counting ih hlt hbody).2 l' rfl).1
    · rw [hB] at hbody
      exact ((UIMCreateIsochTransferLL.body_counting_ll ih hlt hbody).2 l' rfl).1

theorem UIMCreateIsochTransfer.loop_offsets {pBuffer : IOMemoryDescriptor}
    {frameCount pFrames frameNumber tdType bufferSize : Nat} :
    ∀ (fuel : Nat) (l l' : IsochTransferLoop) (s : IOReturn), IsochCounting frameCount l →
      UIMCreateIsochTransfer.loop pBuffer frameCount pFrames frameNumber tdType bufferSize fuel l
        = .ret (s, l') →
      ∀ x k, 8 ≤ k → (l'.st.itds x).offset k = (l.st.itds x).offset k
  | 0, _, _, _, _, h => by simp [UIMCreateIsochTransfer.loop] at h
  | fuel + 1, l, l', s, hI, h => by
    rw [UIMCreateIsochTransfer.loop] at h
    split_ifs at h with hlt
    · obtain ⟨r, h1, h2⟩ := Outcome.bind_eq_ret h
      obtain ⟨k1, k2⟩ := UIMCreateIsochTransfer.body_counting hI hlt h1
      rcases r with l1 | l1
      · simp only [Outcome.ret.injEq, Prod.mk.injEq] at h2
        obtain ⟨-, rfl⟩ := h2
        exact fun x k _ => (k1 l1 rfl).2.2.2 x k
      · intro x k hk
        rw [UIMCreateIsochTransfer.loop_offsets fuel l1 l' s (k2 l1 rfl).1 h2 x k hk]
        exact (k2 l1 rfl).2.high_offsets x k hk
    · simp only [Outcome.ret.injEq, Prod.mk.injEq] at h
      obtain ⟨-, rfl⟩ := h
      exact fun _ _ _ => rfl

theorem UIMCreateIsochTransferLL.loop_offsets_ll {pBuffer : IOMemoryDescriptor}
    {frameCount pFrames frameNumber tdType bufferSize updateFrequency : Nat} :
    ∀ (fuel : Nat) (l l' : IsochTransferLoop) (s : IOReturn), IsochCounting frameCount l →
      UIMCreateIsochTransferLL.loop pBuffer frameCount pFrames frameNumber tdType bufferSize
        updateFrequency fuel l = .ret (s, l') →
      ∀ x k, 8 ≤ k → (l'.st.itds x).offset k = (l.st.itds x).offset k
  | 0, _, _, _, _, h => by simp [UIMCreateIsochTransferLL.loop] at h
  | fuel + 1, l, l', s, hI, h => by
    rw [UIMCreateIsochTransferLL.loop] at h
    split_ifs at h with hlt
    · obtain ⟨r, h1, h2⟩ := Outcome.bind_eq_ret h
      obtain ⟨k1, k2⟩ := UIMCreateIsochTransferLL.body_counting_ll hI hlt h1
      rcases r with l1 | l1
      · simp only [Outcome.ret.injEq, Prod.mk.injEq] at h2
        obtain ⟨-, rfl⟩ := h2
        exact fun x k _ => (k1 l1 rfl).2.2.2 x k
      · intro x k hk
        rw [UIMCreateIsochTransferLL.loop_offsets_ll fuel l1 l' s (k2 l1 rfl).1 h2 x k hk]
        exact (k2 l1 rfl).2.high_offsets x k hk
    · simp only [Outcome.ret.injEq, Prod.mk.injEq] at h
      obtain ⟨-, rfl⟩ := h
      exact fun _ _ _ => rfl

theorem unlinkITDs_itds (stop : Nat) :
    ∀ (fuel : Nat) (st st' : AppleUSBOHCI) (p : Nat),
      unlinkITDs stop fuel st p = .ret st' → st'.itds = st.itds
  | 0, _, _, _, h => by simp [unlinkITDs] at h
  | fuel + 1, st, st', p, h => by
    rw [unlinkITDs] at h
    split_ifs at h
    · exact unlinkITDs_itds stop fuel (DeallocateITD st p) st' _ h
    · simp only [Outcome.ret.injEq] at h
      subst h
      rfl

/-- The end of both variants writes no offset slot. -/
theorem UIMCreateIsochTransfer.finish_offsets {fuel pED : Nat} {completion : IOUSBCompletion}
    {status s : IOReturn} {l : IsochTransferLoop} {st' : AppleUSBOHCI}
    (h : UIMCreateIsochTransfer.finish fuel pED completion status l = .ret (s, st')) :
    ∀ x, (st'.itds x).offset = (l.st.itds x).offset := by
  unfold UIMCreateIsochTransfer.finish at h
  dsimp only at h
  intro x
  split_ifs at h with hs
  · obtain ⟨s1, h1, h2⟩ := Outcome.bind_eq_ret h
    simp only [Outcome.ret.injEq, Prod.mk.injEq] at h2
    obtain ⟨-, rfl⟩ := h2
    rw [unlinkITDs_itds _ _ _ _ _ h1]
    refine setITD_offset _ _ _ ?_ x
    intro d
    rfl
  · simp only [Outcome.ret.injEq, Prod.mk.injEq] at h
    obtain ⟨-, rfl⟩ := h
    rw [show ∀ (s : AppleUSBOHCI) (p : Nat) (f : OHCIEndpointDescriptor → OHCIEndpointDescriptor),
      (setED s p f).itds = s.itds from fun _ _ _ => rfl]
    refine (setITD_offset l.st l.pTailITD _ ?_ x)
    intro d
    rfl

theorem IsochTransferLoop.init_offsets (st : AppleUSBOHCI) (pED pNewITD bufferSize x : Nat) :
    ((IsochTransferLoop.init st pED pNewITD bufferSize).st.itds x).offset
      = (st.itds x).offset := by
  unfold IsochTransferLoop.init
  dsimp only
  refine setITD_offset _ _ _ ?_ x
  intro d
  rfl

theorem UIMCreateIsochTransfer.queue_offsets {st st' : AppleUSBOHCI} {fuel pED : Nat}
    {completion : IOUSBCompletion} {frameNumberStart : Nat} {pBuffer : IOMemoryDescriptor}
    {frameCount pFrames tdType : Nat} {status : IOReturn} (hCount : 1 ≤ frameCount)
    (h : UIMCreateIsochTransfer.queue st fuel pED completion frameNumberStart pBuffer frameCount
      pFrames tdType = .ret (status, st')) :
    ∀ x k, 8 ≤ k → (st'.itds x).offset k = (st.itds x).offset k := by
  unfold UIMCreateIsochTransfer.queue at h
  split at h
  · simp only [Outcome.ret.injEq, Prod.mk.injEq] at h
    obtain ⟨-, rfl⟩ := h
    exact fun _ _ _ => rfl
  · split at h
    · simp only [Outcome.ret.injEq, Prod.mk.injEq] at h
      obtain ⟨-, rfl⟩ := h
      exact fun _ _ _ => rfl
    · have ha := AllocateITD_itds st
      split at h
      · rename_i s heq
        rw [heq] at ha
        simp only [Outcome.ret.injEq, Prod.mk.injEq] at h
        obtain ⟨-, rfl⟩ := h
        intro x k _
        rw [show s.itds = st.itds from ha]
      · rename_i p s heq
        rw [heq] at ha
        replace ha : s.itds = st.itds := ha
        obtain ⟨r, h1, h2⟩ := Outcome.bind_eq_ret h
        intro x k hk
        rw [UIMCreateIsochTransfer.finish_offsets h2 x,
          UIMCreateIsochTransfer.loop_offsets _ _ r.2 r.1 (IsochCounting.entry s pED p _ hCount)
            h1 x k hk,
          IsochTransferLoop.init_offsets, ha]

theorem UIMCreateIsochTransferLL.queue_offsets_ll {H : Header} {st st' : AppleUSBOHCI}
    {fuel pED : Nat} {completion : IOUSBCompletion} {frameNumberStart : Nat}
    {pBuffer : IOMemoryDescriptor} {frameCount pFrames updateFrequency tdType : Nat}
    {status : IOReturn} (hCount : 1 ≤ frameCount)
    (h : UIMCreateIsochTransferLL.queue H st fuel pED completion frameNumberStart pBuffer
      frameCount pFrames updateFrequency tdType = .ret (status, st')) :
    ∀ x k, 8 ≤ k → (st'.itds x).offset k = (st.itds x).offset k := by
  unfold UIMCreateIsochTransferLL.queue at h
  split at h
  · simp only [Outcome.ret.injEq, Prod.mk.injEq] at h
    obtain ⟨-, rfl⟩ := h
    exact fun _ _ _ => rfl
  · have hb : (UIMCreateIsochTransferLL.bufferSize H pFrames frameCount 0 0 st).2.itds
        = st.itds := by
      rw [(UIMCreateIsochTransferLL.bufferSize_frame H pFrames frameCount 0 0 st).1]
    split at h
    · rename_i s0 heq0
      rw [heq0] at hb
      simp only [Outcome.ret.injEq, Prod.mk.injEq] at h
      obtain ⟨-, rfl⟩ := h
      intro x k _
      rw [show s0.itds = st.itds from hb]
    · rename_i bufferSize s0 heq0
      rw [heq0] at hb
      replace hb : s0.itds = st.itds := hb
      have ha := AllocateITD_itds s0
      split at h
      · rename_i s heq
        rw [heq] at ha
        simp only [Outcome.ret.injEq, Prod.mk.injEq] at h
        obtain ⟨-, rfl⟩ := h
        intro x k _
        rw [show s.itds = s0.itds from ha, hb]
      · rename_i p s heq
        rw [heq] at ha
        replace ha : s.itds = s0.itds := ha
        obtain ⟨r, h1, h2⟩ := Outcome.bind_eq_ret h
        intro x k hk
        rw [UIMCreateIsochTransfer.finish_offsets h2 x,
          UIMCreateIsochTransferLL.loop_offsets_ll _ _ r.2 r.1
            (IsochCounting.entry s pED p _ hCount) h1 x k hk,
          IsochTransferLoop.init_offsets, ha, hb]

/-- Neither variant of `UIMCreateIsochTransfer` writes an offset slot past slot 7 of any
isochronous transfer descriptor. -/
theorem UIMCreateIsochTransfer.high_offsets_kept (H : Header) (st st' : AppleUSBOHCI)
    (fuel functionAddress endpointNumber : Nat) (completion : IOUSBCompletion)
    (direction frameNumberStart : Nat) (pBuffer : IOMemoryDescriptor)
    (frameCount pFrames updateFrequency : Nat) (status : IOReturn)
    (h : UIMCreateIsochTransfer H st fuel functionAddress endpointNumber completion direction
        frameNumberStart pBuffer frameCount pFrames = .ret (status, st')
      ∨ UIMCreateIsochTransferLL H st fuel functionAddress endpointNumber completion direction
        frameNumberStart pBuffer frameCount pFrames updateFrequency = .ret (status, st')) :
    ∀ x k, 8 ≤ k → (st'.itds x).offset k = (st.itds x).offset k := by
  rcases h with h | h
  · unfold UIMCreateIsochTransfer at h
    split_ifs at h with hcount hdir
    · simp only [Outcome.ret.injEq, Prod.mk.injEq] at h
      obtain ⟨-, rfl⟩ := h
      exact fun _ _ _ => rfl
    · simp only [Outcome.ret.injEq, Prod.mk.injEq] at h
      obtain ⟨-, rfl⟩ := h
      exact fun _ _ _ => rfl
    all_goals
      dsimp only at h
      obtain ⟨r, -, hrest⟩ := Outcome.bind_eq_ret h
      rcases r with _ | ⟨e, back⟩
      · simp only [Outcome.ret.injEq, Prod.mk.injEq] at hrest
        obtain ⟨-, rfl⟩ := hrest
        exact fun _ _ _ => rfl
      · exact UIMCreateIsochTransfer.queue_offsets (by omega) hrest
  · unfold UIMCreateIsochTransferLL at h
    split_ifs at h with hcount hdir
    · simp only [Outcome.ret.injEq, Prod.mk.injEq] at h
      obtain ⟨-, rfl⟩ := h
      exact fun _ _ _ => rfl
    · simp only [Outcome.ret.injEq, Prod.mk.injEq] at h
      obtain ⟨-, rfl⟩ := h
      exact fun _ _ _ => rfl
    all_goals
      dsimp only at h
      obtain ⟨r, -, hrest⟩ := Outcome.bind_eq_ret h
      rcases r with _ | ⟨e, back⟩
      · simp only [Outcome.ret.injEq, Prod.mk.injEq] at hrest
        obtain ⟨-, rfl⟩ := hrest
        exact fun _ _ _ => rfl
      · exact UIMCreateIsochTransferLL.queue_offsets_ll (by omega) hrest

/-- C14: in the frame packing loop of either variant of `UIMCreateIsochTransfer`, entered for
a request of at least one frame, every state `l` at the loop test has a frame counter
`curFrameInTD` of at most 8.  When the loop ends there (the last iTD is finalised) the counter
is between 1 and 8 and the 32-bit value `curFrameInTD - 1` is at most 7, without underflow.  A
pass from there that closes the current iTD, whether the next `AllocateITD` fails (`inl`) or
not, finds the counter between 1 and 8 as well and writes no offset slot; a pass that adds a
frame writes the slot `curFrameInTD`, at most 7, of the current iTD and no other
(`IsochPass`).  And no call of either variant that returns has changed an offset slot past
slot 7 of any isochronous transfer descriptor. -/
theorem UIMCreateIsochTransfer_frames_per_descriptor (st : AppleUSBOHCI) (pED pNewITD : Nat)
    (pBuffer : IOMemoryDescriptor)
    (frameCount pFrames frameNumber tdType bufferSize updateFrequency : Nat)
    (body : IsochTransferLoop → Outcome (Sum IsochTransferLoop IsochTransferLoop))
    (hBody : body = UIMCreateIsochTransfer.body pBuffer pFrames frameNumber tdType bufferSize
      ∨ body = UIMCreateIsochTransferLL.body pBuffer pFrames frameNumber tdType bufferSize
        updateFrequency)
    (hCount : 1 ≤ frameCount) (l : IsochTransferLoop)
    (hReach : IsochLoopReachable body frameCount
      (IsochTransferLoop.init st pED pNewITD bufferSize) l) :
    l.curFrameInTD ≤ 8
      ∧ (¬ l.curFrameInRequest < frameCount →
        1 ≤ l.curFrameInTD ∧ sub32 l.curFrameInTD 1 = l.curFrameInTD - 1
          ∧ sub32 l.curFrameInTD 1 ≤ 7)
      ∧ (l.curFrameInRequest < frameCount → ∀ r, body l = .ret r →
        (∀ l', r = .inl l' → 1 ≤ l.curFrameInTD ∧ sub32 l.curFrameInTD 1 = l.curFrameInTD - 1
          ∧ sub32 l.curFrameInTD 1 ≤ 7
          ∧ ∀ x k, (l'.st.itds x).offset k = (l.st.itds x).offset k)
        ∧ ∀ l', r = .inr l' → IsochPass l l')
      ∧ ∀ (H : Header) (s s' : AppleUSBOHCI) (fuel functionAddress endpointNumber : Nat)
          (completion : IOUSBCompletion) (direction frameNumberStart : Nat) (status : IOReturn),
        (UIMCreateIsochTransfer H s fuel functionAddress endpointNumber completion direction
            frameNumberStart pBuffer frameCount pFrames = .ret (status, s')
          ∨ UIMCreateIsochTransferLL H s fuel functionAddress endpointNumber completion
            direction frameNumberStart pBuffer frameCount pFrames updateFrequency
            = .ret (status, s')) →
        ∀ x k, 8 ≤ k → (s'.itds x).offset k = (s.itds x).offset k := by
  have hI : IsochCounting frameCount l :=
    IsochLoopReachable.counting hBody (IsochCounting.entry st pED pNewITD bufferSize hCount)
      hReach
  have hle := hI.le
  refine ⟨hle, fun hend => ?_, fun hlt r hr => ?_, ?_⟩
  · have hpos : 1 ≤ l.curFrameInTD := by
      rcases Nat.eq_zero_or_pos l.curFrameInTD with hz | hp
      · exact absurd (hI.more hz) hend
      · exact hp
    have hsub : sub32 l.curFrameInTD 1 = l.curFrameInTD - 1 :=
      sub32_of_le (by unfold W32; omega) hpos
    exact ⟨hpos, hsub, by omega⟩
  · have key : (∀ l', r = .inl l' → 1 ≤ l.curFrameInTD ∧ l.curFrameInTD ≤ 8
          ∧ sub32 l.curFrameInTD 1 = l.curFrameInTD - 1
          ∧ ∀ x k, (l'.st.itds x).offset k = (l.st.itds x).offset k)
        ∧ ∀ l', r = .inr l' → IsochCounting frameCount l' ∧ IsochPass l l' := by
      rcases hBody with hB | hB
      · rw [hB] at hr
        exact UIMCreateIsochTransfer.body_counting hI hlt hr
      · rw [hB] at hr
        exact UIMCreateIsochTransferLL.body_counting_ll hI hlt hr
    refine ⟨fun l' hl' => ?_, fun l' hl' => (key.2 l' hl').2⟩
    obtain ⟨k1, k2, k3, k4⟩ := key.1 l' hl'
    exact ⟨k1, k3, by omega, k4⟩
  · intro H s s' fuel functionAddress endpointNumber completion direction frameNumberStart
      status hcall
    exact UIMCreateIsochTransfer.high_offsets_kept H s s' fuel functionAddress endpointNumber
      completion direction frameNumberStart pBuffer frameCount pFrames updateFrequency status
      hcall

/-- Witness for C14: the loop of the standard variant entered on the example driver for the
request of 3 frames on the isochronous endpoint 21 (placeholder 200, new iTD 201); the call
itself returns success and changed no offset slot past slot 7. -/
theorem UIMCreateIsochTransfer_frames_per_descriptor_witness :
    IsochLoopReachable (UIMCreateIsochTransfer.body exampleScatteredBuffer 7 34474 0 3) 3
        (IsochTransferLoop.init exampleBulkQueuedState 21 201 3)
        (IsochTransferLoop.init exampleBulkQueuedState 21 201 3)
      ∧ (IsochTransferLoop.init exampleBulkQueuedState 21 201 3).curFrameInTD ≤ 8
      ∧ UIMCreateIsochTransfer exampleHeader exampleBulkQueuedState 5 5 1 ⟨1, 2, 3⟩ kUSBOut
        100010 exampleScatteredBuffer 3 7 = .ret (.kIOReturnSuccess, exampleTwoTransfersState)
      ∧ ∀ x k, 8 ≤ k → (exampleTwoTransfersState.itds x).offset k
        = (exampleBulkQueuedState.itds x).offset k :=
  ⟨IsochLoopReachable.entry,
    (UIMCreateIsochTransfer_frames_per_descriptor exampleBulkQueuedState 21 201
      exampleScatteredBuffer 3 7 34474 0 3 0 _ (Or.inl rfl) (by decide) _
      IsochLoopReachable.entry).1,
    exampleTwoTransfersState_call,
    (UIMCreateIsochTransfer_frames_per_descriptor exampleBulkQueuedState 21 201
      exampleScatteredBuffer 3 7 34474 0 3 0 _ (Or.inl rfl) (by decide) _
      IsochLoopReachable.entry).2.2.2 exampleHeader exampleBulkQueuedState
      exampleTwoTransfersState 5 5 1 ⟨1, 2, 3⟩ kUSBOut 100010 .kIOReturnSuccess
      (Or.inl exampleTwoTransfersState_call)⟩

/-! ## The frames of an isochronous request in its chain of descriptors -/

/-- Two words without a common bit position, one below `2 ^ i` and one a multiple of it. -/
theorem or_eq_add (a b i : Nat) (ha : a < 2 ^ i) (hb : b % 2 ^ i = 0) : a ||| b = a + b := by
  obtain ⟨q, rfl⟩ := Nat.dvd_of_mod_eq_zero hb
  rw [Nat.or_comm, ← Nat.mul_add_lt_is_or ha q, Nat.add_comm]

theorem shiftRight_and (x m i : Nat) : (x &&& m) >>> i = (x >>> i) &&& (m >>> i) := by
  apply Nat.eq_of_testBit_eq
  intro j
  simp only [Nat.testBit_shiftRight, Nat.testBit_and]

/-- The fields of the flags word of a closed iTD: starting frame `F` and `c + 1` frames. -/
theorem closedFlags_fields (F c : Nat) (hF : F < 65536) (hc : c ≤ 7) :
    (F ||| shl32 c kOHCIITDControl_FCPhase
        ||| shl32 kOHCIGTDConditionNotAccessed kOHCIGTDControl_CCPhase
        ||| shl32 0x7 kOHCIGTDControl_DIPhase) &&& kOHCIITDControl_SF = F
      ∧ ((F ||| shl32 c kOHCIITDControl_FCPhase
        ||| shl32 kOHCIGTDConditionNotAccessed kOHCIGTDControl_CCPhase
        ||| shl32 0x7 kOHCIGTDControl_DIPhase) &&& kOHCIITDControl_FC)
          >>> kOHCIITDControl_FCPhase = c := by
  have hC : shl32 c kOHCIITDControl_FCPhase = c * 16777216 := by
    unfold shl32 kOHCIITDControl_FCPhase W32
    rw [Nat.shiftLeft_eq]
    omega
  have hCC : shl32 kOHCIGTDConditionNotAccessed kOHCIGTDControl_CCPhase = 4026531840 := by
    decide
  have hDI : shl32 0x7 kOHCIGTDControl_DIPhase = 14680064 := by decide
  have hX : F ||| shl32 c kOHCIITDControl_FCPhase
        ||| shl32 kOHCIGTDConditionNotAccessed kOHCIGTDControl_CCPhase
        ||| shl32 0x7 kOHCIGTDControl_DIPhase = F + 14680064 + c * 16777216 + 4026531840 := by
    rw [hC, hCC, hDI, Nat.or_assoc, Nat.or_assoc, Nat.or_comm 4026531840,
      ← Nat.or_assoc (c * 16777216), Nat.or_comm (c * 16777216),
      or_eq_add 14680064 (c * 16777216) 24 (by norm_num) (by omega),
      or_eq_add (14680064 + c * 16777216) 4026531840 28 (by norm_num; omega) (by norm_num),
      or_eq_add F _ 16 (by norm_num; omega) (by omega)]
    omega
  rw [hX]
  constructor
  · have h := Nat.and_pow_two_sub_one_eq_mod (F + 14680064 + c * 16777216 + 4026531840) 16
    simp only [Nat.reducePow, Nat.add_one_sub_one] at h
    unfold kOHCIITDControl_SF
    rw [h]
    omega
  · have h := Nat.and_pow_two_sub_one_eq_mod
      ((F + 14680064 + c * 16777216 + 4026531840) >>> 24) 3
    simp only [Nat.reducePow, Nat.add_one_sub_one] at h
    unfold kOHCIITDControl_FC kOHCIITDControl_FCPhase
    rw [shiftRight_and, show (0x07000000 : Nat) >>> 24 = 7 from by decide, h,
      Nat.shiftRight_eq_div_pow]
    omega

/-- The fields of the flags word of the last iTD: starting frame `F` and `c + 1` frames. -/
theorem finalFlags_fields (F c : Nat) (hF : F < 65536) (hc : c ≤ 7) :
    (F ||| shl32 c kOHCIITDControl_FCPhase) &&& kOHCIITDControl_SF = F
      ∧ ((F ||| shl32 c kOHCIITDControl_FCPhase) &&& kOHCIITDControl_FC)
          >>> kOHCIITDControl_FCPhase = c := by
  have hC : shl32 c kOHCIITDControl_FCPhase = c * 16777216 := by
    unfold shl32 kOHCIITDControl_FCPhase W32
    rw [Nat.shiftLeft_eq]
    omega
  have hX : F ||| shl32 c kOHCIITDControl_FCPhase = F + c * 16777216 := by
    rw [hC, or_eq_add F _ 16 (by norm_num; omega) (by omega)]
  rw [hX]
  constructor
  · have h := Nat.and_pow_two_sub_one_eq_mod (F + c * 16777216) 16
    simp only [Nat.reducePow, Nat.add_one_sub_one] at h
    unfold kOHCIITDControl_SF
    rw [h]
    omega
  · have h := Nat.and_pow_two_sub_one_eq_mod ((F + c * 16777216) >>> 24) 3
    simp only [Nat.reducePow, Nat.add_one_sub_one] at h
    unfold kOHCIITDControl_FC kOHCIITDControl_FCPhase
    rw [shiftRight_and, show (0x07000000 : Nat) >>> 24 = 7 from by decide, h,
      Nat.shiftRight_eq_div_pow]
    omega

theorem setITD_flags (st : AppleUSBOHCI) (p : Nat)
    (f : OHCIIsochTransferDescriptor → OHCIIsochTransferDescriptor)
    (hf : ∀ d, (f d).flags = d.flags) (x : Nat) :
    ((setITD st p f).itds x).flags = (st.itds x).flags := by
  rw [setITD_itds]
  split_ifs with h
  · rw [hf, h]
  · rfl

theorem setITD_frameNum (st : AppleUSBOHCI) (p : Nat)
    (f : OHCIIsochTransferDescriptor → OHCIIsochTransferDescriptor)
    (hf : ∀ d, (f d).frameNum = d.frameNum) (x : Nat) :
    ((setITD st p f).itds x).frameNum = (st.itds x).frameNum := by
  rw [setITD_itds]
  split_ifs with h
  · rw [hf, h]
  · rfl

theorem AllocateITD_some {st s : AppleUSBOHCI} {p : Nat} (h : AllocateITD st = (some p, s)) :
    st.pFreeITD = p :: s.pFreeITD ∧ s.itds = st.itds := by
  unfold AllocateITD at h
  split at h
  · cases h
  · rename_i q rest hq
    simp only [Prod.mk.injEq, Option.some.injEq] at h
    obtain ⟨rfl, rfl⟩ := h
    exact ⟨hq, rfl⟩

/-- What the pass has written to the header fields when it arrives at the test that closes
the iTD. -/
theorem IsochTransferLoop.placeOnPage_fields {l l1 : IsochTransferLoop}
    {pBuffer : IOMemoryDescriptor} {pFrames bufferSize frameNumber tdType : Nat}
    (h : (l.getSegments pBuffer pFrames bufferSize).placeOnPage pFrames frameNumber tdType
      = .ret l1) :
    (∀ x, (l1.st.itds x).flags = (l.st.itds x).flags)
      ∧ (∀ x, x ≠ l.pTailITD → (l1.st.itds x).frameNum = (l.st.itds x).frameNum)
      ∧ (l.curFrameInTD = 0 → (l1.st.itds l.pTailITD).frameNum = l.curFrameInRequest
        ∧ l1.itdFlags = toUInt16 (add32 l.curFrameInRequest frameNumber))
      ∧ (l.curFrameInTD ≠ 0 → l1.st = l.st ∧ l1.itdFlags = l.itdFlags) := by
  have hg : (l.getSegments pBuffer pFrames bufferSize).curFrameInTD = l.curFrameInTD
      ∧ (l.getSegments pBuffer pFrames bufferSize).curFrameInRequest = l.curFrameInRequest
      ∧ (l.getSegments pBuffer pFrames bufferSize).pTailITD = l.pTailITD
      ∧ (l.getSegments pBuffer pFrames bufferSize).itdFlags = l.itdFlags
      ∧ (l.getSegments pBuffer pFrames bufferSize).st = l.st := by
    unfold IsochTransferLoop.getSegments
    split_ifs <;> exact ⟨rfl, rfl, rfl, rfl, rfl⟩
  obtain ⟨g1, g2, g3, g4, g5⟩ := hg
  generalize l.getSegments pBuffer pFrames bufferSize = lg at h g1 g2 g3 g4 g5
  unfold IsochTransferLoop.placeOnPage at h
  split_ifs at h with h0
  · simp only [Outcome.ret.injEq] at h
    subst h
    dsimp only
    rw [g5, g3, g2]
    refine ⟨fun x => ?_, fun x hx => ?_, fun _ => ⟨?_, rfl⟩,
      fun hne => absurd (g1 ▸ h0) hne⟩
    · refine setITD_flags _ _ _ ?_ x
      intro d
      rfl
    · rw [setITD_itds, if_neg hx]
    · rw [setITD_itds, if_pos rfl]
  · simp only [Outcome.ret.injEq] at h
    subst h
    exact ⟨fun x => by rw [g5], fun x _ => by rw [g5],
      fun hz => absurd (g1.trans hz) h0, fun _ => ⟨g5, g4⟩⟩
  · obtain ⟨seg, -, hret⟩ := Outcome.bind_eq_ret h
    simp only [Outcome.ret.injEq] at hret
    subst hret
    exact ⟨fun x => by rw [g5], fun x _ => by rw [g5],
      fun hz => absurd (g1.trans hz) h0, fun _ => ⟨g5, g4⟩⟩
  · simp only [Outcome.ret.injEq] at h
    subst h
    exact ⟨fun x => by rw [g5], fun x _ => by rw [g5],
      fun hz => absurd (g1.trans hz) h0, fun _ => ⟨g5, g4⟩⟩

theorem IsochTransferLoop.addFrame_fields {l l' : IsochTransferLoop}
    (h : l.addFrame = .ret l') :
    l'.itdFlags = l.itdFlags ∧ (∀ x, (l'.st.itds x).flags = (l.st.itds x).flags)
      ∧ ∀ x, (l'.st.itds x).frameNum = (l.st.itds x).frameNum := by
  unfold IsochTransferLoop.addFrame at h
  obtain ⟨seg, -, hret⟩ := Outcome.bind_eq_ret h
  simp only [Outcome.ret.injEq] at hret
  subst hret
  dsimp only
  refine ⟨rfl, fun x => ?_, fun x => ?_⟩
  · refine setITD_flags _ _ _ ?_ x
    intro d
    rfl
  · refine setITD_frameNum _ _ _ ?_ x
    intro d
    rfl

/-- A pass of the standard loop that goes on, with what it did to the flags and the frame
numbers of the iTDs: it either closed the current iTD or put a frame into it. -/
theorem UIMCreateIsochTransfer.body_fields {pBuffer : IOMemoryDescriptor}
    {pFrames frameNumber tdType bufferSize frameCount : Nat} {l l' : IsochTransferLoop}
    (hI : IsochCounting frameCount l)
    (h : UIMCreateIsochTransfer.body pBuffer pFrames frameNumber tdType bufferSize l
      = .ret (.inr l')) :
    (l'.curFrameInRequest = l.curFrameInRequest ∧ l'.curFrameInTD = 0 ∧ 1 ≤ l.curFrameInTD
        ∧ l.st.pFreeITD = l'.pNewITD :: l'.st.pFreeITD
        ∧ (l'.st.itds l.pTailITD).flags
          = (l.itdFlags ||| shl32 (sub32 l.curFrameInTD 1) kOHCIITDControl_FCPhase
            ||| shl32 kOHCIGTDConditionNotAccessed kOHCIGTDControl_CCPhase
            ||| shl32 0x7 kOHCIGTDControl_DIPhase)
        ∧ (∀ x, x ≠ l.pTailITD → (l'.st.itds x).flags = (l.st.itds x).flags)
        ∧ ∀ x, (l'.st.itds x).frameNum = (l.st.itds x).frameNum)
      ∨ (l'.curFrameInRequest = add32 l.curFrameInRequest 1
        ∧ l'.curFrameInTD = l.curFrameInTD + 1
        ∧ l'.st.pFreeITD = l.st.pFreeITD
        ∧ (∀ x, (l'.st.itds x).flags = (l.st.itds x).flags)
        ∧ (∀ x, x ≠ l.pTailITD → (l'.st.itds x).frameNum = (l.st.itds x).frameNum)
        ∧ (l.curFrameInTD = 0 → (l'.st.itds l.pTailITD).frameNum = l.curFrameInRequest
          ∧ l'.itdFlags = toUInt16 (add32 l.curFrameInRequest frameNumber))
        ∧ (l.curFrameInTD ≠ 0 →
          (l'.st.itds l.pTailITD).frameNum = (l.st.itds l.pTailITD).frameNum
          ∧ l'.itdFlags = l.itdFlags)) := by
  have hpool : ∀ l1 : IsochTransferLoop,
      (l.getSegments pBuffer pFrames bufferSize).placeOnPage pFrames frameNumber tdType
        = .ret l1 → l1.st.pFreeITD = l.st.pFreeITD := by
    intro l1 h1
    have k := (IsochTransferLoop.placeOnPage_kept h1).1.pFreeITD
    rw [(l.getSegments_kept pBuffer pFrames bufferSize).1] at k
    exact k
  unfold UIMCreateIsochTransfer.body at h
  obtain ⟨l1, h1, h2⟩ := Outcome.bind_eq_ret h
  obtain ⟨p1, p2, p3, p4, -, -⟩ := IsochTransferLoop.placeOnPage_counting h1
  obtain ⟨q1, q2, q3, q4⟩ := IsochTransferLoop.placeOnPage_fields h1
  have hp := hpool l1 h1
  have hle := hI.le
  split at h2
  · rename_i hc
    have hpos : 1 ≤ l.curFrameInTD := by
      rcases Nat.eq_zero_or_pos l.curFrameInTD with hz | hp
      · exfalso
        have hn := p4 hz
        rw [p1, hz, hn] at hc
        simp at hc
      · exact hp
    obtain ⟨hst, hfl⟩ := q4 (by omega)
    dsimp only at h2
    split at h2
    · cases h2
    · rename_i p s heq
      obtain ⟨a1, a2⟩ := AllocateITD_some heq
      simp only [Outcome.ret.injEq, Sum.inr.injEq] at h2
      subst h2
      refine Or.inl ⟨p2, rfl, hpos, ?_, ?_, fun x hx => ?_, fun x => ?_⟩
      · dsimp only
        rw [← hst]
        exact a1
      · dsimp only
        rw [p3]
        refine (setITD_flags _ _ _ ?_ _).trans ?_
        · intro d
          rfl
        rw [setITD_itds, if_pos rfl, p1, hfl]
      · dsimp only
        rw [p3]
        refine (setITD_flags _ _ _ ?_ x).trans ?_
        · intro d
          rfl
        rw [setITD_itds, if_neg hx, a2]
        refine (setITD_flags _ _ _ ?_ x).trans (q1 x)
        intro d
        rfl
      · dsimp only
        refine (setITD_frameNum _ _ _ ?_ x).trans ((setITD_frameNum _ _ _ ?_ x).trans ?_)
        · intro d
          rfl
        · intro d
          rfl
        rw [a2]
        refine (setITD_frameNum _ _ _ ?_ x).trans ?_
        · intro d
          rfl
        rw [hst]
  · rename_i hc
    obtain ⟨l2, h3, h4⟩ := Outcome.bind_eq_ret h2
    simp only [Outcome.ret.injEq, Sum.inr.injEq] at h4
    subst h4
    obtain ⟨a1, a2, -, -⟩ := IsochTransferLoop.addFrame_counting h3
    obtain ⟨b1, b2, b3⟩ := IsochTransferLoop.addFrame_fields h3
    have hk := (IsochTransferLoop.addFrame_kept h3).1.pFreeITD
    have hc1 : l.curFrameInTD ≤ 7 := by
      rw [p1] at hc
      omega
    have hadd : add32 l.curFrameInTD 1 = l.curFrameInTD + 1 := by
      unfold add32 W32
      omega
    rw [p1, hadd] at a1
    rw [p2] at a2
    refine Or.inr ⟨a2, a1, hk.trans hp, fun x => (b2 x).trans (q1 x),
      fun x hx => (b3 x).trans (q2 x hx), fun hz => ?_, fun hne => ?_⟩
    · exact ⟨(b3 _).trans (q3 hz).1, b1.trans (q3 hz).2⟩
    · obtain ⟨hst, hfl⟩ := q4 hne
      exact ⟨(b3 _).trans (by rw [hst]), b1.trans hfl⟩

theorem IsochRunsCover.append_run (d c : Nat) (hc : 1 ≤ c) :
    ∀ (rs : List IsochRun) (i f : Nat), IsochRunsCover rs i f →
      IsochRunsCover (rs ++ [⟨d, f, c⟩]) i (f + c)
  | [], i, f, h => by
    simp only [IsochRunsCover] at h
    subst h
    exact ⟨rfl, hc, rfl⟩
  | r :: rs, i, f, h => by
    obtain ⟨h1, h2, h3⟩ := h
    exact ⟨h1, h2, IsochRunsCover.append_run d c hc rs _ f h3⟩

theorem IsochRunsCover.sum_count :
    ∀ (rs : List IsochRun) (i n : Nat), IsochRunsCover rs i n →
      i + (rs.map fun r => r.count).sum = n
  | [], i, n, h => by
    simp only [IsochRunsCover] at h
    simp [h]
  | r :: rs, i, n, h => by
    obtain ⟨-, -, h3⟩ := h
    have := IsochRunsCover.sum_count rs _ n h3
    simp only [List.map_cons, List.sum_cons]
    omega

/-- The starting frame that a pass puts into `itdFlags` when it opens an iTD. -/
theorem startingFrame_eq (s f : Nat) :
    toUInt16 (add32 f (toUInt16 s)) = (s + f) % 65536 := by
  unfold toUInt16 add32 W32
  omega

/-- A pass of the standard loop that goes on keeps the account of the frames placed. -/
theorem IsochFilling.pass {st0 : AppleUSBOHCI} {T0 s frameCount : Nat}
    {pBuffer : IOMemoryDescriptor} {pFrames tdType bufferSize : Nat}
    {l l' : IsochTransferLoop} {done pre : List Nat} {rs : List IsochRun} {f0 : Nat}
    (hnd : st0.pFreeITD.Nodup) (hT0 : T0 ∉ st0.pFreeITD) (hCount : frameCount ≤ 1000)
    (b : IsochBuilding st0 T0 l.st l.pTailITD done pre l.pNewITD)
    (hI : IsochCounting frameCount l) (hF : IsochFilling s l rs f0)
    (hmap : (rs.map fun r => r.itd) = done) (hlt : l.curFrameInRequest < frameCount)
    (h : UIMCreateIsochTransfer.body pBuffer pFrames (toUInt16 s) tdType bufferSize l
      = .ret (.inr l')) :
    ∃ done' pre' rs' f0', IsochBuilding st0 T0 l'.st l'.pTailITD done' pre' l'.pNewITD
      ∧ IsochCounting frameCount l' ∧ IsochFilling s l' rs' f0'
      ∧ (rs'.map fun r => r.itd) = done' ∧ l'.curFrameInRequest ≤ frameCount := by
  have hI' := ((UIMCreateIsochTransfer.body_counting hI hlt h).2 l' rfl).1
  have hmem := b.members hnd hT0
  have hnotdone : l.pTailITD ∉ done := hmem.2.2.2.2.2.2.2.2.2.1
  have hrs : ∀ r ∈ rs, r.itd ≠ l.pTailITD := by
    intro r hr heq
    apply hnotdone
    rw [← hmap, ← heq]
    exact List.mem_map_of_mem _ hr
  have hreq := hF.request
  rcases UIMCreateIsochTransfer.body_spec pBuffer pFrames (toUInt16 s) tdType bufferSize l _ h
    with ⟨l1, hl1, -, -⟩ | ⟨l1, hl1, hk, ht, hn⟩ | ⟨l1, hl1, ha⟩
  · cases hl1
  · simp only [Sum.inr.injEq] at hl1
    subst hl1
    rcases UIMCreateIsochTransfer.body_fields hI h with
      ⟨-, -, -, c4, -, -, -⟩ | ⟨a1, a2, -, a4, a5, a6, a7⟩
    · exfalso
      rw [hk.pFreeITD] at c4
      exact List.cons_ne_self _ _ c4.symm
    · have hadd : add32 l.curFrameInRequest 1 = l.curFrameInRequest + 1 := by
        unfold add32 W32
        omega
      refine ⟨done, pre, rs, f0, ?_, hI', ⟨hF.cover, fun r hr => ?_, ?_, fun _ => ?_⟩, hmap, ?_⟩
      · rw [ht, hn]
        exact b.kept hk
      · obtain ⟨⟨r1, r2, r3⟩, r4⟩ := hF.recorded r hr
        have hne := hrs r hr
        refine ⟨⟨?_, ?_, ?_⟩, r4⟩
        · rw [a5 _ hne]
          exact r1
        · rw [a4, a5 _ hne]
          exact r2
        · rw [a4]
          exact r3
      · rw [a1, hadd, a2, hreq]
        omega
      · rw [ht]
        rcases Nat.eq_zero_or_pos l.curFrameInTD with hz | hp
        · obtain ⟨e1, e2⟩ := a6 hz
          have hf0 : l.curFrameInRequest = f0 := by omega
          rw [e1, e2, hf0]
          exact ⟨rfl, startingFrame_eq s f0⟩
        · obtain ⟨e1, e2⟩ := a7 (by omega)
          rw [e1, e2]
          exact hF.current hp
      · rw [a1, hadd]
        omega
  · simp only [Sum.inr.injEq] at hl1
    subst hl1
    rcases UIMCreateIsochTransfer.body_fields hI h with
      ⟨c1, c2, c3, -, c5, c6, c7⟩ | ⟨-, -, a3, -, -, -, -⟩
    · obtain ⟨k1, k2⟩ := hF.current (by omega)
      have hsub : sub32 l.curFrameInTD 1 = l.curFrameInTD - 1 :=
        sub32_of_le (by have := hI.le; unfold W32; omega) c3
      have hfields := closedFlags_fields l.itdFlags (l.curFrameInTD - 1)
        (by rw [k2]; omega) (by have := hI.le; omega)
      rw [← hsub, ← c5] at hfields
      refine ⟨done ++ [l.pTailITD], pre ++ [l.pNewITD], rs ++ [⟨l.pTailITD, f0, l.curFrameInTD⟩],
        f0 + l.curFrameInTD, b.advance hnd hT0 ha, hI',
        ⟨IsochRunsCover.append_run _ _ c3 rs 0 f0 hF.cover, fun r hr => ?_, ?_,
          fun hpos => ?_⟩, ?_, ?_⟩
      · rw [List.mem_append, List.mem_singleton] at hr
        rcases hr with hr | rfl
        · obtain ⟨⟨r1, r2, r3⟩, r4⟩ := hF.recorded r hr
          have hne := hrs r hr
          refine ⟨⟨?_, ?_, ?_⟩, r4⟩
          · rw [c7]
            exact r1
          · rw [c6 _ hne, c7]
            exact r2
          · rw [c6 _ hne]
            exact r3
        · refine ⟨⟨?_, ?_, ?_⟩, hI.le⟩
          · show (l'.st.itds l.pTailITD).frameNum = f0
            rw [c7]
            exact k1
          · show (l'.st.itds l.pTailITD).flags &&& kOHCIITDControl_SF
              = (s + (l'.st.itds l.pTailITD).frameNum) % 65536
            rw [hfields.1, c7, k1]
            exact k2
          · show ((l'.st.itds l.pTailITD).flags &&& kOHCIITDControl_FC)
              >>> kOHCIITDControl_FCPhase = l.curFrameInTD - 1
            rw [hfields.2, hsub]
      · rw [c1, c2, hreq]
        rfl
      · rw [c2] at hpos
        exact absurd hpos (by decide)
      · rw [List.map_append, hmap]
        rfl
      · rw [c1]
        omega
    · exfalso
      rw [ha.pool] at a3
      exact List.cons_ne_self _ _ a3.symm

/-- The standard loop that ends with success has placed every frame of the request. -/
theorem UIMCreateIsochTransfer.loop_filling {st0 : AppleUSBOHCI} {T0 s frameCount : Nat}
    (pBuffer : IOMemoryDescriptor) (pFrames tdType bufferSize : Nat)
    (hnd : st0.pFreeITD.Nodup) (hT0 : T0 ∉ st0.pFreeITD) (hCount : frameCount ≤ 1000) :
    ∀ (fuel : Nat) (l l' : IsochTransferLoop) (done pre : List Nat) (rs : List IsochRun)
      (f0 : Nat),
      UIMCreateIsochTransfer.loop pBuffer frameCount pFrames (toUInt16 s) tdType bufferSize
        fuel l = .ret (.kIOReturnSuccess, l') →
      IsochBuilding st0 T0 l.st l.pTailITD done pre l.pNewITD →
      IsochCounting frameCount l → IsochFilling s l rs f0 →
      (rs.map fun r => r.itd) = done → l.curFrameInRequest ≤ frameCount →
      ∃ done' pre' rs' f0', IsochBuilding st0 T0 l'.st l'.pTailITD done' pre' l'.pNewITD
        ∧ IsochCounting frameCount l' ∧ IsochFilling s l' rs' f0'
        ∧ (rs'.map fun r => r.itd) = done' ∧ l'.curFrameInRequest = frameCount
  | 0, l, l', done, pre, rs, f0, h, _, _, _, _, _ => by
    simp [UIMCreateIsochTransfer.loop] at h
  | fuel + 1, l, l', done, pre, rs, f0, h, b, hI, hF, hmap, hle => by
    rw [UIMCreateIsochTransfer.loop] at h
    split_ifs at h with hlt
    · obtain ⟨r, hbody, hrest⟩ := Outcome.bind_eq_ret h
      rcases r with l1 | l1
      · simp only [Outcome.ret.injEq, Prod.mk.injEq] at hrest
        cases hrest.1
      · obtain ⟨done1, pre1, rs1, f1, b1, hI1, hF1, hmap1, hle1⟩ :=
          IsochFilling.pass hnd hT0 hCount b hI hF hmap hlt hbody
        exact UIMCreateIsochTransfer.loop_filling pBuffer pFrames tdType bufferSize hnd hT0
          hCount fuel l1 l' done1 pre1 rs1 f1 hrest b1 hI1 hF1 hmap1 hle1
    · simp only [Outcome.ret.injEq, Prod.mk.injEq] at h
      obtain ⟨-, rfl⟩ := h
      exact ⟨done, pre, rs, f0, b, hI, hF, hmap, by omega⟩

/-- The standard variant from the endpoint on, when it returns success: the chain it built
records the frames of the request in runs. -/
theorem UIMCreateIsochTransfer.queue_runs {st st' : AppleUSBOHCI} {fuel pED : Nat}
    {completion : IOUSBCompletion} {s : Nat} {pBuffer : IOMemoryDescriptor}
    {frameCount pFrames tdType : Nat}
    (hnd : st.pFreeITD.Nodup) (hT0 : (st.eds pED).pLogicalTailP ∉ st.pFreeITD)
    (hCount : 1 ≤ frameCount ∧ frameCount ≤ 1000)
    (h : UIMCreateIsochTransfer.queue st fuel pED completion s pBuffer frameCount pFrames tdType
      = .ret (.kIOReturnSuccess, st')) :
    ∃ runs : List IsochRun,
      ITDChain st'.itds (st.eds pED).pLogicalTailP (runs.map fun r => r.itd)
          (st'.eds pED).pLogicalTailP
        ∧ IsochRunsCover runs 0 frameCount
        ∧ (∀ r ∈ runs, r.recorded st'.itds s ∧ r.count ≤ 8)
        ∧ (runs.map fun r => r.count).sum = frameCount ∧ runs ≠ [] := by
  unfold UIMCreateIsochTransfer.queue at h
  split at h
  · rename_i error hw
    simp only [Outcome.ret.injEq, Prod.mk.injEq] at h
    exact absurd h.1 (isochFrameWindow_error hw)
  split at h
  · simp only [Outcome.ret.injEq, Prod.mk.injEq] at h
    cases h.1
  rename_i bufferSize hsize
  rcases hp : st.pFreeITD with _ | ⟨n, rest⟩
  · rw [AllocateITD_nil _ hp] at h
    simp only [Outcome.ret.injEq, Prod.mk.injEq] at h
    cases h.1
  rw [AllocateITD_cons _ n rest hp] at h
  dsimp only at h
  obtain ⟨⟨s1, lE⟩, hloop, hfin⟩ := Outcome.bind_eq_ret h
  dsimp only at hfin
  have hs1 : s1 = .kIOReturnSuccess := (UIMCreateIsochTransfer.finish_eds hfin).1.symm
  subst hs1
  obtain ⟨done, pre, rs, f0, b, hI, hF, hmap, hreq⟩ :=
    UIMCreateIsochTransfer.loop_filling pBuffer pFrames tdType bufferSize hnd hT0 hCount.2 _ _
      lE [] [] [] 0 hloop (IsochBuilding.isoch_init st pED n bufferSize rest hp)
      (IsochCounting.entry _ pED n bufferSize hCount.1)
      ⟨rfl, fun r hr => absurd hr (List.not_mem_nil r), rfl,
        fun hpos => (Nat.lt_irrefl 0 hpos).elim⟩ rfl (Nat.zero_le _)
  have hmem := b.members hnd hT0
  have hnotdone : lE.pTailITD ∉ done := hmem.2.2.2.2.2.2.2.2.2.1
  have hpos : 1 ≤ lE.curFrameInTD := by
    rcases Nat.eq_zero_or_pos lE.curFrameInTD with hz | hp
    · have := hI.more hz
      omega
    · exact hp
  have hle := hI.le
  obtain ⟨k1, k2⟩ := hF.current hpos
  have hsub : sub32 lE.curFrameInTD 1 = lE.curFrameInTD - 1 :=
    sub32_of_le (by unfold W32; omega) hpos
  have hfields := finalFlags_fields lE.itdFlags (lE.curFrameInTD - 1) (by rw [k2]; omega)
    (by omega)
  rw [← hsub] at hfields
  obtain ⟨sF, hsF⟩ : ∃ sF, sF = setITD lE.st lE.pTailITD fun itd =>
      { itd with flags := lE.itdFlags ||| shl32 (sub32 lE.curFrameInTD 1)
                   kOHCIITDControl_FCPhase,
                 bufferEnd := lE.lastPhysical, completion := completion } := ⟨_, rfl⟩
  have hother : ∀ x, x ≠ lE.pTailITD → sF.itds x = lE.st.itds x := fun x hx => by
    rw [hsF, setITD_itds, if_neg hx]
  have hnext : ∀ x, (sF.itds x).pLogicalNext = (lE.st.itds x).pLogicalNext := fun x => by
    rw [hsF, setITD_itds]
    split_ifs with hx
    · rw [hx]
    · rfl
  have hnum : (sF.itds lE.pTailITD).frameNum = f0 := by
    rw [hsF, setITD_itds, if_pos rfl]
    exact k1
  have hflags : (sF.itds lE.pTailITD).flags
      = lE.itdFlags ||| shl32 (sub32 lE.curFrameInTD 1) kOHCIITDControl_FCPhase := by
    rw [hsF, setITD_itds, if_pos rfl]
  unfold UIMCreateIsochTransfer.finish at hfin
  dsimp only at hfin
  rw [if_neg (by simp), ← hsF] at hfin
  simp only [Outcome.ret.injEq, Prod.mk.injEq, true_and] at hfin
  have hitds : st'.itds = sF.itds := by
    rw [← hfin]
    rfl
  have htail : (st'.eds pED).pLogicalTailP = lE.pNewITD := by
    rw [← hfin]
    simp [setED]
  clear hsF hfin
  have hcover := IsochRunsCover.append_run lE.pTailITD lE.curFrameInTD hpos rs 0 f0 hF.cover
  have hend : f0 + lE.curFrameInTD = frameCount := by rw [← hF.request, hreq]
  rw [hend] at hcover
  refine ⟨rs ++ [⟨lE.pTailITD, f0, lE.curFrameInTD⟩], ?_, hcover, fun r hr => ?_,
    ?_, by simp⟩
  · have hlinks := b.links
    rw [List.map_append, hmap, htail, hitds]
    show ITDChain _ _ (done ++ [lE.pTailITD]) _
    rw [← b.split]
    exact ITDChain.itd_congr _ _ _ (fun x _ => hnext x) hlinks
  · rw [List.mem_append, List.mem_singleton] at hr
    rcases hr with hr | rfl
    · obtain ⟨r0, r4⟩ := hF.recorded r hr
      have hne : r.itd ≠ lE.pTailITD := by
        intro heq
        apply hnotdone
        rw [← hmap, ← heq]
        exact List.mem_map_of_mem _ hr
      refine ⟨?_, r4⟩
      unfold IsochRun.recorded at r0 ⊢
      rw [hitds, hother _ hne]
      exact r0
    · refine ⟨?_, hle⟩
      unfold IsochRun.recorded
      rw [hitds]
      show (sF.itds lE.pTailITD).frameNum = f0
        ∧ (sF.itds lE.pTailITD).flags &&& kOHCIITDControl_SF
          = (s + (sF.itds lE.pTailITD).frameNum) % 65536
        ∧ ((sF.itds lE.pTailITD).flags &&& kOHCIITDControl_FC) >>> kOHCIITDControl_FCPhase
          = lE.curFrameInTD - 1
      rw [hnum, hflags]
      exact ⟨rfl, hfields.1.trans k2, hfields.2.trans hsub⟩
  · have := IsochRunsCover.sum_count _ 0 frameCount hcover
    omega

/-- C13: when the standard `UIMCreateIsochTransfer` returns success for a request of
`frameCount` frames with start frame `frameNumberStart`, on an endpoint whose placeholder is
not in the pool and with a pool without repetitions, the iTDs from the old tail placeholder up
to the new tail, excluded, hold the frames in runs: following `pLogicalNext` from the old tail
visits exactly the iTDs of the runs, in order, and arrives at the new tail; the runs cover the
frame indices from 0 to `frameCount` consecutively and none is empty (none has more than 8
frames); each iTD records `frameNum`, the index of its first frame, has
`(frameNumberStart + frameNum) mod 2^16` in its starting frame field and the run length less
one in its frame count field; and the run lengths sum to `frameCount`. -/
theorem UIMCreateIsochTransfer_frame_runs (H : Header) (st st' : AppleUSBOHCI)
    (fuel functionAddress endpointNumber : Nat) (completion : IOUSBCompletion)
    (direction frameNumberStart : Nat) (pBuffer : IOMemoryDescriptor)
    (frameCount pFrames pED back : Nat)
    (hFound : FindIsochronousEndpoint st fuel functionAddress endpointNumber
      (edDirection direction) = .ret (some (pED, back)))
    (hPool : st.pFreeITD.Nodup) (hTail : (st.eds pED).pLogicalTailP ∉ st.pFreeITD)
    (h : UIMCreateIsochTransfer H st fuel functionAddress endpointNumber completion direction
      frameNumberStart pBuffer frameCount pFrames = .ret (.kIOReturnSuccess, st')) :
    ∃ runs : List IsochRun,
      ITDChain st'.itds (st.eds pED).pLogicalTailP (runs.map fun r => r.itd)
          (st'.eds pED).pLogicalTailP
        ∧ IsochRunsCover runs 0 frameCount
        ∧ (∀ r ∈ runs, r.recorded st'.itds frameNumberStart ∧ r.count ≤ 8)
        ∧ (runs.map fun r => r.count).sum = frameCount ∧ runs ≠ [] := by
  unfold UIMCreateIsochTransfer at h
  by_cases hcount : frameCount = 0 ∨ frameCount > 1000
  · rw [if_pos hcount] at h
    simp only [Outcome.ret.injEq, Prod.mk.injEq] at h
    cases h.1
  rw [if_neg hcount] at h
  by_cases hdir : direction ≠ kUSBOut ∧ direction ≠ kUSBIn
  · rw [if_pos hdir] at h
    simp only [Outcome.ret.injEq, Prod.mk.injEq] at h
    cases h.1
  rw [if_neg hdir] at h
  have hed := edDirection_of_in_out (show direction = kUSBOut ∨ direction = kUSBIn by tauto)
  dsimp only at h
  rw [hed, hFound] at h
  exact UIMCreateIsochTransfer.queue_runs hPool hTail (by omega) h

/-- Witness for C13: on the example driver the request of 3 one-byte frames on three pages,
with start frame 100010, on the isochronous endpoint 21 succeeds; its chain from the
placeholder 200 to the new tail holds the three frames in runs. -/
theorem UIMCreateIsochTransfer_frame_runs_witness :
    UIMCreateIsochTransfer exampleHeader exampleBulkQueuedState 5 5 1 ⟨1, 2, 3⟩ kUSBOut 100010
        exampleScatteredBuffer 3 7 = .ret (.kIOReturnSuccess, exampleTwoTransfersState)
      ∧ ∃ runs : List IsochRun,
        ITDChain exampleTwoTransfersState.itds (exampleBulkQueuedState.eds 21).pLogicalTailP
            (runs.map fun r => r.itd) (exampleTwoTransfersState.eds 21).pLogicalTailP
          ∧ IsochRunsCover runs 0 3
          ∧ (∀ r ∈ runs, r.recorded exampleTwoTransfersState.itds 100010 ∧ r.count ≤ 8)
          ∧ (runs.map fun r => r.count).sum = 3 ∧ runs ≠ [] :=
  ⟨exampleTwoTransfersState_call,
    UIMCreateIsochTransfer_frame_runs exampleHeader exampleBulkQueuedState
      exampleTwoTransfersState 5 5 1 ⟨1, 2, 3⟩ kUSBOut 100010 exampleScatteredBuffer 3 7 21 5
      (by rfl) (by decide) (by decide) exampleTwoTransfersState_call⟩

/-! ## The ledger of the isochronous bandwidth -/

theorem shiftRight_or (x y i : Nat) : (x ||| y) >>> i = x >>> i ||| y >>> i := by
  apply Nat.eq_of_testBit_eq
  intro j
  simp only [Nat.testBit_shiftRight, Nat.testBit_or]

/-- A field of the disjunction of two words is the disjunction of their fields. -/
theorem field_or (x y m i : Nat) :
    ((x ||| y) &&& m) >>> i = ((x &&& m) >>> i) ||| ((y &&& m) >>> i) := by
  rw [and_or_distrib, shiftRight_or]

/-- A word below `2 ^ i` has nothing in a field that starts at bit `i`. -/
theorem field_of_lt (x m i : Nat) (hx : x < 2 ^ i) : (x &&& m) >>> i = 0 := by
  rw [shiftRight_and, Nat.shiftRight_eq_div_pow, Nat.div_eq_of_lt hx, Nat.zero_and]

theorem EDPath.ed_congr {eds eds' : Nat → OHCIEndpointDescriptor} (tail : Nat) :
    ∀ (l : List Nat) (p : Nat),
      (∀ x ∈ l, (eds' x).pLogicalNext = (eds x).pLogicalNext) →
      EDPath eds tail p l → EDPath eds' tail p l
  | [], _, _, h => h
  | y :: l, p, hl, h => by
    obtain ⟨h1, h2, h3, h4⟩ := h
    refine ⟨h1, h2, h3, ?_⟩
    rw [hl y (by simp)]
    exact EDPath.ed_congr tail l _ (fun x hx => hl x (List.mem_cons_of_mem _ hx)) h4

/-- The members of a directory list are neither the sentinel nor `NULL`. -/
theorem EDPath.ed_members {eds : Nat → OHCIEndpointDescriptor} (tail : Nat) :
    ∀ (l : List Nat) (p : Nat), EDPath eds tail p l → ∀ x ∈ l, x ≠ tail ∧ x ≠ 0
  | [], _, _, x, hx => absurd hx (List.not_mem_nil x)
  | y :: l, p, h, x, hx => by
    obtain ⟨-, h2, h3, h4⟩ := h
    rw [List.mem_cons] at hx
    rcases hx with rfl | hx
    · exact ⟨h2, h3⟩
    · exact EDPath.ed_members tail l _ h4 x hx

/-- The search along a directory list: it finds nothing, or the first member that matches,
with the member before it (the descriptor the search started behind, for the first member). -/
theorem searchEDList_path (st : AppleUSBOHCI) (mask unique tail : Nat) :
    ∀ (l : List Nat) (fuel back q : Nat) (r : Option (Nat × Nat)),
      EDPath st.eds tail q l → searchEDList st mask unique tail fuel back q = .ret r →
      r = none ∨ ∃ pre pED post, l = pre ++ pED :: post ∧ r = some (pED, pre.getLastD back)
  | _, 0, _, _, _, _, h => by simp [searchEDList] at h
  | [], fuel + 1, back, q, r, hpath, h => by
    simp only [EDPath] at hpath
    simp only [searchEDList, hpath, ne_eq, not_true_eq_false, ↓reduceIte, Outcome.ret.injEq] at h
    exact Or.inl h.symm
  | x :: xs, fuel + 1, back, q, r, hpath, h => by
    obtain ⟨rfl, hx1, hx2, hrest⟩ := hpath
    rw [searchEDList] at h
    simp only [hx1, hx2, ne_eq, not_false_eq_true, ↓reduceIte] at h
    split_ifs at h with hm
    · simp only [Outcome.ret.injEq] at h
      exact Or.inr ⟨[], q, xs, rfl, h.symm⟩
    · rcases searchEDList_path st mask unique tail xs fuel q _ r hrest h with hr | hr
      · exact Or.inl hr
      · obtain ⟨pre, pED, post, hl, hr⟩ := hr
        refine Or.inr ⟨q :: pre, pED, post, by rw [hl]; rfl, ?_⟩
        rw [hr]
        cases pre <;> rfl

theorem getLastD_mem : ∀ (l : List Nat) (a : Nat), l.getLastD a ∈ a :: l
  | [], a => by simp
  | b :: t, a => by
    have h : (b :: t).getLastD a = t.getLastD b := by cases t <;> rfl
    rw [h]
    exact List.mem_cons_of_mem _ (getLastD_mem t b)

/-- Unlinking the member `pED` of a directory list: the descriptor before it takes over its
link, and the list goes on without it. -/
theorem EDPath.unlink {eds eds' : Nat → OHCIEndpointDescriptor} (tail pED : Nat)
    (post : List Nat) :
    ∀ (pre : List Nat) (back0 : Nat),
      (back0 :: (pre ++ pED :: post)).Nodup →
      EDPath eds tail (eds back0).pLogicalNext (pre ++ pED :: post) →
      (eds' (pre.getLastD back0)).pLogicalNext = (eds pED).pLogicalNext →
      (∀ x, x ≠ pre.getLastD back0 → (eds' x).pLogicalNext = (eds x).pLogicalNext) →
      EDPath eds' tail (eds' back0).pLogicalNext (pre ++ post)
  | [], back0, hnd, hpath, hback, hother => by
    simp only [List.nil_append, EDPath] at hpath
    obtain ⟨-, -, -, hrest⟩ := hpath
    simp only [List.getLastD_nil] at hback hother
    rw [List.nil_append, hback]
    refine EDPath.ed_congr tail post _ (fun x hx => hother x ?_) hrest
    rintro rfl
    simp only [List.nil_append, List.nodup_cons, List.mem_cons] at hnd
    exact hnd.1 (Or.inr hx)
  | a :: pre, back0, hnd, hpath, hback, hother => by
    obtain ⟨ha, ha1, ha2, hrest⟩ := hpath
    have hlast : (a :: pre).getLastD back0 = pre.getLastD a := by cases pre <;> rfl
    rw [hlast] at hback hother
    have hnd2 := (List.nodup_cons.mp hnd).2
    have hback0 : back0 ≠ pre.getLastD a := by
      intro h
      have hmem : pre.getLastD a ∈ a :: pre := getLastD_mem pre a
      apply (List.nodup_cons.mp hnd).1
      rw [h, List.cons_append]
      exact List.mem_append_left _ hmem
    rw [hother back0 hback0, ha]
    exact ⟨rfl, ha1, ha2, EDPath.unlink tail pED post pre a hnd2 hrest hback hother⟩

theorem reservedBandwidth_cons (st : AppleUSBOHCI) (a : Nat) (l : List Nat) :
    reservedBandwidth st (a :: l) = maxPacketSizeOf st a + reservedBandwidth st l := by
  unfold reservedBandwidth
  rw [List.map_cons, List.sum_cons]

theorem reservedBandwidth_append (st : AppleUSBOHCI) (l1 l2 : List Nat) :
    reservedBandwidth st (l1 ++ l2) = reservedBandwidth st l1 + reservedBandwidth st l2 := by
  unfold reservedBandwidth
  rw [List.map_append, List.sum_append]

theorem maxPacketSizeOf_congr {st st' : AppleUSBOHCI} {e : Nat}
    (h : (st'.eds e).flags = (st.eds e).flags) :
    maxPacketSizeOf st' e = maxPacketSizeOf st e := by
  unfold maxPacketSizeOf
  rw [h]

theorem reservedBandwidth_congr (st st' : AppleUSBOHCI) (l : List Nat)
    (h : ∀ e ∈ l, (st'.eds e).flags = (st.eds e).flags) :
    reservedBandwidth st' l = reservedBandwidth st l := by
  induction l with
  | nil =>
    unfold reservedBandwidth
    rw [List.map_nil, List.map_nil]
  | cons a l ih =>
    rw [reservedBandwidth_cons, reservedBandwidth_cons, maxPacketSizeOf_congr (h a (by simp)),
      ih (fun e he => h e (List.mem_cons_of_mem _ he))]

theorem GetEDType_congr {st st' : AppleUSBOHCI} {e : Nat}
    (h : (st'.eds e).flags = (st.eds e).flags) : GetEDType st' e = GetEDType st e := by
  unfold GetEDType
  rw [h]

/-- The max packet size and the format in the flags word that `AddEmptyEndPoint` builds for an
isochronous endpoint of full speed. -/
theorem isochEndpointFlags_fields (functionAddress endpointNumber maxPacketSize direction : Nat)
    (hSize : maxPacketSize ≤ 2047) :
    ((shl32 (toUInt8 functionAddress) kOHCIEDControl_FAPhase
        ||| shl32 (toUInt8 endpointNumber) kOHCIEDControl_ENPhase
        ||| shl32 (toUInt8 (edDirection direction)) kOHCIEDControl_DPhase
        ||| shl32 (toUInt16 maxPacketSize) kOHCIEDControl_MPSPhase
        ||| shl32 kOHCIEDSpeedFull kOHCIEDControl_SPhase
        ||| shl32 kOHCIEDFormatIsochronousTD kOHCIEDControl_FPhase) &&& kOHCIEDControl_MPS)
          >>> kOHCIEDControl_MPSPhase = maxPacketSize
      ∧ ((shl32 (toUInt8 functionAddress) kOHCIEDControl_FAPhase
        ||| shl32 (toUInt8 endpointNumber) kOHCIEDControl_ENPhase
        ||| shl32 (toUInt8 (edDirection direction)) kOHCIEDControl_DPhase
        ||| shl32 (toUInt16 maxPacketSize) kOHCIEDControl_MPSPhase
        ||| shl32 kOHCIEDSpeedFull kOHCIEDControl_SPhase
        ||| shl32 kOHCIEDFormatIsochronousTD kOHCIEDControl_FPhase) &&& kOHCIEDControl_F)
          >>> kOHCIEDControl_FPhase = kOHCIEDFormatIsochronousTD := by
  have hA : shl32 (toUInt8 functionAddress) kOHCIEDControl_FAPhase < 2 ^ 15 := by
    unfold shl32 toUInt8 kOHCIEDControl_FAPhase W32
    rw [Nat.shiftLeft_eq]
    omega
  have hB : shl32 (toUInt8 endpointNumber) kOHCIEDControl_ENPhase < 2 ^ 15 := by
    unfold shl32 toUInt8 kOHCIEDControl_ENPhase W32
    rw [Nat.shiftLeft_eq]
    omega
  have hD : shl32 (toUInt8 (edDirection direction)) kOHCIEDControl_DPhase < 2 ^ 15 := by
    have : edDirection direction ≤ 2 := by
      unfold edDirection
      split_ifs <;> decide
    unfold shl32 toUInt8 kOHCIEDControl_DPhase W32
    rw [Nat.shiftLeft_eq]
    omega
  have hS : shl32 kOHCIEDSpeedFull kOHCIEDControl_SPhase = 0 := by decide
  have hF : shl32 kOHCIEDFormatIsochronousTD kOHCIEDControl_FPhase = 32768 := by decide
  have h16 : toUInt16 maxPacketSize = maxPacketSize := by
    unfold toUInt16
    omega
  obtain ⟨hP1, hP2⟩ := shl32_maxPacketSize hSize
  have hlt16 : ∀ x, x < 2 ^ 15 → x < 2 ^ 16 := fun x hx => by omega
  rw [hS, hF, h16, hP1]
  constructor
  · rw [field_or, field_or, field_or, field_or, field_or,
      show kOHCIEDControl_MPSPhase = 16 from rfl,
      field_of_lt _ _ 16 (hlt16 _ hA), field_of_lt _ _ 16 (hlt16 _ hB),
      field_of_lt _ _ 16 (hlt16 _ hD), field_of_lt 0 _ 16 (by norm_num),
      field_of_lt 32768 _ 16 (by norm_num), hP2, Nat.shiftLeft_shiftRight]
    simp
  · have hP3 : (maxPacketSize <<< 16 &&& kOHCIEDControl_F) = 0 := by
      rw [← hP2, Nat.and_assoc, show kOHCIEDControl_MPS &&& kOHCIEDControl_F = 0 from by decide,
        Nat.and_zero]
    rw [field_or, field_or, field_or, field_or, field_or,
      show kOHCIEDControl_FPhase = 15 from rfl,
      field_of_lt _ _ 15 hA, field_of_lt _ _ 15 hB, field_of_lt _ _ 15 hD,
      field_of_lt 0 _ 15 (by norm_num), hP3]
    decide

/-- What `AddEmptyEndPoint` does to the directory when it adds an isochronous endpoint of full
speed behind the list head `pED`: the endpoint descriptor `e` leaves the pool and gets its
flags; when an isochronous transfer descriptor is at hand as well, `e` is linked in right
behind `pED`, and otherwise the list is left alone. -/
theorem AddEmptyEndPoint_directory {st st1 : AppleUSBOHCI}
    {functionAddress endpointNumber maxPacketSize direction pED e : Nat} {restE : List Nat}
    {r : Option Nat} (hED : st.pFreeED = e :: restE) (hne : e ≠ pED)
    (h : AddEmptyEndPoint st functionAddress endpointNumber maxPacketSize kUSBDeviceSpeedFull
      direction pED kOHCIEDFormatIsochronousTD = .ret (r, st1)) :
    st1.isochBandwidthAvail = st.isochBandwidthAvail ∧ st1.pIsochHead = st.pIsochHead
      ∧ st1.pIsochTail = st.pIsochTail ∧ st1.pFreeED = restE
      ∧ (∀ x, x ≠ e → (st1.eds x).flags = (st.eds x).flags)
      ∧ (∀ x, x ≠ e → x ≠ pED → (st1.eds x).pLogicalNext = (st.eds x).pLogicalNext)
      ∧ ((r = none ∧ (st1.eds pED).pLogicalNext = (st.eds pED).pLogicalNext)
        ∨ (r = some e
          ∧ (st1.eds e).flags = (shl32 (toUInt8 functionAddress) kOHCIEDControl_FAPhase
            ||| shl32 (toUInt8 endpointNumber) kOHCIEDControl_ENPhase
            ||| shl32 (toUInt8 direction) kOHCIEDControl_DPhase
            ||| shl32 (toUInt16 maxPacketSize) kOHCIEDControl_MPSPhase
            ||| shl32 kOHCIEDSpeedFull kOHCIEDControl_SPhase
            ||| shl32 kOHCIEDFormatIsochronousTD kOHCIEDControl_FPhase)
          ∧ (st1.eds e).pLogicalNext = (st.eds pED).pLogicalNext
          ∧ (st1.eds pED).pLogicalNext = e)) := by
  have hfmt : kOHCIEDFormatIsochronousTD ≠ kOHCIEDFormatGeneralTD := by decide
  have hspeed : toUInt8 kUSBDeviceSpeedFull = kUSBDeviceSpeedFull := by decide
  have hne' : pED ≠ e := fun h => hne h.symm
  rcases hT : st.pFreeITD with _ | ⟨t, restT⟩
  · simp only [AddEmptyEndPoint, AllocateED, hED, AllocateITD, hT, setED, hfmt, hspeed,
      ↓reduceIte, Outcome.ret.injEq, Prod.mk.injEq] at h
    obtain ⟨rfl, rfl⟩ := h
    refine ⟨rfl, rfl, rfl, rfl, fun x hx => ?_, fun x hx _ => ?_, Or.inl ⟨rfl, ?_⟩⟩
    · simp [Function.update_noteq hx]
    · simp [Function.update_noteq hx]
    · simp [Function.update_noteq hne']
  · simp only [AddEmptyEndPoint, AllocateED, hED, AllocateITD, hT, setED, hfmt, hspeed,
      ↓reduceIte, Outcome.ret.injEq, Prod.mk.injEq] at h
    obtain ⟨rfl, rfl⟩ := h
    refine ⟨rfl, rfl, rfl, rfl, fun x hx => ?_, fun x hx hx2 => ?_, Or.inr ⟨rfl, ?_, ?_, ?_⟩⟩
    · by_cases hp : x = pED
      · subst hp
        simp [Function.update_noteq hx]
      · simp [Function.update_noteq hx, Function.update_noteq hp]
    · simp [Function.update_noteq hx, Function.update_noteq hx2]
    · simp [Function.update_noteq hne, Function.update_noteq hne']
    · simp [Function.update_noteq hne, Function.update_noteq hne']
    · simp

theorem DirectoryKept.dir_refl (st : AppleUSBOHCI) : DirectoryKept st st :=
  ⟨rfl, rfl, rfl, rfl, fun _ => rfl, fun _ => rfl⟩

theorem DirectoryKept.dir_trans {a b c : AppleUSBOHCI} (h1 : DirectoryKept a b)
    (h2 : DirectoryKept b c) : DirectoryKept a c :=
  ⟨h2.ledger.trans h1.ledger, h2.head.trans h1.head, h2.tail.trans h1.tail,
    h2.pool.trans h1.pool, fun e => (h2.flags e).trans (h1.flags e),
    fun e => (h2.next e).trans (h1.next e)⟩

theorem writeRegister_kept (st : AppleUSBOHCI) (r : OHCIRegister) (v : Nat) :
    DirectoryKept st (writeRegister st r v) :=
  ⟨rfl, rfl, rfl, rfl, fun _ => rfl, fun _ => rfl⟩

theorem waitForSOF_kept {X : Collaborators} (hX : X.keepDirectory) (st : AppleUSBOHCI) :
    DirectoryKept st (waitForSOF X st) := by
  unfold waitForSOF
  dsimp only
  split_ifs
  · exact ((writeRegister_kept st _ _).dir_trans (hX.sleep 1 _)).dir_trans (hX.sleep 1 _)
  · exact (writeRegister_kept st _ _).dir_trans (hX.sleep 1 _)

/-- The format and the max packet size of a flags word do not depend on its skip bit. -/
theorem skipped_fields (flags : Nat) :
    ((flags ||| kOHCIEDControl_K) &&& kOHCIEDControl_MPS) >>> kOHCIEDControl_MPSPhase
        = (flags &&& kOHCIEDControl_MPS) >>> kOHCIEDControl_MPSPhase
      ∧ ((flags ||| kOHCIEDControl_K) &&& kOHCIEDControl_F) >>> kOHCIEDControl_FPhase
        = (flags &&& kOHCIEDControl_F) >>> kOHCIEDControl_FPhase := by
  constructor
  · rw [field_or, show ((kOHCIEDControl_K &&& kOHCIEDControl_MPS) >>> kOHCIEDControl_MPSPhase)
      = 0 from by decide, Nat.or_zero]
  · rw [field_or, show ((kOHCIEDControl_K &&& kOHCIEDControl_F) >>> kOHCIEDControl_FPhase)
      = 0 from by decide, Nat.or_zero]

/-- What `UIMDeleteEndpoint` does to the directory when its lookup finds the isochronous
endpoint descriptor `pED` behind `back`, with collaborators that keep the directory: the
ledger gets the max packet size of `pED` back, `pED` goes to the pool, and `back` takes over
the logical link of `pED`. -/
theorem UIMDeleteEndpoint_found {X : Collaborators} (hX : X.keepDirectory)
    {st st' : AppleUSBOHCI} {fuel functionAddress endpointNumber direction pED back mask : Nat}
    {status : IOReturn} (hroot : functionAddress ≠ st.rootHubFuncAddress)
    (hfind : FindEndpoint st fuel functionAddress endpointNumber (edDirection direction)
      = .ret (some (pED, back, mask)))
    (hformat : GetEDType st pED = kOHCIEDFormatIsochronousTD) (hback : back ≠ pED)
    (h : UIMDeleteEndpoint X st fuel functionAddress endpointNumber direction
      = .ret (status, st')) :
    st'.isochBandwidthAvail = add32 st.isochBandwidthAvail (maxPacketSizeOf st pED)
      ∧ st'.pIsochHead = st.pIsochHead ∧ st'.pIsochTail = st.pIsochTail
      ∧ st'.pFreeED = st.pFreeED ++ [pED]
      ∧ (∀ x, x ≠ pED → (st'.eds x).flags = (st.eds x).flags)
      ∧ (st'.eds back).pLogicalNext = (st.eds pED).pLogicalNext
      ∧ ∀ x, x ≠ back → (st'.eds x).pLogicalNext = (st.eds x).pLogicalNext := by
  obtain ⟨s1, hs1⟩ : ∃ s1, s1 = setED (setED (setED st pED fun ed =>
      { ed with flags := ed.flags ||| kOHCIEDControl_K }) back fun ed =>
      { ed with nextED := (st.eds pED).nextED }) back fun ed =>
      { ed with pLogicalNext := (st.eds pED).pLogicalNext } := ⟨_, rfl⟩
  have e1 : s1.isochBandwidthAvail = st.isochBandwidthAvail ∧ s1.pIsochHead = st.pIsochHead
      ∧ s1.pIsochTail = st.pIsochTail ∧ s1.pFreeED = st.pFreeED := by
    rw [hs1]
    exact ⟨rfl, rfl, rfl, rfl⟩
  have e2 : (s1.eds pED).flags = (st.eds pED).flags ||| kOHCIEDControl_K := by
    rw [hs1]
    simp [setED, Function.update_noteq hback.symm]
  have e3 : ∀ x, x ≠ pED → (s1.eds x).flags = (st.eds x).flags := by
    intro x hx
    rw [hs1]
    by_cases hb : x = back
    · subst hb
      simp [setED, Function.update_noteq hx]
    · simp [setED, Function.update_noteq hx, Function.update_noteq hb]
  have e4 : (s1.eds back).pLogicalNext = (st.eds pED).pLogicalNext := by
    rw [hs1]
    simp [setED]
  have e5 : ∀ x, x ≠ back → (s1.eds x).pLogicalNext = (st.eds x).pLogicalNext := by
    intro x hx
    rw [hs1]
    by_cases hp : x = pED
    · subst hp
      simp [setED, Function.update_noteq hx]
    · simp [setED, Function.update_noteq hx, Function.update_noteq hp]
  have hcall : ∃ s2 s4, DirectoryKept s1 s2
      ∧ DirectoryKept (if GetEDType s2 pED = kOHCIEDFormatIsochronousTD then
          { s2 with isochBandwidthAvail := add32 s2.isochBandwidthAvail (maxPacketSizeOf s2 pED) }
        else s2) s4
      ∧ st' = X.DeallocateED pED (setED s4 pED fun ed => { ed with nextED := 0 }) := by
    unfold UIMDeleteEndpoint at h
    rw [if_neg hroot] at h
    dsimp only at h
    rw [hfind] at h
    simp only [Outcome.bind_ret, Outcome.ret.injEq, Prod.mk.injEq] at h
    have hnext : ((setED (setED st pED fun ed =>
        { ed with flags := ed.flags ||| kOHCIEDControl_K }) back fun ed =>
        { ed with nextED := ((setED st pED fun ed =>
          { ed with flags := ed.flags ||| kOHCIEDControl_K }).eds pED).nextED }).eds
          pED).pLogicalNext = (st.eds pED).pLogicalNext := by
      simp [setED, Function.update_noteq hback.symm]
    have hnext2 : ((setED st pED fun ed =>
        { ed with flags := ed.flags ||| kOHCIEDControl_K }).eds pED).nextED
        = (st.eds pED).nextED := by
      simp [setED]
    rw [hnext, hnext2, ← hs1] at h
    refine ⟨writeRegister (waitForSOF X (writeRegister s1 .hcControl
      (andNot32 (s1.pOHCIRegisters .hcControl) mask &&& 0x7FF))) .hcControl
      (andNot32 (s1.pOHCIRegisters .hcControl) mask &&& 0x7FF ||| mask), _, ?_, ?_, h.2.symm⟩
    · exact ((writeRegister_kept s1 _ _).dir_trans (waitForSOF_kept hX _)).dir_trans
        (writeRegister_kept _ _ _)
    · split_ifs
      · exact hX.removeAllTDs pED _
      · exact hX.removeAllTDs pED _
  obtain ⟨s2, s4, k12, k34, hst'⟩ := hcall
  have hflag2 : (s2.eds pED).flags = (st.eds pED).flags ||| kOHCIEDControl_K :=
    (k12.flags pED).trans e2
  have htype : GetEDType s2 pED = kOHCIEDFormatIsochronousTD := by
    unfold GetEDType at hformat ⊢
    rw [hflag2, (skipped_fields _).2]
    exact hformat
  have hmps : maxPacketSizeOf s2 pED = maxPacketSizeOf st pED := by
    unfold maxPacketSizeOf
    rw [hflag2, (skipped_fields _).1]
  rw [if_pos htype, hmps] at k34
  have k6 := hX.deallocateED pED (setED s4 pED fun ed => { ed with nextED := 0 })
  rw [← hst'] at k6
  have f4 : ∀ x, (st'.eds x).flags = (s2.eds x).flags := by
    intro x
    rw [k6.flags x, ← k34.flags x]
    by_cases hx : x = pED
    · subst hx
      simp [setED]
    · simp [setED, Function.update_noteq hx]
  have n4 : ∀ x, (st'.eds x).pLogicalNext = (s2.eds x).pLogicalNext := by
    intro x
    rw [k6.next x, ← k34.next x]
    by_cases hx : x = pED
    · subst hx
      simp [setED]
    · simp [setED, Function.update_noteq hx]
  refine ⟨?_, ?_, ?_, ?_, fun x hx => ?_, ?_, fun x hx => ?_⟩
  · rw [k6.ledger]
    show s4.isochBandwidthAvail = _
    rw [k34.ledger]
    show add32 s2.isochBandwidthAvail _ = _
    rw [k12.ledger, e1.1]
  · rw [k6.head]
    exact k34.head.trans (k12.head.trans e1.2.1)
  · rw [k6.tail]
    exact k34.tail.trans (k12.tail.trans e1.2.2.1)
  · rw [k6.pool]
    show s4.pFreeED ++ [pED] = _
    rw [k34.pool]
    show s2.pFreeED ++ [pED] = _
    rw [k12.pool, e1.2.2.2]
  · rw [f4, k12.flags, e3 x hx]
  · rw [n4, k12.next, e4]
  · rw [n4, k12.next, e5 x hx]

theorem FindIsochronousEndpoint_path {st : AppleUSBOHCI} {M : Nat} {l : List Nat}
    (inv : IsochLedger M st l) {fuel functionAddress endpointNumber direction : Nat}
    {r : Option (Nat × Nat)}
    (h : FindIsochronousEndpoint st fuel functionAddress endpointNumber direction = .ret r) :
    r = none ∨ ∃ pre pED post, l = pre ++ pED :: post
      ∧ r = some (pED, pre.getLastD st.pIsochHead) :=
  searchEDList_path st _ _ _ l fuel _ _ r inv.path h

/-- The facts about a member `pED` of the directory `pre ++ pED :: post` and the descriptor
`back` before it. -/
theorem IsochLedger.member {st : AppleUSBOHCI} {M pED : Nat} {pre post : List Nat}
    (inv : IsochLedger M st (pre ++ pED :: post)) :
    pre.getLastD st.pIsochHead ≠ pED ∧ pED ∉ pre ∧ pED ∉ post ∧ pED ≠ st.pIsochHead
      ∧ pED ≠ st.pIsochTail ∧ pED ≠ 0 ∧ pED ∉ st.pFreeED
      ∧ (st.pIsochHead :: (pre ++ post)).Nodup := by
  have hnd := inv.nodup
  have hnd1 := List.nodup_cons.mp hnd
  have hnd2 := List.nodup_append.mp hnd1.2
  have hnd3 := List.nodup_cons.mp hnd2.2.1
  have hpre : pED ∉ pre := fun h => hnd2.2.2 h (List.mem_cons_self _ _)
  have hhead : pED ≠ st.pIsochHead := by
    rintro rfl
    exact hnd1.1 (List.mem_append_right _ (List.mem_cons_self _ _))
  have hmem := EDPath.ed_members _ _ _ inv.path pED
    (List.mem_append_right _ (List.mem_cons_self _ _))
  refine ⟨?_, hpre, hnd3.1, hhead, hmem.1, hmem.2, ?_, ?_⟩
  · intro h
    have hm := getLastD_mem pre st.pIsochHead
    rw [h, List.mem_cons] at hm
    rcases hm with hm | hm
    · exact hhead hm
    · exact hpre hm
  · intro h
    exact (inv.apart pED h).2.1 (List.mem_append_right _ (List.mem_cons_self _ _))
  · rw [List.nodup_cons]
    refine ⟨fun h => hnd1.1 ?_, ?_⟩
    · rw [List.mem_append] at h ⊢
      rcases h with h | h
      · exact Or.inl h
      · exact Or.inr (List.mem_cons_of_mem _ h)
    · rw [List.nodup_append]
      exact ⟨hnd2.1, hnd3.2, fun x hx hx' => hnd2.2.2 hx (List.mem_cons_of_mem _ hx')⟩

/-- A call of `UIMDeleteEndpoint` for an endpoint that is isochronous when it exists keeps the
ledger in balance. -/
theorem IsochLedger.delete_step {X : Collaborators} (hX : X.keepDirectory)
    {st st' : AppleUSBOHCI} {M : Nat} {l : List Nat} (hM : M ≤ 2047)
    (inv : IsochLedger M st l)
    {fuel functionAddress endpointNumber direction : Nat} {status : IOReturn}
    (hroot : functionAddress ≠ st.rootHubFuncAddress)
    (hIsoch : ∀ pED back mask, FindEndpoint st fuel functionAddress endpointNumber
        (edDirection direction) = .ret (some (pED, back, mask)) →
      FindIsochronousEndpoint st fuel functionAddress endpointNumber (edDirection direction)
        = .ret (some (pED, back)))
    (h : UIMDeleteEndpoint X st fuel functionAddress endpointNumber direction
      = .ret (status, st')) :
    (st' = st ∧ IsochLedger M st' l)
      ∨ ∃ pre pED post, l = pre ++ pED :: post ∧ IsochLedger M st' (pre ++ post)
        ∧ st'.isochBandwidthAvail = st.isochBandwidthAvail + maxPacketSizeOf st pED := by
  have hfound : ∃ r, FindEndpoint st fuel functionAddress endpointNumber
      (edDirection direction) = .ret r := by
    unfold UIMDeleteEndpoint at h
    rw [if_neg hroot] at h
    dsimp only at h
    obtain ⟨r, hr, -⟩ := Outcome.bind_eq_ret h
    exact ⟨r, hr⟩
  obtain ⟨r, hfind⟩ := hfound
  rcases r with _ | ⟨pED, back, mask⟩
  · left
    unfold UIMDeleteEndpoint at h
    rw [if_neg hroot] at h
    dsimp only at h
    rw [hfind] at h
    simp only [Outcome.bind_ret, Outcome.ret.injEq, Prod.mk.injEq] at h
    rw [← h.2]
    exact ⟨rfl, inv⟩
  · right
    have hisoch := hIsoch pED back mask hfind
    rcases FindIsochronousEndpoint_path inv hisoch with hr | ⟨pre, pED', post, hl, hr⟩
    · cases hr
    simp only [Option.some.injEq, Prod.mk.injEq] at hr
    obtain ⟨rfl, rfl⟩ := hr
    subst hl
    obtain ⟨m1, m2, m3, m4, m5, m6, m7, m8⟩ := inv.member
    have hformat := inv.format pED (List.mem_append_right _ (List.mem_cons_self _ _))
    obtain ⟨d1, d2, d3, d4, d5, d6, d7⟩ :=
      UIMDeleteEndpoint_found hX hroot hfind hformat m1 h
    have hledger := inv.ledger
    rw [reservedBandwidth_append, reservedBandwidth_cons] at hledger
    have hadd : add32 st.isochBandwidthAvail (maxPacketSizeOf st pED)
        = st.isochBandwidthAvail + maxPacketSizeOf st pED := by
      unfold add32 W32
      omega
    rw [hadd] at d1
    have hflags : ∀ e ∈ pre ++ post, (st'.eds e).flags = (st.eds e).flags := by
      intro e he
      apply d5
      rintro rfl
      rw [List.mem_append] at he
      rcases he with he | he
      · exact m2 he
      · exact m3 he
    refine ⟨pre, pED, post, rfl, ⟨?_, ?_, ?_, ?_, ?_, ?_⟩, d1⟩
    · rw [d2, d3]
      refine EDPath.unlink _ pED post pre st.pIsochHead inv.nodup inv.path d6 d7
    · rw [d2]
      exact m8
    · rw [d4, List.nodup_append]
      refine ⟨inv.pool, List.nodup_singleton _, ?_⟩
      intro x hx hx'
      rw [List.mem_singleton] at hx'
      subst hx'
      exact m7 hx
    · intro x hx
      rw [d4, List.mem_append, List.mem_singleton] at hx
      rw [d2, d3]
      rcases hx with hx | rfl
      · obtain ⟨a1, a2, a3, a4⟩ := inv.apart x hx
        refine ⟨a1, fun hm => a2 ?_, a3, a4⟩
        rw [List.mem_append] at hm ⊢
        rcases hm with hm | hm
        · exact Or.inl hm
        · exact Or.inr (List.mem_cons_of_mem _ hm)
      · refine ⟨m4, fun hm => ?_, m5, m6⟩
        rw [List.mem_append] at hm
        rcases hm with hm | hm
        · exact m2 hm
        · exact m3 hm
    · intro e he
      rw [GetEDType_congr (hflags e he)]
      apply inv.format
      rw [List.mem_append] at he ⊢
      rcases he with he | he
      · exact Or.inl he
      · exact Or.inr (List.mem_cons_of_mem _ he)
    · rw [d1, reservedBandwidth_congr st st' _ hflags, reservedBandwidth_append]
      omega

/-- A call of `UIMCreateIsochEndpoint` with a 32-bit max packet size keeps the ledger in
balance: it leaves the state alone, or resizes a member of the directory, or adds an endpoint
descriptor from the pool at the front of the directory. -/
theorem IsochLedger.create_step {st st' : AppleUSBOHCI} {M : Nat} {l : List Nat}
    (hM : M ≤ 2047) (inv : IsochLedger M st l)
    {fuel functionAddress endpointNumber maxPacketSize direction : Nat} {status : IOReturn}
    (hSize : maxPacketSize < W32)
    (h : UIMCreateIsochEndpoint st fuel functionAddress endpointNumber maxPacketSize direction
      = .ret (status, st')) :
    IsochLedger M st' l ∨ ∃ e, e ∈ st.pFreeED ∧ IsochLedger M st' (e :: l)
      ∧ maxPacketSizeOf st' e = maxPacketSize := by
  have hledger := inv.ledger
  unfold UIMCreateIsochEndpoint at h
  dsimp only at h
  obtain ⟨r, hfind, hrest⟩ := Outcome.bind_eq_ret h
  rcases FindIsochronousEndpoint_path inv hfind with rfl | ⟨pre, pED, post, hl, rfl⟩
  · -- a new endpoint
    dsimp only at hrest
    split_ifs at hrest with hbig
    · simp only [Outcome.ret.injEq, Prod.mk.injEq] at hrest
      rw [← hrest.2]
      exact Or.inl inv
    have hsub : sub32 st.isochBandwidthAvail maxPacketSize
        = st.isochBandwidthAvail - maxPacketSize :=
      sub32_of_le (by unfold W32; omega) (by omega)
    obtain ⟨⟨r2, st2⟩, hadd, hret⟩ := Outcome.bind_eq_ret hrest
    rcases hp : st.pFreeED with _ | ⟨e, restE⟩
    · simp [AddEmptyEndPoint, AllocateED, hp] at hadd
    have hpool := inv.pool
    rw [hp] at hpool
    obtain ⟨a1, a2, a3, a4⟩ := inv.apart e (by rw [hp]; exact List.mem_cons_self _ _)
    obtain ⟨b1, b2, b3, b4, b5, b6, b7⟩ := AddEmptyEndPoint_directory
      (show ({ st with isochBandwidthAvail := sub32 st.isochBandwidthAvail maxPacketSize }
        : AppleUSBOHCI).pFreeED = e :: restE from hp) a1 hadd
    replace b1 : st2.isochBandwidthAvail = st.isochBandwidthAvail - maxPacketSize :=
      b1.trans hsub
    replace b2 : st2.pIsochHead = st.pIsochHead := b2
    replace b3 : st2.pIsochTail = st.pIsochTail := b3
    replace b5 : ∀ x, x ≠ e → (st2.eds x).flags = (st.eds x).flags := b5
    replace b6 : ∀ x, x ≠ e → x ≠ st.pIsochHead →
      (st2.eds x).pLogicalNext = (st.eds x).pLogicalNext := b6
    have hmem : ∀ x ∈ l, x ≠ e := fun x hx hxe => a2 (hxe ▸ hx)
    have hhead : ∀ x ∈ l, x ≠ st.pIsochHead := fun x hx hxe =>
      (List.nodup_cons.mp inv.nodup).1 (hxe ▸ hx)
    have hflags : ∀ x ∈ l, (st2.eds x).flags = (st.eds x).flags :=
      fun x hx => b5 x (hmem x hx)
    have hrestE : ∀ x ∈ restE, x ≠ st.pIsochHead ∧ x ∉ l ∧ x ≠ st.pIsochTail ∧ x ≠ 0 :=
      fun x hx => inv.apart x (by rw [hp]; exact List.mem_cons_of_mem _ hx)
    rcases b7 with ⟨rfl, c1⟩ | ⟨rfl, c1, c2, c3⟩
    · -- no isochronous transfer descriptor: the ledger is restored
      left
      simp only [Outcome.ret.injEq, Prod.mk.injEq] at hret
      obtain ⟨-, rfl⟩ := hret
      refine ⟨?_, ?_, ?_, ?_, ?_, ?_⟩
      · show EDPath st2.eds st2.pIsochTail (st2.eds st2.pIsochHead).pLogicalNext l
        rw [b2, b3]
        replace c1 : (st2.eds st.pIsochHead).pLogicalNext
          = (st.eds st.pIsochHead).pLogicalNext := c1
        rw [c1]
        exact EDPath.ed_congr _ l _ (fun x hx => b6 x (hmem x hx) (hhead x hx)) inv.path
      · show (st2.pIsochHead :: l).Nodup
        rw [b2]
        exact inv.nodup
      · show st2.pFreeED.Nodup
        rw [b4]
        exact (List.nodup_cons.mp hpool).2
      · intro x hx
        replace hx : x ∈ st2.pFreeED := hx
        rw [b4] at hx
        show x ≠ st2.pIsochHead ∧ x ∉ l ∧ x ≠ st2.pIsochTail ∧ x ≠ 0
        rw [b2, b3]
        exact hrestE x hx
      · intro x hx
        have hf : GetEDType st2 x = GetEDType st x := GetEDType_congr (hflags x hx)
        exact hf.trans (inv.format x hx)
      · have hr : reservedBandwidth st2 l = reservedBandwidth st l :=
          reservedBandwidth_congr st st2 l hflags
        show add32 st2.isochBandwidthAvail maxPacketSize + reservedBandwidth _ l = M
        have hr2 : reservedBandwidth
            { st2 with isochBandwidthAvail := add32 st2.isochBandwidthAvail maxPacketSize } l
            = reservedBandwidth st2 l := reservedBandwidth_congr _ _ l (fun _ _ => rfl)
        rw [hr2, hr, b1]
        unfold add32 W32
        omega
    · -- the endpoint descriptor `e` is linked in behind the head
      right
      simp only [Outcome.ret.injEq, Prod.mk.injEq] at hret
      obtain ⟨-, rfl⟩ := hret
      have hsmall : maxPacketSize ≤ 2047 := by omega
      obtain ⟨f1, f2⟩ := isochEndpointFlags_fields functionAddress endpointNumber maxPacketSize
        direction hsmall
      rw [← c1] at f1 f2
      replace c3 : (st2.eds st.pIsochHead).pLogicalNext = e := c3
      replace c2 : (st2.eds e).pLogicalNext = (st.eds st.pIsochHead).pLogicalNext := c2
      refine ⟨e, List.mem_cons_self _ _, ⟨?_, ?_, ?_, ?_, ?_, ?_⟩, f1⟩
      · rw [b2, b3, c3]
        refine ⟨rfl, a3, a4, ?_⟩
        rw [c2]
        exact EDPath.ed_congr _ l _ (fun x hx => b6 x (hmem x hx) (hhead x hx)) inv.path
      · rw [b2, List.nodup_cons, List.mem_cons, List.nodup_cons]
        have hnd := List.nodup_cons.mp inv.nodup
        exact ⟨fun hm => hm.elim (fun h => a1 h.symm) hnd.1, a2, hnd.2⟩
      · rw [b4]
        exact (List.nodup_cons.mp hpool).2
      · intro x hx
        rw [b4] at hx
        rw [b2, b3]
        obtain ⟨r1, r2, r3, r4⟩ := hrestE x hx
        refine ⟨r1, fun hm => ?_, r3, r4⟩
        rw [List.mem_cons] at hm
        rcases hm with rfl | hm
        · exact (List.nodup_cons.mp hpool).1 hx
        · exact r2 hm
      · intro x hx
        rw [List.mem_cons] at hx
        rcases hx with rfl | hx
        · exact f2
        · exact (GetEDType_congr (hflags x hx)).trans (inv.format x hx)
      · rw [reservedBandwidth_cons, reservedBandwidth_congr st st2 l hflags, b1]
        unfold maxPacketSizeOf
        rw [f1]
        omega
  · -- an endpoint of the directory is resized
    subst hl
    left
    obtain ⟨m1, m2, m3, m4, m5, m6, m7, m8⟩ := inv.member
    have hcur := maxPacketSize_field_lt (st.eds pED).flags
    rw [reservedBandwidth_append, reservedBandwidth_cons] at hledger
    have hcurdef : maxPacketSizeOf st pED
        = ((st.eds pED).flags &&& kOHCIEDControl_MPS) >>> kOHCIEDControl_MPSPhase := rfl
    dsimp only at hrest
    rw [← hcurdef] at hrest hcur
    generalize maxPacketSizeOf st pED = cur at hrest hcur hledger
    split_ifs at hrest with heq hno hgt
    · simp only [Outcome.ret.injEq, Prod.mk.injEq] at hrest
      rw [← hrest.2]
      exact inv
    · simp only [Outcome.ret.injEq, Prod.mk.injEq] at hrest
      rw [← hrest.2]
      exact inv
    all_goals
      simp only [Outcome.ret.injEq, Prod.mk.injEq] at hrest
      obtain ⟨-, hst'⟩ := hrest
      have hsmall : maxPacketSize ≤ 2047 := by
        by_cases hg : maxPacketSize > cur
        · have := sub32_of_le hSize (le_of_lt hg)
          have hn : ¬ sub32 maxPacketSize cur > st.isochBandwidthAvail := fun hb => hno ⟨hg, hb⟩
          rw [this] at hn
          omega
        · omega
      obtain ⟨g1, g2⟩ := resized_flags (st.eds pED).flags maxPacketSize hsmall
      have hF : (st'.eds pED).flags = andNot32 (st.eds pED).flags kOHCIEDControl_MPS
          ||| shl32 maxPacketSize kOHCIEDControl_MPSPhase := by
        rw [← hst']
        simp [setED]
      have hother : ∀ x, x ≠ pED → (st'.eds x).flags = (st.eds x).flags := by
        intro x hx
        rw [← hst']
        simp [setED, Function.update_noteq hx]
      have hnext : ∀ x, (st'.eds x).pLogicalNext = (st.eds x).pLogicalNext := by
        intro x
        rw [← hst']
        by_cases hx : x = pED
        · subst hx
          simp [setED]
        · simp [setED, Function.update_noteq hx]
      have hheads : st'.pIsochHead = st.pIsochHead ∧ st'.pIsochTail = st.pIsochTail
          ∧ st'.pFreeED = st.pFreeED := by
        rw [← hst']
        exact ⟨rfl, rfl, rfl⟩
      rw [← hF] at g1 g2
      have hmps : maxPacketSizeOf st' pED = maxPacketSize := g1
      have hpre : reservedBandwidth st' pre = reservedBandwidth st pre :=
        reservedBandwidth_congr st st' pre (fun x hx => hother x (fun hxe => m2 (hxe ▸ hx)))
      have hpost : reservedBandwidth st' post = reservedBandwidth st post :=
        reservedBandwidth_congr st st' post (fun x hx => hother x (fun hxe => m3 (hxe ▸ hx)))
      refine ⟨?_, ?_, ?_, ?_, ?_, ?_⟩
      · rw [hheads.1, hheads.2.1, hnext]
        exact EDPath.ed_congr _ _ _ (fun x _ => hnext x) inv.path
      · rw [hheads.1]
        exact inv.nodup
      · rw [hheads.2.2]
        exact inv.pool
      · intro x hx
        rw [hheads.2.2] at hx
        rw [hheads.1, hheads.2.1]
        exact inv.apart x hx
      · intro x hx
        by_cases hxe : x = pED
        · subst hxe
          have := inv.format x hx
          unfold GetEDType at this ⊢
          rw [field_of_andNot32 (st'.eds x).flags _ (by decide), g2,
            ← field_of_andNot32 (st.eds x).flags _ (by decide)]
          exact this
        · exact (GetEDType_congr (hother x hxe)).trans (inv.format x hx)
      · rw [reservedBandwidth_append, reservedBandwidth_cons, hmps, hpre, hpost]
        rw [← hst']
        dsimp only [setED]
        first
          | rw [sub32_of_le hSize (le_of_lt hgt), sub32_of_le (by unfold W32; omega) (by
              have := sub32_of_le hSize (le_of_lt hgt)
              have hn : ¬ sub32 maxPacketSize cur > st.isochBandwidthAvail :=
                fun hb => hno ⟨hgt, hb⟩
              rw [this] at hn
              omega)]
            have := sub32_of_le hSize (le_of_lt hgt)
            have hn : ¬ sub32 maxPacketSize cur > st.isochBandwidthAvail :=
              fun hb => hno ⟨hgt, hb⟩
            rw [this] at hn
            omega
          | rw [sub32_of_le (by unfold W32; omega) (by omega)]
            unfold add32 W32
            omega

/-- C18, as amended: from a state with an empty isochronous directory and a configured maximum
`M` of at most 2047 in `_isochBandwidthAvail`, after any sequence of `UIMCreateIsochEndpoint`
calls (creating or resizing) and of `UIMDeleteEndpoint` calls whose lookup ends in the
isochronous directory, with collaborators that keep the directory, the isochronous directory
is a list `l` of endpoint descriptors for which `_isochBandwidthAvail` plus the sum of their
max packet size fields is `M`; so the sum never exceeds `M`.  A further
`UIMCreateIsochEndpoint` keeps the balance, whatever it returns, and a further
`UIMDeleteEndpoint` either leaves the state alone or takes one endpoint descriptor out of the
directory and adds exactly its max packet size field to the ledger. -/
theorem isoch_bandwidth_ledger (X : Collaborators) (M : Nat) (st : AppleUSBOHCI)
    (hM : M ≤ 2047) (hX : X.keepDirectory) (h : LedgerReachable X M st) :
    ∃ l, IsochLedger M st l
      ∧ st.isochBandwidthAvail + reservedBandwidth st l = M
      ∧ reservedBandwidth st l ≤ M
      ∧ (∀ st' fuel functionAddress endpointNumber maxPacketSize direction status,
        maxPacketSize < W32 →
        UIMCreateIsochEndpoint st fuel functionAddress endpointNumber maxPacketSize direction
          = .ret (status, st') →
        ∃ l', IsochLedger M st' l'
          ∧ st'.isochBandwidthAvail + reservedBandwidth st' l'
            = st.isochBandwidthAvail + reservedBandwidth st l)
      ∧ ∀ st' fuel functionAddress endpointNumber direction status,
        functionAddress ≠ st.rootHubFuncAddress →
        (∀ pED back mask, FindEndpoint st fuel functionAddress endpointNumber
            (edDirection direction) = .ret (some (pED, back, mask)) →
          FindIsochronousEndpoint st fuel functionAddress endpointNumber
            (edDirection direction) = .ret (some (pED, back))) →
        UIMDeleteEndpoint X st fuel functionAddress endpointNumber direction
          = .ret (status, st') →
        st' = st ∨ ∃ pre pED post, l = pre ++ pED :: post ∧ IsochLedger M st' (pre ++ post)
          ∧ st'.isochBandwidthAvail = st.isochBandwidthAvail + maxPacketSizeOf st pED := by
  have key : ∃ l, IsochLedger M st l := by
    induction h with
    | start st h0 => exact ⟨[], h0⟩
    | create st st' fuel functionAddress endpointNumber maxPacketSize direction status _ hsize
        hcall ih =>
      obtain ⟨l, inv⟩ := ih
      rcases inv.create_step hM hsize hcall with h1 | ⟨e, -, h1, -⟩
      · exact ⟨l, h1⟩
      · exact ⟨e :: l, h1⟩
    | delete st st' fuel functionAddress endpointNumber direction status _ hroot hisoch hcall
        ih =>
      obtain ⟨l, inv⟩ := ih
      rcases inv.delete_step hX hM hroot hisoch hcall with ⟨-, h1⟩ | ⟨pre, pED, post, -, h1, -⟩
      · exact ⟨l, h1⟩
      · exact ⟨pre ++ post, h1⟩
  obtain ⟨l, inv⟩ := key
  have hl := inv.ledger
  refine ⟨l, inv, hl, by omega, ?_, ?_⟩
  · intro st' fuel functionAddress endpointNumber maxPacketSize direction status hsize hcall
    rcases inv.create_step hM hsize hcall with h1 | ⟨e, -, h1, -⟩
    · exact ⟨l, h1, h1.ledger.trans hl.symm⟩
    · exact ⟨e :: l, h1, h1.ledger.trans hl.symm⟩
  · intro st' fuel functionAddress endpointNumber direction status hroot hisoch hcall
    rcases inv.delete_step hX hM hroot hisoch hcall with ⟨h0, -⟩ | ⟨pre, pED, post, h1, h2, h3⟩
    · exact Or.inl h0
    · exact Or.inr ⟨pre, pED, post, h1, h2, h3⟩

theorem exampleLedgerCollaborators_keep : exampleLedgerCollaborators.keepDirectory :=
  ⟨fun _ _ => DirectoryKept.dir_refl _, fun _ _ => DirectoryKept.dir_refl _,
    fun _ _ => DirectoryKept.dir_refl _⟩

theorem exampleState_ledger : IsochLedger 1000 exampleState [] :=
  ⟨by unfold EDPath; decide, by decide, by decide, by decide,
    fun e he => absurd he (List.not_mem_nil e), by decide⟩

/-- Witness for the amended C18: the example driver, with 1000 bytes in the ledger and an
empty isochronous directory, creates the isochronous endpoint (5, 1, out) of 64 bytes and
deletes it again; the state is reachable and its ledger balances. -/
theorem isoch_bandwidth_ledger_witness :
    LedgerReachable exampleLedgerCollaborators 1000 exampleDeletedState
      ∧ ∃ l, IsochLedger 1000 exampleDeletedState l
        ∧ exampleDeletedState.isochBandwidthAvail + reservedBandwidth exampleDeletedState l
          = 1000 := by
  have h1 : LedgerReachable exampleLedgerCollaborators 1000 exampleIsochState :=
    LedgerReachable.create exampleState exampleIsochState 5 5 1 64 kUSBOut .kIOReturnSuccess
      (LedgerReachable.start _ exampleState_ledger) (by decide)
      (Outcome.ret_stateOr _ ⟨_, rfl⟩)
  have hfind : FindEndpoint exampleIsochState 5 5 1 (edDirection kUSBOut)
      = .ret (some (20, 5, 0)) := by rfl
  have h2 : LedgerReachable exampleLedgerCollaborators 1000 exampleDeletedState := by
    refine LedgerReachable.delete exampleIsochState exampleDeletedState 5 5 1 kUSBOut
      .kIOReturnSuccess h1 (by decide) ?_ (Outcome.ret_stateOr _ ⟨_, rfl⟩)
    intro pED back mask hf
    rw [hfind] at hf
    simp only [Outcome.ret.injEq, Option.some.injEq, Prod.mk.injEq] at hf
    obtain ⟨rfl, rfl, -⟩ := hf
    rfl
  obtain ⟨l, inv, hl, -⟩ := isoch_bandwidth_ledger exampleLedgerCollaborators 1000
    exampleDeletedState (by decide) exampleLedgerCollaborators_keep h2
  exact ⟨h2, l, inv, hl⟩

/-- Counterexample to C18 as stated: the example driver with an empty isochronous directory
and 5000 bytes in the ledger creates the isochronous endpoint (5, 1, out) of 3000 bytes, with
success.  The directory then holds the endpoint descriptor 20, whose max packet size field is
952, and the ledger holds 2000: together 2952, not 5000.  Deleting the endpoint empties the
directory and leaves 2952 in the ledger. -/
theorem isoch_bandwidth_ledger_counterexample :
    exampleLargeLedgerState.isochBandwidthAvail = 5000
      ∧ (exampleLargeLedgerState.eds exampleLargeLedgerState.pIsochHead).pLogicalNext
        = exampleLargeLedgerState.pIsochTail
      ∧ (UIMCreateIsochEndpoint exampleLargeLedgerState 5 5 1 3000 kUSBOut).status
        = some .kIOReturnSuccess
      ∧ (exampleOversizedState.eds exampleOversizedState.pIsochHead).pLogicalNext = 20
      ∧ (exampleOversizedState.eds 20).pLogicalNext = exampleOversizedState.pIsochTail
      ∧ exampleOversizedState.isochBandwidthAvail = 2000
      ∧ maxPacketSizeOf exampleOversizedState 20 = 952
      ∧ exampleOversizedState.isochBandwidthAvail + reservedBandwidth exampleOversizedState [20]
        ≠ 5000
      ∧ (UIMDeleteEndpoint exampleLedgerCollaborators exampleOversizedState 5 5 1 kUSBOut).status
        = some .kIOReturnSuccess
      ∧ (exampleOversizedDeletedState.eds exampleOversizedDeletedState.pIsochHead).pLogicalNext
        = exampleOversizedDeletedState.pIsochTail
      ∧ exampleOversizedDeletedState.isochBandwidthAvail = 2952 := by
  refine ⟨by decide, by decide, by decide, by decide, by decide, by decide, by decide,
    by decide, by decide, by decide, by decide⟩

/-! ## The pages of the frames of an isochronous transfer descriptor -/

theorem and_shiftLeft_mask (x m i : Nat) : x &&& (m <<< i) = ((x >>> i) &&& m) <<< i := by
  apply Nat.eq_of_testBit_eq
  intro j
  simp only [Nat.testBit_and, Nat.testBit_shiftLeft, Nat.testBit_shiftRight]
  by_cases hj : j ≥ i
  · have : i + (j - i) = j := by omega
    simp [hj, this]
  · simp [hj]

/-- The page of a 32-bit address. -/
theorem pageMask_eq (x : Nat) (hx : x < W32) : x &&& kOHCIPageMask = x / 4096 * 4096 := by
  have h1 : kOHCIPageMask = 1048575 <<< 12 := by decide
  have h2 := Nat.and_pow_two_sub_one_eq_mod (x >>> 12) 20
  simp only [Nat.reducePow, Nat.add_one_sub_one] at h2
  rw [h1, and_shiftLeft_mask, h2, Nat.shiftRight_eq_div_pow, Nat.shiftLeft_eq]
  unfold W32 at hx
  omega

/-- The page of the physical address of a byte of the buffer. -/
theorem pagedAddress_page {phys : Nat → Nat} {n : Nat} (hP : PhysicalPages phys n) (x : Nat)
    (hx : x / 4096 < n) :
    pagedAddress 4096 phys x &&& kOHCIPageMask = phys (x / 4096) := by
  have h1 := hP.aligned _ hx
  have h2 := hP.small _ hx
  unfold pagedAddress
  rw [pageMask_eq _ (by omega)]
  omega

theorem frameStart_le (base : Nat) (len : Nat → Nat) :
    ∀ j k, j ≤ k → frameStart base len j ≤ frameStart base len k
  | j, 0, h => by
    have : j = 0 := by omega
    subst this
    exact Nat.le_refl _
  | j, k + 1, h => by
    rcases Nat.lt_or_ge j (k + 1) with hlt | hge
    · have := frameStart_le base len j k (by omega)
      rw [frameStart]
      omega
    · have : j = k + 1 := by omega
      subst this
      exact Nat.le_refl _

/-- The fetch at the head of a pass: afterwards the loop variables hold the segments of the
frame `curFrameInRequest`, whether they were fetched in this pass or kept from the pass
before; nothing else changes. -/
theorem IsochTransferLoop.getSegments_fetched {base : Nat} {phys : Nat → Nat}
    {len : Nat → Nat} {pFrames bufferSize : Nat} {l : IsochTransferLoop}
    (hsize : bufferSize ≠ 0)
    (hframes : ∀ k, (l.st.isocFrames pFrames k).frReqCount = len k)
    (hlen : 1 ≤ len l.curFrameInRequest ∧ len l.curFrameInRequest ≤ 1023)
    (hsmall : frameStart base len l.curFrameInRequest + 1023 < W32)
    (hoffset : l.needNewITD = false →
      base + l.transferOffset = frameStart base len l.curFrameInRequest)
    (hfetched : l.needNewITD = true → IsochFetched base phys len l l.curFrameInRequest) :
    IsochFetched base phys len (l.getSegments (isochBuffer base phys) pFrames bufferSize)
        l.curFrameInRequest
      ∧ (l.getSegments (isochBuffer base phys) pFrames bufferSize).st = l.st
      ∧ (l.getSegments (isochBuffer base phys) pFrames bufferSize).pTailITD = l.pTailITD
      ∧ (l.getSegments (isochBuffer base phys) pFrames bufferSize).curFrameInTD
        = l.curFrameInTD
      ∧ (l.getSegments (isochBuffer base phys) pFrames bufferSize).curFrameInRequest
        = l.curFrameInRequest
      ∧ (l.getSegments (isochBuffer base phys) pFrames bufferSize).needNewITD = l.needNewITD
      ∧ (l.getSegments (isochBuffer base phys) pFrames bufferSize).physPageStart
        = l.physPageStart
      ∧ (l.getSegments (isochBuffer base phys) pFrames bufferSize).physPageEnd = l.physPageEnd
      ∧ (l.getSegments (isochBuffer base phys) pFrames bufferSize).pageSelectMask
        = l.pageSelectMask
      ∧ (l.getSegments (isochBuffer base phys) pFrames bufferSize).lastPhysical
        = l.lastPhysical := by
  cases hn : l.needNewITD
  · have hoff := hoffset hn
    have hcond : ¬ l.needNewITD = true ∧ bufferSize ≠ 0 := ⟨by rw [hn]; decide, hsize⟩
    unfold IsochTransferLoop.getSegments
    rw [if_pos hcond]
    dsimp only
    rw [hframes]
    obtain ⟨S, hS⟩ : ∃ S, frameStart base len l.curFrameInRequest = S := ⟨_, rfl⟩
    obtain ⟨L, hL⟩ : ∃ L, len l.curFrameInRequest = L := ⟨_, rfl⟩
    rw [hS] at hoff hsmall
    rw [hL] at hlen
    have hnext : frameStart base len (l.curFrameInRequest + 1) = S + L := by
      rw [frameStart, hS, hL]
    rw [hL]
    by_cases hone : S % 4096 + L ≤ 4096
    · have hres : getPhysicalSegments (isochBuffer base phys) l.transferOffset l.segs 2 L
          = (1, { l.segs with seg0 := ⟨phys (S / 4096) + S % 4096, L⟩ }) := by
        have hmin : min (4096 - S % 4096) L = L := by omega
        simp only [getPhysicalSegments, isochBuffer, hoff]
        rw [if_neg (by omega : ¬ L = 0), if_neg (by decide), if_pos (Or.inl (by omega)), hmin]
        rfl
      rw [hres]
      dsimp only
      refine ⟨⟨?_, ?_, fun _ => ⟨rfl, hL.symm⟩, fun h => ?_⟩, rfl, rfl, rfl, rfl, hn,
        rfl, rfl, rfl, rfl⟩
      · rw [hnext, if_neg (by decide)]
        dsimp only
        unfold add32
        unfold W32 at hsmall ⊢
        omega
      · rw [hS]
        rfl
      · rw [hS, hL] at h
        exact absurd hone h
    · have hres : getPhysicalSegments (isochBuffer base phys) l.transferOffset l.segs 2 L
          = (2, { seg0 := ⟨phys (S / 4096) + S % 4096, 4096 - S % 4096⟩,
                  seg1 := ⟨phys (S / 4096 + 1), L - (4096 - S % 4096)⟩ }) := by
        have hmin : min 4096 (L - (4096 - S % 4096)) = L - (4096 - S % 4096) := by omega
        simp only [getPhysicalSegments, isochBuffer, hoff]
        rw [if_neg (by omega : ¬ L = 0), if_neg (by decide), if_neg (by omega), hmin]
        rfl
      rw [hres]
      dsimp only
      refine ⟨⟨?_, ?_, fun h => ?_, fun _ => ⟨rfl, ?_, ?_⟩⟩, rfl, rfl, rfl, rfl,
        hn, rfl, rfl, rfl, rfl⟩
      · rw [hnext, if_pos rfl]
        dsimp only
        unfold add32
        unfold W32 at hsmall ⊢
        omega
      · rw [hS]
        rfl
      · rw [hS, hL] at h
        exact absurd h hone
      · rw [hS]
      · rw [hS, hL]
  · have hcond : ¬ (¬ l.needNewITD = true ∧ bufferSize ≠ 0) := by
      rw [hn]
      simp
    unfold IsochTransferLoop.getSegments
    rw [if_neg hcond]
    exact ⟨hfetched hn, rfl, rfl, rfl, rfl, hn, rfl, rfl, rfl, rfl⟩

theorem setITD_bufferEnd (st : AppleUSBOHCI) (p : Nat)
    (f : OHCIIsochTransferDescriptor → OHCIIsochTransferDescriptor)
    (hf : ∀ d, (f d).bufferEnd = d.bufferEnd) (x : Nat) :
    ((setITD st p f).itds x).bufferEnd = (st.itds x).bufferEnd := by
  rw [setITD_itds]
  split_ifs with h
  · rw [hf, h]
  · rfl

theorem setITD_bufferPage0 (st : AppleUSBOHCI) (p : Nat)
    (f : OHCIIsochTransferDescriptor → OHCIIsochTransferDescriptor)
    (hf : ∀ d, (f d).bufferPage0 = d.bufferPage0) (x : Nat) :
    ((setITD st p f).itds x).bufferPage0 = (st.itds x).bufferPage0 := by
  rw [setITD_itds]
  split_ifs with h
  · rw [hf, h]
  · rfl

/-- What the comparison of the fetched frame with the pages of the iTD does to the loop
variables: it opens the iTD on the page of the frame, or leaves the variables alone (the frame
starts on the first page), or asks for a new iTD (the second page is in use and the frame does
not lie on it alone), or takes the page on which the frame ends as second page. -/
theorem IsochTransferLoop.placeOnPage_pages {g l1 : IsochTransferLoop}
    {pFrames frameNumber tdType : Nat}
    (h : g.placeOnPage pFrames frameNumber tdType = .ret l1) :
    (l1.segs = g.segs ∧ l1.numSegs = g.numSegs ∧ l1.transferOffset = g.transferOffset
        ∧ l1.lastPhysical = g.lastPhysical ∧ l1.curFrameInTD = g.curFrameInTD
        ∧ l1.curFrameInRequest = g.curFrameInRequest ∧ l1.pTailITD = g.pTailITD
        ∧ l1.st.isocFrames = g.st.isocFrames
        ∧ (∀ x, (l1.st.itds x).bufferEnd = (g.st.itds x).bufferEnd)
        ∧ ∀ x, x ≠ g.pTailITD → (l1.st.itds x).bufferPage0 = (g.st.itds x).bufferPage0)
      ∧ ((g.curFrameInTD = 0
          ∧ l1.physPageStart = g.segs.seg0.location &&& kOHCIPageMask
          ∧ l1.pageSelectMask = 0 ∧ l1.needNewITD = false
          ∧ (l1.st.itds g.pTailITD).bufferPage0 = g.segs.seg0.location &&& kOHCIPageMask)
        ∨ (g.curFrameInTD ≠ 0 ∧ l1.physPageStart = g.physPageStart
          ∧ (l1.st.itds g.pTailITD).bufferPage0 = (g.st.itds g.pTailITD).bufferPage0
          ∧ ((g.segs.seg0.location &&& kOHCIPageMask = g.physPageStart
              ∧ l1.pageSelectMask = g.pageSelectMask ∧ l1.physPageEnd = g.physPageEnd
              ∧ l1.needNewITD = g.needNewITD)
            ∨ (g.segs.seg0.location &&& kOHCIPageMask ≠ g.physPageStart
              ∧ g.pageSelectMask ≠ 0
              ∧ (g.segs.seg0.location &&& kOHCIPageMask ≠ g.physPageEnd ∨ g.numSegs = 2)
              ∧ l1.needNewITD = true)
            ∨ (g.segs.seg0.location &&& kOHCIPageMask ≠ g.physPageStart
              ∧ ¬ (g.pageSelectMask ≠ 0
                ∧ (g.segs.seg0.location &&& kOHCIPageMask ≠ g.physPageEnd ∨ g.numSegs = 2))
              ∧ l1.pageSelectMask = kOHCIPageSize ∧ l1.needNewITD = g.needNewITD
              ∧ ∃ seg, g.segs.last g.numSegs = .ret seg
                ∧ l1.physPageEnd = seg.location &&& kOHCIPageMask)))) := by
  unfold IsochTransferLoop.placeOnPage at h
  split_ifs at h with h0 hpage hnew
  · simp only [Outcome.ret.injEq] at h
    subst h
    dsimp only
    refine ⟨⟨rfl, rfl, rfl, rfl, rfl, rfl, rfl, rfl, fun x => ?_, fun x hx => ?_⟩,
      Or.inl ⟨h0, rfl, rfl, rfl, ?_⟩⟩
    · refine setITD_bufferEnd _ _ _ ?_ x
      intro d
      rfl
    · rw [setITD_itds, if_neg hx]
    · rw [setITD_itds, if_pos rfl]
  · simp only [Outcome.ret.injEq] at h
    subst h
    exact ⟨⟨rfl, rfl, rfl, rfl, rfl, rfl, rfl, rfl, fun _ => rfl, fun _ _ => rfl⟩,
      Or.inr ⟨h0, rfl, rfl, Or.inr (Or.inl ⟨hpage, hnew.1, hnew.2, rfl⟩)⟩⟩
  · obtain ⟨seg, hseg, hret⟩ := Outcome.bind_eq_ret h
    simp only [Outcome.ret.injEq] at hret
    subst hret
    exact ⟨⟨rfl, rfl, rfl, rfl, rfl, rfl, rfl, rfl, fun _ => rfl, fun _ _ => rfl⟩,
      Or.inr ⟨h0, rfl, rfl, Or.inr (Or.inr ⟨hpage, hnew, rfl, rfl, seg, hseg, rfl⟩)⟩⟩
  · simp only [Outcome.ret.injEq] at h
    subst h
    exact ⟨⟨rfl, rfl, rfl, rfl, rfl, rfl, rfl, rfl, fun _ => rfl, fun _ _ => rfl⟩,
      Or.inr ⟨h0, rfl, rfl, Or.inl ⟨not_not.mp hpage, rfl, rfl, rfl⟩⟩⟩

/-- What adding the fetched frame to the current iTD does to the loop variables. -/
theorem IsochTransferLoop.addFrame_pages {l1 l' : IsochTransferLoop}
    (h : l1.addFrame = .ret l') :
    (∃ seg, l1.segs.last l1.numSegs = .ret seg
        ∧ l'.lastPhysical = sub32 (add32 seg.location seg.length) 1)
      ∧ l'.segs = l1.segs ∧ l'.numSegs = l1.numSegs ∧ l'.transferOffset = l1.transferOffset
      ∧ l'.physPageStart = l1.physPageStart ∧ l'.physPageEnd = l1.physPageEnd
      ∧ l'.pageSelectMask = l1.pageSelectMask ∧ l'.needNewITD = l1.needNewITD
      ∧ l'.pTailITD = l1.pTailITD ∧ l'.st.isocFrames = l1.st.isocFrames
      ∧ (∀ x, (l'.st.itds x).bufferEnd = (l1.st.itds x).bufferEnd)
      ∧ ∀ x, (l'.st.itds x).bufferPage0 = (l1.st.itds x).bufferPage0 := by
  unfold IsochTransferLoop.addFrame at h
  obtain ⟨seg, hseg, hret⟩ := Outcome.bind_eq_ret h
  simp only [Outcome.ret.injEq] at hret
  subst hret
  dsimp only
  refine ⟨⟨seg, hseg, rfl⟩, rfl, rfl, rfl, rfl, rfl, rfl, rfl, rfl, rfl, fun x => ?_,
    fun x => ?_⟩
  · refine setITD_bufferEnd _ _ _ ?_ x
    intro d
    rfl
  · refine setITD_bufferPage0 _ _ _ ?_ x
    intro d
    rfl

theorem AllocateITD_isocFrames (st : AppleUSBOHCI) :
    (AllocateITD st).2.isocFrames = st.isocFrames := by
  unfold AllocateITD
  split <;> rfl

/-- The end of the buffer recorded in the iTD `T` after the stores with which a pass closes
it. -/
theorem closeAndLink_end (s0 s : AppleUSBOHCI) (T n E : Nat)
    (f1 f2 : OHCIIsochTransferDescriptor → OHCIIsochTransferDescriptor)
    (hs : s.itds = (setITD s0 T fun itd => { itd with bufferEnd := E }).itds)
    (hf1 : ∀ d, (f1 d).bufferEnd = d.bufferEnd) (hf2 : ∀ d, (f2 d).bufferEnd = d.bufferEnd) :
    ((setITD (setITD s T f1) n f2).itds T).bufferEnd = E := by
  rw [setITD_bufferEnd _ _ _ hf2, setITD_bufferEnd _ _ _ hf1, hs, setITD_itds, if_pos rfl]

/-- The end of the buffer recorded in the other iTDs is kept by the stores with which a pass
closes the iTD `T`. -/
theorem closeAndLink_endOther (s0 s : AppleUSBOHCI) (T n E : Nat)
    (f1 f2 : OHCIIsochTransferDescriptor → OHCIIsochTransferDescriptor)
    (hs : s.itds = (setITD s0 T fun itd => { itd with bufferEnd := E }).itds)
    (hf1 : ∀ d, (f1 d).bufferEnd = d.bufferEnd) (hf2 : ∀ d, (f2 d).bufferEnd = d.bufferEnd)
    (x : Nat) (hx : x ≠ T) :
    ((setITD (setITD s T f1) n f2).itds x).bufferEnd = (s0.itds x).bufferEnd := by
  rw [setITD_bufferEnd _ _ _ hf2, setITD_bufferEnd _ _ _ hf1, hs, setITD_itds, if_neg hx]

/-- The first page recorded in every iTD is kept by the stores with which a pass closes the
iTD `T`. -/
theorem closeAndLink_page0 (s0 s : AppleUSBOHCI) (T n E : Nat)
    (f1 f2 : OHCIIsochTransferDescriptor → OHCIIsochTransferDescriptor)
    (hs : s.itds = (setITD s0 T fun itd => { itd with bufferEnd := E }).itds)
    (hf1 : ∀ d, (f1 d).bufferPage0 = d.bufferPage0)
    (hf2 : ∀ d, (f2 d).bufferPage0 = d.bufferPage0) (x : Nat) :
    ((setITD (setITD s T f1) n f2).itds x).bufferPage0 = (s0.itds x).bufferPage0 := by
  rw [setITD_bufferPage0 _ _ _ hf2, setITD_bufferPage0 _ _ _ hf1, hs]
  refine setITD_bufferPage0 _ _ _ ?_ x
  intro d
  rfl

/-- A pass of the standard loop that goes on: after the fetch and the comparison with the
pages it either closes the iTD or, no new iTD being asked for, adds the frame. -/
theorem UIMCreateIsochTransfer.body_pages {pBuffer : IOMemoryDescriptor}
    {pFrames frameNumber tdType bufferSize : Nat} {l l' : IsochTransferLoop}
    (h : UIMCreateIsochTransfer.body pBuffer pFrames frameNumber tdType bufferSize l
      = .ret (.inr l')) :
    ∃ l1, (l.getSegments pBuffer pFrames bufferSize).placeOnPage pFrames frameNumber tdType
        = .ret l1
      ∧ ((IsochClosing l1 l' ∧ ∃ p, l1.st.pFreeITD = p :: l'.st.pFreeITD)
        ∨ (l1.needNewITD = false ∧ l1.addFrame = .ret l')) := by
  unfold UIMCreateIsochTransfer.body at h
  obtain ⟨l1, h1, h2⟩ := Outcome.bind_eq_ret h
  refine ⟨l1, h1, ?_⟩
  split at h2
  · left
    dsimp only at h2
    have ha := AllocateITD_itds (setITD l1.st l1.pTailITD fun itd =>
      { itd with bufferEnd := l1.lastPhysical })
    have hb := AllocateITD_isocFrames (setITD l1.st l1.pTailITD fun itd =>
      { itd with bufferEnd := l1.lastPhysical })
    split at h2
    · cases h2
    · rename_i p s heq
      rw [heq] at ha hb
      have hpool := (AllocateITD_some heq).1
      simp only [Outcome.ret.injEq, Sum.inr.injEq] at h2
      subst h2
      refine ⟨⟨rfl, rfl, rfl, rfl, rfl, rfl, hb, ?_, ?_, ?_⟩, p, hpool⟩
      · dsimp only
        refine closeAndLink_end l1.st s _ _ _ _ _ ha ?_ ?_ <;> intro d <;> rfl
      · intro x hx
        dsimp only
        refine closeAndLink_endOther l1.st s _ _ l1.lastPhysical _ _ ha ?_ ?_ x hx <;>
          intro d <;> rfl
      · intro x
        dsimp only
        refine closeAndLink_page0 l1.st s _ _ l1.lastPhysical _ _ ha ?_ ?_ x <;>
          intro d <;> rfl
  · rename_i hc
    right
    obtain ⟨l2, h3, h4⟩ := Outcome.bind_eq_ret h2
    simp only [Outcome.ret.injEq, Sum.inr.injEq] at h4
    subst h4
    refine ⟨?_, h3⟩
    cases hn : l1.needNewITD
    · rfl
    · exact absurd (Or.inr hn) hc

theorem frameStart_bound (base : Nat) (len : Nat → Nat) :
    ∀ m, (∀ k, k < m → len k ≤ 1023) → frameStart base len m ≤ base + 1023 * m
  | 0, _ => by
    rw [frameStart]
    omega
  | m + 1, h => by
    have h1 := frameStart_bound base len m (fun k hk => h k (by omega))
    have h2 := h m (by omega)
    rw [frameStart]
    omega

/-- The frames of a request of at most 1000 frames of at most 1023 bytes each, in a buffer
that starts in its first page, lie at 32-bit positions. -/
theorem frameStart_small {base frameCount : Nat} {len : Nat → Nat} (hBase : base < 4096)
    (hCount : frameCount ≤ 1000) (hlen : ∀ k, k < frameCount → 1 ≤ len k ∧ len k ≤ 1023)
    (c : Nat) (hc : c ≤ frameCount) : frameStart base len c + 1023 < W32 := by
  have h1 := frameStart_bound base len c (fun k hk => (hlen k (by omega)).2)
  unfold W32
  omega

/-- A pass that closes the current iTD keeps the account of the pages: the frames of the
iTD closed lie on the page in its `bufferPage0` or on the page of its `bufferEnd`. -/
theorem IsochPaged.close {base n frameCount : Nat} {phys : Nat → Nat} {len : Nat → Nat}
    {pFrames frameNumber tdType bufferSize : Nat} {l l1 l' : IsochTransferLoop}
    {rs : List IsochRun} {f0 : Nat}
    (hP : PhysicalPages phys n) (hBase : base < 4096) (hCount : frameCount ≤ 1000)
    (hlen : ∀ k, k < frameCount → 1 ≤ len k ∧ len k ≤ 1023)
    (hFit : frameStart base len frameCount ≤ n * 4096) (hsize : bufferSize ≠ 0)
    (hG : IsochPaged base phys len pFrames l rs f0)
    (hrs : ∀ r ∈ rs, r.itd ≠ l.pTailITD) (hlt : l.curFrameInRequest < frameCount)
    (hpos : 1 ≤ l.curFrameInTD)
    (h1 : (l.getSegments (isochBuffer base phys) pFrames bufferSize).placeOnPage pFrames
      frameNumber tdType = .ret l1)
    (hc : IsochClosing l1 l') :
    IsochPaged base phys len pFrames l' (rs ++ [⟨l.pTailITD, f0, l.curFrameInTD⟩])
      (f0 + l.curFrameInTD) := by
  have hfetch := IsochTransferLoop.getSegments_fetched hsize hG.frames (hlen _ hlt)
    (frameStart_small hBase hCount hlen _ (Nat.le_of_lt hlt)) hG.offset hG.fetched
  obtain ⟨g, hg⟩ : ∃ g, g = l.getSegments (isochBuffer base phys) pFrames bufferSize :=
    ⟨_, rfl⟩
  rw [← hg] at hfetch h1
  clear hg
  obtain ⟨hf, gst, gtail, gcount, greq, -, -, -, -, glast⟩ := hfetch
  obtain ⟨⟨p1, p2, p3, p4, p5, p6, p7, p8, p9, p10⟩, pcase⟩ :=
    IsochTransferLoop.placeOnPage_pages h1
  rw [gtail] at p7 p10
  rw [gst] at p8 p9 p10
  rw [greq] at p6
  rw [glast] at p4
  rw [gcount] at pcase
  have hpage0 : (l1.st.itds l.pTailITD).bufferPage0 = (l.st.itds l.pTailITD).bufferPage0 := by
    rcases pcase with ⟨hz, -⟩ | ⟨-, -, hb, -⟩
    · omega
    · rw [gtail, gst] at hb
      exact hb
  have hreq := hG.request
  have hfc := frameStart_le base len l.curFrameInRequest frameCount (Nat.le_of_lt hlt)
  refine ⟨IsochRunsCover.append_run _ _ hpos rs 0 f0 hG.cover, ?_, fun r hr => ?_, ?_,
    fun hn => ?_, fun _ => ?_, fun h0 => ?_, fun h0 => ?_, fun h0 => ?_, fun h0 => ?_⟩
  · rw [hc.request, p6, hc.count, hreq]
    rfl
  · rw [List.mem_append, List.mem_singleton] at hr
    rcases hr with hr | rfl
    · have hne := hrs r hr
      have hold := hG.closed r hr
      unfold IsochRun.onTwoPages at hold ⊢
      rw [hc.bufferPage0, p10 _ hne, hc.bufferEndOther _ (by rw [p7]; exact hne), p9]
      exact hold
    · unfold IsochRun.onTwoPages
      intro k hk1 hk2 x hx1 hx2
      show pagedAddress 4096 phys x &&& kOHCIPageMask = (l'.st.itds l.pTailITD).bufferPage0
        ∨ pagedAddress 4096 phys x &&& kOHCIPageMask
          = (l'.st.itds l.pTailITD).bufferEnd &&& kOHCIPageMask
      have hb := hc.bufferEnd
      rw [p7] at hb
      rw [hc.bufferPage0, hpage0, hb, p4, (hG.page0 hpos).1, (hG.reach hpos).2]
      have hk3 : k + 1 ≤ l.curFrameInRequest := by
        change k < f0 + l.curFrameInTD at hk2
        omega
      have hs1 := frameStart_le base len f0 k hk1
      have hs2 := frameStart_le base len (k + 1) l.curFrameInRequest hk3
      have hreach := (hG.reach hpos).1
      rw [pagedAddress_page hP x (by omega),
        pagedAddress_page hP (frameStart base len l.curFrameInRequest - 1) (by omega)]
      have hx : x / 4096 = frameStart base len f0 / 4096
          ∨ x / 4096 = (frameStart base len l.curFrameInRequest - 1) / 4096 := by omega
      rcases hx with hx | hx
      · left
        rw [hx]
      · right
        rw [hx]
  · intro k
    rw [hc.frames, p8]
    exact hG.frames k
  · rw [hc.asked] at hn
    cases hn
  · rw [hc.request, p6]
    refine ⟨?_, ?_, ?_, ?_⟩
    · rw [hc.offset, p3]
      exact hf.offset
    · rw [hc.segs, p1]
      exact hf.seg0
    · rw [hc.segs, hc.numSegs, p1, p2]
      exact hf.one
    · rw [hc.segs, hc.numSegs, p1, p2]
      exact hf.two
  · rw [hc.count] at h0
    exact (Nat.lt_irrefl 0 h0).elim
  · rw [hc.count] at h0
    exact (Nat.lt_irrefl 0 h0).elim
  · rw [hc.count] at h0
    exact (Nat.lt_irrefl 0 h0).elim
  · rw [hc.count] at h0
    exact (Nat.lt_irrefl 0 h0).elim

/-- The last byte of a fetched frame: the end of its last segment, less one, is the physical
address of the last byte of the frame; and the last segment of a frame that stays within a
page lies on the page on which the frame starts. -/
theorem IsochFetched.last_byte {base n : Nat} {phys : Nat → Nat} {len : Nat → Nat}
    {l : IsochTransferLoop} {k : Nat} {seg : IOPhysicalSegment}
    (hP : PhysicalPages phys n) (hf : IsochFetched base phys len l k)
    (hL : 1 ≤ len k ∧ len k ≤ 1023) (hfit : frameStart base len (k + 1) ≤ n * 4096)
    (hseg : l.segs.last l.numSegs = .ret seg) :
    sub32 (add32 seg.location seg.length) 1
        = pagedAddress 4096 phys (frameStart base len (k + 1) - 1)
      ∧ (frameStart base len k % 4096 + len k ≤ 4096 →
        seg.location &&& kOHCIPageMask = phys (frameStart base len k / 4096)) := by
  have hnext : frameStart base len (k + 1) = frameStart base len k + len k := by
    rw [frameStart]
  rw [hnext] at hfit ⊢
  have h0 := hf.seg0
  have h1 := hf.one
  have h2 := hf.two
  obtain ⟨S, hS⟩ : ∃ S, frameStart base len k = S := ⟨_, rfl⟩
  obtain ⟨L, hLen⟩ : ∃ L, len k = L := ⟨_, rfl⟩
  rw [hS] at hfit h0 h1 h2 ⊢
  rw [hLen] at hfit hL h1 h2 ⊢
  unfold SegmentArray.last at hseg
  by_cases hone : S % 4096 + L ≤ 4096
  · obtain ⟨e1, e2⟩ := h1 hone
    rw [e1, if_pos rfl] at hseg
    simp only [Outcome.ret.injEq] at hseg
    subst hseg
    have hsmall := hP.small (S / 4096) (by omega)
    have hal := hP.aligned (S / 4096) (by omega)
    have hdiv : (S + L - 1) / 4096 = S / 4096 := by omega
    refine ⟨?_, fun _ => ?_⟩
    · rw [h0, e2]
      unfold pagedAddress sub32 add32
      rw [hdiv]
      unfold W32 at hsmall ⊢
      omega
    · rw [h0]
      exact pagedAddress_page hP S (by omega)
  · obtain ⟨e1, -, e3⟩ := h2 hone
    rw [e1, if_neg (by decide), if_pos rfl] at hseg
    simp only [Outcome.ret.injEq] at hseg
    subst hseg
    have hsmall := hP.small (S / 4096 + 1) (by omega)
    have hdiv : (S + L - 1) / 4096 = S / 4096 + 1 := by omega
    refine ⟨?_, fun h => absurd h hone⟩
    rw [e3]
    unfold pagedAddress sub32 add32
    rw [hdiv]
    dsimp only
    unfold W32 at hsmall ⊢
    omega

/-- A pass that adds the fetched frame to the current iTD keeps the account of the pages. -/
theorem IsochPaged.add {base n frameCount : Nat} {phys : Nat → Nat} {len : Nat → Nat}
    {pFrames frameNumber tdType bufferSize : Nat} {l l1 l' : IsochTransferLoop}
    {rs : List IsochRun} {f0 : Nat}
    (hP : PhysicalPages phys n) (hBase : base < 4096) (hCount : frameCount ≤ 1000)
    (hlen : ∀ k, k < frameCount → 1 ≤ len k ∧ len k ≤ 1023)
    (hFit : frameStart base len frameCount ≤ n * 4096) (hsize : bufferSize ≠ 0)
    (hI : IsochCounting frameCount l) (hG : IsochPaged base phys len pFrames l rs f0)
    (hrs : ∀ r ∈ rs, r.itd ≠ l.pTailITD) (hlt : l.curFrameInRequest < frameCount)
    (h1 : (l.getSegments (isochBuffer base phys) pFrames bufferSize).placeOnPage pFrames
      frameNumber tdType = .ret l1)
    (hn : l1.needNewITD = false) (ha : l1.addFrame = .ret l') :
    IsochPaged base phys len pFrames l' rs f0
      ∧ l'.curFrameInRequest = l.curFrameInRequest + 1 := by
  have hfetch := IsochTransferLoop.getSegments_fetched hsize hG.frames (hlen _ hlt)
    (frameStart_small hBase hCount hlen _ (Nat.le_of_lt hlt)) hG.offset hG.fetched
  obtain ⟨g, hg⟩ : ∃ g, g = l.getSegments (isochBuffer base phys) pFrames bufferSize :=
    ⟨_, rfl⟩
  rw [← hg] at hfetch h1
  clear hg
  obtain ⟨hf, gst, gtail, gcount, greq, gneed, gstart, gend, gmask, glast⟩ := hfetch
  obtain ⟨⟨p1, p2, p3, p4, p5, p6, p7, p8, p9, p10⟩, pcase⟩ :=
    IsochTransferLoop.placeOnPage_pages h1
  rw [gtail] at p7 p10
  rw [gst] at p8 p9 p10
  rw [greq] at p6
  rw [gcount] at p5
  obtain ⟨⟨seg, hseg, hlast⟩, a1, a2, a3, a4, a5, a6, a7, a8, a9, a10, a11⟩ :=
    IsochTransferLoop.addFrame_pages ha
  obtain ⟨k1, k2, -, -⟩ := IsochTransferLoop.addFrame_counting ha
  have hle := hI.le
  have hcnt : l'.curFrameInTD = l.curFrameInTD + 1 := by
    rw [k1, p5]
    unfold add32 W32
    omega
  have hreq1 : l'.curFrameInRequest = l.curFrameInRequest + 1 := by
    rw [k2, p6]
    unfold add32 W32
    omega
  have hf1 : IsochFetched base phys len l1 l.curFrameInRequest :=
    ⟨by rw [p3]; exact hf.offset, by rw [p1]; exact hf.seg0, by rw [p1, p2]; exact hf.one,
      by rw [p1, p2]; exact hf.two⟩
  have hnext : frameStart base len (l.curFrameInRequest + 1)
      = frameStart base len l.curFrameInRequest + len l.curFrameInRequest := by
    rw [frameStart]
  have hfitE := frameStart_le base len (l.curFrameInRequest + 1) frameCount hlt
  obtain ⟨lb1, lb2⟩ := IsochFetched.last_byte hP hf1 (hlen _ hlt) (by omega) hseg
  have hreq := hG.request
  have hFS := frameStart_le base len f0 l.curFrameInRequest (by omega)
  have hL := hlen _ hlt
  have hseg0 : g.segs.seg0.location &&& kOHCIPageMask
      = phys (frameStart base len l.curFrameInRequest / 4096) := by
    rw [hf.seg0]
    exact pagedAddress_page hP _ (by omega)
  rw [gcount, gtail, gst, gstart, gend, gmask, gneed, hseg0] at pcase
  rw [hnext] at hfitE lb1
  have hkey : (l1.st.itds l.pTailITD).bufferPage0 = phys (frameStart base len f0 / 4096)
      ∧ l1.physPageStart = phys (frameStart base len f0 / 4096)
      ∧ frameStart base len l.curFrameInRequest + len l.curFrameInRequest
        ≤ (frameStart base len f0 / 4096 + 2) * 4096
      ∧ (l1.pageSelectMask = 0 →
        frameStart base len l.curFrameInRequest + len l.curFrameInRequest
          ≤ (frameStart base len f0 / 4096 + 1) * 4096 + 1022)
      ∧ (l1.pageSelectMask ≠ 0 →
        l1.physPageEnd = phys (frameStart base len f0 / 4096 + 1)
          ∧ (frameStart base len f0 / 4096 + 1) * 4096
            ≤ frameStart base len l.curFrameInRequest + len l.curFrameInRequest) := by
    rcases pcase with ⟨hz, q1, q2, -, q4⟩ | ⟨hnz, q1, q2, hcase⟩
    · obtain rfl : f0 = l.curFrameInRequest := by omega
      exact ⟨q4, q1, by omega, fun _ => by omega, fun h => absurd q2 h⟩
    · have hpos : 0 < l.curFrameInTD := Nat.pos_of_ne_zero hnz
      have pg0 := hG.page0 hpos
      have hreach := (hG.reach hpos).1
      rcases hcase with ⟨b1, b2, -, -⟩ | ⟨-, -, -, c4⟩ | ⟨d1, d2, d3, -, seg1, hseg1, d5⟩
      · rw [pg0.2] at b1
        have hV := hP.apart _ _ (by omega) (by omega) b1
        have hmask0 : l.pageSelectMask = 0 := by
          by_contra hm
          have := (hG.second hpos hm).2
          omega
        exact ⟨q2.trans pg0.1, q1.trans pg0.2, by omega, fun _ => by omega,
          fun h => absurd (b2.trans hmask0) h⟩
      · rw [hn] at c4
        cases c4
      · rw [pg0.2] at d1
        have hne : frameStart base len l.curFrameInRequest / 4096
            ≠ frameStart base len f0 / 4096 := by
          intro h
          apply d1
          rw [h]
        have hon : frameStart base len l.curFrameInRequest / 4096
              = frameStart base len f0 / 4096 + 1
            ∧ frameStart base len l.curFrameInRequest % 4096 + len l.curFrameInRequest
              ≤ 4096 := by
          by_cases hm : l.pageSelectMask = 0
          · have := hG.first hpos hm
            omega
          · obtain ⟨s1, s2⟩ := hG.second hpos hm
            have d6 : g.segs.seg0.location &&& kOHCIPageMask = l.physPageEnd
                ∧ g.numSegs ≠ 2 := by
              constructor
              · by_contra hc
                exact d2 ⟨hm, Or.inl (by rw [hseg0] at hc; exact hc)⟩
              · intro hc
                exact d2 ⟨hm, Or.inr hc⟩
            rw [hseg0, s1] at d6
            have hV := hP.apart _ _ (by omega) (by omega) d6.1
            refine ⟨hV, ?_⟩
            by_contra hc
            exact d6.2 (hf.two hc).1
        rw [← p1, ← p2, hseg] at hseg1
        simp only [Outcome.ret.injEq] at hseg1
        subst hseg1
        rw [lb2 hon.2, hon.1] at d5
        refine ⟨q2.trans pg0.1, q1.trans pg0.2, by omega, fun h => ?_,
          fun _ => ⟨d5, by omega⟩⟩
        rw [d3] at h
        exact absurd h (by decide)
  obtain ⟨y1, y2, y3, y4, y5⟩ := hkey
  refine ⟨⟨hG.cover, ?_, fun r hr => ?_, ?_, fun _ => ?_, fun h => ?_, fun _ => ?_,
    fun _ => ?_, fun _ hm => ?_, fun _ hm => ?_⟩, hreq1⟩
  · rw [hreq1, hcnt]
    omega
  · have hne := hrs r hr
    have hold := hG.closed r hr
    unfold IsochRun.onTwoPages at hold ⊢
    rw [a11, p10 _ hne, a10, p9]
    exact hold
  · intro k
    rw [a9, p8]
    exact hG.frames k
  · rw [a3, p3, hreq1]
    exact hf.offset
  · rw [a7, hn] at h
    cases h
  · rw [a8, p7, a11, a4]
    exact ⟨y1, y2⟩
  · rw [hreq1, hnext, hlast]
    exact ⟨y3, lb1⟩
  · rw [a6] at hm
    rw [hreq1, hnext]
    exact y4 hm
  · rw [a6] at hm
    rw [a5, hreq1, hnext]
    exact y5 hm

/-- A pass of the low latency loop: it breaks on an exhausted pool, or adds a frame, or closes
the current iTD and moves on to the next one. -/
theorem UIMCreateIsochTransferLL.body_spec_ll (pBuffer : IOMemoryDescriptor)
    (pFrames frameNumber tdType bufferSize updateFrequency : Nat) (l : IsochTransferLoop)
    (r : Sum IsochTransferLoop IsochTransferLoop)
    (h : UIMCreateIsochTransferLL.body pBuffer pFrames frameNumber tdType bufferSize
      updateFrequency l = .ret r) :
    (∃ l', r = .inl l' ∧ IsochKept l.st l'.st ∧ l'.pTailITD = l.pTailITD)
      ∨ (∃ l', r = .inr l' ∧ IsochKept l.st l'.st ∧ l'.pTailITD = l.pTailITD
        ∧ l'.pNewITD = l.pNewITD)
      ∨ (∃ l', r = .inr l' ∧ IsochAdvance l l') := by
  unfold UIMCreateIsochTransferLL.body at h
  obtain ⟨l1, hplace, hrest⟩ := Outcome.bind_eq_ret h
  obtain ⟨hk1, ht1, hn1⟩ := IsochTransferLoop.placeOnPage_kept hplace
  obtain ⟨hs0, ht0, hn0⟩ := l.getSegments_kept pBuffer pFrames bufferSize
  rw [hs0] at hk1
  rw [ht0] at ht1
  rw [hn0] at hn1
  split at hrest
  · have hk2 : IsochKept l.st
        (setITD l1.st l1.pTailITD fun itd => { itd with bufferEnd := l1.lastPhysical }) :=
      hk1.trans (IsochKept.store _ _ _ (fun _ => ⟨rfl, rfl, rfl⟩))
    dsimp only at hrest
    rcases hp : l1.st.pFreeITD with _ | ⟨n, rest⟩
    · have hp2 : ∀ f, (setITD l1.st l1.pTailITD f).pFreeITD = [] := fun _ => hp
      rw [AllocateITD_nil _ (hp2 _)] at hrest
      simp only [Outcome.ret.injEq] at hrest
      subst hrest
      exact Or.inl ⟨_, rfl, hk2, ht1⟩
    · have hp2 : ∀ f, (setITD l1.st l1.pTailITD f).pFreeITD = n :: rest := fun _ => hp
      rw [AllocateITD_cons _ n rest (hp2 _)] at hrest
      have hpool : l.st.pFreeITD = n :: rest := by rw [← hk1.pFreeITD, hp]
      obtain ⟨c1, c2, c3, c4, c5, c6, c7⟩ := closeAndLink_itds
        { (setITD l1.st l1.pTailITD fun itd => { itd with bufferEnd := l1.lastPhysical }) with
          pFreeITD := rest } l1.pTailITD n
        (if ¬ ((decide (updateFrequency ≠ 0) : Bool) = true
              ∧ l1.curFrameInTD ≥ updateFrequency) then
            l1.itdFlags ||| shl32 (sub32 l1.curFrameInTD 1) kOHCIITDControl_FCPhase
              ||| shl32 kOHCIGTDConditionNotAccessed kOHCIGTDControl_CCPhase
              ||| shl32 0x7 kOHCIGTDControl_DIPhase
          else
            l1.itdFlags ||| shl32 (sub32 l1.curFrameInTD 1) kOHCIITDControl_FCPhase
              ||| shl32 kOHCIGTDConditionNotAccessed kOHCIGTDControl_CCPhase)
      dsimp only at hrest
      rw [c1, c7] at hrest
      simp only [Outcome.ret.injEq] at hrest
      subst hrest
      refine Or.inr (Or.inr ⟨_, rfl, ?_⟩)
      constructor
      · exact hpool
      · show _ = (l.st.itds l.pTailITD).pLogicalNext
        rw [← ht1, ← hk2.next]
      · exact hk1.eds
      · exact hk1.tds
      · exact hk1.pFreeTD
      · exact hk1.pFreeED
      · exact c2
      · intro x hx
        exact (c3 x hx).trans (hk2.next x)
      · intro x
        exact (c4 x).trans (hk2.physical x)
      · intro x
        rcases c5 x with h | h
        · exact Or.inl (h.trans (hk2.completion x))
        · exact Or.inr h
      · rw [← ht1]
        exact c6
  · obtain ⟨l2, hadd, hret⟩ := Outcome.bind_eq_ret hrest
    simp only [Outcome.ret.injEq] at hret
    subst hret
    obtain ⟨hk2, ht2, hn2⟩ := IsochTransferLoop.addFrame_kept hadd
    exact Or.inr (Or.inl ⟨_, rfl, hk1.trans hk2, by rw [ht2, ht1], by rw [hn2, hn1]⟩)

/-- A pass of the low latency loop that goes on: after the fetch and the comparison with the
pages of the iTD it either closes the iTD, for which it takes a new one from the pool, or, no
new iTD being asked for, adds the frame. -/
theorem UIMCreateIsochTransferLL.body_pages_ll {pBuffer : IOMemoryDescriptor}
    {pFrames frameNumber tdType bufferSize updateFrequency : Nat} {l l' : IsochTransferLoop}
    (h : UIMCreateIsochTransferLL.body pBuffer pFrames frameNumber tdType bufferSize
      updateFrequency l = .ret (.inr l')) :
    ∃ l1, (l.getSegments pBuffer pFrames bufferSize).placeOnPage pFrames frameNumber tdType
        = .ret l1
      ∧ ((IsochClosing l1 l' ∧ ∃ p, l1.st.pFreeITD = p :: l'.st.pFreeITD)
        ∨ (l1.needNewITD = false ∧ l1.addFrame = .ret l')) := by
  unfold UIMCreateIsochTransferLL.body at h
  obtain ⟨l1, h1, h2⟩ := Outcome.bind_eq_ret h
  refine ⟨l1, h1, ?_⟩
  split at h2
  · left
    dsimp only at h2
    have ha := AllocateITD_itds (setITD l1.st l1.pTailITD fun itd =>
      { itd with bufferEnd := l1.lastPhysical })
    have hb := AllocateITD_isocFrames (setITD l1.st l1.pTailITD fun itd =>
      { itd with bufferEnd := l1.lastPhysical })
    split at h2
    · cases h2
    · rename_i p s heq
      rw [heq] at ha hb
      have hpool := (AllocateITD_some heq).1
      simp only [Outcome.ret.injEq, Sum.inr.injEq] at h2
      subst h2
      refine ⟨⟨rfl, rfl, rfl, rfl, rfl, rfl, hb, ?_, ?_, ?_⟩, p, hpool⟩
      · dsimp only
        refine closeAndLink_end l1.st s _ _ _ _ _ ha ?_ ?_ <;> intro d <;> rfl
      · intro x hx
        dsimp only
        refine closeAndLink_endOther l1.st s _ _ l1.lastPhysical _ _ ha ?_ ?_ x hx <;>
          intro d <;> rfl
      · intro x
        dsimp only
        refine closeAndLink_page0 l1.st s _ _ l1.lastPhysical _ _ ha ?_ ?_ x <;>
          intro d <;> rfl
  · rename_i hc
    right
    obtain ⟨l2, h3, h4⟩ := Outcome.bind_eq_ret h2
    simp only [Outcome.ret.injEq, Sum.inr.injEq] at h4
    subst h4
    refine ⟨?_, h3⟩
    cases hn : l1.needNewITD
    · rfl
    · exact absurd (Or.inr (Or.inl hn)) hc

/-- What a pass that goes on does, seen from the chain and from the pages at once: a pass
that closes the iTD moves on to a new one, a pass that adds a frame keeps the chain. -/
theorem IsochClosing.combine {l l1 l' : IsochTransferLoop} {pBuffer : IOMemoryDescriptor}
    {pFrames frameNumber tdType bufferSize : Nat}
    (h1 : (l.getSegments pBuffer pFrames bufferSize).placeOnPage pFrames frameNumber tdType
      = .ret l1)
    (hspec : (IsochKept l.st l'.st ∧ l'.pTailITD = l.pTailITD ∧ l'.pNewITD = l.pNewITD)
      ∨ IsochAdvance l l')
    (hpages : (IsochClosing l1 l' ∧ ∃ p, l1.st.pFreeITD = p :: l'.st.pFreeITD)
      ∨ (l1.needNewITD = false ∧ l1.addFrame = .ret l')) :
    (IsochClosing l1 l' ∧ IsochAdvance l l')
      ∨ (l1.needNewITD = false ∧ l1.addFrame = .ret l' ∧ IsochKept l.st l'.st
        ∧ l'.pTailITD = l.pTailITD ∧ l'.pNewITD = l.pNewITD) := by
  obtain ⟨hk1, ht1, hn1⟩ := IsochTransferLoop.placeOnPage_kept h1
  obtain ⟨hs0, ht0, hn0⟩ := l.getSegments_kept pBuffer pFrames bufferSize
  rw [hs0] at hk1
  rw [ht0] at ht1
  rw [hn0] at hn1
  rcases hpages with ⟨hc, p, hp⟩ | ⟨hn, ha⟩
  · rcases hspec with ⟨hk, -, -⟩ | hadv
    · exfalso
      rw [hk1.pFreeITD, ← hk.pFreeITD] at hp
      exact List.cons_ne_self _ _ hp.symm
    · exact Or.inl ⟨hc, hadv⟩
  · obtain ⟨hk2, ht2, hn2⟩ := IsochTransferLoop.addFrame_kept ha
    exact Or.inr ⟨hn, ha, hk1.trans hk2, by rw [ht2, ht1], by rw [hn2, hn1]⟩

/-- A pass of a frame packing loop that goes on keeps the chain being built and the account of
the pages. -/
theorem IsochPaged.paged_step {st0 : AppleUSBOHCI} {T0 base n frameCount : Nat} {phys : Nat → Nat}
    {len : Nat → Nat} {pFrames frameNumber tdType bufferSize : Nat}
    {l l1 l' : IsochTransferLoop} {done pre : List Nat} {rs : List IsochRun} {f0 : Nat}
    (hnd : st0.pFreeITD.Nodup) (hT0 : T0 ∉ st0.pFreeITD)
    (hP : PhysicalPages phys n) (hBase : base < 4096) (hCount : frameCount ≤ 1000)
    (hlen : ∀ k, k < frameCount → 1 ≤ len k ∧ len k ≤ 1023)
    (hFit : frameStart base len frameCount ≤ n * 4096) (hsize : bufferSize ≠ 0)
    (b : IsochBuilding st0 T0 l.st l.pTailITD done pre l.pNewITD)
    (hI : IsochCounting frameCount l) (hG : IsochPaged base phys len pFrames l rs f0)
    (hmap : (rs.map fun r => r.itd) = done) (hlt : l.curFrameInRequest < frameCount)
    (hpass : IsochPass l l')
    (h1 : (l.getSegments (isochBuffer base phys) pFrames bufferSize).placeOnPage pFrames
      frameNumber tdType = .ret l1)
    (hcase : (IsochClosing l1 l' ∧ IsochAdvance l l')
      ∨ (l1.needNewITD = false ∧ l1.addFrame = .ret l' ∧ IsochKept l.st l'.st
        ∧ l'.pTailITD = l.pTailITD ∧ l'.pNewITD = l.pNewITD)) :
    ∃ done' pre' rs' f0', IsochBuilding st0 T0 l'.st l'.pTailITD done' pre' l'.pNewITD
      ∧ IsochPaged base phys len pFrames l' rs' f0'
      ∧ (rs'.map fun r => r.itd) = done' ∧ l'.curFrameInRequest ≤ frameCount := by
  have hmem := b.members hnd hT0
  have hnotdone : l.pTailITD ∉ done := hmem.2.2.2.2.2.2.2.2.2.1
  have hrs : ∀ r ∈ rs, r.itd ≠ l.pTailITD := by
    intro r hr heq
    apply hnotdone
    rw [← hmap, ← heq]
    exact List.mem_map_of_mem _ hr
  rcases hcase with ⟨hc, hadv⟩ | ⟨hn, ha, hk, ht, hnew⟩
  · have hsame : l'.curFrameInRequest = l.curFrameInRequest := by
      rw [hc.request]
      exact (IsochTransferLoop.placeOnPage_counting h1).2.1
    have hpos : 1 ≤ l.curFrameInTD := by
      rcases hpass with ⟨-, -, h, -⟩ | ⟨h, -⟩
      · exact h
      · exfalso
        rw [hsame] at h
        unfold add32 W32 at h
        omega
    refine ⟨done ++ [l.pTailITD], pre ++ [l.pNewITD], rs ++ [⟨l.pTailITD, f0, l.curFrameInTD⟩],
      f0 + l.curFrameInTD, b.advance hnd hT0 hadv,
      IsochPaged.close hP hBase hCount hlen hFit hsize hG hrs hlt hpos h1 hc, ?_, ?_⟩
    · rw [List.map_append, hmap]
      rfl
    · rw [hsame]
      exact Nat.le_of_lt hlt
  · obtain ⟨hG1, hreq1⟩ := IsochPaged.add hP hBase hCount hlen hFit hsize hI hG hrs hlt h1 hn ha
    refine ⟨done, pre, rs, f0, ?_, hG1, hmap, ?_⟩
    · rw [ht, hnew]
      exact b.kept hk
    · rw [hreq1]
      exact hlt

/-- The standard loop that ends with success has placed every frame of the request, each iTD
on two pages. -/
theorem UIMCreateIsochTransfer.loop_paged {st0 : AppleUSBOHCI} {T0 base n frameCount : Nat}
    {phys : Nat → Nat} {len : Nat → Nat} (pFrames frameNumber tdType bufferSize : Nat)
    (hnd : st0.pFreeITD.Nodup) (hT0 : T0 ∉ st0.pFreeITD)
    (hP : PhysicalPages phys n) (hBase : base < 4096) (hCount : frameCount ≤ 1000)
    (hlen : ∀ k, k < frameCount → 1 ≤ len k ∧ len k ≤ 1023)
    (hFit : frameStart base len frameCount ≤ n * 4096) (hsize : bufferSize ≠ 0) :
    ∀ (fuel : Nat) (l l' : IsochTransferLoop) (done pre : List Nat) (rs : List IsochRun)
      (f0 : Nat),
      UIMCreateIsochTransfer.loop (isochBuffer base phys) frameCount pFrames frameNumber tdType
        bufferSize fuel l = .ret (.kIOReturnSuccess, l') →
      IsochBuilding st0 T0 l.st l.pTailITD done pre l.pNewITD →
      IsochCounting frameCount l → IsochPaged base phys len pFrames l rs f0 →
      (rs.map fun r => r.itd) = done → l.curFrameInRequest ≤ frameCount →
      ∃ done' pre' rs' f0', IsochBuilding st0 T0 l'.st l'.pTailITD done' pre' l'.pNewITD
        ∧ IsochCounting frameCount l' ∧ IsochPaged base phys len pFrames l' rs' f0'
        ∧ (rs'.map fun r => r.itd) = done' ∧ l'.curFrameInRequest = frameCount
  | 0, l, l', done, pre, rs, f0, h, _, _, _, _, _ => by
    simp [UIMCreateIsochTransfer.loop] at h
  | fuel + 1, l, l', done, pre, rs, f0, h, b, hI, hG, hmap, hle => by
    rw [UIMCreateIsochTransfer.loop] at h
    split_ifs at h with hlt
    · obtain ⟨r, hbody, hrest⟩ := Outcome.bind_eq_ret h
      rcases r with l1 | l1
      · simp only [Outcome.ret.injEq, Prod.mk.injEq] at hrest
        cases hrest.1
      · obtain ⟨hI1, hpass⟩ := (UIMCreateIsochTransfer.body_counting hI hlt hbody).2 l1 rfl
        obtain ⟨lm, hm1, hm2⟩ := UIMCreateIsochTransfer.body_pages hbody
        have hspec : (IsochKept l.st l1.st ∧ l1.pTailITD = l.pTailITD
            ∧ l1.pNewITD = l.pNewITD) ∨ IsochAdvance l l1 := by
          rcases UIMCreateIsochTransfer.body_spec _ _ _ _ _ _ _ hbody with
            ⟨x, hx, -⟩ | ⟨x, hx, hk⟩ | ⟨x, hx, hadv⟩
          · cases hx
          · simp only [Sum.inr.injEq] at hx
            subst hx
            exact Or.inl hk
          · simp only [Sum.inr.injEq] at hx
            subst hx
            exact Or.inr hadv
        obtain ⟨done1, pre1, rs1, f1, b1, hG1, hmap1, hle1⟩ :=
          IsochPaged.paged_step hnd hT0 hP hBase hCount hlen hFit hsize b hI hG hmap hlt hpass hm1
            (IsochClosing.combine hm1 hspec hm2)
        exact UIMCreateIsochTransfer.loop_paged pFrames frameNumber tdType bufferSize hnd hT0
          hP hBase hCount hlen hFit hsize fuel l1 l' done1 pre1 rs1 f1 hrest b1 hI1 hG1 hmap1
          hle1
    · simp only [Outcome.ret.injEq, Prod.mk.injEq] at h
      obtain ⟨-, rfl⟩ := h
      exact ⟨done, pre, rs, f0, b, hI, hG, hmap, by omega⟩

/-- The low latency loop that ends with success has placed every frame of the request, each
iTD on two pages. -/
theorem UIMCreateIsochTransferLL.loop_paged_ll {st0 : AppleUSBOHCI}
    {T0 base n frameCount : Nat} {phys : Nat → Nat} {len : Nat → Nat}
    (pFrames frameNumber tdType bufferSize updateFrequency : Nat)
    (hnd : st0.pFreeITD.Nodup) (hT0 : T0 ∉ st0.pFreeITD)
    (hP : PhysicalPages phys n) (hBase : base < 4096) (hCount : frameCount ≤ 1000)
    (hlen : ∀ k, k < frameCount → 1 ≤ len k ∧ len k ≤ 1023)
    (hFit : frameStart base len frameCount ≤ n * 4096) (hsize : bufferSize ≠ 0) :
    ∀ (fuel : Nat) (l l' : IsochTransferLoop) (done pre : List Nat) (rs : List IsochRun)
      (f0 : Nat),
      UIMCreateIsochTransferLL.loop (isochBuffer base phys) frameCount pFrames frameNumber
        tdType bufferSize updateFrequency fuel l = .ret (.kIOReturnSuccess, l') →
      IsochBuilding st0 T0 l.st l.pTailITD done pre l.pNewITD →
      IsochCounting frameCount l → IsochPaged base phys len pFrames l rs f0 →
      (rs.map fun r => r.itd) = done → l.curFrameInRequest ≤ frameCount →
      ∃ done' pre' rs' f0', IsochBuilding st0 T0 l'.st l'.pTailITD done' pre' l'.pNewITD
        ∧ IsochCounting frameCount l' ∧ IsochPaged base phys len pFrames l' rs' f0'
        ∧ (rs'.map fun r => r.itd) = done' ∧ l'.curFrameInRequest = frameCount
  | 0, l, l', done, pre, rs, f0, h, _, _, _, _, _ => by
    simp [UIMCreateIsochTransferLL.loop] at h
  | fuel + 1, l, l', done, pre, rs, f0, h, b, hI, hG, hmap, hle => by
    rw [UIMCreateIsochTransferLL.loop] at h
    split_ifs at h with hlt
    · obtain ⟨r, hbody, hrest⟩ := Outcome.bind_eq_ret h
      rcases r with l1 | l1
      · simp only [Outcome.ret.injEq, Prod.mk.injEq] at hrest
        cases hrest.1
      · obtain ⟨hI1, hpass⟩ := (UIMCreateIsochTransferLL.body_counting_ll hI hlt hbody).2 l1 rfl
        obtain ⟨lm, hm1, hm2⟩ := UIMCreateIsochTransferLL.body_pages_ll hbody
        have hspec : (IsochKept l.st l1.st ∧ l1.pTailITD = l.pTailITD
            ∧ l1.pNewITD = l.pNewITD) ∨ IsochAdvance l l1 := by
          rcases UIMCreateIsochTransferLL.body_spec_ll _ _ _ _ _ _ _ _ hbody with
            ⟨x, hx, -⟩ | ⟨x, hx, hk⟩ | ⟨x, hx, hadv⟩
          · cases hx
          · simp only [Sum.inr.injEq] at hx
            subst hx
            exact Or.inl hk
          · simp only [Sum.inr.injEq] at hx
            subst hx
            exact Or.inr hadv
        obtain ⟨done1, pre1, rs1, f1, b1, hG1, hmap1, hle1⟩ :=
          IsochPaged.paged_step hnd hT0 hP hBase hCount hlen hFit hsize b hI hG hmap hlt hpass hm1
            (IsochClosing.combine hm1 hspec hm2)
        exact UIMCreateIsochTransferLL.loop_paged_ll pFrames frameNumber tdType bufferSize
          updateFrequency hnd hT0 hP hBase hCount hlen hFit hsize fuel l1 l' done1 pre1 rs1 f1
          hrest b1 hI1 hG1 hmap1 hle1
    · simp only [Outcome.ret.injEq, Prod.mk.injEq] at h
      obtain ⟨-, rfl⟩ := h
      exact ⟨done, pre, rs, f0, b, hI, hG, hmap, by omega⟩

/-- The frame size check of the standard variant that passes: no frame asks for more than 1023
bytes, and the total counts the bytes of the first frame. -/
theorem UIMCreateIsochTransfer.bufferSize_some (st : AppleUSBOHCI) (pFrames : Nat) :
    ∀ (n i acc b : Nat), UIMCreateIsochTransfer.bufferSize st pFrames n i acc = some b →
      acc + 1023 * n < W32 →
      acc ≤ b ∧ (∀ k, k < n → (st.isocFrames pFrames (i + k)).frReqCount ≤ 1023)
        ∧ (0 < n → acc + (st.isocFrames pFrames i).frReqCount ≤ b)
  | 0, _, acc, b, h, _ => by
    rw [UIMCreateIsochTransfer.bufferSize] at h
    simp only [Option.some.injEq] at h
    subst h
    exact ⟨Nat.le_refl _, fun k hk => absurd hk (Nat.not_lt_zero k),
      fun h0 => absurd h0 (Nat.lt_irrefl 0)⟩
  | n + 1, i, acc, b, h, hsmall => by
    rw [UIMCreateIsochTransfer.bufferSize] at h
    split_ifs at h with hbig
    have hle : (st.isocFrames pFrames i).frReqCount ≤ 1023 := by
      unfold kUSBMaxIsocFrameReqCount at hbig
      omega
    have hadd : add32 acc (st.isocFrames pFrames i).frReqCount
        = acc + (st.isocFrames pFrames i).frReqCount := by
      unfold add32
      unfold W32 at hsmall ⊢
      omega
    rw [hadd] at h
    obtain ⟨i1, i2, -⟩ := UIMCreateIsochTransfer.bufferSize_some st pFrames n (i + 1) _ b h
      (by omega)
    refine ⟨by omega, fun k hk => ?_, fun _ => i1⟩
    rcases k with _ | k
    · exact hle
    · have := i2 k (by omega)
      rw [show i + 1 + k = i + (k + 1) by omega] at this
      exact this

/-- The frame size check of the low latency variant that passes: no frame asks for more than
1023 bytes, and the total counts the bytes of the first frame. -/
theorem UIMCreateIsochTransferLL.bufferSize_some_ll (H : Header) (pFrames : Nat) :
    ∀ (n i acc b : Nat) (st : AppleUSBOHCI),
      (UIMCreateIsochTransferLL.bufferSize H pFrames n i acc st).1 = some b →
      acc + 1023 * n < W32 →
      acc ≤ b ∧ (∀ k, k < n → (st.isocFrames pFrames (i + k)).frReqCount ≤ 1023)
        ∧ (0 < n → acc + (st.isocFrames pFrames i).frReqCount ≤ b)
  | 0, _, acc, b, _, h, _ => by
    rw [UIMCreateIsochTransferLL.bufferSize] at h
    simp only [Option.some.injEq] at h
    subst h
    exact ⟨Nat.le_refl _, fun k hk => absurd hk (Nat.not_lt_zero k),
      fun h0 => absurd h0 (Nat.lt_irrefl 0)⟩
  | n + 1, i, acc, b, st, h, hsmall => by
    rw [UIMCreateIsochTransferLL.bufferSize] at h
    split_ifs at h with hbig
    have hle : (st.isocFrames pFrames i).frReqCount ≤ 1023 := by
      unfold kUSBMaxIsocFrameReqCount at hbig
      omega
    have hadd : add32 acc (st.isocFrames pFrames i).frReqCount
        = acc + (st.isocFrames pFrames i).frReqCount := by
      unfold add32
      unfold W32 at hsmall ⊢
      omega
    dsimp only at h
    rw [hadd] at h
    obtain ⟨i1, i2, -⟩ := UIMCreateIsochTransferLL.bufferSize_some_ll H pFrames n (i + 1) _ b
      _ h (by omega)
    refine ⟨by omega, fun k hk => ?_, fun _ => i1⟩
    rcases k with _ | k
    · exact hle
    · have := i2 k (by omega)
      rw [show i + 1 + k = i + (k + 1) by omega] at this
      have hne : i + (k + 1) ≠ i := by omega
      simpa [Function.update_noteq hne] using this

/-- The end of a call that succeeds: the last iTD is closed with the last byte of the request,
and the chain from the old tail to the new one holds the frames in runs, each on two pages. -/
theorem IsochPaged.finish {st0 st' : AppleUSBOHCI} {T0 base n frameCount : Nat}
    {phys : Nat → Nat} {len : Nat → Nat} {pFrames fuel pED : Nat}
    {completion : IOUSBCompletion} {s : IOReturn} {lE : IsochTransferLoop}
    {done pre : List Nat} {rs : List IsochRun} {f0 : Nat}
    (hnd : st0.pFreeITD.Nodup) (hT0 : T0 ∉ st0.pFreeITD) (hP : PhysicalPages phys n)
    (hFit : frameStart base len frameCount ≤ n * 4096)
    (b : IsochBuilding st0 T0 lE.st lE.pTailITD done pre lE.pNewITD)
    (hI : IsochCounting frameCount lE) (hG : IsochPaged base phys len pFrames lE rs f0)
    (hmap : (rs.map fun r => r.itd) = done) (hreq : lE.curFrameInRequest = frameCount)
    (hfin : UIMCreateIsochTransfer.finish fuel pED completion .kIOReturnSuccess lE
      = .ret (s, st')) :
    ∃ runs : List IsochRun,
      ITDChain st'.itds T0 (runs.map fun r => r.itd) (st'.eds pED).pLogicalTailP
        ∧ IsochRunsCover runs 0 frameCount
        ∧ ∀ r ∈ runs, r.onTwoPages st'.itds base phys len := by
  have hmem := b.members hnd hT0
  have hnotdone : lE.pTailITD ∉ done := hmem.2.2.2.2.2.2.2.2.2.1
  have hpos : 1 ≤ lE.curFrameInTD := by
    rcases Nat.eq_zero_or_pos lE.curFrameInTD with hz | hp
    · have := hI.more hz
      omega
    · exact hp
  obtain ⟨sF, hsF⟩ : ∃ sF, sF = setITD lE.st lE.pTailITD fun itd =>
      { itd with flags := lE.itdFlags ||| shl32 (sub32 lE.curFrameInTD 1)
                   kOHCIITDControl_FCPhase,
                 bufferEnd := lE.lastPhysical, completion := completion } := ⟨_, rfl⟩
  have hother : ∀ x, x ≠ lE.pTailITD → sF.itds x = lE.st.itds x := fun x hx => by
    rw [hsF, setITD_itds, if_neg hx]
  have hnext : ∀ x, (sF.itds x).pLogicalNext = (lE.st.itds x).pLogicalNext := fun x => by
    rw [hsF, setITD_itds]
    split_ifs with hx
    · rw [hx]
    · rfl
  have hend : (sF.itds lE.pTailITD).bufferEnd = lE.lastPhysical := by
    rw [hsF, setITD_itds, if_pos rfl]
  have hpage : (sF.itds lE.pTailITD).bufferPage0 = (lE.st.itds lE.pTailITD).bufferPage0 := by
    rw [hsF, setITD_itds, if_pos rfl]
  unfold UIMCreateIsochTransfer.finish at hfin
  dsimp only at hfin
  rw [if_neg (by simp), ← hsF] at hfin
  simp only [Outcome.ret.injEq, Prod.mk.injEq] at hfin
  have hitds : st'.itds = sF.itds := by
    rw [← hfin.2]
    rfl
  have htail : (st'.eds pED).pLogicalTailP = lE.pNewITD := by
    rw [← hfin.2]
    simp [setED]
  clear hsF hfin
  have hcover := IsochRunsCover.append_run lE.pTailITD lE.curFrameInTD hpos rs 0 f0 hG.cover
  have hend2 : f0 + lE.curFrameInTD = frameCount := by rw [← hG.request, hreq]
  rw [hend2] at hcover
  refine ⟨rs ++ [⟨lE.pTailITD, f0, lE.curFrameInTD⟩], ?_, hcover, fun r hr => ?_⟩
  · have hlinks := b.links
    rw [List.map_append, hmap, htail, hitds]
    show ITDChain _ _ (done ++ [lE.pTailITD]) _
    rw [← b.split]
    exact ITDChain.itd_congr _ _ _ (fun x _ => hnext x) hlinks
  · rw [List.mem_append, List.mem_singleton] at hr
    rcases hr with hr | rfl
    · have hne : r.itd ≠ lE.pTailITD := by
        intro heq
        apply hnotdone
        rw [← hmap, ← heq]
        exact List.mem_map_of_mem _ hr
      have hold := hG.closed r hr
      unfold IsochRun.onTwoPages at hold ⊢
      rw [hitds, hother _ hne]
      exact hold
    · unfold IsochRun.onTwoPages
      intro k hk1 hk2 x hx1 hx2
      rw [hitds]
      show pagedAddress 4096 phys x &&& kOHCIPageMask = (sF.itds lE.pTailITD).bufferPage0
        ∨ pagedAddress 4096 phys x &&& kOHCIPageMask
          = (sF.itds lE.pTailITD).bufferEnd &&& kOHCIPageMask
      have hpos0 : 0 < lE.curFrameInTD := hpos
      rw [hpage, hend, (hG.page0 hpos0).1, (hG.reach hpos0).2, hreq]
      have hk3 : k + 1 ≤ frameCount := by
        change k < f0 + lE.curFrameInTD at hk2
        omega
      have hs1 := frameStart_le base len f0 k hk1
      have hs2 := frameStart_le base len (k + 1) frameCount hk3
      have hreach := (hG.reach hpos0).1
      rw [hreq] at hreach
      rw [pagedAddress_page hP x (by omega),
        pagedAddress_page hP (frameStart base len frameCount - 1) (by omega)]
      have hx : x / 4096 = frameStart base len f0 / 4096
          ∨ x / 4096 = (frameStart base len frameCount - 1) / 4096 := by omega
      rcases hx with hx | hx
      · left
        rw [hx]
      · right
        rw [hx]

/-- The account of the pages at the entry of a frame packing loop. -/
theorem IsochPaged.paged_entry (st : AppleUSBOHCI) (pED pNewITD bufferSize base pFrames : Nat)
    (phys : Nat → Nat) (len : Nat → Nat)
    (hframes : ∀ k, (st.isocFrames pFrames k).frReqCount = len k) :
    IsochPaged base phys len pFrames (IsochTransferLoop.init st pED pNewITD bufferSize) [] 0 :=
  ⟨rfl, rfl, fun r hr => absurd hr (List.not_mem_nil r), hframes, fun _ => rfl,
    fun h => (by cases h), fun h => (Nat.lt_irrefl 0 h).elim,
    fun h => (Nat.lt_irrefl 0 h).elim, fun h => (Nat.lt_irrefl 0 h).elim,
    fun h => (Nat.lt_irrefl 0 h).elim⟩

/-- The standard variant from the endpoint on, when it returns success: the chain it built
holds the frames of the request in runs, each on two pages. -/
theorem UIMCreateIsochTransfer.queue_paged {st st' : AppleUSBOHCI} {fuel pED : Nat}
    {completion : IOUSBCompletion} {s base n : Nat} {phys : Nat → Nat}
    {frameCount pFrames tdType : Nat}
    (hnd : st.pFreeITD.Nodup) (hT0 : (st.eds pED).pLogicalTailP ∉ st.pFreeITD)
    (hCount : 1 ≤ frameCount ∧ frameCount ≤ 1000) (hBase : base < 4096)
    (hP : PhysicalPages phys n)
    (hFrames : ∀ k, k < frameCount → 1 ≤ (st.isocFrames pFrames k).frReqCount)
    (hFit : frameStart base (fun k => (st.isocFrames pFrames k).frReqCount) frameCount
      ≤ n * 4096)
    (h : UIMCreateIsochTransfer.queue st fuel pED completion s (isochBuffer base phys)
      frameCount pFrames tdType = .ret (.kIOReturnSuccess, st')) :
    ∃ runs : List IsochRun,
      ITDChain st'.itds (st.eds pED).pLogicalTailP (runs.map fun r => r.itd)
          (st'.eds pED).pLogicalTailP
        ∧ IsochRunsCover runs 0 frameCount
        ∧ ∀ r ∈ runs, r.onTwoPages st'.itds base phys
            (fun k => (st.isocFrames pFrames k).frReqCount) := by
  unfold UIMCreateIsochTransfer.queue at h
  split at h
  · rename_i error hw
    simp only [Outcome.ret.injEq, Prod.mk.injEq] at h
    exact absurd h.1 (isochFrameWindow_error hw)
  split at h
  · simp only [Outcome.ret.injEq, Prod.mk.injEq] at h
    cases h.1
  rename_i bufferSize hsize
  obtain ⟨-, hle, hfirst⟩ := UIMCreateIsochTransfer.bufferSize_some st pFrames frameCount 0 0
    bufferSize hsize (by unfold W32; omega)
  have hlen : ∀ k, k < frameCount → 1 ≤ (fun k => (st.isocFrames pFrames k).frReqCount) k
      ∧ (fun k => (st.isocFrames pFrames k).frReqCount) k ≤ 1023 := by
    intro k hk
    have := hle k hk
    rw [Nat.zero_add] at this
    exact ⟨hFrames k hk, this⟩
  have hnz : bufferSize ≠ 0 := by
    have h0 := hFrames 0 (by omega)
    have h1 := hfirst (by omega)
    omega
  rcases hp : st.pFreeITD with _ | ⟨p, rest⟩
  · rw [AllocateITD_nil _ hp] at h
    simp only [Outcome.ret.injEq, Prod.mk.injEq] at h
    cases h.1
  rw [AllocateITD_cons _ p rest hp] at h
  dsimp only at h
  obtain ⟨⟨s1, lE⟩, hloop, hfin⟩ := Outcome.bind_eq_ret h
  dsimp only at hfin
  have hs1 : s1 = .kIOReturnSuccess := (UIMCreateIsochTransfer.finish_eds hfin).1.symm
  subst hs1
  obtain ⟨done, pre, rs, f0, b, hI, hG, hmap, hreq⟩ :=
    UIMCreateIsochTransfer.loop_paged pFrames (toUInt16 s) tdType bufferSize hnd hT0 hP hBase
      hCount.2 hlen hFit hnz _ _ lE [] [] [] 0 hloop
      (IsochBuilding.isoch_init st pED p bufferSize rest hp)
      (IsochCounting.entry _ pED p bufferSize hCount.1)
      (IsochPaged.paged_entry _ pED p bufferSize base pFrames phys _ (fun _ => rfl)) rfl
      (Nat.zero_le _)
  exact IsochPaged.finish hnd hT0 hP hFit b hI hG hmap hreq hfin

/-- The low latency variant from the endpoint on, when it returns success: the chain it built
holds the frames of the request in runs, each on two pages. -/
theorem UIMCreateIsochTransferLL.queue_paged_ll {H : Header} {st st' : AppleUSBOHCI}
    {fuel pED : Nat} {completion : IOUSBCompletion} {s base n : Nat} {phys : Nat → Nat}
    {frameCount pFrames updateFrequency tdType : Nat}
    (hnd : st.pFreeITD.Nodup) (hT0 : (st.eds pED).pLogicalTailP ∉ st.pFreeITD)
    (hCount : 1 ≤ frameCount ∧ frameCount ≤ 1000) (hBase : base < 4096)
    (hP : PhysicalPages phys n)
    (hFrames : ∀ k, k < frameCount → 1 ≤ (st.isocFrames pFrames k).frReqCount)
    (hFit : frameStart base (fun k => (st.isocFrames pFrames k).frReqCount) frameCount
      ≤ n * 4096)
    (h : UIMCreateIsochTransferLL.queue H st fuel pED completion s (isochBuffer base phys)
      frameCount pFrames updateFrequency tdType = .ret (.kIOReturnSuccess, st')) :
    ∃ runs : List IsochRun,
      ITDChain st'.itds (st.eds pED).pLogicalTailP (runs.map fun r => r.itd)
          (st'.eds pED).pLogicalTailP
        ∧ IsochRunsCover runs 0 frameCount
        ∧ ∀ r ∈ runs, r.onTwoPages st'.itds base phys
            (fun k => (st.isocFrames pFrames k).frReqCount) := by
  unfold UIMCreateIsochTransferLL.queue at h
  split at h
  · rename_i error hw
    simp only [Outcome.ret.injEq, Prod.mk.injEq] at h
    exact absurd h.1 (isochFrameWindow_error hw)
  have hfr := UIMCreateIsochTransferLL.bufferSize_frame H pFrames frameCount 0 0 st
  have hsome := UIMCreateIsochTransferLL.bufferSize_some_ll H pFrames frameCount 0 0
  split at h
  · simp only [Outcome.ret.injEq, Prod.mk.injEq] at h
    cases h.1
  rename_i bufferSize s0 heq0
  rw [heq0] at hfr
  obtain ⟨hs0, hfr0⟩ := hfr
  dsimp only at hs0 hfr0
  obtain ⟨-, hle, hfirst⟩ := hsome bufferSize st (by rw [heq0]) (by unfold W32; omega)
  have hlen : ∀ k, k < frameCount → 1 ≤ (fun k => (st.isocFrames pFrames k).frReqCount) k
      ∧ (fun k => (st.isocFrames pFrames k).frReqCount) k ≤ 1023 := by
    intro k hk
    have := hle k hk
    rw [Nat.zero_add] at this
    exact ⟨hFrames k hk, this⟩
  have hnz : bufferSize ≠ 0 := by
    have h0 := hFrames 0 (by omega)
    have h1 := hfirst (by omega)
    omega
  have hpool0 : s0.pFreeITD = st.pFreeITD := by rw [hs0]
  have heds0 : s0.eds = st.eds := by rw [hs0]
  rw [← hpool0] at hnd
  rw [← hpool0, ← heds0] at hT0
  rcases hp : s0.pFreeITD with _ | ⟨p, rest⟩
  · rw [AllocateITD_nil _ hp] at h
    simp only [Outcome.ret.injEq, Prod.mk.injEq] at h
    cases h.1
  rw [AllocateITD_cons _ p rest hp] at h
  dsimp only at h
  obtain ⟨⟨s1, lE⟩, hloop, hfin⟩ := Outcome.bind_eq_ret h
  dsimp only at hfin
  have hs1 : s1 = .kIOReturnSuccess := (UIMCreateIsochTransfer.finish_eds hfin).1.symm
  subst hs1
  obtain ⟨done, pre, rs, f0, b, hI, hG, hmap, hreq⟩ :=
    UIMCreateIsochTransferLL.loop_paged_ll pFrames (toUInt16 s) tdType bufferSize
      updateFrequency hnd hT0 hP hBase hCount.2 hlen hFit hnz _ _ lE [] [] [] 0 hloop
      (IsochBuilding.isoch_init s0 pED p bufferSize rest hp)
      (IsochCounting.entry _ pED p bufferSize hCount.1)
      (IsochPaged.paged_entry _ pED p bufferSize base pFrames phys _
        (fun k => (hfr0 pFrames k).1)) rfl (Nat.zero_le _)
  rw [← heds0]
  exact IsochPaged.finish hnd hT0 hP hFit b hI hG hmap hreq hfin

theorem examplePhys_pages : PhysicalPages examplePhys 2 := by
  refine ⟨fun v _ => ?_, fun v hv => ?_, fun v w hv hw h => ?_⟩
  · unfold examplePhys
    omega
  · unfold examplePhys W32
    omega
  · unfold examplePhys at h
    omega

theorem examplePagedTransferState_call :
    UIMCreateIsochTransfer exampleHeader exampleBulkQueuedState 5 5 1 ⟨1, 2, 3⟩ kUSBOut 100010
      (isochBuffer 4095 examplePhys) 3 7 = .ret (.kIOReturnSuccess, examplePagedTransferState) :=
  Outcome.ret_stateOr _ ⟨_, rfl⟩

/-- The two pages of an iTD for a request without an empty frame: when either variant of
`UIMCreateIsochTransfer` returns success for a request of `frameCount` frames over a buffer
whose frames lie one behind the other from `base` on, in a buffer of `n` pages at page aligned
32-bit physical addresses, different for different pages, that the cursor resolves into
segments bounded by the pages, every frame of at least one byte (no frame has more than
`kUSBMaxIsocFrameReqCount` bytes, or the call had not succeeded), on an endpoint whose
placeholder is not in the pool and with a pool without repetitions: the iTDs from the old tail
placeholder up to the new tail, excluded, hold the frames in consecutive runs that cover the
frame indices from 0 to `frameCount`, and every byte of every frame of a run lies on the
physical page in `bufferPage0` of the iTD of the run or on the physical page of its
`bufferEnd`.  So no iTD touches a third page: a frame that would make it do so is the first
frame of the next iTD. -/
theorem UIMCreateIsochTransfer_two_pages (H : Header) (st st' : AppleUSBOHCI)
    (fuel functionAddress endpointNumber : Nat) (completion : IOUSBCompletion)
    (direction frameNumberStart base n : Nat) (phys : Nat → Nat)
    (frameCount pFrames updateFrequency pED back : Nat)
    (hFound : FindIsochronousEndpoint st fuel functionAddress endpointNumber
      (edDirection direction) = .ret (some (pED, back)))
    (hPool : st.pFreeITD.Nodup) (hTail : (st.eds pED).pLogicalTailP ∉ st.pFreeITD)
    (hBase : base < 4096) (hPages : PhysicalPages phys n)
    (hFrames : ∀ k, k < frameCount → 1 ≤ (st.isocFrames pFrames k).frReqCount)
    (hFit : frameStart base (fun k => (st.isocFrames pFrames k).frReqCount) frameCount
      ≤ n * 4096)
    (h : UIMCreateIsochTransfer H st fuel functionAddress endpointNumber completion direction
        frameNumberStart (isochBuffer base phys) frameCount pFrames
          = .ret (.kIOReturnSuccess, st')
      ∨ UIMCreateIsochTransferLL H st fuel functionAddress endpointNumber completion direction
        frameNumberStart (isochBuffer base phys) frameCount pFrames updateFrequency
          = .ret (.kIOReturnSuccess, st')) :
    ∃ runs : List IsochRun,
      ITDChain st'.itds (st.eds pED).pLogicalTailP (runs.map fun r => r.itd)
          (st'.eds pED).pLogicalTailP
        ∧ IsochRunsCover runs 0 frameCount
        ∧ ∀ r ∈ runs, r.onTwoPages st'.itds base phys
            (fun k => (st.isocFrames pFrames k).frReqCount) := by
  rcases h with h | h
  · unfold UIMCreateIsochTransfer at h
    by_cases hcount : frameCount = 0 ∨ frameCount > 1000
    · rw [if_pos hcount] at h
      simp only [Outcome.ret.injEq, Prod.mk.injEq] at h
      cases h.1
    rw [if_neg hcount] at h
    by_cases hdir : direction ≠ kUSBOut ∧ direction ≠ kUSBIn
    · rw [if_pos hdir] at h
      simp only [Outcome.ret.injEq, Prod.mk.injEq] at h
      cases h.1
    rw [if_neg hdir] at h
    have hed := edDirection_of_in_out (show direction = kUSBOut ∨ direction = kUSBIn by tauto)
    dsimp only at h
    rw [hed, hFound] at h
    exact UIMCreateIsochTransfer.queue_paged hPool hTail (by omega) hBase hPages hFrames hFit h
  · unfold UIMCreateIsochTransferLL at h
    by_cases hcount : frameCount = 0 ∨ frameCount > 1000
    · rw [if_pos hcount] at h
      simp only [Outcome.ret.injEq, Prod.mk.injEq] at h
      cases h.1
    rw [if_neg hcount] at h
    by_cases hdir : direction ≠ kUSBOut ∧ direction ≠ kUSBIn
    · rw [if_pos hdir] at h
      simp only [Outcome.ret.injEq, Prod.mk.injEq] at h
      cases h.1
    rw [if_neg hdir] at h
    have hed := edDirection_of_in_out (show direction = kUSBOut ∨ direction = kUSBIn by tauto)
    dsimp only at h
    rw [hed, hFound] at h
    exact UIMCreateIsochTransferLL.queue_paged_ll hPool hTail (by omega) hBase hPages hFrames
      hFit h

/-- On the example driver the request of 3 one-byte frames that start at the last byte of the
first page of a buffer of two pages succeeds on the isochronous endpoint 21; its chain from the
placeholder 200 to the new tail holds the three frames in runs, each on the page of
`bufferPage0` and the page of `bufferEnd` of its iTD. -/
theorem UIMCreateIsochTransfer_two_pages_witness :
    UIMCreateIsochTransfer exampleHeader exampleBulkQueuedState 5 5 1 ⟨1, 2, 3⟩ kUSBOut 100010
        (isochBuffer 4095 examplePhys) 3 7 = .ret (.kIOReturnSuccess, examplePagedTransferState)
      ∧ ∃ runs : List IsochRun,
        ITDChain examplePagedTransferState.itds (exampleBulkQueuedState.eds 21).pLogicalTailP
            (runs.map fun r => r.itd) (examplePagedTransferState.eds 21).pLogicalTailP
          ∧ IsochRunsCover runs 0 3
          ∧ ∀ r ∈ runs, r.onTwoPages examplePagedTransferState.itds 4095 examplePhys
              (fun k => (exampleBulkQueuedState.isocFrames 7 k).frReqCount) :=
  ⟨examplePagedTransferState_call,
    UIMCreateIsochTransfer_two_pages exampleHeader exampleBulkQueuedState
      examplePagedTransferState 5 5 1 ⟨1, 2, 3⟩ kUSBOut 100010 4095 2 examplePhys 3 7 0 21 5
      (by rfl) (by decide) (by decide) (by decide) examplePhys_pages
      (fun _ _ => Nat.le_refl 1) (by decide) (Or.inl examplePagedTransferState_call)⟩

/-- The 16 pages of the example buffer lie at page aligned 32-bit addresses, different for
different pages. -/
theorem examplePhys_sixteen : PhysicalPages examplePhys 16 := by
  refine ⟨fun v _ => ?_, fun v hv => ?_, fun v w hv hw h => ?_⟩
  · unfold examplePhys
    omega
  · unfold examplePhys W32
    omega
  · unfold examplePhys at h
    omega

/-- In a state whose chain of iTDs from 200 runs over 201 to the tail 202, where iTD 201 names
the page `0x104000` in `bufferPage0` and in `bufferEnd`, no division of three frames into runs
along the chain puts the byte of frame 2, which lies on the page `0x100000`, on a page of its
iTD. -/
theorem IsochRun.offPages {itds : Nat → OHCIIsochTransferDescriptor} {len : Nat → Nat}
    (h200 : (itds 200).pLogicalNext = 201) (h201 : (itds 201).pLogicalNext = 202)
    (h202 : (itds 202).pLogicalNext = 0)
    (hPage : (itds 201).bufferPage0 = 0x104000)
    (hEnd : (itds 201).bufferEnd &&& kOHCIPageMask = 0x104000)
    (hs2 : frameStart 0 len 2 = 0) (hs3 : frameStart 0 len 3 = 1) :
    ¬ ∃ runs : List IsochRun,
      ITDChain itds 200 (runs.map fun r => r.itd) 202
        ∧ IsochRunsCover runs 0 3
        ∧ ∀ r ∈ runs, r.onTwoPages itds 0 examplePhys len := by
  have hbyte : pagedAddress 4096 examplePhys 0 &&& kOHCIPageMask = 0x100000 := by decide
  rintro ⟨runs, hc, hcov, hp⟩
  match runs, hc, hcov, hp with
  | [], hc, _, _ =>
    simp only [List.map, ITDChain] at hc
    omega
  | [r1], hc, _, _ =>
    simp only [List.map, ITDChain] at hc
    rw [← hc.1, h200] at hc
    omega
  | [r1, r2], hc, hcov, hp =>
    simp only [List.map, ITDChain] at hc
    simp only [IsochRunsCover] at hcov
    obtain ⟨e1, e2, _⟩ := hc
    rw [← e1, h200] at e2
    have h := hp r2 (by simp) 2 (by omega) (by omega) 0 (by omega)
      (by show 0 < frameStart 0 len 3; omega)
    rw [hbyte, ← e2, hPage, hEnd] at h
    omega
  | r1 :: r2 :: r3 :: [], hc, _, _ =>
    simp only [List.map, ITDChain] at hc
    obtain ⟨e1, e2, e3, e4⟩ := hc
    rw [← e1, h200] at e2
    rw [← e2, h201] at e3
    rw [← e3, h202] at e4
    omega
  | r1 :: r2 :: r3 :: r4 :: rest, _, hcov, _ =>
    simp only [IsochRunsCover] at hcov
    have hsum := IsochRunsCover.sum_count rest _ _ hcov.2.2.2.2.2.2.2.2
    omega

/-- C15, as the code has it: the frames placed in one iTD do not stay on the two pages that
the iTD names when a frame of the request asks for no byte and a later one asks for some.  On
the example driver, for a request of 3 frames of 0, 0 and 1 bytes that lie one behind the other
from the start of a buffer whose pages lie at page aligned 32-bit addresses, different for
different pages, both variants of `UIMCreateIsochTransfer` return success and leave the chain
of iTDs 200, 201 before the new tail 202.  The cursor is asked for the frames 0 and 1 with the
size 0, which is no limit to it, and `transferOffset` advances by the two pages it resolves
each time: iTD 200 holds the frames 0 and 1 with `bufferPage0` on the first page of the buffer
and `bufferEnd` on the fourth, and iTD 201 holds frame 2 with `bufferPage0` and `bufferEnd` on
the fifth page, `0x104000`, while the one byte of frame 2 is the first byte of the buffer, at
`0x100000`.  So the byte of frame 2 is neither on the page in `bufferPage0` nor on the page of
`bufferEnd` of its iTD, and no division of the frames into runs along the chain puts every frame
on the two pages of its iTD. -/
theorem UIMCreateIsochTransfer_empty_frame_pages :
    (∀ k, (exampleEmptyFramesState.isocFrames 7 k).frReqCount ≤ kUSBMaxIsocFrameReqCount)
      ∧ (exampleEmptyFramesState.isocFrames 7 0).frReqCount = 0
      ∧ (exampleEmptyFramesState.isocFrames 7 1).frReqCount = 0
      ∧ (exampleEmptyFramesState.isocFrames 7 2).frReqCount = 1
      ∧ PhysicalPages examplePhys 16
      ∧ frameStart 0 (fun k => (exampleEmptyFramesState.isocFrames 7 k).frReqCount) 2 = 0
      ∧ frameStart 0 (fun k => (exampleEmptyFramesState.isocFrames 7 k).frReqCount) 3 = 1
      ∧ pagedAddress 4096 examplePhys 0 &&& kOHCIPageMask = 0x100000
      ∧ (exampleEmptyFramesState.eds 21).pLogicalTailP = 200
      ∧ (UIMCreateIsochTransfer exampleHeader exampleEmptyFramesState 5 5 1 ⟨1, 2, 3⟩ kUSBOut
            100010 (isochBuffer 0 examplePhys) 3 7
          = .ret (.kIOReturnSuccess, exampleEmptyFramesTransferState)
        ∧ (exampleEmptyFramesTransferState.eds 21).pLogicalTailP = 202
        ∧ ITDChain exampleEmptyFramesTransferState.itds 200 [200, 201] 202
        ∧ (exampleEmptyFramesTransferState.itds 200).frameNum = 0
        ∧ ((exampleEmptyFramesTransferState.itds 200).flags &&& kOHCIITDControl_FC)
            >>> kOHCIITDControl_FCPhase = 1
        ∧ (exampleEmptyFramesTransferState.itds 200).bufferPage0 = 0x100000
        ∧ (exampleEmptyFramesTransferState.itds 200).bufferEnd = 0x103FFF
        ∧ (exampleEmptyFramesTransferState.itds 201).frameNum = 2
        ∧ ((exampleEmptyFramesTransferState.itds 201).flags &&& kOHCIITDControl_FC)
            >>> kOHCIITDControl_FCPhase = 0
        ∧ (exampleEmptyFramesTransferState.itds 201).bufferPage0 = 0x104000
        ∧ (exampleEmptyFramesTransferState.itds 201).bufferEnd = 0x104000
        ∧ ¬ ∃ runs : List IsochRun,
            ITDChain exampleEmptyFramesTransferState.itds 200 (runs.map fun r => r.itd) 202
              ∧ IsochRunsCover runs 0 3
              ∧ ∀ r ∈ runs, r.onTwoPages exampleEmptyFramesTransferState.itds 0 examplePhys
                  (fun k => (exampleEmptyFramesState.isocFrames 7 k).frReqCount))
      ∧ (UIMCreateIsochTransferLL exampleHeader exampleEmptyFramesState 5 5 1 ⟨1, 2, 3⟩
            kUSBOut 100010 (isochBuffer 0 examplePhys) 3 7 0
          = .ret (.kIOReturnSuccess, exampleEmptyFramesLowLatencyState)
        ∧ (exampleEmptyFramesLowLatencyState.eds 21).pLogicalTailP = 202
        ∧ ITDChain exampleEmptyFramesLowLatencyState.itds 200 [200, 201] 202
        ∧ (exampleEmptyFramesLowLatencyState.itds 201).frameNum = 2
        ∧ (exampleEmptyFramesLowLatencyState.itds 201).bufferPage0 = 0x104000
        ∧ (exampleEmptyFramesLowLatencyState.itds 201).bufferEnd = 0x104000
        ∧ ¬ ∃ runs : List IsochRun,
            ITDChain exampleEmptyFramesLowLatencyState.itds 200 (runs.map fun r => r.itd) 202
              ∧ IsochRunsCover runs 0 3
              ∧ ∀ r ∈ runs, r.onTwoPages exampleEmptyFramesLowLatencyState.itds 0 examplePhys
                  (fun k => (exampleEmptyFramesState.isocFrames 7 k).frReqCount)) := by
  have n0 : (exampleEmptyFramesTransferState.itds 200).pLogicalNext = 201 := by decide!
  have n1 : (exampleEmptyFramesTransferState.itds 201).pLogicalNext = 202 := by decide!
  have n2 : (exampleEmptyFramesTransferState.itds 202).pLogicalNext = 0 := by decide!
  have p1 : (exampleEmptyFramesTransferState.itds 201).bufferPage0 = 0x104000 := by decide!
  have e1 : (exampleEmptyFramesTransferState.itds 201).bufferEnd = 0x104000 := by decide!
  have m0 : (exampleEmptyFramesLowLatencyState.itds 200).pLogicalNext = 201 := by decide!
  have m1 : (exampleEmptyFramesLowLatencyState.itds 201).pLogicalNext = 202 := by decide!
  have m2 : (exampleEmptyFramesLowLatencyState.itds 202).pLogicalNext = 0 := by decide!
  have q1 : (exampleEmptyFramesLowLatencyState.itds 201).bufferPage0 = 0x104000 := by decide!
  have f1 : (exampleEmptyFramesLowLatencyState.itds 201).bufferEnd = 0x104000 := by decide!
  refine ⟨fun k => ?_, rfl, rfl, rfl, examplePhys_sixteen, rfl, rfl, by decide, by decide!,
    ⟨Outcome.ret_stateOr _ ⟨_, rfl⟩, by decide!, ⟨rfl, n0, n1⟩, by decide!, by decide!,
      by decide!, by decide!, by decide!, by decide!, p1, e1,
      IsochRun.offPages n0 n1 n2 p1 (by rw [e1]; decide) rfl rfl⟩,
    Outcome.ret_stateOr _ ⟨_, rfl⟩, by decide!, ⟨rfl, m0, m1⟩, by decide!, q1, f1,
      IsochRun.offPages m0 m1 m2 q1 (by rw [f1]; decide) rfl rfl⟩
  show (if k = 2 then (⟨0, 1, 0⟩ : IOUSBIsocFrame) else ⟨0, 0, 0⟩).frReqCount
    ≤ kUSBMaxIsocFrameReqCount
  split_ifs <;> decide

/-! ## The two segments of a general transfer descriptor -/

theorem Outcome.ret_loopOr (o : Outcome (Sum (IOReturn × AppleUSBOHCI) GeneralTransferLoop))
    (l : GeneralTransferLoop) (h : ∃ l', o = .ret (.inr l')) :
    o = .ret (.inr (o.loopOr l)) := by
  obtain ⟨l', rfl⟩ := h
  rfl

theorem exampleSplitPass_call :
    CreateGeneralTransfer.body exampleHeader 20 77 exampleSplitBuffer 128 0 1 4
      (GeneralTransferLoop.init exampleTwoPageState) = .ret (.inr exampleSplitPass) :=
  Outcome.ret_loopOr _ _ ⟨_, rfl⟩

/-- C30, as the code has it: in a pass of the loop of `CreateGeneralTransfer` that goes on
after the cursor returned two physical segments, the descriptor filled in is restricted to the
first segment when the first segment does not end on a page boundary or the second does not
start on one: its `bufferEnd` is the last byte of the first segment and the transfer offset
advances by the length of the first segment.  Only when the first segment ends on a page
boundary and the second starts on one does the descriptor cover both segments, with
`bufferEnd` at the last byte of the second segment and the transfer offset advanced by both
lengths. -/
theorem CreateGeneralTransfer_two_segments (H : Header) (queue command : Nat)
    (CBP : IOMemoryDescriptor) (bufferSize flags type kickBits : Nat)
    (l l' : GeneralTransferLoop)
    (hTwo : (CreateGeneralTransfer.segments H CBP l).1 = 2)
    (h : CreateGeneralTransfer.body H queue command CBP bufferSize flags type kickBits l
      = .ret (.inr l')) :
    (((add32 (CreateGeneralTransfer.segments H CBP l).2.seg0.location
            (CreateGeneralTransfer.segments H CBP l).2.seg0.length
          &&& sub32 l.st.pageSize 1) ≠ 0
        ∨ ((CreateGeneralTransfer.segments H CBP l).2.seg1.location
          &&& sub32 l.st.pageSize 1) ≠ 0) →
      (l'.st.tds (l.st.eds queue).pLogicalTailP).bufferEnd
          = sub32 (add32 (CreateGeneralTransfer.segments H CBP l).2.seg0.location
              (CreateGeneralTransfer.segments H CBP l).2.seg0.length) 1
        ∧ l'.transferOffset
          = add32 l.transferOffset (CreateGeneralTransfer.segments H CBP l).2.seg0.length)
      ∧ (((add32 (CreateGeneralTransfer.segments H CBP l).2.seg0.location
            (CreateGeneralTransfer.segments H CBP l).2.seg0.length
          &&& sub32 l.st.pageSize 1) = 0
        ∧ ((CreateGeneralTransfer.segments H CBP l).2.seg1.location
          &&& sub32 l.st.pageSize 1) = 0) →
      (l'.st.tds (l.st.eds queue).pLogicalTailP).bufferEnd
          = sub32 (add32 (CreateGeneralTransfer.segments H CBP l).2.seg1.location
              (CreateGeneralTransfer.segments H CBP l).2.seg1.length) 1
        ∧ l'.transferOffset
          = add32 (add32 l.transferOffset
              (CreateGeneralTransfer.segments H CBP l).2.seg1.length)
            (CreateGeneralTransfer.segments H CBP l).2.seg0.length) := by
  obtain ⟨p, step⟩ := CreateGeneralTransfer.body_inr H queue command CBP bufferSize flags type
    kickBits l l' h
  have hend := step.bufferEnd
  have hoff := step.offset
  constructor
  · intro hsplit
    have hs : CreateGeneralTransfer.mustSplit l.st.pageSize
        (CreateGeneralTransfer.segments H CBP l).1
        (CreateGeneralTransfer.segments H CBP l).2 = true := by
      unfold CreateGeneralTransfer.mustSplit
      exact decide_eq_true ⟨hTwo, hsplit⟩
    simp only [hs, CreateGeneralTransfer.pagesUsed, CreateGeneralTransfer.nextOffset,
      ↓reduceIte, OfNat.one_ne_ofNat] at hend hoff
    exact ⟨hend, hoff⟩
  · intro hwhole
    have hs : CreateGeneralTransfer.mustSplit l.st.pageSize
        (CreateGeneralTransfer.segments H CBP l).1
        (CreateGeneralTransfer.segments H CBP l).2 = false := by
      unfold CreateGeneralTransfer.mustSplit
      refine decide_eq_false ?_
      rintro ⟨-, h1 | h1⟩
      · exact h1 hwhole.1
      · exact h1 hwhole.2
    rw [hs] at hend hoff
    simp only [CreateGeneralTransfer.pagesUsed, Bool.false_eq_true, ↓reduceIte] at hend hoff
    rw [hTwo] at hend hoff
    simp only [CreateGeneralTransfer.nextOffset, ↓reduceIte] at hend hoff
    exact ⟨hend, hoff⟩

/-- Witness for C30: the first pass for 128 bytes of the split buffer on the bulk endpoint 20
of the example driver gets two segments and goes on. -/
theorem CreateGeneralTransfer_two_segments_witness :
    (CreateGeneralTransfer.segments exampleHeader exampleSplitBuffer
        (GeneralTransferLoop.init exampleTwoPageState)).1 = 2
      ∧ CreateGeneralTransfer.body exampleHeader 20 77 exampleSplitBuffer 128 0 1 4
          (GeneralTransferLoop.init exampleTwoPageState) = .ret (.inr exampleSplitPass)
      ∧ (exampleSplitPass.st.tds
          ((GeneralTransferLoop.init exampleTwoPageState).st.eds 20).pLogicalTailP).bufferEnd
        = sub32 (add32 (CreateGeneralTransfer.segments exampleHeader exampleSplitBuffer
              (GeneralTransferLoop.init exampleTwoPageState)).2.seg0.location
            (CreateGeneralTransfer.segments exampleHeader exampleSplitBuffer
              (GeneralTransferLoop.init exampleTwoPageState)).2.seg0.length) 1
      ∧ exampleSplitPass.transferOffset
        = add32 (GeneralTransferLoop.init exampleTwoPageState).transferOffset
            (CreateGeneralTransfer.segments exampleHeader exampleSplitBuffer
              (GeneralTransferLoop.init exampleTwoPageState)).2.seg0.length :=
  ⟨by decide, exampleSplitPass_call,
    (CreateGeneralTransfer_two_segments exampleHeader 20 77 exampleSplitBuffer 128 0 1 4
      (GeneralTransferLoop.init exampleTwoPageState) exampleSplitPass (by decide)
      exampleSplitPass_call).1 (Or.inl (by decide))⟩

/-- The claim C30 fails where exactly one of its two conditions holds: the cursor returns two
segments of 64 bytes, the first ending at `0x10840`, inside a page, the second starting on the
page boundary `0x20000`; the pass goes on, and the descriptor 100 it fills in ends at
`0x1083F`, the last byte of the first segment, with the transfer offset advanced by 64 only,
not at `0x2003F` with the offset advanced by 128. -/
theorem CreateGeneralTransfer_two_segments_counterexample :
    (CreateGeneralTransfer.segments exampleHeader exampleSplitBuffer
        (GeneralTransferLoop.init exampleTwoPageState))
      = (2, { seg0 := ⟨0x10800, 64⟩, seg1 := ⟨0x20000, 64⟩ })
      ∧ (add32 0x10800 64 &&& sub32 exampleTwoPageState.pageSize 1) ≠ 0
      ∧ (0x20000 &&& sub32 exampleTwoPageState.pageSize 1) = 0
      ∧ CreateGeneralTransfer.body exampleHeader 20 77 exampleSplitBuffer 128 0 1 4
          (GeneralTransferLoop.init exampleTwoPageState) = .ret (.inr exampleSplitPass)
      ∧ (exampleTwoPageState.eds 20).pLogicalTailP = 100
      ∧ (exampleSplitPass.st.tds 100).bufferEnd = 0x1083F
      ∧ (exampleSplitPass.st.tds 100).bufferEnd ≠ 0x2003F
      ∧ exampleSplitPass.transferOffset = 64 := by
  refine ⟨by decide, by decide, by decide, exampleSplitPass_call, by decide, by decide,
    by decide, by decide⟩

/-! ## The place of a new endpoint descriptor in its directory list -/

/-- A call of `AddEmptyEndPoint` that returns an endpoint descriptor: the descriptor has the
flags word of the arguments, stands right behind `pED`, and has one placeholder. -/
theorem AddEmptyEndPoint_linked {st st1 : AppleUSBOHCI}
    {functionAddress endpointNumber maxPacketSize speed direction pED format p : Nat}
    (h : AddEmptyEndPoint st functionAddress endpointNumber maxPacketSize speed direction pED
      format = .ret (some p, st1)) (hne : p ≠ pED) :
    EndpointLinked st st1 p pED
      ∧ (st1.eds p).flags = endpointFlagsWord functionAddress endpointNumber maxPacketSize
          speed direction format
      ∧ ∃ t, EndpointPlaceholder st st1 p format t := by
  unfold AddEmptyEndPoint at h
  rcases hE : st.pFreeED with _ | ⟨e, restE⟩
  · simp [AllocateED, hE] at h
  simp only [AllocateED, hE] at h
  by_cases hf : format = kOHCIEDFormatGeneralTD
  · rw [if_pos hf] at h
    rcases hT : st.pFreeTD with _ | ⟨t, restT⟩
    · simp [AllocateTD, hT, setED] at h
    simp only [AllocateTD, hT, setED, Outcome.ret.injEq, Prod.mk.injEq,
      Option.some.injEq] at h
    obtain ⟨rfl, rfl⟩ := h
    have hne2 : pED ≠ e := fun h => hne h.symm
    refine ⟨⟨?_, ?_, ?_, ?_, ?_, fun x => ?_, ?_, fun x hx hxp => ?_, ?_⟩, ?_, t,
      ⟨?_, ?_, fun _ => ⟨?_, ?_, ?_, ?_⟩, fun hn => absurd hf hn⟩⟩
    · exact hE
    · simp
    · simp [Function.update_noteq hne]
    · simp [Function.update_noteq hne, Function.update_noteq hne2]
    · simp [Function.update_noteq hne, Function.update_noteq hne2]
    · by_cases hx : x = pED
      · subst hx
        simp [Function.update_noteq hne2]
      · by_cases hxe : x = e
        · subst hxe
          simp [Function.update_noteq hx]
        · simp [Function.update_noteq hx, Function.update_noteq hxe]
    · simp [Function.update_noteq hne2]
    · simp [Function.update_noteq hx, Function.update_noteq hxp]
    · rfl
    · simp [Function.update_noteq hne, endpointFlagsWord]
    · simp [Function.update_noteq hne]
    · simp [Function.update_noteq hne]
    · simp [hT]
    · rfl
    · simp [Function.update_noteq hne]
    · simp [Function.update_noteq hne]
  · rw [if_neg hf] at h
    rcases hT : st.pFreeITD with _ | ⟨t, restT⟩
    · simp [AllocateITD, hT, setED] at h
    simp only [AllocateITD, hT, setED, Outcome.ret.injEq, Prod.mk.injEq,
      Option.some.injEq] at h
    obtain ⟨rfl, rfl⟩ := h
    have hne2 : pED ≠ e := fun h => hne h.symm
    refine ⟨⟨?_, ?_, ?_, ?_, ?_, fun x => ?_, ?_, fun x hx hxp => ?_, ?_⟩, ?_, t,
      ⟨?_, ?_, fun hn => absurd hn hf, fun _ => ⟨?_, ?_, ?_, ?_⟩⟩⟩
    · exact hE
    · simp
    · simp [Function.update_noteq hne]
    · simp [Function.update_noteq hne, Function.update_noteq hne2]
    · simp [Function.update_noteq hne, Function.update_noteq hne2]
    · by_cases hx : x = pED
      · subst hx
        simp [Function.update_noteq hne2]
      · by_cases hxe : x = e
        · subst hxe
          simp [Function.update_noteq hx]
        · simp [Function.update_noteq hx, Function.update_noteq hxe]
    · simp [Function.update_noteq hne2]
    · simp [Function.update_noteq hx, Function.update_noteq hxp]
    · rfl
    · simp [Function.update_noteq hne, endpointFlagsWord]
    · simp [Function.update_noteq hne]
    · simp [Function.update_noteq hne]
    · simp [hT]
    · rfl
    · simp [Function.update_noteq hne]
    · simp [Function.update_noteq hne]

theorem AddEmptyEndPoint_allocated {st st1 : AppleUSBOHCI}
    {functionAddress endpointNumber maxPacketSize speed direction pED format : Nat}
    {r : Option Nat}
    (h : AddEmptyEndPoint st functionAddress endpointNumber maxPacketSize speed direction pED
      format = .ret (r, st1)) :
    ∃ e rest, st.pFreeED = e :: rest ∧ (r = none ∨ r = some e) := by
  unfold AddEmptyEndPoint at h
  rcases hE : st.pFreeED with _ | ⟨e, restE⟩
  · simp [AllocateED, hE] at h
  refine ⟨e, restE, rfl, ?_⟩
  simp only [AllocateED, hE] at h
  by_cases hf : format = kOHCIEDFormatGeneralTD
  · rw [if_pos hf] at h
    rcases hT : st.pFreeTD with _ | ⟨t, restT⟩
    · simp only [AllocateTD, hT, setED, Outcome.ret.injEq, Prod.mk.injEq] at h
      exact Or.inl h.1.symm
    · simp only [AllocateTD, hT, setED, Outcome.ret.injEq, Prod.mk.injEq] at h
      exact Or.inr h.1.symm
  · rw [if_neg hf] at h
    rcases hT : st.pFreeITD with _ | ⟨t, restT⟩
    · simp only [AllocateITD, hT, setED, Outcome.ret.injEq, Prod.mk.injEq] at h
      exact Or.inl h.1.symm
    · simp only [AllocateITD, hT, setED, Outcome.ret.injEq, Prod.mk.injEq] at h
      exact Or.inr h.1.symm

theorem exampleTwoBulkState_call :
    AddEmptyEndPoint exampleBulkState 5 3 64 kUSBDeviceSpeedFull kOHCIEDDirectionOut 3
      kOHCIEDFormatGeneralTD = .ret (some 21, exampleTwoBulkState) := by
  have h : ∃ st1, AddEmptyEndPoint exampleBulkState 5 3 64 kUSBDeviceSpeedFull
      kOHCIEDDirectionOut 3 kOHCIEDFormatGeneralTD = .ret (some 21, st1) := ⟨_, rfl⟩
  obtain ⟨st1, h1⟩ := h
  have h2 : exampleTwoBulkState = st1 := by
    unfold exampleTwoBulkState
    rw [h1]
    rfl
  rw [h2]
  exact h1

/-- C22, as the code has it: `AddEmptyEndPoint` links the new endpoint descriptor in right
behind the descriptor `pED` it is given, which the entry points choose as the head sentinel of
a directory list.  For a list from `pED` to the sentinel `tail` with the members `l`, none of
them `pED`, and a pool of endpoint descriptors that holds neither `NULL` nor a descriptor of
the list: after a creation that returned the descriptor `p`, the list is `p` followed by `l`,
so `p` is its first member and the previously existing descriptors keep their order behind
it; the successor of `p`, logical and physical, is what followed `pED` before (the former
first member, the tail sentinel only when the list was empty), `pED` points at `p` logically
and physically, and the links of the members of `l` are as before. -/
theorem AddEmptyEndPoint_links_first (st st1 : AppleUSBOHCI)
    (functionAddress endpointNumber maxPacketSize speed direction pED format p tail : Nat)
    (l : List Nat)
    (hList : EDPath st.eds tail (st.eds pED).pLogicalNext l) (hHead : pED ∉ l)
    (hPool : ∀ x ∈ st.pFreeED, x ≠ 0 ∧ x ≠ tail ∧ x ≠ pED ∧ x ∉ l)
    (h : AddEmptyEndPoint st functionAddress endpointNumber maxPacketSize speed direction pED
      format = .ret (some p, st1)) :
    EDPath st1.eds tail (st1.eds pED).pLogicalNext (p :: l)
      ∧ (st1.eds pED).nextED = (st1.eds p).pPhysical
      ∧ (st1.eds p).pLogicalNext = (st.eds pED).pLogicalNext
      ∧ (st1.eds p).nextED = (st.eds pED).nextED
      ∧ ∀ x ∈ l, (st1.eds x).pLogicalNext = (st.eds x).pLogicalNext
          ∧ (st1.eds x).nextED = (st.eds x).nextED := by
  obtain ⟨e, rest, hE, hr⟩ := AddEmptyEndPoint_allocated h
  have hpe : p = e := by
    rcases hr with hr | hr
    · cases hr
    · exact Option.some.inj hr
  subst hpe
  obtain ⟨p0, pt, pH, pl⟩ := hPool p (by rw [hE]; exact List.mem_cons_self _ _)
  obtain ⟨lk, -, -⟩ := AddEmptyEndPoint_linked h pH
  have hmem : ∀ x ∈ l, st1.eds x = st.eds x := fun x hx =>
    lk.other x (fun hxp => pl (hxp ▸ hx)) (fun hxp => hHead (hxp ▸ hx))
  refine ⟨⟨lk.next, pt, p0, ?_⟩, lk.nextED, lk.newNext, lk.newNextED, fun x hx => ?_⟩
  · rw [lk.newNext]
    exact EDPath.ed_congr tail l _ (fun x hx => by rw [hmem x hx]) hList
  · rw [hmem x hx]
    exact ⟨rfl, rfl⟩

/-- Witness for C22: on the example driver with the bulk endpoint descriptor 20 in the bulk
list, `AddEmptyEndPoint` for a second bulk endpoint returns the descriptor 21, and the list
from the head 3 to the tail 4 is then 21 followed by 20. -/
theorem AddEmptyEndPoint_links_first_witness :
    AddEmptyEndPoint exampleBulkState 5 3 64 kUSBDeviceSpeedFull kOHCIEDDirectionOut 3
        kOHCIEDFormatGeneralTD = .ret (some 21, exampleTwoBulkState)
      ∧ EDPath exampleTwoBulkState.eds 4 (exampleTwoBulkState.eds 3).pLogicalNext [21, 20]
      ∧ (exampleTwoBulkState.eds 3).nextED = (exampleTwoBulkState.eds 21).pPhysical
      ∧ (exampleTwoBulkState.eds 21).pLogicalNext = (exampleBulkState.eds 3).pLogicalNext
      ∧ (exampleTwoBulkState.eds 21).nextED = (exampleBulkState.eds 3).nextED
      ∧ ∀ x ∈ [20], (exampleTwoBulkState.eds x).pLogicalNext
            = (exampleBulkState.eds x).pLogicalNext
          ∧ (exampleTwoBulkState.eds x).nextED = (exampleBulkState.eds x).nextED :=
  ⟨exampleTwoBulkState_call,
    AddEmptyEndPoint_links_first exampleBulkState exampleTwoBulkState 5 3 64
      kUSBDeviceSpeedFull kOHCIEDDirectionOut 3 kOHCIEDFormatGeneralTD 21 4 [20]
      ⟨by decide, by decide, by decide,
        (by show (exampleBulkState.eds 20).pLogicalNext = 4; decide)⟩ (by decide) (by decide)
      exampleTwoBulkState_call⟩

/-- The claim C22 fails on a list that is not empty: after the creation of a second bulk
endpoint on the example driver, whose bulk list from the head 3 to the tail 4 held the
descriptor 20, the new descriptor 21 is the first member of the list, not the last one: the
head points at 21, the logical successor of 21 is 20 and its physical successor is the
physical address of 20, not the tail sentinel 4, which follows 20. -/
theorem AddEmptyEndPoint_links_first_counterexample :
    AddEmptyEndPoint exampleBulkState 5 3 64 kUSBDeviceSpeedFull kOHCIEDDirectionOut 3
        kOHCIEDFormatGeneralTD = .ret (some 21, exampleTwoBulkState)
      ∧ exampleBulkState.pBulkHead = 3 ∧ exampleBulkState.pBulkTail = 4
      ∧ (exampleBulkState.eds 3).pLogicalNext = 20 ∧ (exampleBulkState.eds 20).pLogicalNext = 4
      ∧ (exampleTwoBulkState.eds 3).pLogicalNext = 21
      ∧ (exampleTwoBulkState.eds 21).pLogicalNext = 20
      ∧ (exampleTwoBulkState.eds 21).pLogicalNext ≠ 4
      ∧ (exampleTwoBulkState.eds 21).nextED = (exampleTwoBulkState.eds 20).pPhysical
      ∧ (exampleTwoBulkState.eds 21).nextED ≠ (exampleTwoBulkState.eds 4).pPhysical
      ∧ (exampleTwoBulkState.eds 20).pLogicalNext = 4 := by
  refine ⟨exampleTwoBulkState_call, by decide, by decide, by decide, by decide, by decide,
    by decide, by decide, by decide, by decide, by decide⟩

/-! ## Endpoint creation on an exhausted pool of transfer descriptors -/

/-- `AddEmptyEndPoint` with an endpoint descriptor in the pool and no transfer descriptor of
the kind the format asks for: it returns `NULL` and keeps the endpoint descriptor. -/
theorem AddEmptyEndPoint_exhausted (st : AppleUSBOHCI)
    (functionAddress endpointNumber maxPacketSize speed direction pED format p : Nat)
    (rest : List Nat) (hED : st.pFreeED = p :: rest)
    (hTD : if format = kOHCIEDFormatGeneralTD then st.pFreeTD = [] else st.pFreeITD = []) :
    AddEmptyEndPoint st functionAddress endpointNumber maxPacketSize speed direction pED format
      = .ret (none, AddEmptyEndPoint.abandoned st p rest
          (endpointFlagsWord functionAddress endpointNumber maxPacketSize speed direction
            format)) := by
  by_cases hf : format = kOHCIEDFormatGeneralTD
  · rw [if_pos hf] at hTD
    simp [AddEmptyEndPoint, AllocateED, hED, hf, AllocateTD, hTD, setED,
      AddEmptyEndPoint.abandoned, endpointFlagsWord]
  · rw [if_neg hf] at hTD
    simp [AddEmptyEndPoint, AllocateED, hED, hf, AllocateITD, hTD, setED,
      AddEmptyEndPoint.abandoned, endpointFlagsWord]

/-- C29, as the code has it: with an endpoint descriptor `p` at the head of its pool and no
transfer descriptor left, so that `AddEmptyEndPoint` returns `NULL`, the creation entry points
for a device other than the root hub return `kIOReturnNoMemory`, except
`UIMCreateInterruptEndpoint`, which returns -1 (once it has a slot); the isochronous one when
the lookup finds no endpoint and the 32-bit ledger admits the request.  In every case the state
returned is the one given but for the endpoint descriptor `p`, which has left the pool and
carries a flags word: the directory lists, the isochronous bandwidth ledger and the bandwidth
counters of the interrupt slots are as before. -/
theorem endpoint_creation_pool_exhausted (X : Collaborators) (st : AppleUSBOHCI)
    (fuel functionAddress endpointNumber direction speed maxPacketSize pollingRate p : Nat)
    (rest : List Nat)
    (hRoot : st.rootHubFuncAddress ≠ functionAddress)
    (hED : st.pFreeED = p :: rest) (hTD : st.pFreeTD = []) (hITD : st.pFreeITD = []) :
    UIMCreateControlEndpoint X st functionAddress endpointNumber maxPacketSize speed
        = .ret (.kIOReturnNoMemory, AddEmptyEndPoint.abandoned st p rest
            (endpointFlagsWord functionAddress endpointNumber maxPacketSize speed
              kOHCIEDDirectionTD kOHCIEDFormatGeneralTD))
      ∧ UIMCreateBulkEndpoint st functionAddress endpointNumber direction speed maxPacketSize
        = .ret (.kIOReturnNoMemory, AddEmptyEndPoint.abandoned st p rest
            (endpointFlagsWord functionAddress endpointNumber (toUInt8 maxPacketSize) speed
              (edDirection direction) kOHCIEDFormatGeneralTD))
      ∧ (∀ offset, DetermineInterruptOffset st
            (UInt32ofShort (interruptPollingRate st speed pollingRate)) = some offset →
          UIMCreateInterruptEndpoint X st functionAddress endpointNumber direction speed
              maxPacketSize pollingRate
            = .ret (.minusOne, AddEmptyEndPoint.abandoned st p rest
                (endpointFlagsWord functionAddress endpointNumber maxPacketSize speed
                  (edDirection direction) kOHCIEDFormatGeneralTD)))
      ∧ (FindIsochronousEndpoint st fuel functionAddress endpointNumber
            (edDirection direction) = .ret none →
          maxPacketSize ≤ st.isochBandwidthAvail → st.isochBandwidthAvail < W32 →
          UIMCreateIsochEndpoint st fuel functionAddress endpointNumber maxPacketSize direction
            = .ret (.kIOReturnNoMemory, AddEmptyEndPoint.abandoned st p rest
                (endpointFlagsWord functionAddress endpointNumber maxPacketSize
                  kUSBDeviceSpeedFull (edDirection direction)
                  kOHCIEDFormatIsochronousTD))) := by
  have hgen : ∀ a e m s d q, AddEmptyEndPoint st a e m s d q kOHCIEDFormatGeneralTD
      = .ret (none, AddEmptyEndPoint.abandoned st p rest
          (endpointFlagsWord a e m s d kOHCIEDFormatGeneralTD)) := fun a e m s d q =>
    AddEmptyEndPoint_exhausted st a e m s d q _ p rest hED (by rw [if_pos rfl]; exact hTD)
  refine ⟨?_, ?_, fun offset hoff => ?_, fun hfind hle hlt => ?_⟩
  · unfold UIMCreateControlEndpoint
    rw [if_neg hRoot]
    dsimp only
    rw [hgen]
    rfl
  · unfold UIMCreateBulkEndpoint
    dsimp only
    rw [hgen]
    rfl
  · unfold UIMCreateInterruptEndpoint
    rw [if_neg hRoot]
    unfold interruptPollingRate at hoff
    dsimp only
    rw [hoff]
    dsimp only
    rw [hgen]
    rfl
  · unfold UIMCreateIsochEndpoint
    dsimp only
    rw [hfind]
    simp only [Outcome.bind_ret]
    rw [if_neg (by omega)]
    rw [AddEmptyEndPoint_exhausted
      { st with isochBandwidthAvail := sub32 st.isochBandwidthAvail maxPacketSize }
      functionAddress endpointNumber maxPacketSize
      kUSBDeviceSpeedFull (edDirection direction) st.pIsochHead kOHCIEDFormatIsochronousTD p
      rest hED (by rw [if_neg (by decide)]; exact hITD)]
    simp only [Outcome.bind_ret]
    have hback : add32 (sub32 st.isochBandwidthAvail maxPacketSize) maxPacketSize
        = st.isochBandwidthAvail := by
      unfold add32 sub32
      unfold W32 at hlt ⊢
      omega
    unfold AddEmptyEndPoint.abandoned
    dsimp only
    rw [hback]

/-- Witness for C29: on the example driver with empty pools of transfer descriptors the four
entry points, called for the device 5, return as above. -/
theorem endpoint_creation_pool_exhausted_witness :
    UIMCreateControlEndpoint exampleCollaborators exampleNoDescriptorState 5 1 8
          kUSBDeviceSpeedFull
        = .ret (.kIOReturnNoMemory, AddEmptyEndPoint.abandoned exampleNoDescriptorState 20 [21]
            (endpointFlagsWord 5 1 8 kUSBDeviceSpeedFull kOHCIEDDirectionTD
              kOHCIEDFormatGeneralTD))
      ∧ UIMCreateBulkEndpoint exampleNoDescriptorState 5 1 kUSBIn kUSBDeviceSpeedFull 8
        = .ret (.kIOReturnNoMemory, AddEmptyEndPoint.abandoned exampleNoDescriptorState 20 [21]
            (endpointFlagsWord 5 1 (toUInt8 8) kUSBDeviceSpeedFull (edDirection kUSBIn)
              kOHCIEDFormatGeneralTD))
      ∧ (∀ offset, DetermineInterruptOffset exampleNoDescriptorState
            (UInt32ofShort (interruptPollingRate exampleNoDescriptorState kUSBDeviceSpeedFull
              10)) = some offset →
          UIMCreateInterruptEndpoint exampleCollaborators exampleNoDescriptorState 5 1 kUSBIn
              kUSBDeviceSpeedFull 8 10
            = .ret (.minusOne, AddEmptyEndPoint.abandoned exampleNoDescriptorState 20 [21]
                (endpointFlagsWord 5 1 8 kUSBDeviceSpeedFull (edDirection kUSBIn)
                  kOHCIEDFormatGeneralTD)))
      ∧ (FindIsochronousEndpoint exampleNoDescriptorState 5 5 1 (edDirection kUSBIn)
            = .ret none →
          8 ≤ exampleNoDescriptorState.isochBandwidthAvail →
          exampleNoDescriptorState.isochBandwidthAvail < W32 →
          UIMCreateIsochEndpoint exampleNoDescriptorState 5 5 1 8 kUSBIn
            = .ret (.kIOReturnNoMemory,
                AddEmptyEndPoint.abandoned exampleNoDescriptorState 20 [21]
                  (endpointFlagsWord 5 1 8 kUSBDeviceSpeedFull (edDirection kUSBIn)
                    kOHCIEDFormatIsochronousTD))) :=
  endpoint_creation_pool_exhausted exampleCollaborators exampleNoDescriptorState 5 5 1 kUSBIn
    kUSBDeviceSpeedFull 8 10 20 [21] (by decide) rfl rfl rfl

/-- The status of `UIMCreateInterruptEndpoint` on the example driver with empty pools of
transfer descriptors, for the device 5: -1, where the other three entry points return
`kIOReturnNoMemory`. -/
theorem UIMCreateInterruptEndpoint_minus_one :
    (UIMCreateInterruptEndpoint exampleCollaborators exampleNoDescriptorState 5 1 kUSBIn
        kUSBDeviceSpeedFull 8 10).status = some .minusOne
      ∧ (UIMCreateControlEndpoint exampleCollaborators exampleNoDescriptorState 5 1 8
        kUSBDeviceSpeedFull).status = some .kIOReturnNoMemory
      ∧ (UIMCreateBulkEndpoint exampleNoDescriptorState 5 1 kUSBIn kUSBDeviceSpeedFull
        8).status = some .kIOReturnNoMemory
      ∧ (UIMCreateIsochEndpoint exampleNoDescriptorState 5 5 1 8 kUSBIn).status
        = some .kIOReturnNoMemory := by
  refine ⟨by decide, by decide, by decide, by decide⟩

/-! ## Clearing a stall -/

/-- A word that is a multiple of 16, as the address of a descriptor is, has neither the halted
bit nor the toggle carry bit of a head pointer. -/
theorem headPointer_bits_of_aligned (x : Nat) (h : x % 16 = 0) :
    x &&& kOHCIHeadPointer_H = 0 ∧ x &&& kOHCIHeadPointer_C = 0 := by
  have h3 : x &&& 3 = 0 := by
    have := Nat.and_pow_two_sub_one_eq_mod x 2
    simp only [Nat.reducePow, Nat.add_one_sub_one] at this
    rw [this]
    omega
  constructor
  · have : x &&& 1 = (x &&& 3) &&& 1 := by
      rw [Nat.and_assoc]
      rfl
    unfold kOHCIHeadPointer_H
    rw [this, h3, Nat.zero_and]
  · have : x &&& 2 = (x &&& 3) &&& 2 := by
      rw [Nat.and_assoc]
      rfl
    unfold kOHCIHeadPointer_C
    rw [this, h3, Nat.zero_and]

/-- `CreateGeneralTransfer` on an endpoint whose head pointer has no halted bit does not
return `kIOUSBPipeStalled`. -/
theorem CreateGeneralTransfer_not_stalled (H : Header) (st s : AppleUSBOHCI)
    (queue command : Nat) (CBP : IOMemoryDescriptor) (bufferSize flags type kickBits : Nat)
    (hNotHalted : (st.eds queue).tdQueueHeadPtr &&& kOHCIHeadPointer_H = 0) :
    CreateGeneralTransfer H st queue command CBP bufferSize flags type kickBits
      ≠ .ret (.kIOUSBPipeStalled, s) := by
  intro h
  unfold CreateGeneralTransfer at h
  rw [if_neg (by rw [hNotHalted]; exact fun hn => hn rfl)] at h
  split_ifs at h with hsize
  · obtain ⟨k, lk, -, hcase⟩ := CreateGeneralTransfer.loop_ret H queue command CBP bufferSize
      flags type kickBits _ _ _ _ h
    rcases hcase with ⟨-, hr, -⟩ | ⟨-, hbody⟩
    · cases hr
    · have := (CreateGeneralTransfer.body_inl H queue command CBP bufferSize flags type
        kickBits hbody).1
      cases this
  · split at h
    · simp only [Outcome.ret.injEq, Prod.mk.injEq] at h
      cases h.1
    · simp only [Outcome.ret.injEq, Prod.mk.injEq] at h
      cases h.1

/-- C25: `UIMClearEndpointStall` for a device other than the root hub, on an endpoint that
the lookup finds, whose tail pointer is the address of a descriptor (a multiple of 16), with a
`ReturnTransactions` that leaves the endpoint descriptors alone.  The call returns
`kIOReturnSuccess`.  The state it returns is the one in which the head pointer of the endpoint
has become its tail pointer, physically and logically, after one call of `ReturnTransactions`
with the descriptor that the old head pointer resolved to and the old tail pointer, when the
old head pointer resolves to a descriptor, and after no such call otherwise.  Afterwards the
head pointer word is the tail pointer word, so it has neither the halted bit nor the toggle
carry bit; the logical head is the logical tail, so the queue is empty; and no
`CreateGeneralTransfer` on the endpoint returns `kIOUSBPipeStalled`. -/
theorem UIMClearEndpointStall_collapses (H : Header) (X : Collaborators)
    (st : AppleUSBOHCI) (fuel functionAddress endpointNumber direction pED back mask : Nat)
    (hRoot : st.rootHubFuncAddress ≠ functionAddress)
    (hFound : FindEndpoint st fuel functionAddress endpointNumber (edDirection direction)
      = .ret (some (pED, back, mask)))
    (hTail : (st.eds pED).tdQueueTailPtr % 16 = 0)
    (hKeep : ∀ t tail s, (X.ReturnTransactions t tail s).eds = s.eds) :
    ∃ st', UIMClearEndpointStall X st fuel functionAddress endpointNumber direction
        = .ret (.kIOReturnSuccess, st')
      ∧ st' = (if X.GetLogicalAddress st ((st.eds pED).tdQueueHeadPtr &&& kOHCIHeadPMask) ≠ 0
          then X.ReturnTransactions
            (X.GetLogicalAddress st ((st.eds pED).tdQueueHeadPtr &&& kOHCIHeadPMask))
            (st.eds pED).tdQueueTailPtr (UIMClearEndpointStall.collapsed st pED)
          else UIMClearEndpointStall.collapsed st pED)
      ∧ (st'.eds pED).tdQueueHeadPtr = (st.eds pED).tdQueueTailPtr
      ∧ (st'.eds pED).tdQueueTailPtr = (st.eds pED).tdQueueTailPtr
      ∧ (st'.eds pED).pLogicalHeadP = (st.eds pED).pLogicalTailP
      ∧ (st'.eds pED).pLogicalTailP = (st.eds pED).pLogicalTailP
      ∧ (st'.eds pED).tdQueueHeadPtr &&& kOHCIHeadPointer_H = 0
      ∧ (st'.eds pED).tdQueueHeadPtr &&& kOHCIHeadPointer_C = 0
      ∧ ∀ command CBP bufferSize flags type kickBits s,
          CreateGeneralTransfer H st' pED command CBP bufferSize flags type kickBits
            ≠ .ret (.kIOUSBPipeStalled, s) := by
  have hcall : UIMClearEndpointStall X st fuel functionAddress endpointNumber direction
      = .ret (.kIOReturnSuccess,
        if X.GetLogicalAddress st ((st.eds pED).tdQueueHeadPtr &&& kOHCIHeadPMask) ≠ 0
          then X.ReturnTransactions
            (X.GetLogicalAddress st ((st.eds pED).tdQueueHeadPtr &&& kOHCIHeadPMask))
            (st.eds pED).tdQueueTailPtr (UIMClearEndpointStall.collapsed st pED)
          else UIMClearEndpointStall.collapsed st pED) := by
    unfold UIMClearEndpointStall
    rw [if_neg hRoot]
    dsimp only
    rw [hFound]
    rfl
  have heds : (if X.GetLogicalAddress st ((st.eds pED).tdQueueHeadPtr &&& kOHCIHeadPMask) ≠ 0
        then X.ReturnTransactions
          (X.GetLogicalAddress st ((st.eds pED).tdQueueHeadPtr &&& kOHCIHeadPMask))
          (st.eds pED).tdQueueTailPtr (UIMClearEndpointStall.collapsed st pED)
        else UIMClearEndpointStall.collapsed st pED).eds
      = (UIMClearEndpointStall.collapsed st pED).eds := by
    split_ifs
    · exact hKeep _ _ _
    · rfl
  have hed : (UIMClearEndpointStall.collapsed st pED).eds pED
      = { st.eds pED with tdQueueHeadPtr := (st.eds pED).tdQueueTailPtr,
                          pLogicalHeadP := (st.eds pED).pLogicalTailP } := by
    simp [UIMClearEndpointStall.collapsed, setED]
  obtain ⟨b1, b2⟩ := headPointer_bits_of_aligned _ hTail
  refine ⟨_, hcall, rfl, ?_, ?_, ?_, ?_, ?_, ?_, ?_⟩
  · rw [heds, hed]
  · rw [heds, hed]
  · rw [heds, hed]
  · rw [heds, hed]
  · rw [heds, hed]
    exact b1
  · rw [heds, hed]
    exact b2
  · intro command CBP bufferSize flags type kickBits s
    apply CreateGeneralTransfer_not_stalled
    rw [heds, hed]
    exact b1

/-- Witness for C25: on the example driver whose bulk endpoint 5:2 out, the endpoint
descriptor 20, is halted, with collaborators whose `ReturnTransactions` does nothing,
`UIMClearEndpointStall` returns success and the head pointer loses the halted bit. -/
theorem UIMClearEndpointStall_collapses_witness :
    (exampleHaltedState.eds 20).tdQueueHeadPtr &&& kOHCIHeadPointer_H ≠ 0
      ∧ ∃ st', UIMClearEndpointStall exampleCollaborators exampleHaltedState 5 5 2 kUSBOut
          = .ret (.kIOReturnSuccess, st')
        ∧ st' = (if exampleCollaborators.GetLogicalAddress exampleHaltedState
              ((exampleHaltedState.eds 20).tdQueueHeadPtr &&& kOHCIHeadPMask) ≠ 0
            then exampleCollaborators.ReturnTransactions
              (exampleCollaborators.GetLogicalAddress exampleHaltedState
                ((exampleHaltedState.eds 20).tdQueueHeadPtr &&& kOHCIHeadPMask))
              (exampleHaltedState.eds 20).tdQueueTailPtr
              (UIMClearEndpointStall.collapsed exampleHaltedState 20)
            else UIMClearEndpointStall.collapsed exampleHaltedState 20)
        ∧ (st'.eds 20).tdQueueHeadPtr = (exampleHaltedState.eds 20).tdQueueTailPtr
        ∧ (st'.eds 20).tdQueueTailPtr = (exampleHaltedState.eds 20).tdQueueTailPtr
        ∧ (st'.eds 20).pLogicalHeadP = (exampleHaltedState.eds 20).pLogicalTailP
        ∧ (st'.eds 20).pLogicalTailP = (exampleHaltedState.eds 20).pLogicalTailP
        ∧ (st'.eds 20).tdQueueHeadPtr &&& kOHCIHeadPointer_H = 0
        ∧ (st'.eds 20).tdQueueHeadPtr &&& kOHCIHeadPointer_C = 0
        ∧ ∀ command CBP bufferSize flags type kickBits s,
            CreateGeneralTransfer exampleHeader st' 20 command CBP bufferSize flags type
              kickBits ≠ .ret (.kIOUSBPipeStalled, s) :=
  ⟨by decide,
    UIMClearEndpointStall_collapses exampleHeader exampleCollaborators exampleHaltedState 5 5 2
      kUSBOut 20 3 kOHCIHcControl_BLE (by decide) (by rfl) (by decide) (fun _ _ _ => rfl)⟩

/-! ## Aborting the transfers of an endpoint -/

theorem ListsKept.lists_refl (st : AppleUSBOHCI) : ListsKept st st :=
  ⟨fun _ => rfl, fun _ => rfl, fun _ => rfl, rfl, rfl, rfl, rfl, rfl, rfl, rfl, rfl, rfl⟩

theorem ListsKept.lists_trans {a b c : AppleUSBOHCI} (h1 : ListsKept a b)
    (h2 : ListsKept b c) : ListsKept a c :=
  ⟨fun e => (h2.flags e).trans (h1.flags e), fun e => (h2.next e).trans (h1.next e),
    fun e => (h2.nextED e).trans (h1.nextED e),
    h2.pControlHead.trans h1.pControlHead, h2.pControlTail.trans h1.pControlTail,
    h2.pBulkHead.trans h1.pBulkHead, h2.pBulkTail.trans h1.pBulkTail,
    h2.pIsochHead.trans h1.pIsochHead, h2.pIsochTail.trans h1.pIsochTail,
    h2.pInterruptHead.trans h1.pInterruptHead, h2.OptiOn.trans h1.OptiOn,
    h2.rootHubFuncAddress.trans h1.rootHubFuncAddress⟩

theorem writeRegister_lists (st : AppleUSBOHCI) (r : OHCIRegister) (v : Nat) :
    ListsKept st (writeRegister st r v) :=
  ⟨fun _ => rfl, fun _ => rfl, fun _ => rfl, rfl, rfl, rfl, rfl, rfl, rfl, rfl, rfl, rfl⟩

theorem waitForSOF_lists {X : Collaborators} (hX : X.keepLists) (st : AppleUSBOHCI) :
    ListsKept st (waitForSOF X st) := by
  unfold waitForSOF
  dsimp only
  split_ifs
  · exact ((writeRegister_lists st _ _).lists_trans (hX.sleep 1 _)).lists_trans
      (hX.sleep 1 _)
  · exact (writeRegister_lists st _ _).lists_trans (hX.sleep 1 _)

/-- The search of a directory list reads the flags under the mask and the logical links,
nothing else. -/
theorem searchEDList_congr {st st' : AppleUSBOHCI} (mask unique tail : Nat)
    (hflags : ∀ e, (st'.eds e).flags &&& mask = (st.eds e).flags &&& mask)
    (hnext : ∀ e, (st'.eds e).pLogicalNext = (st.eds e).pLogicalNext) :
    ∀ (fuel back q : Nat),
      searchEDList st' mask unique tail fuel back q
        = searchEDList st mask unique tail fuel back q
  | 0, _, _ => rfl
  | fuel + 1, back, q => by
    rw [searchEDList, searchEDList, hflags, hnext,
      searchEDList_congr mask unique tail hflags hnext fuel]

/-- A flags word under the mask without the direction, from the word under the mask with
it. -/
theorem noDirMask_of_mask {x y : Nat} (h : x &&& kUniqueNumMask = y &&& kUniqueNumMask) :
    x &&& kUniqueNumNoDirMask = y &&& kUniqueNumNoDirMask := by
  have hm : kUniqueNumMask &&& kUniqueNumNoDirMask = kUniqueNumNoDirMask := by decide
  rw [← hm, ← Nat.and_assoc, ← Nat.and_assoc, h]

theorem FindInterruptEndpoint.slots_congr {st st' : AppleUSBOHCI} (fuel unique : Nat)
    (hflags : ∀ e, (st'.eds e).flags &&& kUniqueNumMask = (st.eds e).flags &&& kUniqueNumMask)
    (hnext : ∀ e, (st'.eds e).pLogicalNext = (st.eds e).pLogicalNext)
    (hheads : st'.pInterruptHead = st.pInterruptHead) :
    ∀ (n i : Nat), FindInterruptEndpoint.slots st' fuel unique n i
      = FindInterruptEndpoint.slots st fuel unique n i
  | 0, _ => rfl
  | n + 1, i => by
    rw [FindInterruptEndpoint.slots, FindInterruptEndpoint.slots, hheads, hnext,
      searchEDList_congr kUniqueNumMask unique _ hflags hnext]
    congr 1
    funext r
    rw [FindInterruptEndpoint.slots_congr fuel unique hflags hnext hheads n (i + 1)]

/-- The lookups read the sentinels, the Opti workaround, the flags under the key mask and the
logical links, nothing else. -/
theorem FindEndpoint_congr {st st' : AppleUSBOHCI}
    (hflags : ∀ e, (st'.eds e).flags &&& kUniqueNumMask = (st.eds e).flags &&& kUniqueNumMask)
    (hnext : ∀ e, (st'.eds e).pLogicalNext = (st.eds e).pLogicalNext)
    (h1 : st'.pControlHead = st.pControlHead) (h2 : st'.pControlTail = st.pControlTail)
    (h3 : st'.pBulkHead = st.pBulkHead) (h4 : st'.pBulkTail = st.pBulkTail)
    (h5 : st'.pIsochHead = st.pIsochHead) (h6 : st'.pIsochTail = st.pIsochTail)
    (h7 : st'.pInterruptHead = st.pInterruptHead) (h8 : st'.OptiOn = st.OptiOn)
    (fuel functionNumber endpointNumber direction : Nat) :
    FindBulkEndpoint st' fuel functionNumber endpointNumber direction
        = FindBulkEndpoint st fuel functionNumber endpointNumber direction
      ∧ FindControlEndpoint st' fuel functionNumber endpointNumber
        = FindControlEndpoint st fuel functionNumber endpointNumber
      ∧ FindInterruptEndpoint st' fuel functionNumber endpointNumber direction
        = FindInterruptEndpoint st fuel functionNumber endpointNumber direction
      ∧ FindIsochronousEndpoint st' fuel functionNumber endpointNumber direction
        = FindIsochronousEndpoint st fuel functionNumber endpointNumber direction
      ∧ FindEndpoint st' fuel functionNumber endpointNumber direction
        = FindEndpoint st fuel functionNumber endpointNumber direction := by
  have hb : ∀ dir, FindBulkEndpoint st' fuel functionNumber endpointNumber dir
      = FindBulkEndpoint st fuel functionNumber endpointNumber dir := by
    intro dir
    unfold FindBulkEndpoint
    dsimp only
    rw [h3, h4, hnext, searchEDList_congr kUniqueNumMask _ _ hflags hnext]
  have hc : FindControlEndpoint st' fuel functionNumber endpointNumber
      = FindControlEndpoint st fuel functionNumber endpointNumber := by
    unfold FindControlEndpoint
    dsimp only
    rw [h1, h2, hnext, searchEDList_congr kUniqueNumNoDirMask _ _
      (fun e => noDirMask_of_mask (hflags e)) hnext, h8, hb]
  have hi : FindInterruptEndpoint st' fuel functionNumber endpointNumber direction
      = FindInterruptEndpoint st fuel functionNumber endpointNumber direction := by
    unfold FindInterruptEndpoint
    dsimp only
    rw [FindInterruptEndpoint.slots_congr fuel _ hflags hnext h7]
  have hs : FindIsochronousEndpoint st' fuel functionNumber endpointNumber direction
      = FindIsochronousEndpoint st fuel functionNumber endpointNumber direction := by
    unfold FindIsochronousEndpoint
    dsimp only
    rw [h5, h6, hnext, searchEDList_congr kUniqueNumMask _ _ hflags hnext]
  refine ⟨hb direction, hc, hi, hs, ?_⟩
  unfold FindEndpoint
  rw [hc, hb, hi, hs, h8]

/-- The bits of a flags word after the skip bit has been cleared: those of the word below bit
32, but for bit 14. -/
theorem andNot32_skip_testBit (x j : Nat) :
    (andNot32 x kOHCIEDControl_K).testBit j
      = (x.testBit j && (decide (j < 32) && !decide (j = 14))) := by
  unfold andNot32 kOHCIEDControl_K
  rw [show (4294967295 : Nat) = 2 ^ 32 - 1 by norm_num, show (0x4000 : Nat) = 2 ^ 14 by norm_num,
    Nat.testBit_and, Nat.testBit_xor, Nat.testBit_two_pow_sub_one, Nat.testBit_two_pow]
  by_cases h1 : j < 32 <;> by_cases h2 : j = 14 <;> simp [h1, h2, eq_comm]

/-- Setting the skip bit and clearing it again. -/
theorem andNot32_skip_set (x : Nat) :
    andNot32 (x ||| kOHCIEDControl_K) kOHCIEDControl_K = andNot32 x kOHCIEDControl_K := by
  apply Nat.eq_of_testBit_eq
  intro j
  rw [andNot32_skip_testBit, andNot32_skip_testBit, Nat.testBit_or]
  unfold kOHCIEDControl_K
  rw [show (0x4000 : Nat) = 2 ^ 14 by norm_num, Nat.testBit_two_pow]
  by_cases h2 : j = 14 <;> simp [h2, eq_comm]

theorem andNot32_skip_clear (x : Nat) :
    andNot32 x kOHCIEDControl_K &&& kOHCIEDControl_K = 0 := by
  apply Nat.eq_of_testBit_eq
  intro j
  rw [Nat.testBit_and, andNot32_skip_testBit]
  unfold kOHCIEDControl_K
  rw [show (0x4000 : Nat) = 2 ^ 14 by norm_num, Nat.testBit_two_pow]
  by_cases h2 : j = 14 <;> simp [h2, eq_comm]

theorem or_skip_set (x : Nat) :
    (x ||| kOHCIEDControl_K) &&& kOHCIEDControl_K = kOHCIEDControl_K := by
  apply Nat.eq_of_testBit_eq
  intro j
  rw [Nat.testBit_and, Nat.testBit_or]
  cases x.testBit j <;> simp

/-- The lookup key of a flags word does not depend on its skip bit. -/
theorem andNot32_skip_key (x : Nat) :
    andNot32 x kOHCIEDControl_K &&& kUniqueNumMask = x &&& kUniqueNumMask := by
  apply Nat.eq_of_testBit_eq
  intro j
  rw [Nat.testBit_and, Nat.testBit_and, andNot32_skip_testBit]
  unfold kUniqueNumMask
  rw [show (0x1FFF : Nat) = 2 ^ 13 - 1 by norm_num, Nat.testBit_two_pow_sub_one]
  by_cases h1 : j < 13
  · have h2 : j < 32 := by omega
    have h3 : j ≠ 14 := by omega
    simp [h1, h2, h3]
  · simp [h1]

/-- C24: `UIMAbortEndpoint` for a device other than the root hub, on an endpoint that the
lookup finds, with collaborators (`IOSleep`, `RemoveTDs`) that leave the endpoint directory
alone.  The call returns `kIOReturnSuccess`.  `RemoveTDs` is invoked on the state `sK`, after
the skip bit has been set and the frame boundary awaited, in which the skip bit of the
endpoint descriptor is set; the state returned is the one `RemoveTDs` gave with the skip bit
cleared.  On return the skip bit is clear, every other bit of the 32-bit flags word is as
before the call, the flags of the other endpoint descriptors and all links, logical and
physical, are as before, so the descriptor stands where it stood in its list, and the lookup
for the same key finds it with the same predecessor. -/
theorem UIMAbortEndpoint_quiesces (X : Collaborators) (st : AppleUSBOHCI)
    (fuel functionAddress endpointNumber direction pED back mask : Nat)
    (hRoot : functionAddress ≠ st.rootHubFuncAddress)
    (hFound : FindEndpoint st fuel functionAddress endpointNumber (edDirection direction)
      = .ret (some (pED, back, mask)))
    (hX : X.keepLists) :
    ∃ sK st', UIMAbortEndpoint X st fuel functionAddress endpointNumber direction
        = .ret (.kIOReturnSuccess, st')
      ∧ sK = waitForSOF X
          (setED st pED fun ed => { ed with flags := ed.flags ||| kOHCIEDControl_K })
      ∧ st' = setED (X.RemoveTDs pED sK) pED
          (fun ed => { ed with flags := andNot32 ed.flags kOHCIEDControl_K })
      ∧ (sK.eds pED).flags &&& kOHCIEDControl_K = kOHCIEDControl_K
      ∧ (st'.eds pED).flags &&& kOHCIEDControl_K = 0
      ∧ (∀ i, i < 32 → i ≠ 14 →
          ((st'.eds pED).flags).testBit i = ((st.eds pED).flags).testBit i)
      ∧ (∀ x, x ≠ pED → (st'.eds x).flags = (st.eds x).flags)
      ∧ (∀ x, (st'.eds x).pLogicalNext = (st.eds x).pLogicalNext
          ∧ (st'.eds x).nextED = (st.eds x).nextED)
      ∧ FindEndpoint st' fuel functionAddress endpointNumber (edDirection direction)
        = .ret (some (pED, back, mask)) := by
  obtain ⟨s1, hs1⟩ : ∃ s1, s1 = setED st pED
      fun ed => { ed with flags := ed.flags ||| kOHCIEDControl_K } := ⟨_, rfl⟩
  obtain ⟨sK, hsK⟩ : ∃ sK, sK = waitForSOF X s1 := ⟨_, rfl⟩
  obtain ⟨s3, hs3⟩ : ∃ s3, s3 = X.RemoveTDs pED sK := ⟨_, rfl⟩
  have hcall : UIMAbortEndpoint X st fuel functionAddress endpointNumber direction
      = .ret (.kIOReturnSuccess, setED s3 pED
          (fun ed => { ed with flags := andNot32 ed.flags kOHCIEDControl_K })) := by
    unfold UIMAbortEndpoint
    rw [if_neg hRoot]
    dsimp only
    rw [hFound, hs3, hsK, hs1]
    rfl
  have k12 : ListsKept s1 sK := by
    rw [hsK]
    exact waitForSOF_lists hX s1
  have k23 : ListsKept sK s3 := by
    rw [hs3]
    exact hX.removeTDs pED sK
  have k13 := k12.lists_trans k23
  have e1 : ∀ x, (s1.eds x).pLogicalNext = (st.eds x).pLogicalNext
      ∧ (s1.eds x).nextED = (st.eds x).nextED := by
    intro x
    rw [hs1]
    simp only [setED]
    by_cases hx : x = pED
    · subst hx
      simp
    · simp [Function.update_noteq hx]
  have e1f : (s1.eds pED).flags = (st.eds pED).flags ||| kOHCIEDControl_K := by
    rw [hs1]
    simp [setED]
  have e1o : ∀ x, x ≠ pED → (s1.eds x).flags = (st.eds x).flags := by
    intro x hx
    rw [hs1]
    simp [setED, Function.update_noteq hx]
  have hfin : ((setED s3 pED
      (fun ed => { ed with flags := andNot32 ed.flags kOHCIEDControl_K })).eds pED).flags
      = andNot32 (st.eds pED).flags kOHCIEDControl_K := by
    simp only [setED, Function.update_same]
    rw [k13.flags, e1f, andNot32_skip_set]
  have hfino : ∀ x, x ≠ pED → ((setED s3 pED
      (fun ed => { ed with flags := andNot32 ed.flags kOHCIEDControl_K })).eds x).flags
      = (st.eds x).flags := by
    intro x hx
    simp only [setED, Function.update_noteq hx]
    rw [k13.flags, e1o x hx]
  have hlinks : ∀ x, ((setED s3 pED
        (fun ed => { ed with flags := andNot32 ed.flags kOHCIEDControl_K })).eds x).pLogicalNext
        = (st.eds x).pLogicalNext
      ∧ ((setED s3 pED
        (fun ed => { ed with flags := andNot32 ed.flags kOHCIEDControl_K })).eds x).nextED
        = (st.eds x).nextED := by
    intro x
    have h1 : ((setED s3 pED
          (fun ed => { ed with flags := andNot32 ed.flags kOHCIEDControl_K })).eds
          x).pLogicalNext = (s3.eds x).pLogicalNext
        ∧ ((setED s3 pED
          (fun ed => { ed with flags := andNot32 ed.flags kOHCIEDControl_K })).eds x).nextED
          = (s3.eds x).nextED := by
      simp only [setED]
      by_cases hx : x = pED
      · subst hx
        simp
      · simp [Function.update_noteq hx]
    rw [h1.1, h1.2, k13.next, k13.nextED]
    exact e1 x
  have hkeys : ∀ x, ((setED s3 pED
      (fun ed => { ed with flags := andNot32 ed.flags kOHCIEDControl_K })).eds x).flags
        &&& kUniqueNumMask = (st.eds x).flags &&& kUniqueNumMask := by
    intro x
    by_cases hx : x = pED
    · subst hx
      rw [hfin, andNot32_skip_key]
    · rw [hfino x hx]
  refine ⟨sK, _, hcall, by rw [hsK, hs1], by rw [hs3], ?_, ?_, ?_, hfino, hlinks, ?_⟩
  · rw [k12.flags, e1f]
    exact or_skip_set _
  · rw [hfin]
    exact andNot32_skip_clear _
  · intro i hi hne
    rw [hfin, andNot32_skip_testBit]
    simp [hi, hne]
  · rw [(FindEndpoint_congr hkeys (fun x => (hlinks x).1)
      (k13.pControlHead.trans (by rw [hs1]; rfl)) (k13.pControlTail.trans (by rw [hs1]; rfl))
      (k13.pBulkHead.trans (by rw [hs1]; rfl)) (k13.pBulkTail.trans (by rw [hs1]; rfl))
      (k13.pIsochHead.trans (by rw [hs1]; rfl)) (k13.pIsochTail.trans (by rw [hs1]; rfl))
      (k13.pInterruptHead.trans (by rw [hs1]; rfl)) (k13.OptiOn.trans (by rw [hs1]; rfl))
      fuel functionAddress endpointNumber (edDirection direction)).2.2.2.2]
    exact hFound

theorem exampleCollaborators_keepLists : exampleCollaborators.keepLists :=
  ⟨fun _ st => ListsKept.lists_refl st, fun _ st => ListsKept.lists_refl st,
    fun _ st => ListsKept.lists_refl st, fun _ st => ListsKept.lists_refl st⟩

/-- Witness for C24: on the example driver with the bulk endpoint 5:2 out, the endpoint
descriptor 20 behind the head 3 of the bulk list, with collaborators that do nothing,
`UIMAbortEndpoint` returns success and leaves the endpoint where it was. -/
theorem UIMAbortEndpoint_quiesces_witness :
    ∃ sK st', UIMAbortEndpoint exampleCollaborators exampleBulkState 5 5 2 kUSBOut
        = .ret (.kIOReturnSuccess, st')
      ∧ sK = waitForSOF exampleCollaborators
          (setED exampleBulkState 20 fun ed => { ed with flags := ed.flags ||| kOHCIEDControl_K })
      ∧ st' = setED (exampleCollaborators.RemoveTDs 20 sK) 20
          (fun ed => { ed with flags := andNot32 ed.flags kOHCIEDControl_K })
      ∧ (sK.eds 20).flags &&& kOHCIEDControl_K = kOHCIEDControl_K
      ∧ (st'.eds 20).flags &&& kOHCIEDControl_K = 0
      ∧ (∀ i, i < 32 → i ≠ 14 →
          ((st'.eds 20).flags).testBit i = ((exampleBulkState.eds 20).flags).testBit i)
      ∧ (∀ x, x ≠ 20 → (st'.eds x).flags = (exampleBulkState.eds x).flags)
      ∧ (∀ x, (st'.eds x).pLogicalNext = (exampleBulkState.eds x).pLogicalNext
          ∧ (st'.eds x).nextED = (exampleBulkState.eds x).nextED)
      ∧ FindEndpoint st' 5 5 2 (edDirection kUSBOut)
        = .ret (some (20, 3, kOHCIHcControl_BLE)) :=
  UIMAbortEndpoint_quiesces exampleCollaborators exampleBulkState 5 5 2 kUSBOut 20 3
    kOHCIHcControl_BLE (by decide) (by rfl) exampleCollaborators_keepLists

/-! ## The watchdog -/

/-- A scan that reaches the endpoint descriptor `pED` makes a pass of the loop for it and goes
on behind it. -/
theorem CheckEDListForTimeouts.loop_visit (X : Collaborators) (W : WatchdogCollaborators)
    (curFrame tail fuel : Nat) (st : AppleUSBOHCI) (pED : Nat) (h1 : pED ≠ tail)
    (h0 : pED ≠ 0) :
    CheckEDListForTimeouts.loop X W curFrame tail (fuel + 1) st pED
      = CheckEDListForTimeouts.loop X W curFrame tail fuel
          (CheckEDListForTimeouts.visit X W curFrame st pED)
          ((CheckEDListForTimeouts.visit X W curFrame st pED).eds pED).pLogicalNext := by
  rw [CheckEDListForTimeouts.loop, if_pos h1, if_neg h0]

/-- The pass of the loop for an endpoint whose head descriptor is queued and has a command
without completion timeout: the no-data policy alone. -/
theorem CheckEDListForTimeouts.visit_noData (X : Collaborators) (W : WatchdogCollaborators)
    (curFrame : Nat) (st : AppleUSBOHCI) (pED pTD : Nat)
    (hTD : X.GetLogicalAddress st ((st.eds pED).tdQueueHeadPtr &&& kOHCIHeadPMask) = pTD)
    (hTD0 : pTD ≠ 0) (hQueued : pTD ≠ (st.eds pED).pLogicalTailP)
    (hCommand : (st.tds pTD).command ≠ 0)
    (hDeadline : (st.commands (st.tds pTD).command).completionTimeout = 0) :
    CheckEDListForTimeouts.visit X W curFrame st pED
      = CheckEDListForTimeouts.noData W curFrame st pED pTD
          (st.commands (st.tds pTD).command).noDataTimeout := by
  unfold CheckEDListForTimeouts.visit
  dsimp only
  rw [hTD, if_neg hTD0, if_neg hQueued, if_neg hCommand, if_neg (by rw [hDeadline]; simp)]

/-- C26: the pass of a `CheckEDListForTimeouts` scan, at the frame `curFrame`, over an
endpoint descriptor `pED` that is neither `NULL` nor the tail sentinel, whose head pointer
resolves to a transfer descriptor `pTD` that is not the tail placeholder and carries a command
with no-data timeout `T > 0` and completion timeout 0, when a baseline is recorded in the
descriptor (`lastFrame` is not 0, which stands for no baseline, and not after `curFrame`) and
the scan finds the remaining byte count that the baseline records.  If `curFrame` is at least
`T` frames after `lastFrame`, the pass is the call `ReturnOneTransaction(pTD, pED,
kIOUSBTransactionTimeout)`; if it is less than `T` frames after `lastFrame`, the pass changes
nothing: the descriptor is not retired.  The scan makes this pass when it reaches `pED` and
goes on behind it. -/
theorem CheckEDListForTimeouts_no_data (X : Collaborators) (W : WatchdogCollaborators)
    (st : AppleUSBOHCI) (curFrame tail fuel pED pTD T : Nat)
    (hED : pED ≠ tail) (hED0 : pED ≠ 0)
    (hTD : X.GetLogicalAddress st ((st.eds pED).tdQueueHeadPtr &&& kOHCIHeadPMask) = pTD)
    (hTD0 : pTD ≠ 0) (hQueued : pTD ≠ (st.eds pED).pLogicalTailP)
    (hCommand : (st.tds pTD).command ≠ 0)
    (hT : (st.commands (st.tds pTD).command).noDataTimeout = T) (hTpos : 0 < T)
    (hDeadline : (st.commands (st.tds pTD).command).completionTimeout = 0)
    (hFrame : curFrame < W32)
    (hBaseline : (st.tds pTD).lastFrame ≠ 0) (hPast : (st.tds pTD).lastFrame ≤ curFrame)
    (hSame : W.findBufferRemaining st pTD = (st.tds pTD).lastRemaining) :
    (T ≤ curFrame - (st.tds pTD).lastFrame →
        CheckEDListForTimeouts.visit X W curFrame st pED
          = W.ReturnOneTransaction pTD pED .kIOUSBTransactionTimeout st)
      ∧ (curFrame - (st.tds pTD).lastFrame < T →
        CheckEDListForTimeouts.visit X W curFrame st pED = st)
      ∧ CheckEDListForTimeouts.loop X W curFrame tail (fuel + 1) st pED
        = CheckEDListForTimeouts.loop X W curFrame tail fuel
            (CheckEDListForTimeouts.visit X W curFrame st pED)
            ((CheckEDListForTimeouts.visit X W curFrame st pED).eds pED).pLogicalNext := by
  have hv := CheckEDListForTimeouts.visit_noData X W curFrame st pED pTD hTD hTD0 hQueued
    hCommand hDeadline
  rw [hT] at hv
  have hsub : sub32 curFrame (st.tds pTD).lastFrame = curFrame - (st.tds pTD).lastFrame :=
    sub32_of_le hFrame hPast
  have hnd : CheckEDListForTimeouts.noData W curFrame st pED pTD T
      = if curFrame - (st.tds pTD).lastFrame ≥ T then
          W.ReturnOneTransaction pTD pED .kIOUSBTransactionTimeout st
        else st := by
    unfold CheckEDListForTimeouts.noData
    rw [if_neg (by omega), if_neg (by omega)]
    dsimp only
    rw [hSame, if_neg (fun h => h rfl), hsub]
  refine ⟨fun h => ?_, fun h => ?_,
    CheckEDListForTimeouts.loop_visit X W curFrame tail fuel st pED hED hED0⟩
  · rw [hv, hnd, if_pos h]
  · rw [hv, hnd, if_neg (by omega)]

/-- Witness for C26: the example driver at frame 6000, whose bulk endpoint 20 has the descriptor
100 at its head, with a no-data timeout of 5000 frames and the baseline of frame 1000 with 200
bytes to go, which is what remains. -/
theorem CheckEDListForTimeouts_no_data_witness :
    (5000 ≤ 6000 - ((exampleWatchedState 6000 5000 0 0 1000 200).tds 100).lastFrame →
        CheckEDListForTimeouts.visit exampleCollaborators exampleWatchdog 6000
            (exampleWatchedState 6000 5000 0 0 1000 200) 20
          = exampleWatchdog.ReturnOneTransaction 100 20 .kIOUSBTransactionTimeout
              (exampleWatchedState 6000 5000 0 0 1000 200))
      ∧ (6000 - ((exampleWatchedState 6000 5000 0 0 1000 200).tds 100).lastFrame < 5000 →
        CheckEDListForTimeouts.visit exampleCollaborators exampleWatchdog 6000
            (exampleWatchedState 6000 5000 0 0 1000 200) 20
          = exampleWatchedState 6000 5000 0 0 1000 200)
      ∧ CheckEDListForTimeouts.loop exampleCollaborators exampleWatchdog 6000 4 (5 + 1)
          (exampleWatchedState 6000 5000 0 0 1000 200) 20
        = CheckEDListForTimeouts.loop exampleCollaborators exampleWatchdog 6000 4 5
            (CheckEDListForTimeouts.visit exampleCollaborators exampleWatchdog 6000
              (exampleWatchedState 6000 5000 0 0 1000 200) 20)
            ((CheckEDListForTimeouts.visit exampleCollaborators exampleWatchdog 6000
              (exampleWatchedState 6000 5000 0 0 1000 200) 20).eds 20).pLogicalNext :=
  CheckEDListForTimeouts_no_data exampleCollaborators exampleWatchdog
    (exampleWatchedState 6000 5000 0 0 1000 200) 6000 4 5 20 100 5000 (by decide) (by decide)
    (by decide) (by decide) (by decide) (by decide) (by rfl) (by decide) (by rfl) (by decide)
    (by decide) (by decide) (by decide)

/-- The pass of the loop for an endpoint whose head descriptor is queued and has a command
with a completion timeout. -/
theorem CheckEDListForTimeouts.visit_deadline (X : Collaborators) (W : WatchdogCollaborators)
    (curFrame : Nat) (st : AppleUSBOHCI) (pED pTD : Nat)
    (hTD : X.GetLogicalAddress st ((st.eds pED).tdQueueHeadPtr &&& kOHCIHeadPMask) = pTD)
    (hTD0 : pTD ≠ 0) (hQueued : pTD ≠ (st.eds pED).pLogicalTailP)
    (hCommand : (st.tds pTD).command ≠ 0)
    (hDeadline : (st.commands (st.tds pTD).command).completionTimeout ≠ 0) :
    CheckEDListForTimeouts.visit X W curFrame st pED
      = if (st.commands (st.tds pTD).command).uimScratch = 0 then
          { st with commands := Function.update st.commands (st.tds pTD).command
                      { st.commands (st.tds pTD).command with uimScratch := curFrame } }
        else if sub32 curFrame (st.commands (st.tds pTD).command).uimScratch
            ≥ (st.commands (st.tds pTD).command).completionTimeout then
          W.ReturnOneTransaction pTD pED .kIOUSBTransactionTimeout st
        else CheckEDListForTimeouts.noData W curFrame st pED pTD
          (st.commands (st.tds pTD).command).noDataTimeout := by
  unfold CheckEDListForTimeouts.visit
  dsimp only
  rw [hTD, if_neg hTD0, if_neg hQueued, if_neg hCommand, if_pos hDeadline]

/-- C28 (amended): the pass of a `CheckEDListForTimeouts` scan, at the frame `curFrame`, over
an endpoint descriptor `pED` whose head pointer resolves to a transfer descriptor `pTD` that is
not the tail placeholder and carries a command with completion timeout `C > 0`.  When the
command has no first-active frame (scratch word 0), the pass records `curFrame` as the
first-active frame of the command and does nothing else.  When it has one, the pass is the
call `ReturnOneTransaction(pTD, pED, kIOUSBTransactionTimeout)` if the elapsed count
`curFrame - firstActive` (in 32 bits) is at least `C`, and if it is less than `C` the pass is
that of the no-data policy alone: the transfer is not retired for the completion deadline. -/
theorem CheckEDListForTimeouts_deadline (X : Collaborators) (W : WatchdogCollaborators)
    (st : AppleUSBOHCI) (curFrame pED pTD C : Nat)
    (hTD : X.GetLogicalAddress st ((st.eds pED).tdQueueHeadPtr &&& kOHCIHeadPMask) = pTD)
    (hTD0 : pTD ≠ 0) (hQueued : pTD ≠ (st.eds pED).pLogicalTailP)
    (hCommand : (st.tds pTD).command ≠ 0)
    (hC : (st.commands (st.tds pTD).command).completionTimeout = C) (hCpos : 0 < C) :
    ((st.commands (st.tds pTD).command).uimScratch = 0 →
        CheckEDListForTimeouts.visit X W curFrame st pED
          = { st with commands := Function.update st.commands (st.tds pTD).command
                        { st.commands (st.tds pTD).command with uimScratch := curFrame } })
      ∧ ((st.commands (st.tds pTD).command).uimScratch ≠ 0 →
          C ≤ sub32 curFrame (st.commands (st.tds pTD).command).uimScratch →
        CheckEDListForTimeouts.visit X W curFrame st pED
          = W.ReturnOneTransaction pTD pED .kIOUSBTransactionTimeout st)
      ∧ ((st.commands (st.tds pTD).command).uimScratch ≠ 0 →
          sub32 curFrame (st.commands (st.tds pTD).command).uimScratch < C →
        CheckEDListForTimeouts.visit X W curFrame st pED
          = CheckEDListForTimeouts.noData W curFrame st pED pTD
              (st.commands (st.tds pTD).command).noDataTimeout) := by
  have hv := CheckEDListForTimeouts.visit_deadline X W curFrame st pED pTD hTD hTD0 hQueued
    hCommand (by omega)
  rw [hC] at hv
  refine ⟨fun h => ?_, fun h0 h => ?_, fun h0 h => ?_⟩
  · rw [hv, if_pos h]
  · rw [hv, if_neg h0, if_pos h]
  · rw [hv, if_neg h0, if_neg (by omega)]

/-- Witness for C28 (amended): the example driver at frame 110, whose bulk endpoint 20 has the
descriptor 100 at its head, with a completion timeout of 10 frames. -/
theorem CheckEDListForTimeouts_deadline_witness :
    (((exampleWatchedState 110 0 10 100 0 0).commands
          ((exampleWatchedState 110 0 10 100 0 0).tds 100).command).uimScratch = 0 →
        CheckEDListForTimeouts.visit exampleCollaborators exampleWatchdog 110
            (exampleWatchedState 110 0 10 100 0 0) 20
          = { exampleWatchedState 110 0 10 100 0 0 with
              commands := Function.update (exampleWatchedState 110 0 10 100 0 0).commands
                ((exampleWatchedState 110 0 10 100 0 0).tds 100).command
                { (exampleWatchedState 110 0 10 100 0 0).commands
                    ((exampleWatchedState 110 0 10 100 0 0).tds 100).command with
                  uimScratch := 110 } })
      ∧ (((exampleWatchedState 110 0 10 100 0 0).commands
            ((exampleWatchedState 110 0 10 100 0 0).tds 100).command).uimScratch ≠ 0 →
          10 ≤ sub32 110 ((exampleWatchedState 110 0 10 100 0 0).commands
            ((exampleWatchedState 110 0 10 100 0 0).tds 100).command).uimScratch →
        CheckEDListForTimeouts.visit exampleCollaborators exampleWatchdog 110
            (exampleWatchedState 110 0 10 100 0 0) 20
          = exampleWatchdog.ReturnOneTransaction 100 20 .kIOUSBTransactionTimeout
              (exampleWatchedState 110 0 10 100 0 0))
      ∧ (((exampleWatchedState 110 0 10 100 0 0).commands
            ((exampleWatchedState 110 0 10 100 0 0).tds 100).command).uimScratch ≠ 0 →
          sub32 110 ((exampleWatchedState 110 0 10 100 0 0).commands
            ((exampleWatchedState 110 0 10 100 0 0).tds 100).command).uimScratch < 10 →
        CheckEDListForTimeouts.visit exampleCollaborators exampleWatchdog 110
            (exampleWatchedState 110 0 10 100 0 0) 20
          = CheckEDListForTimeouts.noData exampleWatchdog 110
              (exampleWatchedState 110 0 10 100 0 0) 20 100
              ((exampleWatchedState 110 0 10 100 0 0).commands
                ((exampleWatchedState 110 0 10 100 0 0).tds 100).command).noDataTimeout) :=
  CheckEDListForTimeouts_deadline exampleCollaborators exampleWatchdog
    (exampleWatchedState 110 0 10 100 0 0) 110 20 100 10 (by decide) (by decide) (by decide)
    (by decide) (by rfl) (by decide)

/-- Counterexample to C28 as stated: on the example driver the command of the head descriptor
100 of the bulk endpoint 20 has a completion timeout of 10 frames and was first seen active at
frame 100.  At frame 110 the elapsed count is 10, which does not exceed the timeout, and no
no-data timeout is set; yet the scan retires the descriptor (the example collaborator marks a
retired descriptor by taking its command off). -/
theorem CheckEDListForTimeouts_deadline_counterexample :
    ((exampleWatchedState 110 0 10 100 0 0).commands
        ((exampleWatchedState 110 0 10 100 0 0).tds 100).command).completionTimeout = 10
      ∧ ((exampleWatchedState 110 0 10 100 0 0).commands
        ((exampleWatchedState 110 0 10 100 0 0).tds 100).command).uimScratch = 100
      ∧ ((exampleWatchedState 110 0 10 100 0 0).commands
        ((exampleWatchedState 110 0 10 100 0 0).tds 100).command).noDataTimeout = 0
      ∧ GetFrameNumber32 (exampleWatchedState 110 0 10 100 0 0) = 110
      ∧ ¬ (110 - 100 > 10)
      ∧ ((exampleWatchedState 110 0 10 100 0 0).tds 100).command = 77
      ∧ CheckEDListForTimeouts.visit exampleCollaborators exampleWatchdog 110
            (exampleWatchedState 110 0 10 100 0 0) 20
          = exampleWatchdog.ReturnOneTransaction 100 20 .kIOUSBTransactionTimeout
              (exampleWatchedState 110 0 10 100 0 0)
      ∧ ((CheckEDListForTimeouts.visit exampleCollaborators exampleWatchdog 110
            (exampleWatchedState 110 0 10 100 0 0) 20).tds 100).command = 0
      ∧ CheckEDListForTimeouts exampleCollaborators exampleWatchdog
            (exampleWatchedState 110 0 10 100 0 0) 5 3 4
          = .ret (exampleWatchdog.ReturnOneTransaction 100 20 .kIOUSBTransactionTimeout
              (exampleWatchedState 110 0 10 100 0 0)) := by
  refine ⟨rfl, rfl, rfl, by decide, by decide, by decide, rfl, by decide, rfl⟩

/-- The pass of the no-data policy over a descriptor with a recorded baseline whose remaining
byte count differs from the recorded one: the new count is stored, and nothing else; the
recorded frame stays. -/
theorem CheckEDListForTimeouts.noData_changed (W : WatchdogCollaborators)
    (curFrame : Nat) (st : AppleUSBOHCI) (pED pTD T : Nat) (hT : T ≠ 0)
    (hBaseline : (st.tds pTD).lastFrame ≠ 0) (hPast : (st.tds pTD).lastFrame ≤ curFrame)
    (hChanged : (st.tds pTD).lastRemaining ≠ W.findBufferRemaining st pTD) :
    CheckEDListForTimeouts.noData W curFrame st pED pTD T
      = setTD st pTD fun td => { td with lastRemaining := W.findBufferRemaining st pTD } := by
  unfold CheckEDListForTimeouts.noData
  rw [if_neg hT, if_neg (by omega)]
  dsimp only
  rw [if_pos hChanged]

/-- C27 (divergence of the code): the example driver has the descriptor 100 at the head of its
bulk endpoint 20, with a no-data timeout of 5000 frames and the baseline of frame 100 with 500
bytes to go.  The scan of frame 5000 finds 200 bytes to go: it stores the new count and leaves
the recorded frame at 100.  The scan of frame 5101, which finds the same 200 bytes, retires the
descriptor with `kIOUSBTransactionTimeout`, 101 frames after the scan that observed the
change. -/
theorem CheckEDListForTimeouts_frame_not_reset :
    GetFrameNumber32 (exampleWatchedState 5000 5000 0 0 100 500) = 5000
      ∧ ((exampleWatchedState 5000 5000 0 0 100 500).commands
          ((exampleWatchedState 5000 5000 0 0 100 500).tds 100).command).noDataTimeout = 5000
      ∧ ((exampleWatchedState 5000 5000 0 0 100 500).commands
          ((exampleWatchedState 5000 5000 0 0 100 500).tds 100).command).completionTimeout = 0
      ∧ ((exampleWatchedState 5000 5000 0 0 100 500).tds 100).lastFrame = 100
      ∧ ((exampleWatchedState 5000 5000 0 0 100 500).tds 100).lastRemaining = 500
      ∧ exampleWatchdog.findBufferRemaining (exampleWatchedState 5000 5000 0 0 100 500) 100
          = 200
      ∧ CheckEDListForTimeouts exampleCollaborators exampleWatchdog
            (exampleWatchedState 5000 5000 0 0 100 500) 5 3 4
          = .ret (exampleMovedState 5000)
      ∧ ((exampleMovedState 5000).tds 100).lastFrame = 100
      ∧ ((exampleMovedState 5000).tds 100).lastRemaining = 200
      ∧ GetFrameNumber32 (exampleMovedState 5101) = 5101
      ∧ exampleWatchdog.findBufferRemaining (exampleMovedState 5101) 100 = 200
      ∧ CheckEDListForTimeouts exampleCollaborators exampleWatchdog (exampleMovedState 5101)
            5 3 4
          = .ret (exampleWatchdog.ReturnOneTransaction 100 20 .kIOUSBTransactionTimeout
              (exampleMovedState 5101))
      ∧ ((exampleWatchdog.ReturnOneTransaction 100 20 .kIOUSBTransactionTimeout
              (exampleMovedState 5101)).tds 100).command = 0
      ∧ ((exampleMovedState 5101).tds 100).command = 77
      ∧ 5101 - 5000 < 5000 := by
  refine ⟨by decide, rfl, rfl, by decide, by decide, by decide, rfl, by decide, by decide,
    by decide, by decide, rfl, by decide, by decide, by decide⟩

/-! ## The round trip of creation and lookup -/

/-- The flags word of `AddEmptyEndPoint` as a sum of its fields. -/
theorem endpointFlagsWord_sum (a e m speed dir format : Nat)
    (ha : a < 128) (he : e < 16) (hm : m < 2048) (hs : speed < 256) (hd : dir < 4)
    (hf : format < 2) :
    endpointFlagsWord a e m speed dir format
      = a + e * 128 + dir * 2048
        + (if speed = kUSBDeviceSpeedFull then 0 else 8192) + format * 32768 + m * 65536 := by
  have hA : shl32 (toUInt8 a) kOHCIEDControl_FAPhase = a := by
    unfold shl32 toUInt8 kOHCIEDControl_FAPhase W32
    rw [Nat.shiftLeft_eq]
    omega
  have hE : shl32 (toUInt8 e) kOHCIEDControl_ENPhase = e * 128 := by
    unfold shl32 toUInt8 kOHCIEDControl_ENPhase W32
    rw [Nat.shiftLeft_eq]
    omega
  have hD : shl32 (toUInt8 dir) kOHCIEDControl_DPhase = dir * 2048 := by
    unfold shl32 toUInt8 kOHCIEDControl_DPhase W32
    rw [Nat.shiftLeft_eq]
    omega
  have hM : shl32 (toUInt16 m) kOHCIEDControl_MPSPhase = m * 65536 := by
    unfold shl32 toUInt16 kOHCIEDControl_MPSPhase W32
    rw [Nat.shiftLeft_eq]
    omega
  have hF : shl32 format kOHCIEDControl_FPhase = format * 32768 := by
    unfold shl32 kOHCIEDControl_FPhase W32
    rw [Nat.shiftLeft_eq]
    omega
  have hS : (if toUInt8 speed = kUSBDeviceSpeedFull then
        shl32 kOHCIEDSpeedFull kOHCIEDControl_SPhase
      else shl32 kOHCIEDSpeedLow kOHCIEDControl_SPhase)
      = if speed = kUSBDeviceSpeedFull then 0 else 8192 := by
    have h8 : toUInt8 speed = speed := by
      unfold toUInt8
      omega
    rw [h8]
    split_ifs <;> decide
  unfold endpointFlagsWord
  rw [hA, hE, hD, hM, hF, hS]
  obtain ⟨s, hs', hsv⟩ : ∃ s, (if speed = kUSBDeviceSpeedFull then 0 else 8192) = s
      ∧ (s = 0 ∨ s = 8192) := by
    split_ifs
    · exact ⟨0, rfl, Or.inl rfl⟩
    · exact ⟨8192, rfl, Or.inr rfl⟩
  rw [hs']
  rw [or_eq_add a (e * 128) 7 (by omega) (by omega),
    or_eq_add (a + e * 128) (dir * 2048) 11 (by omega) (by omega),
    Nat.or_assoc, Nat.or_assoc, Nat.or_comm (m * 65536), Nat.or_assoc,
    or_eq_add (format * 32768) (m * 65536) 16 (by omega) (by omega),
    or_eq_add s (format * 32768 + m * 65536) 14 (by omega) (by omega),
    or_eq_add (a + e * 128 + dir * 2048) (s + (format * 32768 + m * 65536)) 13 (by omega)
      (by omega)]
  omega

/-- A field of a word: the bits under a mask of `w` ones from bit `i` on. -/
theorem field_eq_div_mod (x mask i w : Nat) (hmask : mask >>> i = 2 ^ w - 1) :
    (x &&& mask) >>> i = x / 2 ^ i % 2 ^ w := by
  rw [shiftRight_and, hmask, Nat.and_pow_two_sub_one_eq_mod, Nat.shiftRight_eq_div_pow]

/-- A word has no bit under the mask of the one bit `i` when that bit of it is 0. -/
theorem and_bit_eq_zero (x i : Nat) (h : x / 2 ^ i % 2 = 0) : x &&& 2 ^ i = 0 := by
  apply Nat.eq_of_testBit_eq
  intro j
  rw [Nat.testBit_and, Nat.testBit_two_pow, Nat.zero_testBit]
  by_cases hj : i = j
  · subst hj
    have : x.testBit i = false := by
      rw [Nat.testBit, Nat.shiftRight_eq_div_pow]
      simp only [Nat.one_and_eq_mod_two, h]
      decide
    rw [this]
    rfl
  · simp [hj]

/-- The fields of the flags word that `AddEmptyEndPoint` builds, and the lookup keys in it. -/
theorem endpointFlagsWord_fields (a e m speed dir format : Nat)
    (ha : a < 128) (he : e < 16) (hm : m < 2048) (hs : speed < 256) (hd : dir < 4)
    (hf : format < 2) :
    (endpointFlagsWord a e m speed dir format &&& kOHCIEDControl_FA)
        >>> kOHCIEDControl_FAPhase = a
      ∧ (endpointFlagsWord a e m speed dir format &&& kOHCIEDControl_EN)
        >>> kOHCIEDControl_ENPhase = e
      ∧ (endpointFlagsWord a e m speed dir format &&& kOHCIEDControl_D)
        >>> kOHCIEDControl_DPhase = dir
      ∧ (endpointFlagsWord a e m speed dir format &&& kOHCIEDControl_S)
        >>> kOHCIEDControl_SPhase
          = (if speed = kUSBDeviceSpeedFull then kOHCIEDSpeedFull else kOHCIEDSpeedLow)
      ∧ (endpointFlagsWord a e m speed dir format &&& kOHCIEDControl_MPS)
        >>> kOHCIEDControl_MPSPhase = m
      ∧ (endpointFlagsWord a e m speed dir format &&& kOHCIEDControl_F)
        >>> kOHCIEDControl_FPhase = format
      ∧ endpointFlagsWord a e m speed dir format &&& kOHCIEDControl_K = 0
      ∧ endpointFlagsWord a e m speed dir format &&& kUniqueNumMask = uniqueKey a e dir
      ∧ endpointFlagsWord a e m speed dir format &&& kUniqueNumNoDirMask
        = uniqueKeyNoDir a e := by
  have hw := endpointFlagsWord_sum a e m speed dir format ha he hm hs hd hf
  obtain ⟨s, hs', hsv⟩ : ∃ s, (if speed = kUSBDeviceSpeedFull then 0 else 8192) = s
      ∧ ((speed = kUSBDeviceSpeedFull ∧ s = 0) ∨ (speed ≠ kUSBDeviceSpeedFull ∧ s = 8192)) := by
    by_cases h : speed = kUSBDeviceSpeedFull
    · exact ⟨0, by rw [if_pos h], Or.inl ⟨h, rfl⟩⟩
    · exact ⟨8192, by rw [if_neg h], Or.inr ⟨h, rfl⟩⟩
  rw [hs'] at hw
  have hKeyA : UInt32ofShort a = a := by
    unfold UInt32ofShort
    rw [if_pos (by omega)]
    omega
  have hKeyE : shl32 (UInt32ofShort e) kOHCIEndpointNumberOffset = e * 128 := by
    unfold UInt32ofShort
    rw [if_pos (by omega)]
    unfold shl32 kOHCIEndpointNumberOffset W32
    rw [Nat.shiftLeft_eq]
    omega
  have hKeyD : shl32 (UInt32ofShort dir) kOHCIEndpointDirectionOffset = dir * 2048 := by
    unfold UInt32ofShort
    rw [if_pos (by omega)]
    unfold shl32 kOHCIEndpointDirectionOffset W32
    rw [Nat.shiftLeft_eq]
    omega
  have hNoDir : uniqueKeyNoDir a e = a + e * 128 := by
    unfold uniqueKeyNoDir
    rw [hKeyA, hKeyE, Nat.or_comm, or_eq_add a (e * 128) 7 (by omega) (by omega)]
  have hKey : uniqueKey a e dir = a + e * 128 + dir * 2048 := by
    unfold uniqueKey
    rw [hKeyA, hKeyE, hKeyD, Nat.or_comm (e * 128),
      or_eq_add a (e * 128) 7 (by omega) (by omega),
      or_eq_add (a + e * 128) (dir * 2048) 11 (by omega) (by omega)]
  rw [hw]
  refine ⟨?_, ?_, ?_, ?_, ?_, ?_, ?_, ?_, ?_⟩
  · rw [field_eq_div_mod _ _ _ 7 (by decide)]
    unfold kOHCIEDControl_FAPhase
    omega
  · rw [field_eq_div_mod _ _ _ 4 (by decide)]
    unfold kOHCIEDControl_ENPhase
    omega
  · rw [field_eq_div_mod _ _ _ 2 (by decide)]
    unfold kOHCIEDControl_DPhase
    omega
  · rw [field_eq_div_mod _ _ _ 1 (by decide)]
    unfold kOHCIEDControl_SPhase kOHCIEDSpeedFull kOHCIEDSpeedLow
    rcases hsv with ⟨h1, h2⟩ | ⟨h1, h2⟩
    · rw [if_pos h1]
      omega
    · rw [if_neg h1]
      omega
  · rw [field_eq_div_mod _ _ _ 11 (by decide)]
    unfold kOHCIEDControl_MPSPhase
    omega
  · rw [field_eq_div_mod _ _ _ 1 (by decide)]
    unfold kOHCIEDControl_FPhase
    omega
  · exact and_bit_eq_zero _ 14 (by omega)
  · rw [hKey, show kUniqueNumMask = 2 ^ 13 - 1 from by decide, Nat.and_pow_two_sub_one_eq_mod]
    omega
  · rw [hNoDir, show kUniqueNumNoDirMask = 2 ^ 11 - 1 from by decide,
      Nat.and_pow_two_sub_one_eq_mod]
    omega

/-- A directory list has one sequence of members. -/
theorem EDPath.path_unique {eds : Nat → OHCIEndpointDescriptor} (tail : Nat) :
    ∀ (l l' : List Nat) (p : Nat), EDPath eds tail p l → EDPath eds tail p l' → l = l'
  | [], [], _, _, _ => rfl
  | [], y :: l', p, h, h' => by
    simp only [EDPath] at h
    obtain ⟨h1, h2, -, -⟩ := h'
    exact absurd (h1.symm.trans h) h2
  | x :: l, [], p, h, h' => by
    simp only [EDPath] at h'
    obtain ⟨h1, h2, -, -⟩ := h
    exact absurd (h1.symm.trans h') h2
  | x :: l, y :: l', p, h, h' => by
    obtain ⟨h1, -, -, h4⟩ := h
    obtain ⟨h1', -, -, h4'⟩ := h'
    have hxy : x = y := h1.symm.trans h1'
    subst hxy
    rw [EDPath.path_unique tail l l' _ h4 h4']

/-- A descriptor that is not among the members of a directory list is absent from it. -/
theorem Absent.of_path {st : AppleUSBOHCI} {head tail x : Nat} (l : List Nat)
    (hpath : EDPath st.eds tail (st.eds head).pLogicalNext l) (hx : x ∉ l) :
    Absent st head tail x := by
  intro l' hl'
  rw [EDPath.path_unique tail l' l _ hl' hpath]
  exact hx

/-- A directory list that neither the new endpoint descriptor `p` nor the descriptor `pED` it
was linked behind takes part in has no match after the creation as before. -/
theorem NoMatch.linked_other {st st1 st2 : AppleUSBOHCI}
    {p pED fuel head tail mask unique : Nat}
    (hL : EndpointLinked st st1 p pED) (heds : st2.eds = st1.eds)
    (h : NoMatch st fuel head tail mask unique)
    (hp : head ≠ p) (hh : head ≠ pED)
    (hAp : Absent st head tail p) (hAh : Absent st head tail pED) :
    NoMatch st2 (fuel + 1) head tail mask unique := by
  obtain ⟨l, hpath, hlen, hno⟩ := h
  have hmem : ∀ x ∈ l, st2.eds x = st.eds x := fun x hx => by
    rw [heds]
    exact hL.other x (fun e => hAp l hpath (e ▸ hx)) (fun e => hAh l hpath (e ▸ hx))
  have hhead : st2.eds head = st.eds head := by
    rw [heds]
    exact hL.other head hp hh
  refine ⟨l, ?_, by omega, fun x hx => by rw [hmem x hx]; exact hno x hx⟩
  rw [hhead]
  exact EDPath.ed_congr tail l _ (fun x hx => by rw [hmem x hx]) hpath

/-- The directory list that the new endpoint descriptor `p` was linked into, searched for a
key that `p` does not have: no match after the creation as before. -/
theorem NoMatch.linked_miss {st st1 st2 : AppleUSBOHCI}
    {p pED fuel tail mask unique : Nat}
    (hL : EndpointLinked st st1 p pED) (heds : st2.eds = st1.eds)
    (h : NoMatch st fuel pED tail mask unique)
    (hp0 : p ≠ 0) (hpt : p ≠ tail)
    (hAp : Absent st pED tail p) (hAh : Absent st pED tail pED)
    (hmiss : (st1.eds p).flags &&& mask ≠ unique) :
    NoMatch st2 (fuel + 1) pED tail mask unique := by
  obtain ⟨l, hpath, hlen, hno⟩ := h
  have hmem : ∀ x ∈ l, st1.eds x = st.eds x := fun x hx =>
    hL.other x (fun e => hAp l hpath (e ▸ hx)) (fun e => hAh l hpath (e ▸ hx))
  refine ⟨p :: l, ?_, by rw [List.length_cons]; omega, ?_⟩
  · rw [heds, hL.next]
    refine ⟨rfl, hpt, hp0, ?_⟩
    rw [hL.newNext]
    exact EDPath.ed_congr tail l _ (fun x hx => by rw [hmem x hx]) hpath
  · intro x hx
    rw [heds]
    rcases List.mem_cons.mp hx with rfl | hx
    · exact hmiss
    · rw [hmem x hx]
      exact hno x hx

/-- The directory list that the new endpoint descriptor `p` was linked into, searched for a
key that `p` has: the search finds `p` behind `pED`. -/
theorem searchEDList_linked_hit {st st1 st2 : AppleUSBOHCI}
    {p pED tail mask unique : Nat} (fuel : Nat)
    (hL : EndpointLinked st st1 p pED) (heds : st2.eds = st1.eds)
    (hp0 : p ≠ 0) (hpt : p ≠ tail) (hhit : (st1.eds p).flags &&& mask = unique) :
    searchEDList st2 mask unique tail (fuel + 1) pED (st2.eds pED).pLogicalNext
      = .ret (some (p, pED)) := by
  rw [heds, hL.next]
  exact searchEDList_first st2 mask unique tail fuel pED p hpt hp0 (by rw [heds]; exact hhit)

/-- The key of `FindInterruptEndpoint` is the key of the other lookups. -/
theorem FindInterruptEndpoint_slots (st : AppleUSBOHCI) (fuel fn en dir : Nat) :
    FindInterruptEndpoint st fuel fn en dir
      = FindInterruptEndpoint.slots st fuel (uniqueKey fn en dir) 63 0 := by
  unfold FindInterruptEndpoint
  have hkey : shl32 (UInt32ofShort en) kOHCIEDControl_ENPhase
      ||| shl32 (UInt32ofShort fn) kOHCIEDControl_FAPhase
      ||| shl32 (UInt32ofShort dir) kOHCIEndpointDirectionOffset = uniqueKey fn en dir := by
    have h32 : UInt32ofShort fn < W32 := by
      unfold UInt32ofShort W32
      split_ifs <;> omega
    simp only [uniqueKey, shl32, kOHCIEDControl_FAPhase, kOHCIEDControl_ENPhase,
      kOHCIEndpointNumberOffset, Nat.shiftLeft_zero, Nat.mod_eq_of_lt h32]
  simp only [hkey]

/-- The interrupt lists after the creation of an endpoint behind the head `pED` of one of
them: the lookup finds the new descriptor `p` behind `pED`. -/
theorem FindInterruptEndpoint.slots_linked {st st1 st2 : AppleUSBOHCI}
    {p pED fuel unique : Nat}
    (hL : EndpointLinked st st1 p pED) (heds : st2.eds = st1.eds) (hS : SentinelsKept st st2)
    (hhit : (st1.eds p).flags &&& kUniqueNumMask = unique)
    (hNo : ∀ k, k < 63 → NoMatch st fuel (st.pInterruptHead k).pHead
      (st.pInterruptHead k).pTail kUniqueNumMask unique)
    (hFree : FreeDescriptor st p) (hMem : NoMember st pED) :
    ∀ (n i : Nat), i + n ≤ 63 →
      (∃ k, i ≤ k ∧ k < i + n ∧ (st.pInterruptHead k).pHead = pED) →
      FindInterruptEndpoint.slots st2 (fuel + 1) unique n i = .ret (some (p, pED))
  | 0, i, _, ⟨k, h1, h2, _⟩ => by omega
  | n + 1, i, hn, ⟨k, h1, h2, h3⟩ => by
    rw [FindInterruptEndpoint.slots, (hS.pInterruptHead i).1, (hS.pInterruptHead i).2]
    by_cases hi : (st.pInterruptHead i).pHead = pED
    · rw [hi, searchEDList_linked_hit fuel hL heds hFree.notNull
        (hFree.interrupt i (by omega)).2 hhit]
      rfl
    · have hno := (NoMatch.linked_other hL heds (hNo i (by omega))
        (fun e => (hFree.interrupt i (by omega)).1 e.symm) hi
        (hFree.member.interrupt i (by omega)) (hMem.interrupt i (by omega))).search
      rw [hno]
      simp only [Outcome.bind_ret]
      refine FindInterruptEndpoint.slots_linked hL heds hS hhit hNo hFree hMem n (i + 1)
        (by omega) ⟨k, ?_, by omega, h3⟩
      rcases Nat.lt_or_ge i k with h | h
      · exact h
      · exact absurd (by rw [show i = k from by omega]; exact h3) hi

/-- The interrupt lists after the creation of an endpoint behind a descriptor `pED` that is the
head of none of them: no match as before. -/
theorem FindInterruptEndpoint.slots_other {st st1 st2 : AppleUSBOHCI}
    {p pED fuel unique : Nat}
    (hL : EndpointLinked st st1 p pED) (heds : st2.eds = st1.eds) (hS : SentinelsKept st st2)
    (hNo : ∀ k, k < 63 → NoMatch st fuel (st.pInterruptHead k).pHead
      (st.pInterruptHead k).pTail kUniqueNumMask unique)
    (hFree : FreeDescriptor st p) (hMem : NoMember st pED)
    (hOther : ∀ k, k < 63 → (st.pInterruptHead k).pHead ≠ pED) :
    FindInterruptEndpoint.slots st2 (fuel + 1) unique 63 0 = .ret none := by
  refine FindInterruptEndpoint.slots_none 63 0 (fun k _ hk => ?_)
  rw [(hS.pInterruptHead k).1, (hS.pInterruptHead k).2]
  exact NoMatch.linked_other hL heds (hNo k (by omega))
    (fun e => (hFree.interrupt k (by omega)).1 e.symm) (hOther k (by omega))
    (hFree.member.interrupt k (by omega)) (hMem.interrupt k (by omega))

/-- The lookup after the creation of an endpoint: `AddEmptyEndPoint` linked the descriptor `p`
with the key of `a`, `e` and the direction `edDir` behind the head `pED` of the control list,
of the bulk list, of an interrupt list or of the isochronous list, in a directory that had no
match for the key before; `FindEndpoint` then finds `p` behind `pED`. -/
theorem FindEndpoint_created {st st1 st2 : AppleUSBOHCI} {fuel a e dir edDir p pED : Nat}
    (hL : EndpointLinked st st1 p pED) (heds : st2.eds = st1.eds) (hS : SentinelsKept st st2)
    (hKey : (st1.eds p).flags &&& kUniqueNumMask = uniqueKey a e edDir)
    (hNoDir : (st1.eds p).flags &&& kUniqueNumNoDirMask = uniqueKeyNoDir a e)
    (hNew : NoMatchAnywhere st fuel a e dir)
    (hFree : FreeDescriptor st p) (hHeads : HeadSentinels st)
    (hTarget : pED = st.pControlHead
      ∨ (pED = st.pBulkHead
          ∧ (edDir = dir ∨ (st.OptiOn = true ∧ edDir = kOHCIEDDirectionTD)))
      ∨ ((∃ i, i < 63 ∧ pED = (st.pInterruptHead i).pHead) ∧ edDir = dir)
      ∨ (pED = st.pIsochHead ∧ edDir = dir)) :
    ∃ mask, FindEndpoint st2 (fuel + 1) a e dir = .ret (some (p, pED, mask)) := by
  obtain ⟨hNc, hNo, hNb, hNi, hNs⟩ := hNew
  -- the lists that the creation did not touch
  have hControl : pED ≠ st.pControlHead → Absent st st.pControlHead st.pControlTail pED →
      NoMatch st2 (fuel + 1) st2.pControlHead st2.pControlTail kUniqueNumNoDirMask
        (uniqueKeyNoDir a e) := fun hne hA => by
    rw [hS.pControlHead, hS.pControlTail]
    exact NoMatch.linked_other hL heds hNc (fun e => hFree.control.1 e.symm)
      (fun e => hne e.symm) hFree.member.control hA
  have hBulk : ∀ d, NoMatch st fuel st.pBulkHead st.pBulkTail kUniqueNumMask (uniqueKey a e d) →
      pED ≠ st.pBulkHead → Absent st st.pBulkHead st.pBulkTail pED →
      NoMatch st2 (fuel + 1) st2.pBulkHead st2.pBulkTail kUniqueNumMask (uniqueKey a e d) :=
    fun d hN hne hA => by
    rw [hS.pBulkHead, hS.pBulkTail]
    exact NoMatch.linked_other hL heds hN (fun e => hFree.bulk.1 e.symm)
      (fun e => hne e.symm) hFree.member.bulk hA
  have hOptiOther : pED ≠ st.pBulkHead → Absent st st.pBulkHead st.pBulkTail pED →
      st2.OptiOn = true → NoMatch st2 (fuel + 1) st2.pBulkHead st2.pBulkTail kUniqueNumMask
        (uniqueKey a e kOHCIEDDirectionTD) := fun hne hA ho =>
    hBulk _ (hNo (by rw [← hS.OptiOn]; exact ho)) hne hA
  rcases hTarget with hT | ⟨hT, hDir⟩ | ⟨⟨i0, hi0, hT⟩, hDir⟩ | ⟨hT, hDir⟩
  · -- the control list
    refine ⟨kOHCIHcControl_CLE, ?_⟩
    have hhit : searchEDList st2 kUniqueNumNoDirMask (uniqueKeyNoDir a e) st2.pControlTail
        (fuel + 1) st2.pControlHead (st2.eds st2.pControlHead).pLogicalNext
        = .ret (some (p, pED)) := by
      rw [hS.pControlHead, hS.pControlTail, ← hT]
      exact searchEDList_linked_hit fuel hL heds hFree.notNull
        hFree.control.2 hNoDir
    unfold uniqueKeyNoDir at hhit
    simp only [FindEndpoint, FindControlEndpoint, hhit, Outcome.bind_ret]
  · -- the bulk list
    have hc := hControl (by rw [hT]; exact hHeads.bulkControl)
      (by rw [hT]; exact hHeads.bulk.control)
    have hpt : p ≠ st.pBulkTail := hFree.bulk.2
    have hhitFor : ∀ d, (st1.eds p).flags &&& kUniqueNumMask = uniqueKey a e d →
        FindBulkEndpoint st2 (fuel + 1) a e d = .ret (some (p, pED)) := fun d hd => by
      show searchEDList st2 kUniqueNumMask (uniqueKey a e d) st2.pBulkTail (fuel + 1)
        st2.pBulkHead (st2.eds st2.pBulkHead).pLogicalNext = _
      rw [hS.pBulkHead, hS.pBulkTail, ← hT]
      exact searchEDList_linked_hit fuel hL heds hFree.notNull hpt hd
    by_cases ho : st2.OptiOn = true
    · by_cases hTD : (st1.eds p).flags &&& kUniqueNumMask = uniqueKey a e kOHCIEDDirectionTD
      · refine ⟨kOHCIHcControl_CLE, ?_⟩
        have hcs := hc.search
        unfold uniqueKeyNoDir at hcs
        simp only [FindEndpoint, FindControlEndpoint, hcs, Outcome.bind_ret, ho, ↓reduceIte,
          hhitFor _ hTD]
      · have hDir' : edDir = dir := by
          rcases hDir with h | ⟨-, h⟩
          · exact h
          · exact absurd (by rw [hKey, h]) hTD
        have hmiss : NoMatch st2 (fuel + 1) st2.pBulkHead st2.pBulkTail kUniqueNumMask
            (uniqueKey a e kOHCIEDDirectionTD) := by
          rw [hS.pBulkHead, hS.pBulkTail, ← hT]
          refine NoMatch.linked_miss hL heds ?_ hFree.notNull hpt ?_ ?_ hTD
          · rw [hT]
            exact hNo (by rw [← hS.OptiOn]; exact ho)
          · rw [hT]
            exact hFree.member.bulk
          · rw [hT]
            exact hHeads.bulk.bulk
        refine ⟨if st2.OptiOn then kOHCIHcControl_CLE else kOHCIHcControl_BLE, ?_⟩
        simp only [FindEndpoint, FindControlEndpoint_none hc (fun _ => hmiss),
          Outcome.bind_ret, hhitFor dir (by rw [hKey, hDir'])]
    · have hDir' : edDir = dir := by
        rcases hDir with h | ⟨h, -⟩
        · exact h
        · exact absurd (by rw [hS.OptiOn]; exact h) ho
      refine ⟨if st2.OptiOn then kOHCIHcControl_CLE else kOHCIHcControl_BLE, ?_⟩
      simp only [FindEndpoint, FindControlEndpoint_none hc (fun h => absurd h ho),
        Outcome.bind_ret, hhitFor dir (by rw [hKey, hDir'])]
  · -- an interrupt list
    refine ⟨0, ?_⟩
    have hneC : pED ≠ st.pControlHead := by rw [hT]; exact hHeads.interruptControl i0 hi0
    have hneB : pED ≠ st.pBulkHead := by rw [hT]; exact hHeads.interruptBulk i0 hi0
    have hMem : NoMember st pED := by rw [hT]; exact hHeads.interrupt i0 hi0
    have hc := hControl hneC hMem.control
    have hb := hBulk dir hNb hneB hMem.bulk
    have hi := FindInterruptEndpoint.slots_linked hL heds hS (by rw [hKey, hDir]) hNi hFree
      hMem 63 0 (by omega) ⟨i0, by omega, by omega, hT.symm⟩
    simp only [FindEndpoint, FindControlEndpoint_none hc (hOptiOther hneB hMem.bulk),
      Outcome.bind_ret, FindBulkEndpoint_none hb, FindInterruptEndpoint_slots, hi]
  · -- the isochronous list
    refine ⟨0, ?_⟩
    have hneC : pED ≠ st.pControlHead := by rw [hT]; exact hHeads.isochControl
    have hneB : pED ≠ st.pBulkHead := by rw [hT]; exact hHeads.isochBulk
    have hMem : NoMember st pED := by rw [hT]; exact hHeads.isoch
    have hc := hControl hneC hMem.control
    have hb := hBulk dir hNb hneB hMem.bulk
    have hi := FindInterruptEndpoint.slots_other hL heds hS hNi hFree hMem
      (fun k hk => by rw [hT]; exact fun e => hHeads.isochInterrupt k hk e.symm)
    have hs : FindIsochronousEndpoint st2 (fuel + 1) a e dir = .ret (some (p, pED)) := by
      show searchEDList st2 kUniqueNumMask (uniqueKey a e dir) st2.pIsochTail (fuel + 1)
        st2.pIsochHead (st2.eds st2.pIsochHead).pLogicalNext = _
      rw [hS.pIsochHead, hS.pIsochTail, ← hT]
      exact searchEDList_linked_hit fuel hL heds hFree.notNull
        hFree.isoch.2 (by rw [hKey, hDir])
    simp only [FindEndpoint, FindControlEndpoint_none hc (hOptiOther hneB hMem.bulk),
      Outcome.bind_ret, FindBulkEndpoint_none hb, FindInterruptEndpoint_slots, hi, hs]

theorem SentinelsKept.sentinels_refl (st : AppleUSBOHCI) : SentinelsKept st st :=
  ⟨rfl, rfl, rfl, rfl, rfl, rfl, fun _ => ⟨rfl, rfl⟩, rfl⟩

theorem SentinelsKept.sentinels_trans {a b c : AppleUSBOHCI} (h1 : SentinelsKept a b)
    (h2 : SentinelsKept b c) : SentinelsKept a c :=
  ⟨h2.pControlHead.trans h1.pControlHead, h2.pControlTail.trans h1.pControlTail,
    h2.pBulkHead.trans h1.pBulkHead, h2.pBulkTail.trans h1.pBulkTail,
    h2.pIsochHead.trans h1.pIsochHead, h2.pIsochTail.trans h1.pIsochTail,
    fun i => ⟨(h2.pInterruptHead i).1.trans (h1.pInterruptHead i).1,
      (h2.pInterruptHead i).2.trans (h1.pInterruptHead i).2⟩,
    h2.OptiOn.trans h1.OptiOn⟩

/-- `AddEmptyEndPoint` leaves the sentinels of the directory alone. -/
theorem EndpointLinked.sentinels {st st1 : AppleUSBOHCI} {p pED : Nat}
    (hL : EndpointLinked st st1 p pED) : SentinelsKept st st1 := by
  have h := hL.frame
  exact ⟨by rw [h], by rw [h], by rw [h], by rw [h], by rw [h], by rw [h],
    fun i => ⟨by rw [h], by rw [h]⟩, by rw [h]⟩

/-- The round trip at `AddEmptyEndPoint`: a call that returned the endpoint descriptor `p`,
behind the head `pED` of a directory list, for a key that the directory did not hold, with
descriptors in the pools that take no part in the directory and lie at multiples of 16: the
lookup finds `p`, and `p` carries the arguments and one placeholder. -/
theorem AddEmptyEndPoint_found {s st1 st2 : AppleUSBOHCI}
    {fuel a e m speed edDir dir pED format p : Nat}
    (ha : a < 128) (he : e < 16) (hm : m < 2048) (hs : speed < 256) (hd : edDir < 4)
    (hf : format < 2)
    (h : AddEmptyEndPoint s a e m speed edDir pED format = .ret (some p, st1))
    (heds : st2.eds = st1.eds) (hS : SentinelsKept st1 st2)
    (hNew : NoMatchAnywhere s fuel a e dir)
    (hPool : ∀ x ∈ s.pFreeED, FreeDescriptor s x) (hHeads : HeadSentinels s)
    (hTD : ∀ t ∈ s.pFreeTD, (s.tds t).pPhysical % 16 = 0)
    (hITD : ∀ t ∈ s.pFreeITD, (s.itds t).pPhysical % 16 = 0)
    (hTarget : pED = s.pControlHead
      ∨ (pED = s.pBulkHead
          ∧ (edDir = dir ∨ (s.OptiOn = true ∧ edDir = kOHCIEDDirectionTD)))
      ∨ ((∃ i, i < 63 ∧ pED = (s.pInterruptHead i).pHead) ∧ edDir = dir)
      ∨ (pED = s.pIsochHead ∧ edDir = dir)) :
    (∃ mask, FindEndpoint st2 (fuel + 1) a e dir = .ret (some (p, pED, mask)))
      ∧ EndpointCreated s st1 p a e edDir speed m format := by
  obtain ⟨e0, rest, hE, hr⟩ := AddEmptyEndPoint_allocated h
  have hpe : p = e0 := by
    rcases hr with hr | hr
    · cases hr
    · exact Option.some.inj hr
  subst hpe
  have hFree : FreeDescriptor s p := hPool p (by rw [hE]; exact List.mem_cons_self _ _)
  have hne : p ≠ pED := by
    rcases hTarget with hT | ⟨hT, -⟩ | ⟨⟨i0, hi0, hT⟩, -⟩ | ⟨hT, -⟩
    · rw [hT]
      exact hFree.control.1
    · rw [hT]
      exact hFree.bulk.1
    · rw [hT]
      exact (hFree.interrupt i0 hi0).1
    · rw [hT]
      exact hFree.isoch.1
  obtain ⟨lk, hflags, t, ph⟩ := AddEmptyEndPoint_linked h hne
  obtain ⟨f1, f2, f3, f4, f5, f6, f7, f8, f9⟩ :=
    endpointFlagsWord_fields a e m speed edDir format ha he hm hs hd hf
  refine ⟨FindEndpoint_created lk heds (lk.sentinels.sentinels_trans hS)
    (by rw [hflags]; exact f8) (by rw [hflags]; exact f9)
    hNew hFree hHeads hTarget, ?_⟩
  have hq : (st1.eds p).tdQueueHeadPtr = (st1.eds p).tdQueueTailPtr
      ∧ (st1.eds p).tdQueueHeadPtr % 16 = 0 := by
    by_cases hg : format = kOHCIEDFormatGeneralTD
    · obtain ⟨hpool, -, htail, hhead⟩ := ph.general hg
      refine ⟨by rw [hhead, htail], ?_⟩
      rw [hhead]
      exact hTD t (by rw [hpool]; exact List.mem_cons_self _ _)
    · obtain ⟨hpool, -, htail, hhead⟩ := ph.isoch hg
      refine ⟨by rw [hhead, htail], ?_⟩
      rw [hhead]
      exact hITD t (by rw [hpool]; exact List.mem_cons_self _ _)
  refine ⟨?_, ?_, ?_, ?_, ?_, ?_, ?_, hq.1, (headPointer_bits_of_aligned _ hq.2).1, t, ph⟩
  · rw [hflags]
    exact f1
  · rw [hflags]
    exact f2
  · rw [hflags]
    exact f3
  · rw [hflags]
    exact f4
  · rw [hflags]
    exact f5
  · unfold GetEDType
    rw [hflags]
    exact f6
  · rw [hflags]
    exact f7

/-- The slot that `DetermineInterruptOffset` gives is one of the 63 interrupt lists. -/
theorem DetermineInterruptOffset_slot {st : AppleUSBOHCI} {pollingRate offset : Nat}
    (h : DetermineInterruptOffset st pollingRate = some offset) : offset < 63 := by
  unfold DetermineInterruptOffset at h
  dsimp only at h
  split_ifs at h <;> simp only [Option.some.injEq, reduceCtorEq] at h <;> omega

/-- The direction field of an endpoint descriptor is one of three values. -/
theorem edDirection_lt (direction : Nat) : edDirection direction < 4 := by
  unfold edDirection
  split_ifs <;> decide

/-- C21 (amended): the round trip of creation and lookup, for a device other than the root
hub and a key that the directory does not hold yet (`NoMatchAnywhere`), with function address
`a < 128`, endpoint number `e < 16`, a speed argument of 8 bits and max packet size `m < 2048`
(`m < 256` for a bulk endpoint, whose argument has 8 bits), in a driver whose pooled endpoint
descriptors take no part in the directory, whose list heads are sentinels only, and whose
pooled transfer descriptors lie at multiples of 16.  After a creation that returned
`kIOReturnSuccess`, `FindEndpoint` for `(a, e, d)` returns an endpoint descriptor `p` whose
fields are the arguments (the direction field is the code of `d`, `kOHCIEDDirectionTD` for a
control endpoint; the speed bit is that of the speed argument, full speed for an isochronous
endpoint; the format is general, isochronous for an isochronous endpoint), whose skip bit is
clear, whose head pointer is its tail pointer without the halted bit, both designating the
one descriptor that the creation took from the pool of its format. -/
theorem endpoint_round_trip (X : Collaborators) (st st1 : AppleUSBOHCI)
    (fuel a e direction speed m pollingRate : Nat)
    (ha : a < 128) (he : e < 16) (hm : m < 2048) (hs : speed < 256)
    (hRoot : st.rootHubFuncAddress ≠ a)
    (hNew : NoMatchAnywhere st fuel a e (edDirection direction))
    (hPool : ∀ x ∈ st.pFreeED, FreeDescriptor st x) (hHeads : HeadSentinels st)
    (hTD : ∀ t ∈ st.pFreeTD, (st.tds t).pPhysical % 16 = 0)
    (hITD : ∀ t ∈ st.pFreeITD, (st.itds t).pPhysical % 16 = 0) :
    (UIMCreateControlEndpoint X st a e m speed = .ret (.kIOReturnSuccess, st1) →
        ∃ p back mask,
          FindEndpoint st1 (fuel + 1) a e (edDirection direction)
              = .ret (some (p, back, mask))
            ∧ EndpointCreated st st1 p a e kOHCIEDDirectionTD speed m kOHCIEDFormatGeneralTD)
      ∧ (m < 256 →
        UIMCreateBulkEndpoint st a e direction speed m = .ret (.kIOReturnSuccess, st1) →
        ∃ p back mask,
          FindEndpoint st1 (fuel + 1) a e (edDirection direction)
              = .ret (some (p, back, mask))
            ∧ EndpointCreated st st1 p a e (edDirection direction) speed m
                kOHCIEDFormatGeneralTD)
      ∧ (UIMCreateInterruptEndpoint X st a e direction speed m pollingRate
            = .ret (.kIOReturnSuccess, st1) →
        ∃ p back mask,
          FindEndpoint st1 (fuel + 1) a e (edDirection direction)
              = .ret (some (p, back, mask))
            ∧ EndpointCreated st st1 p a e (edDirection direction) speed m
                kOHCIEDFormatGeneralTD)
      ∧ (UIMCreateIsochEndpoint st fuel a e m direction = .ret (.kIOReturnSuccess, st1) →
        ∃ p back mask,
          FindEndpoint st1 (fuel + 1) a e (edDirection direction)
              = .ret (some (p, back, mask))
            ∧ EndpointCreated st st1 p a e (edDirection direction) kUSBDeviceSpeedFull m
                kOHCIEDFormatIsochronousTD) := by
  obtain ⟨hNc, hNo, hNb, hNi, hNs⟩ := hNew
  refine ⟨fun h => ?_, fun hm8 h => ?_, fun h => ?_, fun h => ?_⟩
  · -- control
    unfold UIMCreateControlEndpoint at h
    rw [if_neg hRoot] at h
    dsimp only at h
    obtain ⟨⟨r, s'⟩, hadd, hret⟩ := Outcome.bind_eq_ret h
    rcases r with _ | p
    · simp only [Outcome.ret.injEq, Prod.mk.injEq, reduceCtorEq, false_and] at hret
    simp only [Outcome.ret.injEq, Prod.mk.injEq, true_and] at hret
    subst hret
    by_cases hO : speed = kUSBDeviceSpeedFull ∧ st.OptiOn = true
    · rw [if_pos hO] at hadd
      obtain ⟨⟨mask, hfind⟩, hc⟩ := AddEmptyEndPoint_found ha he hm hs (by decide) (by decide)
        hadd rfl (SentinelsKept.sentinels_refl _) ⟨hNc, hNo, hNb, hNi, hNs⟩ hPool hHeads hTD
        hITD (Or.inr (Or.inl ⟨rfl, Or.inr ⟨hO.2, rfl⟩⟩))
      exact ⟨p, _, mask, hfind, hc⟩
    · rw [if_neg hO] at hadd
      obtain ⟨⟨mask, hfind⟩, hc⟩ := AddEmptyEndPoint_found ha he hm hs (by decide) (by decide)
        hadd rfl (SentinelsKept.sentinels_refl _) ⟨hNc, hNo, hNb, hNi, hNs⟩ hPool hHeads hTD
        hITD (Or.inl rfl)
      exact ⟨p, _, mask, hfind, hc⟩
  · -- bulk
    unfold UIMCreateBulkEndpoint at h
    dsimp only at h
    have h8 : toUInt8 m = m := by
      unfold toUInt8
      omega
    rw [h8] at h
    obtain ⟨⟨r, s'⟩, hadd, hret⟩ := Outcome.bind_eq_ret h
    rcases r with _ | p
    · simp only [Outcome.ret.injEq, Prod.mk.injEq, reduceCtorEq, false_and] at hret
    simp only [Outcome.ret.injEq, Prod.mk.injEq, true_and] at hret
    subst hret
    obtain ⟨⟨mask, hfind⟩, hc⟩ := AddEmptyEndPoint_found ha he hm hs (edDirection_lt _)
      (by decide) hadd rfl (SentinelsKept.sentinels_refl _) ⟨hNc, hNo, hNb, hNi, hNs⟩ hPool
      hHeads hTD hITD (Or.inr (Or.inl ⟨rfl, Or.inl rfl⟩))
    exact ⟨p, _, mask, hfind, hc⟩
  · -- interrupt
    unfold UIMCreateInterruptEndpoint at h
    rw [if_neg hRoot] at h
    dsimp only at h
    split at h
    · simp only [Outcome.ret.injEq, Prod.mk.injEq, reduceCtorEq, false_and] at h
    rename_i offset hoff
    obtain ⟨⟨r, s'⟩, hadd, hret⟩ := Outcome.bind_eq_ret h
    rcases r with _ | p
    · simp only [Outcome.ret.injEq, Prod.mk.injEq, reduceCtorEq, false_and] at hret
    simp only [Outcome.ret.injEq, Prod.mk.injEq, true_and] at hret
    have hslot := DetermineInterruptOffset_slot hoff
    have heds : st1.eds = s'.eds := by rw [← hret]
    have hS : SentinelsKept s' st1 := by
      rw [← hret]
      refine ⟨rfl, rfl, rfl, rfl, rfl, rfl, fun i => ?_, rfl⟩
      show ((Function.update s'.pInterruptHead offset _) i).pHead = _
        ∧ ((Function.update s'.pInterruptHead offset _) i).pTail = _
      by_cases hi : i = offset
      · subst hi
        rw [Function.update_same]
        exact ⟨rfl, rfl⟩
      · rw [Function.update_noteq hi]
        exact ⟨rfl, rfl⟩
    obtain ⟨⟨mask, hfind⟩, hc⟩ := AddEmptyEndPoint_found ha he hm hs (edDirection_lt _)
      (by decide) hadd heds hS ⟨hNc, hNo, hNb, hNi, hNs⟩ hPool hHeads hTD hITD
      (Or.inr (Or.inr (Or.inl ⟨⟨offset, hslot, rfl⟩, rfl⟩)))
    refine ⟨p, _, mask, hfind, ?_⟩
    obtain ⟨c1, c2, c3, c4, c5, c6, c7, c8, c9, t, ph⟩ := hc
    subst hret
    exact ⟨c1, c2, c3, c4, c5, c6, c7, c8, c9, t, ⟨ph.tail, ph.head, ph.general, ph.isoch⟩⟩
  · -- isochronous
    unfold UIMCreateIsochEndpoint at h
    dsimp only at h
    rw [FindIsochronousEndpoint_none hNs] at h
    simp only [Outcome.bind_ret] at h
    split_ifs at h with hbw
    · simp only [Outcome.ret.injEq, Prod.mk.injEq, reduceCtorEq, false_and] at h
    obtain ⟨⟨r, s'⟩, hadd, hret⟩ := Outcome.bind_eq_ret h
    rcases r with _ | p
    · simp only [Outcome.ret.injEq, Prod.mk.injEq, reduceCtorEq, false_and] at hret
    simp only [Outcome.ret.injEq, Prod.mk.injEq, true_and] at hret
    subst hret
    have hFreeS : ∀ x ∈ st.pFreeED, FreeDescriptor
        { st with isochBandwidthAvail := sub32 st.isochBandwidthAvail m } x := fun x hx =>
      ⟨(hPool x hx).notNull, (hPool x hx).control, (hPool x hx).bulk, (hPool x hx).interrupt,
        (hPool x hx).isoch, ⟨(hPool x hx).member.control, (hPool x hx).member.bulk,
          (hPool x hx).member.interrupt, (hPool x hx).member.isoch⟩⟩
    have hMemS : ∀ x, NoMember st x → NoMember
        { st with isochBandwidthAvail := sub32 st.isochBandwidthAvail m } x := fun x hx =>
      ⟨hx.control, hx.bulk, hx.interrupt, hx.isoch⟩
    have hHeadsS : HeadSentinels
        { st with isochBandwidthAvail := sub32 st.isochBandwidthAvail m } :=
      ⟨hMemS _ hHeads.control, hMemS _ hHeads.bulk, fun i hi => hMemS _ (hHeads.interrupt i hi),
        hMemS _ hHeads.isoch, hHeads.bulkControl, hHeads.interruptControl,
        hHeads.interruptBulk, hHeads.isochControl, hHeads.isochBulk, hHeads.isochInterrupt⟩
    obtain ⟨⟨mask, hfind⟩, hc⟩ := AddEmptyEndPoint_found ha he hm (by decide)
      (edDirection_lt _) (by decide) hadd rfl (SentinelsKept.sentinels_refl _)
      ⟨hNc, hNo, hNb, hNi, hNs⟩ hFreeS hHeadsS hTD hITD
      (Or.inr (Or.inr (Or.inr ⟨rfl, rfl⟩)))
    obtain ⟨c1, c2, c3, c4, c5, c6, c7, c8, c9, t, ph⟩ := hc
    exact ⟨p, _, mask, hfind, c1, c2, c3, c4, c5, c6, c7, c8, c9, t,
      ⟨ph.tail, ph.head, ph.general, ph.isoch⟩⟩

/-- The lists of the example driver with one bulk endpoint: the bulk list holds the descriptor
20, the other lists are empty; a descriptor other than 20 is no member of the directory. -/
theorem exampleBulkState_no_member (x : Nat) (hx : x ≠ 20) : NoMember exampleBulkState x := by
  have hb : EDPath exampleBulkState.eds 4 (exampleBulkState.eds 3).pLogicalNext [20] :=
    ⟨by decide, by decide, by decide,
      (by show (exampleBulkState.eds 20).pLogicalNext = 4; decide)⟩
  have hc : EDPath exampleBulkState.eds 2 (exampleBulkState.eds 1).pLogicalNext [] := by
    show (exampleBulkState.eds 1).pLogicalNext = 2
    decide
  have hi : EDPath exampleBulkState.eds 8 (exampleBulkState.eds 7).pLogicalNext [] := by
    show (exampleBulkState.eds 7).pLogicalNext = 8
    decide
  have hs : EDPath exampleBulkState.eds 6 (exampleBulkState.eds 5).pLogicalNext [] := by
    show (exampleBulkState.eds 5).pLogicalNext = 6
    decide
  exact ⟨Absent.of_path [] hc (List.not_mem_nil x),
    Absent.of_path [20] hb (by simp [hx]),
    fun i _ => Absent.of_path [] hi (List.not_mem_nil x),
    Absent.of_path [] hs (List.not_mem_nil x)⟩

/-- The directory of the example driver with one bulk endpoint has no descriptor for the
endpoint 3 of the device 5. -/
theorem exampleBulkState_new_key :
    NoMatchAnywhere exampleBulkState 5 5 3 (edDirection kUSBOut) := by
  have hb : ∀ unique, unique ≠ 0x905 →
      NoMatch exampleBulkState 5 exampleBulkState.pBulkHead exampleBulkState.pBulkTail
        kUniqueNumMask unique := fun unique hu => by
    refine ⟨[20], ⟨by decide, by decide, by decide,
      (by show (exampleBulkState.eds 20).pLogicalNext = 4; decide)⟩, by decide, ?_⟩
    intro x hx
    simp only [List.mem_singleton] at hx
    subst hx
    have h20 : (exampleBulkState.eds 20).flags &&& kUniqueNumMask = 0x905 := by decide
    rw [h20]
    exact fun e => hu e.symm
  refine ⟨⟨[], ?_, by decide, by simp⟩, fun _ => hb _ (by decide), hb _ (by decide),
    fun i _ => ⟨[], ?_, by decide, by simp⟩, ⟨[], ?_, by decide, by simp⟩⟩
  · show (exampleBulkState.eds 1).pLogicalNext = 2
    decide
  · show (exampleBulkState.eds 7).pLogicalNext = 8
    decide
  · show (exampleBulkState.eds 5).pLogicalNext = 6
    decide

theorem exampleBulkState_pool : ∀ x ∈ exampleBulkState.pFreeED,
    FreeDescriptor exampleBulkState x := by
  intro x hx
  have h21 : x = 21 := by
    have hp : exampleBulkState.pFreeED = [21] := by decide
    rw [hp] at hx
    simpa using hx
  subst h21
  exact ⟨by decide, by decide, by decide,
    fun i _ => (by show (21 : Nat) ≠ 7 ∧ (21 : Nat) ≠ 8; decide), by decide,
    exampleBulkState_no_member 21 (by decide)⟩

theorem exampleBulkState_heads : HeadSentinels exampleBulkState :=
  ⟨exampleBulkState_no_member _ (by decide), exampleBulkState_no_member _ (by decide),
    fun i _ => exampleBulkState_no_member _ (by show (7 : Nat) ≠ 20; decide),
    exampleBulkState_no_member _ (by decide), by decide,
    fun i _ => (by show (7 : Nat) ≠ 1; decide),
    fun i _ => (by show (7 : Nat) ≠ 3; decide), by decide, by decide,
    fun i _ => (by show (5 : Nat) ≠ 7; decide)⟩

theorem exampleTwoBulkState_created :
    UIMCreateBulkEndpoint exampleBulkState 5 3 kUSBOut kUSBDeviceSpeedFull 64
      = .ret (.kIOReturnSuccess, exampleTwoBulkState) := by
  unfold UIMCreateBulkEndpoint
  dsimp only
  rw [show toUInt8 64 = 64 from by decide,
    show edDirection kUSBOut = kOHCIEDDirectionOut from by decide,
    show exampleBulkState.pBulkHead = 3 from by decide, exampleTwoBulkState_call]
  rfl

/-- Witness for C21 (amended): the example driver with the bulk endpoint 5:2 out; the creation
of the bulk endpoint 5:3 out with max packet size 64 succeeds, and the round trip holds for
it. -/
theorem endpoint_round_trip_witness :
    UIMCreateBulkEndpoint exampleBulkState 5 3 kUSBOut kUSBDeviceSpeedFull 64
        = .ret (.kIOReturnSuccess, exampleTwoBulkState)
      ∧ ((UIMCreateControlEndpoint exampleCollaborators exampleBulkState 5 3 64
            kUSBDeviceSpeedFull = .ret (.kIOReturnSuccess, exampleTwoBulkState) →
        ∃ p back mask,
          FindEndpoint exampleTwoBulkState (5 + 1) 5 3 (edDirection kUSBOut)
              = .ret (some (p, back, mask))
            ∧ EndpointCreated exampleBulkState exampleTwoBulkState p 5 3 kOHCIEDDirectionTD
                kUSBDeviceSpeedFull 64 kOHCIEDFormatGeneralTD)
      ∧ (64 < 256 →
        UIMCreateBulkEndpoint exampleBulkState 5 3 kUSBOut kUSBDeviceSpeedFull 64
            = .ret (.kIOReturnSuccess, exampleTwoBulkState) →
        ∃ p back mask,
          FindEndpoint exampleTwoBulkState (5 + 1) 5 3 (edDirection kUSBOut)
              = .ret (some (p, back, mask))
            ∧ EndpointCreated exampleBulkState exampleTwoBulkState p 5 3
                (edDirection kUSBOut) kUSBDeviceSpeedFull 64 kOHCIEDFormatGeneralTD)
      ∧ (UIMCreateInterruptEndpoint exampleCollaborators exampleBulkState 5 3 kUSBOut
            kUSBDeviceSpeedFull 64 10 = .ret (.kIOReturnSuccess, exampleTwoBulkState) →
        ∃ p back mask,
          FindEndpoint exampleTwoBulkState (5 + 1) 5 3 (edDirection kUSBOut)
              = .ret (some (p, back, mask))
            ∧ EndpointCreated exampleBulkState exampleTwoBulkState p 5 3
                (edDirection kUSBOut) kUSBDeviceSpeedFull 64 kOHCIEDFormatGeneralTD)
      ∧ (UIMCreateIsochEndpoint exampleBulkState 5 5 3 64 kUSBOut
            = .ret (.kIOReturnSuccess, exampleTwoBulkState) →
        ∃ p back mask,
          FindEndpoint exampleTwoBulkState (5 + 1) 5 3 (edDirection kUSBOut)
              = .ret (some (p, back, mask))
            ∧ EndpointCreated exampleBulkState exampleTwoBulkState p 5 3
                (edDirection kUSBOut) kUSBDeviceSpeedFull 64 kOHCIEDFormatIsochronousTD)) :=
  ⟨exampleTwoBulkState_created,
    endpoint_round_trip exampleCollaborators exampleBulkState exampleTwoBulkState 5 5 3
      kUSBOut kUSBDeviceSpeedFull 64 10 (by decide) (by decide) (by decide) (by decide)
      (by decide) exampleBulkState_new_key exampleBulkState_pool exampleBulkState_heads
      (by decide) (by decide)⟩

/-- The claim C21 fails in three ways.  For a bulk endpoint with a max packet size of 256 or
more, which the 8 bits of the `maxPacketSize` argument of `UIMCreateBulkEndpoint` do not hold:
on the example driver, whose directory has no endpoint 5:3, the creation of the bulk endpoint
5:3 out with max packet size 512 succeeds and the lookup finds the new descriptor 21, whose max
packet size field is 0, not 512.  And for a key that the directory holds already, since no
creation looks the key up in the lists of the other types: on the example driver, whose
directory holds the bulk endpoint 5:2 out as descriptor 20, the creation of the isochronous
endpoint 5:2 out of 64 bytes succeeds and takes descriptor 21 from the pool, and the lookup
still returns the bulk descriptor 20, of general format, not the new descriptor 21.  And for
the root hub, whose address is 1 in the example driver: `UIMCreateControlEndpoint` hands the
creation over to `SimulateControlEDCreate` and returns what that returns, making no endpoint
descriptor itself; with a simulation that reports success and leaves the directory alone the
creation succeeds and the lookup for the key returns `NULL`. -/
theorem endpoint_round_trip_counterexample :
    (exampleBulkState.rootHubFuncAddress ≠ 5
      ∧ FindEndpoint exampleBulkState 5 5 3 (edDirection kUSBOut) = .ret none
      ∧ UIMCreateBulkEndpoint exampleBulkState 5 3 kUSBOut kUSBDeviceSpeedFull 512
        = .ret (.kIOReturnSuccess, exampleTruncatedState)
      ∧ FindEndpoint exampleTruncatedState 6 5 3 (edDirection kUSBOut)
        = .ret (some (21, 3, kOHCIHcControl_BLE))
      ∧ ((exampleTruncatedState.eds 21).flags &&& kOHCIEDControl_MPS)
          >>> kOHCIEDControl_MPSPhase = 0
      ∧ ((exampleTruncatedState.eds 21).flags &&& kOHCIEDControl_MPS)
          >>> kOHCIEDControl_MPSPhase ≠ 512)
    ∧ (FindEndpoint exampleBulkState 5 5 2 (edDirection kUSBOut)
          = .ret (some (20, 3, kOHCIHcControl_BLE))
      ∧ exampleBulkState.pFreeED = [21]
      ∧ UIMCreateIsochEndpoint exampleBulkState 5 5 2 64 kUSBOut
        = .ret (.kIOReturnSuccess, exampleShadowedState)
      ∧ exampleShadowedState.pFreeED = []
      ∧ FindIsochronousEndpoint exampleShadowedState 6 5 2 (edDirection kUSBOut)
        = .ret (some (21, 5))
      ∧ GetEDType exampleShadowedState 21 = kOHCIEDFormatIsochronousTD
      ∧ FindEndpoint exampleShadowedState 6 5 2 (edDirection kUSBOut)
        = .ret (some (20, 3, kOHCIHcControl_BLE))
      ∧ GetEDType exampleShadowedState 20 = kOHCIEDFormatGeneralTD
      ∧ GetEDType exampleShadowedState 20 ≠ kOHCIEDFormatIsochronousTD)
    ∧ (exampleBulkState.rootHubFuncAddress = 1
      ∧ (∀ X : Collaborators,
          UIMCreateControlEndpoint X exampleBulkState 1 0 8 kUSBDeviceSpeedFull
            = .ret (X.SimulateControlEDCreate 8 exampleBulkState))
      ∧ UIMCreateControlEndpoint exampleCollaborators exampleBulkState 1 0 8
          kUSBDeviceSpeedFull = .ret (.kIOReturnSuccess, exampleBulkState)
      ∧ FindEndpoint exampleBulkState 6 1 0 kOHCIEDDirectionTD = .ret none) := by
  refine ⟨⟨by decide, rfl, Outcome.ret_stateOr _ ⟨_, rfl⟩, rfl, by decide, by decide⟩,
    ⟨rfl, rfl, Outcome.ret_stateOr _ ⟨_, rfl⟩, rfl, by rfl, by rfl, by rfl, by rfl, ?_⟩,
    rfl, fun X => rfl, rfl, by rfl⟩
  decide

/-! ## Lookup after a deletion -/

/-- What `UIMDeleteEndpoint` does to the directory when its lookup finds the endpoint
descriptor `pED` behind `back`, with collaborators that leave the directory alone: it returns
`kIOReturnSuccess`; the sentinels are as before, the flags of every descriptor but `pED` are
as before, `back` takes over the links of `pED`, logical and physical, and the links of every
other descriptor are as before, but for the physical link of `pED`, which is cleared. -/
theorem UIMDeleteEndpoint_unlinked {X : Collaborators} (hX : X.keepLists)
    {st : AppleUSBOHCI} {fuel functionAddress endpointNumber direction pED back mask : Nat}
    (hroot : functionAddress ≠ st.rootHubFuncAddress)
    (hfind : FindEndpoint st fuel functionAddress endpointNumber (edDirection direction)
      = .ret (some (pED, back, mask))) (hback : back ≠ pED) :
    ∃ st', UIMDeleteEndpoint X st fuel functionAddress endpointNumber direction
        = .ret (.kIOReturnSuccess, st')
      ∧ SentinelsKept st st' ∧ st'.rootHubFuncAddress = st.rootHubFuncAddress
      ∧ (∀ x, x ≠ pED → (st'.eds x).flags = (st.eds x).flags)
      ∧ (st'.eds back).pLogicalNext = (st.eds pED).pLogicalNext
      ∧ (∀ x, x ≠ back → (st'.eds x).pLogicalNext = (st.eds x).pLogicalNext)
      ∧ (st'.eds back).nextED = (st.eds pED).nextED
      ∧ (∀ x, x ≠ back → x ≠ pED → (st'.eds x).nextED = (st.eds x).nextED) := by
  obtain ⟨s1, hs1⟩ : ∃ s1, s1 = setED (setED (setED st pED fun ed =>
      { ed with flags := ed.flags ||| kOHCIEDControl_K }) back fun ed =>
      { ed with nextED := (st.eds pED).nextED }) back fun ed =>
      { ed with pLogicalNext := (st.eds pED).pLogicalNext } := ⟨_, rfl⟩
  have e0 : SentinelsKept st s1 ∧ s1.rootHubFuncAddress = st.rootHubFuncAddress := by
    rw [hs1]
    exact ⟨⟨rfl, rfl, rfl, rfl, rfl, rfl, fun _ => ⟨rfl, rfl⟩, rfl⟩, rfl⟩
  have e3 : ∀ x, x ≠ pED → (s1.eds x).flags = (st.eds x).flags := by
    intro x hx
    rw [hs1]
    by_cases hb : x = back
    · subst hb
      simp [setED, Function.update_noteq hx]
    · simp [setED, Function.update_noteq hx, Function.update_noteq hb]
  have e4 : (s1.eds back).pLogicalNext = (st.eds pED).pLogicalNext
      ∧ (s1.eds back).nextED = (st.eds pED).nextED := by
    rw [hs1]
    simp [setED]
  have e5 : ∀ x, x ≠ back → (s1.eds x).pLogicalNext = (st.eds x).pLogicalNext
      ∧ (s1.eds x).nextED = (st.eds x).nextED := by
    intro x hx
    rw [hs1]
    by_cases hp : x = pED
    · subst hp
      simp [setED, Function.update_noteq hx]
    · simp [setED, Function.update_noteq hx, Function.update_noteq hp]
  have hcall0 : ∃ st', UIMDeleteEndpoint X st fuel functionAddress endpointNumber direction
      = .ret (.kIOReturnSuccess, st') := by
    unfold UIMDeleteEndpoint
    rw [if_neg hroot]
    dsimp only
    rw [hfind]
    exact ⟨_, rfl⟩
  obtain ⟨st', h⟩ := hcall0
  have hcall : ∃ s2 s4, ListsKept s1 s2 ∧ ListsKept s2 s4
      ∧ st' = X.DeallocateED pED (setED s4 pED fun ed => { ed with nextED := 0 }) := by
    have h' := h
    unfold UIMDeleteEndpoint at h'
    rw [if_neg hroot] at h'
    dsimp only at h'
    rw [hfind] at h'
    simp only [Outcome.bind_ret, Outcome.ret.injEq, Prod.mk.injEq, true_and] at h'
    have hnext : ((setED (setED st pED fun ed =>
        { ed with flags := ed.flags ||| kOHCIEDControl_K }) back fun ed =>
        { ed with nextED := ((setED st pED fun ed =>
          { ed with flags := ed.flags ||| kOHCIEDControl_K }).eds pED).nextED }).eds
          pED).pLogicalNext = (st.eds pED).pLogicalNext := by
      simp [setED, Function.update_noteq hback.symm]
    have hnext2 : ((setED st pED fun ed =>
        { ed with flags := ed.flags ||| kOHCIEDControl_K }).eds pED).nextED
        = (st.eds pED).nextED := by
      simp [setED]
    rw [hnext, hnext2, ← hs1] at h'
    refine ⟨writeRegister (waitForSOF X (writeRegister s1 .hcControl
      (andNot32 (s1.pOHCIRegisters .hcControl) mask &&& 0x7FF))) .hcControl
      (andNot32 (s1.pOHCIRegisters .hcControl) mask &&& 0x7FF ||| mask), _, ?_, ?_, h'.symm⟩
    · exact ((writeRegister_lists s1 _ _).lists_trans (waitForSOF_lists hX _)).lists_trans
        (writeRegister_lists _ _ _)
    · split_ifs
      · refine ListsKept.lists_trans ?_ (hX.removeAllTDs pED _)
        exact ⟨fun _ => rfl, fun _ => rfl, fun _ => rfl, rfl, rfl, rfl, rfl, rfl, rfl, rfl,
          rfl, rfl⟩
      · exact hX.removeAllTDs pED _
  obtain ⟨s2, s4, k12, k24, hst'⟩ := hcall
  have k14 := k12.lists_trans k24
  have k6 := hX.deallocateED pED (setED s4 pED fun ed => { ed with nextED := 0 })
  rw [← hst'] at k6
  have f4 : ∀ x, (st'.eds x).flags = (s1.eds x).flags := by
    intro x
    rw [k6.flags x, ← k14.flags x]
    by_cases hx : x = pED
    · subst hx
      simp [setED]
    · simp [setED, Function.update_noteq hx]
  have n4 : ∀ x, (st'.eds x).pLogicalNext = (s1.eds x).pLogicalNext := by
    intro x
    rw [k6.next x, ← k14.next x]
    by_cases hx : x = pED
    · subst hx
      simp [setED]
    · simp [setED, Function.update_noteq hx]
  have p4 : ∀ x, x ≠ pED → (st'.eds x).nextED = (s1.eds x).nextED := by
    intro x hx
    rw [k6.nextED x, ← k14.nextED x]
    simp [setED, Function.update_noteq hx]
  refine ⟨st', h, ?_, ?_, fun x hx => ?_, ?_, fun x hx => ?_, ?_, fun x hx hx' => ?_⟩
  · refine e0.1.sentinels_trans ⟨?_, ?_, ?_, ?_, ?_, ?_, fun i => ?_, ?_⟩
    · rw [k6.pControlHead]
      exact k14.pControlHead
    · rw [k6.pControlTail]
      exact k14.pControlTail
    · rw [k6.pBulkHead]
      exact k14.pBulkHead
    · rw [k6.pBulkTail]
      exact k14.pBulkTail
    · rw [k6.pIsochHead]
      exact k14.pIsochHead
    · rw [k6.pIsochTail]
      exact k14.pIsochTail
    · rw [k6.pInterruptHead]
      show (s4.pInterruptHead i).pHead = _ ∧ (s4.pInterruptHead i).pTail = _
      rw [k14.pInterruptHead]
      exact ⟨rfl, rfl⟩
    · rw [k6.OptiOn]
      exact k14.OptiOn
  · rw [k6.rootHubFuncAddress]
    exact k14.rootHubFuncAddress.trans e0.2
  · rw [f4, e3 x hx]
  · rw [n4, e4.1]
  · rw [n4, (e5 x hx).1]
  · rw [p4 back hback, e4.2]
  · rw [p4 x hx', (e5 x hx).2]

/-- A directory list after the unlinking of `pED` from behind `back`: the members are those of
before without `pED`, in the same order, and none of them matches the key. -/
theorem OnlyMatch.unlinked {st st' : AppleUSBOHCI}
    {fuel head tail mask unique pED back : Nat}
    (h : OnlyMatch st fuel head tail mask unique pED back)
    (hflags : ∀ x, x ≠ pED → (st'.eds x).flags = (st.eds x).flags)
    (hbackNext : (st'.eds back).pLogicalNext = (st.eds pED).pLogicalNext)
    (hnext : ∀ x, x ≠ back → (st'.eds x).pLogicalNext = (st.eds x).pLogicalNext) :
    NoMatch st' fuel head tail mask unique ∧ SameOrder st st' head tail pED := by
  obtain ⟨l, hpath, hlen, hnd, hno, hcase⟩ := h
  have hkey : ∃ l', EDPath st'.eds tail (st'.eds head).pLogicalNext l' ∧ l' = l.erase pED
      ∧ l'.length < fuel ∧ ∀ x ∈ l', x ∈ l ∧ x ≠ pED := by
    rcases hcase with ⟨hp, hb, hbh⟩ | ⟨pre, post, hl, hb⟩
    · refine ⟨l, ?_, (List.erase_of_not_mem hp).symm, hlen,
        fun x hx => ⟨hx, fun e => hp (e ▸ hx)⟩⟩
      rw [hnext head (fun e => hbh e.symm)]
      exact EDPath.ed_congr tail l _ (fun x hx => hnext x (fun e => hb (e ▸ hx))) hpath
    · subst hl
      have hnd2 := (List.nodup_cons.mp hnd).2
      have hpre : pED ∉ pre := fun hm =>
        (List.nodup_append.mp hnd2).2.2 hm (List.mem_cons_self _ _) 
      have hpost : pED ∉ post := fun hm => by
        have := (List.nodup_append.mp hnd2).2.1
        exact (List.nodup_cons.mp this).1 hm
      refine ⟨pre ++ post, ?_, ?_, ?_, ?_⟩
      · exact EDPath.unlink tail pED post pre head hnd hpath (by rw [← hb]; exact hbackNext)
          (fun x hx => hnext x (by rw [hb]; exact hx))
      · rw [List.erase_append_right _ hpre, List.erase_cons_head]
      · rw [List.length_append] at hlen ⊢
        rw [List.length_cons] at hlen
        omega
      · intro x hx
        rcases List.mem_append.mp hx with hx | hx
        · exact ⟨List.mem_append_left _ hx, fun e => hpre (e ▸ hx)⟩
        · exact ⟨List.mem_append_right _ (List.mem_cons_of_mem _ hx), fun e => hpost (e ▸ hx)⟩
  obtain ⟨l', hpath', hl', hlen', hmem⟩ := hkey
  refine ⟨⟨l', hpath', hlen', fun x hx => ?_⟩, fun l0 hl0 => ?_⟩
  · rw [hflags x (hmem x hx).2]
    exact hno x (hmem x hx).1 (hmem x hx).2
  · rw [EDPath.path_unique tail l0 l _ hl0 hpath, ← hl']
    exact hpath'

/-- The directory after the unlinking of the only descriptor with the key: no list has a
match, and every list has the members of before in the same order. -/
theorem OnlyMatchAnywhere.unlinked_anywhere {st st' : AppleUSBOHCI}
    {fuel a e dir pED back : Nat}
    (h : OnlyMatchAnywhere st fuel a e dir pED back) (hS : SentinelsKept st st')
    (hflags : ∀ x, x ≠ pED → (st'.eds x).flags = (st.eds x).flags)
    (hbackNext : (st'.eds back).pLogicalNext = (st.eds pED).pLogicalNext)
    (hnext : ∀ x, x ≠ back → (st'.eds x).pLogicalNext = (st.eds x).pLogicalNext) :
    NoMatchAnywhere st' fuel a e dir
      ∧ SameOrder st st' st.pControlHead st.pControlTail pED
      ∧ SameOrder st st' st.pBulkHead st.pBulkTail pED
      ∧ (∀ i, i < 63 →
          SameOrder st st' (st.pInterruptHead i).pHead (st.pInterruptHead i).pTail pED)
      ∧ SameOrder st st' st.pIsochHead st.pIsochTail pED := by
  obtain ⟨hc, ho, hb, hi, hs⟩ := h
  refine ⟨⟨?_, fun hopt => ?_, ?_, fun i hi' => ?_, ?_⟩,
    (hc.unlinked hflags hbackNext hnext).2, (hb.unlinked hflags hbackNext hnext).2,
    fun i hi' => ((hi i hi').unlinked hflags hbackNext hnext).2,
    (hs.unlinked hflags hbackNext hnext).2⟩
  · rw [hS.pControlHead, hS.pControlTail]
    exact (hc.unlinked hflags hbackNext hnext).1
  · rw [hS.pBulkHead, hS.pBulkTail]
    exact ((ho (by rw [← hS.OptiOn]; exact hopt)).unlinked hflags hbackNext hnext).1
  · rw [hS.pBulkHead, hS.pBulkTail]
    exact (hb.unlinked hflags hbackNext hnext).1
  · rw [(hS.pInterruptHead i).1, (hS.pInterruptHead i).2]
    exact ((hi i hi').unlinked hflags hbackNext hnext).1
  · rw [hS.pIsochHead, hS.pIsochTail]
    exact (hs.unlinked hflags hbackNext hnext).1

/-- C23 (amended): `UIMDeleteEndpoint` for a device other than the root hub, on an endpoint
that the lookup finds as the descriptor `pED` behind `back`, in a directory whose lists are
paths without repetition in which `pED` is the only descriptor that matches the key, with
collaborators (`IOSleep`, `RemoveAllTDs`, `DeallocateED`) that leave the directory alone.  The
call returns `kIOReturnSuccess`, and in the state it returns `FindEndpoint` for the same key
returns `NULL`; a following `UIMDeleteEndpoint`, `UIMAbortEndpoint` or
`UIMClearEndpointStall` for the key, and a following control, bulk, interrupt or isochronous
transfer request for it, returns `kIOUSBEndpointNotFound` and leaves the state as it is.
Every list of the directory has the members of before without `pED`, in the same order;
`back` has taken over the logical and the physical link of `pED`, and the logical and physical
links of every other descriptor are as before. -/
theorem UIMDeleteEndpoint_lookup_misses (H : Header) (X : Collaborators) (st : AppleUSBOHCI)
    (fuel a e direction pED back mask : Nat)
    (hRoot : a ≠ st.rootHubFuncAddress)
    (hFound : FindEndpoint st fuel a e (edDirection direction)
      = .ret (some (pED, back, mask)))
    (hBack : back ≠ pED)
    (hOnly : OnlyMatchAnywhere st fuel a e (edDirection direction) pED back)
    (hX : X.keepLists) :
    ∃ st', UIMDeleteEndpoint X st fuel a e direction = .ret (.kIOReturnSuccess, st')
      ∧ FindEndpoint st' fuel a e (edDirection direction) = .ret none
      ∧ UIMDeleteEndpoint X st' fuel a e direction = .ret (.kIOUSBEndpointNotFound, st')
      ∧ UIMAbortEndpoint X st' fuel a e direction = .ret (.kIOUSBEndpointNotFound, st')
      ∧ UIMClearEndpointStall X st' fuel a e direction
        = .ret (.kIOUSBEndpointNotFound, st')
      ∧ (∀ (command : Nat) (CBP : IOMemoryDescriptor) (bufferRounding : Bool)
          (bufferSize : Nat),
          UIMCreateControlTransfer H st' fuel a e command CBP bufferRounding bufferSize
            direction = .ret (.kIOUSBEndpointNotFound, st'))
      ∧ (∀ command : Nat, (st'.commands command).address = a
            ∧ (st'.commands command).endpoint = e
            ∧ (st'.commands command).direction = direction →
          UIMCreateBulkTransfer H st' fuel command = .ret (.kIOUSBEndpointNotFound, st')
            ∧ UIMCreateInterruptTransfer H X st' fuel command
              = .ret (.kIOUSBEndpointNotFound, st'))
      ∧ (∀ (completion : IOUSBCompletion) (frameNumberStart : Nat)
          (pBuffer : IOMemoryDescriptor) (frameCount pFrames updateFrequency : Nat),
          (1 ≤ frameCount ∧ frameCount ≤ 1000) → (direction = kUSBOut ∨ direction = kUSBIn) →
          UIMCreateIsochTransfer H st' fuel a e completion direction frameNumberStart pBuffer
              frameCount pFrames = .ret (.kIOUSBEndpointNotFound, st')
            ∧ UIMCreateIsochTransferLL H st' fuel a e completion direction frameNumberStart
              pBuffer frameCount pFrames updateFrequency
              = .ret (.kIOUSBEndpointNotFound, st'))
      ∧ SameOrder st st' st.pControlHead st.pControlTail pED
      ∧ SameOrder st st' st.pBulkHead st.pBulkTail pED
      ∧ (∀ i, i < 63 →
          SameOrder st st' (st.pInterruptHead i).pHead (st.pInterruptHead i).pTail pED)
      ∧ SameOrder st st' st.pIsochHead st.pIsochTail pED
      ∧ (st'.eds back).pLogicalNext = (st.eds pED).pLogicalNext
      ∧ (st'.eds back).nextED = (st.eds pED).nextED
      ∧ (∀ x, x ≠ back → (st'.eds x).pLogicalNext = (st.eds x).pLogicalNext)
      ∧ (∀ x, x ≠ back → x ≠ pED → (st'.eds x).nextED = (st.eds x).nextED) := by
  obtain ⟨st', hcall, hS, hR, hflags, hbn, hnext, hbp, hphys⟩ :=
    UIMDeleteEndpoint_unlinked hX hRoot hFound hBack
  obtain ⟨hall, o1, o2, o3, o4⟩ := hOnly.unlinked_anywhere hS hflags hbn hnext
  have hRoot' : a ≠ st'.rootHubFuncAddress := by
    rw [hR]
    exact hRoot
  have hroot : ¬ st'.rootHubFuncAddress = a := fun e => hRoot' e.symm
  obtain ⟨hc, ho, hb, hi, hs⟩ := hall
  refine ⟨st', hcall, FindEndpoint_none ⟨hc, ho, hb, hi, hs⟩, ?_, ?_, ?_, ?_, ?_, ?_,
    o1, o2, o3, o4, hbn, hbp, hnext, hphys⟩
  · simp [UIMDeleteEndpoint, hRoot', FindEndpoint_none ⟨hc, ho, hb, hi, hs⟩]
  · simp [UIMAbortEndpoint, hRoot', FindEndpoint_none ⟨hc, ho, hb, hi, hs⟩]
  · simp [UIMClearEndpointStall, hroot, FindEndpoint_none ⟨hc, ho, hb, hi, hs⟩]
  · intro command CBP bufferRounding bufferSize
    simp [UIMCreateControlTransfer, FindControlEndpoint_none hc ho]
  · rintro command ⟨hadr, hep, hdir⟩
    constructor
    · simp [UIMCreateBulkTransfer, hadr, hep, hdir, FindBulkEndpoint_none hb]
    · simp [UIMCreateInterruptTransfer, hadr, hep, hdir, hroot, FindInterruptEndpoint_none hi]
  · intro completion frameNumberStart pBuffer frameCount pFrames updateFrequency hcount hd
    have hcnt : ¬ (frameCount = 0 ∨ frameCount > 1000) := by omega
    have hdir' : ¬ (direction ≠ kUSBOut ∧ direction ≠ kUSBIn) := by
      rintro ⟨h1, h2⟩
      rcases hd with h | h
      · exact h1 h
      · exact h2 h
    have hed : (if direction = kUSBOut then kOHCIEDDirectionOut else kOHCIEDDirectionIn)
        = edDirection direction := by
      unfold edDirection
      rcases hd with h | h
      · simp [h]
      · simp [h, kUSBIn, kUSBOut]
    constructor
    · simp only [UIMCreateIsochTransfer, hcnt, hdir', ↓reduceIte, hed]
      rw [FindIsochronousEndpoint_none hs]
      rfl
    · simp only [UIMCreateIsochTransferLL, hcnt, hdir', ↓reduceIte, hed]
      rw [FindIsochronousEndpoint_none hs]
      rfl

/-- On the example driver with the bulk endpoint 5:2 out, its descriptor 20 behind the head 3
of the bulk list is the only descriptor of the directory with that key. -/
theorem exampleBulkState_only_match :
    OnlyMatchAnywhere exampleBulkState 5 5 2 (edDirection kUSBOut) 20 3 := by
  have hb : ∀ unique, OnlyMatch exampleBulkState 5 exampleBulkState.pBulkHead
      exampleBulkState.pBulkTail kUniqueNumMask unique 20 3 := fun unique =>
    ⟨[20], ⟨by decide, by decide, by decide,
      (by show (exampleBulkState.eds 20).pLogicalNext = 4; decide)⟩, by decide, by decide,
      fun x hx hne => absurd (List.mem_singleton.mp hx) hne,
      Or.inr ⟨[], [], rfl, rfl⟩⟩
  refine ⟨⟨[], ?_, by decide, by decide, by simp, Or.inl ⟨by simp, by simp, by decide⟩⟩,
    fun _ => hb _, hb _,
    fun i _ => ⟨[], ?_, by decide, ?_, by simp, Or.inl ⟨by simp, by simp, ?_⟩⟩,
    ⟨[], ?_, by decide, by decide, by simp, Or.inl ⟨by simp, by simp, by decide⟩⟩⟩
  · show (exampleBulkState.eds 1).pLogicalNext = 2
    decide
  · show (exampleBulkState.eds 7).pLogicalNext = 8
    decide
  · show [7].Nodup
    decide
  · show (3 : Nat) ≠ 7
    decide
  · show (exampleBulkState.eds 5).pLogicalNext = 6
    decide

/-- Witness for C23: on the example driver with the bulk endpoint 5:2 out, whose descriptor
20 stands behind the head 3 of the bulk list, the deletion of the endpoint succeeds and the
lookups of the state it returns find nothing. -/
theorem UIMDeleteEndpoint_lookup_misses_witness :
    ∃ st', UIMDeleteEndpoint exampleCollaborators exampleBulkState 5 5 2 kUSBOut
        = .ret (.kIOReturnSuccess, st')
      ∧ FindEndpoint st' 5 5 2 (edDirection kUSBOut) = .ret none
      ∧ UIMDeleteEndpoint exampleCollaborators st' 5 5 2 kUSBOut
        = .ret (.kIOUSBEndpointNotFound, st')
      ∧ UIMAbortEndpoint exampleCollaborators st' 5 5 2 kUSBOut
        = .ret (.kIOUSBEndpointNotFound, st')
      ∧ UIMClearEndpointStall exampleCollaborators st' 5 5 2 kUSBOut
        = .ret (.kIOUSBEndpointNotFound, st')
      ∧ (∀ (command : Nat) (CBP : IOMemoryDescriptor) (bufferRounding : Bool)
          (bufferSize : Nat),
          UIMCreateControlTransfer exampleHeader st' 5 5 2 command CBP bufferRounding
            bufferSize kUSBOut = .ret (.kIOUSBEndpointNotFound, st'))
      ∧ (∀ command : Nat, (st'.commands command).address = 5
            ∧ (st'.commands command).endpoint = 2
            ∧ (st'.commands command).direction = kUSBOut →
          UIMCreateBulkTransfer exampleHeader st' 5 command
              = .ret (.kIOUSBEndpointNotFound, st')
            ∧ UIMCreateInterruptTransfer exampleHeader exampleCollaborators st' 5 command
              = .ret (.kIOUSBEndpointNotFound, st'))
      ∧ (∀ (completion : IOUSBCompletion) (frameNumberStart : Nat)
          (pBuffer : IOMemoryDescriptor) (frameCount pFrames updateFrequency : Nat),
          (1 ≤ frameCount ∧ frameCount ≤ 1000) → (kUSBOut = kUSBOut ∨ kUSBOut = kUSBIn) →
          UIMCreateIsochTransfer exampleHeader st' 5 5 2 completion kUSBOut frameNumberStart
              pBuffer frameCount pFrames = .ret (.kIOUSBEndpointNotFound, st')
            ∧ UIMCreateIsochTransferLL exampleHeader st' 5 5 2 completion kUSBOut
              frameNumberStart pBuffer frameCount pFrames updateFrequency
              = .ret (.kIOUSBEndpointNotFound, st'))
      ∧ SameOrder exampleBulkState st' exampleBulkState.pControlHead
          exampleBulkState.pControlTail 20
      ∧ SameOrder exampleBulkState st' exampleBulkState.pBulkHead
          exampleBulkState.pBulkTail 20
      ∧ (∀ i, i < 63 →
          SameOrder exampleBulkState st' (exampleBulkState.pInterruptHead i).pHead
            (exampleBulkState.pInterruptHead i).pTail 20)
      ∧ SameOrder exampleBulkState st' exampleBulkState.pIsochHead
          exampleBulkState.pIsochTail 20
      ∧ (st'.eds 3).pLogicalNext = (exampleBulkState.eds 20).pLogicalNext
      ∧ (st'.eds 3).nextED = (exampleBulkState.eds 20).nextED
      ∧ (∀ x, x ≠ 3 → (st'.eds x).pLogicalNext = (exampleBulkState.eds x).pLogicalNext)
      ∧ (∀ x, x ≠ 3 → x ≠ 20 → (st'.eds x).nextED = (exampleBulkState.eds x).nextED) :=
  UIMDeleteEndpoint_lookup_misses exampleHeader exampleCollaborators exampleBulkState 5 5 2
    kUSBOut 20 3 kOHCIHcControl_BLE (by decide) (by rfl) (by decide)
    exampleBulkState_only_match exampleCollaborators_keepLists

/-- The claim C23 fails when the directory holds two descriptors with the key, which the
creations allow since none of them looks the key up: on the example driver a second
`UIMCreateBulkEndpoint` for the key 5:2 out succeeds and puts the descriptor 21 before the
descriptor 20 of the first; the `UIMDeleteEndpoint` for the key then returns success and
removes 21, and in the state it returns `FindEndpoint` for the key does not return `NULL` but
the descriptor 20 behind the head 3, and a following `UIMDeleteEndpoint` for the key returns
`kIOReturnSuccess`, not `kIOUSBEndpointNotFound`. -/
theorem UIMDeleteEndpoint_lookup_misses_counterexample :
    exampleBulkState.rootHubFuncAddress ≠ 5
      ∧ UIMCreateBulkEndpoint exampleBulkState 5 2 kUSBOut kUSBDeviceSpeedFull 64
        = .ret (.kIOReturnSuccess, exampleDuplicateBulkState)
      ∧ FindEndpoint exampleDuplicateBulkState 5 5 2 (edDirection kUSBOut)
        = .ret (some (21, 3, kOHCIHcControl_BLE))
      ∧ UIMDeleteEndpoint exampleCollaborators exampleDuplicateBulkState 5 5 2 kUSBOut
        = .ret (.kIOReturnSuccess, exampleDuplicateDeletedState)
      ∧ FindEndpoint exampleDuplicateDeletedState 5 5 2 (edDirection kUSBOut)
        = .ret (some (20, 3, kOHCIHcControl_BLE))
      ∧ FindEndpoint exampleDuplicateDeletedState 5 5 2 (edDirection kUSBOut) ≠ .ret none
      ∧ (∃ st', UIMDeleteEndpoint exampleCollaborators exampleDuplicateDeletedState 5 5 2
          kUSBOut = .ret (.kIOReturnSuccess, st')) :=
  ⟨by decide, Outcome.ret_stateOr _ ⟨_, rfl⟩, by rfl, Outcome.ret_stateOr _ ⟨_, rfl⟩, by rfl,
    fun h => Outcome.noConfusion ((by rfl : FindEndpoint exampleDuplicateDeletedState 5 5 2
      (edDirection kUSBOut) = .ret (some (20, 3, kOHCIHcControl_BLE))).symm.trans h)
      (fun h2 => Option.noConfusion h2),
    ⟨_, rfl⟩⟩

/-! ## The max packet size check of a restricted pass -/

/-- Every appending pass of the loop of `CreateGeneralTransfer` takes one descriptor from the
pool. -/
theorem CreateGeneralTransfer.passes_pool_length (H : Header) (queue command : Nat)
    (CBP : IOMemoryDescriptor) (bufferSize flags type kickBits : Nat) :
    ∀ (k : Nat) (l lk : GeneralTransferLoop),
      CreateGeneralTransfer.passes H queue command CBP bufferSize flags type kickBits k l
        = some lk →
      l.st.pFreeTD.length = k + lk.st.pFreeTD.length
  | 0, l, lk, h => by
    simp only [CreateGeneralTransfer.passes, Option.some.injEq] at h
    subst h
    omega
  | k + 1, l, lk, h => by
    obtain ⟨-, l1, hbody, hrest⟩ :=
      CreateGeneralTransfer.passes_succ H queue command CBP bufferSize flags type kickBits h
    obtain ⟨p, step⟩ := CreateGeneralTransfer.body_inr H queue command CBP bufferSize flags
      type kickBits l l1 hbody
    have ih := CreateGeneralTransfer.passes_pool_length H queue command CBP bufferSize flags
      type kickBits k l1 lk hrest
    rw [step.pool, List.length_cons, ih]
    omega

/-- A call of `CreateGeneralTransfer` on an endpoint that is not halted, whose loop makes `k`
appending passes and leaves the next one by a `break`, returns what that pass gives. -/
theorem CreateGeneralTransfer.call_of_break (H : Header) (st : AppleUSBOHCI)
    (queue command : Nat) (CBP : IOMemoryDescriptor) (bufferSize flags type kickBits k : Nat)
    (lk : GeneralTransferLoop) (r : IOReturn × AppleUSBOHCI)
    (hNotHalted : (st.eds queue).tdQueueHeadPtr &&& kOHCIHeadPointer_H = 0)
    (hPasses : CreateGeneralTransfer.passes H queue command CBP bufferSize flags type kickBits k
      (GeneralTransferLoop.init st) = some lk)
    (hMore : lk.transferOffset < bufferSize)
    (hBody : CreateGeneralTransfer.body H queue command CBP bufferSize flags type kickBits lk
      = .ret (.inl r)) :
    CreateGeneralTransfer H st queue command CBP bufferSize flags type kickBits = .ret r := by
  have hlen := CreateGeneralTransfer.passes_pool_length H queue command CBP bufferSize flags
    type kickBits k _ lk hPasses
  have hSize : bufferSize ≠ 0 := by omega
  simp only [CreateGeneralTransfer, hNotHalted, hSize, ne_eq, not_true_eq_false,
    not_false_eq_true, ↓reduceIte]
  have hl : (GeneralTransferLoop.init st).st.pFreeTD = st.pFreeTD := rfl
  rw [hl] at hlen
  rw [hlen, show k + lk.st.pFreeTD.length + 2 = (lk.st.pFreeTD.length + 1 + 1) + k by omega,
    CreateGeneralTransfer.loop_of_passes H queue command CBP bufferSize flags type kickBits
      k _ lk hPasses _]
  rw [CreateGeneralTransfer.loop, if_pos hMore, hBody]
  rfl

/-- A restricted pass whose first segment is no multiple of the max packet size leaves the
loop with `kIOReturnNoMemory`, in the state after `AllocateTD`. -/
theorem CreateGeneralTransfer.body_split_fail (H : Header) (queue command : Nat)
    (CBP : IOMemoryDescriptor) (bufferSize flags type kickBits : Nat)
    (l : GeneralTransferLoop) (p : Nat) (rest : List Nat)
    (hPool : l.st.pFreeTD = p :: rest)
    (hSplit : CreateGeneralTransfer.mustSplit l.st.pageSize
      (CreateGeneralTransfer.segments H CBP l).1 (CreateGeneralTransfer.segments H CBP l).2
      = true)
    (hMps : ((l.st.eds queue).flags &&& kOHCIEDControl_MPS) >>> kOHCIEDControl_MPSPhase ≠ 0)
    (hRem : (CreateGeneralTransfer.segments H CBP l).2.seg0.length
      % (((l.st.eds queue).flags &&& kOHCIEDControl_MPS) >>> kOHCIEDControl_MPSPhase) ≠ 0) :
    CreateGeneralTransfer.body H queue command CBP bufferSize flags type kickBits l
      = .ret (.inl (.kIOReturnNoMemory, (AllocateTD l.st).2)) := by
  unfold CreateGeneralTransfer.body
  simp only [AllocateTD_cons _ p rest hPool]
  rw [hSplit, if_neg (fun h => hMps h.2), if_pos ⟨rfl, hRem⟩]

/-- C31: a call of `CreateGeneralTransfer` on an endpoint that is not halted, whose loop has
made `k` appending passes and enters another one with a descriptor `p` in the pool, in which
the cursor resolved two segments and the pass is restricted to the first (it does not end on a
page boundary, or the second does not start on one), the max packet size field of the endpoint
not being 0.  If the length of the first segment is not a multiple of the max packet size, the
call returns `kIOReturnNoMemory` in the state that `AllocateTD` left: the endpoint descriptors,
so the tail pointers, are as after pass `k`, and so is every transfer descriptor but `p`.  If
it is a multiple, the pass goes on: the placeholder at the tail is filled in with the first
segment, from its first to its last byte, `p` is linked behind it and becomes the tail, and
the transfer offset advances by the length of the first segment. -/
theorem CreateGeneralTransfer_split_check (H : Header) (st : AppleUSBOHCI)
    (queue command : Nat) (CBP : IOMemoryDescriptor) (bufferSize flags type kickBits k : Nat)
    (lk : GeneralTransferLoop) (p : Nat) (rest : List Nat)
    (hNotHalted : (st.eds queue).tdQueueHeadPtr &&& kOHCIHeadPointer_H = 0)
    (hPasses : CreateGeneralTransfer.passes H queue command CBP bufferSize flags type kickBits k
      (GeneralTransferLoop.init st) = some lk)
    (hMore : lk.transferOffset < bufferSize)
    (hPool : lk.st.pFreeTD = p :: rest)
    (hSplit : CreateGeneralTransfer.mustSplit lk.st.pageSize
      (CreateGeneralTransfer.segments H CBP lk).1 (CreateGeneralTransfer.segments H CBP lk).2
      = true)
    (hMps : ((lk.st.eds queue).flags &&& kOHCIEDControl_MPS) >>> kOHCIEDControl_MPSPhase ≠ 0) :
    ((CreateGeneralTransfer.segments H CBP lk).2.seg0.length
        % (((lk.st.eds queue).flags &&& kOHCIEDControl_MPS) >>> kOHCIEDControl_MPSPhase) ≠ 0 →
      CreateGeneralTransfer H st queue command CBP bufferSize flags type kickBits
          = .ret (.kIOReturnNoMemory, (AllocateTD lk.st).2)
        ∧ (AllocateTD lk.st).2.eds = lk.st.eds
        ∧ (∀ x, x ≠ p → (AllocateTD lk.st).2.tds x = lk.st.tds x)
        ∧ (AllocateTD lk.st).2.registerWrites = lk.st.registerWrites)
      ∧ ((CreateGeneralTransfer.segments H CBP lk).2.seg0.length
        % (((lk.st.eds queue).flags &&& kOHCIEDControl_MPS) >>> kOHCIEDControl_MPSPhase) = 0 →
      ∃ l', CreateGeneralTransfer.body H queue command CBP bufferSize flags type kickBits lk
          = .ret (.inr l')
        ∧ (l'.st.tds (lk.st.eds queue).pLogicalTailP).currentBufferPtr
          = (CreateGeneralTransfer.segments H CBP lk).2.seg0.location
        ∧ (l'.st.tds (lk.st.eds queue).pLogicalTailP).bufferEnd
          = sub32 (add32 (CreateGeneralTransfer.segments H CBP lk).2.seg0.location
              (CreateGeneralTransfer.segments H CBP lk).2.seg0.length) 1
        ∧ (l'.st.tds (lk.st.eds queue).pLogicalTailP).pLogicalNext = p
        ∧ (l'.st.eds queue).pLogicalTailP = p
        ∧ l'.transferOffset
          = add32 lk.transferOffset (CreateGeneralTransfer.segments H CBP lk).2.seg0.length) := by
  constructor
  · intro hRem
    refine ⟨CreateGeneralTransfer.call_of_break H st queue command CBP bufferSize flags type
      kickBits k lk _ hNotHalted hPasses hMore
      (CreateGeneralTransfer.body_split_fail H queue command CBP bufferSize flags type kickBits
        lk p rest hPool hSplit hMps hRem), ?_, ?_, ?_⟩
    · rw [AllocateTD_cons _ p rest hPool]
    · intro x hx
      rw [AllocateTD_cons _ p rest hPool]
      exact Function.update_noteq hx _ _
    · rw [AllocateTD_cons _ p rest hPool]
  · intro hRem
    have hbody : ∃ l', CreateGeneralTransfer.body H queue command CBP bufferSize flags type
        kickBits lk = .ret (.inr l') := by
      unfold CreateGeneralTransfer.body
      simp only [AllocateTD_cons _ p rest hPool]
      rw [hSplit, if_neg (fun h => hMps h.2), if_neg (fun h => h.2 hRem)]
      exact ⟨_, rfl⟩
    obtain ⟨l', hl'⟩ := hbody
    obtain ⟨q, step⟩ := CreateGeneralTransfer.body_inr H queue command CBP bufferSize flags
      type kickBits lk l' hl'
    have hq : q = p := by
      have := step.pool
      rw [hPool] at this
      exact (List.cons.inj this).1.symm
    subst hq
    have hend := step.bufferEnd
    have hoff := step.offset
    simp only [hSplit, CreateGeneralTransfer.pagesUsed, CreateGeneralTransfer.nextOffset,
      ↓reduceIte, OfNat.one_ne_ofNat] at hend hoff
    exact ⟨l', hl', step.bufferPtr, hend, step.next, step.tail, hoff⟩

/-- Witness for C31: the first pass for 128 bytes on the bulk endpoint 20 of the example
driver, whose max packet size is 64, with the descriptor 101 at the head of the pool.  For the
buffer whose first run has 60 bytes the call returns `kIOReturnNoMemory`; for the buffer whose
first run has 64 bytes the pass goes on. -/
theorem CreateGeneralTransfer_split_check_witness :
    (((CreateGeneralTransfer.segments exampleHeader exampleOddBuffer
          (GeneralTransferLoop.init exampleTwoPageState)).2.seg0.length
        % (((((GeneralTransferLoop.init exampleTwoPageState).st.eds 20).flags
          &&& kOHCIEDControl_MPS) >>> kOHCIEDControl_MPSPhase)) ≠ 0 →
      CreateGeneralTransfer exampleHeader exampleTwoPageState 20 77 exampleOddBuffer 128 0 1 4
          = .ret (.kIOReturnNoMemory,
              (AllocateTD (GeneralTransferLoop.init exampleTwoPageState).st).2)
        ∧ (AllocateTD (GeneralTransferLoop.init exampleTwoPageState).st).2.eds
          = (GeneralTransferLoop.init exampleTwoPageState).st.eds
        ∧ (∀ x, x ≠ 101 →
          (AllocateTD (GeneralTransferLoop.init exampleTwoPageState).st).2.tds x
            = (GeneralTransferLoop.init exampleTwoPageState).st.tds x)
        ∧ (AllocateTD (GeneralTransferLoop.init exampleTwoPageState).st).2.registerWrites
          = (GeneralTransferLoop.init exampleTwoPageState).st.registerWrites)
      ∧ ((CreateGeneralTransfer.segments exampleHeader exampleOddBuffer
          (GeneralTransferLoop.init exampleTwoPageState)).2.seg0.length
        % (((((GeneralTransferLoop.init exampleTwoPageState).st.eds 20).flags
          &&& kOHCIEDControl_MPS) >>> kOHCIEDControl_MPSPhase)) = 0 →
      ∃ l', CreateGeneralTransfer.body exampleHeader 20 77 exampleOddBuffer 128 0 1 4
            (GeneralTransferLoop.init exampleTwoPageState) = .ret (.inr l')
        ∧ (l'.st.tds
            ((GeneralTransferLoop.init exampleTwoPageState).st.eds 20).pLogicalTailP
            ).currentBufferPtr
          = (CreateGeneralTransfer.segments exampleHeader exampleOddBuffer
              (GeneralTransferLoop.init exampleTwoPageState)).2.seg0.location
        ∧ (l'.st.tds
            ((GeneralTransferLoop.init exampleTwoPageState).st.eds 20).pLogicalTailP
            ).bufferEnd
          = sub32 (add32 (CreateGeneralTransfer.segments exampleHeader exampleOddBuffer
                (GeneralTransferLoop.init exampleTwoPageState)).2.seg0.location
              (CreateGeneralTransfer.segments exampleHeader exampleOddBuffer
                (GeneralTransferLoop.init exampleTwoPageState)).2.seg0.length) 1
        ∧ (l'.st.tds
            ((GeneralTransferLoop.init exampleTwoPageState).st.eds 20).pLogicalTailP
            ).pLogicalNext = 101
        ∧ (l'.st.eds 20).pLogicalTailP = 101
        ∧ l'.transferOffset
          = add32 (GeneralTransferLoop.init exampleTwoPageState).transferOffset
              (CreateGeneralTransfer.segments exampleHeader exampleOddBuffer
                (GeneralTransferLoop.init exampleTwoPageState)).2.seg0.length))
      ∧ (CreateGeneralTransfer.segments exampleHeader exampleOddBuffer
          (GeneralTransferLoop.init exampleTwoPageState)).2.seg0.length
        % (((((GeneralTransferLoop.init exampleTwoPageState).st.eds 20).flags
          &&& kOHCIEDControl_MPS) >>> kOHCIEDControl_MPSPhase)) ≠ 0
      ∧ (CreateGeneralTransfer.segments exampleHeader exampleSplitBuffer
          (GeneralTransferLoop.init exampleTwoPageState)).2.seg0.length
        % (((((GeneralTransferLoop.init exampleTwoPageState).st.eds 20).flags
          &&& kOHCIEDControl_MPS) >>> kOHCIEDControl_MPSPhase)) = 0 :=
  ⟨CreateGeneralTransfer_split_check exampleHeader exampleTwoPageState 20 77 exampleOddBuffer
      128 0 1 4 0 (GeneralTransferLoop.init exampleTwoPageState) 101 [102, 103] (by decide)
      rfl (by decide) (by decide) (by decide) (by decide),
    by decide, by decide⟩

/-! ## The slot of an interrupt endpoint -/

/-- C35: `DetermineInterruptOffset` for a polling rate of at least 1, whatever the frame
number register holds, returns true with an offset of at most 62 that lies in the band of the
polling rate: 62 for the rate 1, 60 to 61 for 2 to 3, 56 to 59 for 4 to 7, 48 to 55 for 8 to
15, 32 to 47 for 16 to 31, and 0 to 31 for 32 or more.  For the polling rate 0 it returns
false, no offset is set, and `UIMCreateInterruptEndpoint`, for a device other than the root
hub, returns `kIOReturnNoBandwidth` and leaves the state as it is.  Whenever it returns true
the offset is below 63, so the index into the 63 interrupt heads is in range. -/
theorem DetermineInterruptOffset_in_band (X : Collaborators) (st : AppleUSBOHCI)
    (pollingRate functionAddress endpointNumber direction speed maxPacketSize : Nat)
    (hRate : 1 ≤ pollingRate) (hRoot : st.rootHubFuncAddress ≠ functionAddress) :
    (∃ offset, DetermineInterruptOffset st pollingRate = some offset ∧ offset ≤ 62
        ∧ (pollingRate = 1 → offset = 62)
        ∧ (2 ≤ pollingRate ∧ pollingRate ≤ 3 → 60 ≤ offset ∧ offset ≤ 61)
        ∧ (4 ≤ pollingRate ∧ pollingRate ≤ 7 → 56 ≤ offset ∧ offset ≤ 59)
        ∧ (8 ≤ pollingRate ∧ pollingRate ≤ 15 → 48 ≤ offset ∧ offset ≤ 55)
        ∧ (16 ≤ pollingRate ∧ pollingRate ≤ 31 → 32 ≤ offset ∧ offset ≤ 47)
        ∧ (32 ≤ pollingRate → offset ≤ 31))
      ∧ DetermineInterruptOffset st 0 = none
      ∧ UIMCreateInterruptEndpoint X st functionAddress endpointNumber direction speed
          maxPacketSize 0 = .ret (.kIOReturnNoBandwidth, st)
      ∧ (∀ rate offset, DetermineInterruptOffset st rate = some offset → offset < 63) := by
  refine ⟨?_, rfl, ?_, fun rate offset h => DetermineInterruptOffset_slot h⟩
  · unfold DetermineInterruptOffset
    dsimp only
    split_ifs
    · omega
    all_goals exact ⟨_, rfl, by omega, by omega, by omega, by omega, by omega, by omega,
        by omega⟩
  · unfold UIMCreateInterruptEndpoint
    rw [if_neg hRoot]
    dsimp only
    rw [if_neg (by omega), show UInt32ofShort 0 = 0 from by decide,
      show DetermineInterruptOffset st 0 = none from rfl]

/-- Witness for C35: the example driver and the polling rate 10, for an endpoint of the
device 5. -/
theorem DetermineInterruptOffset_in_band_witness :
    (∃ offset, DetermineInterruptOffset exampleState 10 = some offset ∧ offset ≤ 62
        ∧ (10 = 1 → offset = 62)
        ∧ (2 ≤ 10 ∧ 10 ≤ 3 → 60 ≤ offset ∧ offset ≤ 61)
        ∧ (4 ≤ 10 ∧ 10 ≤ 7 → 56 ≤ offset ∧ offset ≤ 59)
        ∧ (8 ≤ 10 ∧ 10 ≤ 15 → 48 ≤ offset ∧ offset ≤ 55)
        ∧ (16 ≤ 10 ∧ 10 ≤ 31 → 32 ≤ offset ∧ offset ≤ 47)
        ∧ (32 ≤ 10 → offset ≤ 31))
      ∧ DetermineInterruptOffset exampleState 0 = none
      ∧ UIMCreateInterruptEndpoint exampleCollaborators exampleState 5 1 kUSBIn
          kUSBDeviceSpeedFull 8 0 = .ret (.kIOReturnNoBandwidth, exampleState)
      ∧ (∀ rate offset, DetermineInterruptOffset exampleState rate = some offset →
          offset < 63) :=
  DetermineInterruptOffset_in_band exampleCollaborators exampleState 10 5 1 kUSBIn
    kUSBDeviceSpeedFull 8 (by decide) (by decide)

/-! ## The descriptors taken from the pool by `CreateGeneralTransfer` -/

/-- C36 (divergence of the code): on the example driver the bulk endpoint 20 has the max
packet size 64, the placeholder 100 at its tail, and the pool holds the descriptors 101, 102
and 103.  `CreateGeneralTransfer` for 128 bytes of a buffer whose first physical run has 60
bytes and ends inside a page takes the descriptor 101 from the pool and then returns
`kIOReturnNoMemory` at the max packet size check: the descriptor 101 has left the pool, the
tail of the endpoint is the placeholder 100 as before, logically and physically, the
placeholder has no successor, and no register was written.  One `AllocateTD` succeeded, the
tail advanced by no position, and the descriptor 101 is neither linked nor given back. -/
theorem CreateGeneralTransfer_leaked_descriptor :
    exampleTwoPageState.pFreeTD = [101, 102, 103]
      ∧ (exampleTwoPageState.eds 20).pLogicalTailP = 100
      ∧ CreateGeneralTransfer exampleHeader exampleTwoPageState 20 77 exampleOddBuffer 128 0 1 4
        = .ret (.kIOReturnNoMemory, exampleLeakedState)
      ∧ exampleLeakedState.pFreeTD = [102, 103]
      ∧ (exampleLeakedState.eds 20).pLogicalTailP = 100
      ∧ (exampleLeakedState.eds 20).tdQueueTailPtr = (exampleTwoPageState.eds 20).tdQueueTailPtr
      ∧ (exampleLeakedState.eds 20).pLogicalHeadP = 100
      ∧ (exampleLeakedState.tds 100).pLogicalNext = 0
      ∧ (exampleLeakedState.tds 100).nextTD = 0
      ∧ (exampleLeakedState.tds 101).pLogicalNext = 0
      ∧ exampleLeakedState.registerWrites = exampleTwoPageState.registerWrites := by
  refine ⟨by decide, by decide, Outcome.ret_stateOr _ ⟨_, rfl⟩, by decide, by decide,
    by decide, by decide, by decide, by decide, by decide, by decide⟩

/-! ## The divisor of the max packet size check -/

/-- A restricted pass on an endpoint whose max packet size field is 0, with a descriptor in
the pool, divides by zero. -/
theorem CreateGeneralTransfer.body_zero_divisor (H : Header) (queue command : Nat)
    (CBP : IOMemoryDescriptor) (bufferSize flags type kickBits : Nat)
    (l : GeneralTransferLoop) (p : Nat) (rest : List Nat)
    (hPool : l.st.pFreeTD = p :: rest)
    (hSplit : CreateGeneralTransfer.mustSplit l.st.pageSize
      (CreateGeneralTransfer.segments H CBP l).1 (CreateGeneralTransfer.segments H CBP l).2
      = true)
    (hMps : ((l.st.eds queue).flags &&& kOHCIEDControl_MPS) >>> kOHCIEDControl_MPSPhase = 0) :
    CreateGeneralTransfer.body H queue command CBP bufferSize flags type kickBits l
      = .divideByZero := by
  unfold CreateGeneralTransfer.body
  simp only [AllocateTD_cons _ p rest hPool]
  rw [hSplit, if_pos ⟨rfl, hMps⟩]

/-- C37 (divergence of the code): `UIMCreateBulkEndpoint` accepts the max packet size 0 and
returns `kIOReturnSuccess`; the endpoint descriptor 21 it makes has 0 in its max packet size
field.  A bulk transfer of 128 bytes on that endpoint, for a buffer that the cursor resolves
as two runs of which the first ends inside a page, reaches the modulus of the max packet size
check with the divisor 0. -/
theorem CreateGeneralTransfer_zero_divisor :
    UIMCreateBulkEndpoint
        { exampleTwoPageState with
          commands := fun _ =>
            { exampleCommand with endpoint := 3, buffer := exampleSplitBuffer,
                                  reqCount := 128 } }
        5 3 kUSBOut kUSBDeviceSpeedFull 0 = .ret (.kIOReturnSuccess, exampleZeroPacketState)
      ∧ FindBulkEndpoint exampleZeroPacketState 6 5 3 (edDirection kUSBOut)
        = .ret (some (21, 3))
      ∧ ((exampleZeroPacketState.eds 21).flags &&& kOHCIEDControl_MPS)
          >>> kOHCIEDControl_MPSPhase = 0
      ∧ (exampleZeroPacketState.eds 21).tdQueueHeadPtr &&& kOHCIHeadPointer_H = 0
      ∧ CreateGeneralTransfer.segments exampleHeader exampleSplitBuffer
          (GeneralTransferLoop.init exampleZeroPacketState)
        = (2, { seg0 := ⟨0x10800, 64⟩, seg1 := ⟨0x20000, 64⟩ })
      ∧ CreateGeneralTransfer.mustSplit exampleZeroPacketState.pageSize 2
          { seg0 := ⟨0x10800, 64⟩, seg1 := ⟨0x20000, 64⟩ } = true
      ∧ CreateGeneralTransfer exampleHeader exampleZeroPacketState 21 77 exampleSplitBuffer 128
          0 1 4 = .divideByZero
      ∧ UIMCreateBulkTransfer exampleHeader exampleZeroPacketState 6 77 = .divideByZero := by
  refine ⟨Outcome.ret_stateOr _ ⟨_, rfl⟩, rfl, by decide, by decide, by decide, by decide,
    rfl, rfl⟩

/-! ## The check for a dead controller -/

/-- The register writes of the recovery sequence, most recent first, when `IOSleep` writes no
register: the reset, the seven registers restored with the values read before the reset, and
the three writes of `HcControl` that take the controller through resume to the operational
state with its lists enabled. -/
theorem UIMCheckForTimeouts.recover_writes (W : WatchdogHeader) {X : Collaborators}
    (hX : X.sleepQuiet) (st : AppleUSBOHCI) :
    (UIMCheckForTimeouts.recover W X st).registerWrites
      = [(OHCIRegister.hcControl,
            shl32 kOHCIFunctionalState_Operational kOHCIHcControl_HCFSPhase
              ||| kOHCIHcControl_CLE
              ||| (if st.OptiOn then kOHCIHcControl_Zero else kOHCIHcControl_BLE)
              ||| kOHCIHcControl_PLE ||| kOHCIHcControl_IE),
          (OHCIRegister.hcControl,
            shl32 kOHCIFunctionalState_Operational kOHCIHcControl_HCFSPhase),
          (OHCIRegister.hcControl, shl32 kOHCIFunctionalState_Resume kOHCIHcControl_HCFSPhase),
          (OHCIRegister.hcFmInterval, st.pOHCIRegisters .hcFmInterval),
          (OHCIRegister.hcHCCA, st.pOHCIRegisters .hcHCCA),
          (OHCIRegister.hcControlHeadED, st.pOHCIRegisters .hcControlHeadED),
          (OHCIRegister.hcBulkHeadED, st.pOHCIRegisters .hcBulkHeadED),
          (OHCIRegister.hcPeriodicStart, st.pOHCIRegisters .hcPeriodicStart),
          (OHCIRegister.hcInterruptEnable, st.pOHCIRegisters .hcInterruptEnable),
          (OHCIRegister.hcFmNumber, st.pOHCIRegisters .hcFmNumber),
          (OHCIRegister.hcCommandStatus, kOHCIHcCommandStatus_HCR)] ++ st.registerWrites := by
  have hO : ∀ (s : AppleUSBOHCI) (r : OHCIRegister) (v : Nat),
      (writeRegister s r v).OptiOn = s.OptiOn := fun _ _ _ => rfl
  have hW : ∀ (s : AppleUSBOHCI) (r : OHCIRegister) (v : Nat),
      (writeRegister s r v).registerWrites = (r, v) :: s.registerWrites := fun _ _ _ => rfl
  unfold UIMCheckForTimeouts.recover
  simp only [hW, hO, hX.writes, hX.optiOn, apply_ite AppleUSBOHCI.registerWrites,
    apply_ite AppleUSBOHCI.OptiOn, ite_self, List.cons_append, List.nil_append]

/-- The value the recovery sequence leaves in `HcControl`: the operational state with the
list enable bits. -/
theorem UIMCheckForTimeouts.recover_control (W : WatchdogHeader) {X : Collaborators}
    (hX : X.sleepQuiet) (st : AppleUSBOHCI) :
    (UIMCheckForTimeouts.recover W X st).pOHCIRegisters .hcControl
      = shl32 kOHCIFunctionalState_Operational kOHCIHcControl_HCFSPhase
        ||| kOHCIHcControl_CLE
        ||| (if st.OptiOn then kOHCIHcControl_Zero else kOHCIHcControl_BLE)
        ||| kOHCIHcControl_PLE ||| kOHCIHcControl_IE := by
  have hO : ∀ (s : AppleUSBOHCI) (r : OHCIRegister) (v : Nat),
      (writeRegister s r v).OptiOn = s.OptiOn := fun _ _ _ => rfl
  have hR : ∀ (s : AppleUSBOHCI) (r : OHCIRegister) (v : Nat),
      (writeRegister s r v).pOHCIRegisters r = v := fun _ _ _ => Function.update_same _ _ _
  unfold UIMCheckForTimeouts.recover
  simp only [hR, hO, hX.optiOn, apply_ite AppleUSBOHCI.OptiOn, ite_self]

theorem exampleCollaborators_sleepQuiet : exampleCollaborators.sleepQuiet :=
  ⟨fun _ _ => rfl, fun _ _ => rfl⟩

/-- C34: the check for a dead controller at the end of `UIMCheckForTimeouts`, on the state
`st` it is entered with, `h` being the low 16 bits of the frame number register and `c` the
low 16 bits of the HCCA frame number word.  If `kErrataNeedsWatchdogTimer` is set in the
errata bits and `h > 5` and `h > c + 5`, the sum taken in the natural numbers, the check
performs the recovery: it is the sequence `UIMCheckForTimeouts.recover`, and when `IOSleep`
writes no register, the driver has then made exactly these register writes, in this order: the
reset (`kOHCIHcCommandStatus_HCR` to `HcCommandStatus`); `HcFmNumber`, `HcInterruptEnable`,
`HcPeriodicStart`, `HcBulkHeadED`, `HcControlHeadED`, `HcHCCA` and `HcFmInterval`, each with the
value it had before the reset; and `HcControl` three times, with the resume state, with the
operational state, and with the operational state and the list enable bits, which is the
value `HcControl` is left with.  In every other case the check leaves the state as it is, so
no register is written.  So the register writes of the driver change if and only if the
condition holds.  `UIMCheckForTimeouts` returns the state of this check, made after the two
scans and the root hub check. -/
theorem UIMCheckForTimeouts_wedge_check (W : WatchdogHeader) (X : Collaborators)
    (T : WatchdogCollaborators) (hccaWord fuel : Nat) (st s0 : AppleUSBOHCI) (h c : Nat)
    (hLive : h = st.pOHCIRegisters .hcFmNumber % 65536) (hHcca : c = hccaWord % 65536) :
    ((st.errataBits &&& W.kErrataNeedsWatchdogTimer ≠ 0 ∧ h > 5 ∧ h > c + 5) →
        UIMCheckForTimeouts.wedgeCheck W X hccaWord st = UIMCheckForTimeouts.recover W X st
        ∧ (X.sleepQuiet →
          (UIMCheckForTimeouts.wedgeCheck W X hccaWord st).registerWrites
            = [(OHCIRegister.hcControl,
                  shl32 kOHCIFunctionalState_Operational kOHCIHcControl_HCFSPhase
                    ||| kOHCIHcControl_CLE
                    ||| (if st.OptiOn then kOHCIHcControl_Zero else kOHCIHcControl_BLE)
                    ||| kOHCIHcControl_PLE ||| kOHCIHcControl_IE),
                (OHCIRegister.hcControl,
                  shl32 kOHCIFunctionalState_Operational kOHCIHcControl_HCFSPhase),
                (OHCIRegister.hcControl,
                  shl32 kOHCIFunctionalState_Resume kOHCIHcControl_HCFSPhase),
                (OHCIRegister.hcFmInterval, st.pOHCIRegisters .hcFmInterval),
                (OHCIRegister.hcHCCA, st.pOHCIRegisters .hcHCCA),
                (OHCIRegister.hcControlHeadED, st.pOHCIRegisters .hcControlHeadED),
                (OHCIRegister.hcBulkHeadED, st.pOHCIRegisters .hcBulkHeadED),
                (OHCIRegister.hcPeriodicStart, st.pOHCIRegisters .hcPeriodicStart),
                (OHCIRegister.hcInterruptEnable, st.pOHCIRegisters .hcInterruptEnable),
                (OHCIRegister.hcFmNumber, st.pOHCIRegisters .hcFmNumber),
                (OHCIRegister.hcCommandStatus, kOHCIHcCommandStatus_HCR)]
              ++ st.registerWrites
          ∧ (UIMCheckForTimeouts.wedgeCheck W X hccaWord st).pOHCIRegisters .hcControl
            = shl32 kOHCIFunctionalState_Operational kOHCIHcControl_HCFSPhase
              ||| kOHCIHcControl_CLE
              ||| (if st.OptiOn then kOHCIHcControl_Zero else kOHCIHcControl_BLE)
              ||| kOHCIHcControl_PLE ||| kOHCIHcControl_IE))
      ∧ (¬ (st.errataBits &&& W.kErrataNeedsWatchdogTimer ≠ 0 ∧ h > 5 ∧ h > c + 5) →
        UIMCheckForTimeouts.wedgeCheck W X hccaWord st = st
          ∧ (UIMCheckForTimeouts.wedgeCheck W X hccaWord st).registerWrites
            = st.registerWrites)
      ∧ (X.sleepQuiet →
        ((UIMCheckForTimeouts.wedgeCheck W X hccaWord st).registerWrites ≠ st.registerWrites
          ↔ (st.errataBits &&& W.kErrataNeedsWatchdogTimer ≠ 0 ∧ h > 5 ∧ h > c + 5)))
      ∧ (∀ s1 s2, CheckEDListForTimeouts X T s0 fuel s0.pControlHead s0.pControlTail
            = .ret s1 →
          CheckEDListForTimeouts X T s1 fuel s1.pBulkHead s1.pBulkTail = .ret s2 →
          UIMCheckForTimeouts W X T hccaWord fuel s0
            = .ret (UIMCheckForTimeouts.wedgeCheck W X hccaWord
                (W.checkRootHubInactivity s2))) := by
  subst hLive hHcca
  have hyes : (st.errataBits &&& W.kErrataNeedsWatchdogTimer ≠ 0
        ∧ st.pOHCIRegisters .hcFmNumber % 65536 > 5
        ∧ st.pOHCIRegisters .hcFmNumber % 65536 > hccaWord % 65536 + 5) →
      UIMCheckForTimeouts.wedgeCheck W X hccaWord st
        = UIMCheckForTimeouts.recover W X st := by
    intro hc
    unfold UIMCheckForTimeouts.wedgeCheck toUInt16
    rw [if_pos hc.1]
    dsimp only
    rw [if_pos hc.2]
  have hno : ¬ (st.errataBits &&& W.kErrataNeedsWatchdogTimer ≠ 0
        ∧ st.pOHCIRegisters .hcFmNumber % 65536 > 5
        ∧ st.pOHCIRegisters .hcFmNumber % 65536 > hccaWord % 65536 + 5) →
      UIMCheckForTimeouts.wedgeCheck W X hccaWord st = st := by
    intro hc
    unfold UIMCheckForTimeouts.wedgeCheck toUInt16
    by_cases he : st.errataBits &&& W.kErrataNeedsWatchdogTimer ≠ 0
    · rw [if_pos he]
      dsimp only
      rw [if_neg (fun h2 => hc ⟨he, h2⟩)]
    · rw [if_neg he]
  refine ⟨fun hc => ⟨hyes hc, fun hX => ⟨?_, ?_⟩⟩, fun hc => ⟨hno hc, by rw [hno hc]⟩,
    fun hX => ⟨fun hne => ?_, fun hc => ?_⟩, fun s1 s2 h1 h2 => ?_⟩
  · rw [hyes hc]
    exact UIMCheckForTimeouts.recover_writes W hX st
  · rw [hyes hc]
    exact UIMCheckForTimeouts.recover_control W hX st
  · by_contra hc
    exact hne (by rw [hno hc])
  · rw [hyes hc, UIMCheckForTimeouts.recover_writes W hX st]
    intro heq
    have hlen := congrArg List.length heq
    simp only [List.length_append, List.length_cons, List.length_nil] at hlen
    omega
  · unfold UIMCheckForTimeouts
    rw [h1]
    simp only [Outcome.bind_ret]
    rw [h2]
    simp only [Outcome.bind_ret]

/-- Witness for C34: the example driver with the errata bit set, the frame number register at
100 and the HCCA frame number 50; the check performs the recovery. -/
theorem UIMCheckForTimeouts_wedge_check_witness :
    ((exampleWedgeState 100).errataBits &&& exampleWatchdogHeader.kErrataNeedsWatchdogTimer ≠ 0
        ∧ 100 > 5 ∧ 100 > 50 + 5)
      ∧ exampleCollaborators.sleepQuiet
      ∧ UIMCheckForTimeouts.wedgeCheck exampleWatchdogHeader exampleCollaborators 50
          (exampleWedgeState 100)
        = UIMCheckForTimeouts.recover exampleWatchdogHeader exampleCollaborators
            (exampleWedgeState 100)
      ∧ ((UIMCheckForTimeouts.wedgeCheck exampleWatchdogHeader exampleCollaborators 50
            (exampleWedgeState 100)).registerWrites ≠ (exampleWedgeState 100).registerWrites
          ↔ ((exampleWedgeState 100).errataBits
              &&& exampleWatchdogHeader.kErrataNeedsWatchdogTimer ≠ 0
            ∧ 100 > 5 ∧ 100 > 50 + 5)) :=
  ⟨by decide, exampleCollaborators_sleepQuiet,
    ((UIMCheckForTimeouts_wedge_check exampleWatchdogHeader exampleCollaborators
      exampleWatchdog 50 5 (exampleWedgeState 100) (exampleWedgeState 100) 100 50 (by decide)
      (by decide)).1 (by decide)).1,
    (UIMCheckForTimeouts_wedge_check exampleWatchdogHeader exampleCollaborators
      exampleWatchdog 50 5 (exampleWedgeState 100) (exampleWedgeState 100) 100 50 (by decide)
      (by decide)).2.2.1 exampleCollaborators_sleepQuiet⟩

/-! ## The number of passes of the isochronous frame packing loops -/

theorem Outcome.bind_eq_outOfFuel {α β : Type} {o : Outcome α} {f : α → Outcome β}
    (h : o.bind f = .outOfFuel) : o = .outOfFuel ∨ ∃ a, o = .ret a ∧ f a = .outOfFuel := by
  cases o <;> simp [Outcome.bind] at h
  · exact Or.inr ⟨_, rfl, h⟩
  · exact Or.inl rfl

theorem SegmentArray.last_fuel (a : SegmentArray) (numSegs : Nat) :
    a.last numSegs ≠ .outOfFuel := by
  unfold SegmentArray.last
  split_ifs <;> simp

theorem IsochTransferLoop.placeOnPage_fuel (l : IsochTransferLoop)
    (pFrames frameNumber tdType : Nat) :
    l.placeOnPage pFrames frameNumber tdType ≠ .outOfFuel := by
  intro h
  unfold IsochTransferLoop.placeOnPage at h
  split_ifs at h
  rcases Outcome.bind_eq_outOfFuel h with h | ⟨seg, -, h⟩
  · exact SegmentArray.last_fuel _ _ h
  · cases h

theorem IsochTransferLoop.addFrame_fuel (l : IsochTransferLoop) : l.addFrame ≠ .outOfFuel := by
  intro h
  unfold IsochTransferLoop.addFrame at h
  rcases Outcome.bind_eq_outOfFuel h with h | ⟨seg, -, h⟩
  · exact SegmentArray.last_fuel _ _ h
  · cases h

/-- A pass of the standard loop does not depend on the fuel. -/
theorem UIMCreateIsochTransfer.body_fuel (pBuffer : IOMemoryDescriptor)
    (pFrames frameNumber tdType bufferSize : Nat) (l : IsochTransferLoop) :
    UIMCreateIsochTransfer.body pBuffer pFrames frameNumber tdType bufferSize l
      ≠ .outOfFuel := by
  intro h
  unfold UIMCreateIsochTransfer.body at h
  rcases Outcome.bind_eq_outOfFuel h with h | ⟨l1, -, h⟩
  · exact IsochTransferLoop.placeOnPage_fuel _ _ _ _ h
  · split at h
    · dsimp only at h
      split at h <;> cases h
    · rcases Outcome.bind_eq_outOfFuel h with h | ⟨l2, -, h⟩
      · exact IsochTransferLoop.addFrame_fuel _ h
      · cases h

/-- A pass of the low latency loop does not depend on the fuel. -/
theorem UIMCreateIsochTransferLL.body_fuel_ll (pBuffer : IOMemoryDescriptor)
    (pFrames frameNumber tdType bufferSize updateFrequency : Nat) (l : IsochTransferLoop) :
    UIMCreateIsochTransferLL.body pBuffer pFrames frameNumber tdType bufferSize updateFrequency l
      ≠ .outOfFuel := by
  intro h
  unfold UIMCreateIsochTransferLL.body at h
  rcases Outcome.bind_eq_outOfFuel h with h | ⟨l1, -, h⟩
  · exact IsochTransferLoop.placeOnPage_fuel _ _ _ _ h
  · split at h
    · dsimp only at h
      split at h <;> cases h
    · rcases Outcome.bind_eq_outOfFuel h with h | ⟨l2, -, h⟩
      · exact IsochTransferLoop.addFrame_fuel _ h
      · cases h

/-- What a pass of the standard loop does to the pool of iTDs: a pass that keeps the frame
index takes one iTD, a pass that moves it on takes none. -/
theorem UIMCreateIsochTransfer.body_pool {pBuffer : IOMemoryDescriptor}
    {pFrames frameNumber tdType bufferSize : Nat} {l l' : IsochTransferLoop}
    (h : UIMCreateIsochTransfer.body pBuffer pFrames frameNumber tdType bufferSize l
      = .ret (.inr l')) :
    (l'.curFrameInRequest = l.curFrameInRequest
        ∧ l.st.pFreeITD = l'.pNewITD :: l'.st.pFreeITD)
      ∨ (l'.curFrameInRequest = add32 l.curFrameInRequest 1
        ∧ l'.st.pFreeITD = l.st.pFreeITD) := by
  unfold UIMCreateIsochTransfer.body at h
  obtain ⟨l1, hplace, hrest⟩ := Outcome.bind_eq_ret h
  obtain ⟨-, p2, -, -, -, -⟩ := IsochTransferLoop.placeOnPage_counting hplace
  obtain ⟨hk1, -, -⟩ := IsochTransferLoop.placeOnPage_kept hplace
  obtain ⟨hs0, -, -⟩ := l.getSegments_kept pBuffer pFrames bufferSize
  rw [hs0] at hk1
  split_ifs at hrest with hnew
  · dsimp only at hrest
    rcases hp : l1.st.pFreeITD with _ | ⟨n, rest⟩
    · have hp2 : ∀ f, (setITD l1.st l1.pTailITD f).pFreeITD = [] := fun _ => hp
      rw [AllocateITD_nil _ (hp2 _)] at hrest
      simp only [Outcome.ret.injEq, reduceCtorEq] at hrest
    · have hp2 : ∀ f, (setITD l1.st l1.pTailITD f).pFreeITD = n :: rest := fun _ => hp
      rw [AllocateITD_cons _ n rest (hp2 _)] at hrest
      have hpool : l.st.pFreeITD = n :: rest := by rw [← hk1.pFreeITD, hp]
      dsimp only at hrest
      simp only [Outcome.ret.injEq, Sum.inr.injEq] at hrest
      subst hrest
      exact Or.inl ⟨p2, hpool⟩
  · obtain ⟨l2, hadd, hret⟩ := Outcome.bind_eq_ret hrest
    simp only [Outcome.ret.injEq, Sum.inr.injEq] at hret
    subst hret
    obtain ⟨hk2, -, -⟩ := IsochTransferLoop.addFrame_kept hadd
    obtain ⟨-, a2, -, -⟩ := IsochTransferLoop.addFrame_counting hadd
    exact Or.inr ⟨by rw [a2, p2], by rw [hk2.pFreeITD, hk1.pFreeITD]⟩

/-- What a pass of the low latency loop does to the pool of iTDs. -/
theorem UIMCreateIsochTransferLL.body_pool_ll {pBuffer : IOMemoryDescriptor}
    {pFrames frameNumber tdType bufferSize updateFrequency : Nat} {l l' : IsochTransferLoop}
    (h : UIMCreateIsochTransferLL.body pBuffer pFrames frameNumber tdType bufferSize
      updateFrequency l = .ret (.inr l')) :
    (l'.curFrameInRequest = l.curFrameInRequest
        ∧ l.st.pFreeITD = l'.pNewITD :: l'.st.pFreeITD)
      ∨ (l'.curFrameInRequest = add32 l.curFrameInRequest 1
        ∧ l'.st.pFreeITD = l.st.pFreeITD) := by
  unfold UIMCreateIsochTransferLL.body at h
  obtain ⟨l1, hplace, hrest⟩ := Outcome.bind_eq_ret h
  obtain ⟨-, p2, -, -, -, -⟩ := IsochTransferLoop.placeOnPage_counting hplace
  obtain ⟨hk1, -, -⟩ := IsochTransferLoop.placeOnPage_kept hplace
  obtain ⟨hs0, -, -⟩ := l.getSegments_kept pBuffer pFrames bufferSize
  rw [hs0] at hk1
  split at hrest
  · dsimp only at hrest
    rcases hp : l1.st.pFreeITD with _ | ⟨n, rest⟩
    · have hp2 : ∀ f, (setITD l1.st l1.pTailITD f).pFreeITD = [] := fun _ => hp
      rw [AllocateITD_nil _ (hp2 _)] at hrest
      simp only [Outcome.ret.injEq, reduceCtorEq] at hrest
    · have hp2 : ∀ f, (setITD l1.st l1.pTailITD f).pFreeITD = n :: rest := fun _ => hp
      rw [AllocateITD_cons _ n rest (hp2 _)] at hrest
      have hpool : l.st.pFreeITD = n :: rest := by rw [← hk1.pFreeITD, hp]
      dsimp only at hrest
      simp only [Outcome.ret.injEq, Sum.inr.injEq] at hrest
      subst hrest
      exact Or.inl ⟨p2, hpool⟩
  · obtain ⟨l2, hadd, hret⟩ := Outcome.bind_eq_ret hrest
    simp only [Outcome.ret.injEq, Sum.inr.injEq] at hret
    subst hret
    obtain ⟨hk2, -, -⟩ := IsochTransferLoop.addFrame_kept hadd
    obtain ⟨-, a2, -, -⟩ := IsochTransferLoop.addFrame_counting hadd
    exact Or.inr ⟨by rw [a2, p2], by rw [hk2.pFreeITD, hk1.pFreeITD]⟩
/-- The standard loop ends within the passes that the frames left to place allow. -/
theorem UIMCreateIsochTransfer.loop_fuel {pBuffer : IOMemoryDescriptor}
    {frameCount pFrames frameNumber tdType bufferSize : Nat} (hMax : frameCount ≤ 1000) :
    ∀ (fuel : Nat) (l : IsochTransferLoop), IsochCounting frameCount l →
      2 * (frameCount - l.curFrameInRequest) + 1
        ≤ fuel + (if l.curFrameInTD = 0 then 1 else 0) →
      UIMCreateIsochTransfer.loop pBuffer frameCount pFrames frameNumber tdType bufferSize fuel l
        ≠ .outOfFuel
  | 0, l, hI, hf => by
    exfalso
    have hm := hI.more
    split_ifs at hf with hz
    · have := hm hz
      omega
    · omega
  | fuel + 1, l, hI, hf => by
    intro h
    unfold UIMCreateIsochTransfer.loop at h
    split_ifs at h with hlt
    rcases Outcome.bind_eq_outOfFuel h with h | ⟨r, hr, h⟩
    · exact UIMCreateIsochTransfer.body_fuel _ _ _ _ _ _ h
    · cases r with
      | inl l' => cases h
      | inr l' =>
        dsimp only at h
        obtain ⟨hI', hP⟩ := (UIMCreateIsochTransfer.body_counting hI hlt hr).2 l' rfl
        refine UIMCreateIsochTransfer.loop_fuel hMax fuel l' hI' ?_ h
        rcases hP with ⟨e1, e2, e3, -⟩ | ⟨e1, e2, -, -⟩
        · rw [e1, if_pos e2]
          rw [if_neg (by omega)] at hf
          omega
        · have hadd : add32 l.curFrameInRequest 1 = l.curFrameInRequest + 1 := by
            unfold add32 W32
            omega
          rw [e1, hadd, if_neg (by omega)]
          split_ifs at hf <;> omega

/-- The low latency loop ends within the passes that the frames left to place allow. -/
theorem UIMCreateIsochTransferLL.loop_fuel_ll {pBuffer : IOMemoryDescriptor}
    {frameCount pFrames frameNumber tdType bufferSize updateFrequency : Nat}
    (hMax : frameCount ≤ 1000) :
    ∀ (fuel : Nat) (l : IsochTransferLoop), IsochCounting frameCount l →
      2 * (frameCount - l.curFrameInRequest) + 1
        ≤ fuel + (if l.curFrameInTD = 0 then 1 else 0) →
      UIMCreateIsochTransferLL.loop pBuffer frameCount pFrames frameNumber tdType bufferSize
        updateFrequency fuel l ≠ .outOfFuel
  | 0, l, hI, hf => by
    exfalso
    have hm := hI.more
    split_ifs at hf with hz
    · have := hm hz
      omega
    · omega
  | fuel + 1, l, hI, hf => by
    intro h
    unfold UIMCreateIsochTransferLL.loop at h
    split_ifs at h with hlt
    rcases Outcome.bind_eq_outOfFuel h with h | ⟨r, hr, h⟩
    · exact UIMCreateIsochTransferLL.body_fuel_ll _ _ _ _ _ _ _ h
    · cases r with
      | inl l' => cases h
      | inr l' =>
        dsimp only at h
        obtain ⟨hI', hP⟩ := (UIMCreateIsochTransferLL.body_counting_ll hI hlt hr).2 l' rfl
        refine UIMCreateIsochTransferLL.loop_fuel_ll hMax fuel l' hI' ?_ h
        rcases hP with ⟨e1, e2, e3, -⟩ | ⟨e1, e2, -, -⟩
        · rw [e1, if_pos e2]
          rw [if_neg (by omega)] at hf
          omega
        · have hadd : add32 l.curFrameInRequest 1 = l.curFrameInRequest + 1 := by
            unfold add32 W32
            omega
          rw [e1, hadd, if_neg (by omega)]
          split_ifs at hf <;> omega

/-- The two kinds of pass of either loop: one closes the current iTD, which holds a frame, and
takes an iTD from the pool; the other places a frame and leaves the pool alone. -/
theorem IsochCounting.pass_kinds {pBuffer : IOMemoryDescriptor}
    {pFrames frameNumber tdType bufferSize updateFrequency frameCount : Nat}
    {body : IsochTransferLoop → Outcome (Sum IsochTransferLoop IsochTransferLoop)}
    (hBody : body = UIMCreateIsochTransfer.body pBuffer pFrames frameNumber tdType bufferSize
      ∨ body = UIMCreateIsochTransferLL.body pBuffer pFrames frameNumber tdType bufferSize
        updateFrequency)
    (hMax : frameCount ≤ 1000) {l l' : IsochTransferLoop} (hI : IsochCounting frameCount l)
    (hlt : l.curFrameInRequest < frameCount) (hbody : body l = .ret (.inr l')) :
    IsochCounting frameCount l' ∧ IsochPass l l'
      ∧ ((l'.curFrameInRequest = l.curFrameInRequest ∧ l'.curFrameInTD = 0
          ∧ 1 ≤ l.curFrameInTD ∧ l.st.pFreeITD.length = l'.st.pFreeITD.length + 1)
        ∨ (l'.curFrameInRequest = l.curFrameInRequest + 1
          ∧ l'.curFrameInTD = l.curFrameInTD + 1
          ∧ l'.st.pFreeITD.length = l.st.pFreeITD.length)) := by
  have hadd : add32 l.curFrameInRequest 1 = l.curFrameInRequest + 1 := by
    unfold add32 W32
    omega
  have hboth : (IsochCounting frameCount l' ∧ IsochPass l l')
      ∧ ((l'.curFrameInRequest = l.curFrameInRequest
          ∧ l.st.pFreeITD = l'.pNewITD :: l'.st.pFreeITD)
        ∨ (l'.curFrameInRequest = add32 l.curFrameInRequest 1
          ∧ l'.st.pFreeITD = l.st.pFreeITD)) := by
    rcases hBody with hB | hB
    · rw [hB] at hbody
      exact ⟨(UIMCreateIsochTransfer.body_counting hI hlt hbody).2 l' rfl,
        UIMCreateIsochTransfer.body_pool hbody⟩
    · rw [hB] at hbody
      exact ⟨(UIMCreateIsochTransferLL.body_counting_ll hI hlt hbody).2 l' rfl,
        UIMCreateIsochTransferLL.body_pool_ll hbody⟩
  obtain ⟨⟨hI', hP⟩, hpool⟩ := hboth
  refine ⟨hI', hP, ?_⟩
  rcases hP with ⟨e1, e2, e3, -⟩ | ⟨e1, e2, -, -⟩
  · rcases hpool with ⟨-, q⟩ | ⟨q, -⟩
    · exact Or.inl ⟨e1, e2, e3, by rw [q]; rfl⟩
    · omega
  · rcases hpool with ⟨q, -⟩ | ⟨-, q⟩
    · omega
    · exact Or.inr ⟨by omega, e2, by rw [q]⟩

/-- The counted states are the reachable ones. -/
theorem IsochLoopCount.reachable
    {body : IsochTransferLoop → Outcome (Sum IsochTransferLoop IsochTransferLoop)}
    {frameCount n a : Nat} {l0 l : IsochTransferLoop}
    (h : IsochLoopCount body frameCount l0 n a l) : IsochLoopReachable body frameCount l0 l := by
  induction h with
  | entry => exact IsochLoopReachable.entry
  | pass n a l l' _ hlt hbody ih => exact IsochLoopReachable.pass l l' ih hlt hbody

/-- The count of the passes of either loop: every pass placed a frame or took an iTD from the
pool, and every iTD taken was paid for by a frame placed before. -/
theorem IsochLoopCount.bound {pBuffer : IOMemoryDescriptor}
    {pFrames frameNumber tdType bufferSize updateFrequency frameCount : Nat}
    {body : IsochTransferLoop → Outcome (Sum IsochTransferLoop IsochTransferLoop)}
    (hBody : body = UIMCreateIsochTransfer.body pBuffer pFrames frameNumber tdType bufferSize
      ∨ body = UIMCreateIsochTransferLL.body pBuffer pFrames frameNumber tdType bufferSize
        updateFrequency)
    (hMax : frameCount ≤ 1000) {l0 l : IsochTransferLoop} {n a : Nat}
    (h0 : IsochCounting frameCount l0) (hf0 : l0.curFrameInRequest = 0)
    (hc0 : l0.curFrameInTD = 0) (h : IsochLoopCount body frameCount l0 n a l) :
    IsochCounting frameCount l ∧ n = l.curFrameInRequest + a
      ∧ a + (if l.curFrameInTD = 0 then 0 else 1) ≤ l.curFrameInRequest
      ∧ l.curFrameInRequest ≤ frameCount := by
  induction h with
  | entry =>
    refine ⟨h0, by omega, ?_, by omega⟩
    rw [if_pos hc0]
    omega
  | pass n a l l' _ hlt hbody ih =>
    obtain ⟨hI, hn, ha, hle⟩ := ih
    obtain ⟨hI', -, hk⟩ := IsochCounting.pass_kinds hBody hMax hI hlt hbody
    refine ⟨hI', ?_⟩
    rcases hk with ⟨e1, e2, e3, e4⟩ | ⟨e1, e2, e4⟩
    · rw [e1, e2, e4, if_pos rfl]
      rw [if_neg (by omega)] at ha
      omega
    · rw [e1, e2, e4, if_neg (by omega)]
      split_ifs at ha <;> omega
/-- A run of the standard loop that returns is a counted sequence of passes, left at the loop
test that fails or by the `break` of a pass that found the pool empty. -/
theorem UIMCreateIsochTransfer.loop_count {pBuffer : IOMemoryDescriptor}
    {frameCount pFrames frameNumber tdType bufferSize : Nat} {l0 lf : IsochTransferLoop}
    {s : IOReturn} :
    ∀ (fuel n a : Nat) (l : IsochTransferLoop),
      IsochLoopCount (UIMCreateIsochTransfer.body pBuffer pFrames frameNumber tdType bufferSize)
        frameCount l0 n a l →
      UIMCreateIsochTransfer.loop pBuffer frameCount pFrames frameNumber tdType bufferSize fuel l
        = .ret (s, lf) →
      ∃ n' a' le,
        IsochLoopCount (UIMCreateIsochTransfer.body pBuffer pFrames frameNumber tdType
          bufferSize) frameCount l0 n' a' le
        ∧ ((s = .kIOReturnSuccess ∧ lf = le ∧ frameCount ≤ le.curFrameInRequest)
          ∨ (s = .kIOReturnNoMemory ∧ le.curFrameInRequest < frameCount
            ∧ UIMCreateIsochTransfer.body pBuffer pFrames frameNumber tdType bufferSize le
              = .ret (.inl lf)))
  | 0, _, _, _, _, h => by
    unfold UIMCreateIsochTransfer.loop at h
    cases h
  | fuel + 1, n, a, l, hc, h => by
    unfold UIMCreateIsochTransfer.loop at h
    split_ifs at h with hlt
    · obtain ⟨r, hr, h⟩ := Outcome.bind_eq_ret h
      cases r with
      | inl l' =>
        simp only [Outcome.ret.injEq, Prod.mk.injEq] at h
        obtain ⟨rfl, rfl⟩ := h
        exact ⟨n, a, l, hc, Or.inr ⟨rfl, hlt, hr⟩⟩
      | inr l' =>
        exact UIMCreateIsochTransfer.loop_count fuel _ _ l'
          (IsochLoopCount.pass n a l l' hc hlt hr) h
    · simp only [Outcome.ret.injEq, Prod.mk.injEq] at h
      obtain ⟨rfl, rfl⟩ := h
      exact ⟨n, a, l, hc, Or.inl ⟨rfl, rfl, by omega⟩⟩

/-- A run of the low latency loop that returns is a counted sequence of passes, left at the
loop test that fails or by the `break` of a pass that found the pool empty. -/
theorem UIMCreateIsochTransferLL.loop_count_ll {pBuffer : IOMemoryDescriptor}
    {frameCount pFrames frameNumber tdType bufferSize updateFrequency : Nat}
    {l0 lf : IsochTransferLoop} {s : IOReturn} :
    ∀ (fuel n a : Nat) (l : IsochTransferLoop),
      IsochLoopCount (UIMCreateIsochTransferLL.body pBuffer pFrames frameNumber tdType bufferSize
        updateFrequency) frameCount l0 n a l →
      UIMCreateIsochTransferLL.loop pBuffer frameCount pFrames frameNumber tdType bufferSize
        updateFrequency fuel l = .ret (s, lf) →
      ∃ n' a' le,
        IsochLoopCount (UIMCreateIsochTransferLL.body pBuffer pFrames frameNumber tdType
          bufferSize updateFrequency) frameCount l0 n' a' le
        ∧ ((s = .kIOReturnSuccess ∧ lf = le ∧ frameCount ≤ le.curFrameInRequest)
          ∨ (s = .kIOReturnNoMemory ∧ le.curFrameInRequest < frameCount
            ∧ UIMCreateIsochTransferLL.body pBuffer pFrames frameNumber tdType bufferSize
              updateFrequency le = .ret (.inl lf)))
  | 0, _, _, _, _, h => by
    unfold UIMCreateIsochTransferLL.loop at h
    cases h
  | fuel + 1, n, a, l, hc, h => by
    unfold UIMCreateIsochTransferLL.loop at h
    split_ifs at h with hlt
    · obtain ⟨r, hr, h⟩ := Outcome.bind_eq_ret h
      cases r with
      | inl l' =>
        simp only [Outcome.ret.injEq, Prod.mk.injEq] at h
        obtain ⟨rfl, rfl⟩ := h
        exact ⟨n, a, l, hc, Or.inr ⟨rfl, hlt, hr⟩⟩
      | inr l' =>
        exact UIMCreateIsochTransferLL.loop_count_ll fuel _ _ l'
          (IsochLoopCount.pass n a l l' hc hlt hr) h
    · simp only [Outcome.ret.injEq, Prod.mk.injEq] at h
      obtain ⟨rfl, rfl⟩ := h
      exact ⟨n, a, l, hc, Or.inl ⟨rfl, rfl, by omega⟩⟩

/-- The bounds of a counted state of either loop entered by `UIMCreateIsochTransfer`: the
passes made and the one to come are at most `2 * frameCount`, and the iTDs taken from the pool
in the loop, with the one taken before it, are at most `frameCount`. -/
theorem IsochLoopCount.totals {pBuffer : IOMemoryDescriptor}
    {pFrames frameNumber tdType bufferSize updateFrequency frameCount : Nat}
    {body : IsochTransferLoop → Outcome (Sum IsochTransferLoop IsochTransferLoop)}
    (hBody : body = UIMCreateIsochTransfer.body pBuffer pFrames frameNumber tdType bufferSize
      ∨ body = UIMCreateIsochTransferLL.body pBuffer pFrames frameNumber tdType bufferSize
        updateFrequency)
    (hCount : 1 ≤ frameCount) (hMax : frameCount ≤ 1000) {st : AppleUSBOHCI}
    {pED pNewITD n a : Nat} {l : IsochTransferLoop}
    (h : IsochLoopCount body frameCount (IsochTransferLoop.init st pED pNewITD bufferSize)
      n a l) :
    IsochCounting frameCount l ∧ n + 1 ≤ 2 * frameCount ∧ a + 1 ≤ frameCount := by
  obtain ⟨hI, hn, ha, hle⟩ := IsochLoopCount.bound hBody hMax
    (IsochCounting.entry st pED pNewITD bufferSize hCount) rfl rfl h
  have hm := hI.more
  refine ⟨hI, ?_, ?_⟩ <;> split_ifs at ha with hz
  · have := hm hz
    omega
  · omega
  · have := hm hz
    omega
  · omega
/-- C39: the frame packing loop of both variants of `UIMCreateIsochTransfer`, entered for a
request of 1 to 1000 frames with any buffer, any pool of iTDs and any `updateFrequency`,
terminates: with fuel for `2 * frameCount` passes or more neither loop runs out of fuel.  For
either loop body, every state at the loop test reached after `n` passes that took `a` iTDs
from the pool (`IsochLoopCount`) has `n + 1 ≤ 2 * frameCount`, so that with the pass to come
there are at most `2 * frameCount` passes, and `a + 1 ≤ frameCount`, so that with the iTD taken
before the loop at most `frameCount` calls of `AllocateITD` succeeded.  A pass from there
that goes on either closed an iTD or placed one frame (`IsochPass`); after one that closed an
iTD, which leaves the frame index as it was, frames remain and the next pass, if it returns,
does not break but places a frame.  And every run of either loop that returns is such a
counted sequence of passes, left at the failing loop test with success or by the `break` of a
pass on the empty pool with `kIOReturnNoMemory`. -/
theorem UIMCreateIsochTransfer_loop_terminates (st : AppleUSBOHCI) (pED pNewITD fuel : Nat)
    (pBuffer : IOMemoryDescriptor)
    (frameCount pFrames frameNumber tdType bufferSize updateFrequency : Nat)
    (body : IsochTransferLoop → Outcome (Sum IsochTransferLoop IsochTransferLoop))
    (hBody : body = UIMCreateIsochTransfer.body pBuffer pFrames frameNumber tdType bufferSize
      ∨ body = UIMCreateIsochTransferLL.body pBuffer pFrames frameNumber tdType bufferSize
        updateFrequency)
    (hCount : 1 ≤ frameCount) (hMax : frameCount ≤ 1000) (hFuel : 2 * frameCount ≤ fuel) :
    UIMCreateIsochTransfer.loop pBuffer frameCount pFrames frameNumber tdType bufferSize fuel
        (IsochTransferLoop.init st pED pNewITD bufferSize) ≠ .outOfFuel
      ∧ UIMCreateIsochTransferLL.loop pBuffer frameCount pFrames frameNumber tdType bufferSize
        updateFrequency fuel (IsochTransferLoop.init st pED pNewITD bufferSize) ≠ .outOfFuel
      ∧ (∀ n a l, IsochLoopCount body frameCount
            (IsochTransferLoop.init st pED pNewITD bufferSize) n a l →
          n + 1 ≤ 2 * frameCount ∧ a + 1 ≤ frameCount
          ∧ ∀ l', l.curFrameInRequest < frameCount → body l = .ret (.inr l') →
            IsochPass l l'
            ∧ (l'.curFrameInRequest = l.curFrameInRequest →
              l'.curFrameInRequest < frameCount
              ∧ ∀ r, body l' = .ret r →
                ∃ l'', r = .inr l''
                  ∧ l''.curFrameInRequest = l'.curFrameInRequest + 1))
      ∧ (∀ s lf, UIMCreateIsochTransfer.loop pBuffer frameCount pFrames frameNumber tdType
            bufferSize fuel (IsochTransferLoop.init st pED pNewITD bufferSize) = .ret (s, lf) →
          ∃ n a le,
            IsochLoopCount (UIMCreateIsochTransfer.body pBuffer pFrames frameNumber tdType
              bufferSize) frameCount (IsochTransferLoop.init st pED pNewITD bufferSize) n a le
            ∧ ((s = .kIOReturnSuccess ∧ lf = le ∧ frameCount ≤ le.curFrameInRequest)
              ∨ (s = .kIOReturnNoMemory ∧ le.curFrameInRequest < frameCount
                ∧ UIMCreateIsochTransfer.body pBuffer pFrames frameNumber tdType bufferSize le
                  = .ret (.inl lf))))
      ∧ ∀ s lf, UIMCreateIsochTransferLL.loop pBuffer frameCount pFrames frameNumber tdType
            bufferSize updateFrequency fuel (IsochTransferLoop.init st pED pNewITD bufferSize)
            = .ret (s, lf) →
          ∃ n a le,
            IsochLoopCount (UIMCreateIsochTransferLL.body pBuffer pFrames frameNumber tdType
              bufferSize updateFrequency) frameCount
              (IsochTransferLoop.init st pED pNewITD bufferSize) n a le
            ∧ ((s = .kIOReturnSuccess ∧ lf = le ∧ frameCount ≤ le.curFrameInRequest)
              ∨ (s = .kIOReturnNoMemory ∧ le.curFrameInRequest < frameCount
                ∧ UIMCreateIsochTransferLL.body pBuffer pFrames frameNumber tdType bufferSize
                  updateFrequency le = .ret (.inl lf))) := by
  have h0 := IsochCounting.entry st pED pNewITD bufferSize hCount
  have hf0 : 2 * (frameCount - (IsochTransferLoop.init st pED pNewITD
      bufferSize).curFrameInRequest) + 1
      ≤ fuel + (if (IsochTransferLoop.init st pED pNewITD bufferSize).curFrameInTD = 0
        then 1 else 0) := by
    show 2 * (frameCount - 0) + 1 ≤ fuel + (if (0 : Nat) = 0 then 1 else 0)
    rw [if_pos rfl]
    omega
  refine ⟨UIMCreateIsochTransfer.loop_fuel hMax fuel _ h0 hf0,
    UIMCreateIsochTransferLL.loop_fuel_ll hMax fuel _ h0 hf0, fun n a l hc => ?_,
    fun s lf h => UIMCreateIsochTransfer.loop_count fuel 0 0 _ IsochLoopCount.entry h,
    fun s lf h => UIMCreateIsochTransferLL.loop_count_ll fuel 0 0 _ IsochLoopCount.entry h⟩
  obtain ⟨hI, hn, ha⟩ := IsochLoopCount.totals hBody hCount hMax hc
  refine ⟨hn, ha, fun l' hlt hbody => ?_⟩
  obtain ⟨hI', hP, hk⟩ := IsochCounting.pass_kinds hBody hMax hI hlt hbody
  refine ⟨hP, fun hsame => ?_⟩
  have hz : l'.curFrameInTD = 0 := by
    rcases hk with ⟨-, e2, -⟩ | ⟨e1, -⟩
    · exact e2
    · omega
  have hlt' := hI'.more hz
  refine ⟨hlt', fun r hr => ?_⟩
  have key : (∀ l'', r = .inl l'' → 1 ≤ l'.curFrameInTD ∧ l'.curFrameInTD ≤ 8
        ∧ sub32 l'.curFrameInTD 1 = l'.curFrameInTD - 1
        ∧ ∀ x k, (l''.st.itds x).offset k = (l'.st.itds x).offset k)
      ∧ ∀ l'', r = .inr l'' → IsochCounting frameCount l'' ∧ IsochPass l' l'' := by
    rcases hBody with hB | hB
    · rw [hB] at hr
      exact UIMCreateIsochTransfer.body_counting hI' hlt' hr
    · rw [hB] at hr
      exact UIMCreateIsochTransferLL.body_counting_ll hI' hlt' hr
  cases r with
  | inl l'' =>
    have := (key.1 l'' rfl).1
    omega
  | inr l'' =>
    refine ⟨l'', rfl, ?_⟩
    obtain ⟨-, -, hk'⟩ := IsochCounting.pass_kinds hBody hMax hI' hlt' hr
    rcases hk' with ⟨-, -, e3, -⟩ | ⟨e1, -⟩
    · omega
    · exact e1

/-- Witness for C39: the loops entered on the example driver for the request of 3 frames on
the isochronous endpoint 21 (placeholder 200, new iTD 201) with fuel for 8 passes. -/
theorem UIMCreateIsochTransfer_loop_terminates_witness :
    1 ≤ 3 ∧ 3 ≤ 1000 ∧ 2 * 3 ≤ 8
      ∧ UIMCreateIsochTransfer.loop exampleScatteredBuffer 3 7 34474 0 3 8
        (IsochTransferLoop.init exampleBulkQueuedState 21 201 3) ≠ .outOfFuel
      ∧ UIMCreateIsochTransferLL.loop exampleScatteredBuffer 3 7 34474 0 3 2 8
        (IsochTransferLoop.init exampleBulkQueuedState 21 201 3) ≠ .outOfFuel :=
  ⟨by decide, by decide, by decide,
    (UIMCreateIsochTransfer_loop_terminates exampleBulkQueuedState 21 201 8
      exampleScatteredBuffer 3 7 34474 0 3 2 _ (Or.inl rfl) (by decide) (by decide)
      (by decide)).1,
    (UIMCreateIsochTransfer_loop_terminates exampleBulkQueuedState 21 201 8
      exampleScatteredBuffer 3 7 34474 0 3 2 _ (Or.inl rfl) (by decide) (by decide)
      (by decide)).2.1⟩

/-! ## The low latency variant against the standard one -/

/-- A pass of the low latency loop on an iTD that has not reached the update frequency is a
pass of the standard loop. -/
theorem UIMCreateIsochTransferLL.body_standard (pBuffer : IOMemoryDescriptor)
    (pFrames frameNumber tdType bufferSize updateFrequency : Nat) (l : IsochTransferLoop)
    (hU : ¬ (updateFrequency ≠ 0 ∧ updateFrequency ≤ l.curFrameInTD)) :
    UIMCreateIsochTransferLL.body pBuffer pFrames frameNumber tdType bufferSize updateFrequency l
      = UIMCreateIsochTransfer.body pBuffer pFrames frameNumber tdType bufferSize l := by
  unfold UIMCreateIsochTransferLL.body UIMCreateIsochTransfer.body
  dsimp only
  rcases hp : (l.getSegments pBuffer pFrames bufferSize).placeOnPage pFrames frameNumber tdType
    with l1 | _ | _ | _ | _
  · obtain ⟨p1, -⟩ := IsochTransferLoop.placeOnPage_counting hp
    have hno : ¬ ((decide (updateFrequency ≠ 0) : Bool) = true
        ∧ l1.curFrameInTD ≥ updateFrequency) := by
      rw [p1]
      intro h
      exact hU ⟨of_decide_eq_true h.1, h.2⟩
    simp only [Outcome.bind]
    by_cases hc : l1.curFrameInTD > 7 ∨ l1.needNewITD = true
    · rw [if_pos hc, if_pos (by tauto), if_pos hno]
    · rw [if_neg hc, if_neg (by tauto)]
  · rfl
  · rfl
  · rfl
  · rfl

theorem AppleUSBOHCI.eraseTags_setITD (st : AppleUSBOHCI) (p : Nat)
    (f g : OHCIIsochTransferDescriptor → OHCIIsochTransferDescriptor)
    (hfg : ∀ d, (f d).eraseTag = g d.eraseTag) :
    (setITD st p f).eraseTags = setITD st.eraseTags p g := by
  unfold setITD AppleUSBOHCI.eraseTags
  dsimp only
  congr 1
  funext x
  by_cases hx : x = p
  · subst hx
    rw [Function.update_same, Function.update_same]
    exact hfg _
  · rw [Function.update_noteq hx, Function.update_noteq hx]

theorem AppleUSBOHCI.eraseTags_setED (st : AppleUSBOHCI) (p : Nat)
    (f : OHCIEndpointDescriptor → OHCIEndpointDescriptor) :
    (setED st p f).eraseTags = setED st.eraseTags p f := rfl

theorem AppleUSBOHCI.eraseTags_AllocateITD (st : AppleUSBOHCI) :
    AllocateITD st.eraseTags = ((AllocateITD st).1, (AllocateITD st).2.eraseTags) := by
  unfold AllocateITD
  have hp : st.eraseTags.pFreeITD = st.pFreeITD := rfl
  rcases h : st.pFreeITD with _ | ⟨p, rest⟩
  · simp only [hp, h]
  · simp only [hp, h]
    rfl

theorem AppleUSBOHCI.eraseTags_DeallocateITD (st : AppleUSBOHCI) (p : Nat) :
    (DeallocateITD st p).eraseTags = DeallocateITD st.eraseTags p := rfl

theorem IsochTransferLoop.eraseTags_getSegments (l : IsochTransferLoop)
    (pBuffer : IOMemoryDescriptor) (pFrames bufferSize : Nat) :
    (l.getSegments pBuffer pFrames bufferSize).eraseTags
      = l.eraseTags.getSegments pBuffer pFrames bufferSize := by
  unfold IsochTransferLoop.getSegments
  have hn : l.eraseTags.needNewITD = l.needNewITD := rfl
  rw [hn]
  split_ifs
  · rfl
  · rfl

theorem IsochTransferLoop.eraseTags_placeOnPage (l : IsochTransferLoop)
    (pFrames frameNumber tdType : Nat) :
    (l.placeOnPage pFrames frameNumber tdType).map IsochTransferLoop.eraseTags
      = l.eraseTags.placeOnPage pFrames frameNumber 0 := by
  unfold IsochTransferLoop.placeOnPage
  have h1 : l.eraseTags.curFrameInTD = l.curFrameInTD := rfl
  have h2 : l.eraseTags.segs = l.segs := rfl
  have h3 : l.eraseTags.physPageStart = l.physPageStart := rfl
  have h4 : l.eraseTags.pageSelectMask = l.pageSelectMask := rfl
  have h5 : l.eraseTags.physPageEnd = l.physPageEnd := rfl
  have h6 : l.eraseTags.numSegs = l.numSegs := rfl
  rw [h1, h2, h3, h4, h5, h6]
  split_ifs
  · simp only [Outcome.map]
    congr 1
    unfold IsochTransferLoop.eraseTags
    dsimp only
    congr 1
    exact AppleUSBOHCI.eraseTags_setITD _ _ _ _ (fun d => rfl)
  · rfl
  · rcases hs : l.segs.last l.numSegs with seg | _ | _ | _ | _ <;> rfl
  · rfl

theorem IsochTransferLoop.eraseTags_addFrame (l : IsochTransferLoop) :
    l.addFrame.map IsochTransferLoop.eraseTags = l.eraseTags.addFrame := by
  unfold IsochTransferLoop.addFrame
  have h2 : l.eraseTags.segs = l.segs := rfl
  have h6 : l.eraseTags.numSegs = l.numSegs := rfl
  dsimp only
  rw [h2, h6]
  rcases hs : l.segs.last l.numSegs with seg | _ | _ | _ | _
  · simp only [Outcome.bind, Outcome.map]
    congr 1
    unfold IsochTransferLoop.eraseTags
    dsimp only
    congr 1
    exact AppleUSBOHCI.eraseTags_setITD _ _ _ _ (fun d => rfl)
  · rfl
  · rfl
  · rfl
  · rfl

/-- The two stores with which a pass closes the iTD `T` and links the next one to the new
iTD `p`, on the state without tags. -/
theorem AppleUSBOHCI.eraseTags_closeAndLink (s : AppleUSBOHCI) (T p : Nat)
    (f : OHCIIsochTransferDescriptor → OHCIIsochTransferDescriptor)
    (hf : ∀ d, (f d).eraseTag = f d.eraseTag) :
    (setITD (setITD s T f) ((setITD s T f).itds T).pLogicalNext fun itd =>
        { itd with nextTD := ((setITD s T f).itds p).pPhysical, pLogicalNext := p }).eraseTags
      = (setITD (setITD s.eraseTags T f) ((setITD s.eraseTags T f).itds T).pLogicalNext fun itd =>
        { itd with nextTD := ((setITD s.eraseTags T f).itds p).pPhysical, pLogicalNext := p })
    ∧ ((setITD s T f).itds T).pLogicalNext = ((setITD s.eraseTags T f).itds T).pLogicalNext := by
  rw [← AppleUSBOHCI.eraseTags_setITD s T f f hf]
  exact ⟨AppleUSBOHCI.eraseTags_setITD (setITD s T f) _ _ _ (fun d => rfl), rfl⟩

/-- A pass of the standard loop on the state without tags, itself run without a tag, is the
pass on the state with the tags erased afterwards. -/
theorem UIMCreateIsochTransfer.eraseTags_body (pBuffer : IOMemoryDescriptor)
    (pFrames frameNumber tdType bufferSize : Nat) (l : IsochTransferLoop) :
    (UIMCreateIsochTransfer.body pBuffer pFrames frameNumber tdType bufferSize l).map
        (Sum.map IsochTransferLoop.eraseTags IsochTransferLoop.eraseTags)
      = UIMCreateIsochTransfer.body pBuffer pFrames frameNumber 0 bufferSize l.eraseTags := by
  unfold UIMCreateIsochTransfer.body
  rw [← IsochTransferLoop.eraseTags_getSegments, ← IsochTransferLoop.eraseTags_placeOnPage]
  rcases hp : (l.getSegments pBuffer pFrames bufferSize).placeOnPage pFrames frameNumber tdType
    with l1 | _ | _ | _ | _
  · simp only [Outcome.bind, Outcome.map]
    have h1 : l1.eraseTags.curFrameInTD = l1.curFrameInTD := rfl
    have h2 : l1.eraseTags.needNewITD = l1.needNewITD := rfl
    rw [h1, h2]
    split_ifs with hc
    · have hset : setITD l1.eraseTags.st l1.eraseTags.pTailITD
            (fun itd => { itd with bufferEnd := l1.eraseTags.lastPhysical })
          = (setITD l1.st l1.pTailITD fun itd =>
            { itd with bufferEnd := l1.lastPhysical }).eraseTags :=
        by symm; exact AppleUSBOHCI.eraseTags_setITD _ _ _ _ (fun d => rfl)
      rw [hset, AppleUSBOHCI.eraseTags_AllocateITD]
      rcases ha : AllocateITD (setITD l1.st l1.pTailITD fun itd =>
        { itd with bufferEnd := l1.lastPhysical }) with ⟨_ | p, s⟩
      · rfl
      · show Outcome.ret (Sum.inr (IsochTransferLoop.eraseTags _)) = Outcome.ret (Sum.inr _)
        congr 2
        unfold IsochTransferLoop.eraseTags
        dsimp only
        congr 1
        · refine And.left (AppleUSBOHCI.eraseTags_closeAndLink s l1.pTailITD p _ ?_)
          intro d
          rfl
        · refine And.right (AppleUSBOHCI.eraseTags_closeAndLink s l1.pTailITD p _ ?_)
          intro d
          rfl
    · have h := IsochTransferLoop.eraseTags_addFrame l1
      rcases hadd : l1.addFrame with l2 | _ | _ | _ | _
      · rw [hadd] at h
        rw [← h]
        rfl
      · rw [hadd] at h
        rw [← h]
        rfl
      · rw [hadd] at h
        rw [← h]
        rfl
      · rw [hadd] at h
        rw [← h]
        rfl
      · rw [hadd] at h
        rw [← h]
        rfl
  · rfl
  · rfl
  · rfl
  · rfl

theorem UIMCreateIsochTransfer.eraseTags_loop (pBuffer : IOMemoryDescriptor)
    (frameCount pFrames frameNumber tdType bufferSize : Nat) :
    ∀ (fuel : Nat) (l : IsochTransferLoop),
      (UIMCreateIsochTransfer.loop pBuffer frameCount pFrames frameNumber tdType bufferSize
          fuel l).map eraseLoopResult
        = UIMCreateIsochTransfer.loop pBuffer frameCount pFrames frameNumber 0 bufferSize fuel
          l.eraseTags
  | 0, _ => rfl
  | fuel + 1, l => by
    rw [UIMCreateIsochTransfer.loop, UIMCreateIsochTransfer.loop]
    have hc : l.eraseTags.curFrameInRequest = l.curFrameInRequest := rfl
    rw [hc, ← UIMCreateIsochTransfer.eraseTags_body pBuffer pFrames frameNumber tdType]
    split_ifs with hlt
    · rcases hb : UIMCreateIsochTransfer.body pBuffer pFrames frameNumber tdType bufferSize l
        with r | _ | _ | _ | _
      · rcases r with l1 | l1
        · rfl
        · exact UIMCreateIsochTransfer.eraseTags_loop pBuffer frameCount pFrames frameNumber
            tdType bufferSize fuel l1
      · rfl
      · rfl
      · rfl
      · rfl
    · rfl

theorem eraseTags_unlinkITDs (pNewITD : Nat) :
    ∀ (fuel : Nat) (st : AppleUSBOHCI) (pTailITD : Nat),
      (unlinkITDs pNewITD fuel st pTailITD).map AppleUSBOHCI.eraseTags
        = unlinkITDs pNewITD fuel st.eraseTags pTailITD
  | 0, _, _ => rfl
  | fuel + 1, st, pTailITD => by
    rw [unlinkITDs, unlinkITDs]
    split_ifs
    · rfl
    · exact eraseTags_unlinkITDs pNewITD fuel (DeallocateITD st pTailITD) _
    · rfl

theorem Outcome.map_bind_status (o : Outcome AppleUSBOHCI) (status : IOReturn) :
    (o.bind fun st => Outcome.ret (status, st)).map eraseResult
      = (o.map AppleUSBOHCI.eraseTags).bind fun st => Outcome.ret (status, st) := by
  cases o <;> rfl

theorem UIMCreateIsochTransfer.eraseTags_finish (fuel pED : Nat) (completion : IOUSBCompletion)
    (status : IOReturn) (l : IsochTransferLoop) :
    (UIMCreateIsochTransfer.finish fuel pED completion status l).map eraseResult
      = UIMCreateIsochTransfer.finish fuel pED completion status l.eraseTags := by
  unfold UIMCreateIsochTransfer.finish
  dsimp only
  split_ifs with hs
  · have hset : setITD l.eraseTags.st (l.eraseTags.st.eds pED).pLogicalTailP
          (fun itd => { itd with pLogicalNext := 0, nextTD := 0 })
        = (setITD l.st (l.st.eds pED).pLogicalTailP
          fun itd => { itd with pLogicalNext := 0, nextTD := 0 }).eraseTags := by
      symm
      refine AppleUSBOHCI.eraseTags_setITD _ _ _ _ ?_
      intro d
      rfl
    rw [hset, ← eraseTags_unlinkITDs]
    exact Outcome.map_bind_status _ status
  · show Outcome.ret (status, AppleUSBOHCI.eraseTags _) = Outcome.ret (status, _)
    congr 2
    rw [AppleUSBOHCI.eraseTags_setED]
    have hset : (setITD l.st l.pTailITD fun itd =>
          { itd with flags := l.itdFlags ||| shl32 (sub32 l.curFrameInTD 1)
                       kOHCIITDControl_FCPhase,
                     bufferEnd := l.lastPhysical, completion := completion }).eraseTags
        = setITD l.eraseTags.st l.eraseTags.pTailITD fun itd =>
          { itd with flags := l.eraseTags.itdFlags ||| shl32 (sub32 l.eraseTags.curFrameInTD 1)
                       kOHCIITDControl_FCPhase,
                     bufferEnd := l.eraseTags.lastPhysical, completion := completion } := by
      refine AppleUSBOHCI.eraseTags_setITD _ _ _ _ ?_
      intro d
      rfl
    rw [← hset]
    rfl

theorem IsochTransferLoop.eraseTags_init (st : AppleUSBOHCI) (pED pNewITD bufferSize : Nat) :
    (IsochTransferLoop.init st pED pNewITD bufferSize).eraseTags
      = IsochTransferLoop.init st.eraseTags pED pNewITD bufferSize := by
  unfold IsochTransferLoop.init IsochTransferLoop.eraseTags
  dsimp only
  congr 1
  refine AppleUSBOHCI.eraseTags_setITD _ _ _ _ ?_
  intro d
  rfl

/-- The size of the buffer does not depend on the tags. -/
theorem UIMCreateIsochTransfer.eraseTags_bufferSize (st : AppleUSBOHCI) (pFrames : Nat) :
    ∀ (n i bufferSize : Nat),
      UIMCreateIsochTransfer.bufferSize st.eraseTags pFrames n i bufferSize
        = UIMCreateIsochTransfer.bufferSize st pFrames n i bufferSize
  | 0, _, _ => rfl
  | n + 1, i, bufferSize => by
    rw [UIMCreateIsochTransfer.bufferSize, UIMCreateIsochTransfer.bufferSize]
    have h : (st.eraseTags.isocFrames pFrames i).frReqCount
        = (st.isocFrames pFrames i).frReqCount := rfl
    rw [h, UIMCreateIsochTransfer.eraseTags_bufferSize st pFrames n (i + 1)]

/-- The preset of a frame status is not seen once the tags are erased. -/
theorem AppleUSBOHCI.eraseTags_preset (st : AppleUSBOHCI) (pFrames i key : Nat) :
    ({ st with
        isocFrames :=
          Function.update st.isocFrames pFrames
            (Function.update (st.isocFrames pFrames) i
              { st.isocFrames pFrames i with frStatus := key }) } : AppleUSBOHCI).eraseTags
      = st.eraseTags := by
  unfold AppleUSBOHCI.eraseTags
  dsimp only
  congr 1
  funext p j
  by_cases hp : p = pFrames
  · subst hp
    rw [Function.update_same]
    by_cases hj : j = i
    · subst hj
      rw [Function.update_same]
      rfl
    · rw [Function.update_noteq hj]
  · rw [Function.update_noteq hp]

/-- The `for` loop of the low latency variant computes the size that the one of the standard
variant computes, and changes nothing but the status of frames. -/
theorem UIMCreateIsochTransferLL.eraseTags_bufferSize_ll (H : Header) (pFrames : Nat) :
    ∀ (n i bufferSize : Nat) (st : AppleUSBOHCI),
      (UIMCreateIsochTransferLL.bufferSize H pFrames n i bufferSize st).1
          = UIMCreateIsochTransfer.bufferSize st pFrames n i bufferSize
        ∧ (UIMCreateIsochTransferLL.bufferSize H pFrames n i bufferSize st).2.eraseTags
          = st.eraseTags
  | 0, _, _, _ => ⟨rfl, rfl⟩
  | n + 1, i, bufferSize, st => by
    rw [UIMCreateIsochTransferLL.bufferSize, UIMCreateIsochTransfer.bufferSize]
    split_ifs with h
    · exact ⟨rfl, rfl⟩
    · dsimp only
      obtain ⟨h1, h2⟩ := UIMCreateIsochTransferLL.eraseTags_bufferSize_ll H pFrames n (i + 1)
        (add32 bufferSize (st.isocFrames pFrames i).frReqCount)
        { st with
          isocFrames :=
            Function.update st.isocFrames pFrames
              (Function.update (st.isocFrames pFrames) i
                { st.isocFrames pFrames i with
                  frStatus := H.kUSBLowLatencyIsochTransferKey }) }
      have he := AppleUSBOHCI.eraseTags_preset st pFrames i H.kUSBLowLatencyIsochTransferKey
      refine ⟨?_, h2.trans he⟩
      rw [h1, ← UIMCreateIsochTransfer.eraseTags_bufferSize, he,
        UIMCreateIsochTransfer.eraseTags_bufferSize]

/-- The low latency loop with an update frequency of 0 or above 8 is the standard loop. -/
theorem UIMCreateIsochTransferLL.loop_standard (pBuffer : IOMemoryDescriptor)
    (frameCount pFrames frameNumber tdType bufferSize updateFrequency : Nat)
    (hU : updateFrequency = 0 ∨ 8 < updateFrequency) :
    ∀ (fuel : Nat) (l : IsochTransferLoop), IsochCounting frameCount l →
      UIMCreateIsochTransferLL.loop pBuffer frameCount pFrames frameNumber tdType bufferSize
          updateFrequency fuel l
        = UIMCreateIsochTransfer.loop pBuffer frameCount pFrames frameNumber tdType bufferSize
          fuel l
  | 0, _, _ => rfl
  | fuel + 1, l, hI => by
    rw [UIMCreateIsochTransferLL.loop, UIMCreateIsochTransfer.loop]
    have hle := hI.le
    rw [UIMCreateIsochTransferLL.body_standard pBuffer pFrames frameNumber tdType bufferSize
      updateFrequency l (by omega)]
    split_ifs with hlt
    · rcases hb : UIMCreateIsochTransfer.body pBuffer pFrames frameNumber tdType bufferSize l
        with r | _ | _ | _ | _
      · rcases r with l1 | l1
        · rfl
        · exact UIMCreateIsochTransferLL.loop_standard pBuffer frameCount pFrames frameNumber
            tdType bufferSize updateFrequency hU fuel l1
            ((UIMCreateIsochTransfer.body_counting hI hlt hb).2 l1 rfl).1
      · rfl
      · rfl
      · rfl
      · rfl
    · rfl

/-- The standard variant from the endpoint on, run without a tag on the state without tags, is
the standard variant with the tags erased afterwards. -/
theorem UIMCreateIsochTransfer.eraseTags_queue (st : AppleUSBOHCI) (fuel pED : Nat)
    (completion : IOUSBCompletion) (frameNumberStart : Nat) (pBuffer : IOMemoryDescriptor)
    (frameCount pFrames tdType : Nat) :
    (UIMCreateIsochTransfer.queue st fuel pED completion frameNumberStart pBuffer frameCount
        pFrames tdType).map eraseResult
      = UIMCreateIsochTransfer.queue st.eraseTags fuel pED completion frameNumberStart pBuffer
        frameCount pFrames 0 := by
  unfold UIMCreateIsochTransfer.queue
  have hf : GetFrameNumber st.eraseTags = GetFrameNumber st := rfl
  rw [hf, UIMCreateIsochTransfer.eraseTags_bufferSize, AppleUSBOHCI.eraseTags_AllocateITD]
  rcases isochFrameWindow (frameNumberStart % W64) (GetFrameNumber st) with _ | error
  · rcases UIMCreateIsochTransfer.bufferSize st pFrames frameCount 0 0 with _ | bufferSize
    · rfl
    · rcases AllocateITD st with ⟨_ | p, s⟩
      · rfl
      · dsimp only
        rw [← IsochTransferLoop.eraseTags_init, ← UIMCreateIsochTransfer.eraseTags_loop pBuffer
          frameCount pFrames (toUInt16 frameNumberStart) tdType]
        rcases UIMCreateIsochTransfer.loop pBuffer frameCount pFrames
          (toUInt16 frameNumberStart) tdType bufferSize (2 * frameCount + 2)
          (IsochTransferLoop.init s pED p bufferSize) with r | _ | _ | _ | _
        · exact UIMCreateIsochTransfer.eraseTags_finish fuel pED completion r.1 r.2
        · rfl
        · rfl
        · rfl
        · rfl
  · rfl

/-- The low latency variant from the endpoint on, with an update frequency of 0 or above 8
and tags erased afterwards, is the standard variant run without a tag on the state without
tags. -/
theorem UIMCreateIsochTransferLL.eraseTags_queue_ll (H : Header) (st : AppleUSBOHCI)
    (fuel pED : Nat) (completion : IOUSBCompletion) (frameNumberStart : Nat)
    (pBuffer : IOMemoryDescriptor) (frameCount pFrames updateFrequency tdType : Nat)
    (hCount : 1 ≤ frameCount) (hU : updateFrequency = 0 ∨ 8 < updateFrequency) :
    (UIMCreateIsochTransferLL.queue H st fuel pED completion frameNumberStart pBuffer frameCount
        pFrames updateFrequency tdType).map eraseResult
      = UIMCreateIsochTransfer.queue st.eraseTags fuel pED completion frameNumberStart pBuffer
        frameCount pFrames 0 := by
  unfold UIMCreateIsochTransferLL.queue UIMCreateIsochTransfer.queue
  have hf : GetFrameNumber st.eraseTags = GetFrameNumber st := rfl
  obtain ⟨h1, h2⟩ := UIMCreateIsochTransferLL.eraseTags_bufferSize_ll H pFrames frameCount 0 0 st
  rw [hf, UIMCreateIsochTransfer.eraseTags_bufferSize, ← h1, ← h2,
    AppleUSBOHCI.eraseTags_AllocateITD]
  rcases isochFrameWindow (frameNumberStart % W64) (GetFrameNumber st) with _ | error
  · rcases UIMCreateIsochTransferLL.bufferSize H pFrames frameCount 0 0 st with ⟨_ | bufferSize, s0⟩
    · rfl
    · dsimp only
      rcases AllocateITD s0 with ⟨_ | p, s⟩
      · rfl
      · dsimp only
        rw [UIMCreateIsochTransferLL.loop_standard pBuffer frameCount pFrames
          (toUInt16 frameNumberStart) tdType bufferSize updateFrequency hU _ _
          (IsochCounting.entry s pED p bufferSize hCount),
          ← IsochTransferLoop.eraseTags_init, ← UIMCreateIsochTransfer.eraseTags_loop pBuffer
          frameCount pFrames (toUInt16 frameNumberStart) tdType]
        rcases UIMCreateIsochTransfer.loop pBuffer frameCount pFrames
          (toUInt16 frameNumberStart) tdType bufferSize (2 * frameCount + 2)
          (IsochTransferLoop.init s pED p bufferSize) with r | _ | _ | _ | _
        · exact UIMCreateIsochTransfer.eraseTags_finish fuel pED completion r.1 r.2
        · rfl
        · rfl
        · rfl
        · rfl
  · show Outcome.ret _ = Outcome.ret _
    rw [h2]
    rfl

theorem Outcome.map_eq_ret {α β : Type} {f : α → β} {o : Outcome α} {b : β}
    (h : o.map f = .ret b) : ∃ a, o = .ret a ∧ f a = b := by
  cases o <;> simp [Outcome.map] at h
  exact ⟨_, rfl, h⟩

/-- Two states with the same image under `eraseTags` agree in everything but the `pType` of
the iTDs and the `frStatus` of the frames. -/
theorem AppleUSBOHCI.eraseTags_fields {a b : AppleUSBOHCI} (h : a.eraseTags = b.eraseTags) :
    a.eds = b.eds ∧ a.tds = b.tds ∧ a.pFreeED = b.pFreeED ∧ a.pFreeTD = b.pFreeTD
      ∧ a.pFreeITD = b.pFreeITD ∧ a.registerWrites = b.registerWrites
      ∧ (∀ x, (a.itds x).flags = (b.itds x).flags
        ∧ (a.itds x).bufferPage0 = (b.itds x).bufferPage0
        ∧ (a.itds x).nextTD = (b.itds x).nextTD
        ∧ (a.itds x).bufferEnd = (b.itds x).bufferEnd
        ∧ (a.itds x).offset = (b.itds x).offset
        ∧ (a.itds x).pIsocFrame = (b.itds x).pIsocFrame
        ∧ (a.itds x).frameNum = (b.itds x).frameNum
        ∧ (a.itds x).completion = (b.itds x).completion
        ∧ (a.itds x).pPhysical = (b.itds x).pPhysical
        ∧ (a.itds x).pLogicalNext = (b.itds x).pLogicalNext)
      ∧ ∀ p i, (a.isocFrames p i).frReqCount = (b.isocFrames p i).frReqCount
        ∧ (a.isocFrames p i).frActCount = (b.isocFrames p i).frActCount := by
  have hi : ∀ x, (a.itds x).eraseTag = (b.itds x).eraseTag := fun x =>
    congrFun (congrArg AppleUSBOHCI.itds h) x
  have hf : ∀ p i, (a.isocFrames p i).eraseStatus = (b.isocFrames p i).eraseStatus :=
    fun p i => congrFun (congrFun (congrArg AppleUSBOHCI.isocFrames h) p) i
  have e1 := congrArg AppleUSBOHCI.eds h
  have e2 := congrArg AppleUSBOHCI.tds h
  have e3 := congrArg AppleUSBOHCI.pFreeED h
  have e4 := congrArg AppleUSBOHCI.pFreeTD h
  have e5 := congrArg AppleUSBOHCI.pFreeITD h
  have e6 := congrArg AppleUSBOHCI.registerWrites h
  refine ⟨e1, e2, e3, e4, e5, e6, fun x => ?_, fun p i => ?_⟩
  · have hx := hi x
    have d1 := congrArg OHCIIsochTransferDescriptor.flags hx
    have d2 := congrArg OHCIIsochTransferDescriptor.bufferPage0 hx
    have d3 := congrArg OHCIIsochTransferDescriptor.nextTD hx
    have d4 := congrArg OHCIIsochTransferDescriptor.bufferEnd hx
    have d5 := congrArg OHCIIsochTransferDescriptor.offset hx
    have d6 := congrArg OHCIIsochTransferDescriptor.pIsocFrame hx
    have d7 := congrArg OHCIIsochTransferDescriptor.frameNum hx
    have d8 := congrArg OHCIIsochTransferDescriptor.completion hx
    have d9 := congrArg OHCIIsochTransferDescriptor.pPhysical hx
    have d10 := congrArg OHCIIsochTransferDescriptor.pLogicalNext hx
    exact ⟨d1, d2, d3, d4, d5, d6, d7, d8, d9, d10⟩
  · have hx := hf p i
    have f1 := congrArg IOUSBIsocFrame.frReqCount hx
    have f2 := congrArg IOUSBIsocFrame.frActCount hx
    exact ⟨f1, f2⟩

/-- The two variants of `UIMCreateIsochTransfer` agree up to the tags when the update
frequency is 0 or above 8. -/
theorem UIMCreateIsochTransferLL.eraseTags_call (H : Header) (st : AppleUSBOHCI)
    (fuel functionAddress endpointNumber : Nat) (completion : IOUSBCompletion)
    (direction frameNumberStart : Nat) (pBuffer : IOMemoryDescriptor)
    (frameCount pFrames updateFrequency : Nat)
    (hU : updateFrequency = 0 ∨ 8 < updateFrequency) :
    (UIMCreateIsochTransferLL H st fuel functionAddress endpointNumber completion direction
        frameNumberStart pBuffer frameCount pFrames updateFrequency).map eraseResult
      = (UIMCreateIsochTransfer H st fuel functionAddress endpointNumber completion direction
        frameNumberStart pBuffer frameCount pFrames).map eraseResult := by
  unfold UIMCreateIsochTransferLL UIMCreateIsochTransfer
  by_cases hcount : frameCount = 0 ∨ frameCount > 1000
  · rw [if_pos hcount, if_pos hcount]
  rw [if_neg hcount, if_neg hcount]
  by_cases hdir : direction ≠ kUSBOut ∧ direction ≠ kUSBIn
  · rw [if_pos hdir, if_pos hdir]
  rw [if_neg hdir, if_neg hdir]
  dsimp only
  rcases FindIsochronousEndpoint st fuel functionAddress endpointNumber
    (if direction = kUSBOut then kOHCIEDDirectionOut else kOHCIEDDirectionIn)
    with r | _ | _ | _ | _
  · rcases r with _ | ⟨pED, back⟩
    · rfl
    · show (UIMCreateIsochTransferLL.queue H st fuel pED completion frameNumberStart pBuffer
          frameCount pFrames updateFrequency _).map eraseResult
        = (UIMCreateIsochTransfer.queue st fuel pED completion frameNumberStart pBuffer
          frameCount pFrames _).map eraseResult
      rw [UIMCreateIsochTransferLL.eraseTags_queue_ll H st fuel pED completion frameNumberStart
        pBuffer frameCount pFrames updateFrequency _ (by omega) hU,
        UIMCreateIsochTransfer.eraseTags_queue]
  · rfl
  · rfl
  · rfl
  · rfl

/-- C38: the low latency `UIMCreateIsochTransfer` with `updateFrequency` 0 or above 8 is
equivalent to the standard variant.  Called on the same state with the same arguments, the
two calls have the same outcome once the `pType` tags of the iTDs and the `frStatus` of the
frames are erased from the states they return (`eraseResult`): the same status, or the same
failure of the model, and states that differ in nothing but those tags.  So when the low
latency call returns, the standard call returns the same status, and the two states have the
same endpoint descriptors (with the published tail), general transfer descriptors, pools
(with what the unwinding gave back) and register writes, every iTD has the same flags word,
buffer page, next pointer, buffer end, offset slots, frame list, frame index, completion,
physical address and logical link, and every frame the same requested and actual count. -/
theorem UIMCreateIsochTransferLL_equivalent (H : Header) (st : AppleUSBOHCI)
    (fuel functionAddress endpointNumber : Nat) (completion : IOUSBCompletion)
    (direction frameNumberStart : Nat) (pBuffer : IOMemoryDescriptor)
    (frameCount pFrames updateFrequency : Nat)
    (hU : updateFrequency = 0 ∨ 8 < updateFrequency) :
    (UIMCreateIsochTransferLL H st fuel functionAddress endpointNumber completion direction
        frameNumberStart pBuffer frameCount pFrames updateFrequency).map eraseResult
      = (UIMCreateIsochTransfer H st fuel functionAddress endpointNumber completion direction
        frameNumberStart pBuffer frameCount pFrames).map eraseResult
    ∧ ∀ status st1,
      UIMCreateIsochTransferLL H st fuel functionAddress endpointNumber completion direction
        frameNumberStart pBuffer frameCount pFrames updateFrequency = .ret (status, st1) →
      ∃ st2,
        UIMCreateIsochTransfer H st fuel functionAddress endpointNumber completion direction
          frameNumberStart pBuffer frameCount pFrames = .ret (status, st2)
        ∧ st2.eds = st1.eds ∧ st2.tds = st1.tds ∧ st2.pFreeED = st1.pFreeED
        ∧ st2.pFreeTD = st1.pFreeTD ∧ st2.pFreeITD = st1.pFreeITD
        ∧ st2.registerWrites = st1.registerWrites
        ∧ (∀ x, (st2.itds x).flags = (st1.itds x).flags
          ∧ (st2.itds x).bufferPage0 = (st1.itds x).bufferPage0
          ∧ (st2.itds x).nextTD = (st1.itds x).nextTD
          ∧ (st2.itds x).bufferEnd = (st1.itds x).bufferEnd
          ∧ (st2.itds x).offset = (st1.itds x).offset
          ∧ (st2.itds x).pIsocFrame = (st1.itds x).pIsocFrame
          ∧ (st2.itds x).frameNum = (st1.itds x).frameNum
          ∧ (st2.itds x).completion = (st1.itds x).completion
          ∧ (st2.itds x).pPhysical = (st1.itds x).pPhysical
          ∧ (st2.itds x).pLogicalNext = (st1.itds x).pLogicalNext)
        ∧ ∀ p i, (st2.isocFrames p i).frReqCount = (st1.isocFrames p i).frReqCount
          ∧ (st2.isocFrames p i).frActCount = (st1.isocFrames p i).frActCount := by
  have hmap := UIMCreateIsochTransferLL.eraseTags_call H st fuel functionAddress endpointNumber
    completion direction frameNumberStart pBuffer frameCount pFrames updateFrequency hU
  refine ⟨hmap, fun status st1 hcall => ?_⟩
  rw [hcall] at hmap
  obtain ⟨⟨s2, st2⟩, h2, he⟩ := Outcome.map_eq_ret hmap.symm
  unfold eraseResult at he
  simp only [Prod.mk.injEq] at he
  obtain ⟨hs, hst⟩ := he
  subst hs
  exact ⟨st2, h2, AppleUSBOHCI.eraseTags_fields hst⟩

/-- Witness for C38: on the example driver the low latency call with `updateFrequency` 0 for
the request of 3 frames on the isochronous endpoint returns what the standard call returns,
up to the tags. -/
theorem UIMCreateIsochTransferLL_equivalent_witness :
    ((0 : Nat) = 0 ∨ 8 < 0)
      ∧ (UIMCreateIsochTransferLL exampleHeader exampleBulkQueuedState 5 5 1 ⟨1, 2, 3⟩ kUSBOut
          100010 exampleScatteredBuffer 3 7 0).map eraseResult
        = .ret (.kIOReturnSuccess, exampleTwoTransfersState.eraseTags) :=
  ⟨Or.inl rfl,
    (UIMCreateIsochTransferLL_equivalent exampleHeader exampleBulkQueuedState 5 5 1 ⟨1, 2, 3⟩
      kUSBOut 100010 exampleScatteredBuffer 3 7 0 (Or.inl rfl)).1.trans
      (by rw [exampleTwoTransfersState_call]; rfl)⟩

/-! ## The marks of the iTDs of an isochronous request -/

/-- The delay interrupt field of the flags word of an iTD closed with the interrupt
suppressed. -/
theorem closedFlags_interrupt (F c : Nat) (hF : F < 65536) (hc : c ≤ 7) :
    delayInterruptOf (F ||| shl32 c kOHCIITDControl_FCPhase
      ||| shl32 kOHCIGTDConditionNotAccessed kOHCIGTDControl_CCPhase
      ||| shl32 0x7 kOHCIGTDControl_DIPhase) = 7 := by
  have hC : shl32 c kOHCIITDControl_FCPhase = c * 16777216 := by
    unfold shl32 kOHCIITDControl_FCPhase W32
    rw [Nat.shiftLeft_eq]
    omega
  have hCC : shl32 kOHCIGTDConditionNotAccessed kOHCIGTDControl_CCPhase = 4026531840 := by
    decide
  have hDI : shl32 0x7 kOHCIGTDControl_DIPhase = 14680064 := by decide
  have hX : F ||| shl32 c kOHCIITDControl_FCPhase
        ||| shl32 kOHCIGTDConditionNotAccessed kOHCIGTDControl_CCPhase
        ||| shl32 0x7 kOHCIGTDControl_DIPhase = F + 14680064 + c * 16777216 + 4026531840 := by
    rw [hC, hCC, hDI, Nat.or_assoc, Nat.or_assoc, Nat.or_comm 4026531840,
      ← Nat.or_assoc (c * 16777216), Nat.or_comm (c * 16777216),
      or_eq_add 14680064 (c * 16777216) 24 (by norm_num) (by omega),
      or_eq_add (14680064 + c * 16777216) 4026531840 28 (by norm_num; omega) (by norm_num),
      or_eq_add F _ 16 (by norm_num; omega) (by omega)]
    omega
  rw [hX]
  have h := Nat.and_pow_two_sub_one_eq_mod ((F + 14680064 + c * 16777216 + 4026531840) >>> 21) 3
  simp only [Nat.reducePow, Nat.add_one_sub_one] at h
  unfold delayInterruptOf kOHCIGTDControl_DI kOHCIGTDControl_DIPhase
  rw [shiftRight_and, show (0xE00000 : Nat) >>> 21 = 7 from by decide, h,
    Nat.shiftRight_eq_div_pow]
  omega

/-- The fields of the flags word of an iTD closed at an update frequency boundary: starting
frame `F`, `c + 1` frames, and no delay of the interrupt. -/
theorem boundaryFlags_fields (F c : Nat) (hF : F < 65536) (hc : c ≤ 7) :
    (F ||| shl32 c kOHCIITDControl_FCPhase
        ||| shl32 kOHCIGTDConditionNotAccessed kOHCIGTDControl_CCPhase) &&& kOHCIITDControl_SF
        = F
      ∧ ((F ||| shl32 c kOHCIITDControl_FCPhase
        ||| shl32 kOHCIGTDConditionNotAccessed kOHCIGTDControl_CCPhase) &&& kOHCIITDControl_FC)
          >>> kOHCIITDControl_FCPhase = c
      ∧ delayInterruptOf (F ||| shl32 c kOHCIITDControl_FCPhase
        ||| shl32 kOHCIGTDConditionNotAccessed kOHCIGTDControl_CCPhase) = 0 := by
  have hC : shl32 c kOHCIITDControl_FCPhase = c * 16777216 := by
    unfold shl32 kOHCIITDControl_FCPhase W32
    rw [Nat.shiftLeft_eq]
    omega
  have hCC : shl32 kOHCIGTDConditionNotAccessed kOHCIGTDControl_CCPhase = 4026531840 := by
    decide
  have hX : F ||| shl32 c kOHCIITDControl_FCPhase
        ||| shl32 kOHCIGTDConditionNotAccessed kOHCIGTDControl_CCPhase
        = F + c * 16777216 + 4026531840 := by
    rw [hC, hCC, Nat.or_assoc,
      or_eq_add (c * 16777216) 4026531840 28 (by norm_num; omega) (by norm_num),
      or_eq_add F _ 16 (by norm_num; omega) (by omega)]
    omega
  rw [hX]
  refine ⟨?_, ?_, ?_⟩
  · have h := Nat.and_pow_two_sub_one_eq_mod (F + c * 16777216 + 4026531840) 16
    simp only [Nat.reducePow, Nat.add_one_sub_one] at h
    unfold kOHCIITDControl_SF
    rw [h]
    omega
  · have h := Nat.and_pow_two_sub_one_eq_mod ((F + c * 16777216 + 4026531840) >>> 24) 3
    simp only [Nat.reducePow, Nat.add_one_sub_one] at h
    unfold kOHCIITDControl_FC kOHCIITDControl_FCPhase
    rw [shiftRight_and, show (0x07000000 : Nat) >>> 24 = 7 from by decide, h,
      Nat.shiftRight_eq_div_pow]
    omega
  · have h := Nat.and_pow_two_sub_one_eq_mod ((F + c * 16777216 + 4026531840) >>> 21) 3
    simp only [Nat.reducePow, Nat.add_one_sub_one] at h
    unfold delayInterruptOf kOHCIGTDControl_DI kOHCIGTDControl_DIPhase
    rw [shiftRight_and, show (0xE00000 : Nat) >>> 21 = 7 from by decide, h,
      Nat.shiftRight_eq_div_pow]
    omega

/-- The flags word of the last iTD of a request does not delay the interrupt. -/
theorem finalFlags_interrupt (F c : Nat) (hF : F < 65536) (hc : c ≤ 7) :
    delayInterruptOf (F ||| shl32 c kOHCIITDControl_FCPhase) = 0 := by
  have hC : shl32 c kOHCIITDControl_FCPhase = c * 16777216 := by
    unfold shl32 kOHCIITDControl_FCPhase W32
    rw [Nat.shiftLeft_eq]
    omega
  have hX : F ||| shl32 c kOHCIITDControl_FCPhase = F + c * 16777216 := by
    rw [hC, or_eq_add F _ 16 (by norm_num; omega) (by omega)]
  rw [hX]
  have h := Nat.and_pow_two_sub_one_eq_mod ((F + c * 16777216) >>> 21) 3
  simp only [Nat.reducePow, Nat.add_one_sub_one] at h
  unfold delayInterruptOf kOHCIGTDControl_DI kOHCIGTDControl_DIPhase
  rw [shiftRight_and, show (0xE00000 : Nat) >>> 21 = 7 from by decide, h,
    Nat.shiftRight_eq_div_pow]
  omega

/-- The fetch of a frame followed by the comparison with the pages of the iTD asks for a new
iTD exactly under the page crossing rule, when no new iTD was asked for before. -/
theorem IsochTransferLoop.placeOnPage_crosses {l l1 : IsochTransferLoop}
    {pBuffer : IOMemoryDescriptor} {pFrames bufferSize frameNumber tdType : Nat}
    (hfresh : l.needNewITD = true → l.curFrameInTD = 0)
    (h : (l.getSegments pBuffer pFrames bufferSize).placeOnPage pFrames frameNumber tdType
      = .ret l1) :
    l1.needNewITD = true ↔ (l.getSegments pBuffer pFrames bufferSize).crossesPages := by
  have hg : (l.getSegments pBuffer pFrames bufferSize).curFrameInTD = l.curFrameInTD
      ∧ (l.getSegments pBuffer pFrames bufferSize).needNewITD = l.needNewITD := by
    unfold IsochTransferLoop.getSegments
    split_ifs <;> exact ⟨rfl, rfl⟩
  obtain ⟨g1, g4⟩ := hg
  generalize l.getSegments pBuffer pFrames bufferSize = lg at h g1 g4
  have hold : lg.curFrameInTD ≠ 0 → lg.needNewITD ≠ true := by
    intro hne hn
    rw [g4] at hn
    rw [g1] at hne
    exact hne (hfresh hn)
  unfold IsochTransferLoop.crossesPages
  unfold IsochTransferLoop.placeOnPage at h
  split_ifs at h with h0 h1 h2
  · simp only [Outcome.ret.injEq] at h
    subst h
    constructor
    · intro hn
      cases hn
    · intro hx
      exact absurd h0 hx.1
  · simp only [Outcome.ret.injEq] at h
    subst h
    exact ⟨fun _ => ⟨h0, h1, h2.1, h2.2⟩, fun _ => rfl⟩
  · obtain ⟨seg, -, hret⟩ := Outcome.bind_eq_ret h
    simp only [Outcome.ret.injEq] at hret
    subst hret
    constructor
    · intro hn
      exact absurd hn (hold h0)
    · intro hx
      exact absurd ⟨hx.2.2.1, hx.2.2.2⟩ h2
  · simp only [Outcome.ret.injEq] at h
    subst h
    constructor
    · intro hn
      exact absurd hn (hold h0)
    · intro hx
      exact absurd hx.2.1 h1

/-- A pass of the low latency loop that goes on, with what it did to the flags and the frame
numbers of the iTDs: it either closed the current iTD, with the interrupt delayed unless the
iTD had reached the update frequency, and for one of the three reasons of the test, or it put
a frame into an iTD that had not reached the update frequency. -/
theorem UIMCreateIsochTransferLL.body_fields_ll {pBuffer : IOMemoryDescriptor}
    {pFrames frameNumber tdType bufferSize updateFrequency frameCount : Nat}
    {l l' : IsochTransferLoop} (hI : IsochCounting frameCount l)
    (h : UIMCreateIsochTransferLL.body pBuffer pFrames frameNumber tdType bufferSize
      updateFrequency l = .ret (.inr l')) :
    (l'.curFrameInRequest = l.curFrameInRequest ∧ l'.curFrameInTD = 0 ∧ 1 ≤ l.curFrameInTD
        ∧ l.st.pFreeITD = l'.pNewITD :: l'.st.pFreeITD
        ∧ (l'.st.itds l.pTailITD).flags
          = (if updateFrequency ≠ 0 ∧ updateFrequency ≤ l.curFrameInTD then
              l.itdFlags ||| shl32 (sub32 l.curFrameInTD 1) kOHCIITDControl_FCPhase
                ||| shl32 kOHCIGTDConditionNotAccessed kOHCIGTDControl_CCPhase
            else
              l.itdFlags ||| shl32 (sub32 l.curFrameInTD 1) kOHCIITDControl_FCPhase
                ||| shl32 kOHCIGTDConditionNotAccessed kOHCIGTDControl_CCPhase
                ||| shl32 0x7 kOHCIGTDControl_DIPhase)
        ∧ (∀ x, x ≠ l.pTailITD → (l'.st.itds x).flags = (l.st.itds x).flags)
        ∧ (∀ x, (l'.st.itds x).frameNum = (l.st.itds x).frameNum)
        ∧ ((l.getSegments pBuffer pFrames bufferSize).crossesPages ∨ 8 ≤ l.curFrameInTD
          ∨ (updateFrequency ≠ 0 ∧ updateFrequency ≤ l.curFrameInTD)))
      ∨ (l'.curFrameInRequest = add32 l.curFrameInRequest 1
        ∧ l'.curFrameInTD = l.curFrameInTD + 1
        ∧ l'.st.pFreeITD = l.st.pFreeITD
        ∧ (∀ x, (l'.st.itds x).flags = (l.st.itds x).flags)
        ∧ (∀ x, x ≠ l.pTailITD → (l'.st.itds x).frameNum = (l.st.itds x).frameNum)
        ∧ (l.curFrameInTD = 0 → (l'.st.itds l.pTailITD).frameNum = l.curFrameInRequest
          ∧ l'.itdFlags = toUInt16 (add32 l.curFrameInRequest frameNumber))
        ∧ (l.curFrameInTD ≠ 0 →
          (l'.st.itds l.pTailITD).frameNum = (l.st.itds l.pTailITD).frameNum
          ∧ l'.itdFlags = l.itdFlags)
        ∧ ¬ (updateFrequency ≠ 0 ∧ updateFrequency ≤ l.curFrameInTD)) := by
  have hpool : ∀ l1 : IsochTransferLoop,
      (l.getSegments pBuffer pFrames bufferSize).placeOnPage pFrames frameNumber tdType
        = .ret l1 → l1.st.pFreeITD = l.st.pFreeITD := by
    intro l1 h1
    have k := (IsochTransferLoop.placeOnPage_kept h1).1.pFreeITD
    rw [(l.getSegments_kept pBuffer pFrames bufferSize).1] at k
    exact k
  unfold UIMCreateIsochTransferLL.body at h
  obtain ⟨l1, h1, h2⟩ := Outcome.bind_eq_ret h
  obtain ⟨p1, p2, p3, p4, -, -⟩ := IsochTransferLoop.placeOnPage_counting h1
  obtain ⟨q1, q2, q3, q4⟩ := IsochTransferLoop.placeOnPage_fields h1
  have hcross := IsochTransferLoop.placeOnPage_crosses hI.fresh h1
  have hp := hpool l1 h1
  have hle := hI.le
  have hiff : ((decide (updateFrequency ≠ 0) : Bool) = true
        ∧ l1.curFrameInTD ≥ updateFrequency)
      ↔ (updateFrequency ≠ 0 ∧ updateFrequency ≤ l.curFrameInTD) := by
    rw [p1, decide_eq_true_iff]
  split at h2
  · rename_i hc
    have hpos : 1 ≤ l.curFrameInTD := by
      rcases Nat.eq_zero_or_pos l.curFrameInTD with hz | hp
      · exfalso
        have hn := p4 hz
        rw [p1, hz, hn] at hc
        simp at hc
      · exact hp
    have hreason : (l.getSegments pBuffer pFrames bufferSize).crossesPages
        ∨ 8 ≤ l.curFrameInTD
        ∨ (updateFrequency ≠ 0 ∧ updateFrequency ≤ l.curFrameInTD) := by
      rcases hc with hc | hc | hc
      · rw [p1] at hc
        exact Or.inr (Or.inl hc)
      · exact Or.inl (hcross.mp hc)
      · exact Or.inr (Or.inr (hiff.mp hc))
    obtain ⟨hst, hfl⟩ := q4 (by omega)
    dsimp only at h2
    split at h2
    · cases h2
    · rename_i p s heq
      obtain ⟨a1, a2⟩ := AllocateITD_some heq
      simp only [Outcome.ret.injEq, Sum.inr.injEq] at h2
      subst h2
      refine Or.inl ⟨p2, rfl, hpos, ?_, ?_, fun x hx => ?_, fun x => ?_, hreason⟩
      · dsimp only
        rw [← hst]
        exact a1
      · dsimp only
        rw [p3]
        refine (setITD_flags _ _ _ ?_ _).trans ?_
        · intro d
          rfl
        rw [setITD_itds, if_pos rfl]
        dsimp only
        by_cases hu : updateFrequency ≠ 0 ∧ updateFrequency ≤ l.curFrameInTD
        · rw [if_neg (not_not.mpr (hiff.mpr hu)), if_pos hu, p1, hfl]
        · rw [if_pos (fun hh => hu (hiff.mp hh)), if_neg hu, p1, hfl]
      · dsimp only
        rw [p3]
        refine (setITD_flags _ _ _ ?_ x).trans ?_
        · intro d
          rfl
        rw [setITD_itds, if_neg hx, a2]
        refine (setITD_flags _ _ _ ?_ x).trans (q1 x)
        intro d
        rfl
      · dsimp only
        refine (setITD_frameNum _ _ _ ?_ x).trans ((setITD_frameNum _ _ _ ?_ x).trans ?_)
        · intro d
          rfl
        · intro d
          rfl
        rw [a2]
        refine (setITD_frameNum _ _ _ ?_ x).trans ?_
        · intro d
          rfl
        rw [hst]
  · rename_i hc
    obtain ⟨l2, h3, h4⟩ := Outcome.bind_eq_ret h2
    simp only [Outcome.ret.injEq, Sum.inr.injEq] at h4
    subst h4
    obtain ⟨a1, a2, -, -⟩ := IsochTransferLoop.addFrame_counting h3
    obtain ⟨b1, b2, b3⟩ := IsochTransferLoop.addFrame_fields h3
    have hk := (IsochTransferLoop.addFrame_kept h3).1.pFreeITD
    have hc1 : l.curFrameInTD ≤ 7 := by
      rw [p1] at hc
      omega
    have hno : ¬ (updateFrequency ≠ 0 ∧ updateFrequency ≤ l.curFrameInTD) :=
      fun hu => hc (Or.inr (Or.inr (hiff.mpr hu)))
    have hadd : add32 l.curFrameInTD 1 = l.curFrameInTD + 1 := by
      unfold add32 W32
      omega
    rw [p1, hadd] at a1
    rw [p2] at a2
    refine Or.inr ⟨a2, a1, hk.trans hp, fun x => (b2 x).trans (q1 x),
      fun x hx => (b3 x).trans (q2 x hx), fun hz => ?_, fun hne => ?_, hno⟩
    · exact ⟨(b3 _).trans (q3 hz).1, b1.trans (q3 hz).2⟩
    · obtain ⟨hst, hfl⟩ := q4 hne
      exact ⟨(b3 _).trans (by rw [hst]), b1.trans hfl⟩

/-- A pass of the low latency loop that goes on keeps the account of the frames placed and of
the marks of the closed iTDs. -/
theorem IsochMarked.pass_ll {st0 : AppleUSBOHCI} {T0 s frameCount : Nat}
    {pBuffer : IOMemoryDescriptor} {pFrames tdType bufferSize updateFrequency : Nat}
    {crossed : IsochRun → Prop}
    {l l' : IsochTransferLoop} {done pre : List Nat} {rs : List IsochRun} {f0 : Nat}
    (hnd : st0.pFreeITD.Nodup) (hT0 : T0 ∉ st0.pFreeITD) (hCount : frameCount ≤ 1000)
    (b : IsochBuilding st0 T0 l.st l.pTailITD done pre l.pNewITD)
    (hI : IsochCounting frameCount l) (hF : IsochFilling s l rs f0)
    (hM : IsochMarked updateFrequency crossed l rs)
    (hmap : (rs.map fun r => r.itd) = done) (hlt : l.curFrameInRequest < frameCount)
    (hX : (l.getSegments pBuffer pFrames bufferSize).crossesPages →
      crossed ⟨l.pTailITD, f0, l.curFrameInTD⟩)
    (h : UIMCreateIsochTransferLL.body pBuffer pFrames (toUInt16 s) tdType bufferSize
      updateFrequency l = .ret (.inr l')) :
    ∃ done' pre' rs' f0', IsochBuilding st0 T0 l'.st l'.pTailITD done' pre' l'.pNewITD
      ∧ IsochCounting frameCount l' ∧ IsochFilling s l' rs' f0'
      ∧ IsochMarked updateFrequency crossed l' rs'
      ∧ (rs'.map fun r => r.itd) = done' ∧ l'.curFrameInRequest ≤ frameCount := by
  have hI' := ((UIMCreateIsochTransferLL.body_counting_ll hI hlt h).2 l' rfl).1
  have hmem := b.members hnd hT0
  have hnotdone : l.pTailITD ∉ done := hmem.2.2.2.2.2.2.2.2.2.1
  have hrs : ∀ r ∈ rs, r.itd ≠ l.pTailITD := by
    intro r hr heq
    apply hnotdone
    rw [← hmap, ← heq]
    exact List.mem_map_of_mem _ hr
  have hreq := hF.request
  rcases UIMCreateIsochTransferLL.body_spec_ll pBuffer pFrames (toUInt16 s) tdType bufferSize
    updateFrequency l _ h with ⟨l1, hl1, -, -⟩ | ⟨l1, hl1, hk, ht, hn⟩ | ⟨l1, hl1, ha⟩
  · cases hl1
  · simp only [Sum.inr.injEq] at hl1
    subst hl1
    rcases UIMCreateIsochTransferLL.body_fields_ll hI h with
      ⟨-, -, -, c4, -, -, -, -⟩ | ⟨a1, a2, -, a4, a5, a6, a7, a8⟩
    · exfalso
      rw [hk.pFreeITD] at c4
      exact List.cons_ne_self _ _ c4.symm
    · have hadd : add32 l.curFrameInRequest 1 = l.curFrameInRequest + 1 := by
        unfold add32 W32
        omega
      refine ⟨done, pre, rs, f0, ?_, hI', ⟨hF.cover, fun r hr => ?_, ?_, fun _ => ?_⟩,
        ⟨fun r hr => ?_, hM.limit, hM.full, fun hu => ?_⟩, hmap, ?_⟩
      · rw [ht, hn]
        exact b.kept hk
      · obtain ⟨⟨r1, r2, r3⟩, r4⟩ := hF.recorded r hr
        have hne := hrs r hr
        refine ⟨⟨?_, ?_, ?_⟩, r4⟩
        · rw [a5 _ hne]
          exact r1
        · rw [a4, a5 _ hne]
          exact r2
        · rw [a4]
          exact r3
      · rw [a1, hadd, a2, hreq]
        omega
      · rw [ht]
        rcases Nat.eq_zero_or_pos l.curFrameInTD with hz | hp
        · obtain ⟨e1, e2⟩ := a6 hz
          have hf0 : l.curFrameInRequest = f0 := by omega
          rw [e1, e2, hf0]
          exact ⟨rfl, startingFrame_eq s f0⟩
        · obtain ⟨e1, e2⟩ := a7 (by omega)
          rw [e1, e2]
          exact hF.current hp
      · rw [a4]
        exact hM.interrupt r hr
      · rw [a2]
        have : ¬ updateFrequency ≤ l.curFrameInTD := fun hle => a8 ⟨hu, hle⟩
        omega
      · rw [a1, hadd]
        omega
  · simp only [Sum.inr.injEq] at hl1
    subst hl1
    rcases UIMCreateIsochTransferLL.body_fields_ll hI h with
      ⟨c1, c2, c3, -, c5, c6, c7, c8⟩ | ⟨-, -, a3, -, -, -, -, -⟩
    · obtain ⟨k1, k2⟩ := hF.current (by omega)
      have hle8 := hI.le
      have hsub : sub32 l.curFrameInTD 1 = l.curFrameInTD - 1 :=
        sub32_of_le (by unfold W32; omega) c3
      have hF16 : l.itdFlags < 65536 := by
        rw [k2]
        omega
      have hfields : (l'.st.itds l.pTailITD).flags &&& kOHCIITDControl_SF = l.itdFlags
          ∧ ((l'.st.itds l.pTailITD).flags &&& kOHCIITDControl_FC) >>> kOHCIITDControl_FCPhase
            = l.curFrameInTD - 1
          ∧ delayInterruptOf (l'.st.itds l.pTailITD).flags
            = if updateFrequency ≠ 0 ∧ updateFrequency ≤ l.curFrameInTD then 0 else 7 := by
        rw [c5, hsub]
        by_cases hu : updateFrequency ≠ 0 ∧ updateFrequency ≤ l.curFrameInTD
        · rw [if_pos hu, if_pos hu]
          exact boundaryFlags_fields l.itdFlags (l.curFrameInTD - 1) hF16 (by omega)
        · rw [if_neg hu, if_neg hu]
          obtain ⟨f1, f2⟩ := closedFlags_fields l.itdFlags (l.curFrameInTD - 1) hF16
            (by omega)
          exact ⟨f1, f2, closedFlags_interrupt l.itdFlags (l.curFrameInTD - 1) hF16
            (by omega)⟩
      refine ⟨done ++ [l.pTailITD], pre ++ [l.pNewITD], rs ++ [⟨l.pTailITD, f0, l.curFrameInTD⟩],
        f0 + l.curFrameInTD, b.advance hnd hT0 ha, hI',
        ⟨IsochRunsCover.append_run _ _ c3 rs 0 f0 hF.cover, fun r hr => ?_, ?_,
          fun hpos => ?_⟩,
        ⟨fun r hr => ?_, fun r hr hu => ?_, fun r hr => ?_, fun _ => ?_⟩, ?_, ?_⟩
      · rw [List.mem_append, List.mem_singleton] at hr
        rcases hr with hr | rfl
        · obtain ⟨⟨r1, r2, r3⟩, r4⟩ := hF.recorded r hr
          have hne := hrs r hr
          refine ⟨⟨?_, ?_, ?_⟩, r4⟩
          · rw [c7]
            exact r1
          · rw [c6 _ hne, c7]
            exact r2
          · rw [c6 _ hne]
            exact r3
        · refine ⟨⟨?_, ?_, ?_⟩, hI.le⟩
          · show (l'.st.itds l.pTailITD).frameNum = f0
            rw [c7]
            exact k1
          · show (l'.st.itds l.pTailITD).flags &&& kOHCIITDControl_SF
              = (s + (l'.st.itds l.pTailITD).frameNum) % 65536
            rw [hfields.1, c7, k1]
            exact k2
          · exact hfields.2.1
      · rw [c1, c2, hreq]
        rfl
      · rw [c2] at hpos
        exact absurd hpos (by decide)
      · rw [List.mem_append, List.mem_singleton] at hr
        rcases hr with hr | rfl
        · rw [c6 _ (hrs r hr)]
          exact hM.interrupt r hr
        · exact hfields.2.2
      · rw [List.mem_append, List.mem_singleton] at hr
        rcases hr with hr | rfl
        · exact hM.limit r hr hu
        · exact hM.current hu
      · rw [List.mem_append, List.mem_singleton] at hr
        rcases hr with hr | rfl
        · exact hM.full r hr
        · rcases c8 with hc | hc | hc
          · exact Or.inr (Or.inr (hX hc))
          · exact Or.inl (show l.curFrameInTD = 8 by omega)
          · have := hM.current hc.1
            exact Or.inr (Or.inl ⟨hc.1, show l.curFrameInTD = updateFrequency by omega⟩)
      · rw [c2]
        exact Nat.zero_le _
      · rw [List.map_append, hmap]
        rfl
      · rw [c1]
        omega
    · exfalso
      rw [ha.pool] at a3
      exact List.cons_ne_self _ _ a3.symm

/-- The low latency loop that ends with success has placed every frame of the request, and
the iTDs it closed carry their marks. -/
theorem UIMCreateIsochTransferLL.loop_marked {st0 : AppleUSBOHCI} {T0 s frameCount : Nat}
    (pBuffer : IOMemoryDescriptor) (pFrames tdType bufferSize updateFrequency : Nat)
    (l0 : IsochTransferLoop)
    (hnd : st0.pFreeITD.Nodup) (hT0 : T0 ∉ st0.pFreeITD) (hCount : frameCount ≤ 1000) :
    ∀ (fuel : Nat) (l l' : IsochTransferLoop) (done pre : List Nat) (rs : List IsochRun)
      (f0 : Nat),
      UIMCreateIsochTransferLL.loop pBuffer frameCount pFrames (toUInt16 s) tdType bufferSize
        updateFrequency fuel l = .ret (.kIOReturnSuccess, l') →
      IsochLoopReachable (UIMCreateIsochTransferLL.body pBuffer pFrames (toUInt16 s) tdType
        bufferSize updateFrequency) frameCount l0 l →
      IsochBuilding st0 T0 l.st l.pTailITD done pre l.pNewITD →
      IsochCounting frameCount l → IsochFilling s l rs f0 →
      IsochMarked updateFrequency (IsochRun.closedByPages
        (UIMCreateIsochTransferLL.body pBuffer pFrames (toUInt16 s) tdType bufferSize
          updateFrequency) frameCount l0 pBuffer pFrames bufferSize) l rs →
      (rs.map fun r => r.itd) = done → l.curFrameInRequest ≤ frameCount →
      ∃ done' pre' rs' f0', IsochBuilding st0 T0 l'.st l'.pTailITD done' pre' l'.pNewITD
        ∧ IsochCounting frameCount l' ∧ IsochFilling s l' rs' f0'
        ∧ IsochMarked updateFrequency (IsochRun.closedByPages
          (UIMCreateIsochTransferLL.body pBuffer pFrames (toUInt16 s) tdType bufferSize
            updateFrequency) frameCount l0 pBuffer pFrames bufferSize) l' rs'
        ∧ (rs'.map fun r => r.itd) = done' ∧ l'.curFrameInRequest = frameCount
  | 0, l, l', done, pre, rs, f0, h, _, _, _, _, _, _, _ => by
    simp [UIMCreateIsochTransferLL.loop] at h
  | fuel + 1, l, l', done, pre, rs, f0, h, hR, b, hI, hF, hM, hmap, hle => by
    rw [UIMCreateIsochTransferLL.loop] at h
    split_ifs at h with hlt
    · obtain ⟨r, hbody, hrest⟩ := Outcome.bind_eq_ret h
      rcases r with l1 | l1
      · simp only [Outcome.ret.injEq, Prod.mk.injEq] at hrest
        cases hrest.1
      · obtain ⟨done1, pre1, rs1, f1, b1, hI1, hF1, hM1, hmap1, hle1⟩ :=
          IsochMarked.pass_ll hnd hT0 hCount b hI hF hM hmap hlt
            (fun hx => ⟨l, hR, hlt, rfl, rfl, hF.request, hx⟩) hbody
        exact UIMCreateIsochTransferLL.loop_marked pBuffer pFrames tdType bufferSize
          updateFrequency l0 hnd hT0 hCount fuel l1 l' done1 pre1 rs1 f1 hrest
          (IsochLoopReachable.pass l l1 hR hlt hbody) b1 hI1 hF1 hM1 hmap1 hle1
    · simp only [Outcome.ret.injEq, Prod.mk.injEq] at h
      obtain ⟨-, rfl⟩ := h
      exact ⟨done, pre, rs, f0, b, hI, hF, hM, hmap, by omega⟩

/-- The end of a call that succeeds: the last iTD gets the completion of the caller and does
not delay the interrupt, and the chain from the old tail to the new one holds the frames in
runs, of which all but the last carry the marks of closed iTDs. -/
theorem IsochMarked.finish_marked {st0 st' : AppleUSBOHCI} {T0 s frameCount u : Nat}
    {crossed : IsochRun → Prop} {fuel pED : Nat} {completion : IOUSBCompletion}
    {status : IOReturn} {lE : IsochTransferLoop} {done pre : List Nat} {rs : List IsochRun}
    {f0 : Nat}
    (hnd : st0.pFreeITD.Nodup) (hT0 : T0 ∉ st0.pFreeITD)
    (b : IsochBuilding st0 T0 lE.st lE.pTailITD done pre lE.pNewITD)
    (hI : IsochCounting frameCount lE) (hF : IsochFilling s lE rs f0)
    (hM : IsochMarked u crossed lE rs)
    (hmap : (rs.map fun r => r.itd) = done) (hreq : lE.curFrameInRequest = frameCount)
    (hfin : UIMCreateIsochTransfer.finish fuel pED completion .kIOReturnSuccess lE
      = .ret (status, st')) :
    ∃ (closed : List IsochRun) (last : IsochRun),
      ITDChain st'.itds T0 ((closed ++ [last]).map fun r => r.itd) (st'.eds pED).pLogicalTailP
        ∧ IsochRunsCover (closed ++ [last]) 0 frameCount
        ∧ (∀ r ∈ closed ++ [last],
          r.recorded st'.itds s ∧ r.count ≤ 8 ∧ (u ≠ 0 → r.count ≤ u))
        ∧ ((closed ++ [last]).map fun r => r.itd).Nodup
        ∧ (∀ r ∈ closed, (st'.itds r.itd).completion.action = 0
          ∧ delayInterruptOf (st'.itds r.itd).flags = (if u ≠ 0 ∧ u ≤ r.count then 0 else 7)
          ∧ (r.count = 8 ∨ (u ≠ 0 ∧ r.count = u) ∨ crossed r))
        ∧ (st'.itds last.itd).completion = completion
        ∧ delayInterruptOf (st'.itds last.itd).flags = 0 := by
  have hmem := b.members hnd hT0
  have hnotdone : lE.pTailITD ∉ done := hmem.2.2.2.2.2.2.2.2.2.1
  have hT0pre : T0 ∉ pre := hmem.2.2.2.2.2.2.2.2.2.2.1
  have hpre : pre.Nodup := (List.nodup_append.mp hmem.2.2.2.2.2.2.2.2.2.2.2).2.1
  have hchain : (done ++ [lE.pTailITD]).Nodup := by
    rw [← b.split]
    exact List.nodup_cons.mpr ⟨hT0pre, hpre⟩
  have hpos : 1 ≤ lE.curFrameInTD := by
    rcases Nat.eq_zero_or_pos lE.curFrameInTD with hz | hp
    · have := hI.more hz
      omega
    · exact hp
  have hle := hI.le
  obtain ⟨k1, k2⟩ := hF.current hpos
  have hsub : sub32 lE.curFrameInTD 1 = lE.curFrameInTD - 1 :=
    sub32_of_le (by unfold W32; omega) hpos
  have hF16 : lE.itdFlags < 65536 := by
    rw [k2]
    omega
  have hfields := finalFlags_fields lE.itdFlags (lE.curFrameInTD - 1) hF16 (by omega)
  have hDI := finalFlags_interrupt lE.itdFlags (lE.curFrameInTD - 1) hF16 (by omega)
  rw [← hsub] at hfields hDI
  obtain ⟨sF, hsF⟩ : ∃ sF, sF = setITD lE.st lE.pTailITD fun itd =>
      { itd with flags := lE.itdFlags ||| shl32 (sub32 lE.curFrameInTD 1)
                   kOHCIITDControl_FCPhase,
                 bufferEnd := lE.lastPhysical, completion := completion } := ⟨_, rfl⟩
  have hother : ∀ x, x ≠ lE.pTailITD → sF.itds x = lE.st.itds x := fun x hx => by
    rw [hsF, setITD_itds, if_neg hx]
  have hnext : ∀ x, (sF.itds x).pLogicalNext = (lE.st.itds x).pLogicalNext := fun x => by
    rw [hsF, setITD_itds]
    split_ifs with hx
    · rw [hx]
    · rfl
  have hnum : (sF.itds lE.pTailITD).frameNum = f0 := by
    rw [hsF, setITD_itds, if_pos rfl]
    exact k1
  have hflags : (sF.itds lE.pTailITD).flags
      = lE.itdFlags ||| shl32 (sub32 lE.curFrameInTD 1) kOHCIITDControl_FCPhase := by
    rw [hsF, setITD_itds, if_pos rfl]
  have hcompl : (sF.itds lE.pTailITD).completion = completion := by
    rw [hsF, setITD_itds, if_pos rfl]
  unfold UIMCreateIsochTransfer.finish at hfin
  dsimp only at hfin
  rw [if_neg (by simp), ← hsF] at hfin
  simp only [Outcome.ret.injEq, Prod.mk.injEq] at hfin
  obtain ⟨-, hfin⟩ := hfin
  have hitds : st'.itds = sF.itds := by
    rw [← hfin]
    rfl
  have htail : (st'.eds pED).pLogicalTailP = lE.pNewITD := by
    rw [← hfin]
    simp [setED]
  clear hsF hfin
  have hcover := IsochRunsCover.append_run lE.pTailITD lE.curFrameInTD hpos rs 0 f0 hF.cover
  have hend : f0 + lE.curFrameInTD = frameCount := by rw [← hF.request, hreq]
  rw [hend] at hcover
  have hne : ∀ r ∈ rs, r.itd ≠ lE.pTailITD := by
    intro r hr heq
    apply hnotdone
    rw [← hmap, ← heq]
    exact List.mem_map_of_mem _ hr
  refine ⟨rs, ⟨lE.pTailITD, f0, lE.curFrameInTD⟩, ?_, hcover, fun r hr => ?_, ?_,
    fun r hr => ?_, ?_, ?_⟩
  · have hlinks := b.links
    rw [List.map_append, hmap, htail, hitds]
    show ITDChain _ _ (done ++ [lE.pTailITD]) _
    rw [← b.split]
    exact ITDChain.itd_congr _ _ _ (fun x _ => hnext x) hlinks
  · rw [List.mem_append, List.mem_singleton] at hr
    rcases hr with hr | rfl
    · obtain ⟨r0, r4⟩ := hF.recorded r hr
      refine ⟨?_, r4, hM.limit r hr⟩
      unfold IsochRun.recorded at r0 ⊢
      rw [hitds, hother _ (hne r hr)]
      exact r0
    · refine ⟨?_, hle, hM.current⟩
      unfold IsochRun.recorded
      rw [hitds]
      show (sF.itds lE.pTailITD).frameNum = f0
        ∧ (sF.itds lE.pTailITD).flags &&& kOHCIITDControl_SF
          = (s + (sF.itds lE.pTailITD).frameNum) % 65536
        ∧ ((sF.itds lE.pTailITD).flags &&& kOHCIITDControl_FC) >>> kOHCIITDControl_FCPhase
          = lE.curFrameInTD - 1
      rw [hnum, hflags]
      exact ⟨rfl, hfields.1.trans k2, hfields.2.trans hsub⟩
  · rw [List.map_append, hmap]
    exact hchain
  · rw [hitds, hother _ (hne r hr)]
    refine ⟨b.inner r.itd ?_, hM.interrupt r hr, hM.full r hr⟩
    rw [← hmap]
    exact List.mem_map_of_mem _ hr
  · rw [hitds]
    exact hcompl
  · rw [hitds]
    show delayInterruptOf (sF.itds lE.pTailITD).flags = 0
    rw [hflags]
    exact hDI

/-- The low latency variant from the endpoint on, when it returns success: the chain it built
holds the frames of the request in runs, and its iTDs carry their marks. -/
theorem UIMCreateIsochTransferLL.queue_marked {H : Header} {st st' : AppleUSBOHCI}
    {fuel pED : Nat} {completion : IOUSBCompletion} {s : Nat} {pBuffer : IOMemoryDescriptor}
    {frameCount pFrames updateFrequency tdType : Nat}
    (hnd : st.pFreeITD.Nodup) (hT0 : (st.eds pED).pLogicalTailP ∉ st.pFreeITD)
    (hCount : 1 ≤ frameCount ∧ frameCount ≤ 1000)
    (h : UIMCreateIsochTransferLL.queue H st fuel pED completion s pBuffer frameCount pFrames
      updateFrequency tdType = .ret (.kIOReturnSuccess, st')) :
    ∃ (bufferSize p : Nat) (sB sA : AppleUSBOHCI),
      UIMCreateIsochTransferLL.bufferSize H pFrames frameCount 0 0 st = (some bufferSize, sB)
        ∧ AllocateITD sB = (some p, sA)
        ∧ ∃ (closed : List IsochRun) (last : IsochRun),
          ITDChain st'.itds (st.eds pED).pLogicalTailP
              ((closed ++ [last]).map fun r => r.itd) (st'.eds pED).pLogicalTailP
            ∧ IsochRunsCover (closed ++ [last]) 0 frameCount
            ∧ (∀ r ∈ closed ++ [last], r.recorded st'.itds s ∧ r.count ≤ 8
              ∧ (updateFrequency ≠ 0 → r.count ≤ updateFrequency))
            ∧ ((closed ++ [last]).map fun r => r.itd).Nodup
            ∧ (∀ r ∈ closed, (st'.itds r.itd).completion.action = 0
              ∧ delayInterruptOf (st'.itds r.itd).flags
                = (if updateFrequency ≠ 0 ∧ updateFrequency ≤ r.count then 0 else 7)
              ∧ (r.count = 8 ∨ (updateFrequency ≠ 0 ∧ r.count = updateFrequency)
                ∨ r.closedByPages
                  (UIMCreateIsochTransferLL.body pBuffer pFrames (toUInt16 s) tdType bufferSize
                    updateFrequency) frameCount (IsochTransferLoop.init sA pED p bufferSize)
                  pBuffer pFrames bufferSize))
            ∧ (st'.itds last.itd).completion = completion
            ∧ delayInterruptOf (st'.itds last.itd).flags = 0 := by
  unfold UIMCreateIsochTransferLL.queue at h
  split at h
  · rename_i error hw
    simp only [Outcome.ret.injEq, Prod.mk.injEq] at h
    exact absurd h.1 (isochFrameWindow_error hw)
  have hfr := UIMCreateIsochTransferLL.bufferSize_frame H pFrames frameCount 0 0 st
  split at h
  · simp only [Outcome.ret.injEq, Prod.mk.injEq] at h
    cases h.1
  rename_i bufferSize s0 heq0
  rw [heq0] at hfr
  obtain ⟨hs0, -⟩ := hfr
  dsimp only at hs0
  have hpool0 : s0.pFreeITD = st.pFreeITD := by rw [hs0]
  have heds0 : s0.eds = st.eds := by rw [hs0]
  rw [← hpool0] at hnd
  rw [← hpool0, ← heds0] at hT0
  rw [← heds0]
  rcases hp : s0.pFreeITD with _ | ⟨p, rest⟩
  · rw [AllocateITD_nil _ hp] at h
    simp only [Outcome.ret.injEq, Prod.mk.injEq] at h
    cases h.1
  have hA := AllocateITD_cons _ p rest hp
  rw [hA] at h
  dsimp only at h
  obtain ⟨⟨s1, lE⟩, hloop, hfin⟩ := Outcome.bind_eq_ret h
  dsimp only at hfin
  have hs1 : s1 = .kIOReturnSuccess := (UIMCreateIsochTransfer.finish_eds hfin).1.symm
  subst hs1
  obtain ⟨done, pre, rs, f0, b, hI, hF, hM, hmap, hreq⟩ :=
    UIMCreateIsochTransferLL.loop_marked pBuffer pFrames tdType bufferSize updateFrequency
      (IsochTransferLoop.init { s0 with pFreeITD := rest } pED p bufferSize) hnd hT0 hCount.2
      _ _ lE [] [] [] 0 hloop IsochLoopReachable.entry
      (IsochBuilding.isoch_init s0 pED p bufferSize rest hp)
      (IsochCounting.entry _ pED p bufferSize hCount.1)
      ⟨rfl, fun r hr => absurd hr (List.not_mem_nil r), rfl,
        fun hpos => (Nat.lt_irrefl 0 hpos).elim⟩
      ⟨fun r hr => absurd hr (List.not_mem_nil r), fun r hr => absurd hr (List.not_mem_nil r),
        fun r hr => absurd hr (List.not_mem_nil r), fun _ => Nat.zero_le _⟩ rfl (Nat.zero_le _)
  exact ⟨bufferSize, p, s0, _, heq0, hA, IsochMarked.finish_marked hnd hT0 b hI hF hM hmap hreq hfin⟩

/-- The standard variant from the endpoint on, when it returns success: the chain it built
holds the frames of the request in runs; every iTD but the last has a null completion action
and delays the interrupt, the last has the completion of the caller and does not. -/
theorem UIMCreateIsochTransfer.queue_marked_standard {st st' : AppleUSBOHCI} {fuel pED : Nat}
    {completion : IOUSBCompletion} {s : Nat} {pBuffer : IOMemoryDescriptor}
    {frameCount pFrames tdType : Nat}
    (hnd : st.pFreeITD.Nodup) (hT0 : (st.eds pED).pLogicalTailP ∉ st.pFreeITD)
    (hCount : 1 ≤ frameCount ∧ frameCount ≤ 1000)
    (h : UIMCreateIsochTransfer.queue st fuel pED completion s pBuffer frameCount pFrames tdType
      = .ret (.kIOReturnSuccess, st')) :
    ∃ (closed : List IsochRun) (last : IsochRun),
      ITDChain st'.itds (st.eds pED).pLogicalTailP
          ((closed ++ [last]).map fun r => r.itd) (st'.eds pED).pLogicalTailP
        ∧ IsochRunsCover (closed ++ [last]) 0 frameCount
        ∧ (∀ r ∈ closed ++ [last], r.recorded st'.itds s ∧ r.count ≤ 8)
        ∧ ((closed ++ [last]).map fun r => r.itd).Nodup
        ∧ (∀ r ∈ closed, (st'.itds r.itd).completion.action = 0
          ∧ delayInterruptOf (st'.itds r.itd).flags = 7)
        ∧ (st'.itds last.itd).completion = completion
        ∧ delayInterruptOf (st'.itds last.itd).flags = 0 := by
  unfold UIMCreateIsochTransfer.queue at h
  split at h
  · rename_i error hw
    simp only [Outcome.ret.injEq, Prod.mk.injEq] at h
    exact absurd h.1 (isochFrameWindow_error hw)
  split at h
  · simp only [Outcome.ret.injEq, Prod.mk.injEq] at h
    cases h.1
  rename_i bufferSize hsize
  rcases hp : st.pFreeITD with _ | ⟨n, rest⟩
  · rw [AllocateITD_nil _ hp] at h
    simp only [Outcome.ret.injEq, Prod.mk.injEq] at h
    cases h.1
  rw [AllocateITD_cons _ n rest hp] at h
  dsimp only at h
  obtain ⟨⟨s1, lE⟩, hloop, hfin⟩ := Outcome.bind_eq_ret h
  dsimp only at hfin
  have hs1 : s1 = .kIOReturnSuccess := (UIMCreateIsochTransfer.finish_eds hfin).1.symm
  subst hs1
  rw [← UIMCreateIsochTransferLL.loop_standard pBuffer frameCount pFrames (toUInt16 s) tdType
    bufferSize 0 (Or.inl rfl) _ _ (IsochCounting.entry _ pED n bufferSize hCount.1)] at hloop
  obtain ⟨done, pre, rs, f0, b, hI, hF, hM, hmap, hreq⟩ :=
    UIMCreateIsochTransferLL.loop_marked pBuffer pFrames tdType bufferSize 0
      (IsochTransferLoop.init { st with pFreeITD := rest } pED n bufferSize) hnd hT0 hCount.2
      _ _ lE [] [] [] 0 hloop IsochLoopReachable.entry
      (IsochBuilding.isoch_init st pED n bufferSize rest hp)
      (IsochCounting.entry _ pED n bufferSize hCount.1)
      ⟨rfl, fun r hr => absurd hr (List.not_mem_nil r), rfl,
        fun hpos => (Nat.lt_irrefl 0 hpos).elim⟩
      ⟨fun r hr => absurd hr (List.not_mem_nil r), fun r hr => absurd hr (List.not_mem_nil r),
        fun r hr => absurd hr (List.not_mem_nil r), fun _ => Nat.zero_le _⟩ rfl (Nat.zero_le _)
  obtain ⟨closed, last, c1, c2, c3, c4, c5, c6, c7⟩ :=
    IsochMarked.finish_marked hnd hT0 b hI hF hM hmap hreq hfin
  refine ⟨closed, last, c1, c2, fun r hr => ⟨(c3 r hr).1, (c3 r hr).2.1⟩, c4,
    fun r hr => ⟨(c5 r hr).1, ?_⟩, c6, c7⟩
  have := (c5 r hr).2.1
  rw [if_neg (fun hh => hh.1 rfl)] at this
  exact this

theorem IsochRunsCover.count_pos :
    ∀ (rs : List IsochRun) (i n : Nat), IsochRunsCover rs i n → ∀ r ∈ rs, 1 ≤ r.count
  | [], _, _, _, r, hr => absurd hr (List.not_mem_nil r)
  | x :: rs, i, n, h, r, hr => by
    obtain ⟨-, h2, h3⟩ := h
    rw [List.mem_cons] at hr
    rcases hr with rfl | hr
    · exact h2
    · exact IsochRunsCover.count_pos rs _ n h3 r hr

theorem exampleLowLatencyState_call :
    UIMCreateIsochTransferLL exampleHeader exampleBulkQueuedState 5 5 1 ⟨1, 2, 3⟩ kUSBOut 100010
      exampleScatteredBuffer 3 7 2 = .ret (.kIOReturnSuccess, exampleLowLatencyState) :=
  Outcome.ret_stateOr _ ⟨_, rfl⟩

/-- C32: when the standard `UIMCreateIsochTransfer` returns success, on an endpoint whose
placeholder is not in the pool and with a pool without repetitions, the chain it built from the
old tail placeholder to the new tail consists of the iTDs of the runs `closed` followed by the
iTD of the run `last`, all different, which hold the frames of the request; every iTD of
`closed` has a null completion action and the delay interrupt field 111b, and the last iTD has
the completion of the caller and the delay interrupt field 0.  When the low latency variant
returns success, the same holds with this difference: the delay interrupt field of an iTD of
`closed` is 0 when `updateFrequency` is not 0 and the iTD holds at least `updateFrequency`
frames, and 111b otherwise. -/
theorem UIMCreateIsochTransfer_interrupt_marks (H : Header) (st st' : AppleUSBOHCI)
    (fuel functionAddress endpointNumber : Nat) (completion : IOUSBCompletion)
    (direction frameNumberStart : Nat) (pBuffer : IOMemoryDescriptor)
    (frameCount pFrames updateFrequency pED back : Nat)
    (hFound : FindIsochronousEndpoint st fuel functionAddress endpointNumber
      (edDirection direction) = .ret (some (pED, back)))
    (hPool : st.pFreeITD.Nodup) (hTail : (st.eds pED).pLogicalTailP ∉ st.pFreeITD) :
    (UIMCreateIsochTransfer H st fuel functionAddress endpointNumber completion direction
        frameNumberStart pBuffer frameCount pFrames = .ret (.kIOReturnSuccess, st') →
      ∃ (closed : List IsochRun) (last : IsochRun),
        ITDChain st'.itds (st.eds pED).pLogicalTailP
            ((closed ++ [last]).map fun r => r.itd) (st'.eds pED).pLogicalTailP
          ∧ IsochRunsCover (closed ++ [last]) 0 frameCount
          ∧ (∀ r ∈ closed ++ [last], r.recorded st'.itds frameNumberStart ∧ r.count ≤ 8)
          ∧ ((closed ++ [last]).map fun r => r.itd).Nodup
          ∧ (∀ r ∈ closed, (st'.itds r.itd).completion.action = 0
            ∧ delayInterruptOf (st'.itds r.itd).flags = 7)
          ∧ (st'.itds last.itd).completion = completion
          ∧ delayInterruptOf (st'.itds last.itd).flags = 0)
    ∧ (UIMCreateIsochTransferLL H st fuel functionAddress endpointNumber completion direction
        frameNumberStart pBuffer frameCount pFrames updateFrequency
        = .ret (.kIOReturnSuccess, st') →
      ∃ (closed : List IsochRun) (last : IsochRun),
        ITDChain st'.itds (st.eds pED).pLogicalTailP
            ((closed ++ [last]).map fun r => r.itd) (st'.eds pED).pLogicalTailP
          ∧ IsochRunsCover (closed ++ [last]) 0 frameCount
          ∧ (∀ r ∈ closed ++ [last], r.recorded st'.itds frameNumberStart ∧ r.count ≤ 8)
          ∧ ((closed ++ [last]).map fun r => r.itd).Nodup
          ∧ (∀ r ∈ closed, (st'.itds r.itd).completion.action = 0
            ∧ delayInterruptOf (st'.itds r.itd).flags
              = (if updateFrequency ≠ 0 ∧ updateFrequency ≤ r.count then 0 else 7))
          ∧ (st'.itds last.itd).completion = completion
          ∧ delayInterruptOf (st'.itds last.itd).flags = 0) := by
  constructor
  · intro h
    unfold UIMCreateIsochTransfer at h
    by_cases hcount : frameCount = 0 ∨ frameCount > 1000
    · rw [if_pos hcount] at h
      simp only [Outcome.ret.injEq, Prod.mk.injEq] at h
      cases h.1
    rw [if_neg hcount] at h
    by_cases hdir : direction ≠ kUSBOut ∧ direction ≠ kUSBIn
    · rw [if_pos hdir] at h
      simp only [Outcome.ret.injEq, Prod.mk.injEq] at h
      cases h.1
    rw [if_neg hdir] at h
    have hed := edDirection_of_in_out (show direction = kUSBOut ∨ direction = kUSBIn by tauto)
    dsimp only at h
    rw [hed, hFound] at h
    exact UIMCreateIsochTransfer.queue_marked_standard hPool hTail (by omega) h
  · intro h
    unfold UIMCreateIsochTransferLL at h
    by_cases hcount : frameCount = 0 ∨ frameCount > 1000
    · rw [if_pos hcount] at h
      simp only [Outcome.ret.injEq, Prod.mk.injEq] at h
      cases h.1
    rw [if_neg hcount] at h
    by_cases hdir : direction ≠ kUSBOut ∧ direction ≠ kUSBIn
    · rw [if_pos hdir] at h
      simp only [Outcome.ret.injEq, Prod.mk.injEq] at h
      cases h.1
    rw [if_neg hdir] at h
    have hed := edDirection_of_in_out (show direction = kUSBOut ∨ direction = kUSBIn by tauto)
    dsimp only at h
    rw [hed, hFound] at h
    obtain ⟨bufferSize, p, sB, sA, -, -, closed, last, c1, c2, c3, c4, c5, c6, c7⟩ :=
      UIMCreateIsochTransferLL.queue_marked hPool hTail (by omega) h
    exact ⟨closed, last, c1, c2, fun r hr => ⟨(c3 r hr).1, (c3 r hr).2.1⟩, c4,
      fun r hr => ⟨(c5 r hr).1, (c5 r hr).2.1⟩, c6, c7⟩

/-- Witness for C32: on the example driver the standard request of 3 one-byte frames on three
pages succeeds on the isochronous endpoint 21, and so does the low latency request with an
update frequency of 2. -/
theorem UIMCreateIsochTransfer_interrupt_marks_witness :
    UIMCreateIsochTransfer exampleHeader exampleBulkQueuedState 5 5 1 ⟨1, 2, 3⟩ kUSBOut 100010
        exampleScatteredBuffer 3 7 = .ret (.kIOReturnSuccess, exampleTwoTransfersState)
      ∧ ∃ (closed : List IsochRun) (last : IsochRun),
        ITDChain exampleTwoTransfersState.itds (exampleBulkQueuedState.eds 21).pLogicalTailP
            ((closed ++ [last]).map fun r => r.itd)
            (exampleTwoTransfersState.eds 21).pLogicalTailP
          ∧ IsochRunsCover (closed ++ [last]) 0 3
          ∧ (∀ r ∈ closed ++ [last],
            r.recorded exampleTwoTransfersState.itds 100010 ∧ r.count ≤ 8)
          ∧ ((closed ++ [last]).map fun r => r.itd).Nodup
          ∧ (∀ r ∈ closed, (exampleTwoTransfersState.itds r.itd).completion.action = 0
            ∧ delayInterruptOf (exampleTwoTransfersState.itds r.itd).flags = 7)
          ∧ (exampleTwoTransfersState.itds last.itd).completion = ⟨1, 2, 3⟩
          ∧ delayInterruptOf (exampleTwoTransfersState.itds last.itd).flags = 0 :=
  ⟨exampleTwoTransfersState_call,
    (UIMCreateIsochTransfer_interrupt_marks exampleHeader exampleBulkQueuedState
      exampleTwoTransfersState 5 5 1 ⟨1, 2, 3⟩ kUSBOut 100010 exampleScatteredBuffer 3 7 2 21 5
      (by rfl) (by decide) (by decide)).1 exampleTwoTransfersState_call⟩

/-- C33: when the low latency `UIMCreateIsochTransfer` with an `updateFrequency` of at least 1
returns success, on an endpoint whose placeholder is not in the pool and with a pool without
repetitions, the chain it built from the old tail placeholder to the new tail consists of the
iTDs of the runs `closed` followed by the iTD of the run `last`, which hold the frames of the
request; every iTD records its run, of between 1 and `min 8 updateFrequency` frames; and every
iTD of `closed` holds exactly `min 8 updateFrequency` frames unless it was closed by the page
crossing rule, that is, unless a pass of the loop entered for this call (with the buffer size
`bufferSize` computed from the frame list and the first iTD `p` taken from the pool) found the
iTD as the current one with the frames of the run in it and the next frame on a page that asks
for a new iTD (`IsochRun.closedByPages`). -/
theorem UIMCreateIsochTransferLL_update_frequency (H : Header) (st st' : AppleUSBOHCI)
    (fuel functionAddress endpointNumber : Nat) (completion : IOUSBCompletion)
    (direction frameNumberStart : Nat) (pBuffer : IOMemoryDescriptor)
    (frameCount pFrames updateFrequency pED back : Nat)
    (hFound : FindIsochronousEndpoint st fuel functionAddress endpointNumber
      (edDirection direction) = .ret (some (pED, back)))
    (hPool : st.pFreeITD.Nodup) (hTail : (st.eds pED).pLogicalTailP ∉ st.pFreeITD)
    (hU : 1 ≤ updateFrequency)
    (h : UIMCreateIsochTransferLL H st fuel functionAddress endpointNumber completion direction
      frameNumberStart pBuffer frameCount pFrames updateFrequency
      = .ret (.kIOReturnSuccess, st')) :
    ∃ (bufferSize p : Nat) (sB sA : AppleUSBOHCI),
      UIMCreateIsochTransferLL.bufferSize H pFrames frameCount 0 0 st = (some bufferSize, sB)
        ∧ AllocateITD sB = (some p, sA)
        ∧ ∃ (closed : List IsochRun) (last : IsochRun),
          ITDChain st'.itds (st.eds pED).pLogicalTailP
              ((closed ++ [last]).map fun r => r.itd) (st'.eds pED).pLogicalTailP
            ∧ IsochRunsCover (closed ++ [last]) 0 frameCount
            ∧ (∀ r ∈ closed ++ [last], r.recorded st'.itds frameNumberStart
              ∧ 1 ≤ r.count ∧ r.count ≤ min 8 updateFrequency)
            ∧ ∀ r ∈ closed, r.count = min 8 updateFrequency
              ∨ r.closedByPages
                (UIMCreateIsochTransferLL.body pBuffer pFrames (toUInt16 frameNumberStart)
                  (if direction = kUSBOut then H.kOHCIIsochronousOutLowLatencyType
                    else H.kOHCIIsochronousInLowLatencyType) bufferSize updateFrequency)
                frameCount (IsochTransferLoop.init sA pED p bufferSize) pBuffer pFrames
                bufferSize := by
  unfold UIMCreateIsochTransferLL at h
  by_cases hcount : frameCount = 0 ∨ frameCount > 1000
  · rw [if_pos hcount] at h
    simp only [Outcome.ret.injEq, Prod.mk.injEq] at h
    cases h.1
  rw [if_neg hcount] at h
  by_cases hdir : direction ≠ kUSBOut ∧ direction ≠ kUSBIn
  · rw [if_pos hdir] at h
    simp only [Outcome.ret.injEq, Prod.mk.injEq] at h
    cases h.1
  rw [if_neg hdir] at h
  have hed := edDirection_of_in_out (show direction = kUSBOut ∨ direction = kUSBIn by tauto)
  dsimp only at h
  rw [hed, hFound] at h
  obtain ⟨bufferSize, p, sB, sA, hB, hA, closed, last, c1, c2, c3, -, c5, -, -⟩ :=
    UIMCreateIsochTransferLL.queue_marked hPool hTail (by omega) h
  have hne : updateFrequency ≠ 0 := by omega
  refine ⟨bufferSize, p, sB, sA, hB, hA, closed, last, c1, c2, fun r hr => ?_, fun r hr => ?_⟩
  · obtain ⟨r1, r2, r3⟩ := c3 r hr
    have r4 := r3 hne
    have r5 := IsochRunsCover.count_pos _ _ _ c2 r hr
    exact ⟨r1, r5, by omega⟩
  · obtain ⟨-, r2, r3⟩ := c3 r (List.mem_append_left _ hr)
    have r4 := r3 hne
    rcases (c5 r hr).2.2 with hc | hc | hc
    · exact Or.inl (by omega)
    · exact Or.inl (by omega)
    · exact Or.inr hc

/-- Witness for C33: on the example driver the low latency request of 3 one-byte frames on
three pages with an update frequency of 2 succeeds on the isochronous endpoint 21. -/
theorem UIMCreateIsochTransferLL_update_frequency_witness :
    UIMCreateIsochTransferLL exampleHeader exampleBulkQueuedState 5 5 1 ⟨1, 2, 3⟩ kUSBOut 100010
        exampleScatteredBuffer 3 7 2 = .ret (.kIOReturnSuccess, exampleLowLatencyState)
      ∧ ∃ (bufferSize p : Nat) (sB sA : AppleUSBOHCI),
        UIMCreateIsochTransferLL.bufferSize exampleHeader 7 3 0 0 exampleBulkQueuedState
            = (some bufferSize, sB)
          ∧ AllocateITD sB = (some p, sA)
          ∧ ∃ (closed : List IsochRun) (last : IsochRun),
            ITDChain exampleLowLatencyState.itds (exampleBulkQueuedState.eds 21).pLogicalTailP
                ((closed ++ [last]).map fun r => r.itd)
                (exampleLowLatencyState.eds 21).pLogicalTailP
              ∧ IsochRunsCover (closed ++ [last]) 0 3
              ∧ (∀ r ∈ closed ++ [last], r.recorded exampleLowLatencyState.itds 100010
                ∧ 1 ≤ r.count ∧ r.count ≤ min 8 2)
              ∧ ∀ r ∈ closed, r.count = min 8 2
                ∨ r.closedByPages
                  (UIMCreateIsochTransferLL.body exampleScatteredBuffer 7 (toUInt16 100010)
                    (if kUSBOut = kUSBOut then exampleHeader.kOHCIIsochronousOutLowLatencyType
                      else exampleHeader.kOHCIIsochronousInLowLatencyType) bufferSize 2)
                  3 (IsochTransferLoop.init sA 21 p bufferSize) exampleScatteredBuffer 7
                  bufferSize :=
  ⟨exampleLowLatencyState_call,
    UIMCreateIsochTransferLL_update_frequency exampleHeader exampleBulkQueuedState
      exampleLowLatencyState 5 5 1 ⟨1, 2, 3⟩ kUSBOut 100010 exampleScatteredBuffer 3 7 2 21 5
      (by rfl) (by decide) (by decide) (by decide) exampleLowLatencyState_call⟩

end OHCI
